import Mathlib

/-!
VolSync handler (`internal/controller/volsync/vshandler.go`)

A shallow embedding of the replication-endpoint orchestration engine.

* Kubernetes objects are records holding the fields the handler reads or writes.
* The cluster reached through `client.Client` is a `World`: one list of objects per
  kind, a fault oracle (`faults n` tells whether the `n`-th client call fails with a
  transient error), the number of client calls made so far, and the log of the
  mutating calls the handler issued.
* A Go method of `*VSHandler` is a function in the monad `M`, a state transformer
  over `World` whose `none` outcome is a Go run-time panic (nil dereference, write
  to a nil map).
* A Go result `(T, error)` is a pair whose second component is `Option Err`.
-/

namespace Volsync

/-! ## Strings and maps -/

/-- Go `map[string]string` with its keys in insertion order. -/
abbrev StrMap := List (String × String)

/-- Lookup `m[k]` with the comma-ok flag; a nil map reads like an empty one. -/
def mapLookup (m : Option StrMap) (k : String) : Option String :=
  match m with
  | none => none
  | some l => l.lookup k

/-- Lookup `m[k]`, the zero value `""` when the key is missing. -/
def mapGet (m : Option StrMap) (k : String) : String :=
  (mapLookup m k).getD ""

/-- Assignment `m[k] = v` on a non-nil map. -/
def mapSet : StrMap → String → String → StrMap
  | [], k, v => [(k, v)]
  | (k0, v0) :: rest, k, v => if k0 = k then (k, v) :: rest else (k0, v0) :: mapSet rest k v

/-- Builtin `delete(m, k)` on a non-nil map. -/
def mapDelete (m : StrMap) (k : String) : StrMap :=
  m.filter (fun p => p.1 != k)

/-- Builtin `delete(m, k)`; a no-op on a nil map. -/
def mapDeleteOpt (m : Option StrMap) (k : String) : Option StrMap :=
  m.map (fun l => mapDelete l k)

/-- Go `strings.HasPrefix(s, p)`. -/
def HasPrefix (s p : String) : Bool :=
  p.data.isPrefixOf s.data

/-! ## Object metadata -/

/-- Go `metav1.OwnerReference`. -/
structure OwnerReference where
  APIVersion : String := ""
  Kind : String := ""
  Name : String := ""
  UID : String := ""
  Controller : Bool := false
  BlockOwnerDeletion : Bool := false
deriving DecidableEq, Repr

/-- Go `metav1.ObjectMeta`; a timestamp is a number and `0` is the zero time. -/
structure ObjectMeta where
  Name : String := ""
  Namespace : String := ""
  UID : String := ""
  ResourceVersion : String := ""
  CreationTimestamp : Nat := 0
  DeletionTimestamp : Option Nat := none
  Labels : Option StrMap := none
  Annotations : Option StrMap := none
  OwnerReferences : List OwnerReference := []
  Finalizers : List String := []
deriving DecidableEq, Repr

/-- Go `types.NamespacedName`. -/
structure NamespacedName where
  Namespace : String := ""
  Name : String := ""
deriving DecidableEq, Repr

/-- Go `corev1.TypedLocalObjectReference`. -/
structure TypedLocalObjectReference where
  APIGroup : Option String := none
  Kind : String := ""
  Name : String := ""
deriving DecidableEq, Repr

/-- Go `corev1.ObjectReference`. -/
structure ObjectReference where
  Kind : String := ""
  Namespace : String := ""
  Name : String := ""
  UID : String := ""
  APIVersion : String := ""
  ResourceVersion : String := ""
  FieldPath : String := ""
deriving DecidableEq, Repr

/-- Storage quantities (`resource.Quantity`) are counted in bytes. -/
abbrev Quantity := Nat

/-! ## Kubernetes objects -/

/-- Go `corev1.PersistentVolumeClaimSpec`; `Requests` is the storage entry of
`Resources.Requests`, absent when the list has none. -/
structure PersistentVolumeClaimSpec where
  AccessModes : List String := []
  Requests : Option Quantity := none
  VolumeName : String := ""
  StorageClassName : Option String := none
  VolumeMode : Option String := none
  DataSource : Option TypedLocalObjectReference := none
deriving DecidableEq, Repr

/-- Go `corev1.PersistentVolumeClaim`; `Phase` is `Status.Phase`. -/
structure PersistentVolumeClaim where
  ObjectMeta : ObjectMeta := {}
  Spec : PersistentVolumeClaimSpec := {}
  Phase : String := ""
deriving DecidableEq, Repr

/-- Go `corev1.PersistentVolumeSpec`. -/
structure PersistentVolumeSpec where
  ClaimRef : Option ObjectReference := none
  PersistentVolumeReclaimPolicy : String := ""
deriving DecidableEq, Repr

/-- Go `corev1.PersistentVolume` (cluster scoped: its namespace is empty). -/
structure PersistentVolume where
  ObjectMeta : ObjectMeta := {}
  Spec : PersistentVolumeSpec := {}
deriving DecidableEq, Repr

/-- Go `volsyncv1alpha1.ReplicationSourceTriggerSpec`. -/
structure ReplicationSourceTriggerSpec where
  Schedule : Option String := none
  Manual : String := ""
deriving DecidableEq, Repr

/-- Go `volsyncv1alpha1.ReplicationSourceRsyncTLSSpec` with its embedded volume options. -/
structure ReplicationSourceRsyncTLSSpec where
  KeySecret : Option String := none
  Address : Option String := none
  CopyMethod : String := ""
  VolumeSnapshotClassName : Option String := none
  StorageClassName : Option String := none
  AccessModes : List String := []
deriving DecidableEq, Repr

/-- Go `volsyncv1alpha1.ReplicationSourceSpec`. -/
structure ReplicationSourceSpec where
  SourcePVC : String := ""
  Trigger : Option ReplicationSourceTriggerSpec := none
  Paused : Bool := false
  RsyncTLS : Option ReplicationSourceRsyncTLSSpec := none
deriving DecidableEq, Repr

/-- Go `volsyncv1alpha1.ReplicationSourceStatus`; `LatestMoverStatus` holds the
mover's logs and is a pointer. -/
structure ReplicationSourceStatus where
  LastManualSync : String := ""
  LastSyncTime : Option Nat := none
  LatestMoverStatus : Option String := none
deriving DecidableEq, Repr

/-- Go `volsyncv1alpha1.ReplicationSource`. -/
structure ReplicationSource where
  ObjectMeta : ObjectMeta := {}
  Spec : ReplicationSourceSpec := {}
  Status : Option ReplicationSourceStatus := none
deriving DecidableEq, Repr

/-- Go `volsyncv1alpha1.ReplicationDestinationRsyncTLSSpec` with its embedded volume options. -/
structure ReplicationDestinationRsyncTLSSpec where
  ServiceType : Option String := none
  KeySecret : Option String := none
  CopyMethod : String := ""
  Capacity : Option Quantity := none
  StorageClassName : Option String := none
  AccessModes : List String := []
  VolumeSnapshotClassName : Option String := none
  DestinationPVC : Option String := none
deriving DecidableEq, Repr

/-- Go `volsyncv1alpha1.ReplicationDestinationSpec`. -/
structure ReplicationDestinationSpec where
  Paused : Bool := false
  RsyncTLS : Option ReplicationDestinationRsyncTLSSpec := none
deriving DecidableEq, Repr

/-- Go `volsyncv1alpha1.ReplicationDestinationRsyncTLSStatus`. -/
structure ReplicationDestinationRsyncTLSStatus where
  Address : Option String := none
deriving DecidableEq, Repr

/-- Go `volsyncv1alpha1.ReplicationDestinationStatus`. -/
structure ReplicationDestinationStatus where
  RsyncTLS : Option ReplicationDestinationRsyncTLSStatus := none
  LatestImage : Option TypedLocalObjectReference := none
deriving DecidableEq, Repr

/-- Go `volsyncv1alpha1.ReplicationDestination`. -/
structure ReplicationDestination where
  ObjectMeta : ObjectMeta := {}
  Spec : ReplicationDestinationSpec := {}
  Status : Option ReplicationDestinationStatus := none
deriving DecidableEq, Repr

/-- Go `snapv1.VolumeSnapshotStatus`. -/
structure VolumeSnapshotStatus where
  RestoreSize : Option Quantity := none
deriving DecidableEq, Repr

/-- Go `snapv1.VolumeSnapshot`. -/
structure VolumeSnapshot where
  ObjectMeta : ObjectMeta := {}
  Status : Option VolumeSnapshotStatus := none
deriving DecidableEq, Repr

/-- Go `snapv1.VolumeSnapshotClass` (cluster scoped). -/
structure VolumeSnapshotClass where
  ObjectMeta : ObjectMeta := {}
  Driver : String := ""
deriving DecidableEq, Repr

/-- Go `storagev1.StorageClass` (cluster scoped). -/
structure StorageClass where
  ObjectMeta : ObjectMeta := {}
  Provisioner : String := ""
deriving DecidableEq, Repr

/-- Go `corev1.Secret`; `Data` stands for the payload, copied by value. -/
structure Secret where
  ObjectMeta : ObjectMeta := {}
  Data : String := ""
deriving DecidableEq, Repr

/-- The `ServiceExport` built as an `unstructured.Unstructured`: metadata only. -/
structure ServiceExport where
  ObjectMeta : ObjectMeta := {}
deriving DecidableEq, Repr

/-- Go `corev1.Pod`: the claims named by its volumes, and its Ready condition. -/
structure Pod where
  ObjectMeta : ObjectMeta := {}
  ClaimNames : List String := []
  Ready : Bool := false
deriving DecidableEq, Repr

/-- Go `storagev1.VolumeAttachment`: `Spec.Source.PersistentVolumeName`. -/
structure VolumeAttachment where
  ObjectMeta : ObjectMeta := {}
  PersistentVolumeName : Option String := none
deriving DecidableEq, Repr

/-- Go `batchv1.Job`. -/
structure Job where
  ObjectMeta : ObjectMeta := {}
deriving DecidableEq, Repr

/-! ## The cluster behind `client.Client` -/

/-- Errors: `notFound` and `alreadyExists` are the API errors recognised by
`errors.IsNotFound` and `errors.IsAlreadyExists` (wrapping with `%w` keeps them
recognisable), `transient` is any other failure of a client call, and `msg` is an
error built by the handler itself with `fmt.Errorf`. -/
inductive Err where
  | notFound
  | alreadyExists
  | transient
  | msg (text : String)
deriving DecidableEq, Repr

/-- Go `errors.IsNotFound`. -/
def Err.IsNotFound : Err → Bool
  | .notFound => true
  | _ => false

/-- The mutating verbs of `client.Client`. -/
inductive Verb where
  | create
  | update
  | delete
deriving DecidableEq, Repr

/-- One mutating client call, as issued. -/
structure Call where
  verb : Verb
  kind : String
  Namespace : String
  Name : String
deriving DecidableEq, Repr

/-- The state a reconcile runs against: the objects of the cluster by kind, the fault
oracle and call counter of the client, the log of mutating calls, and the two fields
of `VSHandler` that its methods assign (`workloadStatus`, `volumeSnapshotClassList`). -/
structure World where
  secrets : List Secret := []
  pvcs : List PersistentVolumeClaim := []
  pvs : List PersistentVolume := []
  rss : List ReplicationSource := []
  rds : List ReplicationDestination := []
  snapshots : List VolumeSnapshot := []
  snapshotClasses : List VolumeSnapshotClass := []
  storageClasses : List StorageClass := []
  serviceExports : List ServiceExport := []
  pods : List Pod := []
  volumeAttachments : List VolumeAttachment := []
  jobs : List Job := []
  faults : Nat → Bool := fun _ => false
  calls : Nat := 0
  log : List Call := []
  workloadStatus : String := ""
  volumeSnapshotClassList : Option (List VolumeSnapshotClass) := none

/-- Computations of the handler: `none` is a run-time panic. -/
def M (α : Type) : Type := World → Option (α × World)

/-- Run a computation from a state. -/
def M.run {α : Type} (m : M α) (w : World) : Option (α × World) := m w

/-- Return without touching the state. -/
def M.pure {α : Type} (a : α) : M α := fun w => some (a, w)

/-- Sequencing; a panic of the first computation is a panic of the whole. -/
def M.bind {α β : Type} (m : M α) (f : α → M β) : M β := fun w =>
  match m w with
  | none => none
  | some (a, w1) => f a w1

instance : Monad M where
  pure := M.pure
  bind := M.bind

/-- A Go run-time panic. -/
def throwPanic {α : Type} : M α := fun _ => none

/-- Dereference of a pointer: a panic when it is nil. -/
def deref {α : Type} : Option α → M α
  | none => throwPanic
  | some a => M.pure a

/-- Read the state. -/
def getWorld : M World := fun w => some (w, w)

/-- Apply a change to the state. -/
def modifyWorld (f : World → World) : M Unit := fun w => some ((), f w)

/-- What the handler needs of an object kind: the name used in the call log, access
to the metadata, and the list of the cluster holding the objects of this kind. -/
structure Kind (α : Type) where
  tag : String
  meta : α → ObjectMeta
  setMeta : α → ObjectMeta → α
  objs : World → List α
  put : World → List α → World

/-- Objects are identified by namespace and name. -/
def hasKey (m : ObjectMeta) (ns name : String) : Bool :=
  m.Namespace == ns && m.Name == name

/-- The object stored under a key, if any. -/
def storeGet {α : Type} (meta : α → ObjectMeta) (l : List α) (ns name : String) : Option α :=
  l.find? (fun o => hasKey (meta o) ns name)

/-- Go `util.ResourceIsDeleted` on metadata: the deletion timestamp is set and not zero. -/
def metaIsDeleted (m : ObjectMeta) : Bool :=
  match m.DeletionTimestamp with
  | none => false
  | some t => t != 0

/-- Mark metadata as being deleted at time `now`, keeping an earlier mark. -/
def markDeleted (m : ObjectMeta) (now : Nat) : ObjectMeta :=
  if metaIsDeleted m then m else { m with DeletionTimestamp := some now }

/-- API-server deletion: an object without finalizers is removed, one with finalizers
stays and gets a deletion timestamp. -/
def storeDelete {α : Type} (K : Kind α) (l : List α) (ns name : String) (now : Nat) : List α :=
  l.filterMap (fun o =>
    if hasKey (K.meta o) ns name then
      (if (K.meta o).Finalizers = [] then none else some (K.setMeta o (markDeleted (K.meta o) now)))
    else some o)

/-- API-server update: the stored object is replaced; an object being deleted whose
last finalizer is gone is removed. -/
def storeUpdate {α : Type} (K : Kind α) (l : List α) (o : α) : List α :=
  l.filterMap (fun x =>
    if hasKey (K.meta x) (K.meta o).Namespace (K.meta o).Name then
      (if metaIsDeleted (K.meta o) && (K.meta o).Finalizers.isEmpty then none else some o)
    else some x)

/-- The object as the API server stores it on creation: created now, not being deleted. -/
def asCreated {α : Type} (K : Kind α) (o : α) (now : Nat) : α :=
  K.setMeta o { K.meta o with CreationTimestamp := now, DeletionTimestamp := none }

/-! ## `client.Client` -/

/-- Go `client.Get`: the stored object, `notFound`, or a transient failure. -/
def clientGet {α : Type} (K : Kind α) (ns name : String) : M (Except Err α) := fun w =>
  let w1 := { w with calls := w.calls + 1 }
  if w.faults w.calls then some (.error .transient, w1)
  else
    match storeGet K.meta (K.objs w) ns name with
    | none => some (.error .notFound, w1)
    | some o => some (.ok o, w1)

/-- Whether an object carries every label of `sel` (`client.MatchingLabels`). -/
def matchesLabels (labels : Option StrMap) (sel : StrMap) : Bool :=
  sel.all (fun p => mapLookup labels p.1 == some p.2)

/-- Go `client.List` with `client.InNamespace(ns)` (the empty namespace lists every
namespace) and a filter on the metadata. -/
def clientList {α : Type} (K : Kind α) (ns : String) (sel : ObjectMeta → Bool) :
    M (Except Err (List α)) := fun w =>
  let w1 := { w with calls := w.calls + 1 }
  if w.faults w.calls then some (.error .transient, w1)
  else some (.ok ((K.objs w).filter (fun o =>
    (ns == "" || (K.meta o).Namespace == ns) && sel (K.meta o))), w1)

/-- Go `client.Create`: the object as stored, or `alreadyExists`, or a transient failure. -/
def clientCreate {α : Type} (K : Kind α) (o : α) : M (α × Option Err) := fun w =>
  let w1 := { w with calls := w.calls + 1,
                     log := w.log ++ [⟨.create, K.tag, (K.meta o).Namespace, (K.meta o).Name⟩] }
  if w.faults w.calls then some ((o, some .transient), w1)
  else
    match storeGet K.meta (K.objs w) (K.meta o).Namespace (K.meta o).Name with
    | some _ => some ((o, some .alreadyExists), w1)
    | none =>
      let o1 := asCreated K o (w.calls + 1)
      some ((o1, none), K.put w1 (K.objs w ++ [o1]))

/-- Go `client.Update`. -/
def clientUpdate {α : Type} (K : Kind α) (o : α) : M (Option Err) := fun w =>
  let w1 := { w with calls := w.calls + 1,
                     log := w.log ++ [⟨.update, K.tag, (K.meta o).Namespace, (K.meta o).Name⟩] }
  if w.faults w.calls then some (some .transient, w1)
  else
    match storeGet K.meta (K.objs w) (K.meta o).Namespace (K.meta o).Name with
    | none => some (some .notFound, w1)
    | some _ => some (none, K.put w1 (storeUpdate K (K.objs w) o))

/-- Go `client.Delete`. -/
def clientDelete {α : Type} (K : Kind α) (o : α) : M (Option Err) := fun w =>
  let w1 := { w with calls := w.calls + 1,
                     log := w.log ++ [⟨.delete, K.tag, (K.meta o).Namespace, (K.meta o).Name⟩] }
  if w.faults w.calls then some (some .transient, w1)
  else
    match storeGet K.meta (K.objs w) (K.meta o).Namespace (K.meta o).Name with
    | none => some (some .notFound, w1)
    | some _ =>
      some (none, K.put w1 (storeDelete K (K.objs w) (K.meta o).Namespace (K.meta o).Name (w.calls + 1)))

/-- Go `client.IgnoreNotFound`. -/
def IgnoreNotFound : Option Err → Option Err
  | some .notFound => none
  | e => e

/-! ### The kinds the handler touches -/

/-- Secrets. -/
def secretKind : Kind Secret where
  tag := "Secret"
  meta := fun o => o.ObjectMeta
  setMeta := fun o m => { o with ObjectMeta := m }
  objs := fun w => w.secrets
  put := fun w l => { w with secrets := l }

/-- Persistent volume claims. -/
def pvcKind : Kind PersistentVolumeClaim where
  tag := "PersistentVolumeClaim"
  meta := fun o => o.ObjectMeta
  setMeta := fun o m => { o with ObjectMeta := m }
  objs := fun w => w.pvcs
  put := fun w l => { w with pvcs := l }

/-- Persistent volumes. -/
def pvKind : Kind PersistentVolume where
  tag := "PersistentVolume"
  meta := fun o => o.ObjectMeta
  setMeta := fun o m => { o with ObjectMeta := m }
  objs := fun w => w.pvs
  put := fun w l => { w with pvs := l }

/-- Replication sources. -/
def rsKind : Kind ReplicationSource where
  tag := "ReplicationSource"
  meta := fun o => o.ObjectMeta
  setMeta := fun o m => { o with ObjectMeta := m }
  objs := fun w => w.rss
  put := fun w l => { w with rss := l }

/-- Replication destinations. -/
def rdKind : Kind ReplicationDestination where
  tag := "ReplicationDestination"
  meta := fun o => o.ObjectMeta
  setMeta := fun o m => { o with ObjectMeta := m }
  objs := fun w => w.rds
  put := fun w l => { w with rds := l }

/-- Volume snapshots. -/
def snapshotKind : Kind VolumeSnapshot where
  tag := "VolumeSnapshot"
  meta := fun o => o.ObjectMeta
  setMeta := fun o m => { o with ObjectMeta := m }
  objs := fun w => w.snapshots
  put := fun w l => { w with snapshots := l }

/-- Volume snapshot classes. -/
def snapshotClassKind : Kind VolumeSnapshotClass where
  tag := "VolumeSnapshotClass"
  meta := fun o => o.ObjectMeta
  setMeta := fun o m => { o with ObjectMeta := m }
  objs := fun w => w.snapshotClasses
  put := fun w l => { w with snapshotClasses := l }

/-- Storage classes. -/
def storageClassKind : Kind StorageClass where
  tag := "StorageClass"
  meta := fun o => o.ObjectMeta
  setMeta := fun o m => { o with ObjectMeta := m }
  objs := fun w => w.storageClasses
  put := fun w l => { w with storageClasses := l }

/-- Service exports. -/
def serviceExportKind : Kind ServiceExport where
  tag := "ServiceExport"
  meta := fun o => o.ObjectMeta
  setMeta := fun o m => { o with ObjectMeta := m }
  objs := fun w => w.serviceExports
  put := fun w l => { w with serviceExports := l }

/-- Pods. -/
def podKind : Kind Pod where
  tag := "Pod"
  meta := fun o => o.ObjectMeta
  setMeta := fun o m => { o with ObjectMeta := m }
  objs := fun w => w.pods
  put := fun w l => { w with pods := l }

/-- Volume attachments. -/
def volumeAttachmentKind : Kind VolumeAttachment where
  tag := "VolumeAttachment"
  meta := fun o => o.ObjectMeta
  setMeta := fun o m => { o with ObjectMeta := m }
  objs := fun w => w.volumeAttachments
  put := fun w l => { w with volumeAttachments := l }

/-- Jobs. -/
def jobKind : Kind Job where
  tag := "Job"
  meta := fun o => o.ObjectMeta
  setMeta := fun o m => { o with ObjectMeta := m }
  objs := fun w => w.jobs
  put := fun w l => { w with jobs := l }

/-! ## Constants of `vshandler.go` -/

def VolumeSnapshotKind : String := "VolumeSnapshot"
def VolumeSnapshotIsDefaultAnnotation : String := "snapshot.storage.kubernetes.io/is-default-class"
def VolumeSnapshotIsDefaultAnnotationValue : String := "true"
def VRGOwnerNameLabel : String := "volumereplicationgroups-owner"
def VRGOwnerNamespaceLabel : String := "volumereplicationgroups-owner-namespace"
def FinalSyncTriggerString : String := "vrg-final-sync"
def PrepareForFinalSyncTriggerString : String := "PREPARE-FOR-FINAL-SYNC-STOP-SCHEDULING"
def SchedulingIntervalMinLength : Nat := 2
def CronSpecMaxDayOfMonth : Int := 28
def VolSyncDoNotDeleteLabel : String := "volsync.backube/do-not-delete"
def VolSyncDoNotDeleteLabelVal : String := "true"
def ACMAppSubDoNotDeleteAnnotation : String := "apps.open-cluster-management.io/do-not-delete"
def ACMAppSubDoNotDeleteAnnotationVal : String := "true"
def OwnerNameAnnotation : String := "ramendr.openshift.io/owner-name"
def OwnerNamespaceAnnotation : String := "ramendr.openshift.io/owner-namespace"
def StorageIDLabel : String := "ramendr.openshift.io/storageid"
def PVAnnotationRetentionKey : String := "volumereplicationgroups.ramendr.openshift.io/volsync-retained"
def PVAnnotationRetentionValue : String := "retained"
def PVCFinalizerProtected : String := "volumereplicationgroups.ramendr.openshift.io/pvc-volsync-protection"

/-! Constants of the Kubernetes and VolSync APIs. -/

def CopyMethodSnapshot : String := "Snapshot"
def CopyMethodDirect : String := "Direct"
def ClaimBound : String := "Bound"
def ClaimLost : String := "Lost"
def PersistentVolumeReclaimRetain : String := "Retain"
def PersistentVolumeReclaimDelete : String := "Delete"
def ReadWriteOnce : String := "ReadWriteOnce"
def ReadOnlyMany : String := "ReadOnlyMany"
def PersistentVolumeFilesystem : String := "Filesystem"
def PersistentVolumeBlock : String := "Block"
def SnapshotGroupName : String := "snapshot.storage.k8s.io"

/-! ## Types declared outside `vshandler.go` -/

/-- Go `ramendrv1alpha1.ProtectedPVC`; `Requests` is the storage entry of
`Resources.Requests`. -/
structure ProtectedPVC where
  Namespace : String := ""
  Name : String := ""
  ProtectedByVolSync : Bool := false
  StorageClassName : Option String := none
  Annotations : Option StrMap := none
  Labels : Option StrMap := none
  AccessModes : List String := []
  Requests : Option Quantity := none
  VolumeMode : Option String := none
deriving DecidableEq, Repr

/-- Go `ramendrv1alpha1.VolSyncReplicationDestinationSpec`. -/
structure VolSyncReplicationDestinationSpec where
  ProtectedPVC : ProtectedPVC := {}
deriving DecidableEq, Repr

/-- Go `ramendrv1alpha1.VolSyncReplicationSourceSpec`. -/
structure VolSyncReplicationSourceSpec where
  ProtectedPVC : ProtectedPVC := {}
deriving DecidableEq, Repr

/-- Go `ramendrv1alpha1.ReplicationState`. -/
inductive ReplicationState where
  | Primary
  | Secondary
  | Unknown
deriving DecidableEq, Repr

/-- Go `metav1.LabelSelectorRequirement`. -/
structure LabelSelectorRequirement where
  Key : String := ""
  Operator : String := ""
  Values : List String := []
deriving DecidableEq, Repr

/-- Go `metav1.LabelSelector`. -/
structure LabelSelector where
  MatchLabels : StrMap := []
  MatchExpressions : List LabelSelectorRequirement := []
deriving DecidableEq, Repr

/-- The owner of the handler (`metav1.Object`, the VolumeReplicationGroup) with the
group/version/kind the scheme gives it. -/
structure Owner where
  APIVersion : String := "ramendr.openshift.io/v1alpha1"
  Kind : String := "VolumeReplicationGroup"
  ObjectMeta : ObjectMeta := {}
deriving DecidableEq, Repr

/-- Go `VSHandler`, without `ctx`, `client` and `log`; the two fields its methods
assign, `workloadStatus` and `volumeSnapshotClassList`, live in `World`. -/
structure VSHandler where
  owner : Owner := {}
  schedulingInterval : String := ""
  volumeSnapshotClassSelector : LabelSelector := {}
  defaultCephFSCSIDriverName : String := ""
  destinationCopyMethod : String := ""
  vrgInAdminNamespace : Bool := false
deriving DecidableEq, Repr

/-- Go `ctrlutil.OperationResult`. -/
inductive OperationResult where
  | None
  | Created
  | Updated
deriving DecidableEq, Repr

/-! ## Helpers of apimachinery and controller-runtime -/

/-- The group of an `apiVersion` (`schema.ParseGroupVersion`): empty without a slash,
the text before the slash when there is one, an error with more. -/
def parseGroup (apiVersion : String) : Option String :=
  match apiVersion.data.count '/' with
  | 0 => some ""
  | 1 => some (String.mk (apiVersion.data.takeWhile (fun c => c != '/')))
  | _ => none

/-- Whether two owner references name the same object (`referSameObject`). -/
def referSameObject (a b : OwnerReference) : Bool :=
  match parseGroup a.APIVersion, parseGroup b.APIVersion with
  | some ga, some gb => ga == gb && a.Kind == b.Kind && a.Name == b.Name
  | _, _ => false

/-- Replace the reference naming the same object, or append (`upsertOwnerRef`). -/
def upsertOwnerRef (ref : OwnerReference) : List OwnerReference → List OwnerReference
  | [] => [ref]
  | r :: rest => if referSameObject r ref then ref :: rest else r :: upsertOwnerRef ref rest

/-- A namespaced owner must live in the namespace of the object (`validateOwner`). -/
def validateOwner (owner object : ObjectMeta) : Option Err :=
  if owner.Namespace != "" then
    if object.Namespace == "" then
      some (.msg "cluster-scoped resource must not have a namespace-scoped owner")
    else if owner.Namespace != object.Namespace then
      some (.msg "cross-namespace owner references are disallowed")
    else none
  else none

/-- Go `ctrlutil.SetOwnerReference` on the metadata of the object. -/
def SetOwnerReferenceMeta (apiVersion kind : String) (owner m : ObjectMeta) :
    ObjectMeta × Option Err :=
  match validateOwner owner m with
  | some e => (m, some e)
  | none =>
    let ref : OwnerReference :=
      { APIVersion := apiVersion, Kind := kind, Name := owner.Name, UID := owner.UID }
    ({ m with OwnerReferences := upsertOwnerRef ref m.OwnerReferences }, none)

/-- Go `ctrl.SetControllerReference` on the metadata of the object: it fails when the
object is already controlled by another owner. -/
def SetControllerReferenceMeta (apiVersion kind : String) (owner m : ObjectMeta) :
    ObjectMeta × Option Err :=
  match validateOwner owner m with
  | some e => (m, some e)
  | none =>
    let ref : OwnerReference :=
      { APIVersion := apiVersion, Kind := kind, Name := owner.Name, UID := owner.UID,
        Controller := true, BlockOwnerDeletion := true }
    match m.OwnerReferences.find? (fun r => r.Controller) with
    | some existing =>
      if referSameObject existing ref then
        ({ m with OwnerReferences := upsertOwnerRef ref m.OwnerReferences }, none)
      else (m, some (.msg "object is already owned by another controller"))
    | none => ({ m with OwnerReferences := upsertOwnerRef ref m.OwnerReferences }, none)

/-- Go `ctrl.SetControllerReference(v.owner, obj, scheme)`. -/
def SetControllerReference {α : Type} (K : Kind α) (owner : Owner) (o : α) : α × Option Err :=
  let r := SetControllerReferenceMeta owner.APIVersion owner.Kind owner.ObjectMeta (K.meta o)
  (K.setMeta o r.1, r.2)

/-- Go `ctrlutil.AddFinalizer` on a finalizer list: appended when missing. -/
def addFinalizer (fs : List String) (f : String) : List String :=
  if fs.contains f then fs else fs ++ [f]

/-- Go `ctrlutil.RemoveFinalizer` on a finalizer list. -/
def removeFinalizer (fs : List String) (f : String) : List String :=
  fs.filter (fun e => e != f)

/-- The validation `mutate` wraps around a `MutateFn`: the key must not change. A
`MutateFn` is a closure over the object; `none` is a panic inside it. -/
def mutate {α : Type} (K : Kind α) (f : α → Option (α × Option Err)) (ns name : String) (o : α) :
    Option (α × Option Err) :=
  match f o with
  | none => none
  | some (o1, some e) => some (o1, some e)
  | some (o1, none) =>
    if hasKey (K.meta o1) ns name then some (o1, none)
    else some (o1, some (.msg "MutateFn cannot mutate object name and/or object namespace"))

/-- Go `ctrlutil.CreateOrUpdate`: get the object; when it is missing, mutate the given
one and create it; otherwise mutate the stored one and update it if that changed it. -/
def CreateOrUpdate {α : Type} [DecidableEq α] (K : Kind α) (obj : α)
    (f : α → Option (α × Option Err)) : M (OperationResult × α × Option Err) := do
  let ns := (K.meta obj).Namespace
  let name := (K.meta obj).Name
  match ← clientGet K ns name with
  | .error e =>
    if e.IsNotFound then
      match mutate K f ns name obj with
      | none => throwPanic
      | some (o1, some e1) => pure (.None, o1, some e1)
      | some (o1, none) =>
        let (o2, cerr) ← clientCreate K o1
        match cerr with
        | some e2 => pure (.None, o2, some e2)
        | none => pure (.Created, o2, none)
    else pure (.None, obj, some e)
  | .ok existing =>
    match mutate K f ns name existing with
    | none => throwPanic
    | some (o1, some e1) => pure (.None, o1, some e1)
    | some (o1, none) =>
      if o1 = existing then pure (.None, o1, none)
      else
        let uerr ← clientUpdate K o1
        match uerr with
        | some e2 => pure (.None, o1, some e2)
        | none => pure (.Updated, o1, none)

/-- The validation `mutate` wraps around a `MutateFn` that also assigns a variable
it captured: `s` is the value of that variable. -/
def mutateWith {α σ : Type} (K : Kind α) (f : α → σ → Option (α × σ × Option Err))
    (ns name : String) (o : α) (s : σ) : Option (α × σ × Option Err) :=
  match f o s with
  | none => none
  | some (o1, s1, some e) => some (o1, s1, some e)
  | some (o1, s1, none) =>
    if hasKey (K.meta o1) ns name then some (o1, s1, none)
    else some (o1, s1, some (.msg "MutateFn cannot mutate object name and/or object namespace"))

/-- Go `ctrlutil.CreateOrUpdate` with a `MutateFn` that also assigns a variable it
captured, whose value before the call is `s` and after it the third result. -/
def CreateOrUpdateWith {α σ : Type} [DecidableEq α] (K : Kind α) (obj : α) (s : σ)
    (f : α → σ → Option (α × σ × Option Err)) : M (OperationResult × α × σ × Option Err) := do
  let ns := (K.meta obj).Namespace
  let name := (K.meta obj).Name
  match ← clientGet K ns name with
  | .error e =>
    if e.IsNotFound then
      match mutateWith K f ns name obj s with
      | none => throwPanic
      | some (o1, s1, some e1) => pure (.None, o1, s1, some e1)
      | some (o1, s1, none) =>
        let (o2, cerr) ← clientCreate K o1
        match cerr with
        | some e2 => pure (.None, o2, s1, some e2)
        | none => pure (.Created, o2, s1, none)
    else pure (.None, obj, s, some e)
  | .ok existing =>
    match mutateWith K f ns name existing s with
    | none => throwPanic
    | some (o1, s1, some e1) => pure (.None, o1, s1, some e1)
    | some (o1, s1, none) =>
      if o1 = existing then pure (.None, o1, s1, none)
      else
        let uerr ← clientUpdate K o1
        match uerr with
        | some e2 => pure (.None, o1, s1, some e2)
        | none => pure (.Updated, o1, s1, none)

/-! ## Helpers of package `util`

The package `internal/controller/util` is not part of the source tree at hand; the
helpers the handler calls are modelled from what the specification says they do. -/

namespace util

/-- Modelled from the spec: `util.CreatedByRamenLabel`, the "created-by" label key. -/
def CreatedByRamenLabel : String := "ramendr.openshift.io/created-by-ramen"

/-- Modelled from the spec: `util.AddLabel` sets a label on the metadata (allocating
the map when nil) and reports whether that changed it. -/
def metaAddLabel (m : ObjectMeta) (key value : String) : ObjectMeta × Bool :=
  if mapLookup m.Labels key = some value then (m, false)
  else ({ m with Labels := some (mapSet (m.Labels.getD []) key value) }, true)

/-- Modelled from the spec: `util.AddAnnotation` sets a marker in the annotations
(allocating the map when nil) and reports whether that changed them. -/
def metaAddAnnotation (m : ObjectMeta) (key value : String) : ObjectMeta × Bool :=
  if mapLookup m.Annotations key = some value then (m, false)
  else ({ m with Annotations := some (mapSet (m.Annotations.getD []) key value) }, true)

/-- Modelled from the spec: `util.AddLabel` on an object. -/
def AddLabel {α : Type} (K : Kind α) (o : α) (key value : String) : α :=
  K.setMeta o (metaAddLabel (K.meta o) key value).1

/-- Modelled from the spec: `util.AddOwnerReference` adds the owner with
`ctrlutil.SetOwnerReference` and reports whether the owner references changed. -/
def metaAddOwnerReference (m : ObjectMeta) (owner : Owner) : ObjectMeta × Bool × Option Err :=
  match SetOwnerReferenceMeta owner.APIVersion owner.Kind owner.ObjectMeta m with
  | (_, some e) => (m, false, some e)
  | (m1, none) => (m1, decide (m1.OwnerReferences ≠ m.OwnerReferences), none)

/-- Modelled from the spec: `util.HasLabelWithValue`. -/
def HasLabelWithValue (m : ObjectMeta) (key value : String) : Bool :=
  mapLookup m.Labels key == some value

/-- Modelled from the spec: `util.ResourceIsDeleted`, the object is marked deleted. -/
def ResourceIsDeleted (m : ObjectMeta) : Bool := metaIsDeleted m

/-- Modelled from the spec: `util.ProtectedPVCNamespacedName`. -/
def ProtectedPVCNamespacedName (p : ProtectedPVC) : NamespacedName :=
  { Namespace := p.Namespace, Name := p.Name }

/-- Modelled from the spec: `util.UpdateStringMap` copies every entry of `src` into
the destination map, allocating it when nil. -/
def UpdateStringMap (dst src : Option StrMap) : Option StrMap :=
  match src with
  | none => dst
  | some [] => dst
  | some l => some (l.foldl (fun acc p => mapSet acc p.1 p.2) (dst.getD []))

/-- Modelled from the spec: `util.GetServiceName`, "a fixed prefix plus the RD name". -/
def GetServiceName (pre name : String) : String := pre ++ name

/-- Modelled from the spec: `util.IsPVCMarkedForVolSync` reads the marker the
replication group carries when its claims are protected by VolSync. -/
def IsPVCMarkedForVolSync (annotations : Option StrMap) : Bool :=
  mapGet annotations "drplacementcontrol.ramendr.openshift.io/use-volsync-for-pvc-protection" == "true"

/-- Modelled from the spec: `util.DeletePVC` "deletes the claim": a missing claim is
not an error, any other failure is. -/
def DeletePVC (name ns : String) : M (Option Err) := do
  match ← clientGet pvcKind ns name with
  | .error e => if e.IsNotFound then pure none else pure (some e)
  | .ok pvc =>
    match ← clientDelete pvcKind pvc with
    | some e => if e.IsNotFound then pure none else pure (some e)
    | none => pure none

/-- Modelled from the spec: `util.IsPVCInUseByPod`, the claim "is mounted by a pod":
some pod of the namespace names it in a volume (and is Ready, when that is asked). -/
def IsPVCInUseByPod (key : NamespacedName) (inUsePodMustBeReady : Bool) :
    M (Bool × Option Err) := do
  match ← clientList podKind key.Namespace (fun _ => true) with
  | .error e => pure (false, some e)
  | .ok pods =>
    pure (pods.any (fun p => p.ClaimNames.contains key.Name
            && (!inUsePodMustBeReady || p.Ready)), none)

/-- Modelled from the spec: `util.IsPVAttachedToNode`, the volume of the claim is
still attached to a node: a volume attachment names it. -/
def IsPVAttachedToNode (pvc : PersistentVolumeClaim) : M (Bool × Option Err) := do
  if pvc.Spec.VolumeName == "" then pure (false, none)
  else
    match ← clientList volumeAttachmentKind "" (fun _ => true) with
    | .error e => pure (false, some e)
    | .ok vas =>
      pure (vas.any (fun va => va.PersistentVolumeName == some pvc.Spec.VolumeName), none)

/-- Modelled from the spec: `util.ResourceUpdater` collects changes to one object
and writes them with a single update, issued only if something changed. -/
structure ResourceUpdater (α : Type) where
  obj : α
  objModified : Bool := false
  err : Option Err := none

/-- Modelled from the spec: `util.NewResourceUpdater`. -/
def NewResourceUpdater {α : Type} (obj : α) : ResourceUpdater α :=
  { obj := obj }

/-- Modelled from the spec: `ResourceUpdater.AddLabel`. -/
def ResourceUpdater.AddLabel {α : Type} (K : Kind α) (u : ResourceUpdater α)
    (key value : String) : ResourceUpdater α :=
  let r := metaAddLabel (K.meta u.obj) key value
  { u with obj := K.setMeta u.obj r.1, objModified := u.objModified || r.2 }

/-- Modelled from the spec: `ResourceUpdater.DeleteLabel`. -/
def ResourceUpdater.DeleteLabel {α : Type} (K : Kind α) (u : ResourceUpdater α)
    (key : String) : ResourceUpdater α :=
  let m := K.meta u.obj
  if (mapLookup m.Labels key).isSome then
    { u with obj := K.setMeta u.obj { m with Labels := mapDeleteOpt m.Labels key },
             objModified := true }
  else u

/-- Modelled from the spec: `ResourceUpdater.AddFinalizer`, "adds a protection finalizer". -/
def ResourceUpdater.AddFinalizer {α : Type} (K : Kind α) (u : ResourceUpdater α)
    (finalizerName : String) : ResourceUpdater α :=
  let m := K.meta u.obj
  if m.Finalizers.contains finalizerName then u
  else { u with obj := K.setMeta u.obj { m with Finalizers := addFinalizer m.Finalizers finalizerName },
                objModified := true }

/-- Modelled from the spec: `ResourceUpdater.RemoveFinalizer`. -/
def ResourceUpdater.RemoveFinalizer {α : Type} (K : Kind α) (u : ResourceUpdater α)
    (finalizerName : String) : ResourceUpdater α :=
  let m := K.meta u.obj
  if m.Finalizers.contains finalizerName then
    { u with obj := K.setMeta u.obj { m with Finalizers := removeFinalizer m.Finalizers finalizerName },
             objModified := true }
  else u

/-- Modelled from the spec: `ResourceUpdater.DeleteAnnotation`, "removes the platform's
do-not-delete marker". -/
def ResourceUpdater.DeleteAnnotation {α : Type} (K : Kind α) (u : ResourceUpdater α)
    (key : String) : ResourceUpdater α :=
  let m := K.meta u.obj
  if (mapLookup m.Annotations key).isSome then
    { u with obj := K.setMeta u.obj { m with Annotations := mapDeleteOpt m.Annotations key },
             objModified := true }
  else u

/-- Modelled from the spec: `ResourceUpdater.AddOwner`; a failure is kept for `Update`. -/
def ResourceUpdater.AddOwner {α : Type} (K : Kind α) (u : ResourceUpdater α)
    (owner : Owner) : ResourceUpdater α :=
  match metaAddOwnerReference (K.meta u.obj) owner with
  | (_, _, some e) => { u with err := some e }
  | (m1, added, none) => { u with obj := K.setMeta u.obj m1, objModified := u.objModified || added }

/-- Whether an owner reference names the owner of the handler. -/
def refersToOwner (owner : Owner) (r : OwnerReference) : Bool :=
  referSameObject r { APIVersion := owner.APIVersion, Kind := owner.Kind, Name := owner.ObjectMeta.Name }

/-- Modelled from the spec: `ResourceUpdater.RemoveOwner`, "removes this engine's owner
reference". -/
def ResourceUpdater.RemoveOwner {α : Type} (K : Kind α) (u : ResourceUpdater α)
    (owner : Owner) : ResourceUpdater α :=
  let m := K.meta u.obj
  if m.OwnerReferences.any (refersToOwner owner) then
    { u with obj := K.setMeta u.obj
                { m with OwnerReferences := m.OwnerReferences.filter (fun r => !refersToOwner owner r) },
             objModified := true }
  else u

/-- Modelled from the spec: `ResourceUpdater.Update` returns a failure kept earlier,
else writes the object when it was modified. -/
def ResourceUpdater.Update {α : Type} (K : Kind α) (u : ResourceUpdater α) : M (Option Err) :=
  match u.err with
  | some e => M.pure (some e)
  | none => if u.objModified then clientUpdate K u.obj else M.pure none

end util

/-! ## The handler -/

/-- Go `getTmpPVCNameForFinalSync`. -/
def getTmpPVCNameForFinalSync (pvcName : String) : String :=
  pvcName ++ "-for-finalsync"

/-- Go `getReplicationDestinationName`. -/
def getReplicationDestinationName (pvcName : String) : String := pvcName

/-- Go `getReplicationSourceName`. -/
def getReplicationSourceName (pvcName : String) : String := pvcName

/-- Go `getLocalReplicationName`. -/
def getLocalReplicationName (pvcName : String) : String := pvcName ++ "-local"

/-- Go `updateClaimRef`: rewrites a claim reference that is there, leaves a nil one. -/
def updateClaimRef (pv : PersistentVolume) (name ns : String) : PersistentVolume :=
  match pv.Spec.ClaimRef with
  | some cr =>
    let cr1 : ObjectReference :=
      { cr with UID := "", ResourceVersion := "", APIVersion := "", Name := name, Namespace := ns }
    { pv with Spec := { pv.Spec with ClaimRef := some cr1 } }
  | none => pv

/-- Modelled from the spec: `GetVolSyncPSKSecretNameFromVRGName`, declared in another
file of the package, names the pre-shared secret of a replication group. -/
def GetVolSyncPSKSecretNameFromVRGName (vrgName : String) : String :=
  vrgName ++ "-vs-secret"

/-- Modelled from the spec: `DefaultScheduleCronSpec`, declared in another file of the
package, is the "hard-coded default cron string". -/
def DefaultScheduleCronSpec : String := "*/10 * * * *"

/-- Modelled from the spec: `DefaultRsyncServiceType`, declared in another file of the
package. -/
def DefaultRsyncServiceType : String := "ClusterIP"

/-- Go `getLocalServiceNameForRD`. -/
def getLocalServiceNameForRD (rdName : String) : String :=
  util.GetServiceName "volsync-rsync-tls-dst-" rdName

/-- Go `getLocalServiceNameForRDFromPVCName`. -/
def getLocalServiceNameForRDFromPVCName (pvcName : String) : String :=
  getLocalServiceNameForRD (getReplicationDestinationName pvcName)

/-- Go `getRemoteServiceNameForRDFromPVCName`. -/
def getRemoteServiceNameForRDFromPVCName (pvcName rdNamespace : String) : String :=
  getLocalServiceNameForRDFromPVCName pvcName ++ "." ++ rdNamespace ++ ".svc.clusterset.local"

/-- Go `isLatestImageReady`. -/
def isLatestImageReady (latestImage : Option TypedLocalObjectReference) : Bool :=
  match latestImage with
  | none => false
  | some li => !(li.Name == "" || li.Kind != VolumeSnapshotKind)

/-- Go `objectRefMatches`. -/
def objectRefMatches (a b : Option TypedLocalObjectReference) : Bool :=
  match a, b with
  | none, b => b.isNone
  | some _, none => false
  | some x, some y => x.Kind == y.Kind && x.Name == y.Name

/-- Go `isDefaultVolumeSnapshotClass`. -/
def isDefaultVolumeSnapshotClass (volumeSnapshotClass : VolumeSnapshotClass) : Bool :=
  mapLookup volumeSnapshotClass.ObjectMeta.Annotations VolumeSnapshotIsDefaultAnnotation
    == some VolumeSnapshotIsDefaultAnnotationValue

/-- Go `isRSLastSyncTimeReady`. -/
def isRSLastSyncTimeReady (rsStatus : Option ReplicationSourceStatus) : Bool :=
  match rsStatus with
  | some st =>
    (match st.LastSyncTime with
     | some t => t != 0
     | none => false)
  | none => false

/-- Go `isFinalSyncComplete`. -/
def isFinalSyncComplete (replicationSource : ReplicationSource) : Bool :=
  match replicationSource.Status with
  | none => false
  | some st => !(st.LastManualSync != FinalSyncTriggerString)

/-- Go `RDStatusReady`. -/
def RDStatusReady (rd : ReplicationDestination) : Bool :=
  match rd.Status with
  | none => false
  | some st =>
    match st.RsyncTLS with
    | none => false
    | some tls => tls.Address.isSome

/-- Go `strconv.Atoi` on a 64-bit platform: an optional sign, then decimal digits
only, and a value that fits `int`. -/
def Atoi (s : String) : Option Int :=
  let split : Bool × List Char :=
    match s.data with
    | '-' :: r => (true, r)
    | '+' :: r => (false, r)
    | cs => (false, cs)
  let ds := split.2
  if ds.isEmpty then none
  else if !ds.all Char.isDigit then none
  else
    let n : Nat := ds.foldl (fun acc c => acc * 10 + (c.toNat - 48)) 0
    if split.1 then (if n > 2 ^ 63 then none else some (-(n : Int)))
    else (if n ≥ 2 ^ 63 then none else some (n : Int))

/-- Go `ConvertSchedulingIntervalToCronSpec`. Go slices the string by bytes: the
length is the byte length, and when the last character takes several bytes the
text before the last byte holds its leading bytes, which `Atoi` rejects. -/
def ConvertSchedulingIntervalToCronSpec (schedulingInterval : String) : Option String × Option Err :=
  if schedulingInterval.utf8ByteSize < SchedulingIntervalMinLength then
    (none, some (.msg ("scheduling interval " ++ schedulingInterval ++ " is invalid")))
  else
    match schedulingInterval.data.getLast? with
    | none => (none, some (.msg ("scheduling interval " ++ schedulingInterval ++ " is invalid")))
    | some last =>
      let multiByte := decide (last.toNat ≥ 128)
      let mhd := last.toLower
      let num := String.mk schedulingInterval.data.dropLast
      match (if multiByte then none else Atoi num) with
      | none =>
        (none, some (.msg ("scheduling interval prefix " ++ num ++ " cannot be convered to an int value")))
      | some numInt =>
        let cronSpec : String :=
          if mhd == 'm' then "*/" ++ num ++ " * * * *"
          else if mhd == 'h' then "0 */" ++ num ++ " * * *"
          else if mhd == 'd' then
            "0 0 */" ++ (if numInt > CronSpecMaxDayOfMonth then "28" else num) ++ " * *"
          else ""
        if cronSpec == "" then
          (none, some (.msg ("scheduling interval " ++ schedulingInterval
            ++ " is invalid. Unable to parse m/h/d")))
        else (some cronSpec, none)

/-- Whether a requirement of a label selector is well formed (`labels.NewRequirement`:
`In` and `NotIn` need values, `Exists` and `DoesNotExist` take none). -/
def requirementValid (r : LabelSelectorRequirement) : Bool :=
  if r.Operator == "In" || r.Operator == "NotIn" then !r.Values.isEmpty
  else if r.Operator == "Exists" || r.Operator == "DoesNotExist" then r.Values.isEmpty
  else false

/-- Whether labels satisfy a requirement of a label selector. -/
def requirementMatches (labels : Option StrMap) (r : LabelSelectorRequirement) : Bool :=
  match mapLookup labels r.Key with
  | some val =>
    if r.Operator == "In" then r.Values.contains val
    else if r.Operator == "NotIn" then !r.Values.contains val
    else r.Operator == "Exists"
  | none => r.Operator == "NotIn" || r.Operator == "DoesNotExist"

/-- Go `metav1.LabelSelectorAsSelector`: the predicate on labels, or an error for a
malformed requirement. -/
def LabelSelectorAsSelector (ps : LabelSelector) : Except Err (Option StrMap → Bool) :=
  if ps.MatchExpressions.all requirementValid then
    .ok (fun labels => matchesLabels labels ps.MatchLabels
      && ps.MatchExpressions.all (requirementMatches labels))
  else .error (.msg "not a valid label selector")

namespace VSHandler

/-- Go `IsCopyMethodDirect`. -/
def IsCopyMethodDirect (v : VSHandler) : Bool :=
  v.destinationCopyMethod == CopyMethodDirect

/-- Go `getPVC`. -/
def getPVC (_v : VSHandler) (key : NamespacedName) :
    M (Option PersistentVolumeClaim × Option Err) := do
  match ← clientGet pvcKind key.Namespace key.Name with
  | .error e => pure (none, some e)
  | .ok pvc => pure (some pvc, none)

/-- Go `updateResource`. -/
def updateResource {α : Type} (_v : VSHandler) (K : Kind α) (obj : α) : M (Option Err) :=
  clientUpdate K obj

/-- Go `retainPVForPVC`. -/
def retainPVForPVC (v : VSHandler) (pvc : PersistentVolumeClaim) : M (Option Err) := do
  match ← clientGet pvKind "" pvc.Spec.VolumeName with
  | .error e => pure (some e)
  | .ok pv0 =>
    let annotations := pv0.ObjectMeta.Annotations.getD []
    let pv1 : PersistentVolume := { pv0 with ObjectMeta := { pv0.ObjectMeta with
      Annotations := some (mapSet annotations PVAnnotationRetentionKey PVAnnotationRetentionValue) } }
    let pv2 : PersistentVolume :=
      if pv1.Spec.ClaimRef.isSome then { pv1 with Spec := { pv1.Spec with ClaimRef := some {} } }
      else pv1
    let tmpPVCName := getTmpPVCNameForFinalSync pvc.ObjectMeta.Name
    let skip ←
      (if pv2.Spec.PersistentVolumeReclaimPolicy == PersistentVolumeReclaimRetain then do
        let cr ← deref pv2.Spec.ClaimRef
        pure (cr.Name == tmpPVCName && cr.Namespace == pvc.ObjectMeta.Namespace)
      else pure false)
    if skip then pure none
    else
      let pv3 : PersistentVolume := { pv2 with Spec := { pv2.Spec with
        PersistentVolumeReclaimPolicy := PersistentVolumeReclaimRetain } }
      let cr ← deref pv3.Spec.ClaimRef
      let pv4 := if cr.Name != tmpPVCName
        then updateClaimRef pv3 tmpPVCName pvc.ObjectMeta.Namespace else pv3
      v.updateResource pvKind pv4

/-- Go `undoAfterFinalSync`. -/
def undoAfterFinalSync (v : VSHandler) (pvcName pvcNamespace : String) : M (Option Err) := do
  let (tmpPVC, err) ← v.getPVC
    { Namespace := pvcNamespace, Name := getTmpPVCNameForFinalSync pvcName }
  let early ←
    (match err with
     | none => do
       let t ← deref tmpPVC
       clientDelete pvcKind t
     | some e =>
       if e.IsNotFound then pure none
       else do
         let t ← deref tmpPVC
         pure (some (Err.msg ("wait for tmp PVC '" ++ t.ObjectMeta.Name ++ "' to go away"))))
  match early with
  | some e => pure (some e)
  | none =>
    let (originalPVC, err1) ← v.getPVC { Namespace := pvcNamespace, Name := pvcName }
    match err1 with
    | some e => pure (some e)
    | none =>
      let originalPVC ← deref originalPVC
      match ← clientGet pvKind "" originalPVC.Spec.VolumeName with
      | .error e => pure (some e)
      | .ok pv0 =>
        let pv1 := updateClaimRef pv0 originalPVC.ObjectMeta.Name originalPVC.ObjectMeta.Namespace
        let pv2 : PersistentVolume := { pv1 with
          Spec := { pv1.Spec with PersistentVolumeReclaimPolicy := PersistentVolumeReclaimDelete },
          ObjectMeta := { pv1.ObjectMeta with
            Annotations := mapDeleteOpt pv1.ObjectMeta.Annotations PVAnnotationRetentionKey } }
        match ← v.updateResource pvKind pv2 with
        | some e => pure (some e)
        | none =>
          util.ResourceUpdater.Update pvcKind
            (util.ResourceUpdater.RemoveFinalizer pvcKind (util.NewResourceUpdater originalPVC)
              PVCFinalizerProtected)

/-- Go `addAnnotationAndVRGOwnerRefAndUpdate`; the first component is the object as
the caller's pointer sees it afterwards. -/
def addAnnotationAndVRGOwnerRefAndUpdate {α : Type} (v : VSHandler) (K : Kind α) (obj : α)
    (annotationName annotationValue : String) : M (α × Option Err) := do
  let r := util.metaAddAnnotation (K.meta obj) annotationName annotationValue
  let obj1 := K.setMeta obj r.1
  let annotationsUpdated := r.2
  let (m2, ownerRefUpdated, oerr) :=
    if !v.vrgInAdminNamespace then util.metaAddOwnerReference (K.meta obj1) v.owner
    else (K.meta obj1, false, none)
  match oerr with
  | some e => pure (obj1, some e)
  | none =>
    let obj2 := K.setMeta obj1 m2
    if annotationsUpdated || ownerRefUpdated then
      match ← clientUpdate K obj2 with
      | some e => pure (obj2, some e)
      | none => pure (obj2, none)
    else pure (obj2, none)

/-- Go `validatePVCAndAddVRGOwnerRef`. -/
def validatePVCAndAddVRGOwnerRef (v : VSHandler) (key : NamespacedName) :
    M (Option PersistentVolumeClaim × Option Err) := do
  let (pvc, err) ← v.getPVC key
  match err with
  | some e => pure (none, some e)
  | none =>
    let pvc ← deref pvc
    let (pvc1, err1) ← v.addAnnotationAndVRGOwnerRefAndUpdate pvcKind pvc
      ACMAppSubDoNotDeleteAnnotation ACMAppSubDoNotDeleteAnnotationVal
    match err1 with
    | some e => pure (none, some e)
    | none => pure (some pvc1, none)

/-- Go `TakePVCOwnership`. -/
def TakePVCOwnership (v : VSHandler) (key : NamespacedName) : M (Bool × Option Err) := do
  let (pvc, err) ← v.validatePVCAndAddVRGOwnerRef key
  match err with
  | some e => pure (false, some e)
  | none =>
    let pvc ← deref pvc
    match ← clientUpdate pvcKind pvc with
    | some e => pure (false, some e)
    | none => pure (true, none)

/-- Go `ReleasePVCOwnership`. -/
def ReleasePVCOwnership (v : VSHandler) (key : NamespacedName) :
    M (Option PersistentVolumeClaim × Option Err) := do
  let (pvc, err) ← v.getPVC key
  match err with
  | some e => pure (none, some e)
  | none =>
    let pvc ← deref pvc
    let u := util.ResourceUpdater.RemoveOwner pvcKind
      (util.ResourceUpdater.DeleteAnnotation pvcKind
        (util.ResourceUpdater.AddFinalizer pvcKind (util.NewResourceUpdater pvc) PVCFinalizerProtected)
        ACMAppSubDoNotDeleteAnnotation)
      v.owner
    let uerr ← util.ResourceUpdater.Update pvcKind u
    pure (some u.obj, uerr)

/-- The `matchLabels` of `listByOwner`: an object carries both owner labels of the
replication group. -/
def ownedBy (v : VSHandler) (m : ObjectMeta) : Bool :=
  matchesLabels m.Labels
    [(VRGOwnerNameLabel, v.owner.ObjectMeta.Name),
     (VRGOwnerNamespaceLabel, v.owner.ObjectMeta.Namespace)]

/-- Go `listByOwner`: the objects of a namespace carrying both owner labels of the
replication group. -/
def listByOwner {α : Type} (v : VSHandler) (K : Kind α) (objNamespace : String) :
    M (Except Err (List α)) :=
  clientList K objNamespace v.ownedBy

/-- Go `listRSByOwner`. -/
def listRSByOwner (v : VSHandler) (rsNamespace : String) :
    M (Except Err (List ReplicationSource)) :=
  v.listByOwner rsKind rsNamespace

/-- Go `listRDByOwner`. -/
def listRDByOwner (v : VSHandler) (rdNamespace : String) :
    M (Except Err (List ReplicationDestination)) :=
  v.listByOwner rdKind rdNamespace

/-- Go `getRS`. -/
def getRS (_v : VSHandler) (name ns : String) : M (Option ReplicationSource × Option Err) := do
  match ← clientGet rsKind ns name with
  | .error e => pure (none, some e)
  | .ok rs => pure (some rs, none)

/-- Go `getRD`: a missing destination is `(nil, nil)`. -/
def getRD (_v : VSHandler) (pvcName pvcNamespace : String) :
    M (Option ReplicationDestination × Option Err) := do
  match ← clientGet rdKind pvcNamespace (getReplicationDestinationName pvcName) with
  | .error e => if !e.IsNotFound then pure (none, some e) else pure (none, none)
  | .ok rd => pure (some rd, none)

/-- Go `getRDLatestImage`. -/
def getRDLatestImage (v : VSHandler) (pvcName pvcNamespace : String) :
    M (Option TypedLocalObjectReference × Option Err) := do
  let (rd, err) ← v.getRD pvcName pvcNamespace
  match err, rd with
  | some e, _ => pure (none, some e)
  | none, none => pure (none, none)
  | none, some rd =>
    match rd.Status with
    | some st => pure (st.LatestImage, none)
    | none => pure (none, none)

/-- Go `DeleteLocalRD`. -/
def DeleteLocalRD (_v : VSHandler) (lrdName lrdNamespace : String) : M (Option Err) := do
  match ← clientGet rdKind lrdNamespace lrdName with
  | .error e => if e.IsNotFound then pure none else pure (some e)
  | .ok lrd => clientDelete rdKind lrd

/-- Go `deleteSnapshot`: a snapshot carrying the do-not-delete label is left alone. -/
def deleteSnapshot (_v : VSHandler) (snapshotName ns : String) : M (Option Err) := do
  match ← clientGet snapshotKind ns snapshotName with
  | .error e => pure (IgnoreNotFound (some e))
  | .ok volSnap =>
    if util.HasLabelWithValue volSnap.ObjectMeta VolSyncDoNotDeleteLabel VolSyncDoNotDeleteLabelVal then
      pure none
    else
      match ← clientDelete snapshotKind volSnap with
      | some e => if !e.IsNotFound then pure (some e) else pure none
      | none => pure none

/-- Go `CleanupLocalResources`. -/
def CleanupLocalResources (v : VSHandler) (lrs : ReplicationSource) : M (Option Err) := do
  let trigger ← deref lrs.Spec.Trigger
  match ← v.deleteSnapshot trigger.Manual lrs.ObjectMeta.Namespace with
  | some e => pure (some e)
  | none =>
    match ← util.DeletePVC lrs.Spec.SourcePVC lrs.ObjectMeta.Namespace with
    | some e => pure (some e)
    | none =>
      match ← clientDelete rsKind lrs with
      | some e => pure (some e)
      | none => v.DeleteLocalRD lrs.ObjectMeta.Name lrs.ObjectMeta.Namespace

/-- Go `deleteLocalRDAndRS`. -/
def deleteLocalRDAndRS (v : VSHandler) (rd : ReplicationDestination) : M (Option Err) := do
  let (latestRDImage, err) ← v.getRDLatestImage rd.ObjectMeta.Name rd.ObjectMeta.Namespace
  match err, latestRDImage with
  | some e, _ => pure (some e)
  | none, none => pure none
  | none, some latestRDImage =>
    match ← clientGet rsKind rd.ObjectMeta.Namespace (getLocalReplicationName rd.ObjectMeta.Name) with
    | .error e =>
      if e.IsNotFound then
        v.DeleteLocalRD (getLocalReplicationName rd.ObjectMeta.Name) rd.ObjectMeta.Namespace
      else pure (some e)
    | .ok lrs =>
      let complete : Bool :=
        match lrs.Spec.Trigger with
        | some tr =>
          tr.Manual == latestRDImage.Name &&
            (match lrs.Status with
             | some st => st.LastManualSync == tr.Manual
             | none => false)
        | none => false
      if complete then
        match ← v.CleanupLocalResources lrs with
        | some e => pure (some e)
        | none => pure none
      else pure (some (.msg "waiting for local final sync to complete"))

/-- The loop of `DeleteRS` over the listed sources: delete those named after the
claim; a failed delete is logged and skipped. -/
def DeleteRS.loop (pvcName : String) : List ReplicationSource → M Unit
  | [] => pure ()
  | rs :: rest => do
    if rs.ObjectMeta.Name == getReplicationSourceName pvcName then
      let _ ← clientDelete rsKind rs
      DeleteRS.loop pvcName rest
    else DeleteRS.loop pvcName rest

/-- Go `DeleteRS`. -/
def DeleteRS (v : VSHandler) (pvcName pvcNamespace : String) : M (Option Err) := do
  match ← v.listRSByOwner pvcNamespace with
  | .error e => pure (some e)
  | .ok items =>
    DeleteRS.loop pvcName items
    pure none

/-- The loop of `DeleteRD` over the listed destinations. -/
def DeleteRD.loop (v : VSHandler) (pvcName : String) : List ReplicationDestination → M (Option Err)
  | [] => pure none
  | rd :: rest => do
    if rd.ObjectMeta.Name == getReplicationDestinationName pvcName then
      let err ← (if v.IsCopyMethodDirect then v.deleteLocalRDAndRS rd else pure none)
      match err with
      | some e => pure (some e)
      | none =>
        let _ ← clientDelete rdKind rd
        DeleteRD.loop v pvcName rest
    else DeleteRD.loop v pvcName rest

/-- Go `DeleteRD`. -/
def DeleteRD (v : VSHandler) (pvcName pvcNamespace : String) : M (Option Err) := do
  match ← v.listRDByOwner pvcNamespace with
  | .error e => pure (some e)
  | .ok items => DeleteRD.loop v pvcName items

/-- Go `addOwnerReferenceAndUpdate`. -/
def addOwnerReferenceAndUpdate {α : Type} (_v : VSHandler) (K : Kind α) (obj : α) (owner : Owner) :
    M (Option Err) := do
  match util.metaAddOwnerReference (K.meta obj) owner with
  | (_, _, some e) => pure (some e)
  | (m1, needsUpdate, none) =>
    if needsUpdate then clientUpdate K (K.setMeta obj m1) else pure none

/-- Go `ValidateSecretAndAddVRGOwnerRef`. -/
def ValidateSecretAndAddVRGOwnerRef (v : VSHandler) (secretName : String) :
    M (Bool × Option Err) := do
  match ← clientGet secretKind v.owner.ObjectMeta.Namespace secretName with
  | .error e => if !e.IsNotFound then pure (false, some e) else pure (false, none)
  | .ok secret =>
    match ← v.addOwnerReferenceAndUpdate secretKind secret v.owner with
    | some e => pure (true, some e)
    | none => pure (true, none)

/-- Go `CopySecretToPVCNamespace`. -/
def CopySecretToPVCNamespace (v : VSHandler) (secretName ns : String) : M (Option Err) := do
  match ← clientGet secretKind ns secretName with
  | .ok _ => pure none
  | .error e =>
    if !e.IsNotFound then pure (some e)
    else
      match ← clientGet secretKind v.owner.ObjectMeta.Namespace secretName with
      | .error e1 => pure (some e1)
      | .ok secret =>
        let secretCopy : Secret := { secret with ObjectMeta :=
          { Name := secretName, Namespace := ns, Labels := secret.ObjectMeta.Labels,
            Annotations := secret.ObjectMeta.Annotations } }
        let (_, cerr) ← clientCreate secretKind secretCopy
        pure cerr

/-- Go `pvcExistsAndInUse`. -/
def pvcExistsAndInUse (v : VSHandler) (key : NamespacedName) (inUsePodMustBeReady : Bool) :
    M (Bool × Option Err) := do
  let (pvc, err) ← v.getPVC key
  match err with
  | some e => if e.IsNotFound then pure (false, none) else pure (false, some e)
  | none =>
    let (inUseByPod, err1) ← util.IsPVCInUseByPod key inUsePodMustBeReady
    if err1.isSome || inUseByPod || inUsePodMustBeReady then pure (inUseByPod, err1)
    else
      let pvc ← deref pvc
      util.IsPVAttachedToNode pvc

/-- Go `validatePVCForFinalSync`. -/
def validatePVCForFinalSync (v : VSHandler) (rsSpec : VolSyncReplicationSourceSpec)
    (runFinalSync : Bool) : M (Bool × Option Err) := do
  if runFinalSync then
    let (pvcIsMounted, err) ←
      v.pvcExistsAndInUse (util.ProtectedPVCNamespacedName rsSpec.ProtectedPVC) false
    match err with
    | some e => pure (false, some e)
    | none =>
      if pvcIsMounted then
        modifyWorld (fun w => { w with workloadStatus := "active" })
        pure (false, none)
      else pure (true, none)
  else pure (true, none)

/-- Go `getStorageClass`. -/
def getStorageClass (_v : VSHandler) (storageClassName : Option String) :
    M (Option StorageClass × Option Err) := do
  match storageClassName with
  | none => pure (none, some (.msg "no storageClassName given, cannot proceed"))
  | some name =>
    if name == "" then pure (none, some (.msg "no storageClassName given, cannot proceed"))
    else
      match ← clientGet storageClassKind "" name with
      | .error e => pure (none, some e)
      | .ok sc => pure (some sc, none)

/-- Go `ModifyRSSpecForCephFS`. -/
def ModifyRSSpecForCephFS (v : VSHandler) (rsSpec : VolSyncReplicationSourceSpec)
    (storageClass : StorageClass) : VolSyncReplicationSourceSpec :=
  if storageClass.Provisioner == v.defaultCephFSCSIDriverName then
    { rsSpec with ProtectedPVC := { rsSpec.ProtectedPVC with AccessModes := [ReadOnlyMany] } }
  else rsSpec

/-- Go `GetVolumeSnapshotClasses`: the list is fetched once and kept in the handler. -/
def GetVolumeSnapshotClasses (v : VSHandler) : M (List VolumeSnapshotClass × Option Err) := do
  let w ← getWorld
  match w.volumeSnapshotClassList with
  | some items => pure (items, none)
  | none =>
    match LabelSelectorAsSelector v.volumeSnapshotClassSelector with
    | .error e => pure ([], some e)
    | .ok selector =>
      match ← clientList snapshotClassKind "" (fun m => selector m.Labels) with
      | .error e => pure ([], some e)
      | .ok items =>
        modifyWorld (fun w1 => { w1 with volumeSnapshotClassList := some items })
        pure (items, none)

/-- The loop of `getVolumeSnapshotClassFromPVCStorageClass`: the name matched so far
after looking at one more class. -/
def matchVolumeSnapshotClass (storageClass : StorageClass) (matched : String)
    (volumeSnapshotClass : VolumeSnapshotClass) : String :=
  let sIDFromSnapClass := mapGet volumeSnapshotClass.ObjectMeta.Labels StorageIDLabel
  if sIDFromSnapClass != "" && sIDFromSnapClass != mapGet storageClass.ObjectMeta.Labels StorageIDLabel then
    matched
  else if volumeSnapshotClass.Driver == storageClass.Provisioner then
    (if matched == "" || isDefaultVolumeSnapshotClass volumeSnapshotClass then
      volumeSnapshotClass.ObjectMeta.Name
    else matched)
  else matched

/-- Go `getVolumeSnapshotClassFromPVCStorageClass`. -/
def getVolumeSnapshotClassFromPVCStorageClass (v : VSHandler) (storageClass : StorageClass) :
    M (String × Option Err) := do
  let (volumeSnapshotClasses, err) ← v.GetVolumeSnapshotClasses
  match err with
  | some e => pure ("", some e)
  | none =>
    let matchedVolumeSnapshotClassName :=
      volumeSnapshotClasses.foldl (matchVolumeSnapshotClass storageClass) ""
    if matchedVolumeSnapshotClassName == "" then
      pure ("", some (.msg ("unable to find matching volumesnapshotclass for storage provisioner "
        ++ storageClass.Provisioner)))
    else pure (matchedVolumeSnapshotClassName, none)

/-- Go `GetVolumeSnapshotClassFromPVCStorageClass`. -/
def GetVolumeSnapshotClassFromPVCStorageClass (v : VSHandler) (storageClassName : Option String) :
    M (String × Option Err) := do
  let (storageClass, err) ← v.getStorageClass storageClassName
  match err with
  | some e => pure ("", some e)
  | none =>
    let storageClass ← deref storageClass
    v.getVolumeSnapshotClassFromPVCStorageClass storageClass

/-- Go `createTmpPVCForFinalSync`. -/
def createTmpPVCForFinalSync (v : VSHandler) (key : NamespacedName) :
    M (Option PersistentVolumeClaim × OperationResult × Option Err) := do
  let (found, err) ← v.getPVC
    { Namespace := key.Namespace, Name := getTmpPVCNameForFinalSync key.Name }
  match err with
  | none => pure (found, .None, none)
  | some e =>
    if !e.IsNotFound then pure (none, .None, some e)
    else
      let (pvc, err1) ← v.getPVC key
      match err1 with
      | some e1 => pure (none, .None, some e1)
      | none =>
        let pvc ← deref pvc
        let tmpPVC : PersistentVolumeClaim := { pvc with ObjectMeta := { pvc.ObjectMeta with
          Name := getTmpPVCNameForFinalSync pvc.ObjectMeta.Name, ResourceVersion := "", UID := "",
          Labels := some [], Finalizers := [], Annotations := some [] } }
        let (op, tmpPVC1, cerr) ← CreateOrUpdate pvcKind tmpPVC (fun o =>
          some (if !v.vrgInAdminNamespace then SetControllerReference pvcKind v.owner o else (o, none)))
        match cerr with
        | some e2 => pure (none, .None, some e2)
        | none => pure (some tmpPVC1, op, none)

/-- Go `retainPVAndCreateTmpPVC`. -/
def retainPVAndCreateTmpPVC (v : VSHandler) (pvc : PersistentVolumeClaim) :
    M (Option PersistentVolumeClaim × Option Err) := do
  match ← v.retainPVForPVC pvc with
  | some e => pure (none, some e)
  | none =>
    let (tmpPVC, op, err) ← v.createTmpPVCForFinalSync
      { Namespace := pvc.ObjectMeta.Namespace, Name := pvc.ObjectMeta.Name }
    match err with
    | some e => pure (none, some e)
    | none => if op = .Created then pure (none, none) else pure (tmpPVC, none)

/-- Go `setupTmpPVCForFinalSync`. -/
def setupTmpPVCForFinalSync (v : VSHandler) (pvc : PersistentVolumeClaim) :
    M (Bool × Option Err) := do
  let (found, err) ← v.getPVC
    { Namespace := pvc.ObjectMeta.Namespace, Name := getTmpPVCNameForFinalSync pvc.ObjectMeta.Name }
  let notFound : Bool := match err with
    | some e => e.IsNotFound
    | none => false
  let (tmpPVC, err1) ← (if notFound then v.retainPVAndCreateTmpPVC pvc else pure (found, err))
  if notFound && (err1.isSome || tmpPVC.isNone) then pure (true, err1)
  else
    let tmpPVC ← deref tmpPVC
    if tmpPVC.Phase == ClaimLost then
      let tmpPVC1 : PersistentVolumeClaim := { tmpPVC with ObjectMeta := { tmpPVC.ObjectMeta with
        Annotations := mapDeleteOpt tmpPVC.ObjectMeta.Annotations "pv.kubernetes.io/bind-completed" } }
      match ← clientUpdate pvcKind tmpPVC1 with
      | some e => pure (true, some e)
      | none => pure (false, none)
    else pure (false, none)

/-- Go `setupForFinalSync`: `true` is "stop", `false` is "proceed". -/
def setupForFinalSync (v : VSHandler) (rsSpec : VolSyncReplicationSourceSpec)
    (runFinalSync : Bool) : M Bool := do
  let (rs, err) ← v.getRS (getReplicationSourceName rsSpec.ProtectedPVC.Name)
    rsSpec.ProtectedPVC.Namespace
  match err with
  | some e => if e.IsNotFound then pure false else pure true
  | none =>
    let rs ← deref rs
    let prepared : Bool := match rs.Spec.Trigger with
      | some tr => tr.Manual == PrepareForFinalSyncTriggerString
      | none => false
    if !runFinalSync then
      (if prepared then pure true else pure false)
    else
      let (pvc, err1) ← v.getPVC
        { Namespace := rsSpec.ProtectedPVC.Namespace, Name := rsSpec.ProtectedPVC.Name }
      match err1 with
      | some _ => pure true
      | none =>
        let pvc ← deref pvc
        if !util.ResourceIsDeleted pvc.ObjectMeta then pure true
        else if prepared then
          let (requeue, err2) ← v.setupTmpPVCForFinalSync pvc
          match err2 with
          | some _ => pure true
          | none => if requeue then pure true else pure false
        else pure false

/-- Go `getScheduleCronSpec`. -/
def getScheduleCronSpec (v : VSHandler) : Option String × Option Err :=
  if v.schedulingInterval != "" then ConvertSchedulingIntervalToCronSpec v.schedulingInterval
  else (some DefaultScheduleCronSpec, none)

/-- Go `configureReplicationSourceSpec`. -/
def configureReplicationSourceSpec (v : VSHandler) (rs : ReplicationSource)
    (rsSpec : VolSyncReplicationSourceSpec) (runFinalSync : Bool) :
    ReplicationSource × Option Err :=
  if runFinalSync then
    ({ rs with Spec := { rs.Spec with
        Paused := false,
        SourcePVC := getTmpPVCNameForFinalSync rsSpec.ProtectedPVC.Name,
        Trigger := some { Manual := FinalSyncTriggerString } } }, none)
  else
    match v.getScheduleCronSpec with
    | (_, some e) => (rs, some e)
    | (scheduleCronSpec, none) =>
      ({ rs with Spec := { rs.Spec with Trigger := some { Schedule := scheduleCronSpec } } }, none)

/-- The `MutateFn` handed to `CreateOrUpdate` by `createOrUpdateRS`. -/
def mutateRS (v : VSHandler) (rsSpec : VolSyncReplicationSourceSpec) (pskSecretName : String)
    (runFinalSync : Bool) (volumeSnapshotClassName remoteAddress : String)
    (rs : ReplicationSource) : ReplicationSource × Option Err :=
  match (if !v.vrgInAdminNamespace then SetControllerReference rsKind v.owner rs else (rs, none)) with
  | (rs1, some e) => (rs1, some e)
  | (rs1, none) =>
    let rs2 := util.AddLabel rsKind rs1 VRGOwnerNameLabel v.owner.ObjectMeta.Name
    let rs3 := util.AddLabel rsKind rs2 VRGOwnerNamespaceLabel v.owner.ObjectMeta.Namespace
    let rs4 : ReplicationSource :=
      { rs3 with Spec := { rs3.Spec with SourcePVC := rsSpec.ProtectedPVC.Name } }
    match v.configureReplicationSourceSpec rs4 rsSpec runFinalSync with
    | (rs5, some e) => (rs5, some e)
    | (rs5, none) =>
      let tls : ReplicationSourceRsyncTLSSpec :=
        { KeySecret := some pskSecretName,
          Address := some remoteAddress,
          CopyMethod := CopyMethodSnapshot,
          VolumeSnapshotClassName := some volumeSnapshotClassName,
          StorageClassName := rsSpec.ProtectedPVC.StorageClassName,
          AccessModes := rsSpec.ProtectedPVC.AccessModes }
      ({ rs5 with Spec := { rs5.Spec with RsyncTLS := some tls } }, none)

/-- Go `createOrUpdateRS`. -/
def createOrUpdateRS (v : VSHandler) (rsSpec : VolSyncReplicationSourceSpec)
    (pskSecretName : String) (runFinalSync : Bool) :
    M (Option ReplicationSource × Option Err) := do
  let (storageClass, err) ← v.getStorageClass rsSpec.ProtectedPVC.StorageClassName
  match err with
  | some e => pure (none, some e)
  | none =>
    let storageClass ← deref storageClass
    let rsSpec := v.ModifyRSSpecForCephFS rsSpec storageClass
    let (volumeSnapshotClassName, err1) ← v.getVolumeSnapshotClassFromPVCStorageClass storageClass
    match err1 with
    | some e => pure (none, some e)
    | none =>
      let remoteAddress := getRemoteServiceNameForRDFromPVCName rsSpec.ProtectedPVC.Name
        rsSpec.ProtectedPVC.Namespace
      let rs : ReplicationSource := util.AddLabel rsKind
        { ObjectMeta := { Name := getReplicationSourceName rsSpec.ProtectedPVC.Name,
                          Namespace := rsSpec.ProtectedPVC.Namespace } }
        util.CreatedByRamenLabel "true"
      let stop ← v.setupForFinalSync rsSpec runFinalSync
      if stop then pure (none, none)
      else
        let (_, rs1, cerr) ← CreateOrUpdate rsKind rs (fun o =>
          some (v.mutateRS rsSpec pskSecretName runFinalSync volumeSnapshotClassName remoteAddress o))
        match cerr with
        | some e => pure (none, some e)
        | none => pure (some rs1, none)

/-- Go `cleanupAfterRSFinalSync`. -/
def cleanupAfterRSFinalSync (v : VSHandler) (rsSpec : VolSyncReplicationSourceSpec) :
    M (Option Err) :=
  if v.IsCopyMethodDirect then pure none
  else util.DeletePVC rsSpec.ProtectedPVC.Name rsSpec.ProtectedPVC.Namespace

/-- Go `ReconcileRS`: the results are `finalSyncComplete`, the source, the error. -/
def ReconcileRS (v : VSHandler) (rsSpec : VolSyncReplicationSourceSpec) (runFinalSync : Bool) :
    M (Bool × Option ReplicationSource × Option Err) := do
  if !rsSpec.ProtectedPVC.ProtectedByVolSync then
    pure (false, none, some (.msg ("protectedPVC " ++ rsSpec.ProtectedPVC.Name
      ++ " is not VolSync Enabled")))
  else
    let pskSecretName := GetVolSyncPSKSecretNameFromVRGName v.owner.ObjectMeta.Name
    let (secretExists, err) ← v.ValidateSecretAndAddVRGOwnerRef pskSecretName
    if err.isSome || !secretExists then pure (false, none, err)
    else
      let err1 ← (if v.vrgInAdminNamespace
        then v.CopySecretToPVCNamespace pskSecretName rsSpec.ProtectedPVC.Namespace
        else pure none)
      match err1 with
      | some e => pure (false, none, some e)
      | none =>
        match ← v.DeleteRD rsSpec.ProtectedPVC.Name rsSpec.ProtectedPVC.Namespace with
        | some e => pure (false, none, some e)
        | none =>
          let (pvcOk, err2) ← v.validatePVCForFinalSync rsSpec runFinalSync
          if !pvcOk || err2.isSome then
            let (existingRS, getRSErr) ← v.getRS
              (getReplicationSourceName rsSpec.ProtectedPVC.Name) rsSpec.ProtectedPVC.Namespace
            match getRSErr with
            | some _ => pure (false, none, err2)
            | none => pure (false, existingRS, err2)
          else
            let (replicationSource, err3) ← v.createOrUpdateRS rsSpec pskSecretName runFinalSync
            match err3, replicationSource with
            | some e, _ => pure (false, replicationSource, some e)
            | none, none => pure (false, none, none)
            | none, some rs =>
              if runFinalSync && isFinalSyncComplete rs then
                match ← v.undoAfterFinalSync rsSpec.ProtectedPVC.Name rsSpec.ProtectedPVC.Namespace with
                | some e => pure (false, replicationSource, some e)
                | none =>
                  let cerr ← v.cleanupAfterRSFinalSync rsSpec
                  pure (true, replicationSource, cerr)
              else pure (false, replicationSource, none)

/-- Go `ResourceList.Storage`: a pointer to the storage entry, or to a zero quantity
when the list has none; it is never nil. -/
def ResourceListStorage (requests : Option Quantity) : Option Quantity :=
  some (requests.getD 0)

/-- Go `removeOCMAnnotationsAndUpdate`. -/
def removeOCMAnnotationsAndUpdate {α : Type} (_v : VSHandler) (K : Kind α) (obj : α) :
    M (Option Err) :=
  let updatedAnnotations : StrMap := ((K.meta obj).Annotations.getD []).filter
    (fun p => !HasPrefix p.1 "apps.open-cluster-management.io")
  clientUpdate K (K.setMeta obj { K.meta obj with Annotations := some updatedAnnotations })

/-- Go `addBackOCMAnnotationsAndUpdate`: the entries are written into the map the
object already has, which panics when that map is nil and an entry is written. -/
def addBackOCMAnnotationsAndUpdate {α : Type} (_v : VSHandler) (K : Kind α) (obj : α)
    (annotations : Option StrMap) : M (Option Err) := do
  let toAdd : StrMap := (annotations.getD []).filter
    (fun p => HasPrefix p.1 "apps.open-cluster-management.io")
  let updatedAnnotations ←
    (match (K.meta obj).Annotations, toAdd with
     | cur, [] => pure cur
     | none, _ :: _ => throwPanic
     | some m, l => pure (some (l.foldl (fun acc p => mapSet acc p.1 p.2) m)))
  clientUpdate K (K.setMeta obj { K.meta obj with Annotations := updatedAnnotations })

/-- Go `volumeModeForProtectedPVC`. -/
def volumeModeForProtectedPVC (v : VSHandler) (protectedPVC : ProtectedPVC) : Option String :=
  if util.IsPVCMarkedForVolSync v.owner.ObjectMeta.Annotations
      && protectedPVC.VolumeMode == some PersistentVolumeBlock then
    some PersistentVolumeBlock
  else some PersistentVolumeFilesystem

/-- The `MutateFn` handed to `CreateOrUpdate` by `EnsurePVCforDirectCopy`. -/
def mutateDirectCopyPVC (v : VSHandler) (rdSpec : VolSyncReplicationDestinationSpec)
    (pvc : PersistentVolumeClaim) : PersistentVolumeClaim × Option Err :=
  match (if !v.vrgInAdminNamespace then SetControllerReference pvcKind v.owner pvc else (pvc, none)) with
  | (pvc1, some e) => (pvc1, some e)
  | (pvc1, none) =>
    let pvc2 : PersistentVolumeClaim :=
      if pvc1.ObjectMeta.CreationTimestamp == 0 then
        { pvc1 with Spec := { pvc1.Spec with
            AccessModes := rdSpec.ProtectedPVC.AccessModes,
            StorageClassName := rdSpec.ProtectedPVC.StorageClassName,
            VolumeMode := v.volumeModeForProtectedPVC rdSpec.ProtectedPVC } }
      else pvc1
    let pvc3 : PersistentVolumeClaim :=
      { pvc2 with Spec := { pvc2.Spec with Requests := rdSpec.ProtectedPVC.Requests } }
    let labels : Option StrMap :=
      match pvc3.ObjectMeta.Labels with
      | none => rdSpec.ProtectedPVC.Labels
      | some l => some ((rdSpec.ProtectedPVC.Labels.getD []).foldl (fun acc p => mapSet acc p.1 p.2) l)
    ({ pvc3 with ObjectMeta := { pvc3.ObjectMeta with Labels := labels } }, none)

/-- Go `EnsurePVCforDirectCopy`. -/
def EnsurePVCforDirectCopy (v : VSHandler) (rdSpec : VolSyncReplicationDestinationSpec) :
    M (Option Err) := do
  if rdSpec.ProtectedPVC.AccessModes.length == 0 then
    pure (some (.msg "accessModes must be provided for PVC"))
  else if (ResourceListStorage rdSpec.ProtectedPVC.Requests).isNone then
    pure (some (.msg "capacity must be provided"))
  else
    let (pvc, err) ← v.getPVC (util.ProtectedPVCNamespacedName rdSpec.ProtectedPVC)
    let fatal : Bool := match err with
      | some e => !e.IsNotFound
      | none => false
    if fatal then pure err
    else
      match pvc with
      | some pvc =>
        let pvc1 : PersistentVolumeClaim := { pvc with ObjectMeta := { pvc.ObjectMeta with
          Finalizers := removeFinalizer pvc.ObjectMeta.Finalizers PVCFinalizerProtected } }
        v.removeOCMAnnotationsAndUpdate pvcKind pvc1
      | none =>
        let pvc0 : PersistentVolumeClaim := util.AddLabel pvcKind
          { ObjectMeta := { Name := rdSpec.ProtectedPVC.Name, Namespace := rdSpec.ProtectedPVC.Namespace } }
          util.CreatedByRamenLabel "true"
        let (_, _, cerr) ← CreateOrUpdate pvcKind pvc0 (fun o => some (v.mutateDirectCopyPVC rdSpec o))
        pure cerr

/-- Go `IsPVCInUseByNonRDPod`. -/
def IsPVCInUseByNonRDPod (v : VSHandler) (key : NamespacedName) : M (Bool × Option Err) := do
  match ← clientGet rdKind key.Namespace key.Name with
  | .ok _ => pure (false, none)
  | .error e =>
    if !e.IsNotFound then pure (false, some e)
    else
      let (pvcInUse, err) ← v.pvcExistsAndInUse key false
      match err with
      | some e1 => pure (false, some e1)
      | none => if pvcInUse then pure (true, none) else pure (false, none)

/-- Go `PrecreateDestPVCIfEnabled`. -/
def PrecreateDestPVCIfEnabled (v : VSHandler) (rdSpec : VolSyncReplicationDestinationSpec) :
    M (Option String × Option Err) := do
  if !v.IsCopyMethodDirect then pure (none, none)
  else
    match ← v.EnsurePVCforDirectCopy rdSpec with
    | some e => pure (none, some e)
    | none =>
      let (inUse, err) ← v.IsPVCInUseByNonRDPod (util.ProtectedPVCNamespacedName rdSpec.ProtectedPVC)
      match err with
      | some e => pure (none, some e)
      | none =>
        if inUse then
          modifyWorld (fun w => { w with workloadStatus := "active" })
          pure (none, some (.msg "pvc is mounted by others. Checking later"))
        else pure (some rdSpec.ProtectedPVC.Name, none)

/-- The `MutateFn` handed to `CreateOrUpdate` by `createOrUpdateRD`. -/
def mutateRD (v : VSHandler) (rdSpec : VolSyncReplicationDestinationSpec) (pskSecretName : String)
    (dstPVC : Option String) (volumeSnapshotClassName : String)
    (rd : ReplicationDestination) : ReplicationDestination × Option Err :=
  match (if !v.vrgInAdminNamespace then SetControllerReference rdKind v.owner rd else (rd, none)) with
  | (rd1, some e) => (rd1, some e)
  | (rd1, none) =>
    let m1 := (util.metaAddLabel rd1.ObjectMeta VRGOwnerNameLabel v.owner.ObjectMeta.Name).1
    let m2 := (util.metaAddLabel m1 VRGOwnerNamespaceLabel v.owner.ObjectMeta.Namespace).1
    let m3 := (util.metaAddAnnotation m2 OwnerNameAnnotation v.owner.ObjectMeta.Name).1
    let m4 := (util.metaAddAnnotation m3 OwnerNamespaceAnnotation v.owner.ObjectMeta.Namespace).1
    let pvcAccessModes : List String :=
      if rdSpec.ProtectedPVC.AccessModes.length > 0 then rdSpec.ProtectedPVC.AccessModes
      else [ReadWriteOnce]
    let tls : ReplicationDestinationRsyncTLSSpec :=
      { ServiceType := some DefaultRsyncServiceType,
        KeySecret := some pskSecretName,
        CopyMethod := CopyMethodSnapshot,
        Capacity := ResourceListStorage rdSpec.ProtectedPVC.Requests,
        StorageClassName := rdSpec.ProtectedPVC.StorageClassName,
        AccessModes := pvcAccessModes,
        VolumeSnapshotClassName := some volumeSnapshotClassName,
        DestinationPVC := dstPVC }
    ({ rd1 with ObjectMeta := m4, Spec := { rd1.Spec with RsyncTLS := some tls } }, none)

/-- Go `createOrUpdateRD`. -/
def createOrUpdateRD (v : VSHandler) (rdSpec : VolSyncReplicationDestinationSpec)
    (pskSecretName : String) (dstPVC : Option String) :
    M (Option ReplicationDestination × Option Err) := do
  let (volumeSnapshotClassName, err) ←
    v.GetVolumeSnapshotClassFromPVCStorageClass rdSpec.ProtectedPVC.StorageClassName
  match err with
  | some e => pure (none, some e)
  | none =>
    let rd : ReplicationDestination := util.AddLabel rdKind
      { ObjectMeta := { Name := getReplicationDestinationName rdSpec.ProtectedPVC.Name,
                        Namespace := rdSpec.ProtectedPVC.Namespace } }
      util.CreatedByRamenLabel "true"
    let (_, rd1, cerr) ← CreateOrUpdate rdKind rd (fun o =>
      some (v.mutateRD rdSpec pskSecretName dstPVC volumeSnapshotClassName o))
    match cerr with
    | some e => pure (none, some e)
    | none => pure (some rd1, none)

/-- Go `ReconcileServiceExportForRD`: the export is owned by the destination. -/
def ReconcileServiceExportForRD (_v : VSHandler) (rd : ReplicationDestination) : M (Option Err) := do
  let svcExport : ServiceExport :=
    { ObjectMeta := { Name := getLocalServiceNameForRD rd.ObjectMeta.Name,
                      Namespace := rd.ObjectMeta.Namespace } }
  let (_, _, err) ← CreateOrUpdate serviceExportKind svcExport (fun o =>
    let r := SetOwnerReferenceMeta "volsync.backube/v1alpha1" "ReplicationDestination"
      rd.ObjectMeta o.ObjectMeta
    some ({ o with ObjectMeta := r.1 }, r.2))
  pure err

/-- Go `deleteVolumeSnapshots`: a snapshot already gone is skipped, any other failure
stops the loop. -/
def deleteVolumeSnapshots (v : VSHandler) : List VolumeSnapshot → M (Option Err)
  | [] => pure none
  | snapshot :: rest => do
    let err ← clientDelete snapshotKind snapshot
    let fatal : Bool := match err with
      | some e => !e.IsNotFound
      | none => false
    if fatal then pure err else deleteVolumeSnapshots v rest

/-- The order `pruneOldSnapshots` sorts by: not created later. -/
def notAfter (a b : VolumeSnapshot) : Prop :=
  a.ObjectMeta.CreationTimestamp ≤ b.ObjectMeta.CreationTimestamp

instance : DecidableRel notAfter := fun a b =>
  inferInstanceAs (Decidable (a.ObjectMeta.CreationTimestamp ≤ b.ObjectMeta.CreationTimestamp))

/-- Go `pruneOldSnapshots`: the snapshots of the group in the namespace are sorted by
creation time, oldest first, and all but the last are deleted. (Go's sort leaves
the order of snapshots created at the same time open; here it is kept.) -/
def pruneOldSnapshots (v : VSHandler) (pvcNamespace : String) : M (Option Err) := do
  match ← v.listByOwner snapshotKind pvcNamespace with
  | .error e => pure (some e)
  | .ok items =>
    if items.length ≤ 1 then pure none
    else
      let sorted := items.insertionSort notAfter
      v.deleteVolumeSnapshots (sorted.take (sorted.length - 1))

/-- Go `ReconcileRD`. -/
def ReconcileRD (v : VSHandler) (rdSpec : VolSyncReplicationDestinationSpec) :
    M (Option ReplicationDestination × Option Err) := do
  if !rdSpec.ProtectedPVC.ProtectedByVolSync then
    pure (none, some (.msg ("protectedPVC " ++ rdSpec.ProtectedPVC.Name
      ++ " is not VolSync Enabled")))
  else
    let pskSecretName := GetVolSyncPSKSecretNameFromVRGName v.owner.ObjectMeta.Name
    let (secretExists, err) ← v.ValidateSecretAndAddVRGOwnerRef pskSecretName
    if err.isSome || !secretExists then pure (none, err)
    else
      let err1 ← (if v.vrgInAdminNamespace
        then v.CopySecretToPVCNamespace pskSecretName rdSpec.ProtectedPVC.Namespace
        else pure none)
      match err1 with
      | some e => pure (none, some e)
      | none =>
        match ← v.DeleteRS rdSpec.ProtectedPVC.Name rdSpec.ProtectedPVC.Namespace with
        | some e => pure (none, some e)
        | none =>
          let (dstPVC, err2) ← v.PrecreateDestPVCIfEnabled rdSpec
          match err2 with
          | some e => pure (none, some e)
          | none =>
            let (rd, err3) ← v.createOrUpdateRD rdSpec pskSecretName dstPVC
            match err3 with
            | some e => pure (none, some e)
            | none =>
              let rd ← deref rd
              match ← v.ReconcileServiceExportForRD rd with
              | some e => pure (none, some e)
              | none =>
                if !RDStatusReady rd then pure (none, none)
                else
                  match ← v.pruneOldSnapshots rd.ObjectMeta.Namespace with
                  | some e => pure (none, some e)
                  | none => pure (some rd, none)

/-- Go `pauseRD`. -/
def pauseRD (v : VSHandler) (rdName rdNamespace : String) :
    M (Option ReplicationDestination × Option Err) := do
  let (rd, err) ← v.getRD rdName rdNamespace
  match err, rd with
  | some e, _ => pure (none, some e)
  | none, none => pure (none, none)
  | none, some rd =>
    if rd.Spec.Paused then pure (some rd, none)
    else
      let rd1 : ReplicationDestination := { rd with Spec := { rd.Spec with Paused := true } }
      let uerr ← v.updateResource rdKind rd1
      pure (some rd1, uerr)

/-- Go `checkLastSnapshotSyncStatus`. -/
def checkLastSnapshotSyncStatus (_v : VSHandler) (lrs : ReplicationSource)
    (snapshotRef : TypedLocalObjectReference) : Bool :=
  match lrs.Spec.Trigger with
  | some tr =>
    if tr.Manual == snapshotRef.Name then
      (match lrs.Status with
       | some st => st.LastManualSync == tr.Manual
       | none => false)
    else false
  | none => false

/-- Go `validateAndProtectSnapshot`. -/
def validateAndProtectSnapshot (v : VSHandler) (volumeSnapshotRef : TypedLocalObjectReference)
    (volumeSnapshotNamespace : String) : M (Option VolumeSnapshot × Option Err) := do
  match ← clientGet snapshotKind volumeSnapshotNamespace volumeSnapshotRef.Name with
  | .error e => pure (none, some e)
  | .ok volSnap =>
    let u0 := util.NewResourceUpdater volSnap
    let u1 := if !v.vrgInAdminNamespace then util.ResourceUpdater.AddOwner snapshotKind u0 v.owner else u0
    let u2 := util.ResourceUpdater.AddLabel snapshotKind u1 VRGOwnerNameLabel v.owner.ObjectMeta.Name
    let u3 := util.ResourceUpdater.AddLabel snapshotKind u2 VRGOwnerNamespaceLabel
      v.owner.ObjectMeta.Namespace
    let u4 := util.ResourceUpdater.AddLabel snapshotKind u3 VolSyncDoNotDeleteLabel
      VolSyncDoNotDeleteLabelVal
    match ← util.ResourceUpdater.Update snapshotKind u4 with
    | some e => pure (none, some e)
    | none => pure (some u4.obj, none)

/-- The `MutateFn` handed to `CreateOrUpdate` by `createPVCFromSnapshot`; writing the
storage request dereferences the capacity, a panic when it is nil. -/
def mutatePVCFromSnapshot (v : VSHandler) (rdSpec : VolSyncReplicationDestinationSpec)
    (snapshotRef : TypedLocalObjectReference) (storageClass : StorageClass)
    (storageClassName : Option String) (pvcRequestedCapacity : Option Quantity)
    (pvc : PersistentVolumeClaim) : Option (PersistentVolumeClaim × Option Err) :=
  if pvc.Phase == ClaimBound then some (pvc, none)
  else
    let accessModes : List String :=
      if storageClass.Provisioner != v.defaultCephFSCSIDriverName then rdSpec.ProtectedPVC.AccessModes
      else [ReadOnlyMany]
    let pvc1 : PersistentVolumeClaim :=
      if pvc.ObjectMeta.CreationTimestamp == 0 then
        { pvc with Spec := { pvc.Spec with
            AccessModes := accessModes,
            StorageClassName := storageClassName,
            DataSource := some snapshotRef,
            VolumeMode := v.volumeModeForProtectedPVC rdSpec.ProtectedPVC } }
      else pvc
    match pvcRequestedCapacity with
    | none => none
    | some q => some ({ pvc1 with Spec := { pvc1.Spec with Requests := some q } }, none)

/-- Go `createPVCFromSnapshot`. -/
def createPVCFromSnapshot (v : VSHandler) (rd : ReplicationDestination)
    (rdSpec : VolSyncReplicationDestinationSpec) (snapshotRef : TypedLocalObjectReference)
    (snapRestoreSize : Option Quantity) : M (Option PersistentVolumeClaim × Option Err) := do
  let (storageClass, err) ← v.getStorageClass rdSpec.ProtectedPVC.StorageClassName
  match err with
  | some e => pure (none, some e)
  | none =>
    let storageClass ← deref storageClass
    let pvc : PersistentVolumeClaim := util.AddLabel pvcKind
      { ObjectMeta := { Name := snapshotRef.Name, Namespace := rd.ObjectMeta.Namespace } }
      util.CreatedByRamenLabel "true"
    let tls ← deref rd.Spec.RsyncTLS
    let pvcRequestedCapacity : Option Quantity :=
      match snapRestoreSize, tls.Capacity with
      | some r, none => some r
      | some r, some c => if r > c then some r else some c
      | none, c => c
    let (_, pvc1, cerr) ← CreateOrUpdate pvcKind pvc
      (v.mutatePVCFromSnapshot rdSpec snapshotRef storageClass tls.StorageClassName
        pvcRequestedCapacity)
    match cerr with
    | some e => pure (none, some e)
    | none => pure (some pvc1, none)

/-- Go `setupLocalRS`. -/
def setupLocalRS (v : VSHandler) (rd : ReplicationDestination)
    (rdSpec : VolSyncReplicationDestinationSpec) (snapshotRef : TypedLocalObjectReference) :
    M (Option PersistentVolumeClaim × Option Err) := do
  if !isLatestImageReady (some snapshotRef) then
    pure (none, some (.msg ("unable to find LatestImage from ReplicationDestination "
      ++ rd.ObjectMeta.Name)))
  else
    let vsImageRef : TypedLocalObjectReference :=
      if snapshotRef.APIGroup.isNone || snapshotRef.APIGroup == some ""
      then { snapshotRef with APIGroup := some SnapshotGroupName } else snapshotRef
    let got ← clientGet rsKind rd.ObjectMeta.Namespace (getLocalReplicationName rd.ObjectMeta.Name)
    let fatal : Option Err := match got with
      | .error e => if !e.IsNotFound then some e else none
      | .ok _ => none
    match fatal with
    | some e => pure (none, some e)
    | none =>
      let (snap, err) ← v.validateAndProtectSnapshot vsImageRef rd.ObjectMeta.Namespace
      match err with
      | some e => pure (none, some e)
      | none =>
        let snap ← deref snap
        let restoreSize : Option Quantity := match snap.Status with
          | some st => st.RestoreSize
          | none => none
        v.createPVCFromSnapshot rd rdSpec snapshotRef restoreSize

/-- The `MutateFn` handed to `CreateOrUpdate` by `reconcileLocalRD`. -/
def mutateLocalRD (v : VSHandler) (rdSpec : VolSyncReplicationDestinationSpec)
    (pskSecretName : String) (lrd : ReplicationDestination) :
    ReplicationDestination × Option Err :=
  match (if !v.vrgInAdminNamespace then SetControllerReference rdKind v.owner lrd else (lrd, none)) with
  | (lrd1, some e) => (lrd1, some e)
  | (lrd1, none) =>
    let m1 := (util.metaAddLabel lrd1.ObjectMeta util.CreatedByRamenLabel "true").1
    let m2 := (util.metaAddLabel m1 VRGOwnerNameLabel v.owner.ObjectMeta.Name).1
    let m3 := (util.metaAddLabel m2 VRGOwnerNamespaceLabel v.owner.ObjectMeta.Namespace).1
    let m4 := (util.metaAddLabel m3 VolSyncDoNotDeleteLabel VolSyncDoNotDeleteLabelVal).1
    let pvcAccessModes : List String :=
      if rdSpec.ProtectedPVC.AccessModes.length > 0 then rdSpec.ProtectedPVC.AccessModes
      else [ReadWriteOnce]
    let tls : ReplicationDestinationRsyncTLSSpec :=
      { ServiceType := some DefaultRsyncServiceType,
        KeySecret := some pskSecretName,
        CopyMethod := CopyMethodDirect,
        Capacity := ResourceListStorage rdSpec.ProtectedPVC.Requests,
        StorageClassName := rdSpec.ProtectedPVC.StorageClassName,
        AccessModes := pvcAccessModes,
        DestinationPVC := some rdSpec.ProtectedPVC.Name }
    ({ lrd1 with ObjectMeta := m4, Spec := { lrd1.Spec with RsyncTLS := some tls } }, none)

/-- Go `reconcileLocalRD`. -/
def reconcileLocalRD (v : VSHandler) (rdSpec : VolSyncReplicationDestinationSpec)
    (pskSecretName : String) : M (Option ReplicationDestination × Option Err) := do
  let lrd : ReplicationDestination :=
    { ObjectMeta := { Name := getLocalReplicationName rdSpec.ProtectedPVC.Name,
                      Namespace := rdSpec.ProtectedPVC.Namespace } }
  match ← v.EnsurePVCforDirectCopy rdSpec with
  | some e => pure (none, some e)
  | none =>
    let (_, lrd1, cerr) ← CreateOrUpdate rdKind lrd (fun o =>
      some (v.mutateLocalRD rdSpec pskSecretName o))
    match cerr with
    | some e => pure (none, some e)
    | none =>
      if !RDStatusReady lrd1 then pure (none, some (.msg "waiting for address"))
      else pure (some lrd1, none)

/-- The `MutateFn` handed to `CreateOrUpdate` by `reconcileLocalRS`. -/
def mutateLocalRS (v : VSHandler) (pskSecretName address pvcName : String)
    (lrs : ReplicationSource) : ReplicationSource × Option Err :=
  match (if !v.vrgInAdminNamespace then SetControllerReference rsKind v.owner lrs else (lrs, none)) with
  | (lrs1, some e) => (lrs1, some e)
  | (lrs1, none) =>
    let m1 := (util.metaAddLabel lrs1.ObjectMeta util.CreatedByRamenLabel "true").1
    let m2 := (util.metaAddLabel m1 VRGOwnerNameLabel v.owner.ObjectMeta.Name).1
    let m3 := (util.metaAddLabel m2 VRGOwnerNamespaceLabel v.owner.ObjectMeta.Namespace).1
    let tls : ReplicationSourceRsyncTLSSpec :=
      { KeySecret := some pskSecretName, Address := some address, CopyMethod := CopyMethodDirect }
    ({ lrs1 with ObjectMeta := m3,
                 Spec := { lrs1.Spec with Trigger := some { Manual := pvcName },
                                          SourcePVC := pvcName,
                                          RsyncTLS := some tls } }, none)

/-- Go `reconcileLocalRS`; the main destination `rd` is a pointer the first log line
dereferences. -/
def reconcileLocalRS (v : VSHandler) (rd : Option ReplicationDestination)
    (rdSpec : VolSyncReplicationDestinationSpec) (snapshotRef : TypedLocalObjectReference)
    (pskSecretName address : String) : M (Option ReplicationSource × Option Err) := do
  let rd ← deref rd
  let (pvc, err) ← v.setupLocalRS rd rdSpec snapshotRef
  match err with
  | some e => pure (none, some e)
  | none =>
    let pvc ← deref pvc
    let lrs : ReplicationSource :=
      { ObjectMeta := { Name := getLocalReplicationName rdSpec.ProtectedPVC.Name,
                        Namespace := rdSpec.ProtectedPVC.Namespace } }
    let (_, lrs1, cerr) ← CreateOrUpdate rsKind lrs (fun o =>
      some (v.mutateLocalRS pskSecretName address pvc.ObjectMeta.Name o))
    match cerr with
    | some e => pure (none, some e)
    | none => pure (some lrs1, none)

/-- Go `reconcileLocalReplication`. -/
def reconcileLocalReplication (v : VSHandler) (rd : Option ReplicationDestination)
    (rdSpec : VolSyncReplicationDestinationSpec) (snapshotRef : TypedLocalObjectReference)
    (pskSecretName : String) :
    M (Option ReplicationDestination × Option ReplicationSource × Option Err) := do
  let (lrd, err) ← v.reconcileLocalRD rdSpec pskSecretName
  match err, lrd with
  | some e, _ => pure (none, none, some e)
  | none, none => pure (none, none, some (.msg "failed to reconcile fully localRD"))
  | none, some lrd =>
    let st ← deref lrd.Status
    let tls ← deref st.RsyncTLS
    let address ← deref tls.Address
    let (lrs, err1) ← v.reconcileLocalRS rd rdSpec snapshotRef pskSecretName address
    match err1 with
    | some e => pure (some lrd, none, some e)
    | none => pure (some lrd, lrs, none)

/-- Go `rollbackToLastSnapshot`. -/
def rollbackToLastSnapshot (v : VSHandler) (rdSpec : VolSyncReplicationDestinationSpec)
    (snapshotRef : TypedLocalObjectReference) : M (Option Err) := do
  let key : NamespacedName :=
    { Namespace := rdSpec.ProtectedPVC.Namespace, Name := rdSpec.ProtectedPVC.Name }
  let (rd, err) ← v.pauseRD (getReplicationDestinationName rdSpec.ProtectedPVC.Name)
    rdSpec.ProtectedPVC.Namespace
  match err with
  | some e => pure (some e)
  | none =>
    let (inUse, err1) ← util.IsPVCInUseByPod key false
    match err1 with
    | some e => pure (some e)
    | none =>
      let (lrd0, err2) ← v.getRD (getLocalReplicationName rdSpec.ProtectedPVC.Name)
        rdSpec.ProtectedPVC.Namespace
      match err2 with
      | some e => pure (some e)
      | none =>
        if inUse && lrd0.isNone then
          pure (some (.msg "pvc is still in use by non localRD pod"))
        else
          let pskSecretName := GetVolSyncPSKSecretNameFromVRGName v.owner.ObjectMeta.Name
          let (lrd, lrs, err3) ← v.reconcileLocalReplication rd rdSpec snapshotRef pskSecretName
          match err3 with
          | some e => pure (some e)
          | none =>
            let lrs ← deref lrs
            if !v.checkLastSnapshotSyncStatus lrs snapshotRef then
              pure (some (.msg ("waiting for local RS to complete transfer " ++ lrs.ObjectMeta.Name)))
            else
              let lrd ← deref lrd
              let (_, err4) ← v.pauseRD lrd.ObjectMeta.Name lrd.ObjectMeta.Namespace
              match err4 with
              | some e => pure (some e)
              | none =>
                let _ ← deref lrs.Spec.Trigger
                let st ← deref lrs.Status
                let _ ← deref st.LatestMoverStatus
                pure none

/-- Go `ValidateObjectExists`: the object is read into `obj`; a missing object is
reported with an error of its own. -/
def ValidateObjectExists {α : Type} (K : Kind α) (obj : α) : M (α × Option Err) := do
  match ← clientGet K (K.meta obj).Namespace (K.meta obj).Name with
  | .error e =>
    if e.IsNotFound then pure (obj, some (.msg ("PVC " ++ (K.meta obj).Name ++ " not found")))
    else pure (obj, some e)
  | .ok o => pure (o, none)

/-- The capacity `ensurePVCFromSnapshot` requests: the storage request of the
protected claim, or the restore size of the snapshot when that is larger. -/
def restoreCapacity (rdSpec : VolSyncReplicationDestinationSpec)
    (snapRestoreSize : Option Quantity) : Option Quantity :=
  let pvcRequestedCapacity := ResourceListStorage rdSpec.ProtectedPVC.Requests
  match snapRestoreSize with
  | some r =>
    (match pvcRequestedCapacity with
     | none => some r
     | some c => if r > c then some r else some c)
  | none => pvcRequestedCapacity

/-- The `MutateFn` handed to `CreateOrUpdate` by `ensurePVCFromSnapshot`; it assigns
the captured `pvcNeedsRecreation`, and writing the storage request dereferences the
capacity. -/
def mutateRestoredPVC (rdSpec : VolSyncReplicationDestinationSpec)
    (snapshotRef : TypedLocalObjectReference) (pvcRequestedCapacity : Option Quantity)
    (pvc : PersistentVolumeClaim) (pvcNeedsRecreation : Bool) :
    Option (PersistentVolumeClaim × Bool × Option Err) :=
  if pvc.ObjectMeta.CreationTimestamp != 0
      && !objectRefMatches pvc.Spec.DataSource (some snapshotRef) then
    some (pvc, true, none)
  else if pvc.Phase == ClaimBound then some (pvc, pvcNeedsRecreation, none)
  else
    let pvc1 : PersistentVolumeClaim := { pvc with ObjectMeta := { pvc.ObjectMeta with
      Labels := util.UpdateStringMap pvc.ObjectMeta.Labels rdSpec.ProtectedPVC.Labels,
      Annotations := util.UpdateStringMap pvc.ObjectMeta.Annotations rdSpec.ProtectedPVC.Annotations } }
    let accessModes : List String :=
      if rdSpec.ProtectedPVC.AccessModes.length > 0 then rdSpec.ProtectedPVC.AccessModes
      else [ReadWriteOnce]
    let pvc2 : PersistentVolumeClaim :=
      if pvc1.ObjectMeta.CreationTimestamp == 0 then
        { pvc1 with Spec := { pvc1.Spec with
            AccessModes := accessModes,
            StorageClassName := rdSpec.ProtectedPVC.StorageClassName,
            DataSource := some snapshotRef } }
      else pvc1
    match pvcRequestedCapacity with
    | none => none
    | some q => some ({ pvc2 with Spec := { pvc2.Spec with Requests := some q } }, pvcNeedsRecreation, none)

/-- Go `ensurePVCFromSnapshot`. -/
def ensurePVCFromSnapshot (_v : VSHandler) (rdSpec : VolSyncReplicationDestinationSpec)
    (snapshotRef : TypedLocalObjectReference) (snapRestoreSize : Option Quantity) :
    M (Option PersistentVolumeClaim × Option Err) := do
  let pvc : PersistentVolumeClaim := util.AddLabel pvcKind
    { ObjectMeta := { Name := rdSpec.ProtectedPVC.Name, Namespace := rdSpec.ProtectedPVC.Namespace } }
    util.CreatedByRamenLabel "true"
  let pvcRequestedCapacity := restoreCapacity rdSpec snapRestoreSize
  let (_, pvc1, pvcNeedsRecreation, err) ← CreateOrUpdateWith pvcKind pvc false
    (mutateRestoredPVC rdSpec snapshotRef pvcRequestedCapacity)
  match err with
  | some e => pure (none, some e)
  | none =>
    if pvcNeedsRecreation then
      let _ ← clientDelete pvcKind pvc1
      pure (none, some (.msg ("pvc has incorrect datasource, will need to delete and recreate, pvc: "
        ++ pvc1.ObjectMeta.Name)))
    else pure (some pvc1, none)

/-- Go `ValidateSnapshotAndEnsurePVC`. -/
def ValidateSnapshotAndEnsurePVC (v : VSHandler) (rdSpec : VolSyncReplicationDestinationSpec)
    (snapshotRef : TypedLocalObjectReference) (failoverAction : Bool) : M (Option Err) := do
  let (snap, err) ← v.validateAndProtectSnapshot snapshotRef rdSpec.ProtectedPVC.Namespace
  match err with
  | some e => pure (some e)
  | none =>
    let err1 ← (if v.IsCopyMethodDirect then do
        let (_, verr) ← ValidateObjectExists pvcKind
          { ObjectMeta := { Name := rdSpec.ProtectedPVC.Name,
                            Namespace := rdSpec.ProtectedPVC.Namespace } }
        match verr with
        | some e => pure (some e)
        | none =>
          if failoverAction then v.rollbackToLastSnapshot rdSpec snapshotRef else pure none
      else do
        let snap ← deref snap
        let restoreSize : Option Quantity :=
          match snap.Status with
          | some st => st.RestoreSize
          | none => none
        let (_, eerr) ← v.ensurePVCFromSnapshot rdSpec snapshotRef restoreSize
        pure eerr)
    match err1 with
    | some e => pure (some e)
    | none =>
      let (pvc, gerr) ← v.getPVC (util.ProtectedPVCNamespacedName rdSpec.ProtectedPVC)
      match gerr with
      | some e => pure (some e)
      | none =>
        let pvc ← deref pvc
        v.addBackOCMAnnotationsAndUpdate pvcKind pvc rdSpec.ProtectedPVC.Annotations

/-- Go `EnsurePVCfromRD`. -/
def EnsurePVCfromRD (v : VSHandler) (rdSpec : VolSyncReplicationDestinationSpec)
    (failoverAction : Bool) : M (Option Err) := do
  let (latestImage, err) ← v.getRDLatestImage rdSpec.ProtectedPVC.Name rdSpec.ProtectedPVC.Namespace
  match err with
  | some e => pure (some e)
  | none =>
    if !isLatestImageReady latestImage then
      pure (some (.msg ("unable to find LatestImage from ReplicationDestination "
        ++ rdSpec.ProtectedPVC.Name)))
    else
      let latestImage ← deref latestImage
      let vsImageRef : TypedLocalObjectReference :=
        if latestImage.APIGroup == none || latestImage.APIGroup == some "" then
          { latestImage with APIGroup := some SnapshotGroupName }
        else latestImage
      v.ValidateSnapshotAndEnsurePVC rdSpec vsImageRef failoverAction

/-- Whether a destination corresponds to an entry of `rdSpecList`: the inner loop of
`CleanupRDNotInSpecList`. -/
def foundInSpecList (rdSpecList : List VolSyncReplicationDestinationSpec)
    (rd : ReplicationDestination) : Bool :=
  rdSpecList.any (fun rdSpec =>
    rd.ObjectMeta.Name == getReplicationDestinationName rdSpec.ProtectedPVC.Name
      && rd.ObjectMeta.Namespace == rdSpec.ProtectedPVC.Namespace)

/-- The outer loop of `CleanupRDNotInSpecList` over the listed destinations: a failed
delete of a destination is logged and skipped, a failed delete of a claim ends the loop. -/
def CleanupRDNotInSpecList.loop (rdSpecList : List VolSyncReplicationDestinationSpec)
    (repState : ReplicationState) : List ReplicationDestination → M (Option Err)
  | [] => pure none
  | rd :: rest => do
    if !foundInSpecList rdSpecList rd then
      if mapGet rd.ObjectMeta.Labels VolSyncDoNotDeleteLabel == VolSyncDoNotDeleteLabelVal then
        CleanupRDNotInSpecList.loop rdSpecList repState rest
      else
        let _ ← clientDelete rdKind rd
        if repState == ReplicationState.Secondary then
          match ← util.DeletePVC rd.ObjectMeta.Name rd.ObjectMeta.Namespace with
          | some e => pure (some e)
          | none => CleanupRDNotInSpecList.loop rdSpecList repState rest
        else CleanupRDNotInSpecList.loop rdSpecList repState rest
    else CleanupRDNotInSpecList.loop rdSpecList repState rest

/-- Go `CleanupRDNotInSpecList`. -/
def CleanupRDNotInSpecList (v : VSHandler) (rdSpecList : List VolSyncReplicationDestinationSpec)
    (repState : ReplicationState) : M (Option Err) := do
  match ← v.listRDByOwner "" with
  | .error e => pure (some e)
  | .ok items => CleanupRDNotInSpecList.loop rdSpecList repState items

end VSHandler

/-! ## Frame conditions

`Modifies S m` says that a run of `m` changes the state only in the parts named by
`S` (and in the call counter and call log, which every client call advances). -/

/-- The parts of the state a computation may change. -/
structure Mods where
  secrets : Bool := false
  pvcs : Bool := false
  pvs : Bool := false
  rss : Bool := false
  rds : Bool := false
  snapshots : Bool := false
  snapshotClasses : Bool := false
  storageClasses : Bool := false
  serviceExports : Bool := false
  pods : Bool := false
  volumeAttachments : Bool := false
  jobs : Bool := false
  workloadStatus : Bool := false
  volumeSnapshotClassList : Bool := false
deriving DecidableEq, Repr

/-- The state with the parts named by `S`, the call counter and the log blanked. -/
def World.erase (S : Mods) (w : World) : World :=
  { secrets := if S.secrets then [] else w.secrets
    pvcs := if S.pvcs then [] else w.pvcs
    pvs := if S.pvs then [] else w.pvs
    rss := if S.rss then [] else w.rss
    rds := if S.rds then [] else w.rds
    snapshots := if S.snapshots then [] else w.snapshots
    snapshotClasses := if S.snapshotClasses then [] else w.snapshotClasses
    storageClasses := if S.storageClasses then [] else w.storageClasses
    serviceExports := if S.serviceExports then [] else w.serviceExports
    pods := if S.pods then [] else w.pods
    volumeAttachments := if S.volumeAttachments then [] else w.volumeAttachments
    jobs := if S.jobs then [] else w.jobs
    faults := w.faults
    calls := 0
    log := []
    workloadStatus := if S.workloadStatus then "" else w.workloadStatus
    volumeSnapshotClassList := if S.volumeSnapshotClassList then none else w.volumeSnapshotClassList }

/-- Two states agree outside the parts named by `S`. -/
def Agree (S : Mods) (w w1 : World) : Prop := w1.erase S = w.erase S

/-- Every run of `m` leaves the state unchanged outside the parts named by `S`. -/
structure Modifies {α : Type} (S : Mods) (m : M α) : Prop where
  run : ∀ w a w1, m w = some (a, w1) → Agree S w w1

/-- Writing the objects of kind `K` stays within `S`. -/
def Covers {α : Type} (S : Mods) (K : Kind α) : Prop :=
  ∀ w l, (K.put w l).erase S = w.erase S

/-- The fault oracle never fires. -/
def NoFaults (w : World) : Prop := ∀ n, w.faults n = false

/-- The metadata accessors of a kind fit together. -/
def Kind.Lawful {α : Type} (K : Kind α) : Prop := ∀ o m, K.meta (K.setMeta o m) = m

/-- The state after a read-only client call. -/
def World.tick (w : World) : World := { w with calls := w.calls + 1 }

/-- The state after a mutating client call was issued, before it takes effect. -/
def World.logged (w : World) (c : Call) : World :=
  { w with calls := w.calls + 1, log := w.log ++ [c] }

/-- Every source of the group under the key is marked deleted. -/
def OwnedGone {α : Type} (K : Kind α) (v : VSHandler) (l : List α) (ns name : String) : Prop :=
  ∀ o ∈ l, hasKey (K.meta o) ns name = true → v.ownedBy (K.meta o) = true →
    metaIsDeleted (K.meta o) = true

/-- Loop invariant of the delete loops: a live object of the group under the key
still has an entry in the rest of the list. -/
def Pending {α : Type} (K : Kind α) (v : VSHandler) (l : List α) (items : List α)
    (ns name : String) : Prop :=
  ∀ o ∈ l, hasKey (K.meta o) ns name = true → v.ownedBy (K.meta o) = true →
    metaIsDeleted (K.meta o) = true ∨ ∃ x ∈ items, hasKey (K.meta x) ns name = true

/-- The destinations only shrink: what is there afterwards was there before, under
the same key and labels, and stays marked deleted if it was. -/
def RdsShrink (w w1 : World) : Prop :=
  w1.faults = w.faults ∧
  ∀ rd ∈ w1.rds, ∃ rd0 ∈ w.rds, rd0.ObjectMeta.Name = rd.ObjectMeta.Name
    ∧ rd0.ObjectMeta.Namespace = rd.ObjectMeta.Namespace
    ∧ rd0.ObjectMeta.Labels = rd.ObjectMeta.Labels
    ∧ (metaIsDeleted rd0.ObjectMeta = true → metaIsDeleted rd.ObjectMeta = true)

/-- Every run of `m` only shrinks the destinations. -/
structure Shrinks {α : Type} (m : M α) : Prop where
  run : ∀ w a w1, m w = some (a, w1) → RdsShrink w w1

/-- Deleting objects of kind `K` only shrinks the destinations. -/
def DeleteShrinks {α : Type} (K : Kind α) : Prop :=
  ∀ w c ns name now, RdsShrink w (K.put (World.logged w c) (storeDelete K (K.objs w) ns name now))

/-- Every part of the state. -/
def Mods.all : Mods :=
  { secrets := true, pvcs := true, pvs := true, rss := true, rds := true, snapshots := true,
    snapshotClasses := true, storageClasses := true, serviceExports := true, pods := true,
    volumeAttachments := true, jobs := true, workloadStatus := true,
    volumeSnapshotClassList := true }

/-- Every run of `m` returns: it never panics. -/
structure Total {α : Type} (m : M α) : Prop where
  run : ∀ w, ∃ a w1, m w = some (a, w1)

/-- An object the API server can hold: it is marked deleted only while finalizers remain. -/
def Storable (m : ObjectMeta) : Prop := metaIsDeleted m = true → m.Finalizers ≠ []

/-- The local transfer of a rollback to `snapshotName` is complete in `w`: the local
source of the claim is stored with a manual trigger equal to the snapshot name and a
status whose `lastManualSync` equals that trigger. -/
def LocalTransferDone (w : World) (ns pvcName snapshotName : String) : Prop :=
  ∃ lrs tr st, storeGet rsKind.meta w.rss ns (getLocalReplicationName pvcName) = some lrs ∧
    lrs.Spec.Trigger = some tr ∧ tr.Manual = snapshotName ∧
    lrs.Status = some st ∧ st.LastManualSync = tr.Manual

/-- The local destination of the claim is stored paused in `w`. -/
def LocalDestinationPaused (w : World) (ns pvcName : String) : Prop :=
  ∃ lrd, storeGet rdKind.meta w.rds ns (getLocalReplicationName pvcName) = some lrd ∧
    lrd.Spec.Paused = true

/-- Every run of `m` extends the log of mutating calls only by calls satisfying `P`. -/
structure Writes {α : Type} (P : Call → Prop) (m : M α) : Prop where
  run : ∀ w a w1, m w = some (a, w1) → ∃ l, w1.log = w.log ++ l ∧ ∀ c ∈ l, P c

/-- The call leaves the ReplicationSources as they are or deletes one: it is not a
create or an update of a ReplicationSource. -/
def NoSourceWrite (c : Call) : Prop := c.kind = "ReplicationSource" → c.verb = .delete

/-- The kind writes its objects without touching the call log. -/
def Kind.KeepsLog {α : Type} (K : Kind α) : Prop := ∀ w l, (K.put w l).log = w.log

/-- The part of `ReconcileRS` from the validation of the claim on, which the call
reaches once the secret is in place and `DeleteRD` has returned no error. -/
def ReconcileRS_fromValidation (v : VSHandler) (rsSpec : VolSyncReplicationSourceSpec)
    (runFinalSync : Bool) : M (Bool × Option ReplicationSource × Option Err) := do
  let pskSecretName := GetVolSyncPSKSecretNameFromVRGName v.owner.ObjectMeta.Name
  let (pvcOk, err2) ← v.validatePVCForFinalSync rsSpec runFinalSync
  if !pvcOk || err2.isSome then
    let (existingRS, getRSErr) ← v.getRS
      (getReplicationSourceName rsSpec.ProtectedPVC.Name) rsSpec.ProtectedPVC.Namespace
    match getRSErr with
    | some _ => pure (false, none, err2)
    | none => pure (false, existingRS, err2)
  else
    let (replicationSource, err3) ← v.createOrUpdateRS rsSpec pskSecretName runFinalSync
    match err3, replicationSource with
    | some e, _ => pure (false, replicationSource, some e)
    | none, none => pure (false, none, none)
    | none, some rs =>
      if runFinalSync && isFinalSyncComplete rs then
        match ← v.undoAfterFinalSync rsSpec.ProtectedPVC.Name rsSpec.ProtectedPVC.Namespace with
        | some e => pure (false, replicationSource, some e)
        | none =>
          let cerr ← v.cleanupAfterRSFinalSync rsSpec
          pure (true, replicationSource, cerr)
      else pure (false, replicationSource, none)

/-- Some pod of the namespace names the claim in a volume. -/
def MountedByPod (w : World) (key : NamespacedName) : Bool :=
  (w.pods.filter (fun o => key.Namespace == "" || o.ObjectMeta.Namespace == key.Namespace)).any
    (fun q => q.ClaimNames.contains key.Name)

/-- The volume of the claim is still attached to a node. -/
def AttachedToNode (w : World) (pvc : PersistentVolumeClaim) : Bool :=
  pvc.Spec.VolumeName != "" &&
    w.volumeAttachments.any (fun va => va.PersistentVolumeName == some pvc.Spec.VolumeName)

/-- The state `w1` differs from `w` in the call counter only. -/
def OnlyCalls (w w1 : World) : Prop := w1 = { w with calls := w1.calls }

/-- A candidate snapshot class matches a storage class: its driver is the provisioner
of the storage class, and its storage-id label is absent or empty or equal to the
storage-id label of the storage class. -/
def classMatches (storageClass : StorageClass) (c : VolumeSnapshotClass) : Bool :=
  c.Driver == storageClass.Provisioner &&
    (mapGet c.ObjectMeta.Labels StorageIDLabel == ""
      || mapGet c.ObjectMeta.Labels StorageIDLabel == mapGet storageClass.ObjectMeta.Labels StorageIDLabel)

/-- The call is on an object of one of the kinds `ks`. -/
def Touches (ks : List String) (c : Call) : Prop := c.kind ∈ ks

/-- The claim `ensurePVCFromSnapshot` hands to `CreateOrUpdate`. -/
def restoredPVCKey (rdSpec : VolSyncReplicationDestinationSpec) : PersistentVolumeClaim :=
  util.AddLabel pvcKind
    { ObjectMeta := { Name := rdSpec.ProtectedPVC.Name, Namespace := rdSpec.ProtectedPVC.Namespace } }
    util.CreatedByRamenLabel "true"

/-- The snapshots `pruneOldSnapshots` lists: those in the namespace (every namespace
when it is empty) that carry the owner labels of the replication group. -/
def prunable (v : VSHandler) (ns : String) (w : World) : List VolumeSnapshot :=
  w.snapshots.filter (fun o => (ns == "" || o.ObjectMeta.Namespace == ns) && v.ownedBy o.ObjectMeta)

/-- No two stored snapshots share a namespace and name, as the API server guarantees. -/
def UniqueKeys (l : List VolumeSnapshot) : Prop :=
  ∀ a ∈ l, ∀ b ∈ l, a.ObjectMeta.Namespace = b.ObjectMeta.Namespace →
    a.ObjectMeta.Name = b.ObjectMeta.Name → a = b

instance uniqueKeys_decidable (l : List VolumeSnapshot) : Decidable (UniqueKeys l) := by
  unfold UniqueKeys
  exact inferInstance

/-- The delete call `deleteVolumeSnapshots` issues for a snapshot. -/
def snapshotDelete (s : VolumeSnapshot) : Call :=
  ⟨.delete, "VolumeSnapshot", s.ObjectMeta.Namespace, s.ObjectMeta.Name⟩

/-- What a run of `deleteVolumeSnapshots` over `doomed` leaves behind: the calls are
logged in order, a snapshot under another key stays as it is, whatever is left under
the key of a deleted snapshot is marked deleted (nothing is left when no finalizer
held it), and nothing new appears. -/
structure Pruned (doomed : List VolumeSnapshot) (wa w1 : World) : Prop where
  log : w1.log = wa.log ++ doomed.map snapshotDelete
  keeps : ∀ x ∈ wa.snapshots,
    (∀ s ∈ doomed, hasKey x.ObjectMeta s.ObjectMeta.Namespace s.ObjectMeta.Name = false) →
    x ∈ w1.snapshots
  gone : ∀ s ∈ doomed, ∀ y ∈ w1.snapshots,
    hasKey y.ObjectMeta s.ObjectMeta.Namespace s.ObjectMeta.Name = true →
    metaIsDeleted y.ObjectMeta = true
  shrinks : ∀ y ∈ w1.snapshots, ∃ x ∈ wa.snapshots,
    x.ObjectMeta.Name = y.ObjectMeta.Name ∧ x.ObjectMeta.Namespace = y.ObjectMeta.Namespace ∧
    x.ObjectMeta.Labels = y.ObjectMeta.Labels ∧
    (metaIsDeleted x.ObjectMeta = true → metaIsDeleted y.ObjectMeta = true)
  finalizers : ∀ y ∈ w1.snapshots, ∃ x ∈ wa.snapshots,
    x.ObjectMeta.Name = y.ObjectMeta.Name ∧ x.ObjectMeta.Namespace = y.ObjectMeta.Namespace ∧
    x.ObjectMeta.Finalizers = y.ObjectMeta.Finalizers
  removed : ∀ s ∈ doomed,
    (∀ x ∈ wa.snapshots, hasKey x.ObjectMeta s.ObjectMeta.Namespace s.ObjectMeta.Name = true →
      x.ObjectMeta.Finalizers = []) →
    ∀ y ∈ w1.snapshots, hasKey y.ObjectMeta s.ObjectMeta.Namespace s.ObjectMeta.Name = false

instance notAfter_total : IsTotal VolumeSnapshot VSHandler.notAfter :=
  ⟨fun a b => Nat.le_total a.ObjectMeta.CreationTimestamp b.ObjectMeta.CreationTimestamp⟩

instance notAfter_trans : IsTrans VolumeSnapshot VSHandler.notAfter :=
  ⟨fun _ _ _ h1 h2 => Nat.le_trans h1 h2⟩

/-- A destination is superseded: its name and namespace match no entry of
`rdSpecList`, and it does not carry the label `volsync.backube/do-not-delete=true`. -/
def superseded (rdSpecList : List VolSyncReplicationDestinationSpec)
    (rd : ReplicationDestination) : Bool :=
  rdSpecList.all (fun rdSpec =>
      !(rd.ObjectMeta.Name == rdSpec.ProtectedPVC.Name
        && rd.ObjectMeta.Namespace == rdSpec.ProtectedPVC.Namespace))
    && !(mapLookup rd.ObjectMeta.Labels "volsync.backube/do-not-delete" == some "true")

/-- The delete call issued for a destination. -/
def destinationDelete (rd : ReplicationDestination) : Call :=
  ⟨.delete, "ReplicationDestination", rd.ObjectMeta.Namespace, rd.ObjectMeta.Name⟩

/-- The delete call issued for the claim named like a destination. -/
def claimDelete (rd : ReplicationDestination) : Call :=
  ⟨.delete, "PersistentVolumeClaim", rd.ObjectMeta.Namespace, rd.ObjectMeta.Name⟩

/-- What a run of the loop of `CleanupRDNotInSpecList` over `items` leaves behind. The
calls it issued are deletes of superseded destinations of the list and, for a Secondary,
of the claims named like them; otherwise the claims are as they were; and when the run
returns nil, no superseded destination was skipped and, for a Secondary, whatever is
left under the key of its claim is marked deleted. -/
structure Swept (rdSpecList : List VolSyncReplicationDestinationSpec) (repState : ReplicationState)
    (items : List ReplicationDestination) (wa w1 : World) (r : Option Err) (l : List Call) :
    Prop where
  log : w1.log = wa.log ++ l
  only : ∀ c ∈ l,
    (∃ rd ∈ items, superseded rdSpecList rd = true ∧ c = destinationDelete rd) ∨
    (repState = ReplicationState.Secondary ∧
      ∃ rd ∈ items, superseded rdSpecList rd = true ∧ c = claimDelete rd)
  claims : repState ≠ ReplicationState.Secondary → w1.pvcs = wa.pvcs
  shrinks : ∀ x ∈ w1.pvcs, ∃ x0 ∈ wa.pvcs, x0.ObjectMeta.Name = x.ObjectMeta.Name ∧
    x0.ObjectMeta.Namespace = x.ObjectMeta.Namespace ∧
    (metaIsDeleted x0.ObjectMeta = true → metaIsDeleted x.ObjectMeta = true)
  every : r = none → ∀ rd ∈ items, superseded rdSpecList rd = true → destinationDelete rd ∈ l
  gone : r = none → repState = ReplicationState.Secondary →
    ∀ rd ∈ items, superseded rdSpecList rd = true → ∀ x ∈ w1.pvcs,
      hasKey x.ObjectMeta rd.ObjectMeta.Namespace rd.ObjectMeta.Name = true →
      metaIsDeleted x.ObjectMeta = true

/-- The number a list of decimal digits denotes, as `Atoi` accumulates it. -/
def decimalValue (ds : List Char) : Nat :=
  ds.foldl (fun acc c => acc * 10 + (c.toNat - 48)) 0

/-- The source waits in the prepared state: its manual trigger is the prepare token. -/
def preparedForFinalSync (rs : ReplicationSource) : Bool :=
  match rs.Spec.Trigger with
  | some tr => tr.Manual == PrepareForFinalSyncTriggerString
  | none => false

/-- Whatever is stored under the key is being deleted and held by a finalizer: one
more delete of the key changes nothing. -/
def KeySettled {α : Type} (K : Kind α) (l : List α) (ns name : String) : Prop :=
  ∀ y ∈ l, hasKey (K.meta y) ns name = true →
    (K.meta y).Finalizers ≠ [] ∧ metaIsDeleted (K.meta y) = true

/-- The state `w1` holds the objects of `w`, unchanged, and the handler fields of
`w`; the calls logged in between are deletes only. -/
def Quiet (w w1 : World) : Prop :=
  Agree {} w w1 ∧ ∃ l, w1.log = w.log ++ l ∧ ∀ c ∈ l, c.verb = Verb.delete

/-- Invariant of a delete loop over `items`, the listed objects named `p`: each of
them still stored has its key settled or an entry left in `items`. -/
def Settling {α : Type} (K : Kind α) (listed : ObjectMeta → Bool) (p : String) (l items : List α) :
    Prop :=
  ∀ y ∈ l, listed (K.meta y) = true → (K.meta y).Name = p →
    KeySettled K l (K.meta y).Namespace (K.meta y).Name ∨
    ∃ x ∈ items, (K.meta x).Namespace = (K.meta y).Namespace ∧ (K.meta x).Name = (K.meta y).Name

/-- The listing predicate looks at the namespace and the labels only. -/
def ByLabels (listed : ObjectMeta → Bool) : Prop :=
  ∀ m m1 : ObjectMeta, m.Namespace = m1.Namespace → m.Labels = m1.Labels → listed m = listed m1

/-- What `listByOwner` selects: the objects of the namespace (of every namespace when
it is empty) that carry the owner labels. -/
def listedBy (v : VSHandler) (ns : String) (m : ObjectMeta) : Bool :=
  (ns == "" || m.Namespace == ns) && v.ownedBy m

/-- The metadata is as `SetOwnerReference` for the owner leaves it. -/
def OwnerRefSet (apiVersion kind : String) (owner m : ObjectMeta) : Prop :=
  validateOwner owner m = none ∧
  upsertOwnerRef { APIVersion := apiVersion, Kind := kind, Name := owner.Name, UID := owner.UID }
    m.OwnerReferences = m.OwnerReferences

/-- The metadata is as `SetControllerReference` for the owner leaves it. -/
def ControllerRefSet (apiVersion kind : String) (owner m : ObjectMeta) : Prop :=
  validateOwner owner m = none ∧
  m.OwnerReferences.find? (fun r => r.Controller) =
    some { APIVersion := apiVersion, Kind := kind, Name := owner.Name, UID := owner.UID,
           Controller := true, BlockOwnerDeletion := true } ∧
  parseGroup apiVersion ≠ none ∧
  upsertOwnerRef { APIVersion := apiVersion, Kind := kind, Name := owner.Name, UID := owner.UID,
                   Controller := true, BlockOwnerDeletion := true }
    m.OwnerReferences = m.OwnerReferences

/-- The metadata carries what the `MutateFn`s of the handler write into it: the
controller reference of the owner (outside the admin namespace) and the two owner
labels. -/
def OwnedMeta (v : VSHandler) (m : ObjectMeta) : Prop :=
  (v.vrgInAdminNamespace = true ∨
    ControllerRefSet v.owner.APIVersion v.owner.Kind v.owner.ObjectMeta m) ∧
  mapLookup m.Labels VRGOwnerNameLabel = some v.owner.ObjectMeta.Name ∧
  mapLookup m.Labels VRGOwnerNamespaceLabel = some v.owner.ObjectMeta.Namespace

/-- The metadata after the controller reference and the two owner labels were set. -/
def ownedMetaOf (v : VSHandler) (m : ObjectMeta) : ObjectMeta × Option Err :=
  match (if !v.vrgInAdminNamespace
      then SetControllerReferenceMeta v.owner.APIVersion v.owner.Kind v.owner.ObjectMeta m
      else (m, none)) with
  | (m1, some e) => (m1, some e)
  | (m1, none) =>
    ((util.metaAddLabel (util.metaAddLabel m1 VRGOwnerNameLabel v.owner.ObjectMeta.Name).1
      VRGOwnerNamespaceLabel v.owner.ObjectMeta.Namespace).1, none)

/-- Every part of the state that `S` lets differ, `T` lets differ too. -/
def Mods.le (S T : Mods) : Prop :=
  (S.secrets = true → T.secrets = true) ∧ (S.pvcs = true → T.pvcs = true) ∧
  (S.pvs = true → T.pvs = true) ∧ (S.rss = true → T.rss = true) ∧
  (S.rds = true → T.rds = true) ∧ (S.snapshots = true → T.snapshots = true) ∧
  (S.snapshotClasses = true → T.snapshotClasses = true) ∧
  (S.storageClasses = true → T.storageClasses = true) ∧
  (S.serviceExports = true → T.serviceExports = true) ∧ (S.pods = true → T.pods = true) ∧
  (S.volumeAttachments = true → T.volumeAttachments = true) ∧ (S.jobs = true → T.jobs = true) ∧
  (S.workloadStatus = true → T.workloadStatus = true) ∧
  (S.volumeSnapshotClassList = true → T.volumeSnapshotClassList = true)

/-- The parts of the state named by `S` or by `T`. -/
def Mods.union (S T : Mods) : Mods :=
  { secrets := S.secrets || T.secrets
    pvcs := S.pvcs || T.pvcs
    pvs := S.pvs || T.pvs
    rss := S.rss || T.rss
    rds := S.rds || T.rds
    snapshots := S.snapshots || T.snapshots
    snapshotClasses := S.snapshotClasses || T.snapshotClasses
    storageClasses := S.storageClasses || T.storageClasses
    serviceExports := S.serviceExports || T.serviceExports
    pods := S.pods || T.pods
    volumeAttachments := S.volumeAttachments || T.volumeAttachments
    jobs := S.jobs || T.jobs
    workloadStatus := S.workloadStatus || T.workloadStatus
    volumeSnapshotClassList := S.volumeSnapshotClassList || T.volumeSnapshotClassList }

instance modsLe_decidable (S T : Mods) : Decidable (S.le T) := by
  unfold Mods.le
  exact inferInstance

/-- A run of `m` from a state satisfying `Pre`, repeated on any state that `P` relates
to the one the first run left, returns the same, leaves every object as it is and
issues deletes only. -/
def Reruns {α : Type} (Pre : World → Prop) (P : World → World → Prop) (m : M α) : Prop :=
  ∀ w r wa, NoFaults w → Pre w → m w = some (r, wa) →
    ∀ w2, NoFaults w2 → P wa w2 → ∃ w3, m w2 = some (r, w3) ∧ Quiet w2 w3

/-- The `RsyncTLS` section `mutateRD` writes into the destination. -/
def rdTLS (rdSpec : VolSyncReplicationDestinationSpec) (pskSecretName : String)
    (dstPVC : Option String) (volumeSnapshotClassName : String) :
    ReplicationDestinationRsyncTLSSpec :=
  { ServiceType := some DefaultRsyncServiceType,
    KeySecret := some pskSecretName,
    CopyMethod := CopyMethodSnapshot,
    Capacity := VSHandler.ResourceListStorage rdSpec.ProtectedPVC.Requests,
    StorageClassName := rdSpec.ProtectedPVC.StorageClassName,
    AccessModes := if rdSpec.ProtectedPVC.AccessModes.length > 0
      then rdSpec.ProtectedPVC.AccessModes else [ReadWriteOnce],
    VolumeSnapshotClassName := some volumeSnapshotClassName,
    DestinationPVC := dstPVC }

/-- The destination carries everything `mutateRD` writes. -/
def RDFixed (v : VSHandler) (tls : ReplicationDestinationRsyncTLSSpec)
    (x : ReplicationDestination) : Prop :=
  OwnedMeta v x.ObjectMeta ∧
  mapLookup x.ObjectMeta.Annotations OwnerNameAnnotation = some v.owner.ObjectMeta.Name ∧
  mapLookup x.ObjectMeta.Annotations OwnerNamespaceAnnotation = some v.owner.ObjectMeta.Namespace ∧
  x.Spec.RsyncTLS = some tls

/-- The metadata without its deletion mark. -/
def unmarked (m : ObjectMeta) : ObjectMeta := { m with DeletionTimestamp := none }

/-- The snapshots carrying the owner labels have pairwise distinct creation times. -/
def DistinctSnapshotTimes (v : VSHandler) (w : World) : Prop :=
  (w.snapshots.filter (fun o => v.ownedBy o.ObjectMeta)).Pairwise
    (fun a b => a.ObjectMeta.CreationTimestamp ≠ b.ObjectMeta.CreationTimestamp)

/-- What the API server guarantees of the objects a reconcile of a destination looks
at and writes: a stored secret, destination or service export that is marked deleted
is held by a finalizer. -/
def StorableForRD (w : World) : Prop :=
  (∀ x ∈ w.secrets, Storable x.ObjectMeta) ∧ (∀ x ∈ w.rds, Storable x.ObjectMeta) ∧
  (∀ x ∈ w.serviceExports, Storable x.ObjectMeta)

/-- The `RsyncTLS` section `mutateRS` writes into the source. -/
def rsTLS (rsSpec : VolSyncReplicationSourceSpec) (pskSecretName : String)
    (volumeSnapshotClassName remoteAddress : String) : ReplicationSourceRsyncTLSSpec :=
  { KeySecret := some pskSecretName,
    Address := some remoteAddress,
    CopyMethod := CopyMethodSnapshot,
    VolumeSnapshotClassName := some volumeSnapshotClassName,
    StorageClassName := rsSpec.ProtectedPVC.StorageClassName,
    AccessModes := rsSpec.ProtectedPVC.AccessModes }

/-- The source carries everything `mutateRS` writes when no final sync is asked for. -/
def RSFixed (v : VSHandler) (sourcePVC : String) (cron : Option String)
    (tls : ReplicationSourceRsyncTLSSpec) (x : ReplicationSource) : Prop :=
  OwnedMeta v x.ObjectMeta ∧ x.Spec.SourcePVC = sourcePVC ∧
  x.Spec.Trigger = some { Schedule := cron } ∧ x.Spec.RsyncTLS = some tls

/-- The object `createOrUpdateRS` hands to `CreateOrUpdate`. -/
def sourceKey (rsSpec : VolSyncReplicationSourceSpec) : ReplicationSource :=
  util.AddLabel rsKind
    { ObjectMeta := { Name := getReplicationSourceName rsSpec.ProtectedPVC.Name,
                      Namespace := rsSpec.ProtectedPVC.Namespace } }
    util.CreatedByRamenLabel "true"

/-- What the API server guarantees of the objects a reconcile of a source looks at
and writes: a stored secret or source that is marked deleted is held by a finalizer. -/
def StorableForRS (w : World) : Prop :=
  (∀ x ∈ w.secrets, Storable x.ObjectMeta) ∧ (∀ x ∈ w.rss, Storable x.ObjectMeta)

instance storable_decidable (m : ObjectMeta) : Decidable (Storable m) := by
  unfold Storable
  exact inferInstance

instance distinctSnapshotTimes_decidable (v : VSHandler) (w : World) :
    Decidable (DistinctSnapshotTimes v w) := by
  unfold DistinctSnapshotTimes
  exact inferInstance

/-- No two different stored objects share a namespace and name, as the API server
guarantees. -/
def KeysUnique {α : Type} (K : Kind α) (l : List α) : Prop :=
  ∀ a ∈ l, ∀ b ∈ l, (K.meta a).Namespace = (K.meta b).Namespace →
    (K.meta a).Name = (K.meta b).Name → a = b

/-- The stored objects under one key. -/
def atKey {α : Type} (K : Kind α) (l : List α) (ns name : String) : List α :=
  l.filter (fun o => hasKey (K.meta o) ns name)

/-- The snapshot is absent, carries the do-not-delete label, or is held by a finalizer
while being deleted: `deleteSnapshot` has nothing left to change. -/
def SnapshotSettled (l : List VolumeSnapshot) (ns name : String) : Prop :=
  ∀ s, storeGet snapshotKind.meta l ns name = some s →
    util.HasLabelWithValue s.ObjectMeta VolSyncDoNotDeleteLabel VolSyncDoNotDeleteLabelVal = true ∨
    KeySettled snapshotKind l ns name

/-- Everything `CleanupLocalResources` deletes for the local source is settled: the
local source, the claim it reads, the local destination of the same name, and the
snapshot named by its trigger. -/
def CleanupSettled (w : World) (lrs : ReplicationSource) : Prop :=
  KeySettled rsKind w.rss lrs.ObjectMeta.Namespace lrs.ObjectMeta.Name ∧
  KeySettled pvcKind w.pvcs lrs.ObjectMeta.Namespace lrs.Spec.SourcePVC ∧
  KeySettled rdKind w.rds lrs.ObjectMeta.Namespace lrs.ObjectMeta.Name ∧
  ∀ tr, lrs.Spec.Trigger = some tr →
    SnapshotSettled w.snapshots lrs.ObjectMeta.Namespace tr.Manual

/-- The test of `deleteLocalRDAndRS` that the local final sync is complete: the local
source has a manual trigger named after the latest image and has synced it. -/
def localComplete (lrs : ReplicationSource) (img : TypedLocalObjectReference) : Bool :=
  match lrs.Spec.Trigger with
  | some tr =>
    tr.Manual == img.Name &&
      (match lrs.Status with
       | some st => st.LastManualSync == tr.Manual
       | none => false)
  | none => false

/-- The latest image of the destination stored under the key, as `getRDLatestImage`
reads it. -/
def latestImageAt (l : List ReplicationDestination) (ns name : String) :
    Option TypedLocalObjectReference :=
  match storeGet rdKind.meta l ns name with
  | none => none
  | some rd =>
    match rd.Status with
    | some st => st.LatestImage
    | none => none

/-- The local resources of the claim are settled: when the destination under the key
has a latest image, the local destination is settled and a stored local source is
complete with everything `CleanupLocalResources` deletes for it settled. -/
def LocalSettled (w : World) (ns p : String) : Prop :=
  ∀ img, latestImageAt w.rds ns p = some img →
    KeySettled rdKind w.rds ns (getLocalReplicationName p) ∧
    ∀ lrs, storeGet rsKind.meta w.rss ns (getLocalReplicationName p) = some lrs →
      localComplete lrs img = true ∧ CleanupSettled w lrs

/-- The local final sync of the claim is still running: the destination has a latest
image and the stored local source is not complete for it. -/
def LocalWaiting (w : World) (ns p : String) : Prop :=
  ∃ img lrs, latestImageAt w.rds ns p = some img ∧
    storeGet rsKind.meta w.rss ns (getLocalReplicationName p) = some lrs ∧
    localComplete lrs img = false

/-- The state `w1` holds what `LocalSettled` for the claim reads in `w`: the
destinations, the claims, the snapshots, and the sources under the local key. -/
def SameLocal (ns p : String) (w w1 : World) : Prop :=
  w1.rds = w.rds ∧ w1.pvcs = w.pvcs ∧ w1.snapshots = w.snapshots ∧
  atKey rsKind w1.rss ns (getLocalReplicationName p) =
    atKey rsKind w.rss ns (getLocalReplicationName p)

instance keysUnique_decidable {α : Type} [DecidableEq α] (K : Kind α) (l : List α) :
    Decidable (KeysUnique K l) := by
  unfold KeysUnique
  exact inferInstance

/-- In the words of the specification: the class carries the annotation
`snapshot.storage.kubernetes.io/is-default-class` with the value `"true"`. -/
def annotatedDefault (c : VolumeSnapshotClass) : Prop :=
  mapLookup c.ObjectMeta.Annotations "snapshot.storage.kubernetes.io/is-default-class"
    = some "true"

instance annotatedDefault_decidable (c : VolumeSnapshotClass) : Decidable (annotatedDefault c) := by
  unfold annotatedDefault
  exact inferInstance

/-- The metadata as the API server returns it: an empty label or annotation map is left
out on the wire (`omitempty`) and reads back as nil. -/
def omitEmpty (m : ObjectMeta) : ObjectMeta :=
  { m with Labels := if m.Labels = some [] then none else m.Labels,
           Annotations := if m.Annotations = some [] then none else m.Annotations }

/-- The claim as the API server returns it. -/
def servedPVC (p : PersistentVolumeClaim) : PersistentVolumeClaim :=
  { p with ObjectMeta := omitEmpty p.ObjectMeta }

/-- The state `w1` holds the objects and the handler fields of `w`, the claims as the
API server returns them; every call logged in between is a delete or an update of a
claim. -/
def Still (w w1 : World) : Prop :=
  Agree { pvcs := true } w w1 ∧ w1.pvcs.map servedPVC = w.pvcs.map servedPVC ∧
  ∃ l, w1.log = w.log ++ l ∧
    ∀ c ∈ l, c.verb = Verb.delete ∨ (c.verb = Verb.update ∧ c.kind = pvcKind.tag)

/-- A stored claim under the key that is marked deleted is held by a finalizer other
than the protection finalizer of the handler. -/
def ClaimHeld (w : World) (ns name : String) : Prop :=
  ∀ p ∈ w.pvcs, hasKey p.ObjectMeta ns name = true → metaIsDeleted p.ObjectMeta = true →
    removeFinalizer p.ObjectMeta.Finalizers PVCFinalizerProtected ≠ []

instance claimHeld_decidable (w : World) (ns name : String) : Decidable (ClaimHeld w ns name) := by
  unfold ClaimHeld
  exact inferInstance

/-- A run of `m` from a state satisfying `Pre`, repeated on any state that `P` relates
to the result and the state of the first run, returns the same and leaves a state that
`Q` relates to the one it started from. -/
def RerunsAs {α : Type} (Q : World → World → Prop) (Pre : World → Prop)
    (P : α → World → World → Prop) (m : M α) : Prop :=
  ∀ w r wa, NoFaults w → Pre w → m w = some (r, wa) →
    ∀ w2, NoFaults w2 → P r wa w2 → ∃ w3, m w2 = some (r, w3) ∧ Q w2 w3

/-- The claim as `EnsurePVCforDirectCopy` writes a claim it found: without the
protection finalizer and without the annotations of the OCM prefix. -/
def directCopyForm (p : PersistentVolumeClaim) : PersistentVolumeClaim :=
  { p with ObjectMeta := { p.ObjectMeta with
      Finalizers := removeFinalizer p.ObjectMeta.Finalizers PVCFinalizerProtected,
      Annotations := some ((p.ObjectMeta.Annotations.getD []).filter
        (fun q => !HasPrefix q.1 "apps.open-cluster-management.io")) } }

/-- The claims under the key are as a pass of `EnsurePVCforDirectCopy` leaves them:
one claim, which the next pass writes back as the API server returns it, and which
stays stored when written. -/
def ClaimSettled (l : List PersistentVolumeClaim) (ns name : String) : Prop :=
  ∀ x ∈ l, hasKey x.ObjectMeta ns name = true →
    (metaIsDeleted x.ObjectMeta = true →
      removeFinalizer x.ObjectMeta.Finalizers PVCFinalizerProtected ≠ []) ∧
    servedPVC (directCopyForm x) = servedPVC x ∧
    ∀ y ∈ l, hasKey y.ObjectMeta ns name = true → y = x

/-- What a second pass of `PrecreateDestPVCIfEnabled` looks at, after a first pass that
returned `r` and left `wa`: the claims, the pods, the volume attachments and the
workload status are those of `wa`; the destination under the key is as in `wa`, or
the first pass succeeded and a destination is stored. -/
def PrecreateKept (ns name : String) (r : Option String × Option Err) (wa w2 : World) : Prop :=
  w2.pvcs = wa.pvcs ∧ w2.pods = wa.pods ∧ w2.volumeAttachments = wa.volumeAttachments ∧
  w2.workloadStatus = wa.workloadStatus ∧
  (storeGet rdKind.meta w2.rds ns name = storeGet rdKind.meta wa.rds ns name ∨
    (r.2 = none ∧ (storeGet rdKind.meta w2.rds ns name).isSome = true))

/-! ## Concrete scenarios

A replication group `vrg` in namespace `ns` protecting the claim `data`, bound to the
volume `pv1`, with storage class `sc` and snapshot class `vsc` of the driver `csi`. -/

/-- The replication group owning the handler. -/
def exOwner : Owner :=
  { ObjectMeta := { Name := "vrg", Namespace := "ns", UID := "u1" } }

/-- A handler using the snapshot copy method. -/
def exHandler : VSHandler :=
  { owner := exOwner, destinationCopyMethod := CopyMethodSnapshot }

/-- A handler using the direct copy method. -/
def exHandlerDirect : VSHandler :=
  { owner := exOwner, destinationCopyMethod := CopyMethodDirect }

/-- The protected claim as the replication group describes it. -/
def exProtectedPVC : ProtectedPVC :=
  { Namespace := "ns", Name := "data", ProtectedByVolSync := true,
    StorageClassName := some "sc", AccessModes := [ReadWriteOnce], Requests := some 1 }

/-- The source spec of the protected claim. -/
def exRSSpec : VolSyncReplicationSourceSpec := { ProtectedPVC := exProtectedPVC }

/-- The destination spec of the protected claim. -/
def exRDSpec : VolSyncReplicationDestinationSpec := { ProtectedPVC := exProtectedPVC }

/-- The labels that mark an object as owned by the replication group. -/
def exOwnerLabels : StrMap :=
  [(VRGOwnerNameLabel, "vrg"), (VRGOwnerNamespaceLabel, "ns")]

/-- The pre-shared secret of the replication group. -/
def exSecret : Secret :=
  { ObjectMeta := { Name := "vrg-vs-secret", Namespace := "ns" } }

/-- The storage class of the claim. -/
def exStorageClass : StorageClass :=
  { ObjectMeta := { Name := "sc" }, Provisioner := "csi" }

/-- The snapshot class of the same driver. -/
def exSnapshotClass : VolumeSnapshotClass :=
  { ObjectMeta := { Name := "vsc" }, Driver := "csi" }

/-- A cluster holding the secret and the classes, nothing else. -/
def exBase : World :=
  { secrets := [exSecret], storageClasses := [exStorageClass], snapshotClasses := [exSnapshotClass] }

/-- The application's claim, bound to `pv1`. -/
def exPVC : PersistentVolumeClaim :=
  { ObjectMeta := { Name := "data", Namespace := "ns", CreationTimestamp := 1 },
    Spec := { VolumeName := "pv1", StorageClassName := some "sc", AccessModes := [ReadWriteOnce],
              Requests := some 1 },
    Phase := ClaimBound }

/-- The volume behind the application's claim. -/
def exPV : PersistentVolume :=
  { ObjectMeta := { Name := "pv1", CreationTimestamp := 1 },
    Spec := { ClaimRef := some { Kind := "PersistentVolumeClaim", Namespace := "ns", Name := "data",
                                 UID := "u7", ResourceVersion := "42" },
              PersistentVolumeReclaimPolicy := PersistentVolumeReclaimDelete } }

/-- A replication source named after the claim that belongs to another owner: it
carries the owner labels of the group `other`. -/
def exForeignRS : ReplicationSource :=
  { ObjectMeta := { Name := "data", Namespace := "ns", CreationTimestamp := 1,
                    Labels := some [(VRGOwnerNameLabel, "other"), (VRGOwnerNamespaceLabel, "ns")] } }

/-- A replication destination named after the claim that belongs to another owner. -/
def exForeignRD : ReplicationDestination :=
  { ObjectMeta := { Name := "data", Namespace := "ns", CreationTimestamp := 1,
                    Labels := some [(VRGOwnerNameLabel, "other"), (VRGOwnerNamespaceLabel, "ns")] } }

/-- A cluster where a foreign replication source is named after the claim. -/
def exForeignRSWorld : World := { exBase with rss := [exForeignRS] }

/-- A cluster where a foreign replication destination is named after the claim. -/
def exForeignRDWorld : World := { exBase with rds := [exForeignRD], pvcs := [exPVC] }

/-- A destination of the group for the claim that the data mover has given an address. -/
def exReadyRD : ReplicationDestination :=
  { ObjectMeta := { Name := "data", Namespace := "ns", CreationTimestamp := 1,
                    Labels := some exOwnerLabels },
    Status := some { RsyncTLS := some { Address := some "10.0.0.1" } } }

/-- A source of the group for the claim, held by a finalizer of the data mover. -/
def exOwnedRS : ReplicationSource :=
  { ObjectMeta := { Name := "data", Namespace := "ns", CreationTimestamp := 1,
                    Labels := some exOwnerLabels, Finalizers := ["volsync.backube/cleanup"] } }

/-- A cluster where the claim has a ready destination of the group and a foreign
source of the same name. -/
def exReadyForeignWorld : World := { exBase with rds := [exReadyRD], rss := [exForeignRS] }

/-- A cluster where the claim has a ready destination and a source, both of the group. -/
def exOwnedWorld : World := { exBase with rds := [exReadyRD], rss := [exOwnedRS] }

/-- The destination `ReconcileRD` returns on `exOwnedWorld`. -/
def exOwnedWorldRD : ReplicationDestination :=
  match exHandler.ReconcileRD exRDSpec exOwnedWorld with
  | some ((some rd, _), _) => rd
  | _ => {}

/-- The cluster `ReconcileRD` leaves on `exOwnedWorld`. -/
def exOwnedWorldAfter : World :=
  match exHandler.ReconcileRD exRDSpec exOwnedWorld with
  | some (_, w) => w
  | none => {}

/-- The application's claim once the application is gone: marked deleted, held by
the protection finalizer of the handler and by the cluster's own. -/
def exDeletedPVC : PersistentVolumeClaim :=
  { exPVC with ObjectMeta := { exPVC.ObjectMeta with
      DeletionTimestamp := some 5,
      Finalizers := [PVCFinalizerProtected, "kubernetes.io/pvc-protection"] } }

/-- The temporary claim of the final sync. -/
def exTmpPVC : PersistentVolumeClaim :=
  { ObjectMeta := { Name := "data-for-finalsync", Namespace := "ns", CreationTimestamp := 6 },
    Spec := { VolumeName := "pv1", StorageClassName := some "sc", AccessModes := [ReadWriteOnce],
              Requests := some 1 },
    Phase := ClaimBound }

/-- The volume while the final sync runs: retained and bound to the temporary claim. -/
def exRetainedPV : PersistentVolume :=
  { ObjectMeta := { Name := "pv1", CreationTimestamp := 1,
                    Annotations := some [(PVAnnotationRetentionKey, PVAnnotationRetentionValue)] },
    Spec := { ClaimRef := some { Namespace := "ns", Name := "data-for-finalsync" },
              PersistentVolumeReclaimPolicy := PersistentVolumeReclaimRetain } }

/-- The source of the group running the final sync, whose status reports the final
trigger as executed. -/
def exFinalRS : ReplicationSource :=
  { ObjectMeta := { Name := "data", Namespace := "ns", CreationTimestamp := 2,
                    Labels := some exOwnerLabels },
    Spec := { SourcePVC := "data-for-finalsync", Trigger := some { Manual := FinalSyncTriggerString } },
    Status := some { LastManualSync := FinalSyncTriggerString } }

/-- A cluster where the final sync has run to completion and waits for cleanup. -/
def exFinalWorld : World :=
  { exBase with pvcs := [exDeletedPVC, exTmpPVC], pvs := [exRetainedPV], rss := [exFinalRS] }

/-- The same cluster with the application's claim still live. -/
def exFinalLiveWorld : World :=
  { exBase with pvcs := [exPVC, exTmpPVC], pvs := [exRetainedPV], rss := [exFinalRS] }

/-- A cluster where the application's claim, marked deleted, is still bound to its volume. -/
def exBoundWorld : World := { exBase with pvcs := [exDeletedPVC], pvs := [exPV] }

/-- The cluster after `retainPVForPVC` on `exBoundWorld`. -/
def exRetainedWorld : World :=
  match exHandler.retainPVForPVC exDeletedPVC exBoundWorld with
  | some (_, w) => w
  | none => {}

/-- The cluster after `undoAfterFinalSync` on `exRetainedWorld`. -/
def exUndoneWorld : World :=
  match exHandler.undoAfterFinalSync "data" "ns" exRetainedWorld with
  | some (_, w) => w
  | none => {}

/-- A cluster holding the application's claim, live. -/
def exClaimWorld : World := { exBase with pvcs := [exPVC], pvs := [exPV] }

/-- The key of the application's claim. -/
def exKey : NamespacedName := { Namespace := "ns", Name := "data" }

/-- The cluster after `TakePVCOwnership` on `exClaimWorld`. -/
def exTakenWorld : World :=
  match exHandler.TakePVCOwnership exKey exClaimWorld with
  | some (_, w) => w
  | none => {}

/-- The claim `ReleasePVCOwnership` returns on `exTakenWorld`. -/
def exReleasedPVC : Option PersistentVolumeClaim :=
  match exHandler.ReleasePVCOwnership exKey exTakenWorld with
  | some ((pvc, _), _) => pvc
  | none => none

/-- The cluster after `ReleasePVCOwnership` on `exTakenWorld`. -/
def exReleasedWorld : World :=
  match exHandler.ReleasePVCOwnership exKey exTakenWorld with
  | some (_, w) => w
  | none => {}

/-- The latest image of the main destination: the snapshot `snap1`. -/
def exSnapshotRef : TypedLocalObjectReference :=
  { APIGroup := some SnapshotGroupName, Kind := VolumeSnapshotKind, Name := "snap1" }

/-- The snapshot `snap1` as the data mover left it. -/
def exSnapshot : VolumeSnapshot :=
  { ObjectMeta := { Name := "snap1", Namespace := "ns", CreationTimestamp := 3 },
    Status := some { RestoreSize := some 1 } }

/-- The main destination of the claim, with `snap1` as its latest image. -/
def exMainRD : ReplicationDestination :=
  { ObjectMeta := { Name := "data", Namespace := "ns", CreationTimestamp := 1,
                    Labels := some exOwnerLabels },
    Spec := { RsyncTLS := some { CopyMethod := CopyMethodSnapshot, Capacity := some 1,
                                 StorageClassName := some "sc", AccessModes := [ReadWriteOnce] } },
    Status := some { RsyncTLS := some { Address := some "10.0.0.1" },
                     LatestImage := some exSnapshotRef } }

/-- The local destination of the rollback, which the data mover has given an address. -/
def exLocalRD : ReplicationDestination :=
  { ObjectMeta := { Name := "data-local", Namespace := "ns", CreationTimestamp := 4 },
    Status := some { RsyncTLS := some { Address := some "10.0.0.2" } } }

/-- The local source of the rollback, whose status reports the trigger `snap1` as executed. -/
def exLocalRS : ReplicationSource :=
  { ObjectMeta := { Name := "data-local", Namespace := "ns", CreationTimestamp := 5 },
    Spec := { SourcePVC := "snap1", Trigger := some { Manual := "snap1" } },
    Status := some { LastManualSync := "snap1", LatestMoverStatus := some "done" } }

/-- A cluster at the start of a local rollback: the main destination and its snapshot. -/
def exRollbackStart : World :=
  { exBase with pvcs := [exPVC], rds := [exMainRD, exLocalRD], snapshots := [exSnapshot] }

/-- A cluster where the local transfer of the rollback has completed. -/
def exRollbackDone : World :=
  { exBase with pvcs := [exPVC], rds := [exMainRD, exLocalRD], rss := [exLocalRS],
                snapshots := [exSnapshot] }

/-- The cluster after the local rollback has succeeded on `exRollbackDone`. -/
def exRolledBack : World :=
  match exHandler.rollbackToLastSnapshot exRDSpec exSnapshotRef exRollbackDone with
  | some (_, w) => w
  | none => {}

/-- The local source the rollback produced, as stored. -/
def exRolledBackRS : ReplicationSource :=
  (storeGet rsKind.meta exRolledBack.rss "ns" "data-local").getD {}

/-- The cluster after `CleanupLocalResources` on `exRolledBack`. -/
def exCleanedUp : World :=
  match exHandler.CleanupLocalResources exRolledBackRS exRolledBack with
  | some (_, w) => w
  | none => {}

/-- A pod of the application that mounts the claim. -/
def exPod : Pod :=
  { ObjectMeta := { Name := "app", Namespace := "ns" }, ClaimNames := ["data"], Ready := true }

/-- The source of the group replicating the claim on schedule. -/
def exScheduledRS : ReplicationSource :=
  { ObjectMeta := { Name := "data", Namespace := "ns", CreationTimestamp := 2,
                    Labels := some exOwnerLabels },
    Spec := { SourcePVC := "data", Trigger := some { Schedule := some "*/10 * * * *" } },
    Status := some { LastSyncTime := some 9 } }

/-- A cluster where the application still runs: its pod mounts the claim. -/
def exMountedWorld : World :=
  { exBase with pvcs := [exPVC], pvs := [exPV], pods := [exPod], rss := [exScheduledRS] }

/-- The same cluster before the pre-shared secret has arrived. -/
def exMountedNoSecretWorld : World := { exMountedWorld with secrets := [] }

/-- The cluster after `ValidateSecretAndAddVRGOwnerRef` on `exMountedWorld`. -/
def exMountedSecretWorld : World :=
  match exHandler.ValidateSecretAndAddVRGOwnerRef "vrg-vs-secret" exMountedWorld with
  | some (_, w) => w
  | none => {}

/-- The cluster after `DeleteRD` on `exMountedSecretWorld`. -/
def exMountedReadyWorld : World :=
  match exHandler.DeleteRD "data" "ns" exMountedSecretWorld with
  | some (_, w) => w
  | none => {}

/-- The application's claim, marked deleted and held by the protection finalizer only. -/
def exReleasablePVC : PersistentVolumeClaim :=
  { exPVC with ObjectMeta := { exPVC.ObjectMeta with
      DeletionTimestamp := some 5, Finalizers := [PVCFinalizerProtected] } }

/-- The cluster of `exFinalWorld` with the claim held by the protection finalizer only. -/
def exFinalReleasableWorld : World :=
  { exBase with pvcs := [exReleasablePVC, exTmpPVC], pvs := [exRetainedPV], rss := [exFinalRS] }

/-- The cluster after `ValidateSecretAndAddVRGOwnerRef` on `exFinalWorld`. -/
def exFinalSecretWorld : World :=
  match exHandler.ValidateSecretAndAddVRGOwnerRef "vrg-vs-secret" exFinalWorld with
  | some (_, w) => w
  | none => {}

/-- The cluster after `DeleteRD` on `exFinalSecretWorld`. -/
def exFinalReadyWorld : World :=
  match exHandler.DeleteRD "data" "ns" exFinalSecretWorld with
  | some (_, w) => w
  | none => {}

/-- The cluster after `validatePVCForFinalSync` on `exFinalReadyWorld`. -/
def exFinalCheckedWorld : World :=
  match exHandler.validatePVCForFinalSync exRSSpec true exFinalReadyWorld with
  | some (_, w) => w
  | none => {}

/-- The source `createOrUpdateRS` returns on `exFinalCheckedWorld`. -/
def exFinalWrittenRS : ReplicationSource :=
  match exHandler.createOrUpdateRS exRSSpec "vrg-vs-secret" true exFinalCheckedWorld with
  | some ((some rs, _), _) => rs
  | _ => {}

/-- The cluster after `createOrUpdateRS` on `exFinalCheckedWorld`. -/
def exFinalWrittenWorld : World :=
  match exHandler.createOrUpdateRS exRSSpec "vrg-vs-secret" true exFinalCheckedWorld with
  | some (_, w) => w
  | none => {}

/-- The cluster after `undoAfterFinalSync` on `exFinalWrittenWorld`. -/
def exFinalUndoneWorld : World :=
  match exHandler.undoAfterFinalSync "data" "ns" exFinalWrittenWorld with
  | some (_, w) => w
  | none => {}

/-- The cluster after `cleanupAfterRSFinalSync` on `exFinalUndoneWorld`. -/
def exFinalCleanWorld : World :=
  match exHandler.cleanupAfterRSFinalSync exRSSpec exFinalUndoneWorld with
  | some (_, w) => w
  | none => {}

/-- A snapshot class of the driver `csi` annotated as the default class. -/
def exDefaultSnapshotClass : VolumeSnapshotClass :=
  { ObjectMeta := { Name := "vsc-default",
                    Annotations := some [( VolumeSnapshotIsDefaultAnnotation, "true")] },
    Driver := "csi" }

/-- A snapshot class of another driver. -/
def exOtherSnapshotClass : VolumeSnapshotClass :=
  { ObjectMeta := { Name := "vsc-other" }, Driver := "other" }

/-- A cluster with three snapshot classes: a plain one and a default one of the
driver `csi`, and one of another driver. -/
def exClassesWorld : World :=
  { storageClasses := [exStorageClass],
    snapshotClasses := [exSnapshotClass, exDefaultSnapshotClass, exOtherSnapshotClass] }

/-- The state once the handler has loaded the snapshot classes of `exClassesWorld`. -/
def exClassesLoaded : World :=
  match exHandler.GetVolumeSnapshotClasses exClassesWorld with
  | some (_, w) => w
  | none => {}

/-- A cluster whose only snapshot class is of another driver. -/
def exNoMatchWorld : World :=
  { storageClasses := [exStorageClass], snapshotClasses := [exOtherSnapshotClass] }

/-- The state once the handler has loaded the snapshot classes of `exNoMatchWorld`. -/
def exNoMatchLoaded : World :=
  match exHandler.GetVolumeSnapshotClasses exNoMatchWorld with
  | some (_, w) => w
  | none => {}

/-- The cluster after `ValidateSecretAndAddVRGOwnerRef` on `exBase`. -/
def exSecretValidated : World :=
  match exHandler.ValidateSecretAndAddVRGOwnerRef "vrg-vs-secret" exBase with
  | some (_, w) => w
  | none => {}

/-- The cluster after `DeleteRS` on `exSecretValidated`. -/
def exSourcesCleared : World :=
  match exHandler.DeleteRS "data" "ns" exSecretValidated with
  | some (_, w) => w
  | none => {}

/-- The cluster after `createOrUpdateRD` on `exSourcesCleared`: the destination of
`data` is created. -/
def exDestinationCreated : World :=
  match exHandler.createOrUpdateRD exRDSpec "vrg-vs-secret" none exSourcesCleared with
  | some (_, w) => w
  | none => {}

/-- The destination `createOrUpdateRD` returns on `exSourcesCleared`: it has no status yet. -/
def exNewRD : ReplicationDestination :=
  match exHandler.createOrUpdateRD exRDSpec "vrg-vs-secret" none exSourcesCleared with
  | some ((some rd, _), _) => rd
  | _ => {}

/-- The cluster after `ReconcileServiceExportForRD` on `exDestinationCreated`. -/
def exServiceExported : World :=
  match exHandler.ReconcileServiceExportForRD exNewRD exDestinationCreated with
  | some (_, w) => w
  | none => {}

/-- A claim that is stored and answered by the lookup, but with the data source of
another snapshot: the restored claim of an earlier snapshot. -/
def exStalePVC : PersistentVolumeClaim :=
  { ObjectMeta := { Name := "data", Namespace := "ns", CreationTimestamp := 1 },
    Spec := { StorageClassName := some "sc", AccessModes := [ReadWriteOnce], Requests := some 1,
              DataSource := some { APIGroup := some SnapshotGroupName, Kind := VolumeSnapshotKind,
                                   Name := "snap0" } } }

/-- A cluster holding the stale claim. -/
def exStaleWorld : World := { exBase with pvcs := [exStalePVC] }

/-- The claim `ensurePVCFromSnapshot` creates on `exBase` for a snapshot with the
restore size 5. -/
def exRestoredPVC : PersistentVolumeClaim :=
  match exHandler.ensurePVCFromSnapshot exRDSpec exSnapshotRef (some 5) exBase with
  | some ((some pvc, _), _) => pvc
  | _ => {}

/-- The cluster after `ensurePVCFromSnapshot` on `exBase`. -/
def exRestoredWorld : World :=
  match exHandler.ensurePVCFromSnapshot exRDSpec exSnapshotRef (some 5) exBase with
  | some (_, w) => w
  | none => {}

/-- Three snapshots of the group in `ns`, created at the times 1, 2 and 3. -/
def exSnap1 : VolumeSnapshot :=
  { ObjectMeta := { Name := "s1", Namespace := "ns", CreationTimestamp := 1,
                    Labels := some exOwnerLabels } }

/-- The second snapshot of the group. -/
def exSnap2 : VolumeSnapshot :=
  { ObjectMeta := { Name := "s2", Namespace := "ns", CreationTimestamp := 2,
                    Labels := some exOwnerLabels } }

/-- The third, newest snapshot of the group. -/
def exSnap3 : VolumeSnapshot :=
  { ObjectMeta := { Name := "s3", Namespace := "ns", CreationTimestamp := 3,
                    Labels := some exOwnerLabels } }

/-- A cluster holding the three snapshots, the newest one first. -/
def exPruneWorld : World := { exBase with snapshots := [exSnap3, exSnap1, exSnap2] }

/-- The cluster after `pruneOldSnapshots` on `exPruneWorld`. -/
def exPrunedWorld : World :=
  match exHandler.pruneOldSnapshots "ns" exPruneWorld with
  | some (_, w) => w
  | none => {}

/-- The destination of the claim `data`, ready, whose latest image is `snap-data`. -/
def exDataRD : ReplicationDestination :=
  { ObjectMeta := { Name := "data", Namespace := "ns", CreationTimestamp := 1,
                    Labels := some exOwnerLabels },
    Status := some { RsyncTLS := some { Address := some "10.0.0.1" },
                     LatestImage := some { APIGroup := some SnapshotGroupName,
                                           Kind := VolumeSnapshotKind, Name := "snap-data" } } }

/-- The destination of a second claim `logs` of the group in the same namespace, whose
latest image is `snap-logs`. -/
def exLogsRD : ReplicationDestination :=
  { ObjectMeta := { Name := "logs", Namespace := "ns", CreationTimestamp := 1,
                    Labels := some exOwnerLabels },
    Status := some { RsyncTLS := some { Address := some "10.0.0.2" },
                     LatestImage := some { APIGroup := some SnapshotGroupName,
                                           Kind := VolumeSnapshotKind, Name := "snap-logs" } } }

/-- The newest snapshot of the volume `data`, carrying the owner labels. -/
def exDataSnapshot : VolumeSnapshot :=
  { ObjectMeta := { Name := "snap-data", Namespace := "ns", CreationTimestamp := 5,
                    Labels := some exOwnerLabels } }

/-- The newest snapshot of the volume `logs`, carrying the owner labels; it is older
than the one of `data`. -/
def exLogsSnapshot : VolumeSnapshot :=
  { ObjectMeta := { Name := "snap-logs", Namespace := "ns", CreationTimestamp := 3,
                    Labels := some exOwnerLabels } }

/-- A cluster where the namespace holds the destinations of two volumes of the group,
each with its latest snapshot. -/
def exTwoVolumesWorld : World :=
  { exBase with rds := [exDataRD, exLogsRD], snapshots := [exDataSnapshot, exLogsSnapshot] }

/-- The cluster `pruneOldSnapshots` leaves on `exTwoVolumesWorld`. -/
def exTwoVolumesPruned : World :=
  match exHandler.pruneOldSnapshots "ns" exTwoVolumesWorld with
  | some (_, w) => w
  | none => {}

/-- A destination of the group for a claim `old` that is no longer in the spec list. -/
def exOldRD : ReplicationDestination :=
  { ObjectMeta := { Name := "old", Namespace := "ns", CreationTimestamp := 1,
                    Labels := some exOwnerLabels } }

/-- A local destination of the group, protected by the do-not-delete label. -/
def exKeptRD : ReplicationDestination :=
  { ObjectMeta := { Name := "data-local", Namespace := "ns", CreationTimestamp := 1,
                    Labels := some (exOwnerLabels ++ [(VolSyncDoNotDeleteLabel, "true")]) } }

/-- The claim named like the destination `old`. -/
def exOldPVC : PersistentVolumeClaim :=
  { ObjectMeta := { Name := "old", Namespace := "ns", CreationTimestamp := 1 } }

/-- A cluster with the destination of `data`, the superseded destination `old` and its
claim, a protected local destination and a destination of another group. -/
def exSweepWorld : World :=
  { exBase with rds := [exReadyRD, exOldRD, exKeptRD, exForeignRD], pvcs := [exPVC, exOldPVC] }

/-- The cluster after `CleanupRDNotInSpecList` on `exSweepWorld` as a Secondary. -/
def exSweptWorld : World :=
  match exHandler.CleanupRDNotInSpecList [exRDSpec] ReplicationState.Secondary exSweepWorld with
  | some (_, w) => w
  | none => {}

/-- A destination spec whose protected claim names access modes but no storage request. -/
def exNoCapacityRDSpec : VolSyncReplicationDestinationSpec :=
  { ProtectedPVC := { exProtectedPVC with Requests := none } }

/-- The claim `EnsurePVCforDirectCopy` creates for `exNoCapacityRDSpec`. -/
def exNoCapacityPVC : PersistentVolumeClaim :=
  { ObjectMeta := { Name := "data", Namespace := "ns", CreationTimestamp := 3,
                    Labels := some [(util.CreatedByRamenLabel, "true")],
                    OwnerReferences := [{ APIVersion := exOwner.APIVersion, Kind := exOwner.Kind,
                                          Name := "vrg", UID := "u1", Controller := true,
                                          BlockOwnerDeletion := true }] },
    Spec := { StorageClassName := some "sc", AccessModes := [ReadWriteOnce],
              VolumeMode := some PersistentVolumeFilesystem, Requests := none } }

/-- The volume of the claim once released: it has no claim reference. -/
def exUnboundPV : PersistentVolume :=
  { ObjectMeta := { Name := "pv1", CreationTimestamp := 1 },
    Spec := { ClaimRef := none, PersistentVolumeReclaimPolicy := PersistentVolumeReclaimDelete } }

/-- A cluster holding the claim and its volume, the volume without a claim reference. -/
def exUnboundWorld : World := { exBase with pvcs := [exPVC], pvs := [exUnboundPV] }

/-- The annotations the old primary recorded for the claim: one of the application
manager, one of somebody else. -/
def exRecordedAnnotations : StrMap :=
  [("apps.open-cluster-management.io/hosting-subscription", "ns/sub"), ("team", "storage")]

/-- The claim with an annotations map that is present and empty. -/
def exPVCEmptyAnnotations : PersistentVolumeClaim :=
  { exPVC with ObjectMeta := { exPVC.ObjectMeta with Annotations := some [] } }

/-- A handler whose scheduling interval cannot be converted. -/
def exBadIntervalHandler : VSHandler := { exHandler with schedulingInterval := "5x" }

/-- The source of the group for the claim, waiting in the prepared state. -/
def exPreparedRS : ReplicationSource :=
  { ObjectMeta := { Name := "data", Namespace := "ns", CreationTimestamp := 2,
                    Labels := some exOwnerLabels },
    Spec := { SourcePVC := "data",
              Trigger := some { Manual := PrepareForFinalSyncTriggerString } } }

/-- A cluster holding the claim, its volume and the prepared source. -/
def exPreparedWorld : World :=
  { exBase with pvcs := [exPVC], pvs := [exPV], rss := [exPreparedRS] }

/-- The source `createOrUpdateRS` creates for the claim when it replicates on the
default schedule. -/
def exDefaultScheduleRS : ReplicationSource :=
  { ObjectMeta := { Name := "data", Namespace := "ns", CreationTimestamp := 5,
                    Labels := some [(util.CreatedByRamenLabel, "true"),
                                    (VRGOwnerNameLabel, "vrg"), (VRGOwnerNamespaceLabel, "ns")],
                    OwnerReferences := [{ APIVersion := exOwner.APIVersion, Kind := exOwner.Kind,
                                          Name := "vrg", UID := "u1", Controller := true,
                                          BlockOwnerDeletion := true }] },
    Spec := { SourcePVC := "data",
              Trigger := some { Schedule := some DefaultScheduleCronSpec },
              RsyncTLS := some { KeySecret := some "vrg-vs-secret",
                                 Address := some "volsync-rsync-tls-dst-data.ns.svc.clusterset.local",
                                 CopyMethod := CopyMethodSnapshot,
                                 VolumeSnapshotClassName := some "vsc",
                                 StorageClassName := some "sc",
                                 AccessModes := [ReadWriteOnce] } } }

/-- The cluster `createOrUpdateRS` leaves on `exClaimWorld` without final sync. -/
def exDefaultScheduleWorld : World :=
  match exHandler.createOrUpdateRS exRSSpec "vrg-vs-secret" false exClaimWorld with
  | some (_, w) => w
  | none => {}

/-- The cluster after one reconcile of the source on `exPreparedWorld`. -/
def exPreparedOnce : World :=
  match exHandler.ReconcileRS exRSSpec false exPreparedWorld with
  | some (_, w) => w
  | none => {}

/-- The cluster after a second reconcile of the source on `exPreparedWorld`. -/
def exPreparedTwice : World :=
  match exHandler.ReconcileRS exRSSpec false exPreparedOnce with
  | some (_, w) => w
  | none => {}

/-- The cluster of `exBase` with the claim marked deleted and held by the protection
finalizer only. -/
def exDirectReleasing : World := { exBase with pvcs := [exReleasablePVC] }

/-- The cluster after `ReconcileRD` by the direct-copy handler on `exDirectReleasing`. -/
def exDirectReleased : World :=
  match exHandlerDirect.ReconcileRD exRDSpec exDirectReleasing with
  | some (_, w) => w
  | none => {}

/-- A cluster with the ready destination of the claim, an owned source, and three
snapshots of the group. -/
def exSteadyWorld : World := { exOwnedWorld with snapshots := [exSnap3, exSnap1, exSnap2] }

/-- A cluster at the start of a local rollback whose main destination is gone: the
claim, the local destination with its address, and the snapshot. -/
def exNoMainWorld : World :=
  { exBase with pvcs := [exPVC], rds := [exLocalRD], snapshots := [exSnapshot] }

/-- The cluster after `ReconcileRD` by the direct-copy handler on `exBase`, which holds
no claim: the claim `ns/data` has been created. -/
def exDirectOnce : World :=
  match exHandlerDirect.ReconcileRD exRDSpec exBase with
  | some (_, w) => w
  | none => {}

/-! ## Reasoning about computations -/

@[simp] theorem M.pure_run {α : Type} (a : α) (w : World) : (Pure.pure a : M α) w = some (a, w) := rfl

@[simp] theorem M.pure_run2 {α : Type} (a : α) (w : World) : (M.pure a : M α) w = some (a, w) := rfl

@[simp] theorem M.bind_run {α β : Type} (m : M α) (f : α → M β) (w : World) :
    (m >>= f) w = (match m w with | none => none | some (a, w1) => f a w1) := rfl

@[simp] theorem throwPanic_run {α : Type} (w : World) : (throwPanic : M α) w = none := rfl

@[simp] theorem deref_some {α : Type} (a : α) (w : World) : deref (some a) w = some (a, w) := rfl

@[simp] theorem deref_none {α : Type} (w : World) : (deref (none : Option α)) w = none := rfl

theorem M.bind_eq_some {α β : Type} {m : M α} {f : α → M β} {w w2 : World} {b : β} :
    (m >>= f) w = some (b, w2) ↔ ∃ a w1, m w = some (a, w1) ∧ f a w1 = some (b, w2) := by
  simp only [M.bind_run]
  cases hm : m w with
  | none => simp
  | some r =>
    obtain ⟨a, w1⟩ := r
    constructor
    · intro h
      exact ⟨a, w1, rfl, h⟩
    · rintro ⟨a1, w3, h1, h2⟩
      simp only [Option.some.injEq, Prod.mk.injEq] at h1
      rw [h1.1, h1.2]
      exact h2

theorem storeGet_hasKey {α : Type} {meta : α → ObjectMeta} {l : List α} {ns name : String} {o : α}
    (h : storeGet meta l ns name = some o) : hasKey (meta o) ns name = true := by
  unfold storeGet at h
  simpa using List.find?_some h

theorem hasKey_iff (m : ObjectMeta) (ns name : String) :
    hasKey m ns name = true ↔ m.Namespace = ns ∧ m.Name = name := by
  simp [hasKey]

/-! ## Frame lemmas -/

theorem Agree.agree_refl (S : Mods) (w : World) : Agree S w w := rfl

theorem Agree.agree_trans {S : Mods} {w w1 w2 : World} (h1 : Agree S w w1) (h2 : Agree S w1 w2) :
    Agree S w w2 := by
  unfold Agree at *
  rw [h2, h1]

theorem Modifies.frame_pure {α : Type} (S : Mods) (a : α) : Modifies S (Pure.pure a : M α) := by
  constructor
  intro w b w1 h
  simp only [M.pure_run, Option.some.injEq, Prod.mk.injEq] at h
  rw [← h.2]
  exact Agree.agree_refl S w

theorem Modifies.frame_bind {α β : Type} {S : Mods} {m : M α} {f : α → M β}
    (h1 : Modifies S m) (h2 : ∀ a, Modifies S (f a)) : Modifies S (m >>= f) := by
  constructor
  intro w b w2 h
  simp only [M.bind_run] at h
  cases hm : m w with
  | none => simp [hm] at h
  | some r =>
    obtain ⟨a, w1⟩ := r
    simp only [hm] at h
    exact (h1.run w a w1 hm).agree_trans ((h2 a).run w1 b w2 h)

theorem Modifies.frame_throwPanic {α : Type} (S : Mods) : Modifies S (throwPanic : M α) := by
  constructor
  intro w a w1 h
  simp at h

theorem Modifies.frame_deref {α : Type} (S : Mods) (o : Option α) : Modifies S (deref o) := by
  cases o with
  | none => exact Modifies.frame_throwPanic S
  | some a => exact Modifies.frame_pure S a

theorem Modifies.frame_getWorld (S : Mods) : Modifies S getWorld := by
  constructor
  intro w a w1 h
  simp only [Volsync.getWorld, Option.some.injEq, Prod.mk.injEq] at h
  rw [← h.2]
  exact Agree.agree_refl S w

theorem Modifies.frame_clientGet {α : Type} (S : Mods) (K : Kind α) (ns name : String) :
    Modifies S (clientGet K ns name) := by
  constructor
  intro w a w1 h
  unfold Volsync.clientGet at h
  split at h
  · simp only [Option.some.injEq, Prod.mk.injEq] at h
    rw [← h.2]; rfl
  · split at h <;>
    · simp only [Option.some.injEq, Prod.mk.injEq] at h
      rw [← h.2]; rfl

theorem Modifies.frame_clientList {α : Type} (S : Mods) (K : Kind α) (ns : String)
    (sel : ObjectMeta → Bool) : Modifies S (clientList K ns sel) := by
  constructor
  intro w a w1 h
  unfold Volsync.clientList at h
  split at h <;>
  · simp only [Option.some.injEq, Prod.mk.injEq] at h
    rw [← h.2]; rfl

theorem Covers.tick {α : Type} {S : Mods} {K : Kind α} (hK : Covers S K) (w : World)
    (l : List α) (c : Nat) (lg : List Call) :
    Agree S w (K.put { w with calls := c, log := lg } l) := by
  unfold Agree
  rw [hK]
  rfl

theorem Modifies.frame_clientCreate {α : Type} {S : Mods} {K : Kind α} (hK : Covers S K) (o : α) :
    Modifies S (clientCreate K o) := by
  constructor
  intro w a w1 h
  unfold Volsync.clientCreate at h
  split at h
  · simp only [Option.some.injEq, Prod.mk.injEq] at h
    rw [← h.2]; rfl
  · split at h
    · simp only [Option.some.injEq, Prod.mk.injEq] at h
      rw [← h.2]; rfl
    · simp only [Option.some.injEq, Prod.mk.injEq] at h
      rw [← h.2]; exact hK.tick _ _ _ _

theorem Modifies.frame_clientUpdate {α : Type} {S : Mods} {K : Kind α} (hK : Covers S K) (o : α) :
    Modifies S (clientUpdate K o) := by
  constructor
  intro w a w1 h
  unfold Volsync.clientUpdate at h
  split at h
  · simp only [Option.some.injEq, Prod.mk.injEq] at h
    rw [← h.2]; rfl
  · split at h
    · simp only [Option.some.injEq, Prod.mk.injEq] at h
      rw [← h.2]; rfl
    · simp only [Option.some.injEq, Prod.mk.injEq] at h
      rw [← h.2]; exact hK.tick _ _ _ _

theorem Modifies.frame_clientDelete {α : Type} {S : Mods} {K : Kind α} (hK : Covers S K) (o : α) :
    Modifies S (clientDelete K o) := by
  constructor
  intro w a w1 h
  unfold Volsync.clientDelete at h
  split at h
  · simp only [Option.some.injEq, Prod.mk.injEq] at h
    rw [← h.2]; rfl
  · split at h
    · simp only [Option.some.injEq, Prod.mk.injEq] at h
      rw [← h.2]; rfl
    · simp only [Option.some.injEq, Prod.mk.injEq] at h
      rw [← h.2]; exact hK.tick _ _ _ _

@[simp] theorem covers_secretKind {S : Mods} (h : S.secrets = true) : Covers S secretKind := by
  intro w l
  simp [World.erase, secretKind, h]

@[simp] theorem covers_pvcKind {S : Mods} (h : S.pvcs = true) : Covers S pvcKind := by
  intro w l
  simp [World.erase, pvcKind, h]

@[simp] theorem covers_pvKind {S : Mods} (h : S.pvs = true) : Covers S pvKind := by
  intro w l
  simp [World.erase, pvKind, h]

@[simp] theorem covers_rsKind {S : Mods} (h : S.rss = true) : Covers S rsKind := by
  intro w l
  simp [World.erase, rsKind, h]

@[simp] theorem covers_rdKind {S : Mods} (h : S.rds = true) : Covers S rdKind := by
  intro w l
  simp [World.erase, rdKind, h]

@[simp] theorem covers_snapshotKind {S : Mods} (h : S.snapshots = true) : Covers S snapshotKind := by
  intro w l
  simp [World.erase, snapshotKind, h]

@[simp] theorem covers_snapshotClassKind {S : Mods} (h : S.snapshotClasses = true) : Covers S snapshotClassKind := by
  intro w l
  simp [World.erase, snapshotClassKind, h]

@[simp] theorem covers_storageClassKind {S : Mods} (h : S.storageClasses = true) : Covers S storageClassKind := by
  intro w l
  simp [World.erase, storageClassKind, h]

@[simp] theorem covers_serviceExportKind {S : Mods} (h : S.serviceExports = true) : Covers S serviceExportKind := by
  intro w l
  simp [World.erase, serviceExportKind, h]

theorem Modifies.frame_modifyWorkloadStatus {S : Mods} (h : S.workloadStatus = true) (s : String) :
    Modifies S (modifyWorld (fun w => { w with workloadStatus := s })) := by
  constructor
  intro w a w1 hr
  simp only [modifyWorld, Option.some.injEq, Prod.mk.injEq] at hr
  rw [← hr.2]
  simp [Agree, World.erase, h]

theorem Modifies.frame_modifyClassList {S : Mods} (h : S.volumeSnapshotClassList = true)
    (l : Option (List VolumeSnapshotClass)) :
    Modifies S (modifyWorld (fun w => { w with volumeSnapshotClassList := l })) := by
  constructor
  intro w a w1 hr
  simp only [modifyWorld, Option.some.injEq, Prod.mk.injEq] at hr
  rw [← hr.2]
  simp [Agree, World.erase, h]

set_option linter.unusedTactic false
set_option linter.unreachableTactic false

@[simp] theorem clientUpdate_mods {S : Mods} {α : Type} (K : Kind α) (o : α) (hK : Covers S K) :
    Modifies S (clientUpdate K o) := Modifies.frame_clientUpdate hK o

@[simp] theorem clientCreate_mods {S : Mods} {α : Type} (K : Kind α) (o : α) (hK : Covers S K) :
    Modifies S (clientCreate K o) := Modifies.frame_clientCreate hK o

@[simp] theorem clientDelete_mods {S : Mods} {α : Type} (K : Kind α) (o : α) (hK : Covers S K) :
    Modifies S (clientDelete K o) := Modifies.frame_clientDelete hK o

@[simp] theorem modifyWorkloadStatus_mods {S : Mods} (h : S.workloadStatus = true) (s : String) :
    Modifies S (modifyWorld (fun w => { w with workloadStatus := s })) :=
  Modifies.frame_modifyWorkloadStatus h s

@[simp] theorem modifyClassList_mods {S : Mods} (h : S.volumeSnapshotClassList = true)
    (l : Option (List VolumeSnapshotClass)) :
    Modifies S (modifyWorld (fun w => { w with volumeSnapshotClassList := l })) :=
  Modifies.frame_modifyClassList h l

@[simp] theorem DeletePVC_mods {S : Mods} (name ns : String) (h0 : S.pvcs = true) :
    Modifies S (util.DeletePVC name ns) := by
  unfold util.DeletePVC
  repeat' first
    | apply Modifies.frame_pure
    | apply Modifies.frame_throwPanic
    | apply Modifies.frame_deref
    | apply Modifies.frame_getWorld
    | apply Modifies.frame_clientGet
    | apply Modifies.frame_clientList
    | apply Modifies.frame_bind
    | intro _
    | (simp [*]; done)
    | split
    | dsimp only

@[simp] theorem IsPVCInUseByPod_mods {S : Mods} (key : NamespacedName) (b : Bool)  :
    Modifies S (util.IsPVCInUseByPod key b) := by
  unfold util.IsPVCInUseByPod
  repeat' first
    | apply Modifies.frame_pure
    | apply Modifies.frame_throwPanic
    | apply Modifies.frame_deref
    | apply Modifies.frame_getWorld
    | apply Modifies.frame_clientGet
    | apply Modifies.frame_clientList
    | apply Modifies.frame_bind
    | intro _
    | (simp [*]; done)
    | split
    | dsimp only

@[simp] theorem IsPVAttachedToNode_mods {S : Mods} (pvc : PersistentVolumeClaim)  :
    Modifies S (util.IsPVAttachedToNode pvc) := by
  unfold util.IsPVAttachedToNode
  repeat' first
    | apply Modifies.frame_pure
    | apply Modifies.frame_throwPanic
    | apply Modifies.frame_deref
    | apply Modifies.frame_getWorld
    | apply Modifies.frame_clientGet
    | apply Modifies.frame_clientList
    | apply Modifies.frame_bind
    | intro _
    | (simp [*]; done)
    | split
    | dsimp only

@[simp] theorem ResourceUpdaterUpdate_mods {S : Mods} {α : Type} (K : Kind α) (u : util.ResourceUpdater α) (hK : Covers S K) :
    Modifies S (util.ResourceUpdater.Update K u) := by
  unfold util.ResourceUpdater.Update
  repeat' first
    | apply Modifies.frame_pure
    | apply Modifies.frame_throwPanic
    | apply Modifies.frame_deref
    | apply Modifies.frame_getWorld
    | apply Modifies.frame_clientGet
    | apply Modifies.frame_clientList
    | apply Modifies.frame_bind
    | intro _
    | (simp [*]; done)
    | split
    | dsimp only

@[simp] theorem CreateOrUpdate_mods {S : Mods} {α : Type} [DecidableEq α] (K : Kind α) (obj : α) (f : α → Option (α × Option Err)) (hK : Covers S K) :
    Modifies S (CreateOrUpdate K obj f) := by
  unfold CreateOrUpdate
  repeat' first
    | apply Modifies.frame_pure
    | apply Modifies.frame_throwPanic
    | apply Modifies.frame_deref
    | apply Modifies.frame_getWorld
    | apply Modifies.frame_clientGet
    | apply Modifies.frame_clientList
    | apply Modifies.frame_bind
    | intro _
    | (simp [*]; done)
    | split
    | dsimp only

@[simp] theorem getPVC_mods {S : Mods} (v : VSHandler) (key : NamespacedName)  :
    Modifies S (v.getPVC key) := by
  unfold VSHandler.getPVC
  repeat' first
    | apply Modifies.frame_pure
    | apply Modifies.frame_throwPanic
    | apply Modifies.frame_deref
    | apply Modifies.frame_getWorld
    | apply Modifies.frame_clientGet
    | apply Modifies.frame_clientList
    | apply Modifies.frame_bind
    | intro _
    | (simp [*]; done)
    | split
    | dsimp only

@[simp] theorem updateResource_mods {S : Mods} (v : VSHandler) {α : Type} (K : Kind α) (obj : α) (hK : Covers S K) :
    Modifies S (v.updateResource K obj) := by
  unfold VSHandler.updateResource
  repeat' first
    | apply Modifies.frame_pure
    | apply Modifies.frame_throwPanic
    | apply Modifies.frame_deref
    | apply Modifies.frame_getWorld
    | apply Modifies.frame_clientGet
    | apply Modifies.frame_clientList
    | apply Modifies.frame_bind
    | intro _
    | (simp [*]; done)
    | split
    | dsimp only

@[simp] theorem retainPVForPVC_mods {S : Mods} (v : VSHandler) (pvc : PersistentVolumeClaim) (h0 : S.pvs = true) :
    Modifies S (v.retainPVForPVC pvc) := by
  unfold VSHandler.retainPVForPVC
  repeat' first
    | apply Modifies.frame_pure
    | apply Modifies.frame_throwPanic
    | apply Modifies.frame_deref
    | apply Modifies.frame_getWorld
    | apply Modifies.frame_clientGet
    | apply Modifies.frame_clientList
    | apply Modifies.frame_bind
    | intro _
    | (simp [*]; done)
    | split
    | dsimp only

@[simp] theorem undoAfterFinalSync_mods {S : Mods} (v : VSHandler) (p ns : String) (h0 : S.pvcs = true) (h1 : S.pvs = true) :
    Modifies S (v.undoAfterFinalSync p ns) := by
  unfold VSHandler.undoAfterFinalSync
  repeat' first
    | apply Modifies.frame_pure
    | apply Modifies.frame_throwPanic
    | apply Modifies.frame_deref
    | apply Modifies.frame_getWorld
    | apply Modifies.frame_clientGet
    | apply Modifies.frame_clientList
    | apply Modifies.frame_bind
    | intro _
    | (simp [*]; done)
    | split
    | dsimp only

@[simp] theorem addAnnotationAndVRGOwnerRefAndUpdate_mods {S : Mods} (v : VSHandler) {α : Type} (K : Kind α) (obj : α) (a b : String) (hK : Covers S K) :
    Modifies S (v.addAnnotationAndVRGOwnerRefAndUpdate K obj a b) := by
  unfold VSHandler.addAnnotationAndVRGOwnerRefAndUpdate
  repeat' first
    | apply Modifies.frame_pure
    | apply Modifies.frame_throwPanic
    | apply Modifies.frame_deref
    | apply Modifies.frame_getWorld
    | apply Modifies.frame_clientGet
    | apply Modifies.frame_clientList
    | apply Modifies.frame_bind
    | intro _
    | (simp [*]; done)
    | split
    | dsimp only

@[simp] theorem validatePVCAndAddVRGOwnerRef_mods {S : Mods} (v : VSHandler) (key : NamespacedName) (h0 : S.pvcs = true) :
    Modifies S (v.validatePVCAndAddVRGOwnerRef key) := by
  unfold VSHandler.validatePVCAndAddVRGOwnerRef
  repeat' first
    | apply Modifies.frame_pure
    | apply Modifies.frame_throwPanic
    | apply Modifies.frame_deref
    | apply Modifies.frame_getWorld
    | apply Modifies.frame_clientGet
    | apply Modifies.frame_clientList
    | apply Modifies.frame_bind
    | intro _
    | (simp [*]; done)
    | split
    | dsimp only

@[simp] theorem TakePVCOwnership_mods {S : Mods} (v : VSHandler) (key : NamespacedName) (h0 : S.pvcs = true) :
    Modifies S (v.TakePVCOwnership key) := by
  unfold VSHandler.TakePVCOwnership
  repeat' first
    | apply Modifies.frame_pure
    | apply Modifies.frame_throwPanic
    | apply Modifies.frame_deref
    | apply Modifies.frame_getWorld
    | apply Modifies.frame_clientGet
    | apply Modifies.frame_clientList
    | apply Modifies.frame_bind
    | intro _
    | (simp [*]; done)
    | split
    | dsimp only

@[simp] theorem ReleasePVCOwnership_mods {S : Mods} (v : VSHandler) (key : NamespacedName) (h0 : S.pvcs = true) :
    Modifies S (v.ReleasePVCOwnership key) := by
  unfold VSHandler.ReleasePVCOwnership
  repeat' first
    | apply Modifies.frame_pure
    | apply Modifies.frame_throwPanic
    | apply Modifies.frame_deref
    | apply Modifies.frame_getWorld
    | apply Modifies.frame_clientGet
    | apply Modifies.frame_clientList
    | apply Modifies.frame_bind
    | intro _
    | (simp [*]; done)
    | split
    | dsimp only

@[simp] theorem listByOwner_mods {S : Mods} (v : VSHandler) {α : Type} (K : Kind α) (ns : String)  :
    Modifies S (v.listByOwner K ns) := by
  unfold VSHandler.listByOwner
  repeat' first
    | apply Modifies.frame_pure
    | apply Modifies.frame_throwPanic
    | apply Modifies.frame_deref
    | apply Modifies.frame_getWorld
    | apply Modifies.frame_clientGet
    | apply Modifies.frame_clientList
    | apply Modifies.frame_bind
    | intro _
    | (simp [*]; done)
    | split
    | dsimp only

@[simp] theorem listRSByOwner_mods {S : Mods} (v : VSHandler) (ns : String)  :
    Modifies S (v.listRSByOwner ns) := by
  unfold VSHandler.listRSByOwner
  repeat' first
    | apply Modifies.frame_pure
    | apply Modifies.frame_throwPanic
    | apply Modifies.frame_deref
    | apply Modifies.frame_getWorld
    | apply Modifies.frame_clientGet
    | apply Modifies.frame_clientList
    | apply Modifies.frame_bind
    | intro _
    | (simp [*]; done)
    | split
    | dsimp only

@[simp] theorem listRDByOwner_mods {S : Mods} (v : VSHandler) (ns : String)  :
    Modifies S (v.listRDByOwner ns) := by
  unfold VSHandler.listRDByOwner
  repeat' first
    | apply Modifies.frame_pure
    | apply Modifies.frame_throwPanic
    | apply Modifies.frame_deref
    | apply Modifies.frame_getWorld
    | apply Modifies.frame_clientGet
    | apply Modifies.frame_clientList
    | apply Modifies.frame_bind
    | intro _
    | (simp [*]; done)
    | split
    | dsimp only

@[simp] theorem getRS_mods {S : Mods} (v : VSHandler) (name ns : String)  :
    Modifies S (v.getRS name ns) := by
  unfold VSHandler.getRS
  repeat' first
    | apply Modifies.frame_pure
    | apply Modifies.frame_throwPanic
    | apply Modifies.frame_deref
    | apply Modifies.frame_getWorld
    | apply Modifies.frame_clientGet
    | apply Modifies.frame_clientList
    | apply Modifies.frame_bind
    | intro _
    | (simp [*]; done)
    | split
    | dsimp only

@[simp] theorem getRD_mods {S : Mods} (v : VSHandler) (name ns : String)  :
    Modifies S (v.getRD name ns) := by
  unfold VSHandler.getRD
  repeat' first
    | apply Modifies.frame_pure
    | apply Modifies.frame_throwPanic
    | apply Modifies.frame_deref
    | apply Modifies.frame_getWorld
    | apply Modifies.frame_clientGet
    | apply Modifies.frame_clientList
    | apply Modifies.frame_bind
    | intro _
    | (simp [*]; done)
    | split
    | dsimp only

@[simp] theorem getRDLatestImage_mods {S : Mods} (v : VSHandler) (name ns : String)  :
    Modifies S (v.getRDLatestImage name ns) := by
  unfold VSHandler.getRDLatestImage
  repeat' first
    | apply Modifies.frame_pure
    | apply Modifies.frame_throwPanic
    | apply Modifies.frame_deref
    | apply Modifies.frame_getWorld
    | apply Modifies.frame_clientGet
    | apply Modifies.frame_clientList
    | apply Modifies.frame_bind
    | intro _
    | (simp [*]; done)
    | split
    | dsimp only

@[simp] theorem DeleteLocalRD_mods {S : Mods} (v : VSHandler) (name ns : String) (h0 : S.rds = true) :
    Modifies S (v.DeleteLocalRD name ns) := by
  unfold VSHandler.DeleteLocalRD
  repeat' first
    | apply Modifies.frame_pure
    | apply Modifies.frame_throwPanic
    | apply Modifies.frame_deref
    | apply Modifies.frame_getWorld
    | apply Modifies.frame_clientGet
    | apply Modifies.frame_clientList
    | apply Modifies.frame_bind
    | intro _
    | (simp [*]; done)
    | split
    | dsimp only

@[simp] theorem deleteSnapshot_mods {S : Mods} (v : VSHandler) (name ns : String) (h0 : S.snapshots = true) :
    Modifies S (v.deleteSnapshot name ns) := by
  unfold VSHandler.deleteSnapshot
  repeat' first
    | apply Modifies.frame_pure
    | apply Modifies.frame_throwPanic
    | apply Modifies.frame_deref
    | apply Modifies.frame_getWorld
    | apply Modifies.frame_clientGet
    | apply Modifies.frame_clientList
    | apply Modifies.frame_bind
    | intro _
    | (simp [*]; done)
    | split
    | dsimp only

@[simp] theorem CleanupLocalResources_mods {S : Mods} (v : VSHandler) (lrs : ReplicationSource) (h0 : S.snapshots = true) (h1 : S.pvcs = true) (h2 : S.rss = true) (h3 : S.rds = true) :
    Modifies S (v.CleanupLocalResources lrs) := by
  unfold VSHandler.CleanupLocalResources
  repeat' first
    | apply Modifies.frame_pure
    | apply Modifies.frame_throwPanic
    | apply Modifies.frame_deref
    | apply Modifies.frame_getWorld
    | apply Modifies.frame_clientGet
    | apply Modifies.frame_clientList
    | apply Modifies.frame_bind
    | intro _
    | (simp [*]; done)
    | split
    | dsimp only

@[simp] theorem deleteLocalRDAndRS_mods {S : Mods} (v : VSHandler) (rd : ReplicationDestination) (h0 : S.snapshots = true) (h1 : S.pvcs = true) (h2 : S.rss = true) (h3 : S.rds = true) :
    Modifies S (v.deleteLocalRDAndRS rd) := by
  unfold VSHandler.deleteLocalRDAndRS
  repeat' first
    | apply Modifies.frame_pure
    | apply Modifies.frame_throwPanic
    | apply Modifies.frame_deref
    | apply Modifies.frame_getWorld
    | apply Modifies.frame_clientGet
    | apply Modifies.frame_clientList
    | apply Modifies.frame_bind
    | intro _
    | (simp [*]; done)
    | split
    | dsimp only

@[simp] theorem DeleteRS_loop_mods {S : Mods} (p : String) (l : List ReplicationSource) (h0 : S.rss = true) :
    Modifies S (VSHandler.DeleteRS.loop p l) := by
  induction l with
  | nil => exact Modifies.frame_pure S ()
  | cons x rest ih =>
    unfold VSHandler.DeleteRS.loop
    repeat' first
      | apply Modifies.frame_pure
      | apply Modifies.frame_throwPanic
      | apply Modifies.frame_deref
      | apply Modifies.frame_getWorld
      | apply Modifies.frame_clientGet
      | apply Modifies.frame_clientList
      | apply Modifies.frame_bind
      | intro _
      | (simp [*]; done)
      | split
      | dsimp only

@[simp] theorem DeleteRS_mods {S : Mods} (v : VSHandler) (p ns : String) (h0 : S.rss = true) :
    Modifies S (v.DeleteRS p ns) := by
  unfold VSHandler.DeleteRS
  repeat' first
    | apply Modifies.frame_pure
    | apply Modifies.frame_throwPanic
    | apply Modifies.frame_deref
    | apply Modifies.frame_getWorld
    | apply Modifies.frame_clientGet
    | apply Modifies.frame_clientList
    | apply Modifies.frame_bind
    | intro _
    | (simp [*]; done)
    | split
    | dsimp only

@[simp] theorem DeleteRD_loop_mods {S : Mods} (v : VSHandler) (p : String) (l : List ReplicationDestination) (h0 : S.snapshots = true) (h1 : S.pvcs = true) (h2 : S.rss = true) (h3 : S.rds = true) :
    Modifies S (VSHandler.DeleteRD.loop v p l) := by
  induction l with
  | nil => exact Modifies.frame_pure S none
  | cons x rest ih =>
    unfold VSHandler.DeleteRD.loop
    repeat' first
      | apply Modifies.frame_pure
      | apply Modifies.frame_throwPanic
      | apply Modifies.frame_deref
      | apply Modifies.frame_getWorld
      | apply Modifies.frame_clientGet
      | apply Modifies.frame_clientList
      | apply Modifies.frame_bind
      | intro _
      | (simp [*]; done)
      | split
      | dsimp only

@[simp] theorem DeleteRD_mods {S : Mods} (v : VSHandler) (p ns : String) (h0 : S.snapshots = true) (h1 : S.pvcs = true) (h2 : S.rss = true) (h3 : S.rds = true) :
    Modifies S (v.DeleteRD p ns) := by
  unfold VSHandler.DeleteRD
  repeat' first
    | apply Modifies.frame_pure
    | apply Modifies.frame_throwPanic
    | apply Modifies.frame_deref
    | apply Modifies.frame_getWorld
    | apply Modifies.frame_clientGet
    | apply Modifies.frame_clientList
    | apply Modifies.frame_bind
    | intro _
    | (simp [*]; done)
    | split
    | dsimp only

@[simp] theorem addOwnerReferenceAndUpdate_mods {S : Mods} (v : VSHandler) {α : Type} (K : Kind α) (obj : α) (o : Owner) (hK : Covers S K) :
    Modifies S (v.addOwnerReferenceAndUpdate K obj o) := by
  unfold VSHandler.addOwnerReferenceAndUpdate
  repeat' first
    | apply Modifies.frame_pure
    | apply Modifies.frame_throwPanic
    | apply Modifies.frame_deref
    | apply Modifies.frame_getWorld
    | apply Modifies.frame_clientGet
    | apply Modifies.frame_clientList
    | apply Modifies.frame_bind
    | intro _
    | (simp [*]; done)
    | split
    | dsimp only

@[simp] theorem ValidateSecretAndAddVRGOwnerRef_mods {S : Mods} (v : VSHandler) (n : String) (h0 : S.secrets = true) :
    Modifies S (v.ValidateSecretAndAddVRGOwnerRef n) := by
  unfold VSHandler.ValidateSecretAndAddVRGOwnerRef
  repeat' first
    | apply Modifies.frame_pure
    | apply Modifies.frame_throwPanic
    | apply Modifies.frame_deref
    | apply Modifies.frame_getWorld
    | apply Modifies.frame_clientGet
    | apply Modifies.frame_clientList
    | apply Modifies.frame_bind
    | intro _
    | (simp [*]; done)
    | split
    | dsimp only

@[simp] theorem CopySecretToPVCNamespace_mods {S : Mods} (v : VSHandler) (n ns : String) (h0 : S.secrets = true) :
    Modifies S (v.CopySecretToPVCNamespace n ns) := by
  unfold VSHandler.CopySecretToPVCNamespace
  repeat' first
    | apply Modifies.frame_pure
    | apply Modifies.frame_throwPanic
    | apply Modifies.frame_deref
    | apply Modifies.frame_getWorld
    | apply Modifies.frame_clientGet
    | apply Modifies.frame_clientList
    | apply Modifies.frame_bind
    | intro _
    | (simp [*]; done)
    | split
    | dsimp only

@[simp] theorem pvcExistsAndInUse_mods {S : Mods} (v : VSHandler) (key : NamespacedName) (b : Bool)  :
    Modifies S (v.pvcExistsAndInUse key b) := by
  unfold VSHandler.pvcExistsAndInUse
  repeat' first
    | apply Modifies.frame_pure
    | apply Modifies.frame_throwPanic
    | apply Modifies.frame_deref
    | apply Modifies.frame_getWorld
    | apply Modifies.frame_clientGet
    | apply Modifies.frame_clientList
    | apply Modifies.frame_bind
    | intro _
    | (simp [*]; done)
    | split
    | dsimp only

@[simp] theorem validatePVCForFinalSync_mods {S : Mods} (v : VSHandler) (rsSpec : VolSyncReplicationSourceSpec) (b : Bool) (h0 : S.workloadStatus = true) :
    Modifies S (v.validatePVCForFinalSync rsSpec b) := by
  unfold VSHandler.validatePVCForFinalSync
  repeat' first
    | apply Modifies.frame_pure
    | apply Modifies.frame_throwPanic
    | apply Modifies.frame_deref
    | apply Modifies.frame_getWorld
    | apply Modifies.frame_clientGet
    | apply Modifies.frame_clientList
    | apply Modifies.frame_bind
    | intro _
    | (simp [*]; done)
    | split
    | dsimp only

@[simp] theorem getStorageClass_mods {S : Mods} (v : VSHandler) (n : Option String)  :
    Modifies S (v.getStorageClass n) := by
  unfold VSHandler.getStorageClass
  repeat' first
    | apply Modifies.frame_pure
    | apply Modifies.frame_throwPanic
    | apply Modifies.frame_deref
    | apply Modifies.frame_getWorld
    | apply Modifies.frame_clientGet
    | apply Modifies.frame_clientList
    | apply Modifies.frame_bind
    | intro _
    | (simp [*]; done)
    | split
    | dsimp only

@[simp] theorem GetVolumeSnapshotClasses_mods {S : Mods} (v : VSHandler) (h0 : S.volumeSnapshotClassList = true) :
    Modifies S (v.GetVolumeSnapshotClasses) := by
  unfold VSHandler.GetVolumeSnapshotClasses
  repeat' first
    | apply Modifies.frame_pure
    | apply Modifies.frame_throwPanic
    | apply Modifies.frame_deref
    | apply Modifies.frame_getWorld
    | apply Modifies.frame_clientGet
    | apply Modifies.frame_clientList
    | apply Modifies.frame_bind
    | intro _
    | (simp [*]; done)
    | split
    | dsimp only

@[simp] theorem getVolumeSnapshotClassFromPVCStorageClass_mods {S : Mods} (v : VSHandler) (sc : StorageClass) (h0 : S.volumeSnapshotClassList = true) :
    Modifies S (v.getVolumeSnapshotClassFromPVCStorageClass sc) := by
  unfold VSHandler.getVolumeSnapshotClassFromPVCStorageClass
  repeat' first
    | apply Modifies.frame_pure
    | apply Modifies.frame_throwPanic
    | apply Modifies.frame_deref
    | apply Modifies.frame_getWorld
    | apply Modifies.frame_clientGet
    | apply Modifies.frame_clientList
    | apply Modifies.frame_bind
    | intro _
    | (simp [*]; done)
    | split
    | dsimp only

@[simp] theorem GetVolumeSnapshotClassFromPVCStorageClass_mods {S : Mods} (v : VSHandler) (n : Option String) (h0 : S.volumeSnapshotClassList = true) :
    Modifies S (v.GetVolumeSnapshotClassFromPVCStorageClass n) := by
  unfold VSHandler.GetVolumeSnapshotClassFromPVCStorageClass
  repeat' first
    | apply Modifies.frame_pure
    | apply Modifies.frame_throwPanic
    | apply Modifies.frame_deref
    | apply Modifies.frame_getWorld
    | apply Modifies.frame_clientGet
    | apply Modifies.frame_clientList
    | apply Modifies.frame_bind
    | intro _
    | (simp [*]; done)
    | split
    | dsimp only

@[simp] theorem createTmpPVCForFinalSync_mods {S : Mods} (v : VSHandler) (key : NamespacedName) (h0 : S.pvcs = true) :
    Modifies S (v.createTmpPVCForFinalSync key) := by
  unfold VSHandler.createTmpPVCForFinalSync
  repeat' first
    | apply Modifies.frame_pure
    | apply Modifies.frame_throwPanic
    | apply Modifies.frame_deref
    | apply Modifies.frame_getWorld
    | apply Modifies.frame_clientGet
    | apply Modifies.frame_clientList
    | apply Modifies.frame_bind
    | intro _
    | (simp [*]; done)
    | split
    | dsimp only

@[simp] theorem retainPVAndCreateTmpPVC_mods {S : Mods} (v : VSHandler) (pvc : PersistentVolumeClaim) (h0 : S.pvcs = true) (h1 : S.pvs = true) :
    Modifies S (v.retainPVAndCreateTmpPVC pvc) := by
  unfold VSHandler.retainPVAndCreateTmpPVC
  repeat' first
    | apply Modifies.frame_pure
    | apply Modifies.frame_throwPanic
    | apply Modifies.frame_deref
    | apply Modifies.frame_getWorld
    | apply Modifies.frame_clientGet
    | apply Modifies.frame_clientList
    | apply Modifies.frame_bind
    | intro _
    | (simp [*]; done)
    | split
    | dsimp only

@[simp] theorem setupTmpPVCForFinalSync_mods {S : Mods} (v : VSHandler) (pvc : PersistentVolumeClaim) (h0 : S.pvcs = true) (h1 : S.pvs = true) :
    Modifies S (v.setupTmpPVCForFinalSync pvc) := by
  unfold VSHandler.setupTmpPVCForFinalSync
  repeat' first
    | apply Modifies.frame_pure
    | apply Modifies.frame_throwPanic
    | apply Modifies.frame_deref
    | apply Modifies.frame_getWorld
    | apply Modifies.frame_clientGet
    | apply Modifies.frame_clientList
    | apply Modifies.frame_bind
    | intro _
    | (simp [*]; done)
    | split
    | dsimp only

@[simp] theorem setupForFinalSync_mods {S : Mods} (v : VSHandler) (rsSpec : VolSyncReplicationSourceSpec) (b : Bool) (h0 : S.pvcs = true) (h1 : S.pvs = true) :
    Modifies S (v.setupForFinalSync rsSpec b) := by
  unfold VSHandler.setupForFinalSync
  repeat' first
    | apply Modifies.frame_pure
    | apply Modifies.frame_throwPanic
    | apply Modifies.frame_deref
    | apply Modifies.frame_getWorld
    | apply Modifies.frame_clientGet
    | apply Modifies.frame_clientList
    | apply Modifies.frame_bind
    | intro _
    | (simp [*]; done)
    | split
    | dsimp only

@[simp] theorem createOrUpdateRS_mods {S : Mods} (v : VSHandler) (rsSpec : VolSyncReplicationSourceSpec) (n : String) (b : Bool) (h0 : S.pvcs = true) (h1 : S.pvs = true) (h2 : S.rss = true) (h3 : S.volumeSnapshotClassList = true) :
    Modifies S (v.createOrUpdateRS rsSpec n b) := by
  unfold VSHandler.createOrUpdateRS
  repeat' first
    | apply Modifies.frame_pure
    | apply Modifies.frame_throwPanic
    | apply Modifies.frame_deref
    | apply Modifies.frame_getWorld
    | apply Modifies.frame_clientGet
    | apply Modifies.frame_clientList
    | apply Modifies.frame_bind
    | intro _
    | (simp [*]; done)
    | split
    | dsimp only

@[simp] theorem cleanupAfterRSFinalSync_mods {S : Mods} (v : VSHandler) (rsSpec : VolSyncReplicationSourceSpec) (h0 : S.pvcs = true) :
    Modifies S (v.cleanupAfterRSFinalSync rsSpec) := by
  unfold VSHandler.cleanupAfterRSFinalSync
  repeat' first
    | apply Modifies.frame_pure
    | apply Modifies.frame_throwPanic
    | apply Modifies.frame_deref
    | apply Modifies.frame_getWorld
    | apply Modifies.frame_clientGet
    | apply Modifies.frame_clientList
    | apply Modifies.frame_bind
    | intro _
    | (simp [*]; done)
    | split
    | dsimp only

@[simp] theorem removeOCMAnnotationsAndUpdate_mods {S : Mods} (v : VSHandler) {α : Type} (K : Kind α) (obj : α) (hK : Covers S K) :
    Modifies S (v.removeOCMAnnotationsAndUpdate K obj) := by
  unfold VSHandler.removeOCMAnnotationsAndUpdate
  repeat' first
    | apply Modifies.frame_pure
    | apply Modifies.frame_throwPanic
    | apply Modifies.frame_deref
    | apply Modifies.frame_getWorld
    | apply Modifies.frame_clientGet
    | apply Modifies.frame_clientList
    | apply Modifies.frame_bind
    | intro _
    | (simp [*]; done)
    | split
    | dsimp only

@[simp] theorem addBackOCMAnnotationsAndUpdate_mods {S : Mods} (v : VSHandler) {α : Type} (K : Kind α) (obj : α) (a : Option StrMap) (hK : Covers S K) :
    Modifies S (v.addBackOCMAnnotationsAndUpdate K obj a) := by
  unfold VSHandler.addBackOCMAnnotationsAndUpdate
  repeat' first
    | apply Modifies.frame_pure
    | apply Modifies.frame_throwPanic
    | apply Modifies.frame_deref
    | apply Modifies.frame_getWorld
    | apply Modifies.frame_clientGet
    | apply Modifies.frame_clientList
    | apply Modifies.frame_bind
    | intro _
    | (simp [*]; done)
    | split
    | dsimp only

@[simp] theorem EnsurePVCforDirectCopy_mods {S : Mods} (v : VSHandler) (rdSpec : VolSyncReplicationDestinationSpec) (h0 : S.pvcs = true) :
    Modifies S (v.EnsurePVCforDirectCopy rdSpec) := by
  unfold VSHandler.EnsurePVCforDirectCopy
  repeat' first
    | apply Modifies.frame_pure
    | apply Modifies.frame_throwPanic
    | apply Modifies.frame_deref
    | apply Modifies.frame_getWorld
    | apply Modifies.frame_clientGet
    | apply Modifies.frame_clientList
    | apply Modifies.frame_bind
    | intro _
    | (simp [*]; done)
    | split
    | dsimp only

@[simp] theorem IsPVCInUseByNonRDPod_mods {S : Mods} (v : VSHandler) (key : NamespacedName)  :
    Modifies S (v.IsPVCInUseByNonRDPod key) := by
  unfold VSHandler.IsPVCInUseByNonRDPod
  repeat' first
    | apply Modifies.frame_pure
    | apply Modifies.frame_throwPanic
    | apply Modifies.frame_deref
    | apply Modifies.frame_getWorld
    | apply Modifies.frame_clientGet
    | apply Modifies.frame_clientList
    | apply Modifies.frame_bind
    | intro _
    | (simp [*]; done)
    | split
    | dsimp only

@[simp] theorem PrecreateDestPVCIfEnabled_mods {S : Mods} (v : VSHandler) (rdSpec : VolSyncReplicationDestinationSpec) (h0 : S.pvcs = true) (h1 : S.workloadStatus = true) :
    Modifies S (v.PrecreateDestPVCIfEnabled rdSpec) := by
  unfold VSHandler.PrecreateDestPVCIfEnabled
  repeat' first
    | apply Modifies.frame_pure
    | apply Modifies.frame_throwPanic
    | apply Modifies.frame_deref
    | apply Modifies.frame_getWorld
    | apply Modifies.frame_clientGet
    | apply Modifies.frame_clientList
    | apply Modifies.frame_bind
    | intro _
    | (simp [*]; done)
    | split
    | dsimp only

@[simp] theorem createOrUpdateRD_mods {S : Mods} (v : VSHandler) (rdSpec : VolSyncReplicationDestinationSpec) (n : String) (d : Option String) (h0 : S.rds = true) (h1 : S.volumeSnapshotClassList = true) :
    Modifies S (v.createOrUpdateRD rdSpec n d) := by
  unfold VSHandler.createOrUpdateRD
  repeat' first
    | apply Modifies.frame_pure
    | apply Modifies.frame_throwPanic
    | apply Modifies.frame_deref
    | apply Modifies.frame_getWorld
    | apply Modifies.frame_clientGet
    | apply Modifies.frame_clientList
    | apply Modifies.frame_bind
    | intro _
    | (simp [*]; done)
    | split
    | dsimp only

@[simp] theorem ReconcileServiceExportForRD_mods {S : Mods} (v : VSHandler) (rd : ReplicationDestination) (h0 : S.serviceExports = true) :
    Modifies S (v.ReconcileServiceExportForRD rd) := by
  unfold VSHandler.ReconcileServiceExportForRD
  repeat' first
    | apply Modifies.frame_pure
    | apply Modifies.frame_throwPanic
    | apply Modifies.frame_deref
    | apply Modifies.frame_getWorld
    | apply Modifies.frame_clientGet
    | apply Modifies.frame_clientList
    | apply Modifies.frame_bind
    | intro _
    | (simp [*]; done)
    | split
    | dsimp only

@[simp] theorem deleteVolumeSnapshots_mods {S : Mods} (v : VSHandler) (l : List VolumeSnapshot) (h0 : S.snapshots = true) :
    Modifies S (v.deleteVolumeSnapshots l) := by
  induction l with
  | nil => exact Modifies.frame_pure S none
  | cons x rest ih =>
    unfold VSHandler.deleteVolumeSnapshots
    repeat' first
      | apply Modifies.frame_pure
      | apply Modifies.frame_throwPanic
      | apply Modifies.frame_deref
      | apply Modifies.frame_getWorld
      | apply Modifies.frame_clientGet
      | apply Modifies.frame_clientList
      | apply Modifies.frame_bind
      | intro _
      | (simp [*]; done)
      | split
      | dsimp only

@[simp] theorem pruneOldSnapshots_mods {S : Mods} (v : VSHandler) (ns : String) (h0 : S.snapshots = true) :
    Modifies S (v.pruneOldSnapshots ns) := by
  unfold VSHandler.pruneOldSnapshots
  repeat' first
    | apply Modifies.frame_pure
    | apply Modifies.frame_throwPanic
    | apply Modifies.frame_deref
    | apply Modifies.frame_getWorld
    | apply Modifies.frame_clientGet
    | apply Modifies.frame_clientList
    | apply Modifies.frame_bind
    | intro _
    | (simp [*]; done)
    | split
    | dsimp only

@[simp] theorem pauseRD_mods {S : Mods} (v : VSHandler) (name ns : String) (h0 : S.rds = true) :
    Modifies S (v.pauseRD name ns) := by
  unfold VSHandler.pauseRD
  repeat' first
    | apply Modifies.frame_pure
    | apply Modifies.frame_throwPanic
    | apply Modifies.frame_deref
    | apply Modifies.frame_getWorld
    | apply Modifies.frame_clientGet
    | apply Modifies.frame_clientList
    | apply Modifies.frame_bind
    | intro _
    | (simp [*]; done)
    | split
    | dsimp only

@[simp] theorem validateAndProtectSnapshot_mods {S : Mods} (v : VSHandler) (r : TypedLocalObjectReference) (ns : String) (h0 : S.snapshots = true) :
    Modifies S (v.validateAndProtectSnapshot r ns) := by
  unfold VSHandler.validateAndProtectSnapshot
  repeat' first
    | apply Modifies.frame_pure
    | apply Modifies.frame_throwPanic
    | apply Modifies.frame_deref
    | apply Modifies.frame_getWorld
    | apply Modifies.frame_clientGet
    | apply Modifies.frame_clientList
    | apply Modifies.frame_bind
    | intro _
    | (simp [*]; done)
    | split
    | dsimp only

@[simp] theorem createPVCFromSnapshot_mods {S : Mods} (v : VSHandler) (rd : ReplicationDestination) (rdSpec : VolSyncReplicationDestinationSpec) (r : TypedLocalObjectReference) (q : Option Quantity) (h0 : S.pvcs = true) :
    Modifies S (v.createPVCFromSnapshot rd rdSpec r q) := by
  unfold VSHandler.createPVCFromSnapshot
  repeat' first
    | apply Modifies.frame_pure
    | apply Modifies.frame_throwPanic
    | apply Modifies.frame_deref
    | apply Modifies.frame_getWorld
    | apply Modifies.frame_clientGet
    | apply Modifies.frame_clientList
    | apply Modifies.frame_bind
    | intro _
    | (simp [*]; done)
    | split
    | dsimp only

@[simp] theorem setupLocalRS_mods {S : Mods} (v : VSHandler) (rd : ReplicationDestination) (rdSpec : VolSyncReplicationDestinationSpec) (r : TypedLocalObjectReference) (h0 : S.pvcs = true) (h1 : S.snapshots = true) :
    Modifies S (v.setupLocalRS rd rdSpec r) := by
  unfold VSHandler.setupLocalRS
  repeat' first
    | apply Modifies.frame_pure
    | apply Modifies.frame_throwPanic
    | apply Modifies.frame_deref
    | apply Modifies.frame_getWorld
    | apply Modifies.frame_clientGet
    | apply Modifies.frame_clientList
    | apply Modifies.frame_bind
    | intro _
    | (simp [*]; done)
    | split
    | dsimp only

@[simp] theorem reconcileLocalRD_mods {S : Mods} (v : VSHandler) (rdSpec : VolSyncReplicationDestinationSpec) (n : String) (h0 : S.pvcs = true) (h1 : S.rds = true) :
    Modifies S (v.reconcileLocalRD rdSpec n) := by
  unfold VSHandler.reconcileLocalRD
  repeat' first
    | apply Modifies.frame_pure
    | apply Modifies.frame_throwPanic
    | apply Modifies.frame_deref
    | apply Modifies.frame_getWorld
    | apply Modifies.frame_clientGet
    | apply Modifies.frame_clientList
    | apply Modifies.frame_bind
    | intro _
    | (simp [*]; done)
    | split
    | dsimp only

@[simp] theorem reconcileLocalRS_mods {S : Mods} (v : VSHandler) (rd : Option ReplicationDestination) (rdSpec : VolSyncReplicationDestinationSpec) (r : TypedLocalObjectReference) (n a : String) (h0 : S.pvcs = true) (h1 : S.snapshots = true) (h2 : S.rss = true) :
    Modifies S (v.reconcileLocalRS rd rdSpec r n a) := by
  unfold VSHandler.reconcileLocalRS
  repeat' first
    | apply Modifies.frame_pure
    | apply Modifies.frame_throwPanic
    | apply Modifies.frame_deref
    | apply Modifies.frame_getWorld
    | apply Modifies.frame_clientGet
    | apply Modifies.frame_clientList
    | apply Modifies.frame_bind
    | intro _
    | (simp [*]; done)
    | split
    | dsimp only

@[simp] theorem reconcileLocalReplication_mods {S : Mods} (v : VSHandler) (rd : Option ReplicationDestination) (rdSpec : VolSyncReplicationDestinationSpec) (r : TypedLocalObjectReference) (n : String) (h0 : S.pvcs = true) (h1 : S.snapshots = true) (h2 : S.rss = true) (h3 : S.rds = true) :
    Modifies S (v.reconcileLocalReplication rd rdSpec r n) := by
  unfold VSHandler.reconcileLocalReplication
  repeat' first
    | apply Modifies.frame_pure
    | apply Modifies.frame_throwPanic
    | apply Modifies.frame_deref
    | apply Modifies.frame_getWorld
    | apply Modifies.frame_clientGet
    | apply Modifies.frame_clientList
    | apply Modifies.frame_bind
    | intro _
    | (simp [*]; done)
    | split
    | dsimp only

@[simp] theorem rollbackToLastSnapshot_mods {S : Mods} (v : VSHandler) (rdSpec : VolSyncReplicationDestinationSpec) (r : TypedLocalObjectReference) (h0 : S.pvcs = true) (h1 : S.snapshots = true) (h2 : S.rss = true) (h3 : S.rds = true) :
    Modifies S (v.rollbackToLastSnapshot rdSpec r) := by
  unfold VSHandler.rollbackToLastSnapshot
  repeat' first
    | apply Modifies.frame_pure
    | apply Modifies.frame_throwPanic
    | apply Modifies.frame_deref
    | apply Modifies.frame_getWorld
    | apply Modifies.frame_clientGet
    | apply Modifies.frame_clientList
    | apply Modifies.frame_bind
    | intro _
    | (simp [*]; done)
    | split
    | dsimp only

/-! ## Stores and the delete loops -/

theorem Agree.faults {S : Mods} {w w1 : World} (h : Agree S w w1) : w1.faults = w.faults := by
  have := congrArg World.faults h
  simpa [World.erase] using this

theorem Agree.noFaults {S : Mods} {w w1 : World} (h : Agree S w w1) (hf : NoFaults w) :
    NoFaults w1 := by
  intro n
  rw [h.faults]
  exact hf n

theorem Agree.rss {S : Mods} {w w1 : World} (h : Agree S w w1) (hS : S.rss = false) :
    w1.rss = w.rss := by
  have := congrArg World.rss h
  simpa [World.erase, hS] using this

theorem Agree.rds {S : Mods} {w w1 : World} (h : Agree S w w1) (hS : S.rds = false) :
    w1.rds = w.rds := by
  have := congrArg World.rds h
  simpa [World.erase, hS] using this

theorem markDeleted_isDeleted (m : ObjectMeta) (now : Nat) (h : now ≠ 0) :
    metaIsDeleted (markDeleted m now) = true := by
  unfold markDeleted
  split
  · assumption
  · simp [metaIsDeleted, h]

theorem markDeleted_name (m : ObjectMeta) (now : Nat) : (markDeleted m now).Name = m.Name := by
  unfold markDeleted; split <;> rfl

theorem markDeleted_namespace (m : ObjectMeta) (now : Nat) :
    (markDeleted m now).Namespace = m.Namespace := by
  unfold markDeleted; split <;> rfl

theorem markDeleted_labels (m : ObjectMeta) (now : Nat) : (markDeleted m now).Labels = m.Labels := by
  unfold markDeleted; split <;> rfl

theorem markDeleted_mono (m : ObjectMeta) (now : Nat) (h : metaIsDeleted m = true) :
    metaIsDeleted (markDeleted m now) = true := by
  unfold markDeleted; simp [h]

/-- After a delete every object left under the key is marked deleted. -/
theorem storeDelete_key {α : Type} {K : Kind α} (hK : K.Lawful) {l : List α} {ns name : String}
    {now : Nat} (hnow : now ≠ 0) {o : α} (ho : o ∈ storeDelete K l ns name now)
    (hk : hasKey (K.meta o) ns name = true) : metaIsDeleted (K.meta o) = true := by
  unfold storeDelete at ho
  rw [List.mem_filterMap] at ho
  obtain ⟨x, _, hx⟩ := ho
  split at hx
  · split at hx
    · simp at hx
    · simp only [Option.some.injEq] at hx
      rw [← hx, hK]
      exact markDeleted_isDeleted _ _ hnow
  · rename_i hne
    simp only [Option.some.injEq] at hx
    rw [hx] at hne
    exact absurd hk hne

/-- A delete adds nothing: what is left was there, under the same key and labels,
and stays marked deleted if it was. -/
theorem storeDelete_shrink {α : Type} {K : Kind α} (hK : K.Lawful) {l : List α} {ns name : String}
    {now : Nat} {o : α} (ho : o ∈ storeDelete K l ns name now) :
    ∃ o0 ∈ l, (K.meta o0).Name = (K.meta o).Name ∧ (K.meta o0).Namespace = (K.meta o).Namespace
      ∧ (K.meta o0).Labels = (K.meta o).Labels
      ∧ (metaIsDeleted (K.meta o0) = true → metaIsDeleted (K.meta o) = true) := by
  unfold storeDelete at ho
  rw [List.mem_filterMap] at ho
  obtain ⟨x, hxl, hx⟩ := ho
  refine ⟨x, hxl, ?_⟩
  split at hx
  · split at hx
    · simp at hx
    · simp only [Option.some.injEq] at hx
      rw [← hx, hK]
      exact ⟨(markDeleted_name _ _).symm, (markDeleted_namespace _ _).symm,
        (markDeleted_labels _ _).symm, markDeleted_mono _ _⟩
  · simp only [Option.some.injEq] at hx
    rw [hx]
    exact ⟨rfl, rfl, rfl, id⟩

theorem storeGet_none {α : Type} {meta : α → ObjectMeta} {l : List α} {ns name : String}
    (h : storeGet meta l ns name = none) {o : α} (ho : o ∈ l) : hasKey (meta o) ns name = false := by
  unfold storeGet at h
  rw [List.find?_eq_none] at h
  simpa using h o ho

theorem rsKind_lawful : rsKind.Lawful := fun _ _ => rfl
theorem rdKind_lawful : rdKind.Lawful := fun _ _ => rfl
theorem pvcKind_lawful : pvcKind.Lawful := fun _ _ => rfl
theorem pvKind_lawful : pvKind.Lawful := fun _ _ => rfl
theorem snapshotKind_lawful : snapshotKind.Lawful := fun _ _ => rfl

/-- What a delete does when the oracle does not fire. -/
theorem clientDelete_cases {α : Type} {K : Kind α} {o : α} {w w1 : World} {r : Option Err}
    (hf : w.faults w.calls = false) (h : clientDelete K o w = some (r, w1)) :
    (r = some .notFound ∧ storeGet K.meta (K.objs w) (K.meta o).Namespace (K.meta o).Name = none
        ∧ w1 = w.logged ⟨.delete, K.tag, (K.meta o).Namespace, (K.meta o).Name⟩)
     ∨ (r = none ∧ w1 = K.put (w.logged ⟨.delete, K.tag, (K.meta o).Namespace, (K.meta o).Name⟩)
          (storeDelete K (K.objs w) (K.meta o).Namespace (K.meta o).Name (w.calls + 1))) := by
  unfold clientDelete at h
  simp only [hf, Bool.false_eq_true, ↓reduceIte] at h
  split at h
  · simp only [Option.some.injEq, Prod.mk.injEq] at h
    left
    rename_i hg
    exact ⟨h.1.symm, hg, h.2.symm⟩
  · simp only [Option.some.injEq, Prod.mk.injEq] at h
    right
    exact ⟨h.1.symm, h.2.symm⟩

/-! ## Role exclusivity: the delete loops -/

theorem clientList_ok {α : Type} {K : Kind α} {ns : String} {sel : ObjectMeta → Bool}
    {w w1 : World} {r : Except Err (List α)} (hf : w.faults w.calls = false)
    (h : clientList K ns sel w = some (r, w1)) :
    r = .ok ((K.objs w).filter (fun o => (ns == "" || (K.meta o).Namespace == ns) && sel (K.meta o)))
      ∧ w1 = w.tick := by
  unfold clientList at h
  simp only [hf, Bool.false_eq_true, ↓reduceIte, Option.some.injEq, Prod.mk.injEq] at h
  exact ⟨h.1.symm, h.2.symm⟩

theorem Pending_skip {α : Type} {K : Kind α} {v : VSHandler} {l : List α} {x : α} {rest : List α}
    {ns name : String} (hx : hasKey (K.meta x) ns name ≠ true)
    (hinv : Pending K v l (x :: rest) ns name) : Pending K v l rest ns name := by
  intro o ho hk hown
  rcases hinv o ho hk hown with hd | ⟨y, hy, hyk⟩
  · exact Or.inl hd
  · rcases List.mem_cons.mp hy with rfl | hy
    · exact absurd hyk hx
    · exact Or.inr ⟨y, hy, hyk⟩

theorem Pending_after_delete {α : Type} {K : Kind α} (hK : K.Lawful)
    (hput : ∀ w l, K.objs (K.put w l) = l) (hlog : ∀ w c, K.objs (World.logged w c) = K.objs w)
    {v : VSHandler} {x : α} {rest : List α} {ns name : String} {w wa : World} {r : Option Err}
    (hf : w.faults w.calls = false) (hdel : clientDelete K x w = some (r, wa))
    (hinv : Pending K v (K.objs w) (x :: rest) ns name) :
    Pending K v (K.objs wa) rest ns name := by
  rcases clientDelete_cases hf hdel with ⟨_, hnone, hwa⟩ | ⟨_, hwa⟩
  · subst hwa
    rw [hlog]
    intro o ho hk hown
    rcases hinv o ho hk hown with hd | ⟨y, hy, hyk⟩
    · exact Or.inl hd
    · rcases List.mem_cons.mp hy with rfl | hy
      · have hko := storeGet_none hnone ho
        rw [hasKey_iff] at hk hyk
        have : hasKey (K.meta o) (K.meta y).Namespace (K.meta y).Name = true := by
          rw [hasKey_iff, hk.1, hk.2, hyk.1, hyk.2]; exact ⟨rfl, rfl⟩
        rw [this] at hko
        exact absurd hko (by simp)
      · exact Or.inr ⟨y, hy, hyk⟩
  · subst hwa
    rw [hput]
    intro o ho hk hown
    by_cases hxk : hasKey (K.meta x) ns name = true
    · left
      rw [hasKey_iff] at hxk
      rw [hxk.1, hxk.2] at ho
      exact storeDelete_key hK (by omega) ho hk
    · obtain ⟨o0, ho0, hn, hns, hl, hmono⟩ := storeDelete_shrink hK ho
      have hk0 : hasKey (K.meta o0) ns name = true := by
        rw [hasKey_iff] at hk ⊢
        rw [hn, hns]; exact hk
      have hown0 : v.ownedBy (K.meta o0) = true := by
        unfold VSHandler.ownedBy at hown ⊢
        rw [hl]; exact hown
      rcases hinv o0 ho0 hk0 hown0 with hd | ⟨y, hy, hyk⟩
      · exact Or.inl (hmono hd)
      · rcases List.mem_cons.mp hy with rfl | hy
        · exact absurd hyk hxk
        · exact Or.inr ⟨y, hy, hyk⟩

theorem Pending_nil {α : Type} {K : Kind α} {v : VSHandler} {l : List α} {ns name : String}
    (hinv : Pending K v l [] ns name) : OwnedGone K v l ns name := by
  intro o ho hk hown
  rcases hinv o ho hk hown with h | ⟨x, hx, _⟩
  · exact h
  · simp at hx

theorem Pending_list {α : Type} (K : Kind α) (v : VSHandler) (l : List α) (ns name : String) :
    Pending K v l (l.filter (fun o => (ns == "" || (K.meta o).Namespace == ns) && v.ownedBy (K.meta o)))
      ns name := by
  intro o ho hk hown
  right
  refine ⟨o, ?_, hk⟩
  rw [hasKey_iff] at hk
  simp only [List.mem_filter, ho, true_and, Bool.and_eq_true, Bool.or_eq_true, beq_iff_eq]
  exact ⟨Or.inr hk.1, hown⟩

theorem clientDelete_faults {α : Type} {K : Kind α} (hK : ∀ w l, (K.put w l).faults = w.faults)
    {o : α} {w w1 : World} {r : Option Err} (h : clientDelete K o w = some (r, w1)) :
    w1.faults = w.faults := by
  unfold clientDelete at h
  split at h
  · simp only [Option.some.injEq, Prod.mk.injEq] at h
    rw [← h.2]
  · split at h
    · simp only [Option.some.injEq, Prod.mk.injEq] at h
      rw [← h.2]
    · simp only [Option.some.injEq, Prod.mk.injEq] at h
      rw [← h.2, hK]

theorem DeleteRS_loop_post (v : VSHandler) (p ns : String) :
    ∀ (items : List ReplicationSource) (w w1 : World), NoFaults w →
      Pending rsKind v w.rss items ns p →
      VSHandler.DeleteRS.loop p items w = some ((), w1) →
      OwnedGone rsKind v w1.rss ns p := by
  intro items
  induction items with
  | nil =>
    intro w w1 _ hinv h
    simp only [VSHandler.DeleteRS.loop, M.pure_run, Option.some.injEq, Prod.mk.injEq, true_and] at h
    subst h
    exact Pending_nil hinv
  | cons x rest ih =>
    intro w w1 hf hinv h
    unfold VSHandler.DeleteRS.loop at h
    split at h
    · rw [M.bind_eq_some] at h
      obtain ⟨r, wa, hdel, h⟩ := h
      refine ih wa w1 ?_ ?_ h
      · intro n
        rw [clientDelete_faults (fun _ _ => rfl) hdel]
        exact hf n
      · exact Pending_after_delete rsKind_lawful (fun _ _ => rfl) (fun _ _ => rfl) (hf _) hdel hinv
    · rename_i hname
      refine ih w w1 hf (Pending_skip ?_ hinv) h
      intro hk
      rw [hasKey_iff] at hk
      simp only [getReplicationSourceName, beq_iff_eq] at hname
      exact hname hk.2

theorem RdsShrink.shrink_refl (w : World) : RdsShrink w w :=
  ⟨rfl, fun rd h => ⟨rd, h, rfl, rfl, rfl, id⟩⟩

theorem RdsShrink.of_eq {w w1 : World} (hf : w1.faults = w.faults) (h : w1.rds = w.rds) :
    RdsShrink w w1 := by
  refine ⟨hf, fun rd hrd => ⟨rd, ?_, rfl, rfl, rfl, id⟩⟩
  rw [← h]; exact hrd

theorem RdsShrink.shrink_trans {w w1 w2 : World} (h1 : RdsShrink w w1) (h2 : RdsShrink w1 w2) :
    RdsShrink w w2 := by
  refine ⟨h2.1.trans h1.1, fun rd hrd => ?_⟩
  obtain ⟨rd1, hrd1, hn1, hs1, hl1, hm1⟩ := h2.2 rd hrd
  obtain ⟨rd0, hrd0, hn0, hs0, hl0, hm0⟩ := h1.2 rd1 hrd1
  exact ⟨rd0, hrd0, hn0.trans hn1, hs0.trans hs1, hl0.trans hl1, fun h => hm1 (hm0 h)⟩

theorem Shrinks.shrink_pure {α : Type} (a : α) : Shrinks (Pure.pure a : M α) := by
  constructor
  intro w b w1 h
  simp only [M.pure_run, Option.some.injEq, Prod.mk.injEq] at h
  rw [← h.2]
  exact RdsShrink.shrink_refl w

theorem Shrinks.shrink_bind {α β : Type} {m : M α} {f : α → M β}
    (h1 : Shrinks m) (h2 : ∀ a, Shrinks (f a)) : Shrinks (m >>= f) := by
  constructor
  intro w b w2 h
  rw [M.bind_eq_some] at h
  obtain ⟨a, w1, hm, hf⟩ := h
  exact (h1.run w a w1 hm).shrink_trans ((h2 a).run w1 b w2 hf)

theorem Shrinks.shrink_throwPanic {α : Type} : Shrinks (throwPanic : M α) := by
  constructor
  intro w a w1 h
  simp at h

theorem Shrinks.shrink_deref {α : Type} (o : Option α) : Shrinks (deref o) := by
  cases o with
  | none => exact Shrinks.shrink_throwPanic
  | some a => exact Shrinks.shrink_pure a

theorem Shrinks.shrink_clientGet {α : Type} (K : Kind α) (ns name : String) :
    Shrinks (clientGet K ns name) := by
  constructor
  intro w a w1 h
  unfold Volsync.clientGet at h
  split at h
  · simp only [Option.some.injEq, Prod.mk.injEq] at h
    rw [← h.2]; exact RdsShrink.of_eq rfl rfl
  · split at h <;>
    · simp only [Option.some.injEq, Prod.mk.injEq] at h
      rw [← h.2]; exact RdsShrink.of_eq rfl rfl

theorem Shrinks.shrink_clientList {α : Type} (K : Kind α) (ns : String) (sel : ObjectMeta → Bool) :
    Shrinks (clientList K ns sel) := by
  constructor
  intro w a w1 h
  unfold Volsync.clientList at h
  split at h <;>
  · simp only [Option.some.injEq, Prod.mk.injEq] at h
    rw [← h.2]; exact RdsShrink.of_eq rfl rfl

theorem Shrinks.shrink_clientDelete {α : Type} {K : Kind α} (hK : DeleteShrinks K) (o : α) :
    Shrinks (clientDelete K o) := by
  constructor
  intro w a w1 h
  unfold Volsync.clientDelete at h
  split at h
  · simp only [Option.some.injEq, Prod.mk.injEq] at h
    rw [← h.2]; exact RdsShrink.of_eq rfl rfl
  · split at h
    · simp only [Option.some.injEq, Prod.mk.injEq] at h
      rw [← h.2]; exact RdsShrink.of_eq rfl rfl
    · simp only [Option.some.injEq, Prod.mk.injEq] at h
      rw [← h.2]
      exact hK w _ _ _ _

theorem deleteShrinks_rd : DeleteShrinks rdKind := by
  intro w c ns name now
  refine ⟨rfl, fun rd hrd => ?_⟩
  have hrd : rd ∈ storeDelete rdKind w.rds ns name now := hrd
  exact storeDelete_shrink rdKind_lawful hrd

theorem deleteShrinks_rs : DeleteShrinks rsKind := fun _ _ _ _ _ => RdsShrink.of_eq rfl rfl

theorem deleteShrinks_pvc : DeleteShrinks pvcKind := fun _ _ _ _ _ => RdsShrink.of_eq rfl rfl

theorem deleteShrinks_snapshot : DeleteShrinks snapshotKind :=
  fun _ _ _ _ _ => RdsShrink.of_eq rfl rfl

theorem DeletePVC_shrinks (name ns : String) : Shrinks (util.DeletePVC name ns) := by
  unfold util.DeletePVC
  repeat' first
    | apply Shrinks.shrink_pure
    | apply Shrinks.shrink_throwPanic
    | apply Shrinks.shrink_deref
    | apply Shrinks.shrink_clientGet
    | exact Shrinks.shrink_clientDelete deleteShrinks_pvc _
    | apply Shrinks.shrink_bind
    | intro _
    | split

theorem DeleteLocalRD_shrinks (v : VSHandler) (name ns : String) :
    Shrinks (v.DeleteLocalRD name ns) := by
  unfold VSHandler.DeleteLocalRD
  repeat' first
    | apply Shrinks.shrink_pure
    | apply Shrinks.shrink_clientGet
    | exact Shrinks.shrink_clientDelete deleteShrinks_rd _
    | apply Shrinks.shrink_bind
    | intro _
    | split

theorem deleteSnapshot_shrinks (v : VSHandler) (name ns : String) :
    Shrinks (v.deleteSnapshot name ns) := by
  unfold VSHandler.deleteSnapshot
  repeat' first
    | apply Shrinks.shrink_pure
    | apply Shrinks.shrink_clientGet
    | exact Shrinks.shrink_clientDelete deleteShrinks_snapshot _
    | apply Shrinks.shrink_bind
    | intro _
    | split

theorem CleanupLocalResources_shrinks (v : VSHandler) (lrs : ReplicationSource) :
    Shrinks (v.CleanupLocalResources lrs) := by
  unfold VSHandler.CleanupLocalResources
  repeat' first
    | apply Shrinks.shrink_pure
    | apply Shrinks.shrink_deref
    | exact deleteSnapshot_shrinks _ _ _
    | exact DeletePVC_shrinks _ _
    | exact DeleteLocalRD_shrinks _ _ _
    | exact Shrinks.shrink_clientDelete deleteShrinks_rs _
    | apply Shrinks.shrink_bind
    | intro _
    | split

theorem getRDLatestImage_shrinks (v : VSHandler) (name ns : String) :
    Shrinks (v.getRDLatestImage name ns) := by
  unfold VSHandler.getRDLatestImage VSHandler.getRD
  repeat' first
    | apply Shrinks.shrink_pure
    | apply Shrinks.shrink_clientGet
    | apply Shrinks.shrink_bind
    | intro _
    | split

theorem deleteLocalRDAndRS_shrinks (v : VSHandler) (rd : ReplicationDestination) :
    Shrinks (v.deleteLocalRDAndRS rd) := by
  unfold VSHandler.deleteLocalRDAndRS
  repeat' first
    | apply Shrinks.shrink_pure
    | apply Shrinks.shrink_clientGet
    | exact getRDLatestImage_shrinks _ _ _
    | exact CleanupLocalResources_shrinks _ _
    | exact DeleteLocalRD_shrinks _ _ _
    | apply Shrinks.shrink_bind
    | intro _
    | split
    | dsimp only

theorem Pending_shrink {v : VSHandler} {w wa : World} {items : List ReplicationDestination}
    {ns name : String} (hs : RdsShrink w wa) (hinv : Pending rdKind v w.rds items ns name) :
    Pending rdKind v wa.rds items ns name := by
  intro o ho hk hown
  obtain ⟨o0, ho0, hn, hns, hl, hmono⟩ := hs.2 o ho
  have hk0 : hasKey (rdKind.meta o0) ns name = true := by
    rw [hasKey_iff] at hk ⊢
    have e1 : (rdKind.meta o0).Name = (rdKind.meta o).Name := hn
    have e2 : (rdKind.meta o0).Namespace = (rdKind.meta o).Namespace := hns
    rw [e1, e2]; exact hk
  have hown0 : v.ownedBy (rdKind.meta o0) = true := by
    unfold VSHandler.ownedBy at hown ⊢
    have e3 : (rdKind.meta o0).Labels = (rdKind.meta o).Labels := hl
    rw [e3]; exact hown
  rcases hinv o0 ho0 hk0 hown0 with hd | hw
  · exact Or.inl (hmono hd)
  · exact Or.inr hw

theorem DeleteRD_loop_post (v : VSHandler) (p ns : String) :
    ∀ (items : List ReplicationDestination) (w w1 : World), NoFaults w →
      Pending rdKind v w.rds items ns p →
      VSHandler.DeleteRD.loop v p items w = some (none, w1) →
      OwnedGone rdKind v w1.rds ns p ∧ NoFaults w1 := by
  intro items
  induction items with
  | nil =>
    intro w w1 hf hinv h
    simp only [VSHandler.DeleteRD.loop, M.pure_run, Option.some.injEq, Prod.mk.injEq, true_and] at h
    subst h
    exact ⟨Pending_nil hinv, hf⟩
  | cons x rest ih =>
    intro w w1 hf hinv h
    unfold VSHandler.DeleteRD.loop at h
    split at h
    · rw [M.bind_eq_some] at h
      obtain ⟨err, wa, hloc, h⟩ := h
      cases err with
      | some e => simp at h
      | none =>
        dsimp only at h
        rw [M.bind_eq_some] at h
        obtain ⟨r, wb, hdel, h⟩ := h
        have hs : RdsShrink w wa := by
          refine Shrinks.run ?_ _ _ _ hloc
          split
          · exact deleteLocalRDAndRS_shrinks _ _
          · exact Shrinks.shrink_pure _
        have hfa : NoFaults wa := fun n => by rw [hs.1]; exact hf n
        refine ih wb w1 ?_ ?_ h
        · intro n
          rw [clientDelete_faults (fun _ _ => rfl) hdel]
          exact hfa n
        · exact Pending_after_delete rdKind_lawful (fun _ _ => rfl) (fun _ _ => rfl) (hfa _) hdel
            (Pending_shrink hs hinv)
    · rename_i hname
      refine ih w w1 hf (Pending_skip ?_ hinv) h
      intro hk
      rw [hasKey_iff] at hk
      simp only [getReplicationDestinationName, beq_iff_eq] at hname
      exact hname hk.2

theorem DeleteRD_post (v : VSHandler) (p ns : String) (w w1 : World) (hf : NoFaults w)
    (h : v.DeleteRD p ns w = some (none, w1)) :
    OwnedGone rdKind v w1.rds ns p ∧ NoFaults w1 := by
  unfold VSHandler.DeleteRD VSHandler.listRDByOwner VSHandler.listByOwner at h
  rw [M.bind_eq_some] at h
  obtain ⟨r, wa, hl, h⟩ := h
  obtain ⟨hr, hwa⟩ := clientList_ok (hf _) hl
  subst hr hwa
  dsimp only at h
  refine DeleteRD_loop_post v p ns _ w.tick w1 ?_ ?_ h
  · exact fun n => hf n
  · exact Pending_list rdKind v w.rds ns p

theorem DeleteRS_post (v : VSHandler) (p ns : String) (w w1 : World) (hf : NoFaults w)
    (h : v.DeleteRS p ns w = some (none, w1)) : OwnedGone rsKind v w1.rss ns p := by
  unfold VSHandler.DeleteRS VSHandler.listRSByOwner VSHandler.listByOwner at h
  rw [M.bind_eq_some] at h
  obtain ⟨r, wa, hl, h⟩ := h
  obtain ⟨hr, hwa⟩ := clientList_ok (hf _) hl
  subst hr hwa
  dsimp only at h
  rw [M.bind_eq_some] at h
  obtain ⟨u, wb, hloop, h⟩ := h
  simp only [M.pure_run, Option.some.injEq, Prod.mk.injEq, true_and] at h
  subst h
  refine DeleteRS_loop_post v p ns _ _ _ ?_ ?_ hloop
  · exact fun n => hf n
  · intro o ho hk hown
    right
    refine ⟨o, ?_, hk⟩
    have ho : o ∈ w.rss := ho
    rw [hasKey_iff] at hk
    simp only [rsKind, List.mem_filter, ho, true_and, Bool.and_eq_true, Bool.or_eq_true, beq_iff_eq]
    exact ⟨Or.inr hk.1, hown⟩

theorem ReconcileRD_deletes_owned_sources (v : VSHandler) (rdSpec : VolSyncReplicationDestinationSpec) (w w1 : World)
    (rd : ReplicationDestination) (e : Option Err) (hf : NoFaults w)
    (h : v.ReconcileRD rdSpec w = some ((some rd, e), w1)) :
    OwnedGone rsKind v w1.rss rdSpec.ProtectedPVC.Namespace rdSpec.ProtectedPVC.Name := by
  unfold VSHandler.ReconcileRD at h
  split at h
  · simp at h
  · rw [M.bind_eq_some] at h
    obtain ⟨⟨secretExists, err⟩, wa, hsec, h⟩ := h
    dsimp only at h
    split at h
    · simp at h
    · rw [M.bind_eq_some] at h
      obtain ⟨err1, wb, hcopy, h⟩ := h
      cases err1 with
      | some e1 => simp at h
      | none =>
        dsimp only at h
        rw [M.bind_eq_some] at h
        obtain ⟨derr, wc, hdel, h⟩ := h
        cases derr with
        | some e1 => simp at h
        | none =>
          dsimp only at h
          have hS : ({ secrets := true } : Mods).secrets = true := rfl
          have ha := (ValidateSecretAndAddVRGOwnerRef_mods v _ hS).run _ _ _ hsec
          have hb : Agree { secrets := true } wa wb := by
            refine Modifies.run ?_ _ _ _ hcopy
            split
            · exact CopySecretToPVCNamespace_mods v _ _ hS
            · exact Modifies.frame_pure _ _
          have hfb : NoFaults wb := hb.noFaults (ha.noFaults hf)
          have hgone := DeleteRS_post v _ _ wb wc hfb hdel
          have hc : Agree { Mods.all with rss := false } wc w1 := by
            refine Modifies.run ?_ _ _ _ h
            repeat' first
              | apply Modifies.frame_pure
              | apply Modifies.frame_throwPanic
              | apply Modifies.frame_deref
              | exact PrecreateDestPVCIfEnabled_mods _ _ rfl rfl
              | exact createOrUpdateRD_mods _ _ _ _ rfl rfl
              | exact ReconcileServiceExportForRD_mods _ _ rfl
              | exact pruneOldSnapshots_mods _ _ rfl
              | apply Modifies.frame_bind
              | intro _
              | split
          rw [hc.rss rfl]
          exact hgone

/-! ## Totality of the scheduled path -/

theorem Total.total_pure {α : Type} (a : α) : Total (Pure.pure a : M α) :=
  ⟨fun w => ⟨a, w, rfl⟩⟩

theorem Total.total_bind {α β : Type} {m : M α} {f : α → M β} (h1 : Total m) (h2 : ∀ a, Total (f a)) :
    Total (m >>= f) := by
  constructor
  intro w
  obtain ⟨a, w1, hm⟩ := h1.run w
  obtain ⟨b, w2, hf⟩ := (h2 a).run w1
  exact ⟨b, w2, M.bind_eq_some.mpr ⟨a, w1, hm, hf⟩⟩

/-- Sequencing when the continuation returns on the results the first part can give. -/
theorem Total.total_bind_of {α β : Type} {m : M α} {f : α → M β} (h1 : Total m)
    (h2 : ∀ w a w1, m w = some (a, w1) → ∃ b w2, f a w1 = some (b, w2)) : Total (m >>= f) := by
  constructor
  intro w
  obtain ⟨a, w1, hm⟩ := h1.run w
  obtain ⟨b, w2, hf⟩ := h2 w a w1 hm
  exact ⟨b, w2, M.bind_eq_some.mpr ⟨a, w1, hm, hf⟩⟩

theorem Total.total_deref_some {α : Type} (a : α) : Total (deref (some a)) :=
  ⟨fun w => ⟨a, w, rfl⟩⟩

theorem Total.total_getWorld : Total getWorld := ⟨fun w => ⟨w, w, rfl⟩⟩

theorem Total.total_modifyWorld (f : World → World) : Total (modifyWorld f) :=
  ⟨fun w => ⟨(), f w, rfl⟩⟩

theorem Total.total_clientGet {α : Type} (K : Kind α) (ns name : String) : Total (clientGet K ns name) := by
  constructor
  intro w
  unfold Volsync.clientGet
  split
  · exact ⟨_, _, rfl⟩
  · split <;> exact ⟨_, _, rfl⟩

theorem Total.total_clientList {α : Type} (K : Kind α) (ns : String) (sel : ObjectMeta → Bool) :
    Total (clientList K ns sel) := by
  constructor
  intro w
  unfold Volsync.clientList
  split <;> exact ⟨_, _, rfl⟩

theorem Total.total_clientCreate {α : Type} (K : Kind α) (o : α) : Total (clientCreate K o) := by
  constructor
  intro w
  unfold Volsync.clientCreate
  split
  · exact ⟨_, _, rfl⟩
  · split <;> exact ⟨_, _, rfl⟩

theorem Total.total_clientUpdate {α : Type} (K : Kind α) (o : α) : Total (clientUpdate K o) := by
  constructor
  intro w
  unfold Volsync.clientUpdate
  split
  · exact ⟨_, _, rfl⟩
  · split <;> exact ⟨_, _, rfl⟩

theorem Total.total_clientDelete {α : Type} (K : Kind α) (o : α) : Total (clientDelete K o) := by
  constructor
  intro w
  unfold Volsync.clientDelete
  split
  · exact ⟨_, _, rfl⟩
  · split <;> exact ⟨_, _, rfl⟩

theorem mutate_ne_none {α : Type} (K : Kind α) (f : α → α × Option Err) (ns name : String) (o : α) :
    mutate K (fun o => some (f o)) ns name o ≠ none := by
  unfold mutate
  dsimp only
  split
  · rename_i h; simp at h
  · simp
  · split <;> simp

theorem CreateOrUpdate_total {α : Type} [DecidableEq α] (K : Kind α) (obj : α)
    (f : α → α × Option Err) : Total (CreateOrUpdate K obj (fun o => some (f o))) := by
  unfold CreateOrUpdate
  repeat' first
    | apply Total.total_pure
    | apply Total.total_clientGet
    | apply Total.total_clientCreate
    | apply Total.total_clientUpdate
    | apply Total.total_bind
    | intro _
    | (rename_i h; exact absurd h (mutate_ne_none _ _ _ _ _))
    | split
    | dsimp only

theorem DeletePVC_total (name ns : String) : Total (util.DeletePVC name ns) := by
  unfold util.DeletePVC
  repeat' first
    | apply Total.total_pure
    | apply Total.total_clientGet
    | apply Total.total_clientDelete
    | apply Total.total_bind
    | intro _
    | split

theorem DeleteLocalRD_total (v : VSHandler) (name ns : String) : Total (v.DeleteLocalRD name ns) := by
  unfold VSHandler.DeleteLocalRD
  repeat' first
    | apply Total.total_pure
    | apply Total.total_clientGet
    | apply Total.total_clientDelete
    | apply Total.total_bind
    | intro _
    | split

theorem deleteSnapshot_total (v : VSHandler) (name ns : String) :
    Total (v.deleteSnapshot name ns) := by
  unfold VSHandler.deleteSnapshot
  repeat' first
    | apply Total.total_pure
    | apply Total.total_clientGet
    | apply Total.total_clientDelete
    | apply Total.total_bind
    | intro _
    | split

theorem CleanupLocalResources_total (v : VSHandler) (lrs : ReplicationSource)
    (tr : ReplicationSourceTriggerSpec) (h : lrs.Spec.Trigger = some tr) :
    Total (v.CleanupLocalResources lrs) := by
  unfold VSHandler.CleanupLocalResources
  rw [h]
  repeat' first
    | apply Total.total_pure
    | apply Total.total_deref_some
    | apply Total.total_clientDelete
    | exact deleteSnapshot_total _ _ _
    | exact DeletePVC_total _ _
    | exact DeleteLocalRD_total _ _ _
    | apply Total.total_bind
    | intro _
    | split

theorem getRDLatestImage_total (v : VSHandler) (name ns : String) :
    Total (v.getRDLatestImage name ns) := by
  unfold VSHandler.getRDLatestImage VSHandler.getRD
  repeat' first
    | apply Total.total_pure
    | apply Total.total_clientGet
    | apply Total.total_bind
    | intro _
    | split

theorem deleteLocalRDAndRS_total (v : VSHandler) (rd : ReplicationDestination) :
    Total (v.deleteLocalRDAndRS rd) := by
  unfold VSHandler.deleteLocalRDAndRS
  apply Total.total_bind (getRDLatestImage_total _ _ _)
  rintro ⟨img, err⟩
  dsimp only
  split
  · exact Total.total_pure _
  · exact Total.total_pure _
  · apply Total.total_bind (Total.total_clientGet _ _ _)
    intro g
    split
    · split
      · exact DeleteLocalRD_total _ _ _
      · exact Total.total_pure _
    · rename_i lrs
      cases htr : lrs.Spec.Trigger with
      | none => simp only [Bool.false_eq_true, ↓reduceIte]; exact Total.total_pure _
      | some tr =>
        dsimp only
        split
        · apply Total.total_bind (CleanupLocalResources_total v lrs tr htr)
          intro y
          split <;> exact Total.total_pure _
        · exact Total.total_pure _

theorem DeleteRD_loop_total (v : VSHandler) (p : String) (l : List ReplicationDestination) :
    Total (VSHandler.DeleteRD.loop v p l) := by
  induction l with
  | nil => exact Total.total_pure none
  | cons x rest ih =>
    unfold VSHandler.DeleteRD.loop
    repeat' first
      | apply Total.total_pure
      | apply Total.total_clientDelete
      | exact deleteLocalRDAndRS_total _ _
      | exact ih
      | apply Total.total_bind
      | intro _
      | split

theorem DeleteRD_total (v : VSHandler) (p ns : String) : Total (v.DeleteRD p ns) := by
  unfold VSHandler.DeleteRD VSHandler.listRDByOwner VSHandler.listByOwner
  repeat' first
    | apply Total.total_pure
    | apply Total.total_clientList
    | exact DeleteRD_loop_total _ _ _
    | apply Total.total_bind
    | intro _
    | split

theorem ValidateSecretAndAddVRGOwnerRef_total (v : VSHandler) (n : String) :
    Total (v.ValidateSecretAndAddVRGOwnerRef n) := by
  unfold VSHandler.ValidateSecretAndAddVRGOwnerRef VSHandler.addOwnerReferenceAndUpdate
  repeat' first
    | apply Total.total_pure
    | apply Total.total_clientGet
    | apply Total.total_clientUpdate
    | apply Total.total_bind
    | intro _
    | split

theorem CopySecretToPVCNamespace_total (v : VSHandler) (n ns : String) :
    Total (v.CopySecretToPVCNamespace n ns) := by
  unfold VSHandler.CopySecretToPVCNamespace
  repeat' first
    | apply Total.total_pure
    | apply Total.total_clientGet
    | apply Total.total_clientCreate
    | apply Total.total_bind
    | intro _
    | split
    | dsimp only

theorem getVolumeSnapshotClassFromPVCStorageClass_total (v : VSHandler) (sc : StorageClass) :
    Total (v.getVolumeSnapshotClassFromPVCStorageClass sc) := by
  unfold VSHandler.getVolumeSnapshotClassFromPVCStorageClass VSHandler.GetVolumeSnapshotClasses
  repeat' first
    | apply Total.total_pure
    | apply Total.total_getWorld
    | apply Total.total_modifyWorld
    | apply Total.total_clientList
    | apply Total.total_bind
    | intro _
    | split
    | dsimp only

theorem getStorageClass_total (v : VSHandler) (n : Option String) : Total (v.getStorageClass n) := by
  unfold VSHandler.getStorageClass
  repeat' first
    | apply Total.total_pure
    | apply Total.total_clientGet
    | apply Total.total_bind
    | intro _
    | split

theorem getStorageClass_result (v : VSHandler) (n : Option String) (w w1 : World)
    (sc : Option StorageClass) (h : v.getStorageClass n w = some ((sc, none), w1)) :
    ∃ s, sc = some s := by
  unfold VSHandler.getStorageClass at h
  split at h
  · simp at h
  · split at h
    · simp at h
    · rw [M.bind_eq_some] at h
      obtain ⟨r, wa, _, h⟩ := h
      cases r with
      | error e => simp at h
      | ok s =>
        simp only [M.pure_run, Option.some.injEq, Prod.mk.injEq] at h
        exact ⟨s, h.1.1.symm⟩

theorem getRS_total (v : VSHandler) (name ns : String) : Total (v.getRS name ns) := by
  unfold VSHandler.getRS
  repeat' first
    | apply Total.total_pure
    | apply Total.total_clientGet
    | apply Total.total_bind
    | intro _
    | split

theorem getRS_result (v : VSHandler) (name ns : String) (w w1 : World)
    (rs : Option ReplicationSource) (h : v.getRS name ns w = some ((rs, none), w1)) :
    ∃ r, rs = some r := by
  unfold VSHandler.getRS at h
  rw [M.bind_eq_some] at h
  obtain ⟨r, wa, _, h⟩ := h
  cases r with
  | error e => simp at h
  | ok s =>
    simp only [M.pure_run, Option.some.injEq, Prod.mk.injEq] at h
    exact ⟨s, h.1.1.symm⟩

theorem setupForFinalSync_scheduled_total (v : VSHandler) (rsSpec : VolSyncReplicationSourceSpec) :
    Total (v.setupForFinalSync rsSpec false) := by
  unfold VSHandler.setupForFinalSync
  apply Total.total_bind_of (getRS_total _ _ _)
  rintro w ⟨rs, err⟩ w1 h
  cases err with
  | some e =>
    dsimp only
    split <;> exact ⟨_, _, rfl⟩
  | none =>
    obtain ⟨r, hr⟩ := getRS_result v _ _ w w1 rs h
    subst hr
    dsimp only
    simp only [M.bind_run, deref_some, Bool.not_false, ↓reduceIte]
    split <;> exact ⟨_, _, rfl⟩

theorem createOrUpdateRS_scheduled_total (v : VSHandler) (rsSpec : VolSyncReplicationSourceSpec)
    (n : String) : Total (v.createOrUpdateRS rsSpec n false) := by
  unfold VSHandler.createOrUpdateRS
  apply Total.total_bind_of (getStorageClass_total _ _)
  rintro w ⟨sc, err⟩ w1 h
  cases err with
  | some e => exact ⟨_, _, rfl⟩
  | none =>
    obtain ⟨s, hs⟩ := getStorageClass_result v _ w w1 sc h
    subst hs
    have ht : Total (do
        let storageClass ← deref (some s)
        let rsSpec := v.ModifyRSSpecForCephFS rsSpec storageClass
        let (volumeSnapshotClassName, err1) ← v.getVolumeSnapshotClassFromPVCStorageClass storageClass
        match err1 with
        | some e => pure (none, some e)
        | none =>
          let remoteAddress := getRemoteServiceNameForRDFromPVCName rsSpec.ProtectedPVC.Name
            rsSpec.ProtectedPVC.Namespace
          let rs : ReplicationSource := util.AddLabel rsKind
            { ObjectMeta := { Name := getReplicationSourceName rsSpec.ProtectedPVC.Name,
                              Namespace := rsSpec.ProtectedPVC.Namespace } }
            util.CreatedByRamenLabel "true"
          let stop ← v.setupForFinalSync rsSpec false
          if stop then pure (none, none)
          else
            let (_, rs1, cerr) ← CreateOrUpdate rsKind rs (fun o =>
              some (v.mutateRS rsSpec n false volumeSnapshotClassName remoteAddress o))
            match cerr with
            | some e => pure (none, some e)
            | none => pure (some rs1, none) : M (Option ReplicationSource × Option Err)) := by
      repeat' first
        | apply Total.total_pure
        | apply Total.total_deref_some
        | exact getVolumeSnapshotClassFromPVCStorageClass_total _ _
        | exact setupForFinalSync_scheduled_total _ _
        | exact CreateOrUpdate_total _ _ _
        | apply Total.total_bind
        | intro _
        | split
        | dsimp only
    exact ht.run w1

theorem ReconcileRS_scheduled_total (v : VSHandler) (rsSpec : VolSyncReplicationSourceSpec) :
    Total (v.ReconcileRS rsSpec false) := by
  unfold VSHandler.ReconcileRS VSHandler.validatePVCForFinalSync
  repeat' first
    | apply Total.total_pure
    | exact ValidateSecretAndAddVRGOwnerRef_total _ _
    | exact CopySecretToPVCNamespace_total _ _ _
    | exact DeleteRD_total _ _ _
    | exact getRS_total _ _ _
    | exact createOrUpdateRS_scheduled_total _ _ _
    | apply Total.total_bind
    | intro _
    | (rename_i h; simp at h; done)
    | split
    | dsimp only

/-! ## Inversion of ReconcileRS -/

theorem ReconcileRS_complete_inv (v : VSHandler) (rsSpec : VolSyncReplicationSourceSpec)
    (runFinalSync : Bool) (w w1 : World) (rs : Option ReplicationSource) (e : Option Err)
    (h : v.ReconcileRS rsSpec runFinalSync w = some ((true, rs, e), w1)) :
    runFinalSync = true ∧ ∃ r, rs = some r ∧ isFinalSyncComplete r = true := by
  unfold VSHandler.ReconcileRS at h
  split at h
  · simp at h
  · rw [M.bind_eq_some] at h
    obtain ⟨⟨secretExists, err⟩, wa, hsec, h⟩ := h
    dsimp only at h
    split at h
    · simp at h
    · rw [M.bind_eq_some] at h
      obtain ⟨err1, wb, hcopy, h⟩ := h
      cases err1 with
      | some e1 => simp at h
      | none =>
        dsimp only at h
        rw [M.bind_eq_some] at h
        obtain ⟨derr, wc, hdel, h⟩ := h
        cases derr with
        | some e1 => simp at h
        | none =>
          dsimp only at h
          rw [M.bind_eq_some] at h
          obtain ⟨⟨pvcOk, err2⟩, wd, hval, h⟩ := h
          dsimp only at h
          split at h
          · rw [M.bind_eq_some] at h
            obtain ⟨⟨existingRS, getRSErr⟩, we, hget, h⟩ := h
            cases getRSErr <;> simp at h
          · rw [M.bind_eq_some] at h
            obtain ⟨⟨replicationSource, err3⟩, we, hcou, h⟩ := h
            dsimp only at h
            split at h
            · simp at h
            · simp at h
            · rename_i r0 _
              split at h
              · rename_i hc
                rw [M.bind_eq_some] at h
                obtain ⟨uerr, wf, hundo, h⟩ := h
                cases uerr with
                | some e1 => simp at h
                | none =>
                  dsimp only at h
                  rw [M.bind_eq_some] at h
                  obtain ⟨cerr, wg, hclean, h⟩ := h
                  simp only [M.pure_run, Option.some.injEq, Prod.mk.injEq, true_and] at h
                  simp only [Bool.and_eq_true] at hc
                  refine ⟨hc.1, _, h.1.1.symm, hc.2⟩
              · simp at h

/-! ## Runs of client calls -/

theorem clientGet_run_found {α : Type} {K : Kind α} {w : World} {ns name : String} {o : α}
    (hf : w.faults w.calls = false) (h : storeGet K.meta (K.objs w) ns name = some o) :
    clientGet K ns name w = some (.ok o, w.tick) := by
  simp [clientGet, hf, h, World.tick]

theorem clientGet_run_missing {α : Type} {K : Kind α} {w : World} {ns name : String}
    (hf : w.faults w.calls = false) (h : storeGet K.meta (K.objs w) ns name = none) :
    clientGet K ns name w = some (.error .notFound, w.tick) := by
  simp [clientGet, hf, h, World.tick]

theorem clientList_run {α : Type} {K : Kind α} {w : World} {ns : String} {sel : ObjectMeta → Bool}
    (hf : w.faults w.calls = false) :
    clientList K ns sel w = some (.ok ((K.objs w).filter (fun o =>
      (ns == "" || (K.meta o).Namespace == ns) && sel (K.meta o))), w.tick) := by
  simp [clientList, hf, World.tick]

theorem clientUpdate_run_found {α : Type} {K : Kind α} {w : World} {o o0 : α}
    (hf : w.faults w.calls = false)
    (h : storeGet K.meta (K.objs w) (K.meta o).Namespace (K.meta o).Name = some o0) :
    clientUpdate K o w = some (none,
      K.put (w.logged ⟨.update, K.tag, (K.meta o).Namespace, (K.meta o).Name⟩)
        (storeUpdate K (K.objs w) o)) := by
  simp [clientUpdate, hf, h, World.logged]

theorem clientDelete_run_found {α : Type} {K : Kind α} {w : World} {o o0 : α}
    (hf : w.faults w.calls = false)
    (h : storeGet K.meta (K.objs w) (K.meta o).Namespace (K.meta o).Name = some o0) :
    clientDelete K o w = some (none,
      K.put (w.logged ⟨.delete, K.tag, (K.meta o).Namespace, (K.meta o).Name⟩)
        (storeDelete K (K.objs w) (K.meta o).Namespace (K.meta o).Name (w.calls + 1))) := by
  simp [clientDelete, hf, h, World.logged]

theorem clientDelete_run_missing {α : Type} {K : Kind α} {w : World} {o : α}
    (hf : w.faults w.calls = false)
    (h : storeGet K.meta (K.objs w) (K.meta o).Namespace (K.meta o).Name = none) :
    clientDelete K o w = some (some .notFound,
      w.logged ⟨.delete, K.tag, (K.meta o).Namespace, (K.meta o).Name⟩) := by
  simp [clientDelete, hf, h, World.logged]

theorem clientCreate_run_new {α : Type} {K : Kind α} {w : World} {o : α}
    (hf : w.faults w.calls = false)
    (h : storeGet K.meta (K.objs w) (K.meta o).Namespace (K.meta o).Name = none) :
    clientCreate K o w = some ((asCreated K o (w.calls + 1), none),
      K.put (w.logged ⟨.create, K.tag, (K.meta o).Namespace, (K.meta o).Name⟩)
        (K.objs w ++ [asCreated K o (w.calls + 1)])) := by
  simp [clientCreate, hf, h, World.logged]

theorem tmpName_ne_empty (n : String) : getTmpPVCNameForFinalSync n ≠ "" := by
  intro h
  have := congrArg String.length h
  simp [getTmpPVCNameForFinalSync, String.length_append] at this
  exact absurd this.2 (by decide)

/-- The skip of `retainPVForPVC` is never taken: a volume that is found and has a claim
reference is updated, whatever its reclaim policy and claim reference are. -/
theorem retainPVForPVC_never_skips (v : VSHandler) (pvc : PersistentVolumeClaim) (w : World)
    (pv : PersistentVolume) (hf : w.faults w.calls = false)
    (hpv : storeGet pvKind.meta w.pvs "" pvc.Spec.VolumeName = some pv)
    (hcr : pv.Spec.ClaimRef.isSome = true) :
    ∃ r w1, v.retainPVForPVC pvc w = some (r, w1) ∧
      w1.log = w.log ++ [⟨.update, "PersistentVolume", pv.ObjectMeta.Namespace, pv.ObjectMeta.Name⟩] := by
  have hne := tmpName_ne_empty pvc.ObjectMeta.Name
  have hne2 : ("" == getTmpPVCNameForFinalSync pvc.ObjectMeta.Name) = false := by
    simpa using fun h => hne h.symm
  have hget : clientGet pvKind "" pvc.Spec.VolumeName w = some (.ok pv, w.tick) :=
    clientGet_run_found hf hpv
  unfold VSHandler.retainPVForPVC
  rw [M.bind_run, hget]
  simp only [hcr, if_true]
  have hne3 : ("" != getTmpPVCNameForFinalSync pvc.ObjectMeta.Name) = true := by
    simp [bne, hne2]
  have hskip : ∀ w0 : World, ((if (pv.Spec.PersistentVolumeReclaimPolicy == PersistentVolumeReclaimRetain) = true
      then (do
        let cr ← deref (some ({} : ObjectReference))
        pure (cr.Name == getTmpPVCNameForFinalSync pvc.ObjectMeta.Name &&
          cr.Namespace == pvc.ObjectMeta.Namespace))
      else pure false) : M Bool) w0 = some (false, w0) := by
    intro w0
    split
    · simp only [M.bind_run, deref_some, M.pure_run, hne2, Bool.false_and]
    · rfl
  rw [M.bind_run, hskip]
  simp only [Bool.false_eq_true, if_false, M.bind_run, deref_some, hne3, if_true,
    VSHandler.updateResource, clientUpdate]
  split
  · exact ⟨_, _, rfl, rfl⟩
  · split
    · exact ⟨_, _, rfl, rfl⟩
    · exact ⟨_, _, rfl, rfl⟩

/-! ## Stored objects -/

theorem clientGet_ok {α : Type} {K : Kind α} {w w1 : World} {ns name : String} {o : α}
    (h : clientGet K ns name w = some (.ok o, w1)) :
    storeGet K.meta (K.objs w) ns name = some o ∧ w1 = w.tick := by
  unfold clientGet at h
  simp only at h
  split at h
  · simp at h
  · split at h
    · simp at h
    · rename_i o1 hg
      simp only [Option.some.injEq, Prod.mk.injEq, Except.ok.injEq] at h
      exact ⟨by rw [hg, h.1], h.2.symm⟩

theorem clientGet_error {α : Type} {K : Kind α} {w w1 : World} {ns name : String} {e : Err}
    (h : clientGet K ns name w = some (.error e, w1)) :
    w1 = w.tick ∧ (e = .transient ∨ (e = .notFound ∧ storeGet K.meta (K.objs w) ns name = none)) := by
  unfold clientGet at h
  simp only at h
  split at h
  · simp only [Option.some.injEq, Prod.mk.injEq, Except.error.injEq] at h
    exact ⟨h.2.symm, Or.inl h.1.symm⟩
  · split at h
    · rename_i hg
      simp only [Option.some.injEq, Prod.mk.injEq, Except.error.injEq] at h
      exact ⟨h.2.symm, Or.inr ⟨h.1.symm, hg⟩⟩
    · simp at h

theorem clientUpdate_ok {α : Type} {K : Kind α} {w w1 : World} {o : α}
    (h : clientUpdate K o w = some (none, w1)) :
    (∃ o0, storeGet K.meta (K.objs w) (K.meta o).Namespace (K.meta o).Name = some o0) ∧
      w1 = K.put (w.logged ⟨.update, K.tag, (K.meta o).Namespace, (K.meta o).Name⟩)
        (storeUpdate K (K.objs w) o) := by
  unfold clientUpdate at h
  simp only at h
  split at h
  · simp at h
  · split at h
    · simp at h
    · rename_i o1 hg
      simp only [Option.some.injEq, Prod.mk.injEq, true_and] at h
      exact ⟨⟨o1, hg⟩, h.symm⟩

theorem clientDelete_ok {α : Type} {K : Kind α} {w w1 : World} {o : α}
    (h : clientDelete K o w = some (none, w1)) :
    (∃ o0, storeGet K.meta (K.objs w) (K.meta o).Namespace (K.meta o).Name = some o0) ∧
      w1 = K.put (w.logged ⟨.delete, K.tag, (K.meta o).Namespace, (K.meta o).Name⟩)
        (storeDelete K (K.objs w) (K.meta o).Namespace (K.meta o).Name (w.calls + 1)) := by
  unfold clientDelete at h
  simp only at h
  split at h
  · simp at h
  · split at h
    · simp at h
    · rename_i o1 hg
      simp only [Option.some.injEq, Prod.mk.injEq, true_and] at h
      exact ⟨⟨o1, hg⟩, h.symm⟩

theorem storeGet_storeUpdate_same {α : Type} {K : Kind α} {l : List α} {o o0 : α}
    (h : storeGet K.meta l (K.meta o).Namespace (K.meta o).Name = some o0)
    (hst : Storable (K.meta o)) :
    storeGet K.meta (storeUpdate K l o) (K.meta o).Namespace (K.meta o).Name = some o := by
  have hkeep : (metaIsDeleted (K.meta o) && (K.meta o).Finalizers.isEmpty) = false := by
    cases hd : metaIsDeleted (K.meta o) with
    | false => rfl
    | true =>
      have := hst hd
      simp [List.isEmpty_iff, this]
  have hoo : hasKey (K.meta o) (K.meta o).Namespace (K.meta o).Name = true := by simp [hasKey]
  unfold storeGet storeUpdate at *
  induction l with
  | nil => simp at h
  | cons x xs ih =>
    rw [List.filterMap_cons]
    by_cases hx : hasKey (K.meta x) (K.meta o).Namespace (K.meta o).Name = true
    · simp [hx, hkeep, hoo]
    · simp only [hx, Bool.false_eq_true, if_false]
      rw [List.find?_cons] at h ⊢
      simp only [hx] at h ⊢
      exact ih h

theorem find?_filterMap_keep {α : Type} (p : α → Bool) (f : α → Option α)
    (hnone : ∀ x, f x = none → p x = false)
    (hsome : ∀ x y, f x = some y → p y = p x ∧ (p x = true → y = x)) (l : List α) :
    (l.filterMap f).find? p = l.find? p := by
  induction l with
  | nil => rfl
  | cons x xs ih =>
    rw [List.filterMap_cons]
    cases hfx : f x with
    | none =>
      simp only [List.find?_cons, hnone x hfx]
      exact ih
    | some y =>
      obtain ⟨h1, h2⟩ := hsome x y hfx
      simp only [List.find?_cons, h1]
      cases hp : p x with
      | false => exact ih
      | true => simp [h2 hp]

theorem hasKey_other {m : ObjectMeta} {ns name ns1 name1 : String}
    (h : hasKey m ns name = true) (hne : ¬ (ns = ns1 ∧ name = name1)) :
    hasKey m ns1 name1 = false := by
  rw [hasKey_iff] at h
  cases hh : hasKey m ns1 name1 with
  | false => rfl
  | true =>
    rw [hasKey_iff] at hh
    exact absurd ⟨h.1.symm.trans hh.1, h.2.symm.trans hh.2⟩ hne

theorem storeGet_storeUpdate_other {α : Type} {K : Kind α} {l : List α} {o : α} {ns name : String}
    (hne : hasKey (K.meta o) ns name = false) :
    storeGet K.meta (storeUpdate K l o) ns name = storeGet K.meta l ns name := by
  have hk : ¬ ((K.meta o).Namespace = ns ∧ (K.meta o).Name = name) := by
    rw [← hasKey_iff, hne]; simp
  unfold storeGet storeUpdate
  apply find?_filterMap_keep
  · intro x hx
    by_cases hxk : hasKey (K.meta x) (K.meta o).Namespace (K.meta o).Name = true
    · exact hasKey_other hxk hk
    · simp [hxk] at hx
  · intro x y hx
    by_cases hxk : hasKey (K.meta x) (K.meta o).Namespace (K.meta o).Name = true
    · rw [if_pos hxk] at hx
      split at hx
      · cases hx
      · simp only [Option.some.injEq] at hx
        subst hx
        rw [hne, hasKey_other hxk hk]
        simp
    · rw [if_neg hxk] at hx
      simp only [Option.some.injEq] at hx
      subst hx
      simp

theorem storeGet_storeDelete_other {α : Type} {K : Kind α} (hK : K.Lawful) {l : List α}
    {ns name ns1 name1 : String} {now : Nat} (hne : ¬ (ns = ns1 ∧ name = name1)) :
    storeGet K.meta (storeDelete K l ns name now) ns1 name1 = storeGet K.meta l ns1 name1 := by
  unfold storeGet storeDelete
  apply find?_filterMap_keep
  · intro x hx
    by_cases hxk : hasKey (K.meta x) ns name = true
    · exact hasKey_other hxk hne
    · simp [hxk] at hx
  · intro x y hx
    by_cases hxk : hasKey (K.meta x) ns name = true
    · rw [if_pos hxk] at hx
      split at hx
      · cases hx
      · simp only [Option.some.injEq] at hx
        subst hx
        have h1 := hasKey_other hxk hne
        rw [hK, h1]
        constructor
        · simpa [hasKey, markDeleted_name, markDeleted_namespace] using h1
        · simp
    · rw [if_neg hxk] at hx
      simp only [Option.some.injEq] at hx
      subst hx
      simp

theorem tmpName_ne (n : String) : getTmpPVCNameForFinalSync n ≠ n := by
  intro h
  have := congrArg String.length h
  simp [getTmpPVCNameForFinalSync, String.length_append] at this
  exact absurd this (by decide)

/-! ## Retaining the volume -/

/-- What `retainPVForPVC` does to a volume it finds with a claim reference: one update
that writes the retention mark, the Retain policy and a claim reference holding only
the name and namespace of the temporary claim. -/
theorem retainPVForPVC_eq (v : VSHandler) (pvc : PersistentVolumeClaim) (w : World)
    (pv : PersistentVolume) (hf : w.faults w.calls = false)
    (hpv : storeGet pvKind.meta w.pvs "" pvc.Spec.VolumeName = some pv)
    (hcr : pv.Spec.ClaimRef.isSome = true) :
    v.retainPVForPVC pvc w = clientUpdate pvKind
      { ObjectMeta := { pv.ObjectMeta with
          Annotations := some (mapSet (pv.ObjectMeta.Annotations.getD [])
            PVAnnotationRetentionKey PVAnnotationRetentionValue) },
        Spec := { ClaimRef := some { Name := getTmpPVCNameForFinalSync pvc.ObjectMeta.Name,
                                     Namespace := pvc.ObjectMeta.Namespace },
                  PersistentVolumeReclaimPolicy := PersistentVolumeReclaimRetain } } w.tick := by
  have hne := tmpName_ne_empty pvc.ObjectMeta.Name
  have hne2 : ("" == getTmpPVCNameForFinalSync pvc.ObjectMeta.Name) = false := by
    simpa using fun h => hne h.symm
  have hne3 : ("" != getTmpPVCNameForFinalSync pvc.ObjectMeta.Name) = true := by
    simp [bne, hne2]
  have hget : clientGet pvKind "" pvc.Spec.VolumeName w = some (.ok pv, w.tick) :=
    clientGet_run_found hf hpv
  unfold VSHandler.retainPVForPVC
  rw [M.bind_run, hget]
  simp only [hcr, if_true]
  have hskip : ∀ w0 : World, ((if (pv.Spec.PersistentVolumeReclaimPolicy == PersistentVolumeReclaimRetain) = true
      then (do
        let cr ← deref (some ({} : ObjectReference))
        pure (cr.Name == getTmpPVCNameForFinalSync pvc.ObjectMeta.Name &&
          cr.Namespace == pvc.ObjectMeta.Namespace))
      else pure false) : M Bool) w0 = some (false, w0) := by
    intro w0
    split
    · simp only [M.bind_run, deref_some, M.pure_run, hne2, Bool.false_and]
    · rfl
  rw [M.bind_run, hskip]
  simp only [Bool.false_eq_true, if_false, M.bind_run, deref_some, hne3, if_true,
    VSHandler.updateResource]
  rfl

theorem retainPVForPVC_fault (v : VSHandler) (pvc : PersistentVolumeClaim) (w : World)
    (hf : w.faults w.calls = true) :
    v.retainPVForPVC pvc w = some (some .transient, w.tick) := by
  unfold VSHandler.retainPVForPVC
  simp [M.bind_run, clientGet, hf, World.tick]

/-! ## Undoing the final sync -/

theorem getPVC_ok {v : VSHandler} {key : NamespacedName} {w w1 : World}
    {r : Option PersistentVolumeClaim} (h : v.getPVC key w = some ((r, none), w1)) :
    ∃ pvc, r = some pvc ∧ storeGet pvcKind.meta w.pvcs key.Namespace key.Name = some pvc ∧
      w1 = w.tick := by
  unfold VSHandler.getPVC at h
  rw [M.bind_eq_some] at h
  obtain ⟨a, w2, hg, h⟩ := h
  cases a with
  | error e => simp at h
  | ok pvc =>
    simp only [M.pure_run, Option.some.injEq, Prod.mk.injEq, and_true] at h
    obtain ⟨h1, h2⟩ := clientGet_ok hg
    exact ⟨pvc, h.1.symm, h1, h.2 ▸ h2⟩

theorem getPVC_err {v : VSHandler} {key : NamespacedName} {w w1 : World}
    {r : Option PersistentVolumeClaim} {e : Err} (h : v.getPVC key w = some ((r, some e), w1)) :
    r = none ∧ w1 = w.tick ∧
      (e = .transient ∨ (e = .notFound ∧
        storeGet pvcKind.meta w.pvcs key.Namespace key.Name = none)) := by
  unfold VSHandler.getPVC at h
  rw [M.bind_eq_some] at h
  obtain ⟨a, w2, hg, h⟩ := h
  cases a with
  | ok pvc => simp at h
  | error e1 =>
    simp only [M.pure_run, Option.some.injEq, Prod.mk.injEq] at h
    obtain ⟨h1, h2⟩ := clientGet_error hg
    obtain ⟨⟨hr, he⟩, hw⟩ := h
    subst he
    exact ⟨hr.symm, hw ▸ h1, h2⟩

@[simp] theorem updateClaimRef_meta (pv : PersistentVolume) (name ns : String) :
    (updateClaimRef pv name ns).ObjectMeta = pv.ObjectMeta := by
  unfold updateClaimRef
  split <;> rfl

@[simp] theorem updateClaimRef_policy (pv : PersistentVolume) (name ns : String) :
    (updateClaimRef pv name ns).Spec.PersistentVolumeReclaimPolicy =
      pv.Spec.PersistentVolumeReclaimPolicy := by
  unfold updateClaimRef
  split <;> rfl

/-- What a successful `undoAfterFinalSync` did: the temporary claim, if there was one,
got a delete; the volume of the application's claim got one update that points it back
to that claim with policy Delete and without the retention mark; and the application's
claim lost the protection finalizer, if it had it. -/
theorem undoAfterFinalSync_ok (v : VSHandler) (p ns : String) (wa wb : World)
    (h : v.undoAfterFinalSync p ns wa = some (none, wb)) :
    ∃ w1 pvc pv0 w2,
      ((storeGet pvcKind.meta wa.pvcs ns (getTmpPVCNameForFinalSync p) = none ∧ w1 = wa.tick) ∨
       (∃ t, storeGet pvcKind.meta wa.pvcs ns (getTmpPVCNameForFinalSync p) = some t ∧
          w1 = pvcKind.put (wa.tick.logged ⟨.delete, pvcKind.tag, t.ObjectMeta.Namespace, t.ObjectMeta.Name⟩)
            (storeDelete pvcKind wa.pvcs t.ObjectMeta.Namespace t.ObjectMeta.Name (wa.calls + 1 + 1)))) ∧
      storeGet pvcKind.meta w1.pvcs ns p = some pvc ∧
      storeGet pvKind.meta w1.pvs "" pvc.Spec.VolumeName = some pv0 ∧
      w2 = pvKind.put (w1.tick.tick.logged
            ⟨.update, pvKind.tag, pv0.ObjectMeta.Namespace, pv0.ObjectMeta.Name⟩)
          (storeUpdate pvKind w1.pvs
            { ObjectMeta := { pv0.ObjectMeta with
                Annotations := mapDeleteOpt pv0.ObjectMeta.Annotations PVAnnotationRetentionKey },
              Spec :=
                { ClaimRef :=
                    (updateClaimRef pv0 pvc.ObjectMeta.Name pvc.ObjectMeta.Namespace).Spec.ClaimRef,
                  PersistentVolumeReclaimPolicy := PersistentVolumeReclaimDelete } }) ∧
      ((pvc.ObjectMeta.Finalizers.contains PVCFinalizerProtected = false ∧ wb = w2) ∨
       (pvc.ObjectMeta.Finalizers.contains PVCFinalizerProtected = true ∧
         wb = pvcKind.put (w2.logged ⟨.update, pvcKind.tag, pvc.ObjectMeta.Namespace, pvc.ObjectMeta.Name⟩)
          (storeUpdate pvcKind w2.pvcs
            { pvc with ObjectMeta := { pvc.ObjectMeta with
                Finalizers := removeFinalizer pvc.ObjectMeta.Finalizers PVCFinalizerProtected } }))) := by
  unfold VSHandler.undoAfterFinalSync at h
  rw [M.bind_eq_some] at h
  obtain ⟨⟨tmpPVC, err⟩, w0, hget, h⟩ := h
  dsimp only at h
  rw [M.bind_eq_some] at h
  obtain ⟨early, w1, hearly, h⟩ := h
  cases early with
  | some e => simp at h
  | none =>
    dsimp only at h
    rw [M.bind_eq_some] at h
    obtain ⟨⟨originalPVC, err1⟩, w1a, hget1, h⟩ := h
    dsimp only at h
    cases err1 with
    | some e => simp at h
    | none =>
      dsimp only at h
      obtain ⟨pvc, hpvc, hpvcget, hw1a⟩ := getPVC_ok hget1
      subst hpvc
      rw [M.bind_eq_some] at h
      obtain ⟨pvc1, w1b, hd, h⟩ := h
      simp only [deref_some, Option.some.injEq, Prod.mk.injEq] at hd
      obtain ⟨hd1, hd2⟩ := hd
      subst hd1 hd2
      rw [M.bind_eq_some] at h
      obtain ⟨rpv, w1c, hgpv, h⟩ := h
      cases rpv with
      | error e => simp at h
      | ok pv0 =>
        dsimp only at h
        obtain ⟨hpv0, hw1c⟩ := clientGet_ok hgpv
        rw [M.bind_eq_some] at h
        obtain ⟨ru, w2, hupd, h⟩ := h
        cases ru with
        | some e => simp at h
        | none =>
          dsimp only at h
          unfold VSHandler.updateResource at hupd
          obtain ⟨_, hw2⟩ := clientUpdate_ok hupd
          refine ⟨w1, pvc, pv0, w2, ?_, hpvcget, ?_, ?_, ?_⟩
          · -- the temporary claim
            cases err with
            | none =>
              obtain ⟨t, ht, htget, hw0⟩ := getPVC_ok hget
              subst ht
              dsimp only at hearly
              rw [M.bind_eq_some] at hearly
              obtain ⟨t1, w0a, hd, hdel⟩ := hearly
              simp only [deref_some, Option.some.injEq, Prod.mk.injEq] at hd
              obtain ⟨hd1, hd2⟩ := hd
              subst hd1 hd2
              obtain ⟨_, hw1⟩ := clientDelete_ok hdel
              right
              refine ⟨t, htget, ?_⟩
              rw [hw1, hw0]
              rfl
            | some e =>
              obtain ⟨hr, hw0, he⟩ := getPVC_err hget
              subst hr
              dsimp only at hearly
              split at hearly
              · simp only [M.pure_run, Option.some.injEq, Prod.mk.injEq, true_and] at hearly
                left
                rcases he with he | ⟨_, hnone⟩
                · subst he
                  rename_i hnf
                  simp [Err.IsNotFound] at hnf
                · exact ⟨hnone, by rw [← hearly, hw0]⟩
              · simp at hearly
          · rw [hw1a] at hpv0
            exact hpv0
          · rw [hw2, hw1c, hw1a]
            simp only [updateClaimRef_meta]
            rfl
          · unfold util.ResourceUpdater.Update util.ResourceUpdater.RemoveFinalizer
              util.NewResourceUpdater at h
            dsimp only at h
            cases hc : pvc.ObjectMeta.Finalizers.contains PVCFinalizerProtected with
            | false =>
              left
              have hc1 : (pvcKind.meta pvc).Finalizers.contains PVCFinalizerProtected = false := hc
              simp only [hc1, Bool.false_eq_true, if_false, M.pure_run2, Option.some.injEq,
                Prod.mk.injEq, true_and] at h
              exact ⟨rfl, h.symm⟩
            | true =>
              right
              have hc1 : (pvcKind.meta pvc).Finalizers.contains PVCFinalizerProtected = true := hc
              simp only [hc1, if_true] at h
              obtain ⟨_, hwb⟩ := clientUpdate_ok h
              exact ⟨rfl, hwb⟩

theorem mapLookup_mapDeleteOpt (m : Option StrMap) (k : String) :
    mapLookup (mapDeleteOpt m k) k = none := by
  cases m with
  | none => rfl
  | some l =>
    simp only [mapDeleteOpt, Option.map_some', mapLookup, mapDelete]
    induction l with
    | nil => rfl
    | cons p ps ih =>
      by_cases hp : p.1 = k
      · have hb : (p.1 != k) = false := by simp [hp]
        rw [List.filter_cons, hb]
        exact ih
      · have hb : (p.1 != k) = true := by simp [hp]
        have hk : (k == p.1) = false := by simpa using fun h => hp h.symm
        rw [List.filter_cons, hb]
        obtain ⟨p1, p2⟩ := p
        simp only [if_true, List.lookup_cons, hk]
        exact ih

theorem storeGet_storeUpdate_key {α : Type} {K : Kind α} {l : List α} {o o0 : α} {ns name : String}
    (hk : hasKey (K.meta o) ns name = true) (h : storeGet K.meta l ns name = some o0)
    (hst : Storable (K.meta o)) :
    storeGet K.meta (storeUpdate K l o) ns name = some o := by
  rw [hasKey_iff] at hk
  rw [← hk.1, ← hk.2] at h ⊢
  exact storeGet_storeUpdate_same h hst

/-! ## Ownership of the claim -/

theorem addFinalizer_contains (fs : List String) (f : String) :
    (addFinalizer fs f).contains f = true := by
  unfold addFinalizer
  split
  · assumption
  · simp

theorem updater_AddFinalizer {α : Type} {K : Kind α} (hK : K.Lawful) (u : util.ResourceUpdater α)
    (f : String) :
    (util.ResourceUpdater.AddFinalizer K u f).err = u.err ∧
    (K.meta (util.ResourceUpdater.AddFinalizer K u f).obj).Namespace = (K.meta u.obj).Namespace ∧
    (K.meta (util.ResourceUpdater.AddFinalizer K u f).obj).Name = (K.meta u.obj).Name ∧
    (K.meta (util.ResourceUpdater.AddFinalizer K u f).obj).Finalizers.contains f = true ∧
    ((util.ResourceUpdater.AddFinalizer K u f).objModified = false →
      (util.ResourceUpdater.AddFinalizer K u f).obj = u.obj ∧ u.objModified = false) := by
  unfold util.ResourceUpdater.AddFinalizer
  dsimp only
  split
  · rename_i h
    exact ⟨rfl, rfl, rfl, h, fun hm => ⟨rfl, hm⟩⟩
  · have hK1 : ∀ o m, K.meta (K.setMeta o m) = m := hK
    exact ⟨rfl, by rw [hK1], by rw [hK1], by rw [hK1]; exact addFinalizer_contains _ _,
      fun hm => by simp at hm⟩

theorem updater_DeleteAnnotation {α : Type} {K : Kind α} (hK : K.Lawful)
    (u : util.ResourceUpdater α) (k : String) :
    (util.ResourceUpdater.DeleteAnnotation K u k).err = u.err ∧
    (K.meta (util.ResourceUpdater.DeleteAnnotation K u k).obj).Namespace = (K.meta u.obj).Namespace ∧
    (K.meta (util.ResourceUpdater.DeleteAnnotation K u k).obj).Name = (K.meta u.obj).Name ∧
    (K.meta (util.ResourceUpdater.DeleteAnnotation K u k).obj).Finalizers = (K.meta u.obj).Finalizers ∧
    mapLookup (K.meta (util.ResourceUpdater.DeleteAnnotation K u k).obj).Annotations k = none ∧
    ((util.ResourceUpdater.DeleteAnnotation K u k).objModified = false →
      (util.ResourceUpdater.DeleteAnnotation K u k).obj = u.obj ∧ u.objModified = false) := by
  unfold util.ResourceUpdater.DeleteAnnotation
  dsimp only
  split
  · have hK1 : ∀ o m, K.meta (K.setMeta o m) = m := hK
    exact ⟨rfl, by rw [hK1], by rw [hK1], by rw [hK1],
      by rw [hK1]; exact mapLookup_mapDeleteOpt _ _, fun hm => by simp at hm⟩
  · rename_i h
    exact ⟨rfl, rfl, rfl, rfl, by simpa using h, fun hm => ⟨rfl, hm⟩⟩

theorem updater_RemoveOwner {α : Type} {K : Kind α} (hK : K.Lawful)
    (u : util.ResourceUpdater α) (owner : Owner) :
    (util.ResourceUpdater.RemoveOwner K u owner).err = u.err ∧
    (K.meta (util.ResourceUpdater.RemoveOwner K u owner).obj).Namespace = (K.meta u.obj).Namespace ∧
    (K.meta (util.ResourceUpdater.RemoveOwner K u owner).obj).Name = (K.meta u.obj).Name ∧
    (K.meta (util.ResourceUpdater.RemoveOwner K u owner).obj).Finalizers = (K.meta u.obj).Finalizers ∧
    (K.meta (util.ResourceUpdater.RemoveOwner K u owner).obj).Annotations = (K.meta u.obj).Annotations ∧
    (∀ r ∈ (K.meta (util.ResourceUpdater.RemoveOwner K u owner).obj).OwnerReferences,
      util.refersToOwner owner r = false) ∧
    ((util.ResourceUpdater.RemoveOwner K u owner).objModified = false →
      (util.ResourceUpdater.RemoveOwner K u owner).obj = u.obj ∧ u.objModified = false) := by
  unfold util.ResourceUpdater.RemoveOwner
  dsimp only
  split
  · have hK1 : ∀ o m, K.meta (K.setMeta o m) = m := hK
    refine ⟨rfl, by rw [hK1], by rw [hK1], by rw [hK1], by rw [hK1], ?_, fun hm => by simp at hm⟩
    intro r hr
    rw [hK1] at hr
    simpa using (List.mem_filter.mp hr).2
  · rename_i h
    refine ⟨rfl, rfl, rfl, rfl, rfl, ?_, fun hm => ⟨rfl, hm⟩⟩
    intro r hr
    have h1 : (K.meta u.obj).OwnerReferences.any (util.refersToOwner owner) = false := by
      simpa using h
    rw [List.any_eq_false] at h1
    simpa using h1 r hr

theorem lookup_mapSet (l : StrMap) (k v : String) : (mapSet l k v).lookup k = some v := by
  induction l with
  | nil => simp [mapSet, List.lookup]
  | cons p ps ih =>
    obtain ⟨k0, v0⟩ := p
    unfold mapSet
    split
    · simp [List.lookup]
    · rename_i hne
      have hk : (k == k0) = false := by simpa using fun h => hne h.symm
      simp only [List.lookup_cons, hk]
      exact ih

theorem metaAddAnnotation_lookup (m : ObjectMeta) (k v : String) :
    mapLookup (util.metaAddAnnotation m k v).1.Annotations k = some v := by
  unfold util.metaAddAnnotation
  split
  · assumption
  · simp only [mapLookup]
    exact lookup_mapSet _ _ _

theorem metaAddAnnotation_key (m : ObjectMeta) (k v : String) :
    (util.metaAddAnnotation m k v).1.Namespace = m.Namespace ∧
    (util.metaAddAnnotation m k v).1.Name = m.Name := by
  unfold util.metaAddAnnotation
  split <;> exact ⟨rfl, rfl⟩

theorem mem_upsertOwnerRef (ref : OwnerReference) (l : List OwnerReference) :
    ref ∈ upsertOwnerRef ref l := by
  induction l with
  | nil => simp [upsertOwnerRef]
  | cons r rs ih =>
    unfold upsertOwnerRef
    split
    · simp
    · simp [ih]

/-- What a successful `util.AddOwnerReference` leaves on the metadata. -/
theorem metaAddOwnerReference_ok {m m1 : ObjectMeta} {owner : Owner} {b : Bool}
    (h : util.metaAddOwnerReference m owner = (m1, b, none)) :
    m1.Namespace = m.Namespace ∧ m1.Name = m.Name ∧ m1.Annotations = m.Annotations ∧
    ({ APIVersion := owner.APIVersion, Kind := owner.Kind, Name := owner.ObjectMeta.Name,
       UID := owner.ObjectMeta.UID } : OwnerReference) ∈ m1.OwnerReferences := by
  unfold util.metaAddOwnerReference SetOwnerReferenceMeta at h
  split at h
  · simp at h
  · rename_i m2 heq
    split at heq
    · simp at heq
    · simp only [Prod.mk.injEq, and_true] at heq h
      obtain ⟨h1, _⟩ := h
      subst h1
      subst heq
      exact ⟨rfl, rfl, rfl, mem_upsertOwnerRef _ _⟩

theorem mem_storeUpdate_key {α : Type} {K : Kind α} {l : List α} {o x : α}
    (hx : x ∈ storeUpdate K l o) (hk : hasKey (K.meta x) (K.meta o).Namespace (K.meta o).Name = true) :
    x = o := by
  unfold storeUpdate at hx
  rw [List.mem_filterMap] at hx
  obtain ⟨y, _, hy⟩ := hx
  split at hy
  · split at hy
    · cases hy
    · simp only [Option.some.injEq] at hy
      exact hy.symm
  · rename_i hne
    simp only [Option.some.injEq] at hy
    subst hy
    exact absurd hk hne

theorem storeGet_mem {α : Type} {meta : α → ObjectMeta} {l : List α} {ns name : String} {o : α}
    (h : storeGet meta l ns name = some o) : o ∈ l := by
  unfold storeGet at h
  exact List.mem_of_find?_eq_some h

/-- What a successful `TakePVCOwnership` wrote: the claim under the key, carrying the
do-not-delete annotation and, outside the admin namespace, the owner reference. -/
theorem TakePVCOwnership_ok (v : VSHandler) (key : NamespacedName) (w wa : World) (b : Bool)
    (h : v.TakePVCOwnership key w = some ((b, none), wa)) :
    ∃ (taken : PersistentVolumeClaim) (w1 : World), wa = pvcKind.put
        (w1.logged ⟨.update, pvcKind.tag, taken.ObjectMeta.Namespace, taken.ObjectMeta.Name⟩)
        (storeUpdate pvcKind w1.pvcs taken) ∧
      hasKey taken.ObjectMeta key.Namespace key.Name = true ∧
      mapLookup taken.ObjectMeta.Annotations ACMAppSubDoNotDeleteAnnotation =
        some ACMAppSubDoNotDeleteAnnotationVal ∧
      (v.vrgInAdminNamespace = false →
        ({ APIVersion := v.owner.APIVersion, Kind := v.owner.Kind, Name := v.owner.ObjectMeta.Name,
           UID := v.owner.ObjectMeta.UID } : OwnerReference) ∈ taken.ObjectMeta.OwnerReferences) := by
  unfold VSHandler.TakePVCOwnership at h
  rw [M.bind_eq_some] at h
  obtain ⟨⟨pvc, err⟩, w1, hval, h⟩ := h
  cases err with
  | some e => simp at h
  | none =>
    dsimp only at h
    rw [M.bind_eq_some] at h
    obtain ⟨taken, w1a, hd, h⟩ := h
    cases pvc with
    | none => simp at hd
    | some pvc =>
      simp only [deref_some, Option.some.injEq, Prod.mk.injEq] at hd
      obtain ⟨hd1, hd2⟩ := hd
      subst hd1 hd2
      rw [M.bind_eq_some] at h
      obtain ⟨r, w2, hupd, h⟩ := h
      cases r with
      | some e => simp at h
      | none =>
        simp only [M.pure_run, Option.some.injEq, Prod.mk.injEq] at h
        obtain ⟨_, hw2⟩ := h
        subst hw2
        obtain ⟨_, hwa⟩ := clientUpdate_ok hupd
        refine ⟨pvc, w1, hwa, ?_⟩
        -- what the validation handed over
        unfold VSHandler.validatePVCAndAddVRGOwnerRef at hval
        rw [M.bind_eq_some] at hval
        obtain ⟨⟨pvc0, err0⟩, w0, hget, hval⟩ := hval
        cases err0 with
        | some e => simp at hval
        | none =>
          obtain ⟨p0, hp0, hstored, _⟩ := getPVC_ok hget
          subst hp0
          have hk0 := storeGet_hasKey hstored
          rw [hasKey_iff] at hk0
          dsimp only at hval
          rw [M.bind_eq_some] at hval
          obtain ⟨p1, w0a, hd, hval⟩ := hval
          simp only [deref_some, Option.some.injEq, Prod.mk.injEq] at hd
          obtain ⟨hd1, hd2⟩ := hd
          subst hd1 hd2
          rw [M.bind_eq_some] at hval
          obtain ⟨⟨p2, err1⟩, w0b, hadd, hval⟩ := hval
          cases err1 with
          | some e => simp at hval
          | none =>
            simp only [M.pure_run, Option.some.injEq, Prod.mk.injEq, and_true] at hval
            obtain ⟨hp2, _⟩ := hval
            subst hp2
            -- the object after annotation and owner reference
            have hA := metaAddAnnotation_lookup p0.ObjectMeta ACMAppSubDoNotDeleteAnnotation
              ACMAppSubDoNotDeleteAnnotationVal
            have hAk := metaAddAnnotation_key p0.ObjectMeta ACMAppSubDoNotDeleteAnnotation
              ACMAppSubDoNotDeleteAnnotationVal
            unfold VSHandler.addAnnotationAndVRGOwnerRefAndUpdate at hadd
            dsimp only at hadd
            cases hadm : v.vrgInAdminNamespace with
            | true =>
              simp only [hadm, Bool.not_true, Bool.false_eq_true, if_false, Bool.or_false] at hadd
              have hp : p2 = pvcKind.setMeta p0 (util.metaAddAnnotation (pvcKind.meta p0)
                  ACMAppSubDoNotDeleteAnnotation ACMAppSubDoNotDeleteAnnotationVal).1 := by
                split at hadd
                · rw [M.bind_eq_some] at hadd
                  obtain ⟨r, _, _, hadd⟩ := hadd
                  cases r <;> (simp at hadd; try exact hadd.1.symm)
                · simp at hadd; exact hadd.1.symm
              subst hp
              refine ⟨?_, hA, fun hc => by simp at hc⟩
              rw [hasKey_iff]
              exact ⟨hAk.1.trans hk0.1, hAk.2.trans hk0.2⟩
            | false =>
              simp only [hadm, Bool.not_false, if_true] at hadd
              generalize hown : util.metaAddOwnerReference
                (pvcKind.meta (pvcKind.setMeta p0 (util.metaAddAnnotation (pvcKind.meta p0)
                  ACMAppSubDoNotDeleteAnnotation ACMAppSubDoNotDeleteAnnotationVal).1)) v.owner = res at hadd
              obtain ⟨m2, upd, oerr⟩ := res
              dsimp only at hadd
              cases oerr with
              | some e => simp at hadd
              | none =>
                dsimp only at hadd
                obtain ⟨o1, o2, o3, o4⟩ := metaAddOwnerReference_ok hown
                have hp : p2 = pvcKind.setMeta (pvcKind.setMeta p0 (util.metaAddAnnotation
                    (pvcKind.meta p0) ACMAppSubDoNotDeleteAnnotation
                    ACMAppSubDoNotDeleteAnnotationVal).1) m2 := by
                  split at hadd
                  · rw [M.bind_eq_some] at hadd
                    obtain ⟨r, _, _, hadd⟩ := hadd
                    cases r <;> (simp at hadd; try exact hadd.1.symm)
                  · simp at hadd; exact hadd.1.symm
                subst hp
                refine ⟨?_, ?_, fun _ => o4⟩
                · rw [hasKey_iff]
                  exact ⟨(o1.trans hAk.1).trans hk0.1, (o2.trans hAk.2).trans hk0.2⟩
                · show mapLookup m2.Annotations _ = _
                  rw [o3]
                  exact hA

/-! ## Looking up the source -/

theorem getRS_ok {v : VSHandler} {name ns : String} {w w1 : World}
    {r : Option ReplicationSource} (h : v.getRS name ns w = some ((r, none), w1)) :
    ∃ rs, r = some rs ∧ storeGet rsKind.meta w.rss ns name = some rs ∧ w1 = w.tick := by
  unfold VSHandler.getRS at h
  rw [M.bind_eq_some] at h
  obtain ⟨a, w2, hg, h⟩ := h
  cases a with
  | error e => simp at h
  | ok rs =>
    simp only [M.pure_run, Option.some.injEq, Prod.mk.injEq, and_true] at h
    obtain ⟨h1, h2⟩ := clientGet_ok hg
    exact ⟨rs, h.1.symm, h1, h.2 ▸ h2⟩

theorem getRS_err {v : VSHandler} {name ns : String} {w w1 : World}
    {r : Option ReplicationSource} {e : Err} (h : v.getRS name ns w = some ((r, some e), w1)) :
    r = none ∧ w1 = w.tick ∧
      (e = .transient ∨ (e = .notFound ∧ storeGet rsKind.meta w.rss ns name = none)) := by
  unfold VSHandler.getRS at h
  rw [M.bind_eq_some] at h
  obtain ⟨a, w2, hg, h⟩ := h
  cases a with
  | ok rs => simp at h
  | error e1 =>
    simp only [M.pure_run, Option.some.injEq, Prod.mk.injEq] at h
    obtain ⟨h1, h2⟩ := clientGet_error hg
    obtain ⟨⟨hr, he⟩, hw⟩ := h
    subst he
    exact ⟨hr.symm, hw ▸ h1, h2⟩

/-! ## Deleting by key -/

theorem Agree.pvcs {S : Mods} {w w1 : World} (h : Agree S w w1) (hS : S.pvcs = false) :
    w1.pvcs = w.pvcs := by
  have := congrArg World.pvcs h
  simpa [World.erase, hS] using this

theorem Agree.pvs {S : Mods} {w w1 : World} (h : Agree S w w1) (hS : S.pvs = false) :
    w1.pvs = w.pvs := by
  have := congrArg World.pvs h
  simpa [World.erase, hS] using this

theorem Agree.snapshots {S : Mods} {w w1 : World} (h : Agree S w w1) (hS : S.snapshots = false) :
    w1.snapshots = w.snapshots := by
  have := congrArg World.snapshots h
  simpa [World.erase, hS] using this

theorem Agree.workloadStatus {S : Mods} {w w1 : World} (h : Agree S w w1)
    (hS : S.workloadStatus = false) : w1.workloadStatus = w.workloadStatus := by
  have := congrArg World.workloadStatus h
  simpa [World.erase, hS] using this

theorem clientDelete_err {α : Type} {K : Kind α} {w w1 : World} {o : α} {e : Err}
    (h : clientDelete K o w = some (some e, w1)) :
    w1 = w.logged ⟨.delete, K.tag, (K.meta o).Namespace, (K.meta o).Name⟩ ∧
    (e = .transient ∨ (e = .notFound ∧
      storeGet K.meta (K.objs w) (K.meta o).Namespace (K.meta o).Name = none)) := by
  unfold clientDelete at h
  simp only at h
  split at h
  · simp only [Option.some.injEq, Prod.mk.injEq] at h
    exact ⟨h.2.symm, Or.inl h.1.symm⟩
  · split at h
    · rename_i hg
      simp only [Option.some.injEq, Prod.mk.injEq] at h
      exact ⟨h.2.symm, Or.inr ⟨h.1.symm, hg⟩⟩
    · simp at h

/-- Nothing is stored under a key the lookup does not find. -/
theorem KeyGone_of_none {α : Type} {K : Kind α} {l : List α} {ns name : String}
    (h : storeGet K.meta l ns name = none) :
    ∀ o ∈ l, hasKey (K.meta o) ns name = true → metaIsDeleted (K.meta o) = true := by
  intro o ho hk
  rw [storeGet_none h ho] at hk
  cases hk

/-- After a delete that the server accepted, whatever is left under the key is marked
deleted. -/
theorem clientDelete_gone {α : Type} {K : Kind α} (hK : K.Lawful)
    (hput : ∀ w l, K.objs (K.put w l) = l) {w w1 : World} {o : α}
    (h : clientDelete K o w = some (none, w1)) :
    ∀ x ∈ K.objs w1, hasKey (K.meta x) (K.meta o).Namespace (K.meta o).Name = true →
      metaIsDeleted (K.meta x) = true := by
  obtain ⟨_, hw1⟩ := clientDelete_ok h
  intro x hx hk
  rw [hw1, hput] at hx
  exact storeDelete_key hK (Nat.succ_ne_zero _) hx hk

/-- A delete that reports the object as missing leaves nothing under the key. -/
theorem clientDelete_missing_gone {α : Type} {K : Kind α}
    (hlog : ∀ w c, K.objs (w.logged c) = K.objs w) {w w1 : World} {o : α}
    (h : clientDelete K o w = some (some .notFound, w1)) :
    ∀ x ∈ K.objs w1, hasKey (K.meta x) (K.meta o).Namespace (K.meta o).Name = true →
      metaIsDeleted (K.meta x) = true := by
  obtain ⟨hw1, he⟩ := clientDelete_err h
  rcases he with he | ⟨_, hnone⟩
  · cases he
  · rw [hw1, hlog]
    exact KeyGone_of_none hnone

/-- When `util.DeletePVC` returns nil, whatever is left under the key is marked deleted. -/
theorem DeletePVC_ok (name ns : String) (w w1 : World)
    (h : util.DeletePVC name ns w = some (none, w1)) :
    ∀ x ∈ w1.pvcs, hasKey x.ObjectMeta ns name = true → metaIsDeleted x.ObjectMeta = true := by
  unfold util.DeletePVC at h
  rw [M.bind_eq_some] at h
  obtain ⟨r, w0, hget, h⟩ := h
  cases r with
  | error e =>
    obtain ⟨hw0, he⟩ := clientGet_error hget
    rcases he with he | ⟨he, hnone⟩
    · subst he
      simp [Err.IsNotFound] at h
    · subst he
      simp only [Err.IsNotFound, if_true, M.pure_run, Option.some.injEq, Prod.mk.injEq,
        true_and] at h
      rw [← h, hw0]
      exact KeyGone_of_none (K := pvcKind) hnone
  | ok pvc =>
    obtain ⟨hfound, hw0⟩ := clientGet_ok hget
    have hk := storeGet_hasKey hfound
    rw [hasKey_iff] at hk
    dsimp only at h
    rw [M.bind_eq_some] at h
    obtain ⟨r2, w2, hdel, h⟩ := h
    cases r2 with
    | none =>
      simp only [M.pure_run, Option.some.injEq, Prod.mk.injEq, true_and] at h
      subst h
      have := clientDelete_gone pvcKind_lawful (fun _ _ => rfl) hdel
      intro x hx hkx
      apply this x hx
      show hasKey x.ObjectMeta pvc.ObjectMeta.Namespace pvc.ObjectMeta.Name = true
      rw [show pvc.ObjectMeta.Namespace = ns from hk.1, show pvc.ObjectMeta.Name = name from hk.2]
      exact hkx
    | some e =>
      dsimp only at h
      cases e with
      | notFound =>
        simp only [Err.IsNotFound, if_true, M.pure_run, Option.some.injEq, Prod.mk.injEq,
          true_and] at h
        subst h
        have := clientDelete_missing_gone (K := pvcKind) (fun _ _ => rfl) hdel
        intro x hx hkx
        apply this x hx
        show hasKey x.ObjectMeta pvc.ObjectMeta.Namespace pvc.ObjectMeta.Name = true
        rw [show pvc.ObjectMeta.Namespace = ns from hk.1, show pvc.ObjectMeta.Name = name from hk.2]
        exact hkx
      | transient => simp [Err.IsNotFound] at h
      | alreadyExists => simp [Err.IsNotFound] at h
      | msg s => simp [Err.IsNotFound] at h

/-- When `DeleteLocalRD` returns nil, whatever is left under the key is marked deleted. -/
theorem DeleteLocalRD_ok (v : VSHandler) (name ns : String) (w w1 : World)
    (h : v.DeleteLocalRD name ns w = some (none, w1)) :
    ∀ x ∈ w1.rds, hasKey x.ObjectMeta ns name = true → metaIsDeleted x.ObjectMeta = true := by
  unfold VSHandler.DeleteLocalRD at h
  rw [M.bind_eq_some] at h
  obtain ⟨r, w0, hget, h⟩ := h
  cases r with
  | error e =>
    obtain ⟨hw0, he⟩ := clientGet_error hget
    rcases he with he | ⟨he, hnone⟩
    · subst he
      simp [Err.IsNotFound] at h
    · subst he
      simp only [Err.IsNotFound, if_true, M.pure_run, Option.some.injEq, Prod.mk.injEq,
        true_and] at h
      rw [← h, hw0]
      exact KeyGone_of_none (K := rdKind) hnone
  | ok lrd =>
    obtain ⟨hfound, hw0⟩ := clientGet_ok hget
    have hk := storeGet_hasKey hfound
    rw [hasKey_iff] at hk
    dsimp only at h
    have := clientDelete_gone rdKind_lawful (fun _ _ => rfl) h
    intro x hx hkx
    apply this x hx
    show hasKey x.ObjectMeta lrd.ObjectMeta.Namespace lrd.ObjectMeta.Name = true
    rw [show lrd.ObjectMeta.Namespace = ns from hk.1, show lrd.ObjectMeta.Name = name from hk.2]
    exact hkx

/-- When `deleteSnapshot` returns nil, the snapshot as the client reads it afterwards is
marked deleted or carries the do-not-delete label; and a snapshot carrying the label is
left as it is. -/
theorem deleteSnapshot_ok (v : VSHandler) (name ns : String) (w w1 : World)
    (h : v.deleteSnapshot name ns w = some (none, w1)) :
    (∀ s, storeGet snapshotKind.meta w1.snapshots ns name = some s →
      metaIsDeleted s.ObjectMeta = true ∨
      util.HasLabelWithValue s.ObjectMeta VolSyncDoNotDeleteLabel VolSyncDoNotDeleteLabelVal = true) ∧
    (∀ s, storeGet snapshotKind.meta w.snapshots ns name = some s →
      util.HasLabelWithValue s.ObjectMeta VolSyncDoNotDeleteLabel VolSyncDoNotDeleteLabelVal = true →
      w1.snapshots = w.snapshots) := by
  unfold VSHandler.deleteSnapshot at h
  rw [M.bind_eq_some] at h
  obtain ⟨r, w0, hget, h⟩ := h
  cases r with
  | error e =>
    obtain ⟨hw0, he⟩ := clientGet_error hget
    rcases he with he | ⟨he, hnone⟩
    · subst he
      simp [IgnoreNotFound] at h
    · subst he
      simp only [IgnoreNotFound, M.pure_run, Option.some.injEq, Prod.mk.injEq, true_and] at h
      subst h
      subst hw0
      constructor
      · intro s hs
        have hs1 : storeGet snapshotKind.meta (snapshotKind.objs w) ns name = some s := hs
        rw [hnone] at hs1
        cases hs1
      · intro _ _ _
        rfl
  | ok snap =>
    obtain ⟨hfound, hw0⟩ := clientGet_ok hget
    have hk := storeGet_hasKey hfound
    rw [hasKey_iff] at hk
    dsimp only at h
    split at h
    · rename_i hlab
      simp only [M.pure_run, Option.some.injEq, Prod.mk.injEq, true_and] at h
      subst h
      subst hw0
      constructor
      · intro s hs
        have hs1 : storeGet snapshotKind.meta w.snapshots ns name = some s := hs
        have hfound1 : storeGet snapshotKind.meta w.snapshots ns name = some snap := hfound
        rw [hfound1] at hs1
        simp only [Option.some.injEq] at hs1
        subst hs1
        exact Or.inr hlab
      · intro _ _ _
        rfl
    · rename_i hlab
      have hfound1 : storeGet snapshotKind.meta w.snapshots ns name = some snap := hfound
      constructor
      · rw [M.bind_eq_some] at h
        obtain ⟨r2, w2, hdel, h⟩ := h
        intro s hs
        left
        have hmem := storeGet_mem hs
        have hks := storeGet_hasKey hs
        have hks1 : hasKey (snapshotKind.meta s) (snapshotKind.meta snap).Namespace
            (snapshotKind.meta snap).Name = true := by
          show hasKey s.ObjectMeta snap.ObjectMeta.Namespace snap.ObjectMeta.Name = true
          rw [show snap.ObjectMeta.Namespace = ns from hk.1,
            show snap.ObjectMeta.Name = name from hk.2]
          exact hks
        cases r2 with
        | none =>
          simp only [M.pure_run, Option.some.injEq, Prod.mk.injEq, true_and] at h
          subst h
          exact clientDelete_gone snapshotKind_lawful (fun _ _ => rfl) hdel s hmem hks1
        | some e =>
          cases e with
          | notFound =>
            simp only [Err.IsNotFound, Bool.not_true, Bool.false_eq_true, if_false, M.pure_run,
              Option.some.injEq, Prod.mk.injEq, true_and] at h
            subst h
            exact clientDelete_missing_gone (K := snapshotKind) (fun _ _ => rfl) hdel s hmem hks1
          | transient => simp [Err.IsNotFound] at h
          | alreadyExists => simp [Err.IsNotFound] at h
          | msg s => simp [Err.IsNotFound] at h
      · intro s hs hl
        rw [hfound1] at hs
        simp only [Option.some.injEq] at hs
        subst hs
        exact absurd hl hlab

/-! ## Create or update -/

theorem mem_storeUpdate {α : Type} {K : Kind α} {l : List α} {o x : α}
    (hx : x ∈ storeUpdate K l o) : x = o ∨ x ∈ l := by
  unfold storeUpdate at hx
  rw [List.mem_filterMap] at hx
  obtain ⟨y, hy, hxy⟩ := hx
  split at hxy
  · split at hxy
    · cases hxy
    · simp only [Option.some.injEq] at hxy
      exact Or.inl hxy.symm
  · simp only [Option.some.injEq] at hxy
    subst hxy
    exact Or.inr hy

theorem storeGet_append_new {α : Type} {meta : α → ObjectMeta} {l : List α} {ns name : String}
    {o : α} (hnone : storeGet meta l ns name = none) (hk : hasKey (meta o) ns name = true) :
    storeGet meta (l ++ [o]) ns name = some o := by
  unfold storeGet at *
  rw [List.find?_append, hnone]
  simp [List.find?_cons, hk]

theorem mutate_ok {α : Type} {K : Kind α} {f : α → Option (α × Option Err)} {ns name : String}
    {o o1 : α} (h : mutate K f ns name o = some (o1, none)) :
    f o = some (o1, none) ∧ hasKey (K.meta o1) ns name = true := by
  unfold mutate at h
  split at h
  · cases h
  · simp at h
  · rename_i o2 hfo
    split at h
    · rename_i hk
      simp only [Option.some.injEq, Prod.mk.injEq, and_true] at h
      subst h
      exact ⟨hfo, hk⟩
    · simp at h

theorem clientCreate_ok {α : Type} {K : Kind α} {w w1 : World} {o o2 : α}
    (h : clientCreate K o w = some ((o2, none), w1)) :
    storeGet K.meta (K.objs w) (K.meta o).Namespace (K.meta o).Name = none ∧
    o2 = asCreated K o (w.calls + 1) ∧
    w1 = K.put (w.logged ⟨.create, K.tag, (K.meta o).Namespace, (K.meta o).Name⟩)
      (K.objs w ++ [asCreated K o (w.calls + 1)]) := by
  unfold clientCreate at h
  simp only at h
  split at h
  · simp at h
  · split at h
    · simp at h
    · rename_i hg
      simp only [Option.some.injEq, Prod.mk.injEq, and_true] at h
      exact ⟨hg, h.1.symm, h.2.symm⟩

/-- What a successful `CreateOrUpdate` leaves: the object it returns is the one stored
under the key, and the store stays one the API server can hold. -/
theorem CreateOrUpdate_ok {α : Type} [DecidableEq α] {K : Kind α} (hK : K.Lawful)
    (hput : ∀ w l, K.objs (K.put w l) = l) (htick : ∀ w : World, K.objs w.tick = K.objs w)
    {obj : α} {f : α → Option (α × Option Err)} {w w1 : World} {op : OperationResult} {o1 : α}
    (h : CreateOrUpdate K obj f w = some ((op, o1, none), w1))
    (hwf : ∀ x ∈ K.objs w, Storable (K.meta x))
    (hf : ∀ o o2, f o = some (o2, none) →
      (K.meta o2).DeletionTimestamp = (K.meta o).DeletionTimestamp ∧
      (K.meta o2).Finalizers = (K.meta o).Finalizers) :
    storeGet K.meta (K.objs w1) (K.meta obj).Namespace (K.meta obj).Name = some o1 ∧
    (∀ x ∈ K.objs w1, Storable (K.meta x)) := by
  have hK1 : ∀ o m, K.meta (K.setMeta o m) = m := hK
  unfold CreateOrUpdate at h
  dsimp only at h
  rw [M.bind_eq_some] at h
  obtain ⟨r, w0, hget, h⟩ := h
  cases r with
  | error e =>
    obtain ⟨hw0, he⟩ := clientGet_error hget
    dsimp only at h
    rcases he with he | ⟨he, hnone⟩
    · subst he
      simp [Err.IsNotFound] at h
    · subst he
      simp only [Err.IsNotFound, if_true] at h
      generalize hm : mutate K f (K.meta obj).Namespace (K.meta obj).Name obj = mres at h
      rcases mres with _ | ⟨o2, _ | e⟩
      · simp at h
      · obtain ⟨_, hk⟩ := mutate_ok hm
        dsimp only at h
        rw [M.bind_eq_some] at h
        obtain ⟨⟨o3, cerr⟩, w2, hc, h⟩ := h
        dsimp only at h
        cases cerr with
        | some e => simp at h
        | none =>
          simp only [M.pure_run, Option.some.injEq, Prod.mk.injEq, and_true] at h
          obtain ⟨⟨_, ho⟩, hw⟩ := h
          subst ho hw
          obtain ⟨hnew, ho3, hw2⟩ := clientCreate_ok hc
          subst ho3
          rw [hw2, hput, hw0, htick]
          have hkc : hasKey (K.meta (asCreated K o2 (w.tick.calls + 1))) (K.meta obj).Namespace
              (K.meta obj).Name = true := by
            unfold asCreated
            rw [hK1]
            rw [hasKey_iff] at hk ⊢
            exact hk
          constructor
          · exact storeGet_append_new hnone hkc
          · intro x hx
            rw [List.mem_append] at hx
            rcases hx with hx | hx
            · exact hwf x hx
            · simp only [List.mem_singleton] at hx
              subst hx
              intro hd
              unfold asCreated at hd
              rw [hK1] at hd
              simp [metaIsDeleted] at hd
      · simp at h
  | ok existing =>
    obtain ⟨hfound, hw0⟩ := clientGet_ok hget
    dsimp only at h
    generalize hm : mutate K f (K.meta obj).Namespace (K.meta obj).Name existing = mres at h
    rcases mres with _ | ⟨o2, _ | e⟩
    · simp at h
    · obtain ⟨hfo, hk⟩ := mutate_ok hm
      dsimp only at h
      obtain ⟨hdt, hfin⟩ := hf _ _ hfo
      have hex : Storable (K.meta existing) := hwf _ (storeGet_mem hfound)
      have hst : Storable (K.meta o2) := by
        intro hd
        rw [hfin]
        apply hex
        simpa [metaIsDeleted, hdt] using hd
      split at h
      · rename_i heq
        simp only [M.pure_run, Option.some.injEq, Prod.mk.injEq, and_true] at h
        obtain ⟨⟨_, ho⟩, hw⟩ := h
        subst ho hw heq
        rw [hw0, htick]
        exact ⟨hfound, hwf⟩
      · rw [M.bind_eq_some] at h
        obtain ⟨uerr, w2, hu, h⟩ := h
        cases uerr with
        | some e => simp at h
        | none =>
          simp only [M.pure_run, Option.some.injEq, Prod.mk.injEq, and_true] at h
          obtain ⟨⟨_, ho⟩, hw⟩ := h
          subst ho hw
          obtain ⟨_, hw2⟩ := clientUpdate_ok hu
          rw [hw2, hput, hw0, htick]
          constructor
          · exact storeGet_storeUpdate_key hk hfound hst
          · intro x hx
            rcases mem_storeUpdate hx with hx | hx
            · subst hx; exact hst
            · exact hwf x hx
    · simp at h

/-! ## Pausing a destination -/

theorem getRD_ok {v : VSHandler} {name ns : String} {w w1 : World}
    {r : Option ReplicationDestination} (h : v.getRD name ns w = some ((r, none), w1)) :
    w1 = w.tick ∧
    ((r = none ∧ storeGet rdKind.meta w.rds ns name = none) ∨
     (∃ rd, r = some rd ∧ storeGet rdKind.meta w.rds ns name = some rd)) := by
  unfold VSHandler.getRD getReplicationDestinationName at h
  rw [M.bind_eq_some] at h
  obtain ⟨a, w2, hg, h⟩ := h
  cases a with
  | error e =>
    obtain ⟨hw, he⟩ := clientGet_error hg
    dsimp only at h
    rcases he with he | ⟨he, hnone⟩
    · subst he
      simp [Err.IsNotFound] at h
    · subst he
      simp only [Err.IsNotFound, Bool.not_true, Bool.false_eq_true, if_false, M.pure_run,
        Option.some.injEq, Prod.mk.injEq, and_true] at h
      exact ⟨h.2 ▸ hw, Or.inl ⟨h.1.symm, hnone⟩⟩
  | ok rd =>
    obtain ⟨hfound, hw⟩ := clientGet_ok hg
    simp only [M.pure_run, Option.some.injEq, Prod.mk.injEq, and_true] at h
    exact ⟨h.2 ▸ hw, Or.inr ⟨rd, h.1.symm, hfound⟩⟩

/-- What a `pauseRD` without error leaves: a destination found under the key is stored
paused afterwards, and the store stays one the API server can hold. -/
theorem pauseRD_ok {v : VSHandler} {name ns : String} {w w1 : World}
    {r : Option ReplicationDestination} (h : v.pauseRD name ns w = some ((r, none), w1))
    (hwf : ∀ x ∈ w.rds, Storable x.ObjectMeta) :
    (∀ x ∈ w1.rds, Storable x.ObjectMeta) ∧
    (∀ rd0, storeGet rdKind.meta w.rds ns name = some rd0 →
      ∃ rd, storeGet rdKind.meta w1.rds ns name = some rd ∧ rd.Spec.Paused = true) := by
  unfold VSHandler.pauseRD at h
  rw [M.bind_eq_some] at h
  obtain ⟨⟨rd, err⟩, w0, hget, h⟩ := h
  cases err with
  | some e => simp at h
  | none =>
    obtain ⟨hw0, hcase⟩ := getRD_ok hget
    rcases hcase with ⟨hr, hnone⟩ | ⟨rd1, hr, hfound⟩
    · subst hr
      simp only [M.pure_run, Option.some.injEq, Prod.mk.injEq, and_true] at h
      obtain ⟨_, hw⟩ := h
      subst hw hw0
      refine ⟨hwf, ?_⟩
      intro rd0 h0
      rw [hnone] at h0
      cases h0
    · subst hr
      dsimp only at h
      split at h
      · rename_i hp
        simp only [M.pure_run, Option.some.injEq, Prod.mk.injEq, and_true] at h
        obtain ⟨_, hw⟩ := h
        subst hw hw0
        exact ⟨hwf, fun _ _ => ⟨rd1, hfound, hp⟩⟩
      · rw [M.bind_eq_some] at h
        obtain ⟨uerr, w2, hu, h⟩ := h
        simp only [M.pure_run, Option.some.injEq, Prod.mk.injEq] at h
        obtain ⟨⟨_, hue⟩, hw⟩ := h
        subst hue hw
        unfold VSHandler.updateResource at hu
        obtain ⟨_, hw2⟩ := clientUpdate_ok hu
        have hk := storeGet_hasKey hfound
        have hst : Storable rd1.ObjectMeta := hwf _ (storeGet_mem hfound)
        have hrds : w2.rds = storeUpdate rdKind w.rds
            { rd1 with Spec := { rd1.Spec with Paused := true } } := by
          rw [hw2, hw0]; rfl
        rw [hrds]
        constructor
        · intro x hx
          rcases mem_storeUpdate hx with hx | hx
          · subst hx; exact hst
          · exact hwf x hx
        · intro _ _
          exact ⟨_, storeGet_storeUpdate_key (K := rdKind) hk hfound hst, rfl⟩

theorem SetControllerReferenceMeta_keeps (a k : String) (owner m : ObjectMeta) :
    (SetControllerReferenceMeta a k owner m).1.DeletionTimestamp = m.DeletionTimestamp ∧
    (SetControllerReferenceMeta a k owner m).1.Finalizers = m.Finalizers := by
  unfold SetControllerReferenceMeta
  split
  · exact ⟨rfl, rfl⟩
  · dsimp only
    split
    · split <;> exact ⟨rfl, rfl⟩
    · exact ⟨rfl, rfl⟩

theorem metaAddLabel_keeps (m : ObjectMeta) (k val : String) :
    (util.metaAddLabel m k val).1.DeletionTimestamp = m.DeletionTimestamp ∧
    (util.metaAddLabel m k val).1.Finalizers = m.Finalizers := by
  unfold util.metaAddLabel
  split <;> exact ⟨rfl, rfl⟩

theorem mutateLocalRD_keeps (v : VSHandler) (rdSpec : VolSyncReplicationDestinationSpec)
    (psk : String) (o o2 : ReplicationDestination)
    (h : v.mutateLocalRD rdSpec psk o = (o2, none)) :
    o2.ObjectMeta.DeletionTimestamp = o.ObjectMeta.DeletionTimestamp ∧
    o2.ObjectMeta.Finalizers = o.ObjectMeta.Finalizers := by
  unfold VSHandler.mutateLocalRD at h
  have hs := SetControllerReferenceMeta_keeps v.owner.APIVersion v.owner.Kind v.owner.ObjectMeta
    o.ObjectMeta
  split at h
  · simp at h
  · rename_i lrd1 heq
    simp only [Prod.mk.injEq, and_true] at h
    subst h
    have h1 : lrd1.ObjectMeta.DeletionTimestamp = o.ObjectMeta.DeletionTimestamp ∧
        lrd1.ObjectMeta.Finalizers = o.ObjectMeta.Finalizers := by
      split at heq
      · unfold SetControllerReference at heq
        simp only [Prod.mk.injEq] at heq
        rw [← heq.1]
        exact hs
      · simp only [Prod.mk.injEq, and_true] at heq
        rw [heq]
        exact ⟨rfl, rfl⟩
    dsimp only
    have a1 := metaAddLabel_keeps lrd1.ObjectMeta util.CreatedByRamenLabel "true"
    have a2 := metaAddLabel_keeps (util.metaAddLabel lrd1.ObjectMeta util.CreatedByRamenLabel "true").1
      VRGOwnerNameLabel v.owner.ObjectMeta.Name
    have a3 := metaAddLabel_keeps (util.metaAddLabel
      (util.metaAddLabel lrd1.ObjectMeta util.CreatedByRamenLabel "true").1
      VRGOwnerNameLabel v.owner.ObjectMeta.Name).1 VRGOwnerNamespaceLabel v.owner.ObjectMeta.Namespace
    have a4 := metaAddLabel_keeps (util.metaAddLabel (util.metaAddLabel
      (util.metaAddLabel lrd1.ObjectMeta util.CreatedByRamenLabel "true").1
      VRGOwnerNameLabel v.owner.ObjectMeta.Name).1 VRGOwnerNamespaceLabel
      v.owner.ObjectMeta.Namespace).1 VolSyncDoNotDeleteLabel VolSyncDoNotDeleteLabelVal
    exact ⟨a4.1.trans (a3.1.trans (a2.1.trans (a1.1.trans h1.1))),
      a4.2.trans (a3.2.trans (a2.2.trans (a1.2.trans h1.2)))⟩

theorem mutateLocalRS_keeps (v : VSHandler) (psk address pvcName : String)
    (o o2 : ReplicationSource)
    (h : v.mutateLocalRS psk address pvcName o = (o2, none)) :
    o2.ObjectMeta.DeletionTimestamp = o.ObjectMeta.DeletionTimestamp ∧
    o2.ObjectMeta.Finalizers = o.ObjectMeta.Finalizers := by
  unfold VSHandler.mutateLocalRS at h
  have hs := SetControllerReferenceMeta_keeps v.owner.APIVersion v.owner.Kind v.owner.ObjectMeta
    o.ObjectMeta
  split at h
  · simp at h
  · rename_i lrs1 heq
    simp only [Prod.mk.injEq, and_true] at h
    subst h
    have h1 : lrs1.ObjectMeta.DeletionTimestamp = o.ObjectMeta.DeletionTimestamp ∧
        lrs1.ObjectMeta.Finalizers = o.ObjectMeta.Finalizers := by
      split at heq
      · unfold SetControllerReference at heq
        simp only [Prod.mk.injEq] at heq
        rw [← heq.1]
        exact hs
      · simp only [Prod.mk.injEq, and_true] at heq
        rw [heq]
        exact ⟨rfl, rfl⟩
    dsimp only
    have a1 := metaAddLabel_keeps lrs1.ObjectMeta util.CreatedByRamenLabel "true"
    have a2 := metaAddLabel_keeps (util.metaAddLabel lrs1.ObjectMeta util.CreatedByRamenLabel "true").1
      VRGOwnerNameLabel v.owner.ObjectMeta.Name
    have a3 := metaAddLabel_keeps (util.metaAddLabel
      (util.metaAddLabel lrs1.ObjectMeta util.CreatedByRamenLabel "true").1
      VRGOwnerNameLabel v.owner.ObjectMeta.Name).1 VRGOwnerNamespaceLabel v.owner.ObjectMeta.Namespace
    exact ⟨a3.1.trans (a2.1.trans (a1.1.trans h1.1)), a3.2.trans (a2.2.trans (a1.2.trans h1.2))⟩

/-! ## The local replication -/

/-- What a successful `reconcileLocalRD` leaves: the local destination it returns is
stored under the local name. -/
theorem reconcileLocalRD_ok {v : VSHandler} {rdSpec : VolSyncReplicationDestinationSpec}
    {psk : String} {w w1 : World} {r : Option ReplicationDestination}
    (h : v.reconcileLocalRD rdSpec psk w = some ((r, none), w1))
    (hwf : ∀ x ∈ w.rds, Storable x.ObjectMeta) :
    (∀ x ∈ w1.rds, Storable x.ObjectMeta) ∧ w1.rss = w.rss ∧
    ∃ lrd, r = some lrd ∧
      storeGet rdKind.meta w1.rds rdSpec.ProtectedPVC.Namespace
        (getLocalReplicationName rdSpec.ProtectedPVC.Name) = some lrd := by
  have hrss : w1.rss = w.rss :=
    ((reconcileLocalRD_mods (S := { pvcs := true, rds := true }) v rdSpec psk rfl rfl).run
      _ _ _ h).rss rfl
  unfold VSHandler.reconcileLocalRD at h
  dsimp only at h
  rw [M.bind_eq_some] at h
  obtain ⟨e0, wa, hens, h⟩ := h
  cases e0 with
  | some e => simp at h
  | none =>
    dsimp only at h
    have hrds : wa.rds = w.rds :=
      ((EnsurePVCforDirectCopy_mods (S := { pvcs := true }) v rdSpec rfl).run _ _ _ hens).rds rfl
    rw [M.bind_eq_some] at h
    obtain ⟨⟨op, lrd1, cerr⟩, wb, hcu, h⟩ := h
    dsimp only at h
    cases cerr with
    | some e => simp at h
    | none =>
      dsimp only at h
      split at h
      · simp at h
      · simp only [M.pure_run, Option.some.injEq, Prod.mk.injEq, and_true] at h
        obtain ⟨hr, hw⟩ := h
        subst hr hw
        obtain ⟨hst, hall⟩ := CreateOrUpdate_ok rdKind_lawful (fun _ _ => rfl) (fun _ => rfl) hcu
          (by intro x hx; exact hwf x (hrds ▸ hx))
          (by
            intro o o2 ho
            simp only [Option.some.injEq] at ho
            exact mutateLocalRD_keeps v rdSpec psk o o2 ho)
        exact ⟨hall, hrss, lrd1, rfl, hst⟩

/-- What a successful `reconcileLocalRS` leaves: the local source it returns is stored
under the local name. -/
theorem reconcileLocalRS_ok {v : VSHandler} {rd : Option ReplicationDestination}
    {rdSpec : VolSyncReplicationDestinationSpec} {snapshotRef : TypedLocalObjectReference}
    {psk address : String} {w w1 : World} {r : Option ReplicationSource}
    (h : v.reconcileLocalRS rd rdSpec snapshotRef psk address w = some ((r, none), w1))
    (hwf : ∀ x ∈ w.rss, Storable x.ObjectMeta) :
    w1.rds = w.rds ∧
    ∃ lrs, r = some lrs ∧
      storeGet rsKind.meta w1.rss rdSpec.ProtectedPVC.Namespace
        (getLocalReplicationName rdSpec.ProtectedPVC.Name) = some lrs := by
  have hrds : w1.rds = w.rds :=
    ((reconcileLocalRS_mods (S := { pvcs := true, snapshots := true, rss := true }) v rd rdSpec
      snapshotRef psk address rfl rfl rfl).run _ _ _ h).rds rfl
  unfold VSHandler.reconcileLocalRS at h
  rw [M.bind_eq_some] at h
  obtain ⟨rd1, w0, hd, h⟩ := h
  cases rd with
  | none => simp at hd
  | some rd0 =>
    simp only [deref_some, Option.some.injEq, Prod.mk.injEq] at hd
    obtain ⟨hd1, hd2⟩ := hd
    subst hd1 hd2
    rw [M.bind_eq_some] at h
    obtain ⟨⟨pvc, err⟩, wa, hsetup, h⟩ := h
    dsimp only at h
    cases err with
    | some e => simp at h
    | none =>
      dsimp only at h
      have hrss : wa.rss = w.rss :=
        ((setupLocalRS_mods (S := { pvcs := true, snapshots := true }) v rd0 rdSpec snapshotRef
          rfl rfl).run _ _ _ hsetup).rss rfl
      rw [M.bind_eq_some] at h
      obtain ⟨pvc1, wa1, hd, h⟩ := h
      cases pvc with
      | none => simp at hd
      | some pvc0 =>
        simp only [deref_some, Option.some.injEq, Prod.mk.injEq] at hd
        obtain ⟨hd1, hd2⟩ := hd
        subst hd1 hd2
        rw [M.bind_eq_some] at h
        obtain ⟨⟨op, lrs1, cerr⟩, wb, hcu, h⟩ := h
        dsimp only at h
        cases cerr with
        | some e => simp at h
        | none =>
          simp only [M.pure_run, Option.some.injEq, Prod.mk.injEq, and_true] at h
          obtain ⟨hr, hw⟩ := h
          subst hr hw
          obtain ⟨hst, _⟩ := CreateOrUpdate_ok rsKind_lawful (fun _ _ => rfl) (fun _ => rfl) hcu
            (by intro x hx; exact hwf x (hrss ▸ hx))
            (by
              intro o o2 ho
              simp only [Option.some.injEq] at ho
              exact mutateLocalRS_keeps v psk address _ o o2 ho)
          exact ⟨hrds, lrs1, rfl, hst⟩

/-! ## Calls written to the log -/

theorem Writes.writes_pure {α : Type} (P : Call → Prop) (a : α) : Writes P (Pure.pure a : M α) := by
  constructor
  intro w b w1 h
  simp only [M.pure_run, Option.some.injEq, Prod.mk.injEq] at h
  exact ⟨[], by rw [← h.2]; simp, by simp⟩

theorem Writes.writes_pure2 {α : Type} (P : Call → Prop) (a : α) : Writes P (M.pure a : M α) :=
  Writes.writes_pure P a

theorem Writes.writes_throwPanic {α : Type} (P : Call → Prop) : Writes P (throwPanic : M α) := by
  constructor
  intro w b w1 h
  simp at h

theorem Writes.writes_deref {α : Type} (P : Call → Prop) (o : Option α) : Writes P (deref o) := by
  cases o with
  | none => exact Writes.writes_throwPanic P
  | some a => exact Writes.writes_pure P a

theorem Writes.writes_bind {α β : Type} {P : Call → Prop} {m : M α} {f : α → M β}
    (h1 : Writes P m) (h2 : ∀ a, Writes P (f a)) : Writes P (m >>= f) := by
  constructor
  intro w b w2 h
  rw [M.bind_eq_some] at h
  obtain ⟨a, w1, hm, hf⟩ := h
  obtain ⟨l1, e1, p1⟩ := h1.run w a w1 hm
  obtain ⟨l2, e2, p2⟩ := (h2 a).run w1 b w2 hf
  refine ⟨l1 ++ l2, by rw [e2, e1, List.append_assoc], ?_⟩
  intro c hc
  rcases List.mem_append.mp hc with hc | hc
  · exact p1 c hc
  · exact p2 c hc

theorem Writes.writes_clientGet {α : Type} (P : Call → Prop) (K : Kind α) (ns name : String) :
    Writes P (clientGet K ns name) := by
  constructor
  intro w a w1 h
  unfold Volsync.clientGet at h
  refine ⟨[], ?_, by simp⟩
  simp only at h
  split at h
  · simp only [Option.some.injEq, Prod.mk.injEq] at h
    rw [← h.2]; simp
  · split at h <;>
    · simp only [Option.some.injEq, Prod.mk.injEq] at h
      rw [← h.2]; simp

theorem Writes.writes_clientList {α : Type} (P : Call → Prop) (K : Kind α) (ns : String)
    (sel : ObjectMeta → Bool) : Writes P (clientList K ns sel) := by
  constructor
  intro w a w1 h
  unfold Volsync.clientList at h
  refine ⟨[], ?_, by simp⟩
  split at h <;>
  · simp only [Option.some.injEq, Prod.mk.injEq] at h
    rw [← h.2]; simp

theorem Writes.writes_modifyStatus (P : Call → Prop) (s : String) :
    Writes P (modifyWorld (fun w => { w with workloadStatus := s })) := by
  constructor
  intro w a w1 h
  simp only [modifyWorld, Option.some.injEq, Prod.mk.injEq] at h
  exact ⟨[], by rw [← h.2]; simp, by simp⟩

theorem Writes.writes_clientCreate {α : Type} {P : Call → Prop} {K : Kind α} (hK : K.KeepsLog)
    (o : α) (hP : P ⟨.create, K.tag, (K.meta o).Namespace, (K.meta o).Name⟩) :
    Writes P (clientCreate K o) := by
  constructor
  intro w a w1 h
  refine ⟨[⟨.create, K.tag, (K.meta o).Namespace, (K.meta o).Name⟩], ?_, by simpa using hP⟩
  unfold Volsync.clientCreate at h
  simp only at h
  split at h
  · simp only [Option.some.injEq, Prod.mk.injEq] at h
    rw [← h.2]
  · split at h
    · simp only [Option.some.injEq, Prod.mk.injEq] at h
      rw [← h.2]
    · simp only [Option.some.injEq, Prod.mk.injEq] at h
      rw [← h.2, hK]

theorem Writes.writes_clientUpdate {α : Type} {P : Call → Prop} {K : Kind α} (hK : K.KeepsLog)
    (o : α) (hP : P ⟨.update, K.tag, (K.meta o).Namespace, (K.meta o).Name⟩) :
    Writes P (clientUpdate K o) := by
  constructor
  intro w a w1 h
  refine ⟨[⟨.update, K.tag, (K.meta o).Namespace, (K.meta o).Name⟩], ?_, by simpa using hP⟩
  unfold Volsync.clientUpdate at h
  simp only at h
  split at h
  · simp only [Option.some.injEq, Prod.mk.injEq] at h
    rw [← h.2]
  · split at h
    · simp only [Option.some.injEq, Prod.mk.injEq] at h
      rw [← h.2]
    · simp only [Option.some.injEq, Prod.mk.injEq] at h
      rw [← h.2, hK]

theorem Writes.writes_clientDelete {α : Type} {P : Call → Prop} {K : Kind α} (hK : K.KeepsLog)
    (o : α) (hP : P ⟨.delete, K.tag, (K.meta o).Namespace, (K.meta o).Name⟩) :
    Writes P (clientDelete K o) := by
  constructor
  intro w a w1 h
  refine ⟨[⟨.delete, K.tag, (K.meta o).Namespace, (K.meta o).Name⟩], ?_, by simpa using hP⟩
  unfold Volsync.clientDelete at h
  simp only at h
  split at h
  · simp only [Option.some.injEq, Prod.mk.injEq] at h
    rw [← h.2]
  · split at h
    · simp only [Option.some.injEq, Prod.mk.injEq] at h
      rw [← h.2]
    · simp only [Option.some.injEq, Prod.mk.injEq] at h
      rw [← h.2, hK]

theorem secretKind_keepsLog : secretKind.KeepsLog := fun _ _ => rfl
theorem pvcKind_keepsLog : pvcKind.KeepsLog := fun _ _ => rfl
theorem pvKind_keepsLog : pvKind.KeepsLog := fun _ _ => rfl
theorem rsKind_keepsLog : rsKind.KeepsLog := fun _ _ => rfl
theorem rdKind_keepsLog : rdKind.KeepsLog := fun _ _ => rfl
theorem snapshotKind_keepsLog : snapshotKind.KeepsLog := fun _ _ => rfl

/-- A delete never writes a source. -/
theorem noSourceWrite_delete (k ns name : String) : NoSourceWrite ⟨.delete, k, ns, name⟩ :=
  fun _ => rfl

/-- A call on another kind never writes a source. -/
theorem noSourceWrite_other (verb : Verb) (k ns name : String) (hk : k ≠ "ReplicationSource") :
    NoSourceWrite ⟨verb, k, ns, name⟩ :=
  fun h => absurd h hk

@[simp] theorem delete_writes {α : Type} (K : Kind α) (o : α) (hK : K.KeepsLog) :
    Writes NoSourceWrite (clientDelete K o) :=
  Writes.writes_clientDelete hK o (noSourceWrite_delete _ _ _)

@[simp] theorem update_writes {α : Type} (K : Kind α) (o : α) (hK : K.KeepsLog)
    (ht : K.tag ≠ "ReplicationSource") : Writes NoSourceWrite (clientUpdate K o) :=
  Writes.writes_clientUpdate hK o (noSourceWrite_other _ _ _ _ ht)

@[simp] theorem create_writes {α : Type} (K : Kind α) (o : α) (hK : K.KeepsLog)
    (ht : K.tag ≠ "ReplicationSource") : Writes NoSourceWrite (clientCreate K o) :=
  Writes.writes_clientCreate hK o (noSourceWrite_other _ _ _ _ ht)

@[simp] theorem secretKind_tag_ne : secretKind.tag ≠ "ReplicationSource" := by decide

attribute [simp] secretKind_keepsLog pvcKind_keepsLog pvKind_keepsLog rsKind_keepsLog
  rdKind_keepsLog snapshotKind_keepsLog

@[simp] theorem addOwnerReferenceAndUpdate_writes {α : Type} (v : VSHandler) (K : Kind α) (obj : α) (owner : Owner) (hK : K.KeepsLog) (ht : K.tag ≠ "ReplicationSource") :
    Writes NoSourceWrite (v.addOwnerReferenceAndUpdate K obj owner) := by
  unfold VSHandler.addOwnerReferenceAndUpdate
  repeat' first
    | apply Writes.writes_pure
    | apply Writes.writes_pure2
    | apply Writes.writes_throwPanic
    | apply Writes.writes_deref
    | apply Writes.writes_clientGet
    | apply Writes.writes_clientList
    | apply Writes.writes_modifyStatus
    | apply Writes.writes_bind
    | intro _
    | (simp [*]; done)
    | split
    | dsimp only

@[simp] theorem ValidateSecretAndAddVRGOwnerRef_writes (v : VSHandler) (n : String) :
    Writes NoSourceWrite (v.ValidateSecretAndAddVRGOwnerRef n) := by
  unfold VSHandler.ValidateSecretAndAddVRGOwnerRef
  repeat' first
    | apply Writes.writes_pure
    | apply Writes.writes_pure2
    | apply Writes.writes_throwPanic
    | apply Writes.writes_deref
    | apply Writes.writes_clientGet
    | apply Writes.writes_clientList
    | apply Writes.writes_modifyStatus
    | apply Writes.writes_bind
    | intro _
    | (simp [*]; done)
    | split
    | dsimp only

@[simp] theorem CopySecretToPVCNamespace_writes (v : VSHandler) (n ns : String) :
    Writes NoSourceWrite (v.CopySecretToPVCNamespace n ns) := by
  unfold VSHandler.CopySecretToPVCNamespace
  repeat' first
    | apply Writes.writes_pure
    | apply Writes.writes_pure2
    | apply Writes.writes_throwPanic
    | apply Writes.writes_deref
    | apply Writes.writes_clientGet
    | apply Writes.writes_clientList
    | apply Writes.writes_modifyStatus
    | apply Writes.writes_bind
    | intro _
    | (simp [*]; done)
    | split
    | dsimp only

@[simp] theorem getRD_writes (v : VSHandler) (name ns : String) :
    Writes NoSourceWrite (v.getRD name ns) := by
  unfold VSHandler.getRD
  repeat' first
    | apply Writes.writes_pure
    | apply Writes.writes_pure2
    | apply Writes.writes_throwPanic
    | apply Writes.writes_deref
    | apply Writes.writes_clientGet
    | apply Writes.writes_clientList
    | apply Writes.writes_modifyStatus
    | apply Writes.writes_bind
    | intro _
    | (simp [*]; done)
    | split
    | dsimp only

@[simp] theorem getRS_writes (v : VSHandler) (name ns : String) :
    Writes NoSourceWrite (v.getRS name ns) := by
  unfold VSHandler.getRS
  repeat' first
    | apply Writes.writes_pure
    | apply Writes.writes_pure2
    | apply Writes.writes_throwPanic
    | apply Writes.writes_deref
    | apply Writes.writes_clientGet
    | apply Writes.writes_clientList
    | apply Writes.writes_modifyStatus
    | apply Writes.writes_bind
    | intro _
    | (simp [*]; done)
    | split
    | dsimp only

@[simp] theorem getPVC_writes (v : VSHandler) (key : NamespacedName) :
    Writes NoSourceWrite (v.getPVC key) := by
  unfold VSHandler.getPVC
  repeat' first
    | apply Writes.writes_pure
    | apply Writes.writes_pure2
    | apply Writes.writes_throwPanic
    | apply Writes.writes_deref
    | apply Writes.writes_clientGet
    | apply Writes.writes_clientList
    | apply Writes.writes_modifyStatus
    | apply Writes.writes_bind
    | intro _
    | (simp [*]; done)
    | split
    | dsimp only

@[simp] theorem getRDLatestImage_writes (v : VSHandler) (name ns : String) :
    Writes NoSourceWrite (v.getRDLatestImage name ns) := by
  unfold VSHandler.getRDLatestImage
  repeat' first
    | apply Writes.writes_pure
    | apply Writes.writes_pure2
    | apply Writes.writes_throwPanic
    | apply Writes.writes_deref
    | apply Writes.writes_clientGet
    | apply Writes.writes_clientList
    | apply Writes.writes_modifyStatus
    | apply Writes.writes_bind
    | intro _
    | (simp [*]; done)
    | split
    | dsimp only

@[simp] theorem DeleteLocalRD_writes (v : VSHandler) (name ns : String) :
    Writes NoSourceWrite (v.DeleteLocalRD name ns) := by
  unfold VSHandler.DeleteLocalRD
  repeat' first
    | apply Writes.writes_pure
    | apply Writes.writes_pure2
    | apply Writes.writes_throwPanic
    | apply Writes.writes_deref
    | apply Writes.writes_clientGet
    | apply Writes.writes_clientList
    | apply Writes.writes_modifyStatus
    | apply Writes.writes_bind
    | intro _
    | (simp [*]; done)
    | split
    | dsimp only

@[simp] theorem deleteSnapshot_writes (v : VSHandler) (name ns : String) :
    Writes NoSourceWrite (v.deleteSnapshot name ns) := by
  unfold VSHandler.deleteSnapshot
  repeat' first
    | apply Writes.writes_pure
    | apply Writes.writes_pure2
    | apply Writes.writes_throwPanic
    | apply Writes.writes_deref
    | apply Writes.writes_clientGet
    | apply Writes.writes_clientList
    | apply Writes.writes_modifyStatus
    | apply Writes.writes_bind
    | intro _
    | (simp [*]; done)
    | split
    | dsimp only

@[simp] theorem DeletePVC_writes (name ns : String) :
    Writes NoSourceWrite (util.DeletePVC name ns) := by
  unfold util.DeletePVC
  repeat' first
    | apply Writes.writes_pure
    | apply Writes.writes_pure2
    | apply Writes.writes_throwPanic
    | apply Writes.writes_deref
    | apply Writes.writes_clientGet
    | apply Writes.writes_clientList
    | apply Writes.writes_modifyStatus
    | apply Writes.writes_bind
    | intro _
    | (simp [*]; done)
    | split
    | dsimp only

@[simp] theorem CleanupLocalResources_writes (v : VSHandler) (lrs : ReplicationSource) :
    Writes NoSourceWrite (v.CleanupLocalResources lrs) := by
  unfold VSHandler.CleanupLocalResources
  repeat' first
    | apply Writes.writes_pure
    | apply Writes.writes_pure2
    | apply Writes.writes_throwPanic
    | apply Writes.writes_deref
    | apply Writes.writes_clientGet
    | apply Writes.writes_clientList
    | apply Writes.writes_modifyStatus
    | apply Writes.writes_bind
    | intro _
    | (simp [*]; done)
    | split
    | dsimp only

@[simp] theorem deleteLocalRDAndRS_writes (v : VSHandler) (rd : ReplicationDestination) :
    Writes NoSourceWrite (v.deleteLocalRDAndRS rd) := by
  unfold VSHandler.deleteLocalRDAndRS
  repeat' first
    | apply Writes.writes_pure
    | apply Writes.writes_pure2
    | apply Writes.writes_throwPanic
    | apply Writes.writes_deref
    | apply Writes.writes_clientGet
    | apply Writes.writes_clientList
    | apply Writes.writes_modifyStatus
    | apply Writes.writes_bind
    | intro _
    | (simp [*]; done)
    | split
    | dsimp only

@[simp] theorem IsPVCInUseByPod_writes (key : NamespacedName) (b : Bool) :
    Writes NoSourceWrite (util.IsPVCInUseByPod key b) := by
  unfold util.IsPVCInUseByPod
  repeat' first
    | apply Writes.writes_pure
    | apply Writes.writes_pure2
    | apply Writes.writes_throwPanic
    | apply Writes.writes_deref
    | apply Writes.writes_clientGet
    | apply Writes.writes_clientList
    | apply Writes.writes_modifyStatus
    | apply Writes.writes_bind
    | intro _
    | (simp [*]; done)
    | split
    | dsimp only

@[simp] theorem IsPVAttachedToNode_writes (pvc : PersistentVolumeClaim) :
    Writes NoSourceWrite (util.IsPVAttachedToNode pvc) := by
  unfold util.IsPVAttachedToNode
  repeat' first
    | apply Writes.writes_pure
    | apply Writes.writes_pure2
    | apply Writes.writes_throwPanic
    | apply Writes.writes_deref
    | apply Writes.writes_clientGet
    | apply Writes.writes_clientList
    | apply Writes.writes_modifyStatus
    | apply Writes.writes_bind
    | intro _
    | (simp [*]; done)
    | split
    | dsimp only

@[simp] theorem pvcExistsAndInUse_writes (v : VSHandler) (key : NamespacedName) (b : Bool) :
    Writes NoSourceWrite (v.pvcExistsAndInUse key b) := by
  unfold VSHandler.pvcExistsAndInUse
  repeat' first
    | apply Writes.writes_pure
    | apply Writes.writes_pure2
    | apply Writes.writes_throwPanic
    | apply Writes.writes_deref
    | apply Writes.writes_clientGet
    | apply Writes.writes_clientList
    | apply Writes.writes_modifyStatus
    | apply Writes.writes_bind
    | intro _
    | (simp [*]; done)
    | split
    | dsimp only

@[simp] theorem validatePVCForFinalSync_writes (v : VSHandler) (rsSpec : VolSyncReplicationSourceSpec) (b : Bool) :
    Writes NoSourceWrite (v.validatePVCForFinalSync rsSpec b) := by
  unfold VSHandler.validatePVCForFinalSync
  repeat' first
    | apply Writes.writes_pure
    | apply Writes.writes_pure2
    | apply Writes.writes_throwPanic
    | apply Writes.writes_deref
    | apply Writes.writes_clientGet
    | apply Writes.writes_clientList
    | apply Writes.writes_modifyStatus
    | apply Writes.writes_bind
    | intro _
    | (simp [*]; done)
    | split
    | dsimp only

@[simp] theorem DeleteRD_loop_writes (v : VSHandler) (p : String) (l : List ReplicationDestination) :
    Writes NoSourceWrite (VSHandler.DeleteRD.loop v p l) := by
  induction l with
  | nil => exact Writes.writes_pure _ none
  | cons x rest ih =>
    unfold VSHandler.DeleteRD.loop
    repeat' first
      | apply Writes.writes_pure
      | apply Writes.writes_pure2
      | apply Writes.writes_throwPanic
      | apply Writes.writes_deref
      | apply Writes.writes_clientGet
      | apply Writes.writes_clientList
      | apply Writes.writes_modifyStatus
      | apply Writes.writes_bind
      | intro _
      | (simp [*]; done)
      | split
      | dsimp only

@[simp] theorem DeleteRD_writes (v : VSHandler) (p ns : String) :
    Writes NoSourceWrite (v.DeleteRD p ns) := by
  unfold VSHandler.DeleteRD VSHandler.listRDByOwner VSHandler.listByOwner
  repeat' first
    | apply Writes.writes_pure
    | apply Writes.writes_pure2
    | apply Writes.writes_throwPanic
    | apply Writes.writes_deref
    | apply Writes.writes_clientGet
    | apply Writes.writes_clientList
    | apply Writes.writes_modifyStatus
    | apply Writes.writes_bind
    | intro _
    | (simp [*]; done)
    | split
    | dsimp only

/-! ## Reaching the validation of the claim -/

/-- Once the volume is protected by VolSync, the secret is validated (and copied, in
the admin namespace) and `DeleteRD` has returned no error, `ReconcileRS` continues with
the validation of the claim. -/
theorem ReconcileRS_reaches (v : VSHandler) (rsSpec : VolSyncReplicationSourceSpec)
    (runFinalSync : Bool) (w wa wb wc : World)
    (hprot : rsSpec.ProtectedPVC.ProtectedByVolSync = true)
    (hsec : v.ValidateSecretAndAddVRGOwnerRef
      (GetVolSyncPSKSecretNameFromVRGName v.owner.ObjectMeta.Name) w = some ((true, none), wa))
    (hcopy : (if v.vrgInAdminNamespace
        then v.CopySecretToPVCNamespace (GetVolSyncPSKSecretNameFromVRGName v.owner.ObjectMeta.Name)
          rsSpec.ProtectedPVC.Namespace
        else pure none) wa = some (none, wb))
    (hdel : v.DeleteRD rsSpec.ProtectedPVC.Name rsSpec.ProtectedPVC.Namespace wb = some (none, wc)) :
    v.ReconcileRS rsSpec runFinalSync w = ReconcileRS_fromValidation v rsSpec runFinalSync wc := by
  unfold VSHandler.ReconcileRS
  simp only [hprot, Bool.not_true, Bool.false_eq_true, if_false, M.bind_run, hsec, Option.isSome_none,
    Bool.or_false, hcopy, hdel]
  rfl

theorem OnlyCalls.only_refl (w : World) : OnlyCalls w w := rfl

theorem OnlyCalls.only_tick (w : World) : OnlyCalls w w.tick := rfl

theorem OnlyCalls.only_step {w w1 : World} (h : OnlyCalls w w1) : OnlyCalls w w1.tick := by
  unfold OnlyCalls at *
  rw [h]
  rfl

theorem OnlyCalls.only_noFaults {w w1 : World} (h : OnlyCalls w w1) (hf : NoFaults w) : NoFaults w1 := by
  unfold OnlyCalls at h
  rw [h]
  exact hf

/-- With no fault, `pvcExistsAndInUse` on a stored claim reports whether a pod mounts
it or its volume is attached, and leaves the cluster as it is. -/
theorem pvcExistsAndInUse_run (v : VSHandler) (key : NamespacedName) (w : World)
    (pvc : PersistentVolumeClaim) (hf : NoFaults w)
    (hpvc : storeGet pvcKind.meta w.pvcs key.Namespace key.Name = some pvc) :
    ∃ w1, v.pvcExistsAndInUse key false w =
        some ((MountedByPod w key || AttachedToNode w pvc, none), w1) ∧ OnlyCalls w w1 := by
  have h1 : v.getPVC key w = some ((some pvc, none), w.tick) := by
    unfold VSHandler.getPVC
    rw [M.bind_run, clientGet_run_found (hf _) hpvc]
    rfl
  have h2 : util.IsPVCInUseByPod key false w.tick = some ((MountedByPod w key, none), w.tick.tick) := by
    unfold util.IsPVCInUseByPod
    rw [M.bind_run, clientList_run (w := w.tick) (hf _)]
    simp [MountedByPod, podKind, World.tick]
  unfold VSHandler.pvcExistsAndInUse
  rw [M.bind_run, h1]
  dsimp only
  rw [M.bind_run, h2]
  dsimp only
  cases hm : MountedByPod w key with
  | true =>
    simp only [Option.isSome_none, Bool.or_true, Bool.true_or, Bool.or_false, if_true, M.pure_run]
    exact ⟨_, rfl, (OnlyCalls.only_tick w).only_step⟩
  | false =>
    simp only [Option.isSome_none, Bool.or_false, Bool.false_eq_true, if_false, M.bind_run,
      deref_some, Bool.false_or]
    unfold util.IsPVAttachedToNode AttachedToNode
    by_cases hv : (pvc.Spec.VolumeName == "") = true
    · rw [if_pos hv]
      refine ⟨_, ?_, (OnlyCalls.only_tick w).only_step⟩
      simp [bne, hv]
    · rw [if_neg hv, M.bind_run, clientList_run (w := w.tick.tick) (hf _)]
      refine ⟨_, ?_, ((OnlyCalls.only_tick w).only_step).only_step⟩
      simp [bne, hv, volumeAttachmentKind, World.tick]

/-! ## The end of the final sync -/

/-- Whatever `util.DeletePVC` leaves stored was stored before, under the same key, and
stays marked deleted if it was. -/
theorem DeletePVC_pvcs (name ns : String) (w w1 : World) (r : Option Err)
    (h : util.DeletePVC name ns w = some (r, w1)) :
    ∀ x ∈ w1.pvcs, ∃ x0 ∈ w.pvcs, x0.ObjectMeta.Name = x.ObjectMeta.Name ∧
      x0.ObjectMeta.Namespace = x.ObjectMeta.Namespace ∧
      (metaIsDeleted x0.ObjectMeta = true → metaIsDeleted x.ObjectMeta = true) := by
  have hsame : ∀ w0 : World, w0.pvcs = w.pvcs → ∀ x ∈ w0.pvcs, ∃ x0 ∈ w.pvcs,
      x0.ObjectMeta.Name = x.ObjectMeta.Name ∧
      x0.ObjectMeta.Namespace = x.ObjectMeta.Namespace ∧
      (metaIsDeleted x0.ObjectMeta = true → metaIsDeleted x.ObjectMeta = true) := by
    intro w0 h0 x hx
    exact ⟨x, h0 ▸ hx, rfl, rfl, fun h => h⟩
  unfold util.DeletePVC at h
  rw [M.bind_eq_some] at h
  obtain ⟨g, w0, hget, h⟩ := h
  cases g with
  | error e =>
    obtain ⟨hw0, _⟩ := clientGet_error hget
    dsimp only at h
    split at h <;>
    · simp only [M.pure_run, Option.some.injEq, Prod.mk.injEq] at h
      rw [← h.2, hw0]
      exact hsame _ rfl
  | ok pvc =>
    obtain ⟨_, hw0⟩ := clientGet_ok hget
    dsimp only at h
    rw [M.bind_eq_some] at h
    obtain ⟨d, w2, hdel, h⟩ := h
    have hw2 : ∀ x ∈ w2.pvcs, ∃ x0 ∈ w.pvcs, x0.ObjectMeta.Name = x.ObjectMeta.Name ∧
        x0.ObjectMeta.Namespace = x.ObjectMeta.Namespace ∧
        (metaIsDeleted x0.ObjectMeta = true → metaIsDeleted x.ObjectMeta = true) := by
      cases d with
      | none =>
        obtain ⟨_, hw⟩ := clientDelete_ok hdel
        rw [hw, hw0]
        intro x hx
        have hx1 : x ∈ storeDelete pvcKind w.pvcs (pvcKind.meta pvc).Namespace (pvcKind.meta pvc).Name
            (w.tick.calls + 1) := hx
        obtain ⟨x0, hx0, h1, h2, _, h4⟩ := storeDelete_shrink pvcKind_lawful hx1
        exact ⟨x0, hx0, h1, h2, h4⟩
      | some e =>
        obtain ⟨hw, _⟩ := clientDelete_err hdel
        rw [hw, hw0]
        exact hsame _ rfl
    have hw1 : w1 = w2 := by
      cases d with
      | none => simp only [M.pure_run, Option.some.injEq, Prod.mk.injEq] at h; exact h.2.symm
      | some e =>
        dsimp only at h
        split at h <;>
        · simp only [M.pure_run, Option.some.injEq, Prod.mk.injEq] at h; exact h.2.symm
    rw [hw1]
    exact hw2

/-- After a successful `undoAfterFinalSync`, whatever is left of the temporary claim is
marked deleted, and the only delete it issued is the one of the temporary claim. -/
theorem undoAfterFinalSync_tmp_gone (v : VSHandler) (p ns : String) (wa wb : World)
    (h : v.undoAfterFinalSync p ns wa = some (none, wb)) :
    (∀ x ∈ wb.pvcs, hasKey x.ObjectMeta ns (getTmpPVCNameForFinalSync p) = true →
      metaIsDeleted x.ObjectMeta = true) ∧
    ∃ l, wb.log = wa.log ++ l ∧
      ∀ c ∈ l, c.verb = .delete → c.Name = getTmpPVCNameForFinalSync p := by
  obtain ⟨w1, pvc, pv0, w2, htmp, hp, _, hw2, hfin⟩ := undoAfterFinalSync_ok v p ns wa wb h
  have hpk := storeGet_hasKey hp
  -- after the temporary claim was handled
  have h1 : (∀ x ∈ w1.pvcs, hasKey x.ObjectMeta ns (getTmpPVCNameForFinalSync p) = true →
      metaIsDeleted x.ObjectMeta = true) ∧
      ∃ l, w1.log = wa.log ++ l ∧
        ∀ c ∈ l, c.verb = .delete → c.Name = getTmpPVCNameForFinalSync p := by
    rcases htmp with ⟨hnone, hw1⟩ | ⟨t, ht, hw1⟩
    · rw [hw1]
      exact ⟨KeyGone_of_none (K := pvcKind) hnone, [], by simp [World.tick], by simp⟩
    · have htk := storeGet_hasKey ht
      rw [hasKey_iff] at htk
      rw [hw1]
      constructor
      · intro x hx hk
        have hx1 : x ∈ storeDelete pvcKind wa.pvcs t.ObjectMeta.Namespace t.ObjectMeta.Name
            (wa.calls + 1 + 1) := hx
        refine storeDelete_key pvcKind_lawful (Nat.succ_ne_zero _) hx1 ?_
        show hasKey x.ObjectMeta t.ObjectMeta.Namespace t.ObjectMeta.Name = true
        rw [show t.ObjectMeta.Namespace = ns from htk.1,
          show t.ObjectMeta.Name = getTmpPVCNameForFinalSync p from htk.2]
        exact hk
      · refine ⟨[⟨.delete, pvcKind.tag, t.ObjectMeta.Namespace, t.ObjectMeta.Name⟩], rfl, ?_⟩
        intro c hc _
        simp only [List.mem_singleton] at hc
        rw [hc]
        exact htk.2
  obtain ⟨hgone1, l1, hl1, hp1⟩ := h1
  have hpvcs2 : w2.pvcs = w1.pvcs := by rw [hw2]; rfl
  have hlog2 : w2.log = w1.log ++ [⟨.update, pvKind.tag, pv0.ObjectMeta.Namespace, pv0.ObjectMeta.Name⟩] := by
    rw [hw2]; rfl
  rcases hfin with ⟨_, hwb⟩ | ⟨_, hwb⟩
  · rw [hwb]
    refine ⟨by rw [hpvcs2]; exact hgone1,
      l1 ++ [⟨.update, pvKind.tag, pv0.ObjectMeta.Namespace, pv0.ObjectMeta.Name⟩],
      by rw [hlog2, hl1, List.append_assoc], ?_⟩
    intro c hc hd
    rcases List.mem_append.mp hc with hc | hc
    · exact hp1 c hc hd
    · simp only [List.mem_singleton] at hc
      rw [hc] at hd
      cases hd
  · rw [hwb]
    constructor
    · intro x hx hk
      have hx1 : x ∈ storeUpdate pvcKind w2.pvcs
          { pvc with ObjectMeta := { pvc.ObjectMeta with
              Finalizers := removeFinalizer pvc.ObjectMeta.Finalizers PVCFinalizerProtected } } := hx
      rcases mem_storeUpdate hx1 with hx2 | hx2
      · subst hx2
        rw [hasKey_iff] at hk hpk
        exact absurd (hk.2.symm.trans hpk.2) (tmpName_ne p)
      · rw [hpvcs2] at hx2
        exact hgone1 x hx2 hk
    · refine ⟨l1 ++ [⟨.update, pvKind.tag, pv0.ObjectMeta.Namespace, pv0.ObjectMeta.Name⟩,
          ⟨.update, pvcKind.tag, pvc.ObjectMeta.Namespace, pvc.ObjectMeta.Name⟩], ?_, ?_⟩
      · show (w2.log ++ [_]) = _
        rw [hlog2, hl1]
        simp [List.append_assoc]
      · intro c hc hd
        rcases List.mem_append.mp hc with hc | hc
        · exact hp1 c hc hd
        · simp only [List.mem_cons, List.mem_singleton, List.not_mem_nil, or_false] at hc
          rcases hc with hc | hc <;> (rw [hc] at hd; cases hd)

theorem matchVolumeSnapshotClass_eq (sc : StorageClass) (acc : String) (c : VolumeSnapshotClass) :
    VSHandler.matchVolumeSnapshotClass sc acc c =
      if classMatches sc c && (acc == "" || isDefaultVolumeSnapshotClass c) then c.ObjectMeta.Name
      else acc := by
  unfold VSHandler.matchVolumeSnapshotClass classMatches
  by_cases h1 : mapGet c.ObjectMeta.Labels StorageIDLabel = ""
  · by_cases h2 : c.Driver = sc.Provisioner <;> simp [h1, h2]
  · by_cases h3 : mapGet c.ObjectMeta.Labels StorageIDLabel = mapGet sc.ObjectMeta.Labels StorageIDLabel
    · by_cases h2 : c.Driver = sc.Provisioner <;> simp [h1, h2, h3]
    · by_cases h2 : c.Driver = sc.Provisioner <;> simp [h1, h2, h3]

theorem foldl_match_nonempty (sc : StorageClass) (items : List VolumeSnapshotClass)
    (hnames : ∀ c ∈ items, c.ObjectMeta.Name ≠ "") (acc : String) (hacc : acc ≠ "") :
    items.foldl (VSHandler.matchVolumeSnapshotClass sc) acc ≠ "" ∧
    ((∃ c ∈ items, classMatches sc c = true ∧ isDefaultVolumeSnapshotClass c = true ∧
        items.foldl (VSHandler.matchVolumeSnapshotClass sc) acc = c.ObjectMeta.Name) ∨
     ((∀ c ∈ items, classMatches sc c = true → isDefaultVolumeSnapshotClass c = false) ∧
        items.foldl (VSHandler.matchVolumeSnapshotClass sc) acc = acc)) := by
  induction items generalizing acc with
  | nil => exact ⟨hacc, Or.inr ⟨by simp, rfl⟩⟩
  | cons c rest ih =>
    have hrest : ∀ c ∈ rest, c.ObjectMeta.Name ≠ "" := fun x hx => hnames x (List.mem_cons_of_mem _ hx)
    have hc : c.ObjectMeta.Name ≠ "" := hnames c (List.mem_cons_self _ _)
    rw [List.foldl_cons, matchVolumeSnapshotClass_eq]
    by_cases hm : (classMatches sc c && (acc == "" || isDefaultVolumeSnapshotClass c)) = true
    · rw [if_pos hm]
      have hmd : classMatches sc c = true ∧ isDefaultVolumeSnapshotClass c = true := by
        simp [hacc] at hm
        exact hm
      obtain ⟨h1, h2⟩ := ih hrest _ hc
      refine ⟨h1, ?_⟩
      rcases h2 with ⟨d, hd, hd1, hd2, hd3⟩ | ⟨hno, heq⟩
      · exact Or.inl ⟨d, List.mem_cons_of_mem _ hd, hd1, hd2, hd3⟩
      · exact Or.inl ⟨c, List.mem_cons_self _ _, hmd.1, hmd.2, heq⟩
    · rw [if_neg hm]
      obtain ⟨h1, h2⟩ := ih hrest _ hacc
      refine ⟨h1, ?_⟩
      rcases h2 with ⟨d, hd, hd1, hd2, hd3⟩ | ⟨hno, heq⟩
      · exact Or.inl ⟨d, List.mem_cons_of_mem _ hd, hd1, hd2, hd3⟩
      · refine Or.inr ⟨?_, heq⟩
        intro x hx hxm
        rcases List.mem_cons.mp hx with rfl | hx
        · simp [hacc, hxm] at hm
          exact hm
        · exact hno x hx hxm

theorem foldl_match_empty (sc : StorageClass) (items : List VolumeSnapshotClass)
    (hnames : ∀ c ∈ items, c.ObjectMeta.Name ≠ "") :
    (items.foldl (VSHandler.matchVolumeSnapshotClass sc) "" = "" ↔ ∀ c ∈ items, classMatches sc c = false) ∧
    ((∃ c ∈ items, classMatches sc c = true ∧ isDefaultVolumeSnapshotClass c = true ∧
        items.foldl (VSHandler.matchVolumeSnapshotClass sc) "" = c.ObjectMeta.Name) ∨
     ((∀ c ∈ items, classMatches sc c = true → isDefaultVolumeSnapshotClass c = false) ∧
        items.foldl (VSHandler.matchVolumeSnapshotClass sc) "" =
          ((items.find? (classMatches sc)).map (fun c => c.ObjectMeta.Name)).getD "")) := by
  induction items with
  | nil => simp
  | cons c rest ih =>
    have hrest : ∀ c ∈ rest, c.ObjectMeta.Name ≠ "" := fun x hx => hnames x (List.mem_cons_of_mem _ hx)
    have hc : c.ObjectMeta.Name ≠ "" := hnames c (List.mem_cons_self _ _)
    rw [List.foldl_cons, matchVolumeSnapshotClass_eq]
    by_cases hm : classMatches sc c = true
    · simp only [hm, beq_self_eq_true, Bool.true_or, Bool.and_self, if_true]
      obtain ⟨h1, h2⟩ := foldl_match_nonempty sc rest hrest _ hc
      constructor
      · constructor
        · intro h; exact absurd h h1
        · intro h; have := h c (List.mem_cons_self _ _); simp [hm] at this
      · rcases h2 with ⟨d, hd, hd1, hd2, hd3⟩ | ⟨hno, heq⟩
        · exact Or.inl ⟨d, List.mem_cons_of_mem _ hd, hd1, hd2, hd3⟩
        · by_cases hdef : isDefaultVolumeSnapshotClass c = true
          · exact Or.inl ⟨c, List.mem_cons_self _ _, hm, hdef, heq⟩
          · refine Or.inr ⟨?_, ?_⟩
            · intro x hx hxm
              rcases List.mem_cons.mp hx with rfl | hx
              · simpa using hdef
              · exact hno x hx hxm
            · rw [heq, List.find?_cons_of_pos _ hm]; rfl
    · have hm1 : classMatches sc c = false := by simpa using hm
      simp only [hm1, Bool.false_and, Bool.false_eq_true, if_false]
      obtain ⟨h1, h2⟩ := ih hrest
      constructor
      · rw [h1]
        constructor
        · intro h x hx
          rcases List.mem_cons.mp hx with rfl | hx
          · exact hm1
          · exact h x hx
        · intro h x hx; exact h x (List.mem_cons_of_mem _ hx)
      · rcases h2 with ⟨d, hd, hd1, hd2, hd3⟩ | ⟨hno, heq⟩
        · exact Or.inl ⟨d, List.mem_cons_of_mem _ hd, hd1, hd2, hd3⟩
        · refine Or.inr ⟨?_, ?_⟩
          · intro x hx hxm
            rcases List.mem_cons.mp hx with rfl | hx
            · rw [hm1] at hxm; exact absurd hxm (by decide)
            · exact hno x hx hxm
          · rw [heq, List.find?_cons_of_neg _ hm]

theorem getVolumeSnapshotClass_run (v : VSHandler) (sc : StorageClass)
    (items : List VolumeSnapshotClass) (w w1 : World)
    (hlist : v.GetVolumeSnapshotClasses w = some ((items, none), w1)) :
    v.getVolumeSnapshotClassFromPVCStorageClass sc w =
      some ((if items.foldl (VSHandler.matchVolumeSnapshotClass sc) "" = "" then
          ("", some (.msg ("unable to find matching volumesnapshotclass for storage provisioner "
            ++ sc.Provisioner)))
        else (items.foldl (VSHandler.matchVolumeSnapshotClass sc) "", none)), w1) := by
  unfold VSHandler.getVolumeSnapshotClassFromPVCStorageClass
  simp only [bind, M.bind, hlist]
  by_cases h : items.foldl (VSHandler.matchVolumeSnapshotClass sc) "" = ""
  · simp [h]
  · simp [h]

theorem getStorageClass_unnamed (v : VSHandler) (name : Option String) (w : World)
    (h : name = none ∨ name = some "") :
    v.getStorageClass name w =
      some ((none, some (.msg "no storageClassName given, cannot proceed")), w) := by
  rcases h with rfl | rfl <;> rfl

theorem getStorageClass_missing (v : VSHandler) (n : String) (w : World) (hn : n ≠ "")
    (hmiss : ∀ sc ∈ w.storageClasses, sc.ObjectMeta.Name ≠ n) :
    ∃ e, v.getStorageClass (some n) w = some ((none, some e), w.tick) := by
  have hnone : storeGet storageClassKind.meta (storageClassKind.objs w) "" n = none := by
    apply List.find?_eq_none.mpr
    intro sc hsc hk
    exact hmiss sc hsc ((hasKey_iff _ _ _).mp hk).2
  unfold VSHandler.getStorageClass
  have hne : (n == "") = false := by simpa using hn
  simp only [hne, Bool.false_eq_true, if_false]
  by_cases hf : w.faults w.calls = false
  · refine ⟨.notFound, ?_⟩
    simp only [bind, M.bind, clientGet_run_missing hf hnone]
    rfl
  · refine ⟨.transient, ?_⟩
    have hf1 : w.faults w.calls = true := by simpa using hf
    simp only [bind, M.bind, clientGet, hf1, if_true]
    rfl

theorem getRDLatestImage_run (v : VSHandler) (name ns : String) (w : World) :
    v.getRDLatestImage name ns w =
      some ((if w.faults w.calls = true then (none, some Err.transient)
        else match storeGet rdKind.meta w.rds ns name with
          | none => (none, none)
          | some rd =>
            (match rd.Status with
             | some st => (st.LatestImage, none)
             | none => (none, none))), w.tick) := by
  unfold VSHandler.getRDLatestImage VSHandler.getRD getReplicationDestinationName
  by_cases hf : w.faults w.calls = true
  · simp only [bind, M.bind, clientGet, hf, if_true]
    rfl
  · have hf1 : w.faults w.calls = false := by simpa using hf
    rw [if_neg hf]
    cases hg : storeGet rdKind.meta w.rds ns name with
    | none =>
      simp only [bind, M.bind, clientGet_run_missing (K := rdKind) hf1 hg]
      rfl
    | some rd =>
      simp only [bind, M.bind, clientGet_run_found (K := rdKind) hf1 hg]
      cases hs : rd.Status with
      | none => simp [hs, pure, M.pure]
      | some st => simp [hs, pure, M.pure]

theorem Writes.writes_getWorld (P : Call → Prop) : Writes P getWorld := by
  constructor
  intro w a w1 h
  simp only [getWorld, Option.some.injEq, Prod.mk.injEq] at h
  exact ⟨[], by rw [← h.2]; simp, by simp⟩

theorem Writes.writes_modifyClassList (P : Call → Prop) (l : Option (List VolumeSnapshotClass)) :
    Writes P (modifyWorld (fun w => { w with volumeSnapshotClassList := l })) := by
  constructor
  intro w a w1 h
  simp only [modifyWorld, Option.some.injEq, Prod.mk.injEq] at h
  exact ⟨[], by rw [← h.2]; simp, by simp⟩

@[simp] theorem serviceExportKind_keepsLog : serviceExportKind.KeepsLog := fun _ _ => rfl

@[simp] theorem clientCreate_touches {ks : List String} {α : Type} (K : Kind α) (o : α)
    (hK : K.KeepsLog) (ht : K.tag ∈ ks) : Writes (Touches ks) (clientCreate K o) :=
  Writes.writes_clientCreate hK o ht

@[simp] theorem clientUpdate_touches {ks : List String} {α : Type} (K : Kind α) (o : α)
    (hK : K.KeepsLog) (ht : K.tag ∈ ks) : Writes (Touches ks) (clientUpdate K o) :=
  Writes.writes_clientUpdate hK o ht

@[simp] theorem clientDelete_touches {ks : List String} {α : Type} (K : Kind α) (o : α)
    (hK : K.KeepsLog) (ht : K.tag ∈ ks) : Writes (Touches ks) (clientDelete K o) :=
  Writes.writes_clientDelete hK o ht

@[simp] theorem addOwnerReferenceAndUpdate_touches {ks : List String} {α : Type} (v : VSHandler) (K : Kind α) (obj : α) (owner : Owner) (hK : K.KeepsLog) (ht : K.tag ∈ ks) :
    Writes (Touches ks) (v.addOwnerReferenceAndUpdate K obj owner) := by
  unfold VSHandler.addOwnerReferenceAndUpdate
  repeat' first
    | apply Writes.writes_pure
    | apply Writes.writes_pure2
    | apply Writes.writes_throwPanic
    | apply Writes.writes_deref
    | apply Writes.writes_getWorld
    | apply Writes.writes_modifyClassList
    | apply Writes.writes_clientGet
    | apply Writes.writes_clientList
    | apply Writes.writes_modifyStatus
    | apply Writes.writes_bind
    | intro _
    | (simp [*]; done)
    | split
    | dsimp only

@[simp] theorem ValidateSecretAndAddVRGOwnerRef_touches {ks : List String} (v : VSHandler) (n : String) (h0 : secretKind.tag ∈ ks) :
    Writes (Touches ks) (v.ValidateSecretAndAddVRGOwnerRef n) := by
  unfold VSHandler.ValidateSecretAndAddVRGOwnerRef
  repeat' first
    | apply Writes.writes_pure
    | apply Writes.writes_pure2
    | apply Writes.writes_throwPanic
    | apply Writes.writes_deref
    | apply Writes.writes_getWorld
    | apply Writes.writes_modifyClassList
    | apply Writes.writes_clientGet
    | apply Writes.writes_clientList
    | apply Writes.writes_modifyStatus
    | apply Writes.writes_bind
    | intro _
    | (simp [*]; done)
    | split
    | dsimp only

@[simp] theorem CopySecretToPVCNamespace_touches {ks : List String} (v : VSHandler) (n ns : String) (h0 : secretKind.tag ∈ ks) :
    Writes (Touches ks) (v.CopySecretToPVCNamespace n ns) := by
  unfold VSHandler.CopySecretToPVCNamespace
  repeat' first
    | apply Writes.writes_pure
    | apply Writes.writes_pure2
    | apply Writes.writes_throwPanic
    | apply Writes.writes_deref
    | apply Writes.writes_getWorld
    | apply Writes.writes_modifyClassList
    | apply Writes.writes_clientGet
    | apply Writes.writes_clientList
    | apply Writes.writes_modifyStatus
    | apply Writes.writes_bind
    | intro _
    | (simp [*]; done)
    | split
    | dsimp only

@[simp] theorem DeleteRS_loop_touches {ks : List String} (p : String) (l : List ReplicationSource) (h0 : rsKind.tag ∈ ks) :
    Writes (Touches ks) (VSHandler.DeleteRS.loop p l) := by
  induction l with
  | nil => exact Writes.writes_pure _ _
  | cons x rest ih =>
    unfold VSHandler.DeleteRS.loop
    repeat' first
      | apply Writes.writes_pure
      | apply Writes.writes_pure2
      | apply Writes.writes_throwPanic
      | apply Writes.writes_deref
      | apply Writes.writes_getWorld
      | apply Writes.writes_modifyClassList
      | apply Writes.writes_clientGet
      | apply Writes.writes_clientList
      | apply Writes.writes_modifyStatus
      | apply Writes.writes_bind
      | intro _
      | (simp [*]; done)
      | split
      | dsimp only

@[simp] theorem DeleteRS_touches {ks : List String} (v : VSHandler) (p ns : String) (h0 : rsKind.tag ∈ ks) :
    Writes (Touches ks) (v.DeleteRS p ns) := by
  unfold VSHandler.DeleteRS VSHandler.listRSByOwner VSHandler.listByOwner
  repeat' first
    | apply Writes.writes_pure
    | apply Writes.writes_pure2
    | apply Writes.writes_throwPanic
    | apply Writes.writes_deref
    | apply Writes.writes_getWorld
    | apply Writes.writes_modifyClassList
    | apply Writes.writes_clientGet
    | apply Writes.writes_clientList
    | apply Writes.writes_modifyStatus
    | apply Writes.writes_bind
    | intro _
    | (simp [*]; done)
    | split
    | dsimp only

@[simp] theorem getPVC_touches {ks : List String} (v : VSHandler) (key : NamespacedName) :
    Writes (Touches ks) (v.getPVC key) := by
  unfold VSHandler.getPVC
  repeat' first
    | apply Writes.writes_pure
    | apply Writes.writes_pure2
    | apply Writes.writes_throwPanic
    | apply Writes.writes_deref
    | apply Writes.writes_getWorld
    | apply Writes.writes_modifyClassList
    | apply Writes.writes_clientGet
    | apply Writes.writes_clientList
    | apply Writes.writes_modifyStatus
    | apply Writes.writes_bind
    | intro _
    | (simp [*]; done)
    | split
    | dsimp only

@[simp] theorem removeOCMAnnotationsAndUpdate_touches {ks : List String} {α : Type} (v : VSHandler) (K : Kind α) (obj : α) (hK : K.KeepsLog) (ht : K.tag ∈ ks) :
    Writes (Touches ks) (v.removeOCMAnnotationsAndUpdate K obj) := by
  unfold VSHandler.removeOCMAnnotationsAndUpdate
  repeat' first
    | apply Writes.writes_pure
    | apply Writes.writes_pure2
    | apply Writes.writes_throwPanic
    | apply Writes.writes_deref
    | apply Writes.writes_getWorld
    | apply Writes.writes_modifyClassList
    | apply Writes.writes_clientGet
    | apply Writes.writes_clientList
    | apply Writes.writes_modifyStatus
    | apply Writes.writes_bind
    | intro _
    | (simp [*]; done)
    | split
    | dsimp only

@[simp] theorem CreateOrUpdate_touches {ks : List String} {α : Type} [DecidableEq α] (K : Kind α) (obj : α) (f : α → Option (α × Option Err)) (hK : K.KeepsLog) (ht : K.tag ∈ ks) :
    Writes (Touches ks) (CreateOrUpdate K obj f) := by
  unfold Volsync.CreateOrUpdate
  repeat' first
    | apply Writes.writes_pure
    | apply Writes.writes_pure2
    | apply Writes.writes_throwPanic
    | apply Writes.writes_deref
    | apply Writes.writes_getWorld
    | apply Writes.writes_modifyClassList
    | apply Writes.writes_clientGet
    | apply Writes.writes_clientList
    | apply Writes.writes_modifyStatus
    | apply Writes.writes_bind
    | intro _
    | (simp [*]; done)
    | split
    | dsimp only

@[simp] theorem EnsurePVCforDirectCopy_touches {ks : List String} (v : VSHandler) (rdSpec : VolSyncReplicationDestinationSpec) (h0 : pvcKind.tag ∈ ks) :
    Writes (Touches ks) (v.EnsurePVCforDirectCopy rdSpec) := by
  unfold VSHandler.EnsurePVCforDirectCopy
  repeat' first
    | apply Writes.writes_pure
    | apply Writes.writes_pure2
    | apply Writes.writes_throwPanic
    | apply Writes.writes_deref
    | apply Writes.writes_getWorld
    | apply Writes.writes_modifyClassList
    | apply Writes.writes_clientGet
    | apply Writes.writes_clientList
    | apply Writes.writes_modifyStatus
    | apply Writes.writes_bind
    | intro _
    | (simp [*]; done)
    | split
    | dsimp only

@[simp] theorem IsPVCInUseByPod_touches {ks : List String} (key : NamespacedName) (b : Bool) :
    Writes (Touches ks) (util.IsPVCInUseByPod key b) := by
  unfold util.IsPVCInUseByPod
  repeat' first
    | apply Writes.writes_pure
    | apply Writes.writes_pure2
    | apply Writes.writes_throwPanic
    | apply Writes.writes_deref
    | apply Writes.writes_getWorld
    | apply Writes.writes_modifyClassList
    | apply Writes.writes_clientGet
    | apply Writes.writes_clientList
    | apply Writes.writes_modifyStatus
    | apply Writes.writes_bind
    | intro _
    | (simp [*]; done)
    | split
    | dsimp only

@[simp] theorem IsPVAttachedToNode_touches {ks : List String} (pvc : PersistentVolumeClaim) :
    Writes (Touches ks) (util.IsPVAttachedToNode pvc) := by
  unfold util.IsPVAttachedToNode
  repeat' first
    | apply Writes.writes_pure
    | apply Writes.writes_pure2
    | apply Writes.writes_throwPanic
    | apply Writes.writes_deref
    | apply Writes.writes_getWorld
    | apply Writes.writes_modifyClassList
    | apply Writes.writes_clientGet
    | apply Writes.writes_clientList
    | apply Writes.writes_modifyStatus
    | apply Writes.writes_bind
    | intro _
    | (simp [*]; done)
    | split
    | dsimp only

@[simp] theorem pvcExistsAndInUse_touches {ks : List String} (v : VSHandler) (key : NamespacedName) (b : Bool) :
    Writes (Touches ks) (v.pvcExistsAndInUse key b) := by
  unfold VSHandler.pvcExistsAndInUse
  repeat' first
    | apply Writes.writes_pure
    | apply Writes.writes_pure2
    | apply Writes.writes_throwPanic
    | apply Writes.writes_deref
    | apply Writes.writes_getWorld
    | apply Writes.writes_modifyClassList
    | apply Writes.writes_clientGet
    | apply Writes.writes_clientList
    | apply Writes.writes_modifyStatus
    | apply Writes.writes_bind
    | intro _
    | (simp [*]; done)
    | split
    | dsimp only

@[simp] theorem IsPVCInUseByNonRDPod_touches {ks : List String} (v : VSHandler) (key : NamespacedName) :
    Writes (Touches ks) (v.IsPVCInUseByNonRDPod key) := by
  unfold VSHandler.IsPVCInUseByNonRDPod
  repeat' first
    | apply Writes.writes_pure
    | apply Writes.writes_pure2
    | apply Writes.writes_throwPanic
    | apply Writes.writes_deref
    | apply Writes.writes_getWorld
    | apply Writes.writes_modifyClassList
    | apply Writes.writes_clientGet
    | apply Writes.writes_clientList
    | apply Writes.writes_modifyStatus
    | apply Writes.writes_bind
    | intro _
    | (simp [*]; done)
    | split
    | dsimp only

@[simp] theorem PrecreateDestPVCIfEnabled_touches {ks : List String} (v : VSHandler) (rdSpec : VolSyncReplicationDestinationSpec) (h0 : pvcKind.tag ∈ ks) :
    Writes (Touches ks) (v.PrecreateDestPVCIfEnabled rdSpec) := by
  unfold VSHandler.PrecreateDestPVCIfEnabled
  repeat' first
    | apply Writes.writes_pure
    | apply Writes.writes_pure2
    | apply Writes.writes_throwPanic
    | apply Writes.writes_deref
    | apply Writes.writes_getWorld
    | apply Writes.writes_modifyClassList
    | apply Writes.writes_clientGet
    | apply Writes.writes_clientList
    | apply Writes.writes_modifyStatus
    | apply Writes.writes_bind
    | intro _
    | (simp [*]; done)
    | split
    | dsimp only

@[simp] theorem getStorageClass_touches {ks : List String} (v : VSHandler) (n : Option String) :
    Writes (Touches ks) (v.getStorageClass n) := by
  unfold VSHandler.getStorageClass
  repeat' first
    | apply Writes.writes_pure
    | apply Writes.writes_pure2
    | apply Writes.writes_throwPanic
    | apply Writes.writes_deref
    | apply Writes.writes_getWorld
    | apply Writes.writes_modifyClassList
    | apply Writes.writes_clientGet
    | apply Writes.writes_clientList
    | apply Writes.writes_modifyStatus
    | apply Writes.writes_bind
    | intro _
    | (simp [*]; done)
    | split
    | dsimp only

@[simp] theorem GetVolumeSnapshotClasses_touches {ks : List String} (v : VSHandler) :
    Writes (Touches ks) (v.GetVolumeSnapshotClasses) := by
  unfold VSHandler.GetVolumeSnapshotClasses
  repeat' first
    | apply Writes.writes_pure
    | apply Writes.writes_pure2
    | apply Writes.writes_throwPanic
    | apply Writes.writes_deref
    | apply Writes.writes_getWorld
    | apply Writes.writes_modifyClassList
    | apply Writes.writes_clientGet
    | apply Writes.writes_clientList
    | apply Writes.writes_modifyStatus
    | apply Writes.writes_bind
    | intro _
    | (simp [*]; done)
    | split
    | dsimp only

@[simp] theorem getVolumeSnapshotClassFromPVCStorageClass_touches {ks : List String} (v : VSHandler) (sc : StorageClass) :
    Writes (Touches ks) (v.getVolumeSnapshotClassFromPVCStorageClass sc) := by
  unfold VSHandler.getVolumeSnapshotClassFromPVCStorageClass
  repeat' first
    | apply Writes.writes_pure
    | apply Writes.writes_pure2
    | apply Writes.writes_throwPanic
    | apply Writes.writes_deref
    | apply Writes.writes_getWorld
    | apply Writes.writes_modifyClassList
    | apply Writes.writes_clientGet
    | apply Writes.writes_clientList
    | apply Writes.writes_modifyStatus
    | apply Writes.writes_bind
    | intro _
    | (simp [*]; done)
    | split
    | dsimp only

@[simp] theorem GetVolumeSnapshotClassFromPVCStorageClass_touches {ks : List String} (v : VSHandler) (n : Option String) :
    Writes (Touches ks) (v.GetVolumeSnapshotClassFromPVCStorageClass n) := by
  unfold VSHandler.GetVolumeSnapshotClassFromPVCStorageClass
  repeat' first
    | apply Writes.writes_pure
    | apply Writes.writes_pure2
    | apply Writes.writes_throwPanic
    | apply Writes.writes_deref
    | apply Writes.writes_getWorld
    | apply Writes.writes_modifyClassList
    | apply Writes.writes_clientGet
    | apply Writes.writes_clientList
    | apply Writes.writes_modifyStatus
    | apply Writes.writes_bind
    | intro _
    | (simp [*]; done)
    | split
    | dsimp only

@[simp] theorem createOrUpdateRD_touches {ks : List String} (v : VSHandler) (rdSpec : VolSyncReplicationDestinationSpec) (n : String) (d : Option String) (h0 : rdKind.tag ∈ ks) :
    Writes (Touches ks) (v.createOrUpdateRD rdSpec n d) := by
  unfold VSHandler.createOrUpdateRD
  repeat' first
    | apply Writes.writes_pure
    | apply Writes.writes_pure2
    | apply Writes.writes_throwPanic
    | apply Writes.writes_deref
    | apply Writes.writes_getWorld
    | apply Writes.writes_modifyClassList
    | apply Writes.writes_clientGet
    | apply Writes.writes_clientList
    | apply Writes.writes_modifyStatus
    | apply Writes.writes_bind
    | intro _
    | (simp [*]; done)
    | split
    | dsimp only

@[simp] theorem ReconcileServiceExportForRD_touches {ks : List String} (v : VSHandler) (rd : ReplicationDestination) (h0 : serviceExportKind.tag ∈ ks) :
    Writes (Touches ks) (v.ReconcileServiceExportForRD rd) := by
  unfold VSHandler.ReconcileServiceExportForRD
  repeat' first
    | apply Writes.writes_pure
    | apply Writes.writes_pure2
    | apply Writes.writes_throwPanic
    | apply Writes.writes_deref
    | apply Writes.writes_getWorld
    | apply Writes.writes_modifyClassList
    | apply Writes.writes_clientGet
    | apply Writes.writes_clientList
    | apply Writes.writes_modifyStatus
    | apply Writes.writes_bind
    | intro _
    | (simp [*]; done)
    | split
    | dsimp only

theorem restoredPVCKey_key (rdSpec : VolSyncReplicationDestinationSpec) :
    (pvcKind.meta (restoredPVCKey rdSpec)).Namespace = rdSpec.ProtectedPVC.Namespace ∧
    (pvcKind.meta (restoredPVCKey rdSpec)).Name = rdSpec.ProtectedPVC.Name := by
  unfold restoredPVCKey util.AddLabel util.metaAddLabel
  split <;> exact ⟨rfl, rfl⟩

/-- With the claim stored and the lookup answered, `ensurePVCFromSnapshot` on a claim
whose data source does not match deletes the claim and reports that. -/
theorem ensurePVCFromSnapshot_mismatch (v : VSHandler) (rdSpec : VolSyncReplicationDestinationSpec)
    (snapshotRef : TypedLocalObjectReference) (snapRestoreSize : Option Quantity) (w : World)
    (pvc0 : PersistentVolumeClaim)
    (hf : w.faults w.calls = false)
    (hget : storeGet pvcKind.meta w.pvcs rdSpec.ProtectedPVC.Namespace rdSpec.ProtectedPVC.Name
      = some pvc0)
    (hts : pvc0.ObjectMeta.CreationTimestamp ≠ 0)
    (hmis : objectRefMatches pvc0.Spec.DataSource (some snapshotRef) = false) :
    v.ensurePVCFromSnapshot rdSpec snapshotRef snapRestoreSize w =
      (clientDelete pvcKind pvc0 w.tick).map (fun r =>
        ((none, some (.msg ("pvc has incorrect datasource, will need to delete and recreate, pvc: "
          ++ pvc0.ObjectMeta.Name))), r.2)) := by
  obtain ⟨hns, hname⟩ := restoredPVCKey_key rdSpec
  have hkey : hasKey (pvcKind.meta pvc0) rdSpec.ProtectedPVC.Namespace rdSpec.ProtectedPVC.Name = true :=
    storeGet_hasKey hget
  have hmut : mutateWith pvcKind
      (VSHandler.mutateRestoredPVC rdSpec snapshotRef (VSHandler.restoreCapacity rdSpec snapRestoreSize))
      rdSpec.ProtectedPVC.Namespace rdSpec.ProtectedPVC.Name pvc0 false = some (pvc0, true, none) := by
    unfold mutateWith VSHandler.mutateRestoredPVC
    simp [hts, hmis, hkey]
  unfold VSHandler.ensurePVCFromSnapshot
  show (CreateOrUpdateWith pvcKind (restoredPVCKey rdSpec) false _ >>= _) w = _
  unfold CreateOrUpdateWith
  simp only [hns, hname, M.bind_run, clientGet_run_found (K := pvcKind) hf hget, hmut, if_true,
    M.pure_run]
  cases hd : clientDelete pvcKind pvc0 w.tick with
  | none => rfl
  | some r => rfl

theorem restoreCapacity_eq (rdSpec : VolSyncReplicationDestinationSpec)
    (snapRestoreSize : Option Quantity) :
    VSHandler.restoreCapacity rdSpec snapRestoreSize =
      some (match snapRestoreSize with
        | some r => max (rdSpec.ProtectedPVC.Requests.getD 0) r
        | none => rdSpec.ProtectedPVC.Requests.getD 0) := by
  unfold VSHandler.restoreCapacity VSHandler.ResourceListStorage
  cases snapRestoreSize with
  | none => rfl
  | some r =>
    dsimp only
    by_cases h : r > rdSpec.ProtectedPVC.Requests.getD 0
    · rw [if_pos h, max_eq_right (Nat.le_of_lt h)]
    · rw [if_neg h, max_eq_left (Nat.le_of_not_lt h)]

/-- What the `MutateFn` of `ensurePVCFromSnapshot` does to a claim: either it asks for
the recreation of a stored claim with another data source and leaves the claim alone,
or it leaves a bound claim alone, or it writes the storage request. -/
theorem mutateRestoredPVC_inv (rdSpec : VolSyncReplicationDestinationSpec)
    (snapshotRef : TypedLocalObjectReference) (cap : Option Quantity)
    (pvc o1 : PersistentVolumeClaim) (s1 : Bool) (e : Option Err)
    (h : VSHandler.mutateRestoredPVC rdSpec snapshotRef cap pvc false = some (o1, s1, e)) :
    e = none ∧ o1.ObjectMeta.Name = pvc.ObjectMeta.Name ∧
    o1.ObjectMeta.Namespace = pvc.ObjectMeta.Namespace ∧ o1.Phase = pvc.Phase ∧
    ((s1 = true ∧ o1 = pvc ∧ pvc.ObjectMeta.CreationTimestamp ≠ 0 ∧
        objectRefMatches pvc.Spec.DataSource (some snapshotRef) = false) ∨
     (s1 = false ∧ (pvc.Phase = ClaimBound → o1 = pvc) ∧
        (pvc.Phase ≠ ClaimBound → o1.Spec.Requests = cap ∧ cap.isSome = true))) := by
  unfold VSHandler.mutateRestoredPVC at h
  split at h
  · rename_i hc
    simp only [Option.some.injEq, Prod.mk.injEq] at h
    obtain ⟨rfl, rfl, rfl⟩ := h
    simp only [Bool.and_eq_true, bne_iff_ne, ne_eq, Bool.not_eq_true'] at hc
    exact ⟨rfl, rfl, rfl, rfl, Or.inl ⟨rfl, rfl, hc.1, hc.2⟩⟩
  · split at h
    · rename_i hb
      simp only [Option.some.injEq, Prod.mk.injEq] at h
      obtain ⟨rfl, rfl, rfl⟩ := h
      have hb1 : pvc.Phase = ClaimBound := by simpa using hb
      exact ⟨rfl, rfl, rfl, rfl, Or.inr ⟨rfl, fun _ => rfl, fun hn => absurd hb1 hn⟩⟩
    · rename_i hb
      have hb1 : pvc.Phase ≠ ClaimBound := by simpa using hb
      cases cap with
      | none => simp at h
      | some q =>
        simp only [Option.some.injEq, Prod.mk.injEq] at h
        obtain ⟨rfl, rfl, rfl⟩ := h
        refine ⟨rfl, ?_, ?_, ?_, Or.inr ⟨rfl, fun hn => absurd hn hb1, fun _ => ⟨rfl, rfl⟩⟩⟩
        · split <;> rfl
        · split <;> rfl
        · split <;> rfl

theorem mutateWith_ok {α σ : Type} {K : Kind α} {f : α → σ → Option (α × σ × Option Err)}
    {ns name : String} {o o1 : α} {s s1 : σ}
    (h : mutateWith K f ns name o s = some (o1, s1, none)) :
    f o s = some (o1, s1, none) ∧ hasKey (K.meta o1) ns name = true := by
  unfold mutateWith at h
  split at h
  · simp at h
  · simp at h
  · rename_i o2 s2 hf
    split at h
    · rename_i hk
      simp only [Option.some.injEq, Prod.mk.injEq, and_true] at h
      obtain ⟨rfl, rfl⟩ := h
      exact ⟨hf, hk⟩
    · simp at h

/-- A successful `CreateOrUpdate` returns what the `MutateFn` made of the stored
object, or of the given one as the server stored it on creation. -/
theorem CreateOrUpdateWith_ok {α σ : Type} [DecidableEq α] {K : Kind α} {obj : α} {s s1 : σ}
    {f : α → σ → Option (α × σ × Option Err)} {w w1 : World} {op : OperationResult} {o1 : α}
    (h : CreateOrUpdateWith K obj s f w = some ((op, o1, s1, none), w1)) :
    (∃ o0, storeGet K.meta (K.objs w) (K.meta obj).Namespace (K.meta obj).Name = some o0 ∧
        f o0 s = some (o1, s1, none)) ∨
    (storeGet K.meta (K.objs w) (K.meta obj).Namespace (K.meta obj).Name = none ∧
      ∃ o2, f obj s = some (o2, s1, none) ∧ o1 = asCreated K o2 (w.calls + 2)) := by
  unfold CreateOrUpdateWith at h
  rw [M.bind_eq_some] at h
  obtain ⟨r, wa, hget, h⟩ := h
  cases r with
  | error e =>
    obtain ⟨hwa, he⟩ := clientGet_error hget
    dsimp only at h
    split at h
    · generalize hm : mutateWith K f (K.meta obj).Namespace (K.meta obj).Name obj s = mres at h
      rcases mres with _ | ⟨o2, s2, _ | e2⟩
      · simp at h
      · dsimp only at h
        rw [M.bind_eq_some] at h
        obtain ⟨⟨o3, cerr⟩, wb, hc, h⟩ := h
        cases cerr with
        | some e3 => simp at h
        | none =>
          simp only [M.pure_run, Option.some.injEq, Prod.mk.injEq, true_and, and_true] at h
          obtain ⟨⟨-, rfl, rfl⟩, rfl⟩ := h
          obtain ⟨hf, hk⟩ := mutateWith_ok hm
          obtain ⟨-, ho, -⟩ := clientCreate_ok hc
          rename_i hnf
          have hnone : storeGet K.meta (K.objs w) (K.meta obj).Namespace (K.meta obj).Name = none := by
            rcases he with rfl | ⟨-, hn⟩
            · simp [Err.IsNotFound] at hnf
            · exact hn
          refine Or.inr ⟨hnone, o2, hf, ?_⟩
          rw [ho, hwa]
          rfl
      · simp at h
    · simp at h
  | ok existing =>
    obtain ⟨hs, hwa⟩ := clientGet_ok hget
    dsimp only at h
    generalize hm : mutateWith K f (K.meta obj).Namespace (K.meta obj).Name existing s = mres at h
    rcases mres with _ | ⟨o2, s2, _ | e2⟩
    · simp at h
    · dsimp only at h
      obtain ⟨hf, hk⟩ := mutateWith_ok hm
      split at h
      · simp only [M.pure_run, Option.some.injEq, Prod.mk.injEq, true_and, and_true] at h
        obtain ⟨⟨-, rfl, rfl⟩, rfl⟩ := h
        exact Or.inl ⟨existing, hs, hf⟩
      · rw [M.bind_eq_some] at h
        obtain ⟨uerr, wb, hu, h⟩ := h
        cases uerr with
        | some e3 => simp at h
        | none =>
          simp only [M.pure_run, Option.some.injEq, Prod.mk.injEq, true_and, and_true] at h
          obtain ⟨⟨-, rfl, rfl⟩, rfl⟩ := h
          exact Or.inl ⟨existing, hs, hf⟩
    · simp at h

theorem objectRefMatches_iff (ds : Option TypedLocalObjectReference)
    (ref : TypedLocalObjectReference) :
    objectRefMatches ds (some ref) = true ↔
      ∃ d, ds = some d ∧ d.Kind = ref.Kind ∧ d.Name = ref.Name := by
  unfold objectRefMatches
  cases ds with
  | none => simp
  | some d => simp

/-- On a claim that needs no recreation the `MutateFn` of `ensurePVCFromSnapshot`
returns a claim and leaves the captured flag alone. -/
theorem mutateRestoredPVC_run (rdSpec : VolSyncReplicationDestinationSpec)
    (snapshotRef : TypedLocalObjectReference) (q : Quantity) (pvc : PersistentVolumeClaim)
    (h : pvc.ObjectMeta.CreationTimestamp = 0 ∨
      objectRefMatches pvc.Spec.DataSource (some snapshotRef) = true) :
    ∃ o1, VSHandler.mutateRestoredPVC rdSpec snapshotRef (some q) pvc false = some (o1, false, none) := by
  unfold VSHandler.mutateRestoredPVC
  have hc : (pvc.ObjectMeta.CreationTimestamp != 0
      && !objectRefMatches pvc.Spec.DataSource (some snapshotRef)) = false := by
    rcases h with h | h <;> simp [h]
  rw [hc]
  simp only [Bool.false_eq_true, if_false]
  split
  · exact ⟨_, rfl⟩
  · exact ⟨_, rfl⟩

/-- With the claim stored and the lookup answered, `ensurePVCFromSnapshot` on a claim
whose data source matches returns, fails only when the update fails, and issues at most
an update of the claim. -/
theorem ensurePVCFromSnapshot_match (v : VSHandler) (rdSpec : VolSyncReplicationDestinationSpec)
    (snapshotRef : TypedLocalObjectReference) (snapRestoreSize : Option Quantity) (w : World)
    (pvc0 : PersistentVolumeClaim)
    (hf : w.faults w.calls = false)
    (hget : storeGet pvcKind.meta w.pvcs rdSpec.ProtectedPVC.Namespace rdSpec.ProtectedPVC.Name
      = some pvc0)
    (hmatch : objectRefMatches pvc0.Spec.DataSource (some snapshotRef) = true) :
    ∃ r wd, v.ensurePVCFromSnapshot rdSpec snapshotRef snapRestoreSize w = some (r, wd) ∧
      (r.2 = none ∨ (r.2 = some .transient ∧ w.faults (w.calls + 1) = true)) ∧
      (wd.log = w.log ∨ wd.log = w.log ++ [⟨.update, "PersistentVolumeClaim",
        rdSpec.ProtectedPVC.Namespace, rdSpec.ProtectedPVC.Name⟩]) := by
  obtain ⟨hns, hname⟩ := restoredPVCKey_key rdSpec
  have hkey : hasKey (pvcKind.meta pvc0) rdSpec.ProtectedPVC.Namespace rdSpec.ProtectedPVC.Name = true :=
    storeGet_hasKey hget
  obtain ⟨o1, ho1⟩ := mutateRestoredPVC_run rdSpec snapshotRef _ pvc0 (Or.inr hmatch)
  rw [← restoreCapacity_eq rdSpec snapRestoreSize] at ho1
  obtain ⟨-, hn1, hns1, -, -⟩ := mutateRestoredPVC_inv _ _ _ _ _ _ _ ho1
  have hk := (hasKey_iff _ _ _).mp hkey
  have hkey1 : hasKey (pvcKind.meta o1) rdSpec.ProtectedPVC.Namespace rdSpec.ProtectedPVC.Name = true := by
    apply (hasKey_iff _ _ _).mpr
    exact ⟨hns1.trans hk.1, hn1.trans hk.2⟩
  have hk1 := (hasKey_iff _ _ _).mp hkey1
  have hmut : mutateWith pvcKind
      (VSHandler.mutateRestoredPVC rdSpec snapshotRef (VSHandler.restoreCapacity rdSpec snapRestoreSize))
      rdSpec.ProtectedPVC.Namespace rdSpec.ProtectedPVC.Name pvc0 false = some (o1, false, none) := by
    unfold mutateWith
    rw [ho1]
    simp [hkey1]
  unfold VSHandler.ensurePVCFromSnapshot
  show ∃ r wd, (CreateOrUpdateWith pvcKind (restoredPVCKey rdSpec) false _ >>= _) w = _ ∧ _
  unfold CreateOrUpdateWith
  simp only [hns, hname, M.bind_run, clientGet_run_found (K := pvcKind) hf hget, hmut]
  by_cases heq : o1 = pvc0
  · rw [if_pos heq]
    exact ⟨_, _, rfl, Or.inl rfl, Or.inl rfl⟩
  · rw [if_neg heq]
    by_cases hf1 : w.faults (w.calls + 1) = true
    · have hu : clientUpdate pvcKind o1 w.tick = some (some .transient,
          w.tick.logged ⟨.update, pvcKind.tag, (pvcKind.meta o1).Namespace, (pvcKind.meta o1).Name⟩) := by
        unfold clientUpdate
        have : w.tick.faults w.tick.calls = true := hf1
        simp only [this, if_true]
        rfl
      simp only [M.bind_run, hu]
      refine ⟨_, _, rfl, Or.inr ⟨rfl, hf1⟩, Or.inr ?_⟩
      show w.log ++ [_] = _
      rw [hk1.1, hk1.2]
      rfl
    · have hf2 : w.tick.faults w.tick.calls = false := by simpa using hf1
      have hg2 : storeGet pvcKind.meta (pvcKind.objs w.tick) (pvcKind.meta o1).Namespace
          (pvcKind.meta o1).Name = some pvc0 := by
        rw [hk1.1, hk1.2]
        exact hget
      simp only [M.bind_run, clientUpdate_run_found (K := pvcKind) hf2 hg2]
      refine ⟨_, _, rfl, Or.inl rfl, Or.inr ?_⟩
      show w.log ++ [_] = _
      rw [hk1.1, hk1.2]
      rfl

theorem storeDelete_pvc_spec (l : List PersistentVolumeClaim) (ns name : String) (now : Nat) :
    ∀ x ∈ storeDelete pvcKind l ns name now, ∃ x0 ∈ l, x.Spec = x0.Spec ∧
      x.ObjectMeta.Name = x0.ObjectMeta.Name ∧ x.ObjectMeta.Namespace = x0.ObjectMeta.Namespace := by
  intro x hx
  unfold storeDelete at hx
  rw [List.mem_filterMap] at hx
  obtain ⟨x0, hx0, h⟩ := hx
  refine ⟨x0, hx0, ?_⟩
  split at h
  · split at h
    · simp at h
    · simp only [Option.some.injEq] at h
      subst h
      refine ⟨rfl, ?_, ?_⟩
      · show (markDeleted _ _).Name = _
        rw [markDeleted_name]
        rfl
      · show (markDeleted _ _).Namespace = _
        rw [markDeleted_namespace]
        rfl
  · simp only [Option.some.injEq] at h
    subst h
    exact ⟨rfl, rfl, rfl⟩

/-- A delete of a claim adds the call to the log and leaves the spec of every claim
it keeps as it was. -/
theorem clientDelete_pvc_effect (o : PersistentVolumeClaim) (w : World) :
    ∃ r wd, clientDelete pvcKind o w = some (r, wd) ∧
      wd.log = w.log ++ [⟨.delete, "PersistentVolumeClaim", o.ObjectMeta.Namespace, o.ObjectMeta.Name⟩] ∧
      ∀ x ∈ wd.pvcs, ∃ x0 ∈ w.pvcs, x.Spec = x0.Spec ∧
        x.ObjectMeta.Name = x0.ObjectMeta.Name ∧ x.ObjectMeta.Namespace = x0.ObjectMeta.Namespace := by
  unfold clientDelete
  dsimp only
  split
  · exact ⟨_, _, rfl, rfl, fun x hx => ⟨x, hx, rfl, rfl, rfl⟩⟩
  · split
    · exact ⟨_, _, rfl, rfl, fun x hx => ⟨x, hx, rfl, rfl, rfl⟩⟩
    · exact ⟨_, _, rfl, rfl, fun x hx => storeDelete_pvc_spec _ _ _ _ x hx⟩

theorem mutate_of_mutateWith {α σ : Type} (K : Kind α) (f : α → σ → Option (α × σ × Option Err))
    (ns name : String) (o : α) (s : σ) :
    mutate K (fun o => (f o s).map (fun r => (r.1, r.2.2))) ns name o =
      (mutateWith K f ns name o s).map (fun r => (r.1, r.2.2)) := by
  unfold mutate mutateWith
  dsimp only
  cases hf : f o s with
  | none => rfl
  | some r =>
    obtain ⟨o1, s1, e⟩ := r
    cases e with
    | some e1 => rfl
    | none =>
      simp only [Option.map_some']
      split <;> rfl

/-- Forgetting the captured variable, `CreateOrUpdate` with a `MutateFn` that assigns
it is `CreateOrUpdate`. -/
theorem CreateOrUpdateWith_plain {α σ : Type} [DecidableEq α] {K : Kind α} {obj : α} {s s1 : σ}
    {f : α → σ → Option (α × σ × Option Err)} {w w1 : World} {op : OperationResult} {o1 : α}
    {e : Option Err}
    (h : CreateOrUpdateWith K obj s f w = some ((op, o1, s1, e), w1)) :
    CreateOrUpdate K obj (fun o => (f o s).map (fun r => (r.1, r.2.2))) w = some ((op, o1, e), w1) := by
  unfold CreateOrUpdateWith at h
  unfold CreateOrUpdate
  rw [M.bind_eq_some] at h
  obtain ⟨r, wa, hget, h⟩ := h
  simp only [M.bind_run, hget, mutate_of_mutateWith]
  cases r with
  | error e0 =>
    dsimp only at h ⊢
    split at h
    · rename_i hnf
      rw [if_pos hnf]
      generalize mutateWith K f (K.meta obj).Namespace (K.meta obj).Name obj s = mres at h
      rcases mres with _ | ⟨o2, s2, _ | e2⟩
      · simp at h
      · dsimp only at h
        rw [M.bind_eq_some] at h
        obtain ⟨⟨o3, cerr⟩, wb, hc, h⟩ := h
        simp only [Option.map_some', M.bind_run, hc]
        cases cerr with
        | some e3 =>
          simp only [M.pure_run, Option.some.injEq, Prod.mk.injEq] at h ⊢
          obtain ⟨⟨h1, h2, -, h3⟩, h4⟩ := h
          exact ⟨⟨h1, h2, h3⟩, h4⟩
        | none =>
          simp only [M.pure_run, Option.some.injEq, Prod.mk.injEq] at h ⊢
          obtain ⟨⟨h1, h2, -, h3⟩, h4⟩ := h
          exact ⟨⟨h1, h2, h3⟩, h4⟩
      · simp only [M.pure_run, Option.some.injEq, Prod.mk.injEq, Option.map_some'] at h ⊢
        obtain ⟨⟨h1, h2, -, h3⟩, h4⟩ := h
        exact ⟨⟨h1, h2, h3⟩, h4⟩
    · rename_i hnf
      rw [if_neg hnf]
      simp only [M.pure_run, Option.some.injEq, Prod.mk.injEq] at h ⊢
      obtain ⟨⟨h1, h2, -, h3⟩, h4⟩ := h
      exact ⟨⟨h1, h2, h3⟩, h4⟩
  | ok existing =>
    dsimp only at h ⊢
    generalize mutateWith K f (K.meta obj).Namespace (K.meta obj).Name existing s = mres at h
    rcases mres with _ | ⟨o2, s2, _ | e2⟩
    · simp at h
    · simp only [Option.map_some']
      dsimp only at h
      split at h
      · rename_i heq
        rw [if_pos heq]
        simp only [M.pure_run, Option.some.injEq, Prod.mk.injEq] at h ⊢
        obtain ⟨⟨h1, h2, -, h3⟩, h4⟩ := h
        exact ⟨⟨h1, h2, h3⟩, h4⟩
      · rename_i heq
        rw [if_neg heq]
        rw [M.bind_eq_some] at h
        obtain ⟨uerr, wb, hu, h⟩ := h
        simp only [M.bind_run, hu]
        cases uerr with
        | some e3 =>
          simp only [M.pure_run, Option.some.injEq, Prod.mk.injEq] at h ⊢
          obtain ⟨⟨h1, h2, -, h3⟩, h4⟩ := h
          exact ⟨⟨h1, h2, h3⟩, h4⟩
        | none =>
          simp only [M.pure_run, Option.some.injEq, Prod.mk.injEq] at h ⊢
          obtain ⟨⟨h1, h2, -, h3⟩, h4⟩ := h
          exact ⟨⟨h1, h2, h3⟩, h4⟩
    · simp only [M.pure_run, Option.some.injEq, Prod.mk.injEq, Option.map_some'] at h ⊢
      obtain ⟨⟨h1, h2, -, h3⟩, h4⟩ := h
      exact ⟨⟨h1, h2, h3⟩, h4⟩

theorem mutateRestoredPVC_meta (rdSpec : VolSyncReplicationDestinationSpec)
    (snapshotRef : TypedLocalObjectReference) (cap : Option Quantity)
    (pvc o1 : PersistentVolumeClaim) (s s1 : Bool) (e : Option Err)
    (h : VSHandler.mutateRestoredPVC rdSpec snapshotRef cap pvc s = some (o1, s1, e)) :
    o1.ObjectMeta.DeletionTimestamp = pvc.ObjectMeta.DeletionTimestamp ∧
    o1.ObjectMeta.Finalizers = pvc.ObjectMeta.Finalizers := by
  unfold VSHandler.mutateRestoredPVC at h
  split at h
  · simp only [Option.some.injEq, Prod.mk.injEq] at h
    obtain ⟨rfl, -, -⟩ := h
    exact ⟨rfl, rfl⟩
  · split at h
    · simp only [Option.some.injEq, Prod.mk.injEq] at h
      obtain ⟨rfl, -, -⟩ := h
      exact ⟨rfl, rfl⟩
    · cases cap with
      | none => simp at h
      | some q =>
        simp only [Option.some.injEq, Prod.mk.injEq] at h
        obtain ⟨rfl, -, -⟩ := h
        constructor <;> (split <;> rfl)

theorem mem_storeDelete_other {α : Type} {K : Kind α} {l : List α} {ns name : String} {now : Nat}
    {x : α} (hx : x ∈ l) (hk : hasKey (K.meta x) ns name = false) :
    x ∈ storeDelete K l ns name now := by
  unfold storeDelete
  rw [List.mem_filterMap]
  exact ⟨x, hx, by simp [hk]⟩

theorem markDeleted_finalizers (m : ObjectMeta) (now : Nat) :
    (markDeleted m now).Finalizers = m.Finalizers := by
  unfold markDeleted; split <;> rfl

/-- What a delete leaves in the store of snapshots keeps its key and finalizers, and
under the deleted key only what a finalizer holds. -/
theorem storeDelete_snapshot_finalizers (l : List VolumeSnapshot) (ns name : String) (now : Nat) :
    ∀ y ∈ storeDelete snapshotKind l ns name now, ∃ x ∈ l,
      x.ObjectMeta.Name = y.ObjectMeta.Name ∧ x.ObjectMeta.Namespace = y.ObjectMeta.Namespace ∧
      x.ObjectMeta.Finalizers = y.ObjectMeta.Finalizers ∧
      (hasKey x.ObjectMeta ns name = true → x.ObjectMeta.Finalizers ≠ []) := by
  intro y hy
  unfold storeDelete at hy
  rw [List.mem_filterMap] at hy
  obtain ⟨x, hx, h⟩ := hy
  refine ⟨x, hx, ?_⟩
  split at h
  · split at h
    · simp at h
    · rename_i hfin
      simp only [Option.some.injEq] at h
      subst h
      refine ⟨?_, ?_, ?_, fun _ => hfin⟩
      · show _ = (markDeleted _ _).Name
        rw [markDeleted_name]
        rfl
      · show _ = (markDeleted _ _).Namespace
        rw [markDeleted_namespace]
        rfl
      · show _ = (markDeleted _ _).Finalizers
        rw [markDeleted_finalizers]
        rfl
  · rename_i hk
    simp only [Option.some.injEq] at h
    subst h
    exact ⟨rfl, rfl, rfl, fun hk1 => absurd hk1 hk⟩

/-- One delete of a snapshot that the server accepts, or that finds nothing. -/
theorem clientDelete_snapshot_step (s : VolumeSnapshot) (wa wb : World) (r : Option Err)
    (h : clientDelete snapshotKind s wa = some (r, wb)) (hr : r = none ∨ r = some .notFound) :
    Pruned [s] wa wb := by
  rcases hr with rfl | rfl
  · obtain ⟨-, hwb⟩ := clientDelete_ok h
    subst hwb
    refine ⟨rfl, ?_, ?_, ?_, ?_, ?_⟩
    · intro x hx hk
      exact mem_storeDelete_other (K := snapshotKind) hx (hk s (List.mem_singleton.mpr rfl))
    · intro s1 hs1 y hy hk
      rw [List.mem_singleton] at hs1
      subst hs1
      exact storeDelete_key snapshotKind_lawful (Nat.succ_ne_zero _) hy hk
    · intro y hy
      exact storeDelete_shrink snapshotKind_lawful hy
    · intro y hy
      obtain ⟨x, hx, h1, h2, h3, -⟩ := storeDelete_snapshot_finalizers _ _ _ _ y hy
      exact ⟨x, hx, h1, h2, h3⟩
    · intro s1 hs1 hfin y hy
      rw [List.mem_singleton] at hs1
      subst hs1
      obtain ⟨x, hx, h1, h2, -, h4⟩ := storeDelete_snapshot_finalizers _ _ _ _ y hy
      cases hk : hasKey y.ObjectMeta s1.ObjectMeta.Namespace s1.ObjectMeta.Name with
      | false => rfl
      | true =>
        have hkx : hasKey x.ObjectMeta s1.ObjectMeta.Namespace s1.ObjectMeta.Name = true := by
          rw [hasKey_iff] at hk ⊢
          exact ⟨h2.trans hk.1, h1.trans hk.2⟩
        exact absurd (hfin x hx hkx) (h4 hkx)
  · obtain ⟨hwb, he⟩ := clientDelete_err h
    subst hwb
    have hnone : storeGet snapshotKind.meta wa.snapshots s.ObjectMeta.Namespace s.ObjectMeta.Name
        = none := by
      rcases he with he | ⟨-, hn⟩
      · exact absurd he (by decide)
      · exact hn
    refine ⟨rfl, fun x hx _ => hx, ?_, fun y hy => ⟨y, hy, rfl, rfl, rfl, id⟩,
      fun y hy => ⟨y, hy, rfl, rfl, rfl⟩, ?_⟩
    · intro s1 hs1 y hy hk
      rw [List.mem_singleton] at hs1
      subst hs1
      exact KeyGone_of_none (K := snapshotKind) hnone y hy hk
    · intro s1 hs1 _ y hy
      rw [List.mem_singleton] at hs1
      subst hs1
      exact storeGet_none hnone hy

theorem Pruned.pruned_cons {s : VolumeSnapshot} {rest : List VolumeSnapshot} {wa wb w1 : World}
    (h1 : Pruned [s] wa wb) (h2 : Pruned rest wb w1) : Pruned (s :: rest) wa w1 := by
  refine ⟨?_, ?_, ?_, ?_, ?_, ?_⟩
  · rw [h2.log, h1.log]
    simp
  · intro x hx hk
    refine h2.keeps x (h1.keeps x hx ?_) ?_
    · intro s1 hs1
      rw [List.mem_singleton] at hs1
      subst hs1
      exact hk _ (List.mem_cons_self _ _)
    · intro s1 hs1
      exact hk s1 (List.mem_cons_of_mem _ hs1)
  · intro s1 hs1 y hy hk
    rcases List.mem_cons.mp hs1 with rfl | hs1
    · obtain ⟨x, hx, hn, hns, -, hdel⟩ := h2.shrinks y hy
      apply hdel
      apply h1.gone s1 (List.mem_singleton.mpr rfl) x hx
      rw [hasKey_iff] at hk ⊢
      exact ⟨hns.trans hk.1, hn.trans hk.2⟩
    · exact h2.gone s1 hs1 y hy hk
  · intro y hy
    obtain ⟨x, hx, hn, hns, hl, hdel⟩ := h2.shrinks y hy
    obtain ⟨x0, hx0, hn0, hns0, hl0, hdel0⟩ := h1.shrinks x hx
    exact ⟨x0, hx0, hn0.trans hn, hns0.trans hns, hl0.trans hl, fun h => hdel (hdel0 h)⟩
  · intro y hy
    obtain ⟨x, hx, hn, hns, hfin⟩ := h2.finalizers y hy
    obtain ⟨x0, hx0, hn0, hns0, hfin0⟩ := h1.finalizers x hx
    exact ⟨x0, hx0, hn0.trans hn, hns0.trans hns, hfin0.trans hfin⟩
  · intro s1 hs1 hempty y hy
    rcases List.mem_cons.mp hs1 with rfl | hs1
    · obtain ⟨x, hx, hn, hns, -⟩ := h2.finalizers y hy
      have hx1 := h1.removed s1 (List.mem_singleton.mpr rfl) hempty x hx
      cases hk : hasKey y.ObjectMeta s1.ObjectMeta.Namespace s1.ObjectMeta.Name with
      | false => rfl
      | true =>
        have hkx : hasKey x.ObjectMeta s1.ObjectMeta.Namespace s1.ObjectMeta.Name = true := by
          rw [hasKey_iff] at hk ⊢
          exact ⟨hns.trans hk.1, hn.trans hk.2⟩
        rw [hkx] at hx1
        exact absurd hx1 (by decide)
    · apply h2.removed s1 hs1 _ y hy
      intro x hx hk
      obtain ⟨x0, hx0, hn0, hns0, hfin0⟩ := h1.finalizers x hx
      rw [← hfin0]
      apply hempty x0 hx0
      rw [hasKey_iff] at hk ⊢
      exact ⟨hns0.trans hk.1, hn0.trans hk.2⟩

/-- A run of `deleteVolumeSnapshots` that returns nil has deleted every snapshot of
the list. -/
theorem deleteVolumeSnapshots_post (v : VSHandler) (l : List VolumeSnapshot) (wa w1 : World)
    (h : v.deleteVolumeSnapshots l wa = some (none, w1)) : Pruned l wa w1 := by
  induction l generalizing wa with
  | nil =>
    simp only [VSHandler.deleteVolumeSnapshots, M.pure_run, Option.some.injEq, Prod.mk.injEq,
      true_and] at h
    subst h
    exact ⟨by simp, fun x hx _ => hx, by simp, fun y hy => ⟨y, hy, rfl, rfl, rfl, id⟩,
      fun y hy => ⟨y, hy, rfl, rfl, rfl⟩, by simp⟩
  | cons s rest ih =>
    unfold VSHandler.deleteVolumeSnapshots at h
    rw [M.bind_eq_some] at h
    obtain ⟨err, wb, hd, h⟩ := h
    cases err with
    | none =>
      simp only [Bool.false_eq_true, if_false] at h
      exact (clientDelete_snapshot_step s wa wb none hd (Or.inl rfl)).pruned_cons (ih wb h)
    | some e =>
      cases e with
      | notFound =>
        simp only [Err.IsNotFound, Bool.not_true, Bool.false_eq_true, if_false] at h
        exact (clientDelete_snapshot_step s wa wb _ hd (Or.inr rfl)).pruned_cons (ih wb h)
      | alreadyExists => simp [Err.IsNotFound] at h
      | transient => simp [Err.IsNotFound] at h
      | msg t => simp [Err.IsNotFound] at h

/-- Without client failures `deleteVolumeSnapshots` returns nil. -/
theorem deleteVolumeSnapshots_runs (v : VSHandler) (l : List VolumeSnapshot) (wa : World)
    (hf : NoFaults wa) : ∃ w1, v.deleteVolumeSnapshots l wa = some (none, w1) := by
  induction l generalizing wa with
  | nil => exact ⟨wa, rfl⟩
  | cons s rest ih =>
    unfold VSHandler.deleteVolumeSnapshots
    cases hd : clientDelete snapshotKind s wa with
    | none =>
      unfold clientDelete at hd
      simp only [hf wa.calls, Bool.false_eq_true, if_false] at hd
      split at hd <;> simp at hd
    | some p =>
      obtain ⟨r, wb⟩ := p
      have hfb : NoFaults wb := by
        intro n
        rw [clientDelete_faults (K := snapshotKind) (fun _ _ => rfl) hd]
        exact hf n
      obtain ⟨w1, hrest⟩ := ih wb hfb
      refine ⟨w1, ?_⟩
      rw [M.bind_run, hd]
      dsimp only
      rcases clientDelete_cases (hf _) hd with ⟨rfl, -, -⟩ | ⟨rfl, -⟩
      · simpa [Err.IsNotFound] using hrest
      · simpa using hrest

theorem clientList_inv {α : Type} {K : Kind α} {ns : String} {sel : ObjectMeta → Bool}
    {w w1 : World} {r : Except Err (List α)} (h : clientList K ns sel w = some (r, w1)) :
    w1 = w.tick ∧ (r = .error .transient ∨
      r = .ok ((K.objs w).filter (fun o => (ns == "" || (K.meta o).Namespace == ns) && sel (K.meta o)))) := by
  unfold clientList at h
  dsimp only at h
  split at h
  · simp only [Option.some.injEq, Prod.mk.injEq] at h
    exact ⟨h.2.symm, Or.inl h.1.symm⟩
  · simp only [Option.some.injEq, Prod.mk.injEq] at h
    exact ⟨h.2.symm, Or.inr h.1.symm⟩

/-- A run of `pruneOldSnapshots` that returns nil: with at most one snapshot of the
group in the namespace only the list call was made; with more, the snapshots sorted by
creation time are `doomed ++ [newest]` and `doomed` was deleted. -/
theorem pruneOldSnapshots_post (v : VSHandler) (ns : String) (w w1 : World)
    (h : v.pruneOldSnapshots ns w = some (none, w1)) :
    ((prunable v ns w).length ≤ 1 → w1 = w.tick) ∧
    (2 ≤ (prunable v ns w).length → ∃ doomed newest,
      (prunable v ns w).insertionSort VSHandler.notAfter = doomed ++ [newest] ∧
      Pruned doomed w.tick w1) := by
  unfold VSHandler.pruneOldSnapshots VSHandler.listByOwner at h
  rw [M.bind_eq_some] at h
  obtain ⟨r, wa, hl, h⟩ := h
  obtain ⟨hwa, hr⟩ := clientList_inv hl
  subst hwa
  rcases hr with rfl | rfl
  · simp at h
  · dsimp only at h
    change (if (prunable v ns w).length ≤ 1 then (_ : M (Option Err)) else _) w.tick = _ at h
    constructor
    · intro hle
      rw [if_pos hle] at h
      simp only [M.pure_run, Option.some.injEq, Prod.mk.injEq, true_and] at h
      exact h.symm
    · intro hge
      rw [if_neg (by omega)] at h
      have hlen : ((prunable v ns w).insertionSort VSHandler.notAfter).length
          = (prunable v ns w).length := List.length_insertionSort _ _
      have hne : (prunable v ns w).insertionSort VSHandler.notAfter ≠ [] := by
        intro hnil
        rw [hnil] at hlen
        simp at hlen
        omega
      refine ⟨((prunable v ns w).insertionSort VSHandler.notAfter).dropLast,
        ((prunable v ns w).insertionSort VSHandler.notAfter).getLast hne,
        (List.dropLast_append_getLast hne).symm, ?_⟩
      rw [List.dropLast_eq_take]
      exact deleteVolumeSnapshots_post v _ _ _ h

/-- Without client failures `pruneOldSnapshots` returns nil. -/
theorem pruneOldSnapshots_runs (v : VSHandler) (ns : String) (w : World) (hf : NoFaults w) :
    ∃ w1, v.pruneOldSnapshots ns w = some (none, w1) := by
  unfold VSHandler.pruneOldSnapshots VSHandler.listByOwner
  rw [M.bind_run, clientList_run (hf _)]
  dsimp only
  split
  · exact ⟨_, rfl⟩
  · exact deleteVolumeSnapshots_runs v _ _ (fun n => hf n)

/-- With distinct creation times and unique keys, the last of the sorted snapshots is
the newest one, differs from every other, and shares its key with none of them. -/
theorem sorted_split_newest (v : VSHandler) (ns : String) (w : World)
    (doomed : List VolumeSnapshot) (newest : VolumeSnapshot)
    (hkeys : UniqueKeys w.snapshots)
    (hdist : (prunable v ns w).Pairwise
      (fun a b => a.ObjectMeta.CreationTimestamp ≠ b.ObjectMeta.CreationTimestamp))
    (hsplit : (prunable v ns w).insertionSort VSHandler.notAfter = doomed ++ [newest]) :
    newest ∈ prunable v ns w ∧
    (∀ s ∈ prunable v ns w, s.ObjectMeta.CreationTimestamp ≤ newest.ObjectMeta.CreationTimestamp) ∧
    (∀ s, s ∈ doomed ↔ s ∈ prunable v ns w ∧ s ≠ newest) ∧
    (∀ s ∈ doomed, hasKey newest.ObjectMeta s.ObjectMeta.Namespace s.ObjectMeta.Name = false) ∧
    (∀ s ∈ doomed, s.ObjectMeta.CreationTimestamp < newest.ObjectMeta.CreationTimestamp) := by
  have hperm := List.perm_insertionSort VSHandler.notAfter (prunable v ns w)
  rw [hsplit] at hperm
  have hsorted := List.sorted_insertionSort VSHandler.notAfter (prunable v ns w)
  rw [hsplit] at hsorted
  have hmem : ∀ s, s ∈ prunable v ns w ↔ s ∈ doomed ∨ s = newest := by
    intro s
    rw [← hperm.mem_iff]
    simp
  have hd2 : (doomed ++ [newest]).Pairwise
      (fun a b => a.ObjectMeta.CreationTimestamp ≠ b.ObjectMeta.CreationTimestamp) :=
    (hperm.pairwise_iff (fun h => Ne.symm h)).mpr hdist
  have hne : ∀ s ∈ doomed, s.ObjectMeta.CreationTimestamp ≠ newest.ObjectMeta.CreationTimestamp := by
    intro s hs
    exact (List.pairwise_append.mp hd2).2.2 s hs newest (List.mem_singleton.mpr rfl)
  have hle : ∀ s ∈ doomed, s.ObjectMeta.CreationTimestamp ≤ newest.ObjectMeta.CreationTimestamp := by
    intro s hs
    exact (List.pairwise_append.mp hsorted).2.2 s hs newest (List.mem_singleton.mpr rfl)
  have hsub : ∀ s ∈ prunable v ns w, s ∈ w.snapshots := fun s hs => (List.mem_filter.mp hs).1
  refine ⟨(hmem newest).mpr (Or.inr rfl), ?_, ?_, ?_,
    fun s hs => Nat.lt_of_le_of_ne (hle s hs) (hne s hs)⟩
  · intro s hs
    rcases (hmem s).mp hs with hs | rfl
    · exact hle s hs
    · exact Nat.le_refl _
  · intro s
    constructor
    · intro hs
      refine ⟨(hmem s).mpr (Or.inl hs), ?_⟩
      rintro rfl
      exact hne s hs rfl
    · rintro ⟨hs, hneq⟩
      rcases (hmem s).mp hs with hs | rfl
      · exact hs
      · exact absurd rfl hneq
  · intro s hs
    cases hk : hasKey newest.ObjectMeta s.ObjectMeta.Namespace s.ObjectMeta.Name with
    | false => rfl
    | true =>
      have hkk := (hasKey_iff _ _ _).mp hk
      have heq := hkeys newest (hsub _ ((hmem newest).mpr (Or.inr rfl))) s
        (hsub _ ((hmem s).mpr (Or.inl hs))) hkk.1 hkk.2
      exact absurd (by rw [heq]) (hne s hs)

theorem two_le_length_of_ne {α : Type} {l : List α} {a b : α} (ha : a ∈ l) (hb : b ∈ l)
    (hne : a ≠ b) : 2 ≤ l.length := by
  match l, ha, hb with
  | [x], ha, hb =>
    rw [List.mem_singleton] at ha hb
    exact absurd (ha.trans hb.symm) hne
  | _ :: _ :: _, _, _ => simp

theorem mapGet_eq_iff (m : Option StrMap) (k val : String) (hval : val ≠ "") :
    (mapGet m k == val) = (mapLookup m k == some val) := by
  unfold mapGet
  cases h : mapLookup m k with
  | none =>
    simp only [Option.getD_none]
    have : ("" == val) = false := by
      simp only [beq_eq_false_iff_ne, ne_eq]
      exact fun h => hval h.symm
    rw [this]
    rfl
  | some x =>
    simp only [Option.getD_some]
    by_cases hx : x = val
    · subst hx; simp
    · have h1 : (x == val) = false := by simpa using hx
      have h2 : (some x == some val) = false := by
        simp only [beq_eq_false_iff_ne, ne_eq, Option.some.injEq]
        exact hx
      rw [h1, h2]

/-- The test of the loop of `CleanupRDNotInSpecList`, in the words of `superseded`. -/
theorem superseded_eq (rdSpecList : List VolSyncReplicationDestinationSpec)
    (rd : ReplicationDestination) :
    superseded rdSpecList rd =
      (!VSHandler.foundInSpecList rdSpecList rd
        && !(mapGet rd.ObjectMeta.Labels VolSyncDoNotDeleteLabel == VolSyncDoNotDeleteLabelVal)) := by
  unfold superseded VSHandler.foundInSpecList getReplicationDestinationName
  rw [mapGet_eq_iff _ _ _ (by decide)]
  congr 1
  induction rdSpecList with
  | nil => rfl
  | cons x rest ih =>
    simp only [List.all_cons, List.any_cons, Bool.not_or]
    rw [ih]

/-- A delete of a destination logs the call and leaves the claims alone. -/
theorem clientDelete_rd_effect (rd : ReplicationDestination) (wa wb : World) (r : Option Err)
    (h : clientDelete rdKind rd wa = some (r, wb)) :
    wb.log = wa.log ++ [destinationDelete rd] ∧ wb.pvcs = wa.pvcs ∧ wb.faults = wa.faults := by
  unfold clientDelete at h
  dsimp only at h
  split at h
  · simp only [Option.some.injEq, Prod.mk.injEq] at h
    rw [← h.2]
    exact ⟨rfl, rfl, rfl⟩
  · split at h
    · simp only [Option.some.injEq, Prod.mk.injEq] at h
      rw [← h.2]
      exact ⟨rfl, rfl, rfl⟩
    · simp only [Option.some.injEq, Prod.mk.injEq] at h
      rw [← h.2]
      exact ⟨rfl, rfl, rfl⟩

/-- The only call `util.DeletePVC` may issue is the delete of the claim. -/
theorem DeletePVC_log (name ns : String) (w w1 : World) (r : Option Err)
    (h : util.DeletePVC name ns w = some (r, w1)) :
    (w1.log = w.log ∨ w1.log = w.log ++ [⟨.delete, "PersistentVolumeClaim", ns, name⟩]) ∧
    w1.faults = w.faults := by
  unfold util.DeletePVC at h
  rw [M.bind_eq_some] at h
  obtain ⟨g, wa, hg, h⟩ := h
  cases g with
  | error e =>
    obtain ⟨hwa, -⟩ := clientGet_error hg
    subst hwa
    dsimp only at h
    split at h <;>
    · simp only [M.pure_run, Option.some.injEq, Prod.mk.injEq] at h
      rw [← h.2]
      exact ⟨Or.inl rfl, rfl⟩
  | ok pvc =>
    obtain ⟨hs, hwa⟩ := clientGet_ok hg
    subst hwa
    have hk := (hasKey_iff _ _ _).mp (storeGet_hasKey hs)
    dsimp only at h
    rw [M.bind_eq_some] at h
    obtain ⟨d, wb, hd, h⟩ := h
    have hlog : wb.log = w.log ++ [⟨.delete, "PersistentVolumeClaim", ns, name⟩] ∧
        wb.faults = w.faults := by
      unfold clientDelete at hd
      dsimp only at hd
      have e1 : (pvcKind.meta pvc).Namespace = ns := hk.1
      have e2 : (pvcKind.meta pvc).Name = name := hk.2
      rw [e1, e2] at hd
      split at hd
      · simp only [Option.some.injEq, Prod.mk.injEq] at hd
        rw [← hd.2]
        exact ⟨rfl, rfl⟩
      · split at hd
        · simp only [Option.some.injEq, Prod.mk.injEq] at hd
          rw [← hd.2]
          exact ⟨rfl, rfl⟩
        · simp only [Option.some.injEq, Prod.mk.injEq] at hd
          rw [← hd.2]
          exact ⟨rfl, rfl⟩
    cases d with
    | none =>
      simp only [M.pure_run, Option.some.injEq, Prod.mk.injEq] at h
      rw [← h.2]
      exact ⟨Or.inr hlog.1, hlog.2⟩
    | some e =>
      dsimp only at h
      split at h <;>
      · simp only [M.pure_run, Option.some.injEq, Prod.mk.injEq] at h
        rw [← h.2]
        exact ⟨Or.inr hlog.1, hlog.2⟩

/-- Without client failures `util.DeletePVC` returns nil. -/
theorem DeletePVC_runs (name ns : String) (w : World) (hf : NoFaults w) :
    ∃ w1, util.DeletePVC name ns w = some (none, w1) := by
  unfold util.DeletePVC
  cases hs : storeGet pvcKind.meta (pvcKind.objs w) ns name with
  | none =>
    rw [M.bind_run, clientGet_run_missing (hf _) hs]
    exact ⟨_, rfl⟩
  | some pvc =>
    rw [M.bind_run, clientGet_run_found (hf _) hs]
    dsimp only
    have hk := (hasKey_iff _ _ _).mp (storeGet_hasKey hs)
    have hs2 : storeGet pvcKind.meta (pvcKind.objs w.tick) (pvcKind.meta pvc).Namespace
        (pvcKind.meta pvc).Name = some pvc := by
      rw [hk.1, hk.2]
      exact hs
    rw [M.bind_run, clientDelete_run_found (w := w.tick) (hf _) hs2]
    exact ⟨_, rfl⟩

theorem Swept.swept_skip {rdSpecList : List VolSyncReplicationDestinationSpec}
    {repState : ReplicationState} {rd : ReplicationDestination}
    {rest : List ReplicationDestination} {wa w1 : World} {r : Option Err} {l : List Call}
    (hno : superseded rdSpecList rd = false) (h : Swept rdSpecList repState rest wa w1 r l) :
    Swept rdSpecList repState (rd :: rest) wa w1 r l := by
  refine ⟨h.log, ?_, h.claims, h.shrinks, ?_, ?_⟩
  · intro c hc
    rcases h.only c hc with ⟨x, hx, hs, he⟩ | ⟨hst, x, hx, hs, he⟩
    · exact Or.inl ⟨x, List.mem_cons_of_mem _ hx, hs, he⟩
    · exact Or.inr ⟨hst, x, List.mem_cons_of_mem _ hx, hs, he⟩
  · intro hr x hx hs
    rcases List.mem_cons.mp hx with rfl | hx
    · rw [hno] at hs
      exact absurd hs (by decide)
    · exact h.every hr x hx hs
  · intro hr hst x hx hs
    rcases List.mem_cons.mp hx with rfl | hx
    · rw [hno] at hs
      exact absurd hs (by decide)
    · exact h.gone hr hst x hx hs

/-- The post-condition of the loop of `CleanupRDNotInSpecList`. -/
theorem CleanupRDNotInSpecList_loop_post (rdSpecList : List VolSyncReplicationDestinationSpec)
    (repState : ReplicationState) (items : List ReplicationDestination) (wa w1 : World)
    (r : Option Err)
    (h : VSHandler.CleanupRDNotInSpecList.loop rdSpecList repState items wa = some (r, w1)) :
    ∃ l, Swept rdSpecList repState items wa w1 r l := by
  induction items generalizing wa with
  | nil =>
    simp only [VSHandler.CleanupRDNotInSpecList.loop, M.pure_run, Option.some.injEq,
      Prod.mk.injEq] at h
    obtain ⟨-, rfl⟩ := h
    exact ⟨[], by simp, by simp, fun _ => rfl, fun x hx => ⟨x, hx, rfl, rfl, id⟩, by simp, by simp⟩
  | cons rd rest ih =>
    have hsup := superseded_eq rdSpecList rd
    unfold VSHandler.CleanupRDNotInSpecList.loop at h
    by_cases hfound : VSHandler.foundInSpecList rdSpecList rd = true
    · simp only [hfound, Bool.not_true, Bool.false_eq_true, if_false] at h
      obtain ⟨l, hl⟩ := ih wa h
      exact ⟨l, hl.swept_skip (by rw [hsup, hfound]; rfl)⟩
    · have hfound1 : VSHandler.foundInSpecList rdSpecList rd = false := by simpa using hfound
      simp only [hfound1, Bool.not_false, if_true] at h
      by_cases hlab : (mapGet rd.ObjectMeta.Labels VolSyncDoNotDeleteLabel
          == VolSyncDoNotDeleteLabelVal) = true
      · rw [if_pos hlab] at h
        obtain ⟨l, hl⟩ := ih wa h
        exact ⟨l, hl.swept_skip (by rw [hsup, hlab]; simp)⟩
      · rw [if_neg hlab] at h
        have hyes : superseded rdSpecList rd = true := by
          rw [hsup, hfound1]
          simpa using hlab
        rw [M.bind_eq_some] at h
        obtain ⟨derr, wb, hd, h⟩ := h
        obtain ⟨hblog, hbpvcs, -⟩ := clientDelete_rd_effect rd wa wb derr hd
        by_cases hst : repState = ReplicationState.Secondary
        · subst hst
          simp only [beq_self_eq_true, if_true] at h
          rw [M.bind_eq_some] at h
          obtain ⟨perr, wc, hp, h⟩ := h
          obtain ⟨hclog, -⟩ := DeletePVC_log _ _ _ _ _ hp
          have hcshr := DeletePVC_pvcs _ _ _ _ _ hp
          obtain ⟨lp, hlp, hlpsub⟩ : ∃ lp, wc.log = wb.log ++ lp ∧ ∀ c ∈ lp, c = claimDelete rd := by
            rcases hclog with hc | hc
            · exact ⟨[], by rw [hc]; simp, by simp⟩
            · exact ⟨[claimDelete rd], hc, by simp⟩
          cases perr with
          | some e =>
            simp only [M.pure_run, Option.some.injEq, Prod.mk.injEq] at h
            obtain ⟨rfl, rfl⟩ := h
            refine ⟨destinationDelete rd :: lp, ?_, ?_, ?_, ?_, ?_, ?_⟩
            · rw [hlp, hblog]; simp
            · intro c hc
              rcases List.mem_cons.mp hc with rfl | hc
              · exact Or.inl ⟨rd, List.mem_cons_self _ _, hyes, rfl⟩
              · exact Or.inr ⟨rfl, rd, List.mem_cons_self _ _, hyes, hlpsub c hc⟩
            · intro hn; exact absurd rfl hn
            · intro x hx
              obtain ⟨x0, hx0, h1, h2, h3⟩ := hcshr x hx
              exact ⟨x0, hbpvcs ▸ hx0, h1, h2, h3⟩
            · intro hr; exact absurd hr (by simp)
            · intro hr; exact absurd hr (by simp)
          | none =>
            dsimp only at h
            obtain ⟨l, hl⟩ := ih wc h
            have hgone0 := DeletePVC_ok _ _ _ _ hp
            refine ⟨destinationDelete rd :: (lp ++ l), ?_, ?_, ?_, ?_, ?_, ?_⟩
            · rw [hl.log, hlp, hblog]; simp
            · intro c hc
              rcases List.mem_cons.mp hc with rfl | hc
              · exact Or.inl ⟨rd, List.mem_cons_self _ _, hyes, rfl⟩
              · rcases List.mem_append.mp hc with hc | hc
                · exact Or.inr ⟨rfl, rd, List.mem_cons_self _ _, hyes, hlpsub c hc⟩
                · rcases hl.only c hc with ⟨x, hx, hs, he⟩ | ⟨hst1, x, hx, hs, he⟩
                  · exact Or.inl ⟨x, List.mem_cons_of_mem _ hx, hs, he⟩
                  · exact Or.inr ⟨hst1, x, List.mem_cons_of_mem _ hx, hs, he⟩
            · intro hn; exact absurd rfl hn
            · intro x hx
              obtain ⟨x1, hx1, h1, h2, h3⟩ := hl.shrinks x hx
              obtain ⟨x0, hx0, h4, h5, h6⟩ := hcshr x1 hx1
              exact ⟨x0, hbpvcs ▸ hx0, h4.trans h1, h5.trans h2, fun hh => h3 (h6 hh)⟩
            · intro hr x hx hs
              rcases List.mem_cons.mp hx with rfl | hx
              · exact List.mem_cons_self _ _
              · exact List.mem_cons_of_mem _ (List.mem_append_right _ (hl.every hr x hx hs))
            · intro hr hst1 x hx hs y hy hk
              rcases List.mem_cons.mp hx with rfl | hx
              · obtain ⟨y1, hy1, h1, h2, h3⟩ := hl.shrinks y hy
                apply h3
                apply hgone0 y1 hy1
                rw [hasKey_iff] at hk ⊢
                exact ⟨h2.trans hk.1, h1.trans hk.2⟩
              · exact hl.gone hr hst1 x hx hs y hy hk
        · have hst1 : (repState == ReplicationState.Secondary) = false := by simpa using hst
          simp only [hst1, Bool.false_eq_true, if_false] at h
          obtain ⟨l, hl⟩ := ih wb h
          refine ⟨destinationDelete rd :: l, ?_, ?_, ?_, ?_, ?_, ?_⟩
          · rw [hl.log, hblog]; simp
          · intro c hc
            rcases List.mem_cons.mp hc with rfl | hc
            · exact Or.inl ⟨rd, List.mem_cons_self _ _, hyes, rfl⟩
            · rcases hl.only c hc with ⟨x, hx, hs, he⟩ | ⟨hst2, x, hx, hs, he⟩
              · exact Or.inl ⟨x, List.mem_cons_of_mem _ hx, hs, he⟩
              · exact Or.inr ⟨hst2, x, List.mem_cons_of_mem _ hx, hs, he⟩
          · intro hn
            rw [hl.claims hn, hbpvcs]
          · intro x hx
            obtain ⟨x1, hx1, h1, h2, h3⟩ := hl.shrinks x hx
            exact ⟨x1, hbpvcs ▸ hx1, h1, h2, h3⟩
          · intro hr x hx hs
            rcases List.mem_cons.mp hx with rfl | hx
            · exact List.mem_cons_self _ _
            · exact List.mem_cons_of_mem _ (hl.every hr x hx hs)
          · intro hr hst2
            exact absurd hst2 hst

/-- Without client failures the loop of `CleanupRDNotInSpecList` returns nil. -/
theorem CleanupRDNotInSpecList_loop_runs (rdSpecList : List VolSyncReplicationDestinationSpec)
    (repState : ReplicationState) (items : List ReplicationDestination) (wa : World)
    (hf : NoFaults wa) :
    ∃ w1, VSHandler.CleanupRDNotInSpecList.loop rdSpecList repState items wa = some (none, w1) := by
  induction items generalizing wa with
  | nil => exact ⟨wa, rfl⟩
  | cons rd rest ih =>
    unfold VSHandler.CleanupRDNotInSpecList.loop
    split
    · split
      · exact ih wa hf
      · cases hd : clientDelete rdKind rd wa with
        | none =>
          unfold clientDelete at hd
          simp only [hf wa.calls, Bool.false_eq_true, if_false] at hd
          split at hd <;> simp at hd
        | some p =>
          obtain ⟨derr, wb⟩ := p
          have hfb : NoFaults wb := by
            intro n
            rw [(clientDelete_rd_effect rd wa wb derr hd).2.2]
            exact hf n
          rw [M.bind_run, hd]
          dsimp only
          split
          · obtain ⟨wc, hp⟩ := DeletePVC_runs rd.ObjectMeta.Name rd.ObjectMeta.Namespace wb hfb
            have hfc : NoFaults wc := by
              intro n
              rw [(DeletePVC_log _ _ _ _ _ hp).2]
              exact hfb n
            rw [M.bind_run, hp]
            exact ih wc hfc
          · exact ih wb hfb
    · exact ih wa hf

/-- Without access modes `EnsurePVCforDirectCopy` returns an error and leaves the
state, the call counter included, as it was: no client call is made. -/
theorem EnsurePVCforDirectCopy_needs_access_modes (v : VSHandler)
    (rdSpec : VolSyncReplicationDestinationSpec) (w : World)
    (h : rdSpec.ProtectedPVC.AccessModes = []) :
    v.EnsurePVCforDirectCopy rdSpec w =
      some (some (.msg "accessModes must be provided for PVC"), w) := by
  unfold VSHandler.EnsurePVCforDirectCopy
  simp [h]

/-- The capacity test of `EnsurePVCforDirectCopy` never fires: the storage entry of a
resource list is never nil. -/
theorem EnsurePVCforDirectCopy_capacity_test_dead (requests : Option Quantity) :
    (VSHandler.ResourceListStorage requests).isNone = false := rfl

theorem decimalValue_append (xs ys : List Char) :
    decimalValue (xs ++ ys) = ys.foldl (fun acc c => acc * 10 + (c.toNat - 48)) (decimalValue xs) := by
  unfold decimalValue
  rw [List.foldl_append]

theorem digitChar_isDigit (k : Nat) (hk : k < 10) :
    (Nat.digitChar k).isDigit = true ∧ (Nat.digitChar k).toNat - 48 = k := by
  interval_cases k <;> exact ⟨by decide, by decide⟩

theorem toDigitsCore_acc (fuel : Nat) : ∀ (n : Nat) (acc : List Char),
    Nat.toDigitsCore 10 fuel n acc = Nat.toDigitsCore 10 fuel n [] ++ acc := by
  induction fuel with
  | zero => intro n acc; simp [Nat.toDigitsCore]
  | succ f ih =>
    intro n acc
    simp only [Nat.toDigitsCore]
    by_cases h : n / 10 = 0
    · simp [h]
    · simp only [h, if_false]
      rw [ih (n / 10) (Nat.digitChar (n % 10) :: acc), ih (n / 10) [Nat.digitChar (n % 10)]]
      simp

theorem toDigitsCore_value (fuel : Nat) : ∀ (n : Nat), n < fuel →
    decimalValue (Nat.toDigitsCore 10 fuel n []) = n ∧
    (∀ c ∈ Nat.toDigitsCore 10 fuel n [], c.isDigit = true) ∧
    Nat.toDigitsCore 10 fuel n [] ≠ [] := by
  induction fuel with
  | zero => intro n h; omega
  | succ f ih =>
    intro n hn
    have hd := digitChar_isDigit (n % 10) (Nat.mod_lt _ (by decide))
    simp only [Nat.toDigitsCore]
    by_cases h : n / 10 = 0
    · simp only [h, if_true]
      refine ⟨?_, ?_, by simp⟩
      · simp only [decimalValue, List.foldl, hd.2]
        omega
      · intro c hc
        simp at hc
        subst hc
        exact hd.1
    · simp only [h, if_false]
      rw [toDigitsCore_acc]
      have hlt : n / 10 < f := by omega
      obtain ⟨h1, h2, h3⟩ := ih (n / 10) hlt
      refine ⟨?_, ?_, by simp [h3]⟩
      · rw [decimalValue_append, h1]
        simp only [List.foldl, hd.2]
        omega
      · intro c hc
        rw [List.mem_append] at hc
        rcases hc with hc | hc
        · exact h2 c hc
        · simp at hc
          subst hc
          exact hd.1

/-- The decimal writing of a number: its characters are digits, there is at least one,
and they denote the number. -/
theorem repr_digits (n : Nat) :
    decimalValue (toString n).data = n ∧ (∀ c ∈ (toString n).data, c.isDigit = true) ∧
    (toString n).data ≠ [] :=
  toDigitsCore_value (n + 1) n (Nat.lt_succ_self n)

/-- What `Atoi` returns on a non-empty string of decimal digits. -/
theorem Atoi_digits (ds : List Char) (hne : ds ≠ []) (hd : ∀ c ∈ ds, c.isDigit = true) :
    Atoi (String.mk ds) =
      if decimalValue ds < 2 ^ 63 then some (decimalValue ds : Int) else none := by
  cases ds with
  | nil => exact absurd rfl hne
  | cons c r =>
    have hc := hd c (List.mem_cons_self _ _)
    have hm : c ≠ '-' := by rintro rfl; exact absurd hc (by decide)
    have hp : c ≠ '+' := by rintro rfl; exact absurd hc (by decide)
    have hall : (c :: r).all Char.isDigit = true := by
      rw [List.all_eq_true]; exact hd
    have hsplit : Atoi.match_1 (fun _ => Bool × List Char) (c :: r) (fun r => (true, r))
        (fun r => (false, r)) (fun cs => (false, cs)) = (false, c :: r) := by
      split
      · rename_i h; injection h with h1 h2; exact absurd h1 hm
      · rename_i h; injection h with h1 h2; exact absurd h1 hp
      · rfl
    unfold Atoi
    dsimp only
    rw [hsplit]
    simp only [hall, List.isEmpty_cons, Bool.not_true, Bool.false_eq_true, if_false,
      decimalValue, ge_iff_le]
    generalize List.foldl (fun acc c => acc * 10 + (c.toNat - 48)) 0 (c :: r) = n
    by_cases hlt : n < 2 ^ 63
    · rw [if_neg (Nat.not_le.mpr hlt), if_pos hlt]
    · rw [if_pos (Nat.not_lt.mp hlt), if_neg hlt]

theorem utf8ByteSize_go_ge (l : List Char) : l.length ≤ String.utf8ByteSize.go l := by
  induction l with
  | nil => simp [String.utf8ByteSize.go]
  | cons c cs ih =>
    simp only [String.utf8ByteSize.go, List.length_cons]
    have := Char.utf8Size_pos c
    omega

theorem utf8ByteSize_ge_length (s : String) : s.data.length ≤ s.utf8ByteSize := by
  cases s with
  | mk l => exact utf8ByteSize_go_ge l

theorem cron_ne_empty (a b : String) (x : String) (h : a.data ≠ []) :
    ((a ++ x ++ b) == "") = false := by
  rw [beq_eq_false_iff_ne]
  intro he
  have := congrArg String.data he
  simp [String.data_append] at this
  exact h this.1

theorem cron_ne_empty_prop (a b : String) (x : String) (h : a.data ≠ []) :
    ¬ (a ++ x ++ b = "") := by
  have := cron_ne_empty a b x h
  rwa [beq_eq_false_iff_ne] at this

/-- What `ConvertSchedulingIntervalToCronSpec` computes on an interval of at least two
bytes, in terms of its last character and of the text before it. -/
theorem Convert_long (s : String) (c : Char) (hlen : 2 ≤ s.utf8ByteSize)
    (hlast : s.data.getLast? = some c) :
    ConvertSchedulingIntervalToCronSpec s =
      match (if decide (c.toNat ≥ 128) then none else Atoi (String.mk s.data.dropLast)) with
      | none => (none, some (.msg ("scheduling interval prefix " ++ String.mk s.data.dropLast
          ++ " cannot be convered to an int value")))
      | some numInt =>
        if c.toLower = 'm' then (some ("*/" ++ String.mk s.data.dropLast ++ " * * * *"), none)
        else if c.toLower = 'h' then (some ("0 */" ++ String.mk s.data.dropLast ++ " * * *"), none)
        else if c.toLower = 'd' then
          (some ("0 0 */" ++ (if numInt > CronSpecMaxDayOfMonth then "28"
            else String.mk s.data.dropLast) ++ " * *"), none)
        else (none, some (.msg ("scheduling interval " ++ s ++ " is invalid. Unable to parse m/h/d"))) := by
  unfold ConvertSchedulingIntervalToCronSpec
  have h2 : ¬ s.utf8ByteSize < SchedulingIntervalMinLength := by
    simp only [SchedulingIntervalMinLength]; omega
  simp only [h2, if_false, hlast]
  cases hA : (if decide (c.toNat ≥ 128) then none else Atoi (String.mk s.data.dropLast)) with
  | none => simp only [hA]
  | some n =>
    simp only [hA]
    by_cases hm : c.toLower = 'm'
    · simp only [hm, beq_self_eq_true, if_true, cron_ne_empty "*/" " * * * *" _ (by decide),
        Bool.false_eq_true, if_false]
    · by_cases hh : c.toLower = 'h'
      · have e1 : (c.toLower == 'm') = false := by rw [hh]; decide
        simp only [hh, e1, beq_self_eq_true, if_true, cron_ne_empty "0 */" " * * *" _ (by decide),
          Bool.false_eq_true, if_false]
        simp [cron_ne_empty_prop "0 */" " * * *" _ (by decide)]
      · by_cases hd : c.toLower = 'd'
        · have e1 : (c.toLower == 'm') = false := by rw [hd]; decide
          have e2 : (c.toLower == 'h') = false := by rw [hd]; decide
          simp only [hd, e1, e2, beq_self_eq_true, if_true, cron_ne_empty "0 0 */" " * *" _ (by decide),
            Bool.false_eq_true, if_false]
          simp [cron_ne_empty_prop "0 0 */" " * *" _ (by decide)]
        · have e1 : (c.toLower == 'm') = false := beq_eq_false_iff_ne.mpr hm
          have e2 : (c.toLower == 'h') = false := beq_eq_false_iff_ne.mpr hh
          have e3 : (c.toLower == 'd') = false := beq_eq_false_iff_ne.mpr hd
          simp only [hm, hh, hd, e1, e2, e3, Bool.false_eq_true, if_false]
          simp

/-- What `ConvertSchedulingIntervalToCronSpec` returns on the decimal writing of a
number that fits a machine int, followed by one ASCII character. -/
theorem Convert_decimal (N : Nat) (hfit : N < 2 ^ 63) (c : Char) (hc : c.toNat < 128)
    (suf : String) (hs : suf.data = [c]) :
    ConvertSchedulingIntervalToCronSpec (toString N ++ suf) =
      if c.toLower = 'm' then (some ("*/" ++ toString N ++ " * * * *"), none)
      else if c.toLower = 'h' then (some ("0 */" ++ toString N ++ " * * *"), none)
      else if c.toLower = 'd' then
        (some ("0 0 */" ++ (if N > 28 then "28" else toString N) ++ " * *"), none)
      else (none, some (.msg ("scheduling interval " ++ (toString N ++ suf)
        ++ " is invalid. Unable to parse m/h/d"))) := by
  obtain ⟨hv, hdig, hne⟩ := repr_digits N
  have hdata : (toString N ++ suf).data = (toString N).data ++ [c] := by
    rw [String.data_append, hs]
  have hlast : (toString N ++ suf).data.getLast? = some c := by
    rw [hdata]; simp
  have hdrop : (toString N ++ suf).data.dropLast = (toString N).data := by
    rw [hdata]; simp
  have hlen : 2 ≤ (toString N ++ suf).utf8ByteSize := by
    have h1 := utf8ByteSize_ge_length (toString N ++ suf)
    rw [hdata, List.length_append] at h1
    have h2 : 0 < (toString N).data.length := List.length_pos.mpr hne
    simp only [List.length_singleton] at h1
    omega
  have hA : Atoi (toString N) = some (N : Int) := by
    have := Atoi_digits (toString N).data hne hdig
    rw [hv, if_pos hfit] at this
    exact this
  rw [Convert_long _ c hlen hlast, hdrop]
  have hnb : decide (c.toNat ≥ 128) = false := by
    rw [decide_eq_false_iff_not]; omega
  have hmk : String.mk (toString N).data = toString N := rfl
  simp only [hnb, Bool.false_eq_true, if_false, hmk, hA, CronSpecMaxDayOfMonth]
  have hcmp : ((N : Int) > 28) = (N > 28) := by
    apply propext; constructor <;> intro h <;> omega
  simp only [hcmp]

theorem Atoi_empty : Atoi (String.mk []) = none := rfl

/-- What `Atoi` returns fits a machine int. -/
theorem Atoi_range (s : String) (n : Int) (h : Atoi s = some n) :
    -(2 : Int) ^ 63 ≤ n ∧ n < 2 ^ 63 := by
  unfold Atoi at h
  dsimp only at h
  generalize Atoi.match_1 (fun _ => Bool × List Char) s.data (fun r => (true, r))
    (fun r => (false, r)) (fun cs => (false, cs)) = p at h
  obtain ⟨neg, ds⟩ := p
  dsimp only at h
  generalize List.foldl (fun acc c => acc * 10 + (c.toNat - 48)) 0 ds = k at h
  split at h
  · cases h
  · split at h
    · cases h
    · split at h
      · split at h
        · cases h
        · cases h
          rename_i hk
          constructor <;> omega
      · split at h
        · cases h
        · cases h
          rename_i hk
          constructor <;> omega

/-- An interval on which `ConvertSchedulingIntervalToCronSpec` does not take its
success branch gets an error and no cron expression. -/
theorem Convert_error_or_success (s : String) :
    (∃ e, ConvertSchedulingIntervalToCronSpec s = (none, some e)) ∨
    (∃ c n cron, s.data.getLast? = some c ∧ c.toNat < 128 ∧
      Atoi (String.mk s.data.dropLast) = some n ∧
      (c.toLower = 'm' ∨ c.toLower = 'h' ∨ c.toLower = 'd') ∧
      ConvertSchedulingIntervalToCronSpec s = (some cron, none)) := by
  by_cases hlen : s.utf8ByteSize < SchedulingIntervalMinLength
  · left
    unfold ConvertSchedulingIntervalToCronSpec
    simp only [hlen, if_true]
    exact ⟨_, rfl⟩
  · cases hlast : s.data.getLast? with
    | none =>
      left
      unfold ConvertSchedulingIntervalToCronSpec
      simp only [hlen, if_false, hlast]
      exact ⟨_, rfl⟩
    | some c =>
      have h2 : 2 ≤ s.utf8ByteSize := by
        simp only [SchedulingIntervalMinLength] at hlen; omega
      rw [Convert_long s c h2 hlast]
      by_cases hb : c.toNat ≥ 128
      · left
        simp only [hb, decide_True, if_true]
        exact ⟨_, rfl⟩
      · simp only [hb, decide_False, Bool.false_eq_true, if_false]
        cases hA : Atoi (String.mk s.data.dropLast) with
        | none => left; exact ⟨_, rfl⟩
        | some n =>
          dsimp only
          by_cases hm : c.toLower = 'm'
          · right
            exact ⟨c, n, _, rfl, by omega, rfl, Or.inl hm, by rw [if_pos hm]⟩
          · by_cases hh : c.toLower = 'h'
            · right
              exact ⟨c, n, _, rfl, by omega, rfl, Or.inr (Or.inl hh), by rw [if_neg hm, if_pos hh]⟩
            · by_cases hd : c.toLower = 'd'
              · right
                exact ⟨c, n, _, rfl, by omega, rfl, Or.inr (Or.inr hd),
                  by rw [if_neg hm, if_neg hh, if_pos hd]⟩
              · left
                rw [if_neg hm, if_neg hh, if_neg hd]
                exact ⟨_, rfl⟩

/-- On a volume that is found and has no claim reference `retainPVForPVC` does not
return: it reads the name of the missing reference. -/
theorem retainPVForPVC_nil_claimRef (v : VSHandler) (pvc : PersistentVolumeClaim) (w : World)
    (pv : PersistentVolume) (hf : w.faults w.calls = false)
    (hpv : storeGet pvKind.meta w.pvs "" pvc.Spec.VolumeName = some pv)
    (hcr : pv.Spec.ClaimRef = none) :
    v.retainPVForPVC pvc w = none := by
  have hget : clientGet pvKind "" pvc.Spec.VolumeName w = some (.ok pv, w.tick) :=
    clientGet_run_found hf hpv
  unfold VSHandler.retainPVForPVC
  rw [M.bind_run, hget]
  simp only [hcr, Option.isSome_none, Bool.false_eq_true, if_false]
  by_cases hp : (pv.Spec.PersistentVolumeReclaimPolicy == PersistentVolumeReclaimRetain) = true
  · simp only [hp, if_true, M.bind_run, hcr]
    rfl
  · simp only [hp, if_false, M.bind_run, M.pure_run, Bool.false_eq_true, hcr]
    rfl

/-- With an annotations map on the object, `addBackOCMAnnotationsAndUpdate` is the one
update that writes the recorded entries of the application manager over that map. -/
theorem addBackOCMAnnotationsAndUpdate_of_map {α : Type} (v : VSHandler) (K : Kind α) (obj : α)
    (annotations : Option StrMap) (m : StrMap) (h : (K.meta obj).Annotations = some m) :
    v.addBackOCMAnnotationsAndUpdate K obj annotations =
      clientUpdate K (K.setMeta obj { K.meta obj with
        Annotations := some (List.foldl (fun acc p => mapSet acc p.1 p.2) m
          ((annotations.getD []).filter
            (fun p => HasPrefix p.1 "apps.open-cluster-management.io"))) }) := by
  unfold VSHandler.addBackOCMAnnotationsAndUpdate
  funext w
  rw [h]
  cases hl : (annotations.getD []).filter
      (fun p => HasPrefix p.1 "apps.open-cluster-management.io") with
  | nil => simp only [hl, M.bind_run, M.pure_run, List.foldl]
  | cons a l => simp only [hl, M.bind_run, M.pure_run]

/-- Without an annotations map on the object, `addBackOCMAnnotationsAndUpdate` does not
return as soon as one recorded entry is of the application manager. -/
theorem addBackOCMAnnotationsAndUpdate_nil_map {α : Type} (v : VSHandler) (K : Kind α) (obj : α)
    (annotations : Option StrMap) (w : World) (h : (K.meta obj).Annotations = none)
    (hA : ∃ p ∈ annotations.getD [], HasPrefix p.1 "apps.open-cluster-management.io" = true) :
    v.addBackOCMAnnotationsAndUpdate K obj annotations w = none := by
  unfold VSHandler.addBackOCMAnnotationsAndUpdate
  rw [h]
  cases hl : (annotations.getD []).filter
      (fun p => HasPrefix p.1 "apps.open-cluster-management.io") with
  | nil =>
    obtain ⟨p, hp, hpre⟩ := hA
    have : p ∈ (annotations.getD []).filter
        (fun p => HasPrefix p.1 "apps.open-cluster-management.io") :=
      List.mem_filter.mpr ⟨hp, hpre⟩
    rw [hl] at this
    cases this
  | cons a l =>
    simp only [hl, M.bind_run]
    rfl

theorem clientGet_run_fault {α : Type} {K : Kind α} {w : World} {ns name : String}
    (hf : w.faults w.calls = true) :
    clientGet K ns name w = some (.error .transient, w.tick) := by
  simp [clientGet, hf, World.tick]

/-- With the lookup of the source failing, `setupForFinalSync` says stop. -/
theorem setupForFinalSync_run_fault (v : VSHandler) (rsSpec : VolSyncReplicationSourceSpec)
    (runFinalSync : Bool) (w : World) (hf : w.faults w.calls = true) :
    v.setupForFinalSync rsSpec runFinalSync w = some (true, w.tick) := by
  unfold VSHandler.setupForFinalSync VSHandler.getRS
  simp only [M.bind_run, clientGet_run_fault hf, M.pure_run]
  rfl

/-- With no source stored, `setupForFinalSync` says proceed. -/
theorem setupForFinalSync_run_missing (v : VSHandler) (rsSpec : VolSyncReplicationSourceSpec)
    (runFinalSync : Bool) (w : World) (hf : w.faults w.calls = false)
    (hnone : storeGet rsKind.meta w.rss rsSpec.ProtectedPVC.Namespace
      (getReplicationSourceName rsSpec.ProtectedPVC.Name) = none) :
    v.setupForFinalSync rsSpec runFinalSync w = some (false, w.tick) := by
  unfold VSHandler.setupForFinalSync VSHandler.getRS
  simp only [M.bind_run, clientGet_run_missing hf hnone, M.pure_run]
  rfl

/-- With the source found and no final sync asked for, `setupForFinalSync` says stop
exactly when the source is in the prepared state. -/
theorem setupForFinalSync_run_found (v : VSHandler) (rsSpec : VolSyncReplicationSourceSpec)
    (w : World) (rs : ReplicationSource) (hf : w.faults w.calls = false)
    (hrs : storeGet rsKind.meta w.rss rsSpec.ProtectedPVC.Namespace
      (getReplicationSourceName rsSpec.ProtectedPVC.Name) = some rs) :
    v.setupForFinalSync rsSpec false w = some (preparedForFinalSync rs, w.tick) := by
  unfold VSHandler.setupForFinalSync VSHandler.getRS
  simp only [M.bind_run, clientGet_run_found hf hrs, M.pure_run, deref_some, Bool.not_false,
    if_true]
  unfold preparedForFinalSync
  cases rs.Spec.Trigger with
  | none => rfl
  | some tr =>
    dsimp only
    cases (tr.Manual == PrepareForFinalSyncTriggerString) <;> rfl

/-- `setupForFinalSync` without final sync is one lookup: it leaves the cluster as it is. -/
theorem setupForFinalSync_scheduled_tick (v : VSHandler) (rsSpec : VolSyncReplicationSourceSpec)
    (w w1 : World) (b : Bool) (h : v.setupForFinalSync rsSpec false w = some (b, w1)) :
    w1 = w.tick := by
  cases hf : w.faults w.calls with
  | true =>
    rw [setupForFinalSync_run_fault v rsSpec false w hf] at h
    cases h; rfl
  | false =>
    cases hrs : storeGet rsKind.meta w.rss rsSpec.ProtectedPVC.Namespace
        (getReplicationSourceName rsSpec.ProtectedPVC.Name) with
    | none =>
      rw [setupForFinalSync_run_missing v rsSpec false w hf hrs] at h
      cases h; rfl
    | some rs =>
      rw [setupForFinalSync_run_found v rsSpec w rs hf hrs] at h
      cases h; rfl

theorem ModifyRSSpecForCephFS_key (v : VSHandler) (rsSpec : VolSyncReplicationSourceSpec)
    (sc : StorageClass) :
    (v.ModifyRSSpecForCephFS rsSpec sc).ProtectedPVC.Name = rsSpec.ProtectedPVC.Name ∧
    (v.ModifyRSSpecForCephFS rsSpec sc).ProtectedPVC.Namespace = rsSpec.ProtectedPVC.Namespace := by
  unfold VSHandler.ModifyRSSpecForCephFS
  split <;> exact ⟨rfl, rfl⟩

/-- A successful `getScheduleCronSpec` returns the default cron string for an empty
interval and the converted interval otherwise. -/
theorem getScheduleCronSpec_ok (v : VSHandler) (c : Option String)
    (h : v.getScheduleCronSpec = (c, none)) :
    ∃ cron, c = some cron ∧
      (v.schedulingInterval = "" → cron = DefaultScheduleCronSpec) ∧
      (v.schedulingInterval ≠ "" →
        ConvertSchedulingIntervalToCronSpec v.schedulingInterval = (some cron, none)) := by
  unfold VSHandler.getScheduleCronSpec at h
  by_cases hi : v.schedulingInterval = ""
  · simp only [hi, bne_self_eq_false, Bool.false_eq_true, if_false, Prod.mk.injEq, and_true] at h
    exact ⟨DefaultScheduleCronSpec, h.symm, fun _ => rfl, fun hne => absurd hi hne⟩
  · have hb : (v.schedulingInterval != "") = true := by simpa [bne_iff_ne] using hi
    rw [if_pos hb] at h
    rcases Convert_error_or_success v.schedulingInterval with ⟨e, he⟩ | ⟨_, _, cron, _, _, _, _, hok⟩
    · rw [he] at h; cases h
    · rw [hok] at h
      cases h
      exact ⟨cron, rfl, fun h0 => absurd h0 hi, fun _ => hok⟩

/-- What the `MutateFn` of `createOrUpdateRS` writes into the spec when it succeeds. -/
theorem mutateRS_ok (v : VSHandler) (rsSpec : VolSyncReplicationSourceSpec) (psk : String)
    (runFinalSync : Bool) (vsc addr : String) (rs rs1 : ReplicationSource)
    (h : v.mutateRS rsSpec psk runFinalSync vsc addr rs = (rs1, none)) :
    (runFinalSync = true →
      rs1.Spec.Paused = false ∧
      rs1.Spec.SourcePVC = getTmpPVCNameForFinalSync rsSpec.ProtectedPVC.Name ∧
      rs1.Spec.Trigger = some { Manual := FinalSyncTriggerString, Schedule := none }) ∧
    (runFinalSync = false →
      rs1.Spec.SourcePVC = rsSpec.ProtectedPVC.Name ∧
      ∃ c, v.getScheduleCronSpec = (c, none) ∧
        rs1.Spec.Trigger = some { Schedule := c, Manual := "" }) := by
  unfold VSHandler.mutateRS at h
  generalize (if (!v.vrgInAdminNamespace) = true then SetControllerReference rsKind v.owner rs
    else (rs, none)) = p at h
  obtain ⟨rs0, e0⟩ := p
  cases e0 with
  | some e => simp at h
  | none =>
    dsimp only at h
    unfold VSHandler.configureReplicationSourceSpec at h
    cases runFinalSync with
    | true =>
      simp only [if_true, Prod.mk.injEq, and_true] at h
      subst h
      exact ⟨fun _ => ⟨rfl, rfl, rfl⟩, fun hh => by cases hh⟩
    | false =>
      simp only [Bool.false_eq_true, if_false] at h
      generalize hg : v.getScheduleCronSpec = g at h
      obtain ⟨c, e⟩ := g
      cases e with
      | some e1 => simp at h
      | none =>
        simp only [Prod.mk.injEq, and_true] at h
        subst h
        exact ⟨fun hh => (by cases hh), fun _ => ⟨rfl, c, rfl, rfl⟩⟩

/-- With an interval that cannot be converted and no final sync asked for, the
`MutateFn` of `createOrUpdateRS` returns an error on every object. -/
theorem mutateRS_unconvertible (v : VSHandler) (rsSpec : VolSyncReplicationSourceSpec)
    (psk : String) (vsc addr : String) (rs : ReplicationSource) (c : Option String) (e : Err)
    (hbad : v.getScheduleCronSpec = (c, some e)) :
    ∃ rs1 e1, v.mutateRS rsSpec psk false vsc addr rs = (rs1, some e1) := by
  unfold VSHandler.mutateRS
  generalize (if (!v.vrgInAdminNamespace) = true then SetControllerReference rsKind v.owner rs
    else (rs, none)) = p
  obtain ⟨rs0, e0⟩ := p
  cases e0 with
  | some e2 => exact ⟨_, _, rfl⟩
  | none =>
    dsimp only
    unfold VSHandler.configureReplicationSourceSpec
    simp only [Bool.false_eq_true, if_false, hbad]
    exact ⟨_, _, rfl⟩

/-- A successful `CreateOrUpdate` returns what the `MutateFn` made of the stored object,
or of the given one as the server stored it on creation. -/
theorem CreateOrUpdate_result {α : Type} [DecidableEq α] {K : Kind α} {obj : α}
    {f : α → Option (α × Option Err)} {w w1 : World} {op : OperationResult} {o1 : α}
    (h : CreateOrUpdate K obj f w = some ((op, o1, none), w1)) :
    (∃ o0, storeGet K.meta (K.objs w) (K.meta obj).Namespace (K.meta obj).Name = some o0 ∧
        f o0 = some (o1, none)) ∨
    (storeGet K.meta (K.objs w) (K.meta obj).Namespace (K.meta obj).Name = none ∧
      ∃ o2, f obj = some (o2, none) ∧ o1 = asCreated K o2 (w.calls + 2)) := by
  unfold CreateOrUpdate at h
  rw [M.bind_eq_some] at h
  obtain ⟨r, wa, hget, h⟩ := h
  cases r with
  | error e =>
    obtain ⟨hwa, he⟩ := clientGet_error hget
    dsimp only at h
    split at h
    · rename_i hnf
      generalize hm : mutate K f (K.meta obj).Namespace (K.meta obj).Name obj = mres at h
      rcases mres with _ | ⟨o2, _ | e2⟩
      · simp at h
      · dsimp only at h
        rw [M.bind_eq_some] at h
        obtain ⟨⟨o3, cerr⟩, wb, hc, h⟩ := h
        cases cerr with
        | some e3 => simp at h
        | none =>
          simp only [M.pure_run, Option.some.injEq, Prod.mk.injEq, true_and, and_true] at h
          obtain ⟨⟨-, rfl⟩, rfl⟩ := h
          obtain ⟨hf, hk⟩ := mutate_ok hm
          obtain ⟨-, ho, -⟩ := clientCreate_ok hc
          have hnone : storeGet K.meta (K.objs w) (K.meta obj).Namespace (K.meta obj).Name = none := by
            rcases he with rfl | ⟨-, hn⟩
            · simp [Err.IsNotFound] at hnf
            · exact hn
          refine Or.inr ⟨hnone, o2, hf, ?_⟩
          rw [ho, hwa]
          rfl
      · simp at h
    · simp at h
  | ok existing =>
    obtain ⟨hfound, hwa⟩ := clientGet_ok hget
    dsimp only at h
    generalize hm : mutate K f (K.meta obj).Namespace (K.meta obj).Name existing = mres at h
    rcases mres with _ | ⟨o2, _ | e2⟩
    · simp at h
    · obtain ⟨hf, hk⟩ := mutate_ok hm
      dsimp only at h
      split at h
      · simp only [M.pure_run, Option.some.injEq, Prod.mk.injEq, true_and, and_true] at h
        obtain ⟨⟨-, rfl⟩, rfl⟩ := h
        exact Or.inl ⟨existing, hfound, hf⟩
      · rw [M.bind_eq_some] at h
        obtain ⟨uerr, wb, hu, h⟩ := h
        cases uerr with
        | some e3 => simp at h
        | none =>
          simp only [M.pure_run, Option.some.injEq, Prod.mk.injEq, true_and, and_true] at h
          obtain ⟨⟨-, rfl⟩, rfl⟩ := h
          exact Or.inl ⟨existing, hfound, hf⟩
    · simp at h

/-- A `CreateOrUpdate` whose `MutateFn` returns an error on every object returns an
error after the one lookup: it writes nothing. -/
theorem CreateOrUpdate_failing {α : Type} [DecidableEq α] {K : Kind α} {obj : α}
    {f : α → Option (α × Option Err)} {w w1 : World} {op : OperationResult} {o1 : α}
    {err : Option Err} (hf : ∀ o, ∃ o2 e, f o = some (o2, some e))
    (h : CreateOrUpdate K obj f w = some ((op, o1, err), w1)) :
    err ≠ none ∧ w1 = w.tick := by
  have hmut : ∀ o, ∃ o2 e, mutate K f (K.meta obj).Namespace (K.meta obj).Name o = some (o2, some e) := by
    intro o
    obtain ⟨o2, e, ho⟩ := hf o
    exact ⟨o2, e, by unfold mutate; rw [ho]⟩
  unfold CreateOrUpdate at h
  rw [M.bind_eq_some] at h
  obtain ⟨r, wa, hget, h⟩ := h
  cases r with
  | error e =>
    obtain ⟨hwa, -⟩ := clientGet_error hget
    dsimp only at h
    split at h
    · obtain ⟨o2, e2, hm⟩ := hmut obj
      rw [hm] at h
      simp only [M.pure_run, Option.some.injEq, Prod.mk.injEq] at h
      obtain ⟨⟨-, -, rfl⟩, rfl⟩ := h
      exact ⟨by simp, hwa⟩
    · simp only [M.pure_run, Option.some.injEq, Prod.mk.injEq] at h
      obtain ⟨⟨-, -, rfl⟩, rfl⟩ := h
      exact ⟨by simp, hwa⟩
  | ok existing =>
    obtain ⟨-, hwa⟩ := clientGet_ok hget
    dsimp only at h
    obtain ⟨o2, e2, hm⟩ := hmut existing
    rw [hm] at h
    simp only [M.pure_run, Option.some.injEq, Prod.mk.injEq] at h
    obtain ⟨⟨-, -, rfl⟩, rfl⟩ := h
    exact ⟨by simp, hwa⟩

/-- The three ways `createOrUpdateRS` returns: with the error of a class lookup, with
`(nil, nil)` after `setupForFinalSync` said stop, or with the outcome of the
`CreateOrUpdate` it runs once `setupForFinalSync` said proceed. Up to that
`CreateOrUpdate` the sources of the cluster are as they were. -/
theorem createOrUpdateRS_inv (v : VSHandler) (rsSpec : VolSyncReplicationSourceSpec)
    (psk : String) (runFinalSync : Bool) (w w1 : World) (r : Option ReplicationSource)
    (err : Option Err)
    (h : v.createOrUpdateRS rsSpec psk runFinalSync w = some ((r, err), w1)) :
    (r = none ∧ err ≠ none ∧ w1.rss = w.rss) ∨
    (∃ sc wb, v.setupForFinalSync (v.ModifyRSSpecForCephFS rsSpec sc) runFinalSync wb
        = some (true, w1) ∧ wb.rss = w.rss ∧ wb.faults = w.faults ∧ w1.rss = w.rss ∧
        r = none ∧ err = none) ∨
    (∃ sc vsc wb wc op rs1 cerr,
      v.setupForFinalSync (v.ModifyRSSpecForCephFS rsSpec sc) runFinalSync wb = some (false, wc) ∧
      wb.rss = w.rss ∧ wb.faults = w.faults ∧ wc.rss = w.rss ∧
      CreateOrUpdate rsKind
        (util.AddLabel rsKind
          { ObjectMeta := { Name := getReplicationSourceName rsSpec.ProtectedPVC.Name,
                            Namespace := rsSpec.ProtectedPVC.Namespace } }
          util.CreatedByRamenLabel "true")
        (fun o => some (v.mutateRS (v.ModifyRSSpecForCephFS rsSpec sc) psk runFinalSync vsc
          (getRemoteServiceNameForRDFromPVCName rsSpec.ProtectedPVC.Name
            rsSpec.ProtectedPVC.Namespace) o)) wc = some ((op, rs1, cerr), w1) ∧
      ((cerr = none ∧ r = some rs1 ∧ err = none) ∨ (cerr ≠ none ∧ r = none ∧ err = cerr))) := by
  unfold VSHandler.createOrUpdateRS at h
  rw [M.bind_eq_some] at h
  obtain ⟨⟨sc0, e0⟩, wa, hsc, h⟩ := h
  have hwa := (getStorageClass_mods (S := {}) v rsSpec.ProtectedPVC.StorageClassName).run _ _ _ hsc
  cases e0 with
  | some e =>
    simp only [M.pure_run, Option.some.injEq, Prod.mk.injEq] at h
    obtain ⟨⟨rfl, rfl⟩, rfl⟩ := h
    exact Or.inl ⟨rfl, by simp, hwa.rss rfl⟩
  | none =>
    dsimp only at h
    rw [M.bind_eq_some] at h
    obtain ⟨sc, wa1, hd, h⟩ := h
    cases sc0 with
    | none => simp at hd
    | some sc1 =>
      simp only [deref_some, Option.some.injEq, Prod.mk.injEq] at hd
      obtain ⟨rfl, rfl⟩ := hd
      rw [M.bind_eq_some] at h
      obtain ⟨⟨vsc, e1⟩, wb, hvsc, h⟩ := h
      have hwb := (getVolumeSnapshotClassFromPVCStorageClass_mods
        (S := { volumeSnapshotClassList := true }) v sc1 rfl).run _ _ _ hvsc
      have hkey := ModifyRSSpecForCephFS_key v rsSpec sc1
      cases e1 with
      | some e =>
        simp only [M.pure_run, Option.some.injEq, Prod.mk.injEq] at h
        obtain ⟨⟨rfl, rfl⟩, rfl⟩ := h
        exact Or.inl ⟨rfl, by simp, (hwb.rss rfl).trans (hwa.rss rfl)⟩
      | none =>
        dsimp only at h
        rw [M.bind_eq_some] at h
        obtain ⟨stop, wc, hsetup, h⟩ := h
        have hwc := (setupForFinalSync_mods (S := { pvcs := true, pvs := true }) v
          (v.ModifyRSSpecForCephFS rsSpec sc1) runFinalSync rfl rfl).run _ _ _ hsetup
        have hrss : wb.rss = w.rss := (hwb.rss rfl).trans (hwa.rss rfl)
        have hfl : wb.faults = w.faults := hwb.faults.trans hwa.faults
        cases stop with
        | true =>
          simp only [if_true, M.pure_run, Option.some.injEq, Prod.mk.injEq] at h
          obtain ⟨⟨rfl, rfl⟩, rfl⟩ := h
          exact Or.inr (Or.inl ⟨sc1, wb, hsetup, hrss, hfl, (hwc.rss rfl).trans hrss, rfl, rfl⟩)
        | false =>
          simp only [Bool.false_eq_true, if_false] at h
          rw [M.bind_eq_some] at h
          obtain ⟨⟨op, rs1, cerr⟩, wd, hcu, h⟩ := h
          rw [hkey.1, hkey.2] at hcu
          cases cerr with
          | some e =>
            simp only [M.pure_run, Option.some.injEq, Prod.mk.injEq] at h
            obtain ⟨⟨rfl, rfl⟩, rfl⟩ := h
            exact Or.inr (Or.inr ⟨sc1, vsc, wb, wc, op, rs1, some e, hsetup, hrss, hfl,
              (hwc.rss rfl).trans hrss, hcu, Or.inr ⟨by simp, rfl, rfl⟩⟩)
          | none =>
            simp only [M.pure_run, Option.some.injEq, Prod.mk.injEq] at h
            obtain ⟨⟨rfl, rfl⟩, rfl⟩ := h
            exact Or.inr (Or.inr ⟨sc1, vsc, wb, wc, op, rs1, none, hsetup, hrss, hfl,
              (hwc.rss rfl).trans hrss, hcu, Or.inl ⟨rfl, rfl, rfl⟩⟩)

theorem mutateRS_keeps (v : VSHandler) (rsSpec : VolSyncReplicationSourceSpec) (psk : String)
    (runFinalSync : Bool) (vsc addr : String) (o o2 : ReplicationSource)
    (h : v.mutateRS rsSpec psk runFinalSync vsc addr o = (o2, none)) :
    o2.ObjectMeta.DeletionTimestamp = o.ObjectMeta.DeletionTimestamp ∧
    o2.ObjectMeta.Finalizers = o.ObjectMeta.Finalizers := by
  unfold VSHandler.mutateRS at h
  have hs := SetControllerReferenceMeta_keeps v.owner.APIVersion v.owner.Kind v.owner.ObjectMeta
    o.ObjectMeta
  generalize hp : (if (!v.vrgInAdminNamespace) = true then SetControllerReference rsKind v.owner o
    else (o, none)) = p at h
  obtain ⟨rs1, e0⟩ := p
  cases e0 with
  | some e => simp at h
  | none =>
    have h1 : rs1.ObjectMeta.DeletionTimestamp = o.ObjectMeta.DeletionTimestamp ∧
        rs1.ObjectMeta.Finalizers = o.ObjectMeta.Finalizers := by
      split at hp
      · unfold SetControllerReference at hp
        simp only [Prod.mk.injEq] at hp
        rw [← hp.1]
        exact hs
      · simp only [Prod.mk.injEq, and_true] at hp
        rw [hp]
        exact ⟨rfl, rfl⟩
    have a1 := metaAddLabel_keeps rs1.ObjectMeta VRGOwnerNameLabel v.owner.ObjectMeta.Name
    have a2 := metaAddLabel_keeps (util.metaAddLabel rs1.ObjectMeta VRGOwnerNameLabel
      v.owner.ObjectMeta.Name).1 VRGOwnerNamespaceLabel v.owner.ObjectMeta.Namespace
    dsimp only at h
    unfold VSHandler.configureReplicationSourceSpec at h
    cases runFinalSync with
    | true =>
      simp only [if_true, Prod.mk.injEq, and_true] at h
      subst h
      exact ⟨a2.1.trans (a1.1.trans h1.1), a2.2.trans (a1.2.trans h1.2)⟩
    | false =>
      simp only [Bool.false_eq_true, if_false] at h
      generalize hg : v.getScheduleCronSpec = g at h
      obtain ⟨c, e⟩ := g
      cases e with
      | some e1 => simp at h
      | none =>
        simp only [Prod.mk.injEq, and_true] at h
        subst h
        exact ⟨a2.1.trans (a1.1.trans h1.1), a2.2.trans (a1.2.trans h1.2)⟩

theorem localName_ne (n : String) : getLocalReplicationName n ≠ n := by
  intro h
  have := congrArg String.length h
  simp [getLocalReplicationName, String.length_append] at this
  exact absurd this (by decide)

/-- Deleting a source under another key leaves the source under the key `(ns, p)`. -/
theorem clientDelete_rs_keeps (lrs : ReplicationSource) (ns p : String)
    (hne : ¬ (lrs.ObjectMeta.Namespace = ns ∧ lrs.ObjectMeta.Name = p)) (w w1 : World)
    (r : Option Err) (h : clientDelete rsKind lrs w = some (r, w1)) :
    storeGet rsKind.meta w1.rss ns p = storeGet rsKind.meta w.rss ns p := by
  cases r with
  | some e =>
    obtain ⟨hw1, -⟩ := clientDelete_err h
    rw [hw1]
    rfl
  | none =>
    obtain ⟨-, hw1⟩ := clientDelete_ok h
    rw [hw1]
    exact storeGet_storeDelete_other rsKind_lawful hne

theorem CleanupLocalResources_keeps_source (v : VSHandler) (lrs : ReplicationSource)
    (ns p : String) (hne : ¬ (lrs.ObjectMeta.Namespace = ns ∧ lrs.ObjectMeta.Name = p))
    (w w1 : World) (r : Option Err) (h : v.CleanupLocalResources lrs w = some (r, w1)) :
    storeGet rsKind.meta w1.rss ns p = storeGet rsKind.meta w.rss ns p := by
  unfold VSHandler.CleanupLocalResources at h
  rw [M.bind_eq_some] at h
  obtain ⟨tr, w0, hd, h⟩ := h
  have hw0 : w0 = w := by
    cases ht : lrs.Spec.Trigger with
    | none => rw [ht] at hd; simp at hd
    | some t =>
      rw [ht] at hd
      simp only [deref_some, Option.some.injEq, Prod.mk.injEq] at hd
      exact hd.2.symm
  subst hw0
  rw [M.bind_eq_some] at h
  obtain ⟨e1, wa, hsnap, h⟩ := h
  have ha : wa.rss = w0.rss :=
    ((deleteSnapshot_mods (S := { snapshots := true }) v _ _ rfl).run _ _ _ hsnap).rss rfl
  cases e1 with
  | some e =>
    simp only [M.pure_run, Option.some.injEq, Prod.mk.injEq] at h
    rw [← h.2, ha]
  | none =>
    dsimp only at h
    rw [M.bind_eq_some] at h
    obtain ⟨e2, wb, hpvc, h⟩ := h
    have hb : wb.rss = wa.rss :=
      ((DeletePVC_mods (S := { pvcs := true }) _ _ rfl).run _ _ _ hpvc).rss rfl
    cases e2 with
    | some e =>
      simp only [M.pure_run, Option.some.injEq, Prod.mk.injEq] at h
      rw [← h.2, hb, ha]
    | none =>
      dsimp only at h
      rw [M.bind_eq_some] at h
      obtain ⟨e3, wc, hdel, h⟩ := h
      have hc := clientDelete_rs_keeps lrs ns p hne wb wc e3 hdel
      cases e3 with
      | some e =>
        simp only [M.pure_run, Option.some.injEq, Prod.mk.injEq] at h
        rw [← h.2, hc, hb, ha]
      | none =>
        dsimp only at h
        have hd2 : w1.rss = wc.rss :=
          ((DeleteLocalRD_mods (S := { rds := true }) v _ _ rfl).run _ _ _ h).rss rfl
        rw [hd2, hc, hb, ha]

theorem deleteLocalRDAndRS_keeps_source (v : VSHandler) (rd : ReplicationDestination)
    (ns : String) (w w1 : World) (r : Option Err)
    (h : v.deleteLocalRDAndRS rd w = some (r, w1)) :
    storeGet rsKind.meta w1.rss ns rd.ObjectMeta.Name =
      storeGet rsKind.meta w.rss ns rd.ObjectMeta.Name := by
  unfold VSHandler.deleteLocalRDAndRS at h
  rw [M.bind_eq_some] at h
  obtain ⟨⟨img, err⟩, wa, himg, h⟩ := h
  have ha : wa.rss = w.rss :=
    ((getRDLatestImage_mods (S := {}) v _ _).run _ _ _ himg).rss rfl
  cases err with
  | some e =>
    simp only [M.pure_run, Option.some.injEq, Prod.mk.injEq] at h
    rw [← h.2, ha]
  | none =>
    cases img with
    | none =>
      simp only [M.pure_run, Option.some.injEq, Prod.mk.injEq] at h
      rw [← h.2, ha]
    | some latest =>
      dsimp only at h
      rw [M.bind_eq_some] at h
      obtain ⟨g, wb, hget, h⟩ := h
      cases g with
      | error e =>
        obtain ⟨hwb, -⟩ := clientGet_error hget
        dsimp only at h
        split at h
        · have hd2 : w1.rss = wb.rss :=
            ((DeleteLocalRD_mods (S := { rds := true }) v _ _ rfl).run _ _ _ h).rss rfl
          rw [hd2, hwb]
          exact congrArg (fun l => storeGet rsKind.meta l ns rd.ObjectMeta.Name) ha
        · simp only [M.pure_run, Option.some.injEq, Prod.mk.injEq] at h
          rw [← h.2, hwb]
          exact congrArg (fun l => storeGet rsKind.meta l ns rd.ObjectMeta.Name) ha
      | ok lrs =>
        obtain ⟨hfound, hwb⟩ := clientGet_ok hget
        have hk := storeGet_hasKey hfound
        rw [hasKey_iff] at hk
        have hne : ¬ (lrs.ObjectMeta.Namespace = ns ∧ lrs.ObjectMeta.Name = rd.ObjectMeta.Name) := by
          rintro ⟨-, hn⟩
          have : (rsKind.meta lrs).Name = getLocalReplicationName rd.ObjectMeta.Name := hk.2
          exact localName_ne rd.ObjectMeta.Name (this.symm.trans hn)
        dsimp only at h
        split at h
        · rw [M.bind_eq_some] at h
          obtain ⟨e, wc, hcl, h⟩ := h
          have hc := CleanupLocalResources_keeps_source v lrs ns rd.ObjectMeta.Name hne wb wc e hcl
          have hw1 : w1 = wc := by
            cases e <;> simp only [M.pure_run, Option.some.injEq, Prod.mk.injEq] at h <;> exact h.2.symm
          rw [hw1, hc, hwb]
          exact congrArg (fun l => storeGet rsKind.meta l ns rd.ObjectMeta.Name) ha
        · simp only [M.pure_run, Option.some.injEq, Prod.mk.injEq] at h
          rw [← h.2, hwb]
          exact congrArg (fun l => storeGet rsKind.meta l ns rd.ObjectMeta.Name) ha

theorem DeleteRD_loop_keeps_source (v : VSHandler) (p ns : String) :
    ∀ (items : List ReplicationDestination) (w w1 : World) (r : Option Err),
      VSHandler.DeleteRD.loop v p items w = some (r, w1) →
      storeGet rsKind.meta w1.rss ns p = storeGet rsKind.meta w.rss ns p := by
  intro items
  induction items with
  | nil =>
    intro w w1 r h
    simp only [VSHandler.DeleteRD.loop, M.pure_run, Option.some.injEq, Prod.mk.injEq] at h
    rw [← h.2]
  | cons x rest ih =>
    intro w w1 r h
    unfold VSHandler.DeleteRD.loop at h
    split at h
    · rename_i hname
      simp only [getReplicationDestinationName, beq_iff_eq] at hname
      rw [M.bind_eq_some] at h
      obtain ⟨err, wa, hloc, h⟩ := h
      have ha : storeGet rsKind.meta wa.rss ns p = storeGet rsKind.meta w.rss ns p := by
        split at hloc
        · have := deleteLocalRDAndRS_keeps_source v x ns w wa err hloc
          rw [hname] at this
          exact this
        · simp only [M.pure_run, Option.some.injEq, Prod.mk.injEq] at hloc
          rw [← hloc.2]
      cases err with
      | some e =>
        simp only [M.pure_run, Option.some.injEq, Prod.mk.injEq] at h
        rw [← h.2, ha]
      | none =>
        dsimp only at h
        rw [M.bind_eq_some] at h
        obtain ⟨r0, wb, hdel, h⟩ := h
        have hb : wb.rss = wa.rss :=
          ((clientDelete_mods (S := { rds := true }) rdKind x (fun _ _ => rfl)).run _ _ _ hdel).rss rfl
        rw [ih wb w1 r h, hb, ha]
    · exact ih w w1 r h

/-- `DeleteRD` for the claim `p` leaves the source named `p` as it is: the only source
it deletes is the local one, named `p-local`. -/
theorem DeleteRD_keeps_source (v : VSHandler) (p ns ns1 : String) (w w1 : World) (r : Option Err)
    (h : v.DeleteRD p ns1 w = some (r, w1)) :
    storeGet rsKind.meta w1.rss ns p = storeGet rsKind.meta w.rss ns p := by
  unfold VSHandler.DeleteRD at h
  rw [M.bind_eq_some] at h
  obtain ⟨l, wa, hl, h⟩ := h
  have ha : wa.rss = w.rss := ((listRDByOwner_mods (S := {}) v ns1).run _ _ _ hl).rss rfl
  cases l with
  | error e =>
    simp only [M.pure_run, Option.some.injEq, Prod.mk.injEq] at h
    rw [← h.2, ha]
  | ok items =>
    dsimp only at h
    rw [DeleteRD_loop_keeps_source v p ns items wa w1 r h, ha]

/-- While the source of the claim is in the prepared state, `createOrUpdateRS` without
final sync returns no source and leaves the sources of the cluster as they are. -/
theorem createOrUpdateRS_prepared (v : VSHandler) (rsSpec : VolSyncReplicationSourceSpec)
    (psk : String) (w w1 : World) (r : Option ReplicationSource) (err : Option Err)
    (rs0 : ReplicationSource)
    (hrs : storeGet rsKind.meta w.rss rsSpec.ProtectedPVC.Namespace
      (getReplicationSourceName rsSpec.ProtectedPVC.Name) = some rs0)
    (hprep : preparedForFinalSync rs0 = true)
    (h : v.createOrUpdateRS rsSpec psk false w = some ((r, err), w1)) :
    r = none ∧ w1.rss = w.rss := by
  rcases createOrUpdateRS_inv v rsSpec psk false w w1 r err h with
    ⟨hr, he, hrss⟩ | ⟨sc, wb, hsetup, hrssb, hflb, hrss, hr, he⟩ |
    ⟨sc, vsc, wb, wc, op, rs1, cerr, hsetup, hrssb, hflb, hrssc, hcu, hres⟩
  · exact ⟨hr, hrss⟩
  · exact ⟨hr, hrss⟩
  · exfalso
    have hkey := ModifyRSSpecForCephFS_key v rsSpec sc
    cases hf : wb.faults wb.calls with
    | true =>
      rw [setupForFinalSync_run_fault v _ false wb hf] at hsetup
      cases hsetup
    | false =>
      rw [setupForFinalSync_run_found v _ wb rs0 hf
        (by rw [hkey.1, hkey.2, hrssb]; exact hrs), hprep] at hsetup
      cases hsetup

/-- A reconcile of the source without final sync, run while the source of the claim is
in the prepared state, returns no source and leaves that source as it is. -/
theorem ReconcileRS_keeps_prepared (v : VSHandler) (rsSpec : VolSyncReplicationSourceSpec)
    (w w1 : World) (res : Bool × Option ReplicationSource × Option Err) (rs0 : ReplicationSource)
    (hrs : storeGet rsKind.meta w.rss rsSpec.ProtectedPVC.Namespace
      (getReplicationSourceName rsSpec.ProtectedPVC.Name) = some rs0)
    (hprep : preparedForFinalSync rs0 = true)
    (h : v.ReconcileRS rsSpec false w = some (res, w1)) :
    storeGet rsKind.meta w1.rss rsSpec.ProtectedPVC.Namespace
      (getReplicationSourceName rsSpec.ProtectedPVC.Name) = some rs0 ∧
    res.1 = false ∧ res.2.1 = none := by
  unfold VSHandler.ReconcileRS at h
  split at h
  · simp only [M.pure_run, Option.some.injEq, Prod.mk.injEq] at h
    obtain ⟨hres, hw⟩ := h
    subst hres hw
    exact ⟨hrs, rfl, rfl⟩
  · dsimp only at h
    rw [M.bind_eq_some] at h
    obtain ⟨⟨secretExists, err⟩, wa, hsec, h⟩ := h
    have ha : wa.rss = w.rss :=
      ((ValidateSecretAndAddVRGOwnerRef_mods (S := { secrets := true }) v _ rfl).run _ _ _ hsec).rss rfl
    dsimp only at h
    split at h
    · simp only [M.pure_run, Option.some.injEq, Prod.mk.injEq] at h
      obtain ⟨hres, hw⟩ := h
      subst hres hw
      rw [ha]
      exact ⟨hrs, rfl, rfl⟩
    · rw [M.bind_eq_some] at h
      obtain ⟨err1, wb, hcopy, h⟩ := h
      have hb : wb.rss = wa.rss := by
        split at hcopy
        · exact ((CopySecretToPVCNamespace_mods (S := { secrets := true }) v _ _ rfl).run
            _ _ _ hcopy).rss rfl
        · simp only [M.pure_run, Option.some.injEq, Prod.mk.injEq] at hcopy
          rw [← hcopy.2]
      cases err1 with
      | some e =>
        simp only [M.pure_run, Option.some.injEq, Prod.mk.injEq] at h
        obtain ⟨hres, hw⟩ := h
        subst hres hw
        rw [hb, ha]
        exact ⟨hrs, rfl, rfl⟩
      | none =>
        dsimp only at h
        rw [M.bind_eq_some] at h
        obtain ⟨derr, wc, hdel, h⟩ := h
        have hc := DeleteRD_keeps_source v rsSpec.ProtectedPVC.Name rsSpec.ProtectedPVC.Namespace
          rsSpec.ProtectedPVC.Namespace wb wc derr hdel
        have hrsc : storeGet rsKind.meta wc.rss rsSpec.ProtectedPVC.Namespace
            (getReplicationSourceName rsSpec.ProtectedPVC.Name) = some rs0 := by
          unfold getReplicationSourceName at hrs ⊢
          rw [hc, hb, ha]
          exact hrs
        cases derr with
        | some e =>
          simp only [M.pure_run, Option.some.injEq, Prod.mk.injEq] at h
          obtain ⟨hres, hw⟩ := h
          subst hres hw
          exact ⟨hrsc, rfl, rfl⟩
        | none =>
          dsimp only at h
          simp only [VSHandler.validatePVCForFinalSync, Bool.false_eq_true, if_false, M.bind_run,
            M.pure_run, Bool.not_true, Option.isSome_none, Bool.or_false] at h
          cases hcu : v.createOrUpdateRS rsSpec
              (GetVolSyncPSKSecretNameFromVRGName v.owner.ObjectMeta.Name) false wc with
          | none => rw [hcu] at h; simp at h
          | some x =>
            obtain ⟨⟨r, err3⟩, wd⟩ := x
            rw [hcu] at h
            obtain ⟨hr, hrss⟩ := createOrUpdateRS_prepared v rsSpec _ wc wd r err3 rs0 hrsc hprep hcu
            subst hr
            dsimp only at h
            have hfin : storeGet rsKind.meta wd.rss rsSpec.ProtectedPVC.Namespace
                (getReplicationSourceName rsSpec.ProtectedPVC.Name) = some rs0 := by
              rw [hrss]; exact hrsc
            cases err3 with
            | some e =>
              simp only [M.pure_run, Option.some.injEq, Prod.mk.injEq] at h
              obtain ⟨hres, hw⟩ := h
              subst hres hw
              exact ⟨hfin, rfl, rfl⟩
            | none =>
              simp only [M.pure_run, Option.some.injEq, Prod.mk.injEq] at h
              obtain ⟨hres, hw⟩ := h
              subst hres hw
              exact ⟨hfin, rfl, rfl⟩

theorem Quiet.quiet_refl (w : World) : Quiet w w :=
  ⟨Agree.agree_refl _ w, [], by simp, fun c hc => by cases hc⟩

theorem Quiet.quiet_trans {w w1 w2 : World} (h1 : Quiet w w1) (h2 : Quiet w1 w2) : Quiet w w2 := by
  obtain ⟨a1, l1, e1, d1⟩ := h1
  obtain ⟨a2, l2, e2, d2⟩ := h2
  refine ⟨a1.agree_trans a2, l1 ++ l2, by rw [e2, e1, List.append_assoc], ?_⟩
  intro c hc
  rcases List.mem_append.mp hc with hc | hc
  · exact d1 c hc
  · exact d2 c hc

theorem Quiet.quiet_tick (w : World) : Quiet w w.tick :=
  ⟨rfl, [], by simp [World.tick], fun c hc => by cases hc⟩

theorem Quiet.of_onlyCalls {w w1 : World} (h : OnlyCalls w w1) : Quiet w w1 := by
  unfold OnlyCalls at h
  rw [h]
  exact ⟨rfl, [], by simp, fun c hc => by cases hc⟩

theorem Quiet.quiet_delete (w : World) (c : Call) (hc : c.verb = Verb.delete) :
    Quiet w (w.logged c) :=
  ⟨rfl, [c], rfl, fun c1 h1 => by rw [List.mem_singleton] at h1; rw [h1]; exact hc⟩

theorem Quiet.quiet_noFaults {w w1 : World} (h : Quiet w w1) (hf : NoFaults w) : NoFaults w1 :=
  h.1.noFaults hf

theorem Agree.secrets {S : Mods} {w w1 : World} (h : Agree S w w1) (hS : S.secrets = false) :
    w1.secrets = w.secrets := by
  have := congrArg World.secrets h
  simpa [World.erase, hS] using this

theorem Agree.serviceExports {S : Mods} {w w1 : World} (h : Agree S w w1)
    (hS : S.serviceExports = false) : w1.serviceExports = w.serviceExports := by
  have := congrArg World.serviceExports h
  simpa [World.erase, hS] using this

theorem Agree.storageClasses {S : Mods} {w w1 : World} (h : Agree S w w1)
    (hS : S.storageClasses = false) : w1.storageClasses = w.storageClasses := by
  have := congrArg World.storageClasses h
  simpa [World.erase, hS] using this

theorem Agree.snapshotClasses {S : Mods} {w w1 : World} (h : Agree S w w1)
    (hS : S.snapshotClasses = false) : w1.snapshotClasses = w.snapshotClasses := by
  have := congrArg World.snapshotClasses h
  simpa [World.erase, hS] using this

theorem Agree.classList {S : Mods} {w w1 : World} (h : Agree S w w1)
    (hS : S.volumeSnapshotClassList = false) :
    w1.volumeSnapshotClassList = w.volumeSnapshotClassList := by
  have := congrArg World.volumeSnapshotClassList h
  simpa [World.erase, hS] using this

/-- A delete of a settled key leaves the store as it is. -/
theorem storeDelete_of_settled {α : Type} {K : Kind α} (hK2 : ∀ o, K.setMeta o (K.meta o) = o)
    {l : List α} {ns name : String} {now : Nat} (hs : KeySettled K l ns name) :
    storeDelete K l ns name now = l := by
  unfold storeDelete
  induction l with
  | nil => rfl
  | cons x xs ih =>
    have hxs : KeySettled K xs ns name := fun y hy hk => hs y (List.mem_cons_of_mem _ hy) hk
    rw [List.filterMap_cons]
    by_cases hk : hasKey (K.meta x) ns name = true
    · obtain ⟨hfin, hdel⟩ := hs x (List.mem_cons_self _ _) hk
      have hm : markDeleted (K.meta x) now = K.meta x := by
        unfold markDeleted
        rw [if_pos hdel]
      simp only [hk, if_true, hfin, if_false, hm, hK2]
      rw [ih hxs]
    · simp only [hk, Bool.false_eq_true, if_false]
      rw [ih hxs]

/-- After a delete the key is settled. -/
theorem storeDelete_settles {α : Type} {K : Kind α} (hK : K.Lawful) (l : List α)
    (ns name : String) {now : Nat} (hnow : now ≠ 0) :
    KeySettled K (storeDelete K l ns name now) ns name := by
  intro y hy hk
  unfold storeDelete at hy
  rw [List.mem_filterMap] at hy
  obtain ⟨x, -, hx⟩ := hy
  split at hx
  · split at hx
    · simp at hx
    · rename_i hfin
      simp only [Option.some.injEq] at hx
      rw [← hx, hK]
      exact ⟨by rw [markDeleted_finalizers]; exact hfin, markDeleted_isDeleted _ _ hnow⟩
  · rename_i hne
    simp only [Option.some.injEq] at hx
    rw [hx] at hne
    exact absurd hk hne

/-- A delete keeps every settled key settled. -/
theorem storeDelete_keeps_settled {α : Type} {K : Kind α} (hK : K.Lawful) {l : List α}
    {ns name ns1 name1 : String} {now : Nat} (hs : KeySettled K l ns1 name1) :
    KeySettled K (storeDelete K l ns name now) ns1 name1 := by
  intro y hy hk
  unfold storeDelete at hy
  rw [List.mem_filterMap] at hy
  obtain ⟨x, hxl, hx⟩ := hy
  split at hx
  · split at hx
    · simp at hx
    · simp only [Option.some.injEq] at hx
      rw [← hx, hK] at hk ⊢
      have hkx : hasKey (K.meta x) ns1 name1 = true := by
        simpa [hasKey, markDeleted_name, markDeleted_namespace] using hk
      obtain ⟨hfin, hdel⟩ := hs x hxl hkx
      exact ⟨by rw [markDeleted_finalizers]; exact hfin, markDeleted_mono _ _ hdel⟩
  · simp only [Option.some.injEq] at hx
    rw [← hx]
    exact hs x hxl (hx ▸ hk)

theorem KeySettled_of_none {α : Type} {K : Kind α} {l : List α} {ns name : String}
    (h : storeGet K.meta l ns name = none) : KeySettled K l ns name := by
  intro y hy hk
  rw [storeGet_none h hy] at hk
  cases hk

theorem storeGet_of_mem {α : Type} (meta : α → ObjectMeta) {l : List α} {x : α} (hx : x ∈ l) :
    ∃ o, storeGet meta l (meta x).Namespace (meta x).Name = some o := by
  cases hg : storeGet meta l (meta x).Namespace (meta x).Name with
  | some o => exact ⟨o, rfl⟩
  | none =>
    have := storeGet_none hg hx
    simp [hasKey] at this

/-- Without a failure, a delete of an object whose key is settled is logged and leaves
every object as it is. -/
theorem clientDelete_settled {α : Type} {K : Kind α} (hK2 : ∀ o, K.setMeta o (K.meta o) = o)
    (hself : ∀ (w : World) (c : Call), K.put (w.logged c) (K.objs w) = w.logged c)
    {w : World} {x : α} (hf : w.faults w.calls = false) (hx : x ∈ K.objs w)
    (hs : KeySettled K (K.objs w) (K.meta x).Namespace (K.meta x).Name) :
    clientDelete K x w = some (none,
      w.logged ⟨.delete, K.tag, (K.meta x).Namespace, (K.meta x).Name⟩) := by
  obtain ⟨o, ho⟩ := storeGet_of_mem K.meta hx
  rw [clientDelete_run_found hf ho, storeDelete_of_settled hK2 hs, hself]

theorem Settling_start {α : Type} (K : Kind α) (listed : ObjectMeta → Bool) (p : String)
    (l : List α) : Settling K listed p l (l.filter (fun o => listed (K.meta o))) := by
  intro y hy hl _
  exact Or.inr ⟨y, List.mem_filter.mpr ⟨hy, hl⟩, rfl, rfl⟩

theorem Settling_skip {α : Type} {K : Kind α} {listed : ObjectMeta → Bool} {p : String}
    {l : List α} {x : α} {rest : List α} (hx : (K.meta x).Name ≠ p)
    (h : Settling K listed p l (x :: rest)) : Settling K listed p l rest := by
  intro y hy hl hn
  rcases h y hy hl hn with hs | ⟨x1, hx1, hns, hname⟩
  · exact Or.inl hs
  · rcases List.mem_cons.mp hx1 with rfl | hmem
    · exact absurd (hname.trans hn) hx
    · exact Or.inr ⟨x1, hmem, hns, hname⟩

theorem Settling_delete {α : Type} {K : Kind α} (hK : K.Lawful) {listed : ObjectMeta → Bool}
    (hl : ByLabels listed) {p : String} {l : List α} {x : α} {rest : List α} {now : Nat}
    (hnow : now ≠ 0) (h : Settling K listed p l (x :: rest)) :
    Settling K listed p (storeDelete K l (K.meta x).Namespace (K.meta x).Name now) rest := by
  intro y hy hly hn
  obtain ⟨y0, hy0, e1, e2, e3, -⟩ := storeDelete_shrink hK hy
  have hly0 : listed (K.meta y0) = true := by rw [hl _ _ e2 e3]; exact hly
  rcases h y0 hy0 hly0 (e1.trans hn) with hs | ⟨x1, hx1, hns, hname⟩
  · left
    rw [← e1, ← e2]
    exact storeDelete_keeps_settled hK hs
  · rcases List.mem_cons.mp hx1 with rfl | hmem
    · left
      rw [← e1, ← e2, ← hns, ← hname]
      exact storeDelete_settles hK l _ _ hnow
    · exact Or.inr ⟨x1, hmem, hns.trans e2, hname.trans e1⟩

theorem Settling_missing {α : Type} {K : Kind α} {listed : ObjectMeta → Bool} {p : String}
    {l : List α} {x : α} {rest : List α}
    (hnone : storeGet K.meta l (K.meta x).Namespace (K.meta x).Name = none)
    (h : Settling K listed p l (x :: rest)) : Settling K listed p l rest := by
  intro y hy hl hn
  rcases h y hy hl hn with hs | ⟨x1, hx1, hns, hname⟩
  · exact Or.inl hs
  · rcases List.mem_cons.mp hx1 with rfl | hmem
    · left
      rw [← hns, ← hname]
      exact KeySettled_of_none hnone
    · exact Or.inr ⟨x1, hmem, hns, hname⟩

theorem Settling_done {α : Type} {K : Kind α} {listed : ObjectMeta → Bool} {p : String}
    {l : List α} (h : Settling K listed p l []) :
    ∀ y ∈ l, listed (K.meta y) = true → (K.meta y).Name = p →
      KeySettled K l (K.meta y).Namespace (K.meta y).Name := by
  intro y hy hl hn
  rcases h y hy hl hn with hs | ⟨x1, hx1, -, -⟩
  · exact hs
  · cases hx1

theorem listedBy_byLabels (v : VSHandler) (ns : String) : ByLabels (listedBy v ns) := by
  intro m m1 h1 h2
  unfold listedBy VSHandler.ownedBy
  rw [h1, h2]

theorem DeleteRS_loop_settles (listed : ObjectMeta → Bool) (hl : ByLabels listed) (p : String) :
    ∀ (items : List ReplicationSource) (w w1 : World) (u : Unit), NoFaults w →
      Settling rsKind listed p w.rss items →
      VSHandler.DeleteRS.loop p items w = some (u, w1) →
      Settling rsKind listed p w1.rss [] ∧ Agree { rss := true } w w1 := by
  intro items
  induction items with
  | nil =>
    intro w w1 u hf hinv h
    simp only [VSHandler.DeleteRS.loop, M.pure_run, Option.some.injEq, Prod.mk.injEq, true_and] at h
    subst h
    exact ⟨hinv, Agree.agree_refl _ _⟩
  | cons x rest ih =>
    intro w w1 u hf hinv h
    unfold VSHandler.DeleteRS.loop at h
    split at h
    · rw [M.bind_eq_some] at h
      obtain ⟨r, wa, hdel, h⟩ := h
      have hag : Agree { rss := true } w wa :=
        (clientDelete_mods (S := { rss := true }) rsKind x (fun _ _ => rfl)).run _ _ _ hdel
      have hfa : NoFaults wa := hag.noFaults hf
      have hinv1 : Settling rsKind listed p wa.rss rest := by
        rcases clientDelete_cases (hf _) hdel with ⟨-, hnone, hw⟩ | ⟨-, hw⟩
        · rw [hw]
          exact Settling_missing hnone hinv
        · rw [hw]
          exact Settling_delete rsKind_lawful hl (Nat.succ_ne_zero _) hinv
      obtain ⟨h1, h2⟩ := ih wa w1 u hfa hinv1 h
      exact ⟨h1, hag.agree_trans h2⟩
    · rename_i hname
      refine ih w w1 u hf (Settling_skip ?_ hinv) h
      intro hk
      simp only [getReplicationSourceName, beq_iff_eq] at hname
      exact hname hk

/-- A second pass of the delete loop of `DeleteRS`, over sources whose keys are
settled, deletes again and changes nothing. -/
theorem DeleteRS_loop_quiet (p : String) :
    ∀ (items : List ReplicationSource) (w : World), NoFaults w →
      (∀ x ∈ items, x.ObjectMeta.Name = p →
        x ∈ w.rss ∧ KeySettled rsKind w.rss x.ObjectMeta.Namespace x.ObjectMeta.Name) →
      ∃ w1, VSHandler.DeleteRS.loop p items w = some ((), w1) ∧ Quiet w w1 := by
  intro items
  induction items with
  | nil =>
    intro w hf hs
    exact ⟨w, rfl, Quiet.quiet_refl w⟩
  | cons x rest ih =>
    intro w hf hs
    unfold VSHandler.DeleteRS.loop
    by_cases hname : x.ObjectMeta.Name = p
    · obtain ⟨hx, hsx⟩ := hs x (List.mem_cons_self _ _) hname
      have hdel := clientDelete_settled (K := rsKind) (fun _ => rfl) (fun _ _ => rfl) (hf _) hx hsx
      have hq : Quiet w (w.logged ⟨.delete, rsKind.tag, x.ObjectMeta.Namespace, x.ObjectMeta.Name⟩) :=
        Quiet.quiet_delete w _ rfl
      obtain ⟨w1, hrun, hq1⟩ := ih _ (hq.quiet_noFaults hf)
        (fun y hy hn => hs y (List.mem_cons_of_mem _ hy) hn)
      refine ⟨w1, ?_, hq.quiet_trans hq1⟩
      have hb : (x.ObjectMeta.Name == getReplicationSourceName p) = true := by
        simp [getReplicationSourceName, hname]
      simp only [hb, if_true, M.bind_run]
      rw [show clientDelete rsKind x w = _ from hdel]
      exact hrun
    · obtain ⟨w1, hrun, hq1⟩ := ih w hf (fun y hy hn => hs y (List.mem_cons_of_mem _ hy) hn)
      refine ⟨w1, ?_, hq1⟩
      have hb : (x.ObjectMeta.Name == getReplicationSourceName p) = false := by
        simp [getReplicationSourceName, hname]
      simp only [hb, Bool.false_eq_true, if_false]
      exact hrun

/-- Without client failures `DeleteRS` returns nil, and run again on the sources it
left it returns nil again, changes no object and issues deletes only. -/
theorem DeleteRS_rerun (v : VSHandler) (p ns : String) (w wa : World) (r : Option Err)
    (hf : NoFaults w) (h : v.DeleteRS p ns w = some (r, wa)) :
    r = none ∧ Agree { rss := true } w wa ∧
    ∀ w1, NoFaults w1 → w1.rss = wa.rss →
      ∃ w2, v.DeleteRS p ns w1 = some (none, w2) ∧ Quiet w1 w2 := by
  unfold VSHandler.DeleteRS VSHandler.listRSByOwner VSHandler.listByOwner at h
  rw [M.bind_eq_some] at h
  obtain ⟨l, w0, hl, h⟩ := h
  obtain ⟨hr, hw0⟩ := clientList_ok (hf _) hl
  subst hr hw0
  dsimp only at h
  rw [M.bind_eq_some] at h
  obtain ⟨u, w3, hloop, h⟩ := h
  simp only [M.pure_run, Option.some.injEq, Prod.mk.injEq] at h
  obtain ⟨hr, hw⟩ := h
  subst hr hw
  obtain ⟨hdone, hag⟩ := DeleteRS_loop_settles (listedBy v ns) (listedBy_byLabels v ns) p _ w.tick w3 u
    (fun n => hf n) (Settling_start rsKind (listedBy v ns) p w.rss) hloop
  refine ⟨rfl, hag, ?_⟩
  intro w1 hf1 hrss
  have hsettled := Settling_done hdone
  obtain ⟨w2, hrun, hq⟩ := DeleteRS_loop_quiet p
    (w1.rss.filter (fun o => listedBy v ns o.ObjectMeta)) w1.tick (fun n => hf1 n)
    (by
      intro x hx hn
      obtain ⟨hxm, hxl⟩ := List.mem_filter.mp hx
      refine ⟨hxm, ?_⟩
      have hxm3 : x ∈ w3.rss := hrss ▸ hxm
      have := hsettled x hxm3 hxl hn
      show KeySettled rsKind w1.rss _ _
      rw [hrss]
      exact this)
  refine ⟨w2, ?_, (Quiet.quiet_tick w1).quiet_trans hq⟩
  unfold VSHandler.DeleteRS VSHandler.listRSByOwner VSHandler.listByOwner
  rw [M.bind_run, clientList_run (hf1 _)]
  dsimp only
  rw [M.bind_run]
  have hrun1 : VSHandler.DeleteRS.loop p
      (List.filter (fun o => (ns == "" || (rsKind.meta o).Namespace == ns) && v.ownedBy (rsKind.meta o))
        (rsKind.objs w1)) w1.tick = some ((), w2) := hrun
  rw [hrun1]
  rfl

theorem lookup_mapSet_at (l : StrMap) (k v k1 : String) :
    (mapSet l k v).lookup k1 = if k1 = k then some v else l.lookup k1 := by
  induction l with
  | nil =>
    by_cases h : k1 = k
    · simp [mapSet, List.lookup, h]
    · have hb : (k1 == k) = false := by simpa using h
      simp [mapSet, List.lookup, h, hb]
  | cons a rest ih =>
    obtain ⟨k0, v0⟩ := a
    unfold mapSet
    by_cases h0 : k0 = k
    · rw [if_pos h0]
      by_cases h : k1 = k
      · simp [List.lookup, h]
      · have hb : (k1 == k) = false := by simpa using h
        have hb0 : (k1 == k0) = false := by rw [h0]; exact hb
        simp only [List.lookup_cons, hb, hb0, h, if_false]
    · rw [if_neg h0]
      by_cases h1 : k1 = k0
      · have h2 : ¬ k1 = k := by rw [h1]; exact h0
        have hb0 : (k1 == k0) = true := by simpa using h1
        simp only [List.lookup_cons, hb0, h2, if_false]
      · have hb : (k1 == k0) = false := by simpa using h1
        simp only [List.lookup_cons, hb]
        exact ih

theorem metaAddLabel_lookup_at (m : ObjectMeta) (k v k1 : String) :
    mapLookup (util.metaAddLabel m k v).1.Labels k1 =
      if k1 = k then some v else mapLookup m.Labels k1 := by
  unfold util.metaAddLabel
  by_cases h : mapLookup m.Labels k = some v
  · rw [if_pos h]
    by_cases h1 : k1 = k
    · rw [if_pos h1, h1]; exact h
    · rw [if_neg h1]
  · rw [if_neg h]
    show (mapSet (m.Labels.getD []) k v).lookup k1 = _
    rw [lookup_mapSet_at]
    by_cases h1 : k1 = k
    · rw [if_pos h1, if_pos h1]
    · rw [if_neg h1, if_neg h1]
      cases m.Labels <;> rfl

theorem metaAddLabel_fixed (m : ObjectMeta) (k v : String) (h : mapLookup m.Labels k = some v) :
    util.metaAddLabel m k v = (m, false) := by
  unfold util.metaAddLabel
  rw [if_pos h]

theorem metaAddAnnotation_lookup_at (m : ObjectMeta) (k v k1 : String) :
    mapLookup (util.metaAddAnnotation m k v).1.Annotations k1 =
      if k1 = k then some v else mapLookup m.Annotations k1 := by
  unfold util.metaAddAnnotation
  by_cases h : mapLookup m.Annotations k = some v
  · rw [if_pos h]
    by_cases h1 : k1 = k
    · rw [if_pos h1, h1]; exact h
    · rw [if_neg h1]
  · rw [if_neg h]
    show (mapSet (m.Annotations.getD []) k v).lookup k1 = _
    rw [lookup_mapSet_at]
    by_cases h1 : k1 = k
    · rw [if_pos h1, if_pos h1]
    · rw [if_neg h1, if_neg h1]
      cases m.Annotations <;> rfl

theorem metaAddAnnotation_fixed (m : ObjectMeta) (k v : String)
    (h : mapLookup m.Annotations k = some v) : util.metaAddAnnotation m k v = (m, false) := by
  unfold util.metaAddAnnotation
  rw [if_pos h]

theorem referSameObject_self (ref : OwnerReference) (h : parseGroup ref.APIVersion ≠ none) :
    referSameObject ref ref = true := by
  unfold referSameObject
  cases hg : parseGroup ref.APIVersion with
  | none => exact absurd hg h
  | some g => simp

theorem upsertOwnerRef_idem (ref : OwnerReference) (h : referSameObject ref ref = true)
    (l : List OwnerReference) :
    upsertOwnerRef ref (upsertOwnerRef ref l) = upsertOwnerRef ref l := by
  induction l with
  | nil => simp [upsertOwnerRef, h]
  | cons r rest ih =>
    by_cases hr : referSameObject r ref = true
    · simp only [hr, if_true, upsertOwnerRef, h]
    · simp only [hr, if_false, Bool.false_eq_true, upsertOwnerRef]
      rw [ih]

/-- After the upsert of a controller reference into a list whose first controller, if
any, names the same object, that reference is the first controller of the list. -/
theorem upsertOwnerRef_controller (ref : OwnerReference) (hc : ref.Controller = true)
    (l : List OwnerReference)
    (h : ∀ ex, l.find? (fun r => r.Controller) = some ex → referSameObject ex ref = true) :
    (upsertOwnerRef ref l).find? (fun r => r.Controller) = some ref := by
  induction l with
  | nil => simp [upsertOwnerRef, hc]
  | cons r rest ih =>
    unfold upsertOwnerRef
    by_cases hr : referSameObject r ref = true
    · rw [if_pos hr]
      simp [List.find?, hc]
    · rw [if_neg hr]
      have hrc : r.Controller = false := by
        cases hcc : r.Controller with
        | false => rfl
        | true =>
          have := h r (by simp [List.find?, hcc])
          exact absurd this hr
      simp only [List.find?, hrc]
      apply ih
      intro ex hex
      apply h ex
      simp only [List.find?, hrc]
      exact hex

theorem SetOwnerReferenceMeta_sets (a k : String) (owner m m1 : ObjectMeta)
    (hp : parseGroup a ≠ none) (h : SetOwnerReferenceMeta a k owner m = (m1, none)) :
    OwnerRefSet a k owner m1 := by
  unfold SetOwnerReferenceMeta at h
  cases hv : validateOwner owner m with
  | some e => rw [hv] at h; simp at h
  | none =>
    rw [hv] at h
    simp only [Prod.mk.injEq, and_true] at h
    subst h
    refine ⟨hv, ?_⟩
    exact upsertOwnerRef_idem _ (referSameObject_self _ hp) _

theorem SetOwnerReferenceMeta_fixed (a k : String) (owner m : ObjectMeta)
    (h : OwnerRefSet a k owner m) : SetOwnerReferenceMeta a k owner m = (m, none) := by
  unfold SetOwnerReferenceMeta
  rw [h.1]
  simp only [h.2]

theorem SetControllerReferenceMeta_sets (a k : String) (owner m m1 : ObjectMeta)
    (hp : parseGroup a ≠ none) (h : SetControllerReferenceMeta a k owner m = (m1, none)) :
    ControllerRefSet a k owner m1 := by
  unfold SetControllerReferenceMeta at h
  cases hv : validateOwner owner m with
  | some e => rw [hv] at h; simp at h
  | none =>
    rw [hv] at h
    dsimp only at h
    have hself := referSameObject_self
      { APIVersion := a, Kind := k, Name := owner.Name, UID := owner.UID,
        Controller := true, BlockOwnerDeletion := true } hp
    cases hfind : m.OwnerReferences.find? (fun r => r.Controller) with
    | none =>
      rw [hfind] at h
      simp only [Prod.mk.injEq, and_true] at h
      subst h
      exact ⟨hv, upsertOwnerRef_controller _ rfl _ (by intro ex hex; rw [hfind] at hex; cases hex),
        hp, upsertOwnerRef_idem _ hself _⟩
    | some ex =>
      rw [hfind] at h
      dsimp only at h
      split at h
      · rename_i hsame
        simp only [Prod.mk.injEq, and_true] at h
        subst h
        exact ⟨hv, upsertOwnerRef_controller _ rfl _
          (by intro ex1 hex1; rw [hfind] at hex1; cases hex1; exact hsame),
          hp, upsertOwnerRef_idem _ hself _⟩
      · simp at h

theorem SetControllerReferenceMeta_fixed (a k : String) (owner m : ObjectMeta)
    (h : ControllerRefSet a k owner m) : SetControllerReferenceMeta a k owner m = (m, none) := by
  obtain ⟨hv, hfind, hp, hup⟩ := h
  unfold SetControllerReferenceMeta
  rw [hv]
  dsimp only
  rw [hfind]
  dsimp only
  rw [if_pos (referSameObject_self _ hp)]
  simp only [hup]

theorem mutate_fixed {α : Type} {K : Kind α} {f : α → Option (α × Option Err)} {ns name : String}
    {o : α} (hf : f o = some (o, none)) (hk : hasKey (K.meta o) ns name = true) :
    mutate K f ns name o = some (o, none) := by
  unfold mutate
  rw [hf]
  simp only [hk, if_true]

/-- A `CreateOrUpdate` that is run again on the objects it left, with a `MutateFn` that
leaves alone what it has written, finds nothing to do: it returns the same object and
the same error after the one lookup. -/
theorem CreateOrUpdate_rerun {α : Type} [DecidableEq α] {K : Kind α} (hK : K.Lawful)
    (hput : ∀ w l, K.objs (K.put w l) = l) (htick : ∀ w : World, K.objs w.tick = K.objs w)
    {obj : α} {f : α → Option (α × Option Err)} {w w1 : World} {op : OperationResult} {o1 : α}
    {err : Option Err} (hnf : NoFaults w)
    (h : CreateOrUpdate K obj f w = some ((op, o1, err), w1))
    (hwf : ∀ x ∈ K.objs w, Storable (K.meta x))
    (hkeeps : ∀ o o2, f o = some (o2, none) →
      (K.meta o2).DeletionTimestamp = (K.meta o).DeletionTimestamp ∧
      (K.meta o2).Finalizers = (K.meta o).Finalizers)
    (hidem : ∀ o o2, f o = some (o2, none) →
      f o2 = some (o2, none) ∧ ∀ now, f (asCreated K o2 now) = some (asCreated K o2 now, none)) :
    ∀ w2, NoFaults w2 → K.objs w2 = K.objs w1 →
      CreateOrUpdate K obj f w2 = some ((.None, o1, err), w2.tick) := by
  intro w2 hnf2 hobjs
  cases err with
  | none =>
    obtain ⟨hst, -⟩ := CreateOrUpdate_ok hK hput htick h hwf hkeeps
    have hfix : f o1 = some (o1, none) := by
      rcases CreateOrUpdate_result h with ⟨o0, -, hf0⟩ | ⟨-, o2, hf2, ho⟩
      · exact (hidem o0 o1 hf0).1
      · rw [ho]
        exact (hidem obj o2 hf2).2 _
    rw [← hobjs] at hst
    have hk := storeGet_hasKey hst
    unfold CreateOrUpdate
    simp only [M.bind_run, clientGet_run_found (hnf2 _) hst, mutate_fixed hfix hk, if_true,
      M.pure_run]
  | some e =>
    have hstep : ∀ (wx : World), NoFaults wx → K.objs wx = K.objs w →
        CreateOrUpdate K obj f wx = some ((.None, o1, some e), wx.tick) ∧ K.objs w1 = K.objs w := by
      intro wx hnfx hx
      unfold CreateOrUpdate at h ⊢
      cases hg : storeGet K.meta (K.objs w) (K.meta obj).Namespace (K.meta obj).Name with
      | none =>
        have hgx : storeGet K.meta (K.objs wx) (K.meta obj).Namespace (K.meta obj).Name = none := by
          rw [hx]; exact hg
        simp only [M.bind_run, clientGet_run_missing (hnf _) hg, Err.IsNotFound, if_true] at h
        simp only [M.bind_run, clientGet_run_missing (hnfx _) hgx, Err.IsNotFound, if_true]
        generalize hm : mutate K f (K.meta obj).Namespace (K.meta obj).Name obj = mres at h ⊢
        rcases mres with _ | ⟨o2, _ | e2⟩
        · simp at h
        · exfalso
          have hg1 : storeGet K.meta (K.objs w.tick) (K.meta o2).Namespace (K.meta o2).Name = none := by
            obtain ⟨-, hk⟩ := mutate_ok hm
            rw [hasKey_iff] at hk
            rw [htick, hk.1, hk.2]
            exact hg
          simp only [M.bind_run, clientCreate_run_new (w := w.tick) (hnf _) hg1, M.pure_run, Option.some.injEq,
            Prod.mk.injEq] at h
          exact absurd h.1.2.2 (by simp)
        · simp only [M.pure_run, Option.some.injEq, Prod.mk.injEq] at h
          obtain ⟨⟨-, ho, he⟩, hw⟩ := h
          subst ho hw
          cases he
          exact ⟨rfl, htick w⟩
      | some existing =>
        have hgx : storeGet K.meta (K.objs wx) (K.meta obj).Namespace (K.meta obj).Name
            = some existing := by
          rw [hx]; exact hg
        simp only [M.bind_run, clientGet_run_found (hnf _) hg] at h
        simp only [M.bind_run, clientGet_run_found (hnfx _) hgx]
        generalize hm : mutate K f (K.meta obj).Namespace (K.meta obj).Name existing = mres at h ⊢
        rcases mres with _ | ⟨o2, _ | e2⟩
        · simp at h
        · exfalso
          dsimp only at h
          split at h
          · simp only [M.pure_run, Option.some.injEq, Prod.mk.injEq] at h
            exact absurd h.1.2.2 (by simp)
          · have hg1 : storeGet K.meta (K.objs w.tick) (K.meta o2).Namespace (K.meta o2).Name
                = some existing := by
              obtain ⟨-, hk⟩ := mutate_ok hm
              rw [hasKey_iff] at hk
              rw [htick, hk.1, hk.2]
              exact hg
            simp only [M.bind_run, clientUpdate_run_found (w := w.tick) (hnf _) hg1, M.pure_run,
              Option.some.injEq, Prod.mk.injEq] at h
            exact absurd h.1.2.2 (by simp)
        · simp only [M.pure_run, Option.some.injEq, Prod.mk.injEq] at h
          obtain ⟨⟨-, ho, he⟩, hw⟩ := h
          subst ho hw
          cases he
          exact ⟨rfl, htick w⟩
    have hsame := (hstep w hnf rfl).2
    exact (hstep w2 hnf2 (hobjs.trans hsame)).1

/-- Without a client failure a `CreateOrUpdate` that returns an error has written
nothing. -/
theorem CreateOrUpdate_error_frame {α : Type} [DecidableEq α] {K : Kind α}
    (htick : ∀ w : World, K.objs w.tick = K.objs w)
    {obj : α} {f : α → Option (α × Option Err)} {w w1 : World} {op : OperationResult} {o1 : α}
    {e : Err} (hnf : NoFaults w)
    (h : CreateOrUpdate K obj f w = some ((op, o1, some e), w1)) : w1 = w.tick := by
  unfold CreateOrUpdate at h
  cases hg : storeGet K.meta (K.objs w) (K.meta obj).Namespace (K.meta obj).Name with
  | none =>
    simp only [M.bind_run, clientGet_run_missing (hnf _) hg, Err.IsNotFound, if_true] at h
    generalize hm : mutate K f (K.meta obj).Namespace (K.meta obj).Name obj = mres at h
    rcases mres with _ | ⟨o2, _ | e2⟩
    · simp at h
    · exfalso
      have hg1 : storeGet K.meta (K.objs w.tick) (K.meta o2).Namespace (K.meta o2).Name = none := by
        obtain ⟨-, hk⟩ := mutate_ok hm
        rw [hasKey_iff] at hk
        rw [htick, hk.1, hk.2]
        exact hg
      simp only [M.bind_run, clientCreate_run_new (w := w.tick) (hnf _) hg1, M.pure_run, Option.some.injEq,
        Prod.mk.injEq] at h
      exact absurd h.1.2.2 (by simp)
    · simp only [M.pure_run, Option.some.injEq, Prod.mk.injEq] at h
      exact h.2.symm
  | some existing =>
    simp only [M.bind_run, clientGet_run_found (hnf _) hg] at h
    generalize hm : mutate K f (K.meta obj).Namespace (K.meta obj).Name existing = mres at h
    rcases mres with _ | ⟨o2, _ | e2⟩
    · simp at h
    · exfalso
      dsimp only at h
      split at h
      · simp only [M.pure_run, Option.some.injEq, Prod.mk.injEq] at h
        exact absurd h.1.2.2 (by simp)
      · have hg1 : storeGet K.meta (K.objs w.tick) (K.meta o2).Namespace (K.meta o2).Name
            = some existing := by
          obtain ⟨-, hk⟩ := mutate_ok hm
          rw [hasKey_iff] at hk
          rw [htick, hk.1, hk.2]
          exact hg
        simp only [M.bind_run, clientUpdate_run_found (w := w.tick) (hnf _) hg1, M.pure_run,
          Option.some.injEq, Prod.mk.injEq] at h
        exact absurd h.1.2.2 (by simp)
    · simp only [M.pure_run, Option.some.injEq, Prod.mk.injEq] at h
      exact h.2.symm

theorem SetOwnerReferenceMeta_meta (a k : String) (owner m m1 : ObjectMeta)
    (h : SetOwnerReferenceMeta a k owner m = (m1, none)) :
    m1.Namespace = m.Namespace ∧ m1.Name = m.Name ∧
    m1.DeletionTimestamp = m.DeletionTimestamp ∧ m1.Finalizers = m.Finalizers := by
  unfold SetOwnerReferenceMeta at h
  split at h
  · simp at h
  · simp only [Prod.mk.injEq, and_true] at h
    subst h
    exact ⟨rfl, rfl, rfl, rfl⟩

/-- Without client failures, `ValidateSecretAndAddVRGOwnerRef` run again on a cluster
whose secret is the one the first run left returns the same and writes nothing. -/
theorem ValidateSecretAndAddVRGOwnerRef_rerun (v : VSHandler) (n : String) (w wa : World)
    (r : Bool × Option Err) (hnf : NoFaults w)
    (hwf : ∀ x ∈ w.secrets, Storable x.ObjectMeta)
    (hp : parseGroup v.owner.APIVersion ≠ none)
    (h : v.ValidateSecretAndAddVRGOwnerRef n w = some (r, wa)) :
    ∀ w2, NoFaults w2 →
      storeGet secretKind.meta w2.secrets v.owner.ObjectMeta.Namespace n =
        storeGet secretKind.meta wa.secrets v.owner.ObjectMeta.Namespace n →
      v.ValidateSecretAndAddVRGOwnerRef n w2 = some (r, w2.tick) := by
  intro w2 hnf2 hsame
  unfold VSHandler.ValidateSecretAndAddVRGOwnerRef at h ⊢
  cases hg : storeGet secretKind.meta w.secrets v.owner.ObjectMeta.Namespace n with
  | none =>
    simp only [M.bind_run, clientGet_run_missing (K := secretKind) (hnf _) hg, Err.IsNotFound,
      Bool.not_true, Bool.false_eq_true, if_false, M.pure_run, Option.some.injEq,
      Prod.mk.injEq] at h
    obtain ⟨hr, hw⟩ := h
    subst hr hw
    have hg2 : storeGet secretKind.meta w2.secrets v.owner.ObjectMeta.Namespace n = none := by
      rw [hsame]; exact hg
    simp only [M.bind_run, clientGet_run_missing (K := secretKind) (hnf2 _) hg2, Err.IsNotFound,
      Bool.not_true, Bool.false_eq_true, if_false, M.pure_run]
  | some secret =>
    simp only [M.bind_run, clientGet_run_found (K := secretKind) (hnf _) hg] at h
    unfold VSHandler.addOwnerReferenceAndUpdate util.metaAddOwnerReference at h ⊢
    cases hs : SetOwnerReferenceMeta v.owner.APIVersion v.owner.Kind v.owner.ObjectMeta
        secret.ObjectMeta with
    | mk m1 eo =>
      have hs' : SetOwnerReferenceMeta v.owner.APIVersion v.owner.Kind v.owner.ObjectMeta
        (secretKind.meta secret) = (m1, eo) := hs
      rw [hs'] at h
      cases eo with
      | some e =>
        simp only [M.pure_run, Option.some.injEq, Prod.mk.injEq] at h
        obtain ⟨hr, hw⟩ := h
        subst hr hw
        have hg2 : storeGet secretKind.meta w2.secrets v.owner.ObjectMeta.Namespace n = some secret := by
          rw [hsame]; exact hg
        simp only [M.bind_run, clientGet_run_found (K := secretKind) (hnf2 _) hg2, hs', M.pure_run]
      | none =>
        dsimp only at h
        by_cases hneed : m1.OwnerReferences = secret.ObjectMeta.OwnerReferences
        · have hd : decide (m1.OwnerReferences ≠ (secretKind.meta secret).OwnerReferences) = false := by
            simpa using hneed
          simp only [hd, Bool.false_eq_true, if_false, M.pure_run, Option.some.injEq,
            Prod.mk.injEq] at h
          obtain ⟨hr, hw⟩ := h
          subst hr hw
          have hg2 : storeGet secretKind.meta w2.secrets v.owner.ObjectMeta.Namespace n
              = some secret := by
            rw [hsame]; exact hg
          simp only [M.bind_run, clientGet_run_found (K := secretKind) (hnf2 _) hg2, hs', hd,
            Bool.false_eq_true, if_false, M.pure_run]
        · have hd : decide (m1.OwnerReferences ≠ (secretKind.meta secret).OwnerReferences) = true := by
            simpa using hneed
          obtain ⟨e1, e2, e3, e4⟩ := SetOwnerReferenceMeta_meta _ _ _ _ _ hs
          have hkey := storeGet_hasKey hg
          have hk1 : hasKey (secretKind.meta (secretKind.setMeta secret m1))
              v.owner.ObjectMeta.Namespace n = true := by
            rw [hasKey_iff] at hkey ⊢
            exact ⟨e1.trans hkey.1, e2.trans hkey.2⟩
          have hk2 := (hasKey_iff _ _ _).mp hk1
          have hg1 : storeGet secretKind.meta (secretKind.objs w.tick)
              (secretKind.meta (secretKind.setMeta secret m1)).Namespace
              (secretKind.meta (secretKind.setMeta secret m1)).Name = some secret := by
            rw [hk2.1, hk2.2]; exact hg
          simp only [hd, if_true, M.bind_run,
            clientUpdate_run_found (K := secretKind) (w := w.tick) (hnf _) hg1, M.pure_run,
            Option.some.injEq, Prod.mk.injEq] at h
          obtain ⟨hr, hw⟩ := h
          subst hr hw
          have hst : Storable (secretKind.meta (secretKind.setMeta secret m1)) := by
            intro hdel
            have hs0 := hwf secret (storeGet_mem hg)
            show m1.Finalizers ≠ []
            rw [e4]
            apply hs0
            simpa [metaIsDeleted, secretKind, e3] using hdel
          have hstored : storeGet secretKind.meta w2.secrets v.owner.ObjectMeta.Namespace n
              = some (secretKind.setMeta secret m1) := by
            rw [hsame]
            exact storeGet_storeUpdate_key (K := secretKind) hk1 hg hst
          have hfix := SetOwnerReferenceMeta_fixed v.owner.APIVersion v.owner.Kind
            v.owner.ObjectMeta m1 (SetOwnerReferenceMeta_sets _ _ _ _ _ hp hs)
          have hfix' : SetOwnerReferenceMeta v.owner.APIVersion v.owner.Kind v.owner.ObjectMeta
              (secretKind.meta (secretKind.setMeta secret m1)) = (m1, none) := hfix
          have hd2 : decide (m1.OwnerReferences ≠
              (secretKind.meta (secretKind.setMeta secret m1)).OwnerReferences) = false := by
            simp [secretKind]
          simp only [M.bind_run, clientGet_run_found (K := secretKind) (hnf2 _) hstored, hfix',
            hd2, Bool.false_eq_true, if_false, M.pure_run]

/-- Without client failures, `CopySecretToPVCNamespace` leaves the secret of the owner
as it is, and run again on the secrets it left it returns the same and writes nothing. -/
theorem CopySecretToPVCNamespace_rerun (v : VSHandler) (n ns : String) (w wa : World)
    (r : Option Err) (hnf : NoFaults w)
    (h : v.CopySecretToPVCNamespace n ns w = some (r, wa)) :
    storeGet secretKind.meta wa.secrets v.owner.ObjectMeta.Namespace n =
      storeGet secretKind.meta w.secrets v.owner.ObjectMeta.Namespace n ∧
    ∀ w2, NoFaults w2 → w2.secrets = wa.secrets →
      ∃ w3, v.CopySecretToPVCNamespace n ns w2 = some (r, w3) ∧ OnlyCalls w2 w3 := by
  unfold VSHandler.CopySecretToPVCNamespace at h
  cases hg : storeGet secretKind.meta w.secrets ns n with
  | some found =>
    simp only [M.bind_run, clientGet_run_found (K := secretKind) (hnf _) hg, M.pure_run,
      Option.some.injEq, Prod.mk.injEq] at h
    obtain ⟨hr, hw⟩ := h
    subst hr hw
    refine ⟨rfl, ?_⟩
    intro w2 hnf2 hsec
    have hg2 : storeGet secretKind.meta w2.secrets ns n = some found := by
      rw [hsec]; exact hg
    refine ⟨w2.tick, ?_, OnlyCalls.only_tick w2⟩
    unfold VSHandler.CopySecretToPVCNamespace
    simp only [M.bind_run, clientGet_run_found (K := secretKind) (hnf2 _) hg2, M.pure_run]
  | none =>
    simp only [M.bind_run, clientGet_run_missing (K := secretKind) (hnf _) hg, Err.IsNotFound,
      Bool.not_true, Bool.false_eq_true, if_false] at h
    cases hgo : storeGet secretKind.meta w.secrets v.owner.ObjectMeta.Namespace n with
    | none =>
      simp only [clientGet_run_missing (K := secretKind) (w := w.tick) (hnf _) hgo, M.pure_run,
        Option.some.injEq, Prod.mk.injEq] at h
      obtain ⟨hr, hw⟩ := h
      subst hr hw
      refine ⟨hgo, ?_⟩
      intro w2 hnf2 hsec
      have hg2 : storeGet secretKind.meta w2.secrets ns n = none := by
        rw [hsec]; exact hg
      have hgo2 : storeGet secretKind.meta w2.secrets v.owner.ObjectMeta.Namespace n = none := by
        rw [hsec]; exact hgo
      refine ⟨w2.tick.tick, ?_, (OnlyCalls.only_tick w2).only_step⟩
      unfold VSHandler.CopySecretToPVCNamespace
      simp only [M.bind_run, clientGet_run_missing (K := secretKind) (hnf2 _) hg2, Err.IsNotFound,
        Bool.not_true, Bool.false_eq_true, if_false,
        clientGet_run_missing (K := secretKind) (w := w2.tick) (hnf2 _) hgo2, M.pure_run]
    | some secret =>
      have hnew : storeGet secretKind.meta (secretKind.objs w.tick.tick)
          (secretKind.meta { secret with ObjectMeta :=
            { Name := n, Namespace := ns, Labels := secret.ObjectMeta.Labels,
              Annotations := secret.ObjectMeta.Annotations } }).Namespace
          (secretKind.meta { secret with ObjectMeta :=
            { Name := n, Namespace := ns, Labels := secret.ObjectMeta.Labels,
              Annotations := secret.ObjectMeta.Annotations } }).Name = none := hg
      simp only [clientGet_run_found (K := secretKind) (w := w.tick) (hnf _) hgo, M.bind_run,
        clientCreate_run_new (K := secretKind) (w := w.tick.tick) (hnf _) hnew, M.pure_run,
        Option.some.injEq, Prod.mk.injEq] at h
      obtain ⟨hr, hw⟩ := h
      subst hr hw
      constructor
      · show storeGet secretKind.meta (w.secrets ++ _) _ _ = _
        unfold storeGet at hgo ⊢
        rw [List.find?_append, hgo]
        rfl
      · intro w2 hnf2 hsec
        have hg2 : ∃ c, storeGet secretKind.meta w2.secrets ns n = some c := by
          rw [hsec]
          exact ⟨_, @storeGet_append_new _ secretKind.meta _ _ _ _ hg
            (by simp [hasKey, asCreated, secretKind])⟩
        obtain ⟨c, hc⟩ := hg2
        refine ⟨w2.tick, ?_, OnlyCalls.only_tick w2⟩
        unfold VSHandler.CopySecretToPVCNamespace
        simp only [M.bind_run, clientGet_run_found (K := secretKind) (hnf2 _) hc, M.pure_run]

theorem ControllerRefSet_congr {a k : String} {owner m m1 : ObjectMeta}
    (h1 : m1.Namespace = m.Namespace) (h2 : m1.OwnerReferences = m.OwnerReferences)
    (h : ControllerRefSet a k owner m) : ControllerRefSet a k owner m1 := by
  unfold ControllerRefSet validateOwner at *
  rw [h1, h2]
  exact h

theorem metaAddLabel_rest (m : ObjectMeta) (k v : String) :
    (util.metaAddLabel m k v).1.Namespace = m.Namespace ∧
    (util.metaAddLabel m k v).1.OwnerReferences = m.OwnerReferences ∧
    (util.metaAddLabel m k v).1.Annotations = m.Annotations := by
  unfold util.metaAddLabel
  split <;> exact ⟨rfl, rfl, rfl⟩

theorem metaAddAnnotation_rest (m : ObjectMeta) (k v : String) :
    (util.metaAddAnnotation m k v).1.Namespace = m.Namespace ∧
    (util.metaAddAnnotation m k v).1.OwnerReferences = m.OwnerReferences ∧
    (util.metaAddAnnotation m k v).1.Labels = m.Labels := by
  unfold util.metaAddAnnotation
  split <;> exact ⟨rfl, rfl, rfl⟩

theorem metaAddAnnotation_keeps (m : ObjectMeta) (k v : String) :
    (util.metaAddAnnotation m k v).1.DeletionTimestamp = m.DeletionTimestamp ∧
    (util.metaAddAnnotation m k v).1.Finalizers = m.Finalizers := by
  unfold util.metaAddAnnotation
  split <;> exact ⟨rfl, rfl⟩

theorem ownedMetaOf_sets (v : VSHandler) (hp : parseGroup v.owner.APIVersion ≠ none)
    (m m2 : ObjectMeta) (h : ownedMetaOf v m = (m2, none)) : OwnedMeta v m2 := by
  unfold ownedMetaOf at h
  generalize hq : (if (!v.vrgInAdminNamespace) = true
      then SetControllerReferenceMeta v.owner.APIVersion v.owner.Kind v.owner.ObjectMeta m
      else (m, none)) = q at h
  obtain ⟨m1, e⟩ := q
  cases e with
  | some e1 => simp at h
  | none =>
    simp only [Prod.mk.injEq, and_true] at h
    subst h
    have r1 := metaAddLabel_rest m1 VRGOwnerNameLabel v.owner.ObjectMeta.Name
    have r2 := metaAddLabel_rest (util.metaAddLabel m1 VRGOwnerNameLabel v.owner.ObjectMeta.Name).1
      VRGOwnerNamespaceLabel v.owner.ObjectMeta.Namespace
    refine ⟨?_, ?_, ?_⟩
    · by_cases ha : v.vrgInAdminNamespace = true
      · exact Or.inl ha
      · right
        have hb : (!v.vrgInAdminNamespace) = true := by simpa using ha
        rw [if_pos hb] at hq
        have := SetControllerReferenceMeta_sets _ _ _ _ _ hp hq
        exact ControllerRefSet_congr (r2.1.trans r1.1) (r2.2.1.trans r1.2.1) this
    · rw [metaAddLabel_lookup_at, if_neg (by decide), metaAddLabel_lookup_at, if_pos rfl]
    · rw [metaAddLabel_lookup_at, if_pos rfl]

theorem ownedMetaOf_fixed (v : VSHandler) (m : ObjectMeta) (h : OwnedMeta v m) :
    ownedMetaOf v m = (m, none) := by
  obtain ⟨hc, h1, h2⟩ := h
  unfold ownedMetaOf
  have hq : (if (!v.vrgInAdminNamespace) = true
      then SetControllerReferenceMeta v.owner.APIVersion v.owner.Kind v.owner.ObjectMeta m
      else (m, none)) = (m, none) := by
    by_cases ha : v.vrgInAdminNamespace = true
    · simp [ha]
    · have hb : (!v.vrgInAdminNamespace) = true := by simpa using ha
      rw [if_pos hb]
      rcases hc with hc | hc
      · exact absurd hc ha
      · exact SetControllerReferenceMeta_fixed _ _ _ _ hc
  rw [hq]
  simp only [metaAddLabel_fixed m _ _ h1, metaAddLabel_fixed m _ _ h2]

theorem ownedMetaOf_keeps (v : VSHandler) (m m2 : ObjectMeta) (h : ownedMetaOf v m = (m2, none)) :
    m2.DeletionTimestamp = m.DeletionTimestamp ∧ m2.Finalizers = m.Finalizers ∧
    m2.Annotations = m.Annotations := by
  unfold ownedMetaOf at h
  generalize hq : (if (!v.vrgInAdminNamespace) = true
      then SetControllerReferenceMeta v.owner.APIVersion v.owner.Kind v.owner.ObjectMeta m
      else (m, none)) = q at h
  obtain ⟨m1, e⟩ := q
  cases e with
  | some e1 => simp at h
  | none =>
    simp only [Prod.mk.injEq, and_true] at h
    subst h
    have k1 := metaAddLabel_keeps m1 VRGOwnerNameLabel v.owner.ObjectMeta.Name
    have k2 := metaAddLabel_keeps (util.metaAddLabel m1 VRGOwnerNameLabel v.owner.ObjectMeta.Name).1
      VRGOwnerNamespaceLabel v.owner.ObjectMeta.Namespace
    have r1 := metaAddLabel_rest m1 VRGOwnerNameLabel v.owner.ObjectMeta.Name
    have r2 := metaAddLabel_rest (util.metaAddLabel m1 VRGOwnerNameLabel v.owner.ObjectMeta.Name).1
      VRGOwnerNamespaceLabel v.owner.ObjectMeta.Namespace
    have h1 : m1.DeletionTimestamp = m.DeletionTimestamp ∧ m1.Finalizers = m.Finalizers ∧
        m1.Annotations = m.Annotations := by
      split at hq
      · have hs := SetControllerReferenceMeta_keeps v.owner.APIVersion v.owner.Kind
          v.owner.ObjectMeta m
        rw [hq] at hs
        refine ⟨hs.1, hs.2, ?_⟩
        unfold SetControllerReferenceMeta at hq
        split at hq
        · simp at hq
        · dsimp only at hq
          split at hq
          · split at hq
            · simp only [Prod.mk.injEq, and_true] at hq
              rw [← hq]
            · simp at hq
          · simp only [Prod.mk.injEq, and_true] at hq
            rw [← hq]
      · simp only [Prod.mk.injEq, and_true] at hq
        rw [hq]
        exact ⟨rfl, rfl, rfl⟩
    exact ⟨k2.1.trans (k1.1.trans h1.1), k2.2.trans (k1.2.trans h1.2.1),
      r2.2.2.trans (r1.2.2.trans h1.2.2)⟩

theorem OwnedMeta_congr {v : VSHandler} {m m1 : ObjectMeta}
    (h1 : m1.Namespace = m.Namespace) (h2 : m1.OwnerReferences = m.OwnerReferences)
    (h3 : m1.Labels = m.Labels) (h : OwnedMeta v m) : OwnedMeta v m1 := by
  obtain ⟨hc, l1, l2⟩ := h
  refine ⟨?_, by rw [h3]; exact l1, by rw [h3]; exact l2⟩
  rcases hc with hc | hc
  · exact Or.inl hc
  · exact Or.inr (ControllerRefSet_congr h1 h2 hc)

theorem Agree.widen {S T : Mods} {w w1 : World} (h : Agree S w w1) (hle : S.le T) :
    Agree T w w1 := by
  obtain ⟨l1, l2, l3, l4, l5, l6, l7, l8, l9, l10, l11, l12, l13, l14⟩ := hle
  unfold Agree World.erase at *
  rw [World.mk.injEq] at h ⊢
  obtain ⟨h1, h2, h3, h4, h5, h6, h7, h8, h9, h10, h11, h12, hf, -, -, h13, h14⟩ := h
  refine ⟨?_, ?_, ?_, ?_, ?_, ?_, ?_, ?_, ?_, ?_, ?_, ?_, hf, rfl, rfl, ?_, ?_⟩
  · cases hT : T.secrets with
    | true => rfl
    | false =>
      have : S.secrets = false := by
        cases hS : S.secrets with
        | false => rfl
        | true => rw [l1 hS] at hT; cases hT
      simpa [this] using h1
  · cases hT : T.pvcs with
    | true => rfl
    | false =>
      have : S.pvcs = false := by
        cases hS : S.pvcs with
        | false => rfl
        | true => rw [l2 hS] at hT; cases hT
      simpa [this] using h2
  · cases hT : T.pvs with
    | true => rfl
    | false =>
      have : S.pvs = false := by
        cases hS : S.pvs with
        | false => rfl
        | true => rw [l3 hS] at hT; cases hT
      simpa [this] using h3
  · cases hT : T.rss with
    | true => rfl
    | false =>
      have : S.rss = false := by
        cases hS : S.rss with
        | false => rfl
        | true => rw [l4 hS] at hT; cases hT
      simpa [this] using h4
  · cases hT : T.rds with
    | true => rfl
    | false =>
      have : S.rds = false := by
        cases hS : S.rds with
        | false => rfl
        | true => rw [l5 hS] at hT; cases hT
      simpa [this] using h5
  · cases hT : T.snapshots with
    | true => rfl
    | false =>
      have : S.snapshots = false := by
        cases hS : S.snapshots with
        | false => rfl
        | true => rw [l6 hS] at hT; cases hT
      simpa [this] using h6
  · cases hT : T.snapshotClasses with
    | true => rfl
    | false =>
      have : S.snapshotClasses = false := by
        cases hS : S.snapshotClasses with
        | false => rfl
        | true => rw [l7 hS] at hT; cases hT
      simpa [this] using h7
  · cases hT : T.storageClasses with
    | true => rfl
    | false =>
      have : S.storageClasses = false := by
        cases hS : S.storageClasses with
        | false => rfl
        | true => rw [l8 hS] at hT; cases hT
      simpa [this] using h8
  · cases hT : T.serviceExports with
    | true => rfl
    | false =>
      have : S.serviceExports = false := by
        cases hS : S.serviceExports with
        | false => rfl
        | true => rw [l9 hS] at hT; cases hT
      simpa [this] using h9
  · cases hT : T.pods with
    | true => rfl
    | false =>
      have : S.pods = false := by
        cases hS : S.pods with
        | false => rfl
        | true => rw [l10 hS] at hT; cases hT
      simpa [this] using h10
  · cases hT : T.volumeAttachments with
    | true => rfl
    | false =>
      have : S.volumeAttachments = false := by
        cases hS : S.volumeAttachments with
        | false => rfl
        | true => rw [l11 hS] at hT; cases hT
      simpa [this] using h11
  · cases hT : T.jobs with
    | true => rfl
    | false =>
      have : S.jobs = false := by
        cases hS : S.jobs with
        | false => rfl
        | true => rw [l12 hS] at hT; cases hT
      simpa [this] using h12
  · cases hT : T.workloadStatus with
    | true => rfl
    | false =>
      have : S.workloadStatus = false := by
        cases hS : S.workloadStatus with
        | false => rfl
        | true => rw [l13 hS] at hT; cases hT
      simpa [this] using h13
  · cases hT : T.volumeSnapshotClassList with
    | true => rfl
    | false =>
      have : S.volumeSnapshotClassList = false := by
        cases hS : S.volumeSnapshotClassList with
        | false => rfl
        | true => rw [l14 hS] at hT; cases hT
      simpa [this] using h14

/-- What a step left is still there after the rest ran and the state moved on within
`S`: the rest modifies `T` only, and the step looks at nothing in `S` or `T`. -/
theorem Agree.after {S T U : Mods} {β : Type} {m : M β} {w1 wa w2 : World} {r : β}
    (hm : Modifies T m) (h : m w1 = some (r, wa)) (hag : Agree S wa w2)
    (hT : T.le U) (hS : S.le U) : Agree U w1 w2 :=
  ((hm.run _ _ _ h).widen hT).agree_trans (hag.widen hS)

theorem Reruns.rerun_pure {α : Type} (Pre : World → Prop) (P : World → World → Prop) (a : α) :
    Reruns Pre P (Pure.pure a : M α) := by
  intro w r wa _ _ h w2 _ _
  simp only [M.pure_run, Option.some.injEq, Prod.mk.injEq] at h
  exact ⟨w2, by rw [M.pure_run, h.1], Quiet.quiet_refl w2⟩

theorem Reruns.rerun_deref {α : Type} (Pre : World → Prop) (P : World → World → Prop)
    (o : Option α) : Reruns Pre P (deref o) := by
  intro w r wa _ _ h w2 _ _
  cases o with
  | none => simp at h
  | some a =>
    simp only [deref_some, Option.some.injEq, Prod.mk.injEq] at h
    exact ⟨w2, by rw [deref_some, h.1], Quiet.quiet_refl w2⟩

theorem Mods.empty_le (S : Mods) : Mods.le {} S := by
  unfold Mods.le
  simp

theorem Mods.le_refl (S : Mods) : Mods.le S S :=
  ⟨id, id, id, id, id, id, id, id, id, id, id, id, id, id⟩

theorem Quiet.agree {S : Mods} {w w1 : World} (h : Quiet w w1) : Agree S w w1 :=
  h.1.widen (Mods.empty_le S)

/-- Sequencing: the step reruns on what `P` relates, the rest reruns on states agreeing
outside `S`, and the rest keeps what the step looks at. -/
theorem Reruns.rerun_bind {α β : Type} {m : M α} {f : α → M β} {Pre : World → Prop}
    {P : World → World → Prop} {S : Mods} (T : Mods) (Pre1 : World → Prop)
    (hm : Reruns Pre P m) (hmods : Modifies T m)
    (hpre : ∀ w a w1, Pre w → m w = some (a, w1) → Agree T w w1 → Pre1 w1)
    (hf : ∀ a, Reruns Pre1 (Agree S) (f a))
    (hframe : ∀ a w1 r wa, NoFaults w1 → f a w1 = some (r, wa) →
      ∀ w2, Agree S wa w2 → P w1 w2) :
    Reruns Pre (Agree S) (m >>= f) := by
  intro w r wa hnf hp h w2 hnf2 hag
  rw [M.bind_eq_some] at h
  obtain ⟨a, w1, h1, h2⟩ := h
  have hag1 := hmods.run _ _ _ h1
  have hnf1 : NoFaults w1 := hag1.noFaults hnf
  obtain ⟨w3, hr1, hq1⟩ := hm w a w1 hnf hp h1 w2 hnf2 (hframe a w1 r wa hnf1 h2 w2 hag)
  obtain ⟨w4, hr2, hq2⟩ := hf a w1 r wa hnf1 (hpre w a w1 hp h1 hag1) h2 w3 (hq1.quiet_noFaults hnf2)
    (hag.agree_trans hq1.agree)
  refine ⟨w4, ?_, hq1.quiet_trans hq2⟩
  rw [M.bind_run, hr1]
  exact hr2

theorem Mods.le_union_left (S T : Mods) : Mods.le S (S.union T) := by
  unfold Mods.le Mods.union
  simp only [Bool.or_eq_true]
  exact ⟨Or.inl, Or.inl, Or.inl, Or.inl, Or.inl, Or.inl, Or.inl, Or.inl, Or.inl, Or.inl, Or.inl,
    Or.inl, Or.inl, Or.inl⟩

theorem Mods.le_union_right (S T : Mods) : Mods.le T (S.union T) := by
  unfold Mods.le Mods.union
  simp only [Bool.or_eq_true]
  exact ⟨Or.inr, Or.inr, Or.inr, Or.inr, Or.inr, Or.inr, Or.inr, Or.inr, Or.inr, Or.inr, Or.inr,
    Or.inr, Or.inr, Or.inr⟩

/-- Sequencing when the step looks at nothing the rest modifies. -/
theorem Reruns.rerun_seq {α β : Type} {m : M α} {f : α → M β} {Pre : World → Prop}
    {S : Mods} (T T1 : Mods) (Pre1 : World → Prop)
    (hm : Reruns Pre (Agree (S.union T1)) m) (hmods : Modifies T m)
    (hpre : ∀ w a w1, Pre w → m w = some (a, w1) → Agree T w w1 → Pre1 w1)
    (hf : ∀ a, Reruns Pre1 (Agree S) (f a)) (hfm : ∀ a, Modifies T1 (f a)) :
    Reruns Pre (Agree S) (m >>= f) :=
  Reruns.rerun_bind T Pre1 hm hmods hpre hf (fun a _ _ _ _ h _ hag =>
    Agree.after (hfm a) h hag (Mods.le_union_right S T1) (Mods.le_union_left S T1))

theorem Reruns.weaken {α : Type} {m : M α} {Pre Pre1 : World → Prop}
    {P P1 : World → World → Prop} (h : Reruns Pre P m) (hpre : ∀ w, Pre1 w → Pre w)
    (hp : ∀ w w1, P1 w w1 → P w w1) : Reruns Pre1 P1 m := by
  intro w r wa hnf hp1 hrun w2 hnf2 hag
  exact h w r wa hnf (hpre w hp1) hrun w2 hnf2 (hp _ _ hag)

theorem mutateRD_eq (v : VSHandler) (rdSpec : VolSyncReplicationDestinationSpec) (psk : String)
    (dst : Option String) (vsc : String) (rd : ReplicationDestination) :
    v.mutateRD rdSpec psk dst vsc rd =
      match ownedMetaOf v rd.ObjectMeta with
      | (m, some e) => ({ rd with ObjectMeta := m }, some e)
      | (m, none) =>
        ({ rd with
            ObjectMeta := (util.metaAddAnnotation
              (util.metaAddAnnotation m OwnerNameAnnotation v.owner.ObjectMeta.Name).1
              OwnerNamespaceAnnotation v.owner.ObjectMeta.Namespace).1,
            Spec := { rd.Spec with RsyncTLS := some (rdTLS rdSpec psk dst vsc) } }, none) := by
  unfold VSHandler.mutateRD ownedMetaOf SetControllerReference rdTLS
  by_cases ha : v.vrgInAdminNamespace = true
  · simp only [ha, Bool.not_true, Bool.false_eq_true, if_false]
  · have hb : (!v.vrgInAdminNamespace) = true := by simpa using ha
    simp only [hb, if_true]
    have hm : rdKind.meta rd = rd.ObjectMeta := rfl
    rw [hm]
    generalize SetControllerReferenceMeta v.owner.APIVersion v.owner.Kind v.owner.ObjectMeta
      rd.ObjectMeta = q
    obtain ⟨m1, e⟩ := q
    cases e <;> rfl

theorem mutateRD_sets (v : VSHandler) (hp : parseGroup v.owner.APIVersion ≠ none)
    (rdSpec : VolSyncReplicationDestinationSpec) (psk : String) (dst : Option String)
    (vsc : String) (o o2 : ReplicationDestination)
    (h : v.mutateRD rdSpec psk dst vsc o = (o2, none)) :
    RDFixed v (rdTLS rdSpec psk dst vsc) o2 ∧
    o2.ObjectMeta.DeletionTimestamp = o.ObjectMeta.DeletionTimestamp ∧
    o2.ObjectMeta.Finalizers = o.ObjectMeta.Finalizers := by
  rw [mutateRD_eq] at h
  generalize hq : ownedMetaOf v o.ObjectMeta = q at h
  obtain ⟨m, e⟩ := q
  cases e with
  | some e1 => simp at h
  | none =>
    simp only [Prod.mk.injEq, and_true] at h
    subst h
    have hown := ownedMetaOf_sets v hp _ _ hq
    have hk := ownedMetaOf_keeps v _ _ hq
    have r1 := metaAddAnnotation_rest m OwnerNameAnnotation v.owner.ObjectMeta.Name
    have r2 := metaAddAnnotation_rest
      (util.metaAddAnnotation m OwnerNameAnnotation v.owner.ObjectMeta.Name).1
      OwnerNamespaceAnnotation v.owner.ObjectMeta.Namespace
    have k1 := metaAddAnnotation_keeps m OwnerNameAnnotation v.owner.ObjectMeta.Name
    have k2 := metaAddAnnotation_keeps
      (util.metaAddAnnotation m OwnerNameAnnotation v.owner.ObjectMeta.Name).1
      OwnerNamespaceAnnotation v.owner.ObjectMeta.Namespace
    refine ⟨⟨?_, ?_, ?_, rfl⟩, ?_, ?_⟩
    · exact OwnedMeta_congr (r2.1.trans r1.1) (r2.2.1.trans r1.2.1) (r2.2.2.trans r1.2.2) hown
    · show mapLookup (util.metaAddAnnotation _ _ _).1.Annotations _ = _
      rw [metaAddAnnotation_lookup_at, if_neg (by decide), metaAddAnnotation_lookup_at, if_pos rfl]
    · show mapLookup (util.metaAddAnnotation _ _ _).1.Annotations _ = _
      rw [metaAddAnnotation_lookup_at, if_pos rfl]
    · exact k2.1.trans (k1.1.trans hk.1)
    · exact k2.2.trans (k1.2.trans hk.2.1)

theorem mutateRD_fixed (v : VSHandler) (rdSpec : VolSyncReplicationDestinationSpec)
    (psk : String) (dst : Option String) (vsc : String) (x : ReplicationDestination)
    (h : RDFixed v (rdTLS rdSpec psk dst vsc) x) :
    v.mutateRD rdSpec psk dst vsc x = (x, none) := by
  obtain ⟨hown, a1, a2, htls⟩ := h
  rw [mutateRD_eq, ownedMetaOf_fixed v _ hown]
  simp only [metaAddAnnotation_fixed _ _ _ a1, metaAddAnnotation_fixed _ _ _ a2, ← htls]

theorem RDFixed_asCreated (v : VSHandler) (tls : ReplicationDestinationRsyncTLSSpec)
    (x : ReplicationDestination) (now : Nat) (h : RDFixed v tls x) :
    RDFixed v tls (asCreated rdKind x now) := by
  obtain ⟨hown, a1, a2, htls⟩ := h
  exact ⟨OwnedMeta_congr rfl rfl rfl hown, a1, a2, htls⟩

theorem getStorageClass_reruns (v : VSHandler) (n : Option String) (S : Mods)
    (hS : S.storageClasses = false) :
    Reruns (fun _ => True) (Agree S) (v.getStorageClass n) := by
  intro w r wa hnf _ h w2 hnf2 hag
  unfold VSHandler.getStorageClass at h ⊢
  split at h
  · simp only [M.pure_run, Option.some.injEq, Prod.mk.injEq] at h
    exact ⟨w2, by rw [M.pure_run, h.1], Quiet.quiet_refl w2⟩
  · rename_i name
    split at h
    · rename_i hn
      simp only [M.pure_run, Option.some.injEq, Prod.mk.injEq] at h
      rw [if_pos hn]
      exact ⟨w2, by rw [M.pure_run, h.1], Quiet.quiet_refl w2⟩
    · rename_i hn
      rw [if_neg hn]
      cases hg : storeGet storageClassKind.meta w.storageClasses "" name with
      | none =>
        simp only [M.bind_run, clientGet_run_missing (K := storageClassKind) (hnf _) hg, M.pure_run,
          Option.some.injEq, Prod.mk.injEq] at h
        obtain ⟨hr, hw⟩ := h
        subst hw
        have hg2 : storeGet storageClassKind.meta (storageClassKind.objs w2) "" name = none := by
          show storeGet _ w2.storageClasses _ _ = _
          rw [hag.storageClasses hS]
          exact hg
        refine ⟨w2.tick, ?_, Quiet.quiet_tick w2⟩
        simp only [M.bind_run, clientGet_run_missing (K := storageClassKind) (hnf2 _) hg2, M.pure_run,
          hr]
      | some sc =>
        simp only [M.bind_run, clientGet_run_found (K := storageClassKind) (hnf _) hg, M.pure_run,
          Option.some.injEq, Prod.mk.injEq] at h
        obtain ⟨hr, hw⟩ := h
        subst hw
        have hg2 : storeGet storageClassKind.meta (storageClassKind.objs w2) "" name = some sc := by
          show storeGet _ w2.storageClasses _ _ = _
          rw [hag.storageClasses hS]
          exact hg
        refine ⟨w2.tick, ?_, Quiet.quiet_tick w2⟩
        simp only [M.bind_run, clientGet_run_found (K := storageClassKind) (hnf2 _) hg2, M.pure_run,
          hr]

theorem GetVolumeSnapshotClasses_reruns (v : VSHandler) (S : Mods)
    (hS : S.volumeSnapshotClassList = false) :
    Reruns (fun _ => True) (Agree S) v.GetVolumeSnapshotClasses := by
  intro w r wa hnf _ h w2 hnf2 hag
  have hcl := hag.classList hS
  unfold VSHandler.GetVolumeSnapshotClasses at h ⊢
  simp only [M.bind_run, getWorld] at h ⊢
  cases hc : w.volumeSnapshotClassList with
  | some items =>
    simp only [hc, M.pure_run, Option.some.injEq, Prod.mk.injEq] at h
    obtain ⟨hr, hw⟩ := h
    subst hw
    rw [hc] at hcl
    simp only [hcl, M.pure_run, hr]
    exact ⟨w2, rfl, Quiet.quiet_refl w2⟩
  | none =>
    simp only [hc] at h
    cases hsel : LabelSelectorAsSelector v.volumeSnapshotClassSelector with
    | error e =>
      simp only [hsel, M.pure_run, Option.some.injEq, Prod.mk.injEq] at h
      obtain ⟨hr, hw⟩ := h
      subst hw
      rw [hc] at hcl
      simp only [hcl, hsel, M.pure_run, hr]
      exact ⟨w2, rfl, Quiet.quiet_refl w2⟩
    | ok selector =>
      simp only [hsel, M.bind_run, clientList_run (K := snapshotClassKind) (hnf _), modifyWorld,
        M.pure_run, Option.some.injEq, Prod.mk.injEq] at h
      obtain ⟨hr, hw⟩ := h
      subst hw
      simp only at hcl
      simp only [hcl, M.pure_run, hr]
      exact ⟨w2, rfl, Quiet.quiet_refl w2⟩

theorem getVolumeSnapshotClassFromPVCStorageClass_reruns (v : VSHandler) (sc : StorageClass)
    (S : Mods) (hS : S.volumeSnapshotClassList = false) :
    Reruns (fun _ => True) (Agree S) (v.getVolumeSnapshotClassFromPVCStorageClass sc) := by
  unfold VSHandler.getVolumeSnapshotClassFromPVCStorageClass
  refine Reruns.rerun_seq { volumeSnapshotClassList := true } {} (fun _ => True)
    (GetVolumeSnapshotClasses_reruns v _ (by simp [Mods.union, hS]))
    (GetVolumeSnapshotClasses_mods v rfl) (fun _ _ _ _ _ _ => trivial) ?_ ?_
  · intro a
    repeat' first
      | exact Reruns.rerun_pure _ _ _
      | split
      | dsimp only
  · intro a
    repeat' first
      | apply Modifies.frame_pure
      | split
      | dsimp only

theorem GetVolumeSnapshotClassFromPVCStorageClass_reruns (v : VSHandler) (n : Option String)
    (S : Mods) (hS : S.volumeSnapshotClassList = false) (hS1 : S.storageClasses = false) :
    Reruns (fun _ => True) (Agree S) (v.GetVolumeSnapshotClassFromPVCStorageClass n) := by
  unfold VSHandler.GetVolumeSnapshotClassFromPVCStorageClass
  refine Reruns.rerun_seq {} { volumeSnapshotClassList := true } (fun _ => True)
    (getStorageClass_reruns v n _ (by simp [Mods.union, hS1])) (getStorageClass_mods v n)
    (fun _ _ _ _ _ _ => trivial) ?_ ?_
  · intro a
    split
    split
    · exact Reruns.rerun_pure _ _ _
    · refine Reruns.rerun_seq {} { volumeSnapshotClassList := true } (fun _ => True)
        (Reruns.rerun_deref _ _ _) (Modifies.frame_deref _ _) (fun _ _ _ _ _ _ => trivial) ?_ ?_
      · intro sc
        exact getVolumeSnapshotClassFromPVCStorageClass_reruns v sc S hS
      · intro sc
        exact getVolumeSnapshotClassFromPVCStorageClass_mods v sc rfl
  · intro a
    repeat' first
      | apply Modifies.frame_pure
      | apply Modifies.frame_deref
      | (simp [*]; done)
      | apply Modifies.frame_bind
      | intro _
      | split
      | dsimp only

/-- A `CreateOrUpdate` whose result is handed on without the operation, with a
`MutateFn` that leaves alone what it has written: run again on the objects it left, it
returns the same and writes nothing. -/
theorem CreateOrUpdate_reruns {α β : Type} [DecidableEq α] {K : Kind α} (hK : K.Lawful)
    (hput : ∀ w l, K.objs (K.put w l) = l) (htick : ∀ w : World, K.objs w.tick = K.objs w)
    (S : Mods) (hS : ∀ w w1, Agree S w w1 → K.objs w1 = K.objs w)
    (obj : α) (f : α → Option (α × Option Err))
    (k : OperationResult × α × Option Err → M β) (g : α → Option Err → β)
    (hk : ∀ op o e w, k (op, o, e) w = some (g o e, w))
    (hkeeps : ∀ o o2, f o = some (o2, none) →
      (K.meta o2).DeletionTimestamp = (K.meta o).DeletionTimestamp ∧
      (K.meta o2).Finalizers = (K.meta o).Finalizers)
    (hidem : ∀ o o2, f o = some (o2, none) →
      f o2 = some (o2, none) ∧ ∀ now, f (asCreated K o2 now) = some (asCreated K o2 now, none)) :
    Reruns (fun w => ∀ x ∈ K.objs w, Storable (K.meta x)) (Agree S)
      (CreateOrUpdate K obj f >>= k) := by
  intro w r wa hnf hwf h w2 hnf2 hag
  rw [M.bind_eq_some] at h
  obtain ⟨⟨op, o1, err⟩, w1, h1, h2⟩ := h
  rw [hk] at h2
  simp only [Option.some.injEq, Prod.mk.injEq] at h2
  obtain ⟨hr, hw⟩ := h2
  subst hw
  have hre := CreateOrUpdate_rerun hK hput htick hnf h1 hwf hkeeps hidem w2 hnf2 (hS _ _ hag)
  refine ⟨w2.tick, ?_, Quiet.quiet_tick w2⟩
  rw [M.bind_run, hre]
  dsimp only
  rw [hk, hr]

theorem createOrUpdateRD_reruns (v : VSHandler) (hp : parseGroup v.owner.APIVersion ≠ none)
    (rdSpec : VolSyncReplicationDestinationSpec) (psk : String) (dst : Option String)
    (S : Mods) (hS : S.volumeSnapshotClassList = false) (hS1 : S.storageClasses = false)
    (hS2 : S.rds = false) :
    Reruns (fun w => ∀ x ∈ w.rds, Storable x.ObjectMeta) (Agree S)
      (v.createOrUpdateRD rdSpec psk dst) := by
  unfold VSHandler.createOrUpdateRD
  refine Reruns.rerun_seq { volumeSnapshotClassList := true } { rds := true }
    (fun w => ∀ x ∈ w.rds, Storable x.ObjectMeta)
    ((GetVolumeSnapshotClassFromPVCStorageClass_reruns v _ _ (by simp [Mods.union, hS])
      (by simp [Mods.union, hS1])).weaken (fun _ _ => trivial) (fun _ _ h => h))
    (GetVolumeSnapshotClassFromPVCStorageClass_mods v _ rfl) ?_ ?_ ?_
  · intro w a w1 hwf _ hag
    rw [hag.rds rfl]
    exact hwf
  · rintro ⟨vsc, err⟩
    dsimp only
    cases err with
    | some e => exact Reruns.rerun_pure _ _ _
    | none =>
      dsimp only
      refine CreateOrUpdate_reruns (K := rdKind) rdKind_lawful (fun _ _ => rfl) (fun _ => rfl) S
        (fun _ _ h => h.rds hS2) _ _ _
        (fun o e => match e with
          | some e1 => (none, some e1)
          | none => (some o, none)) ?_ ?_ ?_
      · intro op o e w
        cases e <;> rfl
      · intro o o2 h
        simp only [Option.some.injEq] at h
        exact (mutateRD_sets v hp rdSpec psk dst vsc o o2 h).2
      · intro o o2 h
        simp only [Option.some.injEq] at h
        have hfix := (mutateRD_sets v hp rdSpec psk dst vsc o o2 h).1
        refine ⟨?_, fun now => ?_⟩
        · rw [mutateRD_fixed v rdSpec psk dst vsc o2 hfix]
        · rw [mutateRD_fixed v rdSpec psk dst vsc _ (RDFixed_asCreated v _ o2 now hfix)]
  · rintro ⟨vsc, err⟩
    repeat' first
      | apply Modifies.frame_pure
      | (simp [*]; done)
      | apply Modifies.frame_bind
      | intro _
      | split
      | dsimp only

theorem ReconcileServiceExportForRD_reruns (v : VSHandler) (rd : ReplicationDestination)
    (S : Mods) (hS : S.serviceExports = false) :
    Reruns (fun w => ∀ x ∈ w.serviceExports, Storable x.ObjectMeta) (Agree S)
      (v.ReconcileServiceExportForRD rd) := by
  unfold VSHandler.ReconcileServiceExportForRD
  refine CreateOrUpdate_reruns (K := serviceExportKind) (fun _ _ => rfl) (fun _ _ => rfl) (fun _ => rfl) S
    (fun _ _ h => h.serviceExports hS) _ _ _ (fun _ e => e) ?_ ?_ ?_
  · intro op o e w
    rfl
  · intro o o2 h
    generalize hq : SetOwnerReferenceMeta "volsync.backube/v1alpha1" "ReplicationDestination"
      rd.ObjectMeta o.ObjectMeta = q at h
    obtain ⟨m1, e⟩ := q
    simp only [Option.some.injEq, Prod.mk.injEq] at h
    obtain ⟨ho, he⟩ := h
    subst he ho
    have := SetOwnerReferenceMeta_meta _ _ _ _ _ hq
    exact ⟨this.2.2.1, this.2.2.2⟩
  · intro o o2 h
    generalize hq : SetOwnerReferenceMeta "volsync.backube/v1alpha1" "ReplicationDestination"
      rd.ObjectMeta o.ObjectMeta = q at h
    obtain ⟨m1, e⟩ := q
    simp only [Option.some.injEq, Prod.mk.injEq] at h
    obtain ⟨ho, he⟩ := h
    subst he ho
    have hset : OwnerRefSet "volsync.backube/v1alpha1" "ReplicationDestination" rd.ObjectMeta m1 :=
      SetOwnerReferenceMeta_sets _ _ _ _ _ (by decide) hq
    have hfix : ∀ x : ServiceExport, OwnerRefSet "volsync.backube/v1alpha1" "ReplicationDestination"
        rd.ObjectMeta x.ObjectMeta →
        (let r := SetOwnerReferenceMeta "volsync.backube/v1alpha1" "ReplicationDestination"
          rd.ObjectMeta x.ObjectMeta
        some ({ x with ObjectMeta := r.1 }, r.2)) = some (x, none) := by
      intro x hx
      dsimp only
      rw [SetOwnerReferenceMeta_fixed _ _ _ _ hx]
    exact ⟨hfix _ hset, fun now => hfix _ ⟨hset.1, hset.2⟩⟩

theorem unmarked_markDeleted (m : ObjectMeta) (now : Nat) :
    unmarked (markDeleted m now) = unmarked m := by
  unfold markDeleted unmarked
  split <;> rfl

/-- A delete leaves the stored objects in their order, some removed and some marked. -/
theorem storeDelete_unmarked {α : Type} {K : Kind α} (hK : K.Lawful) (l : List α)
    (ns name : String) (now : Nat) :
    ((storeDelete K l ns name now).map (fun o => unmarked (K.meta o))).Sublist
      (l.map (fun o => unmarked (K.meta o))) := by
  have hK1 : ∀ o m, K.meta (K.setMeta o m) = m := hK
  unfold storeDelete
  induction l with
  | nil => exact List.Sublist.slnil
  | cons x xs ih =>
    by_cases hk : hasKey (K.meta x) ns name = true
    · by_cases hfin : (K.meta x).Finalizers = []
      · simp only [List.filterMap_cons, hk, if_true, hfin, List.map_cons]
        exact List.Sublist.cons _ ih
      · simp only [List.filterMap_cons, hk, if_true, hfin, if_false, List.map_cons, hK1,
          unmarked_markDeleted]
        exact List.Sublist.cons₂ _ ih
    · simp only [List.filterMap_cons, hk, Bool.false_eq_true, if_false, List.map_cons]
      exact List.Sublist.cons₂ _ ih

/-- What a delete leaves was stored before, unless it is under the deleted key. -/
theorem storeDelete_touched {α : Type} {K : Kind α} (hK : K.Lawful) {l : List α}
    {ns name : String} {now : Nat} {y : α} (hy : y ∈ storeDelete K l ns name now) :
    hasKey (K.meta y) ns name = true ∨ y ∈ l := by
  unfold storeDelete at hy
  rw [List.mem_filterMap] at hy
  obtain ⟨x, hxl, hx⟩ := hy
  split at hx
  · rename_i hk
    split at hx
    · simp at hx
    · simp only [Option.some.injEq] at hx
      left
      rw [← hx, hK]
      simpa [hasKey, markDeleted_name, markDeleted_namespace] using hk
  · simp only [Option.some.injEq] at hx
    right
    rw [← hx]
    exact hxl

/-- Without client failures `deleteVolumeSnapshots` returns nil; every key it deleted
is settled afterwards, settled keys stay settled, what is stored afterwards under
another key was stored before, and the stored snapshots keep their order. -/
theorem deleteVolumeSnapshots_settles (v : VSHandler) :
    ∀ (l : List VolumeSnapshot) (w w1 : World) (r : Option Err), NoFaults w →
      v.deleteVolumeSnapshots l w = some (r, w1) →
      r = none ∧
      (∀ ns name, KeySettled snapshotKind w.snapshots ns name →
        KeySettled snapshotKind w1.snapshots ns name) ∧
      (∀ s ∈ l, KeySettled snapshotKind w1.snapshots s.ObjectMeta.Namespace s.ObjectMeta.Name) ∧
      (∀ y ∈ w1.snapshots,
        (∃ s ∈ l, hasKey y.ObjectMeta s.ObjectMeta.Namespace s.ObjectMeta.Name = true) ∨
        y ∈ w.snapshots) ∧
      (w1.snapshots.map (fun o => unmarked o.ObjectMeta)).Sublist
        (w.snapshots.map (fun o => unmarked o.ObjectMeta)) := by
  intro l
  induction l with
  | nil =>
    intro w w1 r hnf h
    simp only [VSHandler.deleteVolumeSnapshots, M.pure_run, Option.some.injEq, Prod.mk.injEq] at h
    obtain ⟨hr, hw⟩ := h
    subst hr hw
    exact ⟨rfl, fun _ _ h => h, fun s hs => (by cases hs), fun y hy => Or.inr hy,
      List.Sublist.refl _⟩
  | cons s rest ih =>
    intro w w1 r hnf h
    unfold VSHandler.deleteVolumeSnapshots at h
    rw [M.bind_eq_some] at h
    obtain ⟨err, wb, hd, h⟩ := h
    rcases clientDelete_cases (hnf _) hd with ⟨he, hnone, hwb⟩ | ⟨he, hwb⟩
    · have hnfb : NoFaults wb := by rw [hwb]; exact fun n => hnf n
      subst he
      simp only [Err.IsNotFound, Bool.not_true, Bool.false_eq_true, if_false] at h
      obtain ⟨hr, hkeep, hset, htouch, hsub⟩ := ih wb w1 r hnfb h
      subst hwb
      refine ⟨hr, hkeep, ?_, ?_, hsub⟩
      · intro s1 hs1
        rcases List.mem_cons.mp hs1 with rfl | hs1
        · exact hkeep _ _ (KeySettled_of_none hnone)
        · exact hset s1 hs1
      · intro y hy
        rcases htouch y hy with ⟨s1, hs1, hk⟩ | hy
        · exact Or.inl ⟨s1, List.mem_cons_of_mem _ hs1, hk⟩
        · exact Or.inr hy
    · have hnfb : NoFaults wb := by rw [hwb]; exact fun n => hnf n
      subst he
      simp only [Bool.false_eq_true, if_false] at h
      obtain ⟨hr, hkeep, hset, htouch, hsub⟩ := ih wb w1 r hnfb h
      subst hwb
      refine ⟨hr, ?_, ?_, ?_, ?_⟩
      · intro ns name hs
        exact hkeep _ _ (storeDelete_keeps_settled snapshotKind_lawful hs)
      · intro s1 hs1
        rcases List.mem_cons.mp hs1 with rfl | hs1
        · exact hkeep _ _ (storeDelete_settles snapshotKind_lawful _ _ _ (Nat.succ_ne_zero _))
        · exact hset s1 hs1
      · intro y hy
        rcases htouch y hy with ⟨s1, hs1, hk⟩ | hy
        · exact Or.inl ⟨s1, List.mem_cons_of_mem _ hs1, hk⟩
        · rcases storeDelete_touched snapshotKind_lawful hy with hk | hy
          · exact Or.inl ⟨s, List.mem_cons_self _ _, hk⟩
          · exact Or.inr hy
      · exact hsub.trans (storeDelete_unmarked snapshotKind_lawful _ _ _ _)

/-- A pass of `deleteVolumeSnapshots` over stored snapshots whose keys are settled
deletes again and changes nothing. -/
theorem deleteVolumeSnapshots_quiet (v : VSHandler) :
    ∀ (l : List VolumeSnapshot) (w : World), NoFaults w →
      (∀ x ∈ l, x ∈ w.snapshots ∧
        KeySettled snapshotKind w.snapshots x.ObjectMeta.Namespace x.ObjectMeta.Name) →
      ∃ w1, v.deleteVolumeSnapshots l w = some (none, w1) ∧ Quiet w w1 := by
  intro l
  induction l with
  | nil =>
    intro w _ _
    exact ⟨w, rfl, Quiet.quiet_refl w⟩
  | cons x rest ih =>
    intro w hnf hs
    obtain ⟨hx, hsx⟩ := hs x (List.mem_cons_self _ _)
    have hdel := clientDelete_settled (K := snapshotKind) (fun _ => rfl) (fun _ _ => rfl)
      (hnf _) hx hsx
    have hq : Quiet w (w.logged ⟨.delete, snapshotKind.tag, x.ObjectMeta.Namespace,
        x.ObjectMeta.Name⟩) := Quiet.quiet_delete w _ rfl
    obtain ⟨w1, hrun, hq1⟩ := ih _ (hq.quiet_noFaults hnf)
      (fun y hy => hs y (List.mem_cons_of_mem _ hy))
    refine ⟨w1, ?_, hq.quiet_trans hq1⟩
    unfold VSHandler.deleteVolumeSnapshots
    rw [M.bind_run, show clientDelete snapshotKind x w = _ from hdel]
    simp only [Bool.false_eq_true, if_false]
    exact hrun

/-- With distinct creation times, the last of the sorted snapshots is the newest. -/
theorem sorted_last_newest (l d : List VolumeSnapshot) (n : VolumeSnapshot)
    (hdist : l.Pairwise
      (fun a b => a.ObjectMeta.CreationTimestamp ≠ b.ObjectMeta.CreationTimestamp))
    (hsplit : l.insertionSort VSHandler.notAfter = d ++ [n]) :
    (∀ s ∈ l, s ∈ d ∨ s = n) ∧
    (∀ s ∈ l, s.ObjectMeta.CreationTimestamp ≤ n.ObjectMeta.CreationTimestamp) ∧
    (∀ s ∈ d, s ∈ l ∧ s.ObjectMeta.CreationTimestamp < n.ObjectMeta.CreationTimestamp) := by
  have hperm := List.perm_insertionSort VSHandler.notAfter l
  rw [hsplit] at hperm
  have hsorted := List.sorted_insertionSort VSHandler.notAfter l
  rw [hsplit] at hsorted
  have hmem : ∀ s, s ∈ l ↔ s ∈ d ∨ s = n := by
    intro s
    rw [← hperm.mem_iff]
    simp
  have hd2 : (d ++ [n]).Pairwise
      (fun a b => a.ObjectMeta.CreationTimestamp ≠ b.ObjectMeta.CreationTimestamp) :=
    (hperm.pairwise_iff (fun h => Ne.symm h)).mpr hdist
  have hne : ∀ s ∈ d, s.ObjectMeta.CreationTimestamp ≠ n.ObjectMeta.CreationTimestamp := by
    intro s hs
    exact (List.pairwise_append.mp hd2).2.2 s hs n (List.mem_singleton.mpr rfl)
  have hle : ∀ s ∈ d, s.ObjectMeta.CreationTimestamp ≤ n.ObjectMeta.CreationTimestamp := by
    intro s hs
    exact (List.pairwise_append.mp hsorted).2.2 s hs n (List.mem_singleton.mpr rfl)
  refine ⟨fun s hs => (hmem s).mp hs, ?_, ?_⟩
  · intro s hs
    rcases (hmem s).mp hs with hs | rfl
    · exact hle s hs
    · exact Nat.le_refl _
  · intro s hs
    exact ⟨(hmem s).mpr (Or.inl hs), Nat.lt_of_le_of_ne (hle s hs) (hne s hs)⟩

/-- Distinct creation times among the listed snapshots survive a pass of deletes. -/
theorem prunable_distinct_of_sublist (v : VSHandler) (ns : String) (w w1 : World)
    (hsub : (w1.snapshots.map (fun o => unmarked o.ObjectMeta)).Sublist
      (w.snapshots.map (fun o => unmarked o.ObjectMeta)))
    (hdist : (prunable v ns w).Pairwise
      (fun a b => a.ObjectMeta.CreationTimestamp ≠ b.ObjectMeta.CreationTimestamp)) :
    (prunable v ns w1).Pairwise
      (fun a b => a.ObjectMeta.CreationTimestamp ≠ b.ObjectMeta.CreationTimestamp) := by
  have hmap : ∀ l : List VolumeSnapshot,
      (l.filter (fun o => (ns == "" || o.ObjectMeta.Namespace == ns) && v.ownedBy o.ObjectMeta)).map
        (fun o => unmarked o.ObjectMeta) =
      (l.map (fun o => unmarked o.ObjectMeta)).filter
        (fun m => (ns == "" || m.Namespace == ns) && v.ownedBy m) := by
    intro l
    rw [List.filter_map]
    rfl
  have h1 : ((prunable v ns w1).map (fun o => unmarked o.ObjectMeta)).Sublist
      ((prunable v ns w).map (fun o => unmarked o.ObjectMeta)) := by
    unfold prunable
    rw [hmap, hmap]
    exact hsub.filter _
  have h2 : ((prunable v ns w).map (fun o => unmarked o.ObjectMeta)).Pairwise
      (fun a b => a.CreationTimestamp ≠ b.CreationTimestamp) :=
    List.pairwise_map.mpr hdist
  have h3 : ((prunable v ns w1).map (fun o => unmarked o.ObjectMeta)).Pairwise
      (fun a b => a.CreationTimestamp ≠ b.CreationTimestamp) := h2.sublist h1
  exact (List.pairwise_map (f := fun o : VolumeSnapshot => unmarked o.ObjectMeta)
    (R := fun a b : ObjectMeta => a.CreationTimestamp ≠ b.CreationTimestamp)).mp h3

/-- Without client failures and with distinct creation times among the snapshots of the
group, `pruneOldSnapshots` run again on the snapshots it left returns nil again and
leaves every snapshot as it is. -/
theorem pruneOldSnapshots_reruns (v : VSHandler) (ns : String) (S : Mods)
    (hS : S.snapshots = false) :
    Reruns (fun w => (prunable v ns w).Pairwise
        (fun a b => a.ObjectMeta.CreationTimestamp ≠ b.ObjectMeta.CreationTimestamp))
      (Agree S) (v.pruneOldSnapshots ns) := by
  intro w r wa hnf hdist h w2 hnf2 hag
  have hsn : w2.snapshots = wa.snapshots := hag.snapshots hS
  unfold VSHandler.pruneOldSnapshots VSHandler.listByOwner at h ⊢
  rw [M.bind_run, clientList_run (hnf _)] at h
  rw [M.bind_run, clientList_run (hnf2 _)]
  dsimp only at h ⊢
  change (if (prunable v ns w).length ≤ 1 then (_ : M (Option Err)) else _) w.tick = _ at h
  change ∃ w3, (if (prunable v ns w2).length ≤ 1 then (_ : M (Option Err)) else _) w2.tick = _ ∧ _
  by_cases hle : (prunable v ns w).length ≤ 1
  · rw [if_pos hle] at h
    simp only [M.pure_run, Option.some.injEq, Prod.mk.injEq] at h
    obtain ⟨hr, hw⟩ := h
    subst hr hw
    have hp : prunable v ns w2 = prunable v ns w := by
      unfold prunable
      rw [hsn]
      rfl
    rw [hp, if_pos hle]
    exact ⟨w2.tick, rfl, Quiet.quiet_tick w2⟩
  · rw [if_neg hle] at h
    obtain ⟨hr, -, hset, htouch, hsub⟩ := deleteVolumeSnapshots_settles v
      (((prunable v ns w).insertionSort VSHandler.notAfter).take
        (((prunable v ns w).insertionSort VSHandler.notAfter).length - 1)) w.tick wa r
      (fun n => hnf n) h
    subst hr
    by_cases hle2 : (prunable v ns w2).length ≤ 1
    · rw [if_pos hle2]
      exact ⟨w2.tick, rfl, Quiet.quiet_tick w2⟩
    · rw [if_neg hle2]
      have hp2 : prunable v ns w2 = prunable v ns wa := by
        unfold prunable
        rw [hsn]
      have hdist2 : (prunable v ns w2).Pairwise
          (fun a b => a.ObjectMeta.CreationTimestamp ≠ b.ObjectMeta.CreationTimestamp) := by
        rw [hp2]
        exact prunable_distinct_of_sublist v ns w wa hsub hdist
      have hne : (prunable v ns w).insertionSort VSHandler.notAfter ≠ [] := by
        intro hnil
        have := List.length_insertionSort VSHandler.notAfter (prunable v ns w)
        rw [hnil] at this
        simp at this
        omega
      have hne2 : (prunable v ns w2).insertionSort VSHandler.notAfter ≠ [] := by
        intro hnil
        have := List.length_insertionSort VSHandler.notAfter (prunable v ns w2)
        rw [hnil] at this
        simp at this
        omega
      obtain ⟨hmem, hmax, hdoomed⟩ := sorted_last_newest (prunable v ns w) _ _ hdist
        (List.dropLast_append_getLast hne).symm
      obtain ⟨-, -, hdoomed2⟩ := sorted_last_newest (prunable v ns w2) _ _ hdist2
        (List.dropLast_append_getLast hne2).symm
      have hlast2 := List.getLast_mem hne2
      rw [(List.perm_insertionSort VSHandler.notAfter (prunable v ns w2)).mem_iff] at hlast2
      rw [← List.dropLast_eq_take] at hset htouch ⊢
      obtain ⟨w3, hrun, hq⟩ := deleteVolumeSnapshots_quiet v
        (((prunable v ns w2).insertionSort VSHandler.notAfter).dropLast) w2.tick
        (fun n => hnf2 n) (by
          intro x hx
          obtain ⟨hx2, hlt⟩ := hdoomed2 x hx
          have hxw2 : x ∈ w2.snapshots := (List.mem_filter.mp hx2).1
          have hxl : ((ns == "" || x.ObjectMeta.Namespace == ns) && v.ownedBy x.ObjectMeta) = true :=
            (List.mem_filter.mp hx2).2
          refine ⟨hxw2, ?_⟩
          show KeySettled snapshotKind w2.snapshots _ _
          rw [hsn] at hxw2 ⊢
          rcases htouch x hxw2 with ⟨s, hs, hk⟩ | hxw
          · obtain ⟨e1, e2⟩ := (hasKey_iff _ _ _).mp hk
            rw [e1, e2]
            exact hset s hs
          · have hxp : x ∈ prunable v ns w := List.mem_filter.mpr ⟨hxw, hxl⟩
            rcases hmem x hxp with hd | hn
            · exact hset x hd
            · exfalso
              have hn2 : ((prunable v ns w2).insertionSort VSHandler.notAfter).getLast hne2
                  ∈ wa.snapshots := by
                rw [← hsn]
                exact (List.mem_filter.mp hlast2).1
              have hl2 := (List.mem_filter.mp hlast2).2
              have hproj := List.mem_map_of_mem (fun o : VolumeSnapshot => unmarked o.ObjectMeta) hn2
              have hproj1 := hsub.subset hproj
              rw [List.mem_map] at hproj1
              obtain ⟨x0, hx0, hx0e⟩ := hproj1
              have e1 : x0.ObjectMeta.CreationTimestamp =
                  (((prunable v ns w2).insertionSort VSHandler.notAfter).getLast
                    hne2).ObjectMeta.CreationTimestamp := by
                have := congrArg ObjectMeta.CreationTimestamp hx0e
                exact this
              have e2 : x0.ObjectMeta.Namespace =
                  (((prunable v ns w2).insertionSort VSHandler.notAfter).getLast
                    hne2).ObjectMeta.Namespace := by
                have := congrArg ObjectMeta.Namespace hx0e
                exact this
              have e3 : x0.ObjectMeta.Labels =
                  (((prunable v ns w2).insertionSort VSHandler.notAfter).getLast
                    hne2).ObjectMeta.Labels := by
                have := congrArg ObjectMeta.Labels hx0e
                exact this
              have hx0p : x0 ∈ prunable v ns w := by
                refine List.mem_filter.mpr ⟨hx0, ?_⟩
                unfold VSHandler.ownedBy at hl2 ⊢
                rw [e2, e3]
                exact hl2
              have := hmax x0 hx0p
              rw [e1, ← hn] at this
              omega)
      exact ⟨w3, hrun, (Quiet.quiet_tick w2).quiet_trans hq⟩

theorem ValidateSecretAndAddVRGOwnerRef_reruns (v : VSHandler)
    (hp : parseGroup v.owner.APIVersion ≠ none) (n : String) :
    Reruns (fun w => ∀ x ∈ w.secrets, Storable x.ObjectMeta)
      (fun wa w2 => storeGet secretKind.meta w2.secrets v.owner.ObjectMeta.Namespace n =
        storeGet secretKind.meta wa.secrets v.owner.ObjectMeta.Namespace n)
      (v.ValidateSecretAndAddVRGOwnerRef n) := by
  intro w r wa hnf hwf h w2 hnf2 hsame
  exact ⟨w2.tick, ValidateSecretAndAddVRGOwnerRef_rerun v n w wa r hnf hwf hp h w2 hnf2 hsame,
    Quiet.quiet_tick w2⟩

theorem CopySecretToPVCNamespace_reruns (v : VSHandler) (n ns : String) (S : Mods)
    (hS : S.secrets = false) :
    Reruns (fun _ => True) (Agree S) (v.CopySecretToPVCNamespace n ns) := by
  intro w r wa hnf _ h w2 hnf2 hag
  obtain ⟨w3, h3, ho⟩ := (CopySecretToPVCNamespace_rerun v n ns w wa r hnf h).2 w2 hnf2
    (hag.secrets hS)
  exact ⟨w3, h3, Quiet.of_onlyCalls ho⟩

theorem DeleteRS_reruns (v : VSHandler) (p ns : String) (S : Mods) (hS : S.rss = false) :
    Reruns (fun _ => True) (Agree S) (v.DeleteRS p ns) := by
  intro w r wa hnf _ h w2 hnf2 hag
  obtain ⟨hr, -, hre⟩ := DeleteRS_rerun v p ns w wa r hnf h
  subst hr
  exact hre w2 hnf2 (hag.rss hS)

theorem PrecreateDestPVCIfEnabled_snapshot (v : VSHandler) (hd : v.IsCopyMethodDirect = false)
    (rdSpec : VolSyncReplicationDestinationSpec) :
    v.PrecreateDestPVCIfEnabled rdSpec = (Pure.pure (none, none) : M _) := by
  unfold VSHandler.PrecreateDestPVCIfEnabled
  simp only [hd, Bool.not_false, if_true]

theorem DistinctSnapshotTimes.distinct_prunable {v : VSHandler} {w : World}
    (h : DistinctSnapshotTimes v w) (ns : String) :
    (prunable v ns w).Pairwise
      (fun a b => a.ObjectMeta.CreationTimestamp ≠ b.ObjectMeta.CreationTimestamp) := by
  unfold DistinctSnapshotTimes at h
  unfold Volsync.prunable
  have : w.snapshots.filter
      (fun o => (ns == "" || o.ObjectMeta.Namespace == ns) && v.ownedBy o.ObjectMeta) =
      (w.snapshots.filter (fun o => v.ownedBy o.ObjectMeta)).filter
        (fun o => ns == "" || o.ObjectMeta.Namespace == ns) := by
    rw [List.filter_filter]
  rw [this]
  exact h.sublist (List.filter_sublist _)

theorem ReconcileRD_reruns (v : VSHandler) (hp : parseGroup v.owner.APIVersion ≠ none)
    (hd : v.IsCopyMethodDirect = false) (rdSpec : VolSyncReplicationDestinationSpec) :
    Reruns (fun w => StorableForRD w ∧ DistinctSnapshotTimes v w) (Agree {})
      (v.ReconcileRD rdSpec) := by
  unfold VSHandler.ReconcileRD
  split
  · exact Reruns.rerun_pure _ _ _
  · refine Reruns.rerun_bind { secrets := true }
      (fun w => (∀ x ∈ w.rds, Storable x.ObjectMeta) ∧
        (∀ x ∈ w.serviceExports, Storable x.ObjectMeta) ∧ DistinctSnapshotTimes v w)
      ((ValidateSecretAndAddVRGOwnerRef_reruns v hp _).weaken (fun _ h => h.1.1) (fun _ _ h => h))
      (ValidateSecretAndAddVRGOwnerRef_mods v _ rfl) ?_ ?_ ?_
    · intro w a w1 hpre _ hag
      refine ⟨?_, ?_, ?_⟩
      · rw [hag.rds rfl]
        exact hpre.1.2.1
      · rw [hag.serviceExports rfl]
        exact hpre.1.2.2
      · unfold DistinctSnapshotTimes
        rw [hag.snapshots rfl]
        exact hpre.2
    · rintro ⟨secretExists, err⟩
      dsimp only
      split
      · exact Reruns.rerun_pure _ _ _
      · refine Reruns.rerun_seq { secrets := true }
          { rss := true, rds := true, volumeSnapshotClassList := true, serviceExports := true,
            snapshots := true, pvcs := true, workloadStatus := true }
          (fun w => (∀ x ∈ w.rds, Storable x.ObjectMeta) ∧
            (∀ x ∈ w.serviceExports, Storable x.ObjectMeta) ∧ DistinctSnapshotTimes v w)
          ?_ ?_ ?_ ?_ ?_
        · split
          · exact (CopySecretToPVCNamespace_reruns v _ _ _ rfl).weaken (fun _ _ => trivial)
              (fun _ _ h => h)
          · exact Reruns.rerun_pure _ _ _
        · split
          · exact CopySecretToPVCNamespace_mods v _ _ rfl
          · exact Modifies.frame_pure _ _
        · intro w a w1 hpre _ hag
          refine ⟨?_, ?_, ?_⟩
          · rw [hag.rds rfl]
            exact hpre.1
          · rw [hag.serviceExports rfl]
            exact hpre.2.1
          · unfold DistinctSnapshotTimes
            rw [hag.snapshots rfl]
            exact hpre.2.2
        · intro err1
          split
          · exact Reruns.rerun_pure _ _ _
          · refine Reruns.rerun_seq { rss := true }
              { rds := true, volumeSnapshotClassList := true, serviceExports := true,
                snapshots := true }
              (fun w => (∀ x ∈ w.rds, Storable x.ObjectMeta) ∧
                (∀ x ∈ w.serviceExports, Storable x.ObjectMeta) ∧ DistinctSnapshotTimes v w)
              ((DeleteRS_reruns v _ _ _ rfl).weaken (fun _ _ => trivial) (fun _ _ h => h))
              (DeleteRS_mods v _ _ rfl) ?_ ?_ ?_
            · intro w a w1 hpre _ hag
              refine ⟨?_, ?_, ?_⟩
              · rw [hag.rds rfl]
                exact hpre.1
              · rw [hag.serviceExports rfl]
                exact hpre.2.1
              · unfold DistinctSnapshotTimes
                rw [hag.snapshots rfl]
                exact hpre.2.2
            · intro err2
              split
              · exact Reruns.rerun_pure _ _ _
              · rw [PrecreateDestPVCIfEnabled_snapshot v hd]
                refine Reruns.rerun_seq {}
                  { rds := true, volumeSnapshotClassList := true, serviceExports := true,
                    snapshots := true }
                  (fun w => (∀ x ∈ w.rds, Storable x.ObjectMeta) ∧
                    (∀ x ∈ w.serviceExports, Storable x.ObjectMeta) ∧ DistinctSnapshotTimes v w)
                  (Reruns.rerun_pure _ _ _) (Modifies.frame_pure _ _) ?_ ?_ ?_
                · intro w a w1 hpre _ hag
                  refine ⟨?_, ?_, ?_⟩
                  · rw [hag.rds rfl]
                    exact hpre.1
                  · rw [hag.serviceExports rfl]
                    exact hpre.2.1
                  · unfold DistinctSnapshotTimes
                    rw [hag.snapshots rfl]
                    exact hpre.2.2
                · intro pre
                  split
                  · exact Reruns.rerun_pure _ _ _
                  · refine Reruns.rerun_seq { rds := true, volumeSnapshotClassList := true }
                      { serviceExports := true, snapshots := true }
                      (fun w => (∀ x ∈ w.serviceExports, Storable x.ObjectMeta) ∧
                        DistinctSnapshotTimes v w)
                      ((createOrUpdateRD_reruns v hp rdSpec _ _ _ rfl rfl rfl).weaken
                        (fun _ h => h.1) (fun _ _ h => h))
                      (createOrUpdateRD_mods v _ _ _ rfl rfl) ?_ ?_ ?_
                    · intro w a w1 hpre _ hag
                      refine ⟨?_, ?_⟩
                      · rw [hag.serviceExports rfl]
                        exact hpre.2.1
                      · unfold DistinctSnapshotTimes
                        rw [hag.snapshots rfl]
                        exact hpre.2.2
                    · intro res
                      split
                      · exact Reruns.rerun_pure _ _ _
                      · refine Reruns.rerun_seq {} { serviceExports := true, snapshots := true }
                          (fun w => (∀ x ∈ w.serviceExports, Storable x.ObjectMeta) ∧
                            DistinctSnapshotTimes v w)
                          (Reruns.rerun_deref _ _ _) (Modifies.frame_deref _ _)
                          (fun w a w1 hpre _ hag => ⟨by rw [hag.serviceExports rfl]; exact hpre.1,
                            by unfold DistinctSnapshotTimes; rw [hag.snapshots rfl]; exact hpre.2⟩)
                          ?_ ?_
                        · intro rd
                          refine Reruns.rerun_seq { serviceExports := true } { snapshots := true }
                            (fun w => DistinctSnapshotTimes v w)
                            ((ReconcileServiceExportForRD_reruns v rd _ rfl).weaken
                              (fun _ h => h.1) (fun _ _ h => h))
                            (ReconcileServiceExportForRD_mods v rd rfl)
                            (fun w a w1 hpre _ hag => by
                              show DistinctSnapshotTimes v w1
                              unfold DistinctSnapshotTimes
                              rw [hag.snapshots rfl]
                              exact hpre.2)
                            ?_ ?_
                          · intro err4
                            split
                            · exact Reruns.rerun_pure _ _ _
                            · split
                              · exact Reruns.rerun_pure _ _ _
                              · refine Reruns.rerun_seq { snapshots := true } {} (fun _ => True)
                                  ((pruneOldSnapshots_reruns v _ _ rfl).weaken
                                    (fun _ h => h.distinct_prunable _) (fun _ _ h => h))
                                  (pruneOldSnapshots_mods v _ rfl) (fun _ _ _ _ _ _ => trivial)
                                  ?_ ?_
                                · intro err5
                                  split <;> exact Reruns.rerun_pure _ _ _
                                · intro err5
                                  split <;> exact Modifies.frame_pure _ _
                          · intro err4
                            repeat' first
                              | apply Modifies.frame_pure
                              | apply Modifies.frame_deref
                              | (simp [*]; done)
                              | apply Modifies.frame_bind
                              | intro _
                              | split
                              | dsimp only
                        · intro rd
                          repeat' first
                            | apply Modifies.frame_pure
                            | apply Modifies.frame_deref
                            | (simp [*]; done)
                            | apply Modifies.frame_bind
                            | intro _
                            | split
                            | dsimp only
                    · intro res
                      repeat' first
                        | apply Modifies.frame_pure
                        | apply Modifies.frame_deref
                        | (simp [*]; done)
                        | apply Modifies.frame_bind
                        | intro _
                        | split
                        | dsimp only
                · intro pre
                  repeat' first
                | apply Modifies.frame_pure
                | apply Modifies.frame_deref
                | (simp [*]; done)
                | apply Modifies.frame_bind
                | intro _
                | split
                | dsimp only
            · intro err2
              rw [PrecreateDestPVCIfEnabled_snapshot v hd]
              repeat' first
                | apply Modifies.frame_pure
                | apply Modifies.frame_deref
                | (simp [*]; done)
                | apply Modifies.frame_bind
                | intro _
                | split
                | dsimp only
        · intro err1
          rw [PrecreateDestPVCIfEnabled_snapshot v hd]
          repeat' first
          | apply Modifies.frame_pure
          | apply Modifies.frame_deref
          | (simp [*]; done)
          | apply Modifies.frame_bind
          | intro _
          | split
          | dsimp only
    · rintro ⟨secretExists, err⟩ w1 r wa hnf1 h w2 hag
      rw [hag.secrets rfl]
      dsimp only at h
      split at h
      · simp only [M.pure_run, Option.some.injEq, Prod.mk.injEq] at h
        rw [h.2]
      · rw [M.bind_eq_some] at h
        obtain ⟨e1, wb, hcopy, hrest⟩ := h
        have hb : storeGet secretKind.meta wb.secrets v.owner.ObjectMeta.Namespace
            (GetVolSyncPSKSecretNameFromVRGName v.owner.ObjectMeta.Name) =
            storeGet secretKind.meta w1.secrets v.owner.ObjectMeta.Namespace
              (GetVolSyncPSKSecretNameFromVRGName v.owner.ObjectMeta.Name) := by
          split at hcopy
          · exact (CopySecretToPVCNamespace_rerun v _ _ w1 wb e1 hnf1 hcopy).1
          · simp only [M.pure_run, Option.some.injEq, Prod.mk.injEq] at hcopy
            rw [hcopy.2]
        rw [← hb]
        have hag2 : Agree
            { rss := true, rds := true, volumeSnapshotClassList := true, serviceExports := true,
              snapshots := true, pvcs := true, workloadStatus := true } wb wa := by
          refine Modifies.run ?_ wb r wa hrest
          repeat' first
            | apply Modifies.frame_pure
            | apply Modifies.frame_deref
            | (simp [*]; done)
            | apply Modifies.frame_bind
            | intro _
            | split
            | dsimp only
        rw [hag2.secrets rfl]

theorem mutateRS_eq (v : VSHandler) (rsSpec : VolSyncReplicationSourceSpec) (psk : String)
    (vsc addr : String) (rs : ReplicationSource) :
    v.mutateRS rsSpec psk false vsc addr rs =
      match ownedMetaOf v rs.ObjectMeta with
      | (m, some e) => ({ rs with ObjectMeta := m }, some e)
      | (m, none) =>
        match v.getScheduleCronSpec with
        | (_, some e) =>
          ({ rs with ObjectMeta := m,
                     Spec := { rs.Spec with SourcePVC := rsSpec.ProtectedPVC.Name } }, some e)
        | (cron, none) =>
          ({ rs with
              ObjectMeta := m,
              Spec := { rs.Spec with
                SourcePVC := rsSpec.ProtectedPVC.Name,
                Trigger := some { Schedule := cron },
                RsyncTLS := some (rsTLS rsSpec psk vsc addr) } }, none) := by
  unfold VSHandler.mutateRS ownedMetaOf SetControllerReference rsTLS
    VSHandler.configureReplicationSourceSpec util.AddLabel
  have hm : rsKind.meta rs = rs.ObjectMeta := rfl
  by_cases ha : v.vrgInAdminNamespace = true
  · simp only [ha, Bool.not_true, Bool.false_eq_true, if_false]
    generalize v.getScheduleCronSpec = g
    obtain ⟨c, e⟩ := g
    cases e <;> rfl
  · have hb : (!v.vrgInAdminNamespace) = true := by simpa using ha
    simp only [hb, if_true, Bool.false_eq_true, if_false]
    rw [hm]
    generalize SetControllerReferenceMeta v.owner.APIVersion v.owner.Kind v.owner.ObjectMeta
      rs.ObjectMeta = q
    obtain ⟨m1, e⟩ := q
    cases e with
    | some e1 => rfl
    | none =>
      generalize v.getScheduleCronSpec = g
      obtain ⟨c, e⟩ := g
      cases e <;> rfl

theorem mutateRS_sets (v : VSHandler) (hp : parseGroup v.owner.APIVersion ≠ none)
    (rsSpec : VolSyncReplicationSourceSpec) (psk : String) (vsc addr : String)
    (o o2 : ReplicationSource) (h : v.mutateRS rsSpec psk false vsc addr o = (o2, none)) :
    ∃ cron, RSFixed v rsSpec.ProtectedPVC.Name cron (rsTLS rsSpec psk vsc addr) o2 ∧
      v.getScheduleCronSpec = (cron, none) := by
  rw [mutateRS_eq] at h
  generalize hq : ownedMetaOf v o.ObjectMeta = q at h
  obtain ⟨m, e⟩ := q
  cases e with
  | some e1 => simp at h
  | none =>
    dsimp only at h
    generalize hg : v.getScheduleCronSpec = g at h
    obtain ⟨c, e⟩ := g
    cases e with
    | some e1 => simp at h
    | none =>
      simp only [Prod.mk.injEq, and_true] at h
      subst h
      exact ⟨c, ⟨ownedMetaOf_sets v hp _ _ hq, rfl, rfl, rfl⟩, rfl⟩

theorem mutateRS_fixed (v : VSHandler) (rsSpec : VolSyncReplicationSourceSpec) (psk : String)
    (vsc addr : String) (cron : Option String) (x : ReplicationSource)
    (hg : v.getScheduleCronSpec = (cron, none))
    (h : RSFixed v rsSpec.ProtectedPVC.Name cron (rsTLS rsSpec psk vsc addr) x) :
    v.mutateRS rsSpec psk false vsc addr x = (x, none) := by
  obtain ⟨hown, h1, h2, h3⟩ := h
  rw [mutateRS_eq, ownedMetaOf_fixed v _ hown, hg]
  simp only [← h1, ← h2, ← h3]

theorem RSFixed_asCreated (v : VSHandler) (p : String) (cron : Option String)
    (tls : ReplicationSourceRsyncTLSSpec) (x : ReplicationSource) (now : Nat)
    (h : RSFixed v p cron tls x) : RSFixed v p cron tls (asCreated rsKind x now) := by
  obtain ⟨hown, h1, h2, h3⟩ := h
  exact ⟨OwnedMeta_congr rfl rfl rfl hown, h1, h2, h3⟩

theorem RSFixed_not_prepared (v : VSHandler) (p : String) (cron : Option String)
    (tls : ReplicationSourceRsyncTLSSpec) (x : ReplicationSource) (h : RSFixed v p cron tls x) :
    preparedForFinalSync x = false := by
  unfold preparedForFinalSync
  rw [h.2.2.1]
  show (("" : String) == PrepareForFinalSyncTriggerString) = false
  decide

/-- The check of `setupForFinalSync` and the `CreateOrUpdate` of the source that
follows it, without final sync, run again on the sources they left: the check says the
same and the `CreateOrUpdate` finds nothing to do. -/
theorem setupAndCreateRS_reruns {β : Type} (v : VSHandler)
    (hp : parseGroup v.owner.APIVersion ≠ none) (rsSpec : VolSyncReplicationSourceSpec)
    (psk vsc addr : String) (S : Mods) (hS : S.rss = false) (r0 : β)
    (k : OperationResult × ReplicationSource × Option Err → M β)
    (g : ReplicationSource → Option Err → β)
    (hk : ∀ op o e w, k (op, o, e) w = some (g o e, w)) :
    Reruns (fun w => ∀ x ∈ w.rss, Storable x.ObjectMeta) (Agree S)
      (v.setupForFinalSync rsSpec false >>= fun stop =>
        if stop then pure r0
        else CreateOrUpdate rsKind (sourceKey rsSpec)
          (fun o => some (v.mutateRS rsSpec psk false vsc addr o)) >>= k) := by
  intro w r wa hnf hwf h w2 hnf2 hag
  have hrss : w2.rss = wa.rss := hag.rss hS
  rw [M.bind_eq_some] at h
  obtain ⟨stop, w1, hsetup, h⟩ := h
  have hw1 := setupForFinalSync_scheduled_tick v rsSpec w w1 stop hsetup
  subst hw1
  have hsame : ∀ wx : World, NoFaults wx → wx.rss = w.rss →
      v.setupForFinalSync rsSpec false wx = some (stop, wx.tick) := by
    intro wx hnfx hx
    cases hg : storeGet rsKind.meta w.rss rsSpec.ProtectedPVC.Namespace
        (getReplicationSourceName rsSpec.ProtectedPVC.Name) with
    | none =>
      rw [setupForFinalSync_run_missing v rsSpec false w (hnf _) hg] at hsetup
      simp only [Option.some.injEq, Prod.mk.injEq] at hsetup
      rw [← hsetup.1]
      exact setupForFinalSync_run_missing v rsSpec false wx (hnfx _) (by rw [hx]; exact hg)
    | some rs =>
      rw [setupForFinalSync_run_found v rsSpec w rs (hnf _) hg] at hsetup
      simp only [Option.some.injEq, Prod.mk.injEq] at hsetup
      rw [← hsetup.1]
      exact setupForFinalSync_run_found v rsSpec wx rs (hnfx _) (by rw [hx]; exact hg)
  cases stop with
  | true =>
    simp only [if_true, M.pure_run, Option.some.injEq, Prod.mk.injEq] at h
    obtain ⟨hr, hw⟩ := h
    subst hr hw
    refine ⟨w2.tick, ?_, Quiet.quiet_tick w2⟩
    rw [M.bind_run, hsame w2 hnf2 hrss]
    rfl
  | false =>
    simp only [Bool.false_eq_true, if_false] at h
    rw [M.bind_eq_some] at h
    obtain ⟨⟨op, o1, err⟩, wb, hcu, h⟩ := h
    rw [hk] at h
    simp only [Option.some.injEq, Prod.mk.injEq] at h
    obtain ⟨hr, hw⟩ := h
    subst hw
    have hkeeps : ∀ o o2, (fun o => some (v.mutateRS rsSpec psk false vsc addr o)) o
        = some (o2, none) →
        (rsKind.meta o2).DeletionTimestamp = (rsKind.meta o).DeletionTimestamp ∧
        (rsKind.meta o2).Finalizers = (rsKind.meta o).Finalizers := by
      intro o o2 ho
      simp only [Option.some.injEq] at ho
      exact mutateRS_keeps v rsSpec psk false vsc addr o o2 ho
    have hfixed : ∀ o o2, v.mutateRS rsSpec psk false vsc addr o = (o2, none) →
        ∃ cron, RSFixed v rsSpec.ProtectedPVC.Name cron (rsTLS rsSpec psk vsc addr) o2 ∧
          v.getScheduleCronSpec = (cron, none) :=
      fun o o2 ho => mutateRS_sets v hp rsSpec psk vsc addr o o2 ho
    have hidem : ∀ o o2, (fun o => some (v.mutateRS rsSpec psk false vsc addr o)) o
        = some (o2, none) →
        (fun o => some (v.mutateRS rsSpec psk false vsc addr o)) o2 = some (o2, none) ∧
        ∀ now, (fun o => some (v.mutateRS rsSpec psk false vsc addr o)) (asCreated rsKind o2 now)
          = some (asCreated rsKind o2 now, none) := by
      intro o o2 ho
      simp only [Option.some.injEq] at ho
      obtain ⟨cron, hfix, hg⟩ := hfixed o o2 ho
      refine ⟨?_, fun now => ?_⟩
      · simp only [mutateRS_fixed v rsSpec psk vsc addr cron o2 hg hfix]
      · simp only [mutateRS_fixed v rsSpec psk vsc addr cron _ hg
          (RSFixed_asCreated v _ _ _ o2 now hfix)]
    have hnft : NoFaults w.tick := fun n => hnf n
    have hre := CreateOrUpdate_rerun rsKind_lawful (fun _ _ => rfl) (fun _ => rfl) hnft hcu hwf
      hkeeps hidem
    have hsetup2 : v.setupForFinalSync rsSpec false w2 = some (false, w2.tick) := by
      cases err with
      | some e =>
        have := CreateOrUpdate_error_frame (K := rsKind) (fun _ => rfl) hnft hcu
        subst this
        exact hsame w2 hnf2 hrss
      | none =>
        obtain ⟨hst, -⟩ := CreateOrUpdate_ok rsKind_lawful (fun _ _ => rfl) (fun _ => rfl) hcu hwf
          hkeeps
        have hfix : ∃ cron, RSFixed v rsSpec.ProtectedPVC.Name cron (rsTLS rsSpec psk vsc addr) o1 := by
          rcases CreateOrUpdate_result hcu with ⟨o0, -, hf0⟩ | ⟨-, o2, hf2, ho⟩
          · simp only [Option.some.injEq] at hf0
            obtain ⟨cron, hfix, -⟩ := hfixed o0 o1 hf0
            exact ⟨cron, hfix⟩
          · simp only [Option.some.injEq] at hf2
            obtain ⟨cron, hfix, -⟩ := hfixed _ o2 hf2
            rw [ho]
            exact ⟨cron, RSFixed_asCreated v _ _ _ o2 _ hfix⟩
        obtain ⟨cron, hfix⟩ := hfix
        have hst2 : storeGet rsKind.meta w2.rss rsSpec.ProtectedPVC.Namespace
            (getReplicationSourceName rsSpec.ProtectedPVC.Name) = some o1 := by
          rw [hrss]
          exact hst
        rw [setupForFinalSync_run_found v rsSpec w2 o1 (hnf2 _) hst2,
          RSFixed_not_prepared v _ _ _ o1 hfix]
    refine ⟨w2.tick.tick, ?_, (Quiet.quiet_tick w2).quiet_trans (Quiet.quiet_tick _)⟩
    rw [M.bind_run, hsetup2]
    simp only [Bool.false_eq_true, if_false]
    rw [M.bind_run, hre w2.tick (fun n => hnf2 n) hrss]
    dsimp only
    rw [hk, hr]

theorem createOrUpdateRS_reruns (v : VSHandler) (hp : parseGroup v.owner.APIVersion ≠ none)
    (rsSpec : VolSyncReplicationSourceSpec) (psk : String)
    (S : Mods) (hS : S.volumeSnapshotClassList = false) (hS1 : S.storageClasses = false)
    (hS2 : S.rss = false) :
    Reruns (fun w => ∀ x ∈ w.rss, Storable x.ObjectMeta) (Agree S)
      (v.createOrUpdateRS rsSpec psk false) := by
  unfold VSHandler.createOrUpdateRS
  refine Reruns.rerun_seq {} { volumeSnapshotClassList := true, rss := true, pvcs := true, pvs := true }
    (fun w => ∀ x ∈ w.rss, Storable x.ObjectMeta)
    ((getStorageClass_reruns v _ _ (by simp [Mods.union, hS1])).weaken (fun _ _ => trivial)
      (fun _ _ h => h))
    (getStorageClass_mods v _) ?_ ?_ ?_
  · intro w a w1 hwf _ hag
    rw [hag.rss rfl]
    exact hwf
  · rintro ⟨sc, err⟩
    dsimp only
    cases err with
    | some e => exact Reruns.rerun_pure _ _ _
    | none =>
      dsimp only
      refine Reruns.rerun_seq {} { volumeSnapshotClassList := true, rss := true, pvcs := true, pvs := true }
        (fun w => ∀ x ∈ w.rss, Storable x.ObjectMeta)
        (Reruns.rerun_deref _ _ _) (Modifies.frame_deref _ _) ?_ ?_ ?_
      · intro w a w1 hwf _ hag
        rw [hag.rss rfl]
        exact hwf
      · intro sc1
        dsimp only
        refine Reruns.rerun_seq { volumeSnapshotClassList := true } { rss := true, pvcs := true, pvs := true }
          (fun w => ∀ x ∈ w.rss, Storable x.ObjectMeta)
          ((getVolumeSnapshotClassFromPVCStorageClass_reruns v sc1 _
            (by simp [Mods.union, hS])).weaken (fun _ _ => trivial) (fun _ _ h => h))
          (getVolumeSnapshotClassFromPVCStorageClass_mods v sc1 rfl) ?_ ?_ ?_
        · intro w a w1 hwf _ hag
          rw [hag.rss rfl]
          exact hwf
        · rintro ⟨vsc, err1⟩
          dsimp only
          cases err1 with
          | some e => exact Reruns.rerun_pure _ _ _
          | none =>
            dsimp only
            refine setupAndCreateRS_reruns v hp (v.ModifyRSSpecForCephFS rsSpec sc1) psk vsc _ S hS2
              _ _ (fun o e => match e with
                | some e1 => (none, some e1)
                | none => (some o, none)) ?_
            intro op o e w
            cases e <;> rfl
        · rintro ⟨vsc, err1⟩
          repeat' first
            | apply Modifies.frame_pure
            | apply Modifies.frame_deref
            | (simp [*]; done)
            | apply Modifies.frame_bind
            | intro _
            | split
            | dsimp only
      · intro sc1
        repeat' first
          | apply Modifies.frame_pure
          | apply Modifies.frame_deref
          | (simp [*]; done)
          | apply Modifies.frame_bind
          | intro _
          | split
          | dsimp only
  · rintro ⟨sc, err⟩
    repeat' first
      | apply Modifies.frame_pure
      | apply Modifies.frame_deref
      | (simp [*]; done)
      | apply Modifies.frame_bind
      | intro _
      | split
      | dsimp only

theorem DeleteRD_loop_settles (v : VSHandler) (hd : v.IsCopyMethodDirect = false)
    (listed : ObjectMeta → Bool) (hl : ByLabels listed) (p : String) :
    ∀ (items : List ReplicationDestination) (w w1 : World) (r : Option Err), NoFaults w →
      Settling rdKind listed p w.rds items →
      VSHandler.DeleteRD.loop v p items w = some (r, w1) →
      r = none ∧ Settling rdKind listed p w1.rds [] ∧ Agree { rds := true } w w1 := by
  intro items
  induction items with
  | nil =>
    intro w w1 r hf hinv h
    simp only [VSHandler.DeleteRD.loop, M.pure_run, Option.some.injEq, Prod.mk.injEq] at h
    obtain ⟨hr, hw⟩ := h
    subst hr hw
    exact ⟨rfl, hinv, Agree.agree_refl _ _⟩
  | cons x rest ih =>
    intro w w1 r hf hinv h
    unfold VSHandler.DeleteRD.loop at h
    split at h
    · simp only [hd, Bool.false_eq_true, if_false, M.bind_run, M.pure_run] at h
      cases hdel : clientDelete rdKind x w with
      | none => rw [hdel] at h; simp at h
      | some res =>
        obtain ⟨e, wa⟩ := res
        rw [hdel] at h
        dsimp only at h
        have hag : Agree { rds := true } w wa :=
          (clientDelete_mods (S := { rds := true }) rdKind x (fun _ _ => rfl)).run _ _ _ hdel
        have hfa : NoFaults wa := hag.noFaults hf
        have hinv1 : Settling rdKind listed p wa.rds rest := by
          rcases clientDelete_cases (hf _) hdel with ⟨-, hnone, hw⟩ | ⟨-, hw⟩
          · rw [hw]
            exact Settling_missing hnone hinv
          · rw [hw]
            exact Settling_delete rdKind_lawful hl (Nat.succ_ne_zero _) hinv
        obtain ⟨h0, h1, h2⟩ := ih wa w1 r hfa hinv1 h
        exact ⟨h0, h1, hag.agree_trans h2⟩
    · rename_i hname
      refine ih w w1 r hf (Settling_skip ?_ hinv) h
      intro hk
      simp only [getReplicationDestinationName, beq_iff_eq] at hname
      exact hname hk

/-- A second pass of the delete loop of `DeleteRD` in the snapshot copy method, over
destinations whose keys are settled, deletes again and changes nothing. -/
theorem DeleteRD_loop_quiet (v : VSHandler) (hd : v.IsCopyMethodDirect = false) (p : String) :
    ∀ (items : List ReplicationDestination) (w : World), NoFaults w →
      (∀ x ∈ items, x.ObjectMeta.Name = p →
        x ∈ w.rds ∧ KeySettled rdKind w.rds x.ObjectMeta.Namespace x.ObjectMeta.Name) →
      ∃ w1, VSHandler.DeleteRD.loop v p items w = some (none, w1) ∧ Quiet w w1 := by
  intro items
  induction items with
  | nil =>
    intro w hf hs
    exact ⟨w, rfl, Quiet.quiet_refl w⟩
  | cons x rest ih =>
    intro w hf hs
    unfold VSHandler.DeleteRD.loop
    by_cases hname : x.ObjectMeta.Name = p
    · obtain ⟨hx, hsx⟩ := hs x (List.mem_cons_self _ _) hname
      have hdel := clientDelete_settled (K := rdKind) (fun _ => rfl) (fun _ _ => rfl) (hf _) hx hsx
      have hq : Quiet w (w.logged ⟨.delete, rdKind.tag, x.ObjectMeta.Namespace, x.ObjectMeta.Name⟩) :=
        Quiet.quiet_delete w _ rfl
      obtain ⟨w1, hrun, hq1⟩ := ih _ (hq.quiet_noFaults hf)
        (fun y hy hn => hs y (List.mem_cons_of_mem _ hy) hn)
      refine ⟨w1, ?_, hq.quiet_trans hq1⟩
      have hb : (x.ObjectMeta.Name == getReplicationDestinationName p) = true := by
        simp [getReplicationDestinationName, hname]
      simp only [hb, if_true, hd, Bool.false_eq_true, if_false, M.bind_run, M.pure_run]
      rw [show clientDelete rdKind x w = _ from hdel]
      exact hrun
    · obtain ⟨w1, hrun, hq1⟩ := ih w hf (fun y hy hn => hs y (List.mem_cons_of_mem _ hy) hn)
      refine ⟨w1, ?_, hq1⟩
      have hb : (x.ObjectMeta.Name == getReplicationDestinationName p) = false := by
        simp [getReplicationDestinationName, hname]
      simp only [hb, Bool.false_eq_true, if_false]
      exact hrun

/-- Without client failures, in the snapshot copy method, `DeleteRD` returns nil, and
run again on the destinations it left it returns nil again, changes no object and
issues deletes only. -/
theorem DeleteRD_reruns (v : VSHandler) (hd : v.IsCopyMethodDirect = false) (p ns : String)
    (S : Mods) (hS : S.rds = false) :
    Reruns (fun _ => True) (Agree S) (v.DeleteRD p ns) := by
  intro w r wa hf _ h w1 hf1 hag
  have hrds : w1.rds = wa.rds := hag.rds hS
  unfold VSHandler.DeleteRD VSHandler.listRDByOwner VSHandler.listByOwner at h
  rw [M.bind_eq_some] at h
  obtain ⟨l, w0, hl, h⟩ := h
  obtain ⟨hr, hw0⟩ := clientList_ok (hf _) hl
  subst hr hw0
  dsimp only at h
  obtain ⟨hr, hdone, hag1⟩ := DeleteRD_loop_settles v hd (listedBy v ns) (listedBy_byLabels v ns) p _
    w.tick wa r (fun n => hf n) (Settling_start rdKind (listedBy v ns) p w.rds) h
  subst hr
  have hsettled := Settling_done hdone
  obtain ⟨w2, hrun, hq⟩ := DeleteRD_loop_quiet v hd p
    (w1.rds.filter (fun o => listedBy v ns o.ObjectMeta)) w1.tick (fun n => hf1 n)
    (by
      intro x hx hn
      obtain ⟨hxm, hxl⟩ := List.mem_filter.mp hx
      refine ⟨hxm, ?_⟩
      have hxm3 : x ∈ wa.rds := hrds ▸ hxm
      have := hsettled x hxm3 hxl hn
      show KeySettled rdKind w1.rds _ _
      rw [hrds]
      exact this)
  refine ⟨w2, ?_, (Quiet.quiet_tick w1).quiet_trans hq⟩
  unfold VSHandler.DeleteRD VSHandler.listRDByOwner VSHandler.listByOwner
  rw [M.bind_run, clientList_run (hf1 _)]
  exact hrun

theorem DeleteRD_snapshot_mods (v : VSHandler) (hd : v.IsCopyMethodDirect = false)
    (p ns : String) : Modifies { rds := true } (v.DeleteRD p ns) := by
  constructor
  intro w r wa h
  unfold VSHandler.DeleteRD VSHandler.listRDByOwner VSHandler.listByOwner at h
  rw [M.bind_eq_some] at h
  obtain ⟨l, w0, hl, h⟩ := h
  have hag0 := (Modifies.frame_clientList { rds := true } rdKind ns v.ownedBy).run _ _ _ hl
  cases l with
  | error e =>
    simp only [M.pure_run, Option.some.injEq, Prod.mk.injEq] at h
    rw [← h.2]
    exact hag0
  | ok items =>
    dsimp only at h
    refine hag0.agree_trans ?_
    clear hag0 hl
    induction items generalizing w0 with
    | nil =>
      simp only [VSHandler.DeleteRD.loop, M.pure_run, Option.some.injEq, Prod.mk.injEq] at h
      rw [← h.2]
      exact Agree.agree_refl _ _
    | cons x rest ih =>
      unfold VSHandler.DeleteRD.loop at h
      split at h
      · simp only [hd, Bool.false_eq_true, if_false, M.bind_run, M.pure_run] at h
        cases hdel : clientDelete rdKind x w0 with
        | none => rw [hdel] at h; simp at h
        | some res =>
          obtain ⟨e, wb⟩ := res
          rw [hdel] at h
          dsimp only at h
          have hag : Agree { rds := true } w0 wb :=
            (clientDelete_mods (S := { rds := true }) rdKind x (fun _ _ => rfl)).run _ _ _ hdel
          exact hag.agree_trans (ih wb h)
      · exact ih w0 h

theorem Reruns.rerun_pure_bind {α β : Type} {Pre : World → Prop} {P : World → World → Prop}
    {a : α} {f : α → M β} (h : Reruns Pre P (f a)) :
    Reruns Pre P ((Pure.pure a : M α) >>= f) := h

theorem validatePVCForFinalSync_scheduled (v : VSHandler) (rsSpec : VolSyncReplicationSourceSpec) :
    v.validatePVCForFinalSync rsSpec false = (Pure.pure (true, none) : M _) := by
  unfold VSHandler.validatePVCForFinalSync
  simp only [Bool.false_eq_true, if_false]

theorem ReconcileRS_reruns (v : VSHandler) (hp : parseGroup v.owner.APIVersion ≠ none)
    (hd : v.IsCopyMethodDirect = false) (rsSpec : VolSyncReplicationSourceSpec) :
    Reruns StorableForRS (Agree {}) (v.ReconcileRS rsSpec false) := by
  unfold VSHandler.ReconcileRS
  split
  · exact Reruns.rerun_pure _ _ _
  · refine Reruns.rerun_bind { secrets := true } (fun w => ∀ x ∈ w.rss, Storable x.ObjectMeta)
      ((ValidateSecretAndAddVRGOwnerRef_reruns v hp _).weaken (fun _ h => h.1) (fun _ _ h => h))
      (ValidateSecretAndAddVRGOwnerRef_mods v _ rfl) ?_ ?_ ?_
    · intro w a w1 hpre _ hag
      rw [hag.rss rfl]
      exact hpre.2
    · rintro ⟨secretExists, err⟩
      dsimp only
      split
      · exact Reruns.rerun_pure _ _ _
      · refine Reruns.rerun_seq { secrets := true }
          { rss := true, rds := true, volumeSnapshotClassList := true, snapshots := true,
            pvcs := true, pvs := true, workloadStatus := true }
          (fun w => ∀ x ∈ w.rss, Storable x.ObjectMeta) ?_ ?_ ?_ ?_ ?_
        · split
          · exact (CopySecretToPVCNamespace_reruns v _ _ _ rfl).weaken (fun _ _ => trivial)
              (fun _ _ h => h)
          · exact Reruns.rerun_pure _ _ _
        · split
          · exact CopySecretToPVCNamespace_mods v _ _ rfl
          · exact Modifies.frame_pure _ _
        · intro w a w1 hpre _ hag
          rw [hag.rss rfl]
          exact hpre
        · intro err1
          split
          · exact Reruns.rerun_pure _ _ _
          · refine Reruns.rerun_seq { rds := true }
              { rss := true, volumeSnapshotClassList := true, pvcs := true, pvs := true,
                workloadStatus := true }
              (fun w => ∀ x ∈ w.rss, Storable x.ObjectMeta)
              ((DeleteRD_reruns v hd _ _ _ rfl).weaken (fun _ _ => trivial) (fun _ _ h => h))
              (DeleteRD_snapshot_mods v hd _ _) ?_ ?_ ?_
            · intro w a w1 hpre _ hag
              rw [hag.rss rfl]
              exact hpre
            · intro err2
              split
              · exact Reruns.rerun_pure _ _ _
              · rw [validatePVCForFinalSync_scheduled]
                refine Reruns.rerun_pure_bind ?_
                simp only [Bool.not_true, Option.isSome_none, Bool.or_false, Bool.false_eq_true,
                  if_false]
                refine Reruns.rerun_seq
                  { rss := true, volumeSnapshotClassList := true, pvcs := true, pvs := true }
                  { pvcs := true, pvs := true } (fun _ => True)
                  ((createOrUpdateRS_reruns v hp rsSpec _ _ rfl rfl rfl).weaken
                    (fun _ h => h) (fun _ _ h => h))
                  (createOrUpdateRS_mods v _ _ _ rfl rfl rfl rfl) (fun _ _ _ _ _ _ => trivial)
                  ?_ ?_
                · rintro ⟨rs, err3⟩
                  dsimp only
                  split
                  · exact Reruns.rerun_pure _ _ _
                  · exact Reruns.rerun_pure _ _ _
                  · simp only [Bool.false_and, Bool.false_eq_true, if_false]
                    exact Reruns.rerun_pure _ _ _
                · rintro ⟨rs, err3⟩
                  repeat' first
                    | apply Modifies.frame_pure
                    | apply Modifies.frame_deref
                    | (simp [*]; done)
                    | apply Modifies.frame_bind
                    | intro _
                    | split
                    | dsimp only
            · intro err2
              repeat' first
                | apply Modifies.frame_pure
                | apply Modifies.frame_deref
                | (simp [*]; done)
                | apply Modifies.frame_bind
                | intro _
                | split
                | dsimp only
        · intro err1
          repeat' first
            | apply Modifies.frame_pure
            | apply Modifies.frame_deref
            | (simp [*]; done)
            | apply Modifies.frame_bind
            | intro _
            | split
            | dsimp only
    · rintro ⟨secretExists, err⟩ w1 r wa hnf1 h w2 hag
      rw [hag.secrets rfl]
      dsimp only at h
      split at h
      · simp only [M.pure_run, Option.some.injEq, Prod.mk.injEq] at h
        rw [h.2]
      · rw [M.bind_eq_some] at h
        obtain ⟨e1, wb, hcopy, hrest⟩ := h
        have hb : storeGet secretKind.meta wb.secrets v.owner.ObjectMeta.Namespace
            (GetVolSyncPSKSecretNameFromVRGName v.owner.ObjectMeta.Name) =
            storeGet secretKind.meta w1.secrets v.owner.ObjectMeta.Namespace
              (GetVolSyncPSKSecretNameFromVRGName v.owner.ObjectMeta.Name) := by
          split at hcopy
          · exact (CopySecretToPVCNamespace_rerun v _ _ w1 wb e1 hnf1 hcopy).1
          · simp only [M.pure_run, Option.some.injEq, Prod.mk.injEq] at hcopy
            rw [hcopy.2]
        rw [← hb]
        have hag2 : Agree
            { rss := true, rds := true, volumeSnapshotClassList := true, snapshots := true,
              pvcs := true, pvs := true, workloadStatus := true } wb wa := by
          refine Modifies.run ?_ wb r wa hrest
          repeat' first
            | apply Modifies.frame_pure
            | apply Modifies.frame_deref
            | (simp [*]; done)
            | apply Modifies.frame_bind
            | intro _
            | split
            | dsimp only
        rw [hag2.secrets rfl]

theorem DeleteRS_loop_total (p : String) (l : List ReplicationSource) :
    Total (VSHandler.DeleteRS.loop p l) := by
  induction l with
  | nil => exact Total.total_pure ()
  | cons x rest ih =>
    unfold VSHandler.DeleteRS.loop
    split
    · exact Total.total_bind (Total.total_clientDelete _ _) (fun _ => ih)
    · exact ih

theorem DeleteRS_total (v : VSHandler) (p ns : String) : Total (v.DeleteRS p ns) := by
  unfold VSHandler.DeleteRS VSHandler.listRSByOwner VSHandler.listByOwner
  repeat' first
    | apply Total.total_pure
    | apply Total.total_clientList
    | exact DeleteRS_loop_total _ _
    | apply Total.total_bind
    | intro _
    | split
    | dsimp only

theorem deleteVolumeSnapshots_total (v : VSHandler) (l : List VolumeSnapshot) :
    Total (v.deleteVolumeSnapshots l) := by
  induction l with
  | nil => exact Total.total_pure none
  | cons x rest ih =>
    unfold VSHandler.deleteVolumeSnapshots
    refine Total.total_bind (Total.total_clientDelete _ _) (fun err => ?_)
    dsimp only
    split
    · exact Total.total_pure _
    · exact ih

theorem pruneOldSnapshots_total (v : VSHandler) (ns : String) : Total (v.pruneOldSnapshots ns) := by
  unfold VSHandler.pruneOldSnapshots VSHandler.listByOwner
  repeat' first
    | apply Total.total_pure
    | apply Total.total_clientList
    | exact deleteVolumeSnapshots_total _ _
    | apply Total.total_bind
    | intro _
    | split
    | dsimp only

theorem ReconcileServiceExportForRD_total (v : VSHandler) (rd : ReplicationDestination) :
    Total (v.ReconcileServiceExportForRD rd) := by
  unfold VSHandler.ReconcileServiceExportForRD
  refine Total.total_bind (CreateOrUpdate_total serviceExportKind _ (fun o =>
    ({ o with ObjectMeta := (SetOwnerReferenceMeta "volsync.backube/v1alpha1"
        "ReplicationDestination" rd.ObjectMeta o.ObjectMeta).1 },
      (SetOwnerReferenceMeta "volsync.backube/v1alpha1" "ReplicationDestination" rd.ObjectMeta
        o.ObjectMeta).2))) (fun x => ?_)
  exact Total.total_pure _

theorem GetVolumeSnapshotClassFromPVCStorageClass_total (v : VSHandler) (n : Option String) :
    Total (v.GetVolumeSnapshotClassFromPVCStorageClass n) := by
  unfold VSHandler.GetVolumeSnapshotClassFromPVCStorageClass
  apply Total.total_bind_of (getStorageClass_total _ _)
  rintro w ⟨sc, err⟩ w1 h
  cases err with
  | some e => exact ⟨_, _, rfl⟩
  | none =>
    obtain ⟨s, hs⟩ := getStorageClass_result v _ w w1 sc h
    subst hs
    exact (getVolumeSnapshotClassFromPVCStorageClass_total v s).run w1

theorem createOrUpdateRD_total (v : VSHandler) (rdSpec : VolSyncReplicationDestinationSpec)
    (psk : String) (dst : Option String) : Total (v.createOrUpdateRD rdSpec psk dst) := by
  unfold VSHandler.createOrUpdateRD
  repeat' first
    | apply Total.total_pure
    | exact GetVolumeSnapshotClassFromPVCStorageClass_total _ _
    | exact CreateOrUpdate_total _ _ _
    | apply Total.total_bind
    | intro _
    | split
    | dsimp only

theorem createOrUpdateRD_result (v : VSHandler) (rdSpec : VolSyncReplicationDestinationSpec)
    (psk : String) (dst : Option String) (w w1 : World) (rd : Option ReplicationDestination)
    (h : v.createOrUpdateRD rdSpec psk dst w = some ((rd, none), w1)) : ∃ x, rd = some x := by
  unfold VSHandler.createOrUpdateRD at h
  rw [M.bind_eq_some] at h
  obtain ⟨⟨vsc, err⟩, wa, -, h⟩ := h
  cases err with
  | some e => simp at h
  | none =>
    dsimp only at h
    rw [M.bind_eq_some] at h
    obtain ⟨⟨op, rd1, cerr⟩, wb, -, h⟩ := h
    cases cerr with
    | some e => simp at h
    | none =>
      simp only [M.pure_run, Option.some.injEq, Prod.mk.injEq] at h
      exact ⟨rd1, h.1.1.symm⟩

/-- In the snapshot copy method `ReconcileRD` returns on every cluster. -/
theorem ReconcileRD_snapshot_total (v : VSHandler) (hd : v.IsCopyMethodDirect = false)
    (rdSpec : VolSyncReplicationDestinationSpec) : Total (v.ReconcileRD rdSpec) := by
  unfold VSHandler.ReconcileRD
  rw [PrecreateDestPVCIfEnabled_snapshot v hd]
  split
  · exact Total.total_pure _
  · refine Total.total_bind (ValidateSecretAndAddVRGOwnerRef_total _ _) (fun a => ?_)
    dsimp only
    split
    · exact Total.total_pure _
    · refine Total.total_bind ?_ (fun err1 => ?_)
      · split
        · exact CopySecretToPVCNamespace_total _ _ _
        · exact Total.total_pure _
      · split
        · exact Total.total_pure _
        · refine Total.total_bind (DeleteRS_total _ _ _) (fun err2 => ?_)
          split
          · exact Total.total_pure _
          · refine Total.total_bind (Total.total_pure _) (fun pre => ?_)
            split
            · exact Total.total_pure _
            · refine Total.total_bind_of (createOrUpdateRD_total _ _ _ _) ?_
              rintro w ⟨rd, err3⟩ w1 h
              cases err3 with
              | some e => exact ⟨_, _, rfl⟩
              | none =>
                obtain ⟨x, hx⟩ := createOrUpdateRD_result v _ _ _ w w1 rd h
                subst hx
                have ht : Total (do
                    let rd ← deref (some x)
                    match ← v.ReconcileServiceExportForRD rd with
                    | some e => pure (none, some e)
                    | none =>
                      if !RDStatusReady rd then pure (none, none)
                      else
                        match ← v.pruneOldSnapshots rd.ObjectMeta.Namespace with
                        | some e => pure (none, some e)
                        | none => pure (some rd, none) :
                      M (Option ReplicationDestination × Option Err)) := by
                  repeat' first
                    | apply Total.total_pure
                    | apply Total.total_deref_some
                    | exact ReconcileServiceExportForRD_total _ _
                    | exact pruneOldSnapshots_total _ _
                    | apply Total.total_bind
                    | intro _
                    | split
                    | dsimp only
                exact ht.run w1

theorem ReconcileRD_noFaults (v : VSHandler) (rdSpec : VolSyncReplicationDestinationSpec)
    (w w1 : World) (r : Option ReplicationDestination × Option Err) (hnf : NoFaults w)
    (h : v.ReconcileRD rdSpec w = some (r, w1)) : NoFaults w1 := by
  have hm : Modifies
      { secrets := true, rss := true, rds := true, volumeSnapshotClassList := true,
        serviceExports := true, snapshots := true, pvcs := true, workloadStatus := true }
      (v.ReconcileRD rdSpec) := by
    unfold VSHandler.ReconcileRD
    repeat' first
      | apply Modifies.frame_pure
      | apply Modifies.frame_deref
      | (simp [*]; done)
      | apply Modifies.frame_bind
      | intro _
      | split
      | dsimp only
  exact (hm.run _ _ _ h).noFaults hnf

theorem ReconcileRS_noFaults (v : VSHandler) (rsSpec : VolSyncReplicationSourceSpec)
    (b : Bool) (w w1 : World) (r : Bool × Option ReplicationSource × Option Err)
    (hnf : NoFaults w) (h : v.ReconcileRS rsSpec b w = some (r, w1)) : NoFaults w1 := by
  have hm : Modifies
      { secrets := true, rss := true, rds := true, volumeSnapshotClassList := true,
        snapshots := true, pvcs := true, pvs := true, workloadStatus := true }
      (v.ReconcileRS rsSpec b) := by
    unfold VSHandler.ReconcileRS
    repeat' first
      | apply Modifies.frame_pure
      | apply Modifies.frame_deref
      | (simp [*]; done)
      | apply Modifies.frame_bind
      | intro _
      | split
      | dsimp only
  exact (hm.run _ _ _ h).noFaults hnf

theorem storeGet_atKey {α : Type} (K : Kind α) (l : List α) (ns name : String) :
    storeGet K.meta (atKey K l ns name) ns name = storeGet K.meta l ns name := by
  unfold storeGet atKey
  induction l with
  | nil => rfl
  | cons x xs ih =>
    by_cases hk : hasKey (K.meta x) ns name = true
    · simp only [List.filter_cons, hk, if_true, List.find?_cons]
    · simp only [List.filter_cons, hk, Bool.false_eq_true, if_false, List.find?_cons]
      exact ih

theorem KeySettled_atKey {α : Type} (K : Kind α) (l : List α) (ns name : String) :
    KeySettled K (atKey K l ns name) ns name ↔ KeySettled K l ns name := by
  unfold KeySettled atKey
  constructor
  · intro h y hy hk
    exact h y (List.mem_filter.mpr ⟨hy, hk⟩) hk
  · intro h y hy hk
    exact h y (List.mem_filter.mp hy).1 hk

/-- What is stored under a key was found by the lookup, when keys are unique. -/
theorem storeGet_unique {α : Type} {K : Kind α} {l : List α} (hu : KeysUnique K l)
    {ns name : String} {y0 y : α} (hg : storeGet K.meta l ns name = some y0) (hy : y ∈ l)
    (hk : hasKey (K.meta y) ns name = true) : y = y0 := by
  have h0 := (hasKey_iff _ _ _).mp (storeGet_hasKey hg)
  have h1 := (hasKey_iff _ _ _).mp hk
  exact hu y hy y0 (storeGet_mem hg) (h1.1.trans h0.1.symm) (h1.2.trans h0.2.symm)

/-- What a delete leaves is a stored object under another key, or a stored object
under the deleted key that has a finalizer, with the deletion mark set. -/
theorem storeDelete_origin {α : Type} {K : Kind α} {l : List α}
    {ns name : String} {now : Nat} {y : α} (hy : y ∈ storeDelete K l ns name now) :
    (y ∈ l ∧ hasKey (K.meta y) ns name = false) ∨
    ∃ x ∈ l, hasKey (K.meta x) ns name = true ∧ (K.meta x).Finalizers ≠ [] ∧
      y = K.setMeta x (markDeleted (K.meta x) now) := by
  unfold storeDelete at hy
  rw [List.mem_filterMap] at hy
  obtain ⟨x, hxl, hx⟩ := hy
  split at hx
  · rename_i hk
    split at hx
    · simp at hx
    · rename_i hfin
      simp only [Option.some.injEq] at hx
      exact Or.inr ⟨x, hxl, hk, hfin, hx.symm⟩
  · rename_i hk
    simp only [Option.some.injEq] at hx
    left
    rw [← hx]
    exact ⟨hxl, by simpa using hk⟩

theorem KeysUnique.unique_storeDelete {α : Type} {K : Kind α} (hK : K.Lawful) {l : List α}
    (hu : KeysUnique K l) (ns name : String) (now : Nat) :
    KeysUnique K (storeDelete K l ns name now) := by
  have hK1 : ∀ o m, K.meta (K.setMeta o m) = m := hK
  have hkey : ∀ y x : α, hasKey (K.meta x) ns name = true →
      y = K.setMeta x (markDeleted (K.meta x) now) → hasKey (K.meta y) ns name = true := by
    intro y x hk he
    rw [he, hK1]
    unfold hasKey at hk ⊢
    rw [markDeleted_namespace, markDeleted_name]
    exact hk
  have hsame : ∀ a b : α, (K.meta a).Namespace = (K.meta b).Namespace →
      (K.meta a).Name = (K.meta b).Name → hasKey (K.meta b) ns name = true →
      hasKey (K.meta a) ns name = true := by
    intro a b h1 h2 hk
    unfold hasKey at hk ⊢
    rw [h1, h2]
    exact hk
  intro a ha b hb hns hname
  rcases storeDelete_origin ha with ⟨ha1, hak⟩ | ⟨a0, ha0, hak, _, hae⟩
  · rcases storeDelete_origin hb with ⟨hb1, _⟩ | ⟨b0, hb0, hbk, _, hbe⟩
    · exact hu a ha1 b hb1 hns hname
    · have := hsame a b hns hname (hkey b b0 hbk hbe)
      rw [hak] at this
      cases this
  · rcases storeDelete_origin hb with ⟨hb1, hbk⟩ | ⟨b0, hb0, hbk, _, hbe⟩
    · have := hsame b a hns.symm hname.symm (hkey a a0 hak hae)
      rw [hbk] at this
      cases this
    · have h0 : a0 = b0 := by
        obtain ⟨x1, x2⟩ := (hasKey_iff _ _ _).mp hak
        obtain ⟨y1, y2⟩ := (hasKey_iff _ _ _).mp hbk
        exact hu a0 ha0 b0 hb0 (x1.trans y1.symm) (x2.trans y2.symm)
      rw [hae, hbe, h0]

/-- Without a failure, a delete of an object whose key is settled changes no object,
whether the object is still stored or not. -/
theorem clientDelete_quiet {α : Type} {K : Kind α} (hK2 : ∀ o, K.setMeta o (K.meta o) = o)
    (hself : ∀ (w : World) (c : Call), K.put (w.logged c) (K.objs w) = w.logged c)
    {w : World} (x : α) (hf : w.faults w.calls = false)
    (hs : KeySettled K (K.objs w) (K.meta x).Namespace (K.meta x).Name) :
    ∃ r, clientDelete K x w = some (r,
      w.logged ⟨.delete, K.tag, (K.meta x).Namespace, (K.meta x).Name⟩) := by
  cases hg : storeGet K.meta (K.objs w) (K.meta x).Namespace (K.meta x).Name with
  | none => exact ⟨_, clientDelete_run_missing hf hg⟩
  | some o =>
    refine ⟨none, ?_⟩
    rw [clientDelete_run_found hf hg, storeDelete_of_settled hK2 hs, hself]

/-- A delete of the object a lookup under the key has just found. -/
theorem clientDelete_after_get {α : Type} {K : Kind α}
    (htick : ∀ w : World, K.objs w.tick = K.objs w) {w : World} {ns name : String} {o : α}
    (hf : NoFaults w) (hg : storeGet K.meta (K.objs w) ns name = some o) :
    clientDelete K o w.tick = some (none,
      K.put (w.tick.logged ⟨.delete, K.tag, ns, name⟩)
        (storeDelete K (K.objs w) ns name (w.tick.calls + 1))) := by
  obtain ⟨h1, h2⟩ := (hasKey_iff _ _ _).mp (storeGet_hasKey hg)
  have hg2 : storeGet K.meta (K.objs w.tick) (K.meta o).Namespace (K.meta o).Name = some o := by
    rw [htick, h1, h2]
    exact hg
  rw [clientDelete_run_found (w := w.tick) (hf _) hg2, htick, h1, h2]

/-- Without client failures `DeletePVC` returns nil and leaves the key settled; it
changes the claims only. -/
theorem DeletePVC_settles (name ns : String) (w w1 : World) (r : Option Err) (hnf : NoFaults w)
    (h : util.DeletePVC name ns w = some (r, w1)) :
    r = none ∧ KeySettled pvcKind w1.pvcs ns name := by
  unfold util.DeletePVC at h
  cases hg : storeGet pvcKind.meta (pvcKind.objs w) ns name with
  | none =>
    simp only [M.bind_run, clientGet_run_missing (hnf _) hg, Err.IsNotFound, if_true, M.pure_run,
      Option.some.injEq, Prod.mk.injEq] at h
    obtain ⟨hr, hw⟩ := h
    subst hr hw
    exact ⟨rfl, KeySettled_of_none hg⟩
  | some pvc =>
    simp only [M.bind_run, clientGet_run_found (hnf _) hg,
      clientDelete_after_get (K := pvcKind) (fun _ => rfl) hnf hg, M.pure_run,
      Option.some.injEq, Prod.mk.injEq] at h
    obtain ⟨hr, hw⟩ := h
    subst hr hw
    exact ⟨rfl, storeDelete_settles pvcKind_lawful _ _ _ (Nat.succ_ne_zero _)⟩

/-- On a settled key `DeletePVC` returns nil and changes nothing. -/
theorem DeletePVC_quiet (name ns : String) (w : World) (hnf : NoFaults w)
    (hs : KeySettled pvcKind w.pvcs ns name) :
    ∃ w1, util.DeletePVC name ns w = some (none, w1) ∧ Quiet w w1 := by
  unfold util.DeletePVC
  cases hg : storeGet pvcKind.meta (pvcKind.objs w) ns name with
  | none =>
    refine ⟨w.tick, ?_, Quiet.quiet_tick w⟩
    simp only [M.bind_run, clientGet_run_missing (hnf _) hg, Err.IsNotFound, if_true, M.pure_run]
  | some pvc =>
    refine ⟨w.tick.logged ⟨.delete, pvcKind.tag, ns, name⟩, ?_,
      (Quiet.quiet_tick w).quiet_trans (Quiet.quiet_delete _ _ rfl)⟩
    have hd := clientDelete_after_get (K := pvcKind) (fun _ => rfl) hnf hg
    have hs1 : KeySettled pvcKind (pvcKind.objs w) ns name := hs
    rw [storeDelete_of_settled (K := pvcKind) (fun _ => rfl) hs1] at hd
    simp only [M.bind_run, clientGet_run_found (hnf _) hg, hd, M.pure_run]
    rfl

/-- Without client failures `DeleteLocalRD` returns nil and leaves the key settled. -/
theorem DeleteLocalRD_settles (v : VSHandler) (name ns : String) (w w1 : World) (r : Option Err)
    (hnf : NoFaults w) (h : v.DeleteLocalRD name ns w = some (r, w1)) :
    r = none ∧ KeySettled rdKind w1.rds ns name ∧
    (w1.rds = w.rds ∨ ∃ now, w1.rds = storeDelete rdKind w.rds ns name now) := by
  unfold VSHandler.DeleteLocalRD at h
  cases hg : storeGet rdKind.meta (rdKind.objs w) ns name with
  | none =>
    simp only [M.bind_run, clientGet_run_missing (hnf _) hg, Err.IsNotFound, if_true, M.pure_run,
      Option.some.injEq, Prod.mk.injEq] at h
    obtain ⟨hr, hw⟩ := h
    subst hr hw
    exact ⟨rfl, KeySettled_of_none hg, Or.inl rfl⟩
  | some lrd =>
    simp only [M.bind_run, clientGet_run_found (hnf _) hg,
      clientDelete_after_get (K := rdKind) (fun _ => rfl) hnf hg,
      Option.some.injEq, Prod.mk.injEq] at h
    obtain ⟨hr, hw⟩ := h
    subst hr hw
    exact ⟨rfl, storeDelete_settles rdKind_lawful _ _ _ (Nat.succ_ne_zero _), Or.inr ⟨_, rfl⟩⟩

/-- On a settled key `DeleteLocalRD` returns nil and changes nothing. -/
theorem DeleteLocalRD_quiet (v : VSHandler) (name ns : String) (w : World) (hnf : NoFaults w)
    (hs : KeySettled rdKind w.rds ns name) :
    ∃ w1, v.DeleteLocalRD name ns w = some (none, w1) ∧ Quiet w w1 := by
  unfold VSHandler.DeleteLocalRD
  cases hg : storeGet rdKind.meta (rdKind.objs w) ns name with
  | none =>
    refine ⟨w.tick, ?_, Quiet.quiet_tick w⟩
    simp only [M.bind_run, clientGet_run_missing (hnf _) hg, Err.IsNotFound, if_true, M.pure_run]
  | some lrd =>
    refine ⟨w.tick.logged ⟨.delete, rdKind.tag, ns, name⟩, ?_,
      (Quiet.quiet_tick w).quiet_trans (Quiet.quiet_delete _ _ rfl)⟩
    have hd := clientDelete_after_get (K := rdKind) (fun _ => rfl) hnf hg
    have hs1 : KeySettled rdKind (rdKind.objs w) ns name := hs
    rw [storeDelete_of_settled (K := rdKind) (fun _ => rfl) hs1] at hd
    simp only [M.bind_run, clientGet_run_found (hnf _) hg, hd]
    rfl

/-- Without client failures `deleteSnapshot` returns nil and leaves the snapshot settled. -/
theorem deleteSnapshot_settles (v : VSHandler) (name ns : String) (w w1 : World) (r : Option Err)
    (hnf : NoFaults w) (h : v.deleteSnapshot name ns w = some (r, w1)) :
    r = none ∧ SnapshotSettled w1.snapshots ns name := by
  unfold VSHandler.deleteSnapshot at h
  cases hg : storeGet snapshotKind.meta (snapshotKind.objs w) ns name with
  | none =>
    simp only [M.bind_run, clientGet_run_missing (hnf _) hg, IgnoreNotFound, Err.IsNotFound,
      if_true, M.pure_run, Option.some.injEq, Prod.mk.injEq] at h
    obtain ⟨hr, hw⟩ := h
    subst hw
    refine ⟨hr.symm, ?_⟩
    intro s hs
    rw [show storeGet snapshotKind.meta w.tick.snapshots ns name = none from hg] at hs
    cases hs
  | some s0 =>
    simp only [M.bind_run, clientGet_run_found (hnf _) hg] at h
    by_cases hl : util.HasLabelWithValue s0.ObjectMeta VolSyncDoNotDeleteLabel
        VolSyncDoNotDeleteLabelVal = true
    · simp only [hl, if_true, M.pure_run, Option.some.injEq, Prod.mk.injEq] at h
      obtain ⟨hr, hw⟩ := h
      subst hr hw
      refine ⟨rfl, ?_⟩
      intro s hs
      rw [show storeGet snapshotKind.meta w.tick.snapshots ns name = some s0 from hg] at hs
      cases hs
      exact Or.inl hl
    · simp only [hl, Bool.false_eq_true, if_false, M.bind_run,
        clientDelete_after_get (K := snapshotKind) (fun _ => rfl) hnf hg, M.pure_run,
        Option.some.injEq, Prod.mk.injEq] at h
      obtain ⟨hr, hw⟩ := h
      subst hr hw
      exact ⟨rfl, fun s _ =>
        Or.inr (storeDelete_settles snapshotKind_lawful _ _ _ (Nat.succ_ne_zero _))⟩

/-- On a settled snapshot `deleteSnapshot` returns nil and changes nothing. -/
theorem deleteSnapshot_quiet (v : VSHandler) (name ns : String) (w : World) (hnf : NoFaults w)
    (hs : SnapshotSettled w.snapshots ns name) :
    ∃ w1, v.deleteSnapshot name ns w = some (none, w1) ∧ Quiet w w1 := by
  unfold VSHandler.deleteSnapshot
  cases hg : storeGet snapshotKind.meta (snapshotKind.objs w) ns name with
  | none =>
    refine ⟨w.tick, ?_, Quiet.quiet_tick w⟩
    simp only [M.bind_run, clientGet_run_missing (hnf _) hg, IgnoreNotFound, Err.IsNotFound,
      if_true, M.pure_run]
  | some s0 =>
    by_cases hl : util.HasLabelWithValue s0.ObjectMeta VolSyncDoNotDeleteLabel
        VolSyncDoNotDeleteLabelVal = true
    · refine ⟨w.tick, ?_, Quiet.quiet_tick w⟩
      simp only [M.bind_run, clientGet_run_found (hnf _) hg, hl, if_true, M.pure_run]
    · have hset : KeySettled snapshotKind w.snapshots ns name := by
        rcases hs s0 hg with h1 | h1
        · exact absurd h1 hl
        · exact h1
      refine ⟨w.tick.logged ⟨.delete, snapshotKind.tag, ns, name⟩, ?_,
        (Quiet.quiet_tick w).quiet_trans (Quiet.quiet_delete _ _ rfl)⟩
      have hd := clientDelete_after_get (K := snapshotKind) (fun _ => rfl) hnf hg
      have hs1 : KeySettled snapshotKind (snapshotKind.objs w) ns name := hset
      rw [storeDelete_of_settled (K := snapshotKind) (fun _ => rfl) hs1] at hd
      simp only [M.bind_run, clientGet_run_found (hnf _) hg, hl, Bool.false_eq_true, if_false, hd,
        M.pure_run]
      rfl

/-- Without client failures `CleanupLocalResources` on a stored local source returns
nil and leaves everything it deletes settled. -/
theorem CleanupLocalResources_settles (v : VSHandler) (lrs : ReplicationSource)
    (tr : ReplicationSourceTriggerSpec) (w w1 : World) (r : Option Err) (hnf : NoFaults w)
    (hmem : lrs ∈ w.rss) (htr : lrs.Spec.Trigger = some tr)
    (h : v.CleanupLocalResources lrs w = some (r, w1)) :
    r = none ∧ NoFaults w1 ∧
    (∃ now, w1.rss = storeDelete rsKind w.rss lrs.ObjectMeta.Namespace lrs.ObjectMeta.Name now) ∧
    (w1.rds = w.rds ∨ ∃ now, w1.rds =
      storeDelete rdKind w.rds lrs.ObjectMeta.Namespace lrs.ObjectMeta.Name now) ∧
    KeySettled rsKind w1.rss lrs.ObjectMeta.Namespace lrs.ObjectMeta.Name ∧
    KeySettled pvcKind w1.pvcs lrs.ObjectMeta.Namespace lrs.Spec.SourcePVC ∧
    KeySettled rdKind w1.rds lrs.ObjectMeta.Namespace lrs.ObjectMeta.Name ∧
    SnapshotSettled w1.snapshots lrs.ObjectMeta.Namespace tr.Manual := by
  unfold VSHandler.CleanupLocalResources at h
  rw [htr] at h
  simp only [M.bind_run, deref_some] at h
  cases hA : v.deleteSnapshot tr.Manual lrs.ObjectMeta.Namespace w with
  | none => rw [hA] at h; simp at h
  | some resA =>
    obtain ⟨e1, wA⟩ := resA
    rw [hA] at h
    obtain ⟨he1, hsnap⟩ := deleteSnapshot_settles v _ _ w wA e1 hnf hA
    subst he1
    have hagA : Agree { snapshots := true } w wA :=
      (deleteSnapshot_mods (S := { snapshots := true }) v _ _ rfl).run _ _ _ hA
    have hnfA : NoFaults wA := hagA.noFaults hnf
    simp only [M.bind_run] at h
    cases hB : util.DeletePVC lrs.Spec.SourcePVC lrs.ObjectMeta.Namespace wA with
    | none => rw [hB] at h; simp at h
    | some resB =>
      obtain ⟨e2, wB⟩ := resB
      rw [hB] at h
      obtain ⟨he2, hpvc⟩ := DeletePVC_settles _ _ wA wB e2 hnfA hB
      subst he2
      have hagB : Agree { pvcs := true } wA wB :=
        (DeletePVC_mods (S := { pvcs := true }) _ _ rfl).run _ _ _ hB
      have hnfB : NoFaults wB := hagB.noFaults hnfA
      simp only [M.bind_run] at h
      have hrssB : wB.rss = w.rss := (hagB.rss rfl).trans (hagA.rss rfl)
      have hmemB : lrs ∈ rsKind.objs wB := by
        show lrs ∈ wB.rss
        rw [hrssB]
        exact hmem
      obtain ⟨o0, ho0⟩ := storeGet_of_mem rsKind.meta hmemB
      rw [clientDelete_run_found (hnfB _) ho0] at h
      dsimp only at h
      cases hD : v.DeleteLocalRD lrs.ObjectMeta.Name lrs.ObjectMeta.Namespace
          (rsKind.put (wB.logged ⟨.delete, rsKind.tag, (rsKind.meta lrs).Namespace,
            (rsKind.meta lrs).Name⟩)
            (storeDelete rsKind (rsKind.objs wB) (rsKind.meta lrs).Namespace
              (rsKind.meta lrs).Name (wB.calls + 1))) with
      | none => rw [hD] at h; simp at h
      | some resD =>
        obtain ⟨e4, wD⟩ := resD
        rw [hD] at h
        simp only [Option.some.injEq, Prod.mk.injEq] at h
        obtain ⟨hr, hw⟩ := h
        subst hr hw
        have hnfC : NoFaults (rsKind.put (wB.logged ⟨.delete, rsKind.tag,
            (rsKind.meta lrs).Namespace, (rsKind.meta lrs).Name⟩)
            (storeDelete rsKind (rsKind.objs wB) (rsKind.meta lrs).Namespace
              (rsKind.meta lrs).Name (wB.calls + 1))) := fun n => hnfB n
        obtain ⟨he4, hrd, hshape⟩ := DeleteLocalRD_settles v _ _ _ wD e4 hnfC hD
        have hagD : Agree { rds := true } _ wD :=
          (DeleteLocalRD_mods (S := { rds := true }) v _ _ rfl).run _ _ _ hD
        have hrssD : wD.rss = storeDelete rsKind w.rss lrs.ObjectMeta.Namespace
            lrs.ObjectMeta.Name (wB.calls + 1) := by
          rw [hagD.rss rfl]
          show storeDelete rsKind wB.rss _ _ _ = _
          rw [hrssB]
          rfl
        have hrdsC : wB.rds = w.rds := (hagB.rds rfl).trans (hagA.rds rfl)
        refine ⟨he4, hagD.noFaults hnfC, ⟨_, hrssD⟩, ?_, ?_, ?_, hrd, ?_⟩
        · rcases hshape with hs | ⟨now, hs⟩
          · left
            rw [hs]
            exact hrdsC
          · right
            refine ⟨now, ?_⟩
            rw [hs]
            show storeDelete rdKind wB.rds _ _ _ = _
            rw [hrdsC]
        · rw [hrssD]
          exact storeDelete_settles rsKind_lawful _ _ _ (Nat.succ_ne_zero _)
        · rw [hagD.pvcs rfl]
          exact hpvc
        · rw [hagD.snapshots rfl]
          show SnapshotSettled wB.snapshots _ _
          rw [hagB.snapshots rfl]
          exact hsnap

/-- On a stored local source with everything settled, `CleanupLocalResources` returns
nil and changes nothing. -/
theorem CleanupLocalResources_quiet (v : VSHandler) (lrs : ReplicationSource)
    (tr : ReplicationSourceTriggerSpec) (w : World) (hnf : NoFaults w)
    (hmem : lrs ∈ w.rss) (htr : lrs.Spec.Trigger = some tr) (hs : CleanupSettled w lrs) :
    ∃ w1, v.CleanupLocalResources lrs w = some (none, w1) ∧ Quiet w w1 := by
  obtain ⟨hrs, hpvc, hrd, hsnap⟩ := hs
  obtain ⟨wA, hA, hqA⟩ := deleteSnapshot_quiet v tr.Manual lrs.ObjectMeta.Namespace w hnf
    (hsnap tr htr)
  have hnfA := hqA.quiet_noFaults hnf
  obtain ⟨wB, hB, hqB⟩ := DeletePVC_quiet lrs.Spec.SourcePVC lrs.ObjectMeta.Namespace wA hnfA
    (by rw [hqA.1.pvcs rfl]; exact hpvc)
  have hnfB := hqB.quiet_noFaults hnfA
  have hrssB : wB.rss = w.rss := (hqB.1.rss rfl).trans (hqA.1.rss rfl)
  have hrdsB : wB.rds = w.rds := (hqB.1.rds rfl).trans (hqA.1.rds rfl)
  have hC := clientDelete_settled (K := rsKind) (w := wB) (x := lrs) (fun _ => rfl)
    (fun _ _ => rfl) (hnfB _) (by show lrs ∈ wB.rss; rw [hrssB]; exact hmem)
    (by show KeySettled rsKind wB.rss _ _; rw [hrssB]; exact hrs)
  have hqC : Quiet wB (wB.logged ⟨.delete, rsKind.tag, lrs.ObjectMeta.Namespace,
      lrs.ObjectMeta.Name⟩) := Quiet.quiet_delete _ _ rfl
  obtain ⟨wD, hD, hqD⟩ := DeleteLocalRD_quiet v lrs.ObjectMeta.Name lrs.ObjectMeta.Namespace
    (wB.logged ⟨.delete, rsKind.tag, lrs.ObjectMeta.Namespace, lrs.ObjectMeta.Name⟩)
    (hqC.quiet_noFaults hnfB) (by show KeySettled rdKind wB.rds _ _; rw [hrdsB]; exact hrd)
  refine ⟨wD, ?_, ((hqA.quiet_trans hqB).quiet_trans hqC).quiet_trans hqD⟩
  unfold VSHandler.CleanupLocalResources
  rw [htr]
  simp only [M.bind_run, deref_some, hA, hB]
  rw [show clientDelete rsKind lrs wB = _ from hC]
  exact hD

theorem getRDLatestImage_at (v : VSHandler) (name ns : String) (w : World) (hnf : NoFaults w) :
    v.getRDLatestImage name ns w = some ((latestImageAt w.rds ns name, none), w.tick) := by
  rw [getRDLatestImage_run, hnf]
  simp only [Bool.false_eq_true, if_false, latestImageAt]
  cases storeGet rdKind.meta w.rds ns name with
  | none => rfl
  | some rd =>
    dsimp only
    cases rd.Status <;> rfl

theorem deleteLocalRDAndRS_no_image (v : VSHandler) (x : ReplicationDestination) (w : World)
    (hnf : NoFaults w)
    (hi : latestImageAt w.rds x.ObjectMeta.Namespace x.ObjectMeta.Name = none) :
    v.deleteLocalRDAndRS x w = some (none, w.tick) := by
  unfold VSHandler.deleteLocalRDAndRS
  simp only [M.bind_run, getRDLatestImage_at v _ _ w hnf, hi]
  rfl

theorem deleteLocalRDAndRS_no_source (v : VSHandler) (x : ReplicationDestination) (w : World)
    (hnf : NoFaults w) (img : TypedLocalObjectReference)
    (hi : latestImageAt w.rds x.ObjectMeta.Namespace x.ObjectMeta.Name = some img)
    (hs : storeGet rsKind.meta w.rss x.ObjectMeta.Namespace
      (getLocalReplicationName x.ObjectMeta.Name) = none) :
    v.deleteLocalRDAndRS x w =
      v.DeleteLocalRD (getLocalReplicationName x.ObjectMeta.Name) x.ObjectMeta.Namespace
        w.tick.tick := by
  unfold VSHandler.deleteLocalRDAndRS
  simp only [M.bind_run, getRDLatestImage_at v _ _ w hnf, hi]
  have hs1 : storeGet rsKind.meta (rsKind.objs w.tick) x.ObjectMeta.Namespace
      (getLocalReplicationName x.ObjectMeta.Name) = none := hs
  rw [clientGet_run_missing (w := w.tick) (hnf _) hs1]
  simp only [Err.IsNotFound, if_true]

theorem deleteLocalRDAndRS_waiting (v : VSHandler) (x : ReplicationDestination) (w : World)
    (hnf : NoFaults w) (img : TypedLocalObjectReference) (lrs : ReplicationSource)
    (hi : latestImageAt w.rds x.ObjectMeta.Namespace x.ObjectMeta.Name = some img)
    (hs : storeGet rsKind.meta w.rss x.ObjectMeta.Namespace
      (getLocalReplicationName x.ObjectMeta.Name) = some lrs)
    (hc : localComplete lrs img = false) :
    v.deleteLocalRDAndRS x w =
      some (some (.msg "waiting for local final sync to complete"), w.tick.tick) := by
  unfold VSHandler.deleteLocalRDAndRS
  simp only [M.bind_run, getRDLatestImage_at v _ _ w hnf, hi]
  have hs1 : storeGet rsKind.meta (rsKind.objs w.tick) x.ObjectMeta.Namespace
      (getLocalReplicationName x.ObjectMeta.Name) = some lrs := hs
  rw [clientGet_run_found (w := w.tick) (hnf _) hs1]
  dsimp only
  unfold localComplete at hc
  cases ht : lrs.Spec.Trigger with
  | none =>
    dsimp only
    rw [if_neg Bool.false_ne_true]
    rfl
  | some tr =>
    rw [ht] at hc
    dsimp only at hc
    cases hst : lrs.Status with
    | none =>
      dsimp only
      rw [if_neg (by simp)]
      rfl
    | some st =>
      rw [hst] at hc
      dsimp only at hc ⊢
      rw [if_neg (by rw [hc]; exact Bool.false_ne_true)]
      rfl

theorem deleteLocalRDAndRS_complete (v : VSHandler) (x : ReplicationDestination) (w : World)
    (hnf : NoFaults w) (img : TypedLocalObjectReference) (lrs : ReplicationSource)
    (hi : latestImageAt w.rds x.ObjectMeta.Namespace x.ObjectMeta.Name = some img)
    (hs : storeGet rsKind.meta w.rss x.ObjectMeta.Namespace
      (getLocalReplicationName x.ObjectMeta.Name) = some lrs)
    (hc : localComplete lrs img = true) :
    v.deleteLocalRDAndRS x w = v.CleanupLocalResources lrs w.tick.tick := by
  unfold VSHandler.deleteLocalRDAndRS
  simp only [M.bind_run, getRDLatestImage_at v _ _ w hnf, hi]
  have hs1 : storeGet rsKind.meta (rsKind.objs w.tick) x.ObjectMeta.Namespace
      (getLocalReplicationName x.ObjectMeta.Name) = some lrs := hs
  rw [clientGet_run_found (w := w.tick) (hnf _) hs1]
  dsimp only
  have hid : ∀ w0 : World, (v.CleanupLocalResources lrs >>= fun r =>
      match r with
      | some e => pure (some e)
      | none => pure none) w0 = v.CleanupLocalResources lrs w0 := by
    intro w0
    rw [M.bind_run]
    cases hcl : v.CleanupLocalResources lrs w0 with
    | none => rfl
    | some res =>
      obtain ⟨r, w1⟩ := res
      cases r <;> rfl
  unfold localComplete at hc
  cases ht : lrs.Spec.Trigger with
  | none => rw [ht] at hc; simp at hc
  | some tr =>
    rw [ht] at hc
    dsimp only at hc
    cases hst : lrs.Status with
    | none => rw [hst] at hc; simp at hc
    | some st =>
      rw [hst] at hc
      dsimp only at hc ⊢
      rw [if_pos hc]
      exact hid _

theorem localComplete_trigger {lrs : ReplicationSource} {img : TypedLocalObjectReference}
    (hc : localComplete lrs img = true) : ∃ tr, lrs.Spec.Trigger = some tr := by
  unfold localComplete at hc
  cases h : lrs.Spec.Trigger with
  | none => rw [h] at hc; simp at hc
  | some tr => exact ⟨tr, rfl⟩

theorem Quiet.sameLocal {w w1 : World} (h : Quiet w w1) (ns p : String) : SameLocal ns p w w1 := by
  have hag : Agree {} w w1 := h.1
  refine ⟨hag.rds rfl, hag.pvcs rfl, hag.snapshots rfl, ?_⟩
  rw [hag.rss rfl]

theorem SameLocal.source {ns p : String} {w w1 : World} (h : SameLocal ns p w w1) :
    storeGet rsKind.meta w1.rss ns (getLocalReplicationName p) =
      storeGet rsKind.meta w.rss ns (getLocalReplicationName p) := by
  rw [← storeGet_atKey rsKind w1.rss, h.2.2.2, storeGet_atKey]

theorem LocalSettled.settled_transfer {ns p : String} {w w1 : World} (h : LocalSettled w ns p)
    (hs : SameLocal ns p w w1) : LocalSettled w1 ns p := by
  intro img hi
  rw [hs.1] at hi
  obtain ⟨hk, hl⟩ := h img hi
  refine ⟨?_, ?_⟩
  · rw [hs.1]
    exact hk
  · intro lrs hg
    rw [hs.source] at hg
    obtain ⟨hc, h1, h2, h3, h4⟩ := hl lrs hg
    obtain ⟨hns, hname⟩ := (hasKey_iff _ _ _).mp (storeGet_hasKey hg)
    have hns1 : lrs.ObjectMeta.Namespace = ns := hns
    have hname1 : lrs.ObjectMeta.Name = getLocalReplicationName p := hname
    refine ⟨hc, ?_, ?_, ?_, ?_⟩
    · rw [hns1, hname1] at h1 ⊢
      rw [← KeySettled_atKey, hs.2.2.2, KeySettled_atKey]
      exact h1
    · rw [hs.2.1]
      exact h2
    · rw [hs.1]
      exact h3
    · rw [hs.2.2.1]
      exact h4

theorem LocalWaiting.waiting_transfer {ns p : String} {w w1 : World} (h : LocalWaiting w ns p)
    (hs : SameLocal ns p w w1) : LocalWaiting w1 ns p := by
  obtain ⟨img, lrs, h1, h2, h3⟩ := h
  refine ⟨img, lrs, ?_, ?_, h3⟩
  · rw [hs.1]
    exact h1
  · rw [hs.source]
    exact h2

/-- With the local resources settled, `deleteLocalRDAndRS` returns nil and changes no
object. -/
theorem deleteLocalRDAndRS_quiet (v : VSHandler) (x : ReplicationDestination) (w : World)
    (hnf : NoFaults w) (hs : LocalSettled w x.ObjectMeta.Namespace x.ObjectMeta.Name) :
    ∃ w1, v.deleteLocalRDAndRS x w = some (none, w1) ∧ Quiet w w1 := by
  have hq2 : Quiet w w.tick.tick := (Quiet.quiet_tick w).quiet_trans (Quiet.quiet_tick _)
  cases hi : latestImageAt w.rds x.ObjectMeta.Namespace x.ObjectMeta.Name with
  | none => exact ⟨_, deleteLocalRDAndRS_no_image v x w hnf hi, Quiet.quiet_tick w⟩
  | some img =>
    obtain ⟨hk, hl⟩ := hs img hi
    cases hg : storeGet rsKind.meta w.rss x.ObjectMeta.Namespace
        (getLocalReplicationName x.ObjectMeta.Name) with
    | none =>
      rw [deleteLocalRDAndRS_no_source v x w hnf img hi hg]
      obtain ⟨w1, h1, hq⟩ := DeleteLocalRD_quiet v (getLocalReplicationName x.ObjectMeta.Name)
        x.ObjectMeta.Namespace w.tick.tick (fun n => hnf n) hk
      exact ⟨w1, h1, hq2.quiet_trans hq⟩
    | some lrs =>
      obtain ⟨hc, hcs⟩ := hl lrs hg
      obtain ⟨tr, htr⟩ := localComplete_trigger hc
      rw [deleteLocalRDAndRS_complete v x w hnf img lrs hi hg hc]
      obtain ⟨w1, h1, hq⟩ := CleanupLocalResources_quiet v lrs tr w.tick.tick (fun n => hnf n)
        (storeGet_mem hg) htr hcs
      exact ⟨w1, h1, hq2.quiet_trans hq⟩

theorem latestImageAt_local (l : List ReplicationDestination) (ns p : String) (now : Nat) :
    latestImageAt (storeDelete rdKind l ns (getLocalReplicationName p) now) ns p =
      latestImageAt l ns p := by
  unfold latestImageAt
  rw [storeGet_storeDelete_other rdKind_lawful (fun h => localName_ne p h.2)]

theorem latestImageAt_deleted {l : List ReplicationDestination} (hu : KeysUnique rdKind l)
    {ns p : String} {now : Nat} {img : TypedLocalObjectReference}
    (h : latestImageAt (storeDelete rdKind l ns p now) ns p = some img) :
    latestImageAt l ns p = some img := by
  unfold latestImageAt at h ⊢
  cases hg : storeGet rdKind.meta (storeDelete rdKind l ns p now) ns p with
  | none => rw [hg] at h; cases h
  | some y =>
    rw [hg] at h
    dsimp only at h
    have hk := storeGet_hasKey hg
    rcases storeDelete_origin (storeGet_mem hg) with ⟨_, hk0⟩ | ⟨x0, hx0, hxk, _, hye⟩
    · rw [hk0] at hk
      cases hk
    · obtain ⟨o, ho⟩ := storeGet_of_mem rdKind.meta hx0
      obtain ⟨k1, k2⟩ := (hasKey_iff _ _ _).mp hxk
      rw [k1, k2] at ho
      have hxo := storeGet_unique hu ho hx0 hxk
      rw [ho, ← hxo]
      dsimp only
      rw [hye] at h
      exact h

/-- Without client failures `deleteLocalRDAndRS` either returns nil and leaves the local
resources of the claim settled, or finds the local final sync still running and
returns the waiting error with no object changed. -/
theorem deleteLocalRDAndRS_settles (v : VSHandler) (x : ReplicationDestination) (w w1 : World)
    (r : Option Err) (hnf : NoFaults w) (hu : KeysUnique rsKind w.rss)
    (h : v.deleteLocalRDAndRS x w = some (r, w1)) :
    NoFaults w1 ∧
    (w1.rds = w.rds ∨ ∃ now, w1.rds = storeDelete rdKind w.rds x.ObjectMeta.Namespace
      (getLocalReplicationName x.ObjectMeta.Name) now) ∧
    (w1.rss = w.rss ∨ ∃ now, w1.rss = storeDelete rsKind w.rss x.ObjectMeta.Namespace
      (getLocalReplicationName x.ObjectMeta.Name) now) ∧
    ((r = none ∧ LocalSettled w1 x.ObjectMeta.Namespace x.ObjectMeta.Name) ∨
     (r = some (.msg "waiting for local final sync to complete") ∧
      LocalWaiting w x.ObjectMeta.Namespace x.ObjectMeta.Name ∧ Quiet w w1)) := by
  have hq2 : Quiet w w.tick.tick := (Quiet.quiet_tick w).quiet_trans (Quiet.quiet_tick _)
  cases hi : latestImageAt w.rds x.ObjectMeta.Namespace x.ObjectMeta.Name with
  | none =>
    rw [deleteLocalRDAndRS_no_image v x w hnf hi] at h
    simp only [Option.some.injEq, Prod.mk.injEq] at h
    obtain ⟨hr, hw⟩ := h
    subst hr hw
    refine ⟨fun n => hnf n, Or.inl rfl, Or.inl rfl, Or.inl ⟨rfl, ?_⟩⟩
    intro img hi2
    have hi3 : latestImageAt w.rds x.ObjectMeta.Namespace x.ObjectMeta.Name = some img := hi2
    rw [hi] at hi3
    cases hi3
  | some img =>
    cases hg : storeGet rsKind.meta w.rss x.ObjectMeta.Namespace
        (getLocalReplicationName x.ObjectMeta.Name) with
    | none =>
      rw [deleteLocalRDAndRS_no_source v x w hnf img hi hg] at h
      obtain ⟨hr, hk, hshape⟩ := DeleteLocalRD_settles v _ _ w.tick.tick w1 r (fun n => hnf n) h
      have hag : Agree { rds := true } w.tick.tick w1 :=
        (DeleteLocalRD_mods (S := { rds := true }) v _ _ rfl).run _ _ _ h
      have hrss : w1.rss = w.rss := hag.rss rfl
      refine ⟨hag.noFaults (fun n => hnf n), hshape, Or.inl hrss, Or.inl ⟨hr, ?_⟩⟩
      intro img2 _
      refine ⟨hk, ?_⟩
      intro lrs hg2
      rw [hrss, hg] at hg2
      cases hg2
    | some lrs =>
      obtain ⟨hns, hname⟩ := (hasKey_iff _ _ _).mp (storeGet_hasKey hg)
      have hns1 : lrs.ObjectMeta.Namespace = x.ObjectMeta.Namespace := hns
      have hname1 : lrs.ObjectMeta.Name = getLocalReplicationName x.ObjectMeta.Name := hname
      cases hc : localComplete lrs img with
      | false =>
        rw [deleteLocalRDAndRS_waiting v x w hnf img lrs hi hg hc] at h
        simp only [Option.some.injEq, Prod.mk.injEq] at h
        obtain ⟨hr, hw⟩ := h
        subst hr hw
        exact ⟨fun n => hnf n, Or.inl rfl, Or.inl rfl, Or.inr ⟨rfl, ⟨img, lrs, hi, hg, hc⟩, hq2⟩⟩
      | true =>
        obtain ⟨tr, htr⟩ := localComplete_trigger hc
        rw [deleteLocalRDAndRS_complete v x w hnf img lrs hi hg hc] at h
        obtain ⟨hr, hnf1, ⟨now, hrss⟩, hrds, hk1, hk2, hk3, hk4⟩ :=
          CleanupLocalResources_settles v lrs tr w.tick.tick w1 r (fun n => hnf n)
            (storeGet_mem hg) htr h
        rw [hns1, hname1] at hrss hrds hk1 hk3
        rw [hns1] at hk2 hk4
        have hrss1 : w1.rss = storeDelete rsKind w.rss x.ObjectMeta.Namespace
            (getLocalReplicationName x.ObjectMeta.Name) now := hrss
        have hrds1 : w1.rds = w.rds ∨ ∃ now, w1.rds = storeDelete rdKind w.rds
            x.ObjectMeta.Namespace (getLocalReplicationName x.ObjectMeta.Name) now := hrds
        refine ⟨hnf1, hrds1, Or.inr ⟨now, hrss1⟩, Or.inl ⟨hr, ?_⟩⟩
        intro img2 hi2
        refine ⟨hk3, ?_⟩
        have himg : img2 = img := by
          rcases hrds1 with e | ⟨now1, e⟩
          · rw [e, hi] at hi2
            cases hi2
            rfl
          · rw [e, latestImageAt_local, hi] at hi2
            cases hi2
            rfl
        subst himg
        intro lrs2 hg2
        rw [hrss1] at hg2
        have hkey2 := storeGet_hasKey hg2
        rcases storeDelete_origin (storeGet_mem hg2) with
          ⟨_, hk0⟩ | ⟨x0, hx0, hxk, _, hye⟩
        · rw [hk0] at hkey2
          cases hkey2
        · have hx0e : x0 = lrs := storeGet_unique hu hg hx0 hxk
          subst hx0e
          subst hye
          refine ⟨hc, ?_, ?_, ?_, ?_⟩
          · show KeySettled rsKind w1.rss (markDeleted x0.ObjectMeta _).Namespace
              (markDeleted x0.ObjectMeta _).Name
            rw [markDeleted_namespace, markDeleted_name, hns1, hname1]
            exact hk1
          · show KeySettled pvcKind w1.pvcs (markDeleted x0.ObjectMeta _).Namespace
              x0.Spec.SourcePVC
            rw [markDeleted_namespace, hns1]
            exact hk2
          · show KeySettled rdKind w1.rds (markDeleted x0.ObjectMeta _).Namespace
              (markDeleted x0.ObjectMeta _).Name
            rw [markDeleted_namespace, markDeleted_name, hns1, hname1]
            exact hk3
          · intro tr2 htr2
            have htr3 : x0.Spec.Trigger = some tr2 := htr2
            rw [htr] at htr3
            cases htr3
            show SnapshotSettled w1.snapshots (markDeleted x0.ObjectMeta _).Namespace tr.Manual
            rw [markDeleted_namespace, hns1]
            exact hk4

/-- After the local resources are settled, deleting the destination itself keeps them
settled and settles the destination. -/
theorem clientDelete_rd_settles (x : ReplicationDestination) (w w2 : World) (r : Option Err)
    (hnf : NoFaults w) (hu : KeysUnique rdKind w.rds)
    (hs : LocalSettled w x.ObjectMeta.Namespace x.ObjectMeta.Name)
    (h : clientDelete rdKind x w = some (r, w2)) :
    NoFaults w2 ∧ LocalSettled w2 x.ObjectMeta.Namespace x.ObjectMeta.Name ∧
    KeySettled rdKind w2.rds x.ObjectMeta.Namespace x.ObjectMeta.Name ∧
    Agree { rds := true } w w2 ∧
    (w2.rds = w.rds ∨ ∃ now, w2.rds = storeDelete rdKind w.rds x.ObjectMeta.Namespace
      x.ObjectMeta.Name now) := by
  rcases clientDelete_cases (hnf _) h with ⟨_, hg, hw⟩ | ⟨_, hw⟩
  · subst hw
    refine ⟨fun n => hnf n, ?_, KeySettled_of_none hg, rfl, Or.inl rfl⟩
    exact hs.settled_transfer ((Quiet.quiet_delete w ⟨.delete, rdKind.tag, (rdKind.meta x).Namespace,
      (rdKind.meta x).Name⟩ rfl).sameLocal _ _)
  · subst hw
    refine ⟨fun n => hnf n, ?_, storeDelete_settles rdKind_lawful _ _ _ (Nat.succ_ne_zero _), rfl,
      Or.inr ⟨_, rfl⟩⟩
    intro img hi
    have hi1 : latestImageAt (storeDelete rdKind w.rds x.ObjectMeta.Namespace x.ObjectMeta.Name
        (w.calls + 1)) x.ObjectMeta.Namespace x.ObjectMeta.Name = some img := hi
    obtain ⟨hk, hl⟩ := hs img (latestImageAt_deleted hu hi1)
    refine ⟨storeDelete_keeps_settled rdKind_lawful hk, ?_⟩
    intro lrs hg
    obtain ⟨hc, h1, h2, h3, h4⟩ := hl lrs hg
    exact ⟨hc, h1, h2, storeDelete_keeps_settled rdKind_lawful h3, h4⟩

theorem DeleteRD_loop_skip (v : VSHandler) (p : String) (x : ReplicationDestination)
    (rest : List ReplicationDestination) (hne : x.ObjectMeta.Name ≠ p) :
    VSHandler.DeleteRD.loop v p (x :: rest) = VSHandler.DeleteRD.loop v p rest := by
  have hb : (x.ObjectMeta.Name == getReplicationDestinationName p) = false := by
    simp [getReplicationDestinationName, hne]
  rw [VSHandler.DeleteRD.loop]
  simp only [hb, Bool.false_eq_true, if_false]

theorem DeleteRD_loop_direct (v : VSHandler) (hd : v.IsCopyMethodDirect = true) (p : String)
    (x : ReplicationDestination) (rest : List ReplicationDestination)
    (he : x.ObjectMeta.Name = p) :
    VSHandler.DeleteRD.loop v p (x :: rest) =
      (v.deleteLocalRDAndRS x >>= fun err =>
        match err with
        | some e => pure (some e)
        | none => clientDelete rdKind x >>= fun _ => VSHandler.DeleteRD.loop v p rest) := by
  have hb : (x.ObjectMeta.Name == getReplicationDestinationName p) = true := by
    simp [getReplicationDestinationName, he]
  rw [VSHandler.DeleteRD.loop]
  simp only [hb, hd, if_true] <;> rfl

/-- A list without a destination named after the claim is passed over. -/
theorem DeleteRD_loop_none (v : VSHandler) (p : String) :
    ∀ (items : List ReplicationDestination) (w : World),
      (∀ x ∈ items, x.ObjectMeta.Name ≠ p) →
      VSHandler.DeleteRD.loop v p items w = some (none, w) := by
  intro items
  induction items with
  | nil => intro w _; rfl
  | cons x rest ih =>
    intro w h
    rw [DeleteRD_loop_skip v p x rest (h x (List.mem_cons_self _ _))]
    exact ih w (fun y hy => h y (List.mem_cons_of_mem _ hy))

/-- While the local final sync is running, the loop stops at the first destination
named after the claim with the waiting error. -/
theorem DeleteRD_loop_waiting (v : VSHandler) (hd : v.IsCopyMethodDirect = true) (ns p : String) :
    ∀ (items : List ReplicationDestination) (w : World), NoFaults w →
      (∃ x ∈ items, x.ObjectMeta.Name = p) →
      (∀ x ∈ items, x.ObjectMeta.Name = p → x.ObjectMeta.Namespace = ns) →
      LocalWaiting w ns p →
      VSHandler.DeleteRD.loop v p items w =
        some (some (.msg "waiting for local final sync to complete"), w.tick.tick) := by
  intro items
  induction items with
  | nil =>
    intro w _ hex
    obtain ⟨x, hx, _⟩ := hex
    cases hx
  | cons x rest ih =>
    intro w hnf hex hns hw
    by_cases he : x.ObjectMeta.Name = p
    · rw [DeleteRD_loop_direct v hd p x rest he, M.bind_run]
      obtain ⟨img, lrs, h1, h2, h3⟩ := hw
      have hxn := hns x (List.mem_cons_self _ _) he
      rw [deleteLocalRDAndRS_waiting v x w hnf img lrs (by rw [hxn, he]; exact h1)
        (by rw [hxn, he]; exact h2) h3]
      rfl
    · rw [DeleteRD_loop_skip v p x rest he]
      refine ih w hnf ?_ (fun y hy => hns y (List.mem_cons_of_mem _ hy)) hw
      obtain ⟨y, hy, hyn⟩ := hex
      rcases List.mem_cons.mp hy with e | hy1
      · rw [e] at hyn
        exact absurd hyn he
      · exact ⟨y, hy1, hyn⟩

/-- With the local resources and the destination of the claim settled, the loop returns
nil and changes no object. -/
theorem DeleteRD_loop_direct_quiet (v : VSHandler) (hd : v.IsCopyMethodDirect = true)
    (ns p : String) :
    ∀ (items : List ReplicationDestination) (w : World), NoFaults w →
      (∀ x ∈ items, x.ObjectMeta.Name = p → x.ObjectMeta.Namespace = ns) →
      LocalSettled w ns p → KeySettled rdKind w.rds ns p →
      ∃ w1, VSHandler.DeleteRD.loop v p items w = some (none, w1) ∧ Quiet w w1 := by
  intro items
  induction items with
  | nil => intro w _ _ _ _; exact ⟨w, rfl, Quiet.quiet_refl w⟩
  | cons x rest ih =>
    intro w hnf hns hs hk
    by_cases he : x.ObjectMeta.Name = p
    · have hxn := hns x (List.mem_cons_self _ _) he
      rw [DeleteRD_loop_direct v hd p x rest he, M.bind_run]
      obtain ⟨wa, ha, hqa⟩ := deleteLocalRDAndRS_quiet v x w hnf (by rw [hxn, he]; exact hs)
      rw [ha]
      dsimp only
      rw [M.bind_run]
      have hnfa := hqa.quiet_noFaults hnf
      have haga : Agree {} w wa := hqa.1
      obtain ⟨r, hb⟩ := clientDelete_quiet (K := rdKind) (w := wa) (fun _ => rfl) (fun _ _ => rfl) x
        (hnfa _) (by
          show KeySettled rdKind wa.rds x.ObjectMeta.Namespace x.ObjectMeta.Name
          rw [haga.rds rfl, hxn, he]
          exact hk)
      rw [hb]
      dsimp only
      have hqb : Quiet wa (wa.logged ⟨.delete, rdKind.tag, (rdKind.meta x).Namespace,
          (rdKind.meta x).Name⟩) := Quiet.quiet_delete _ _ rfl
      have hqab := hqa.quiet_trans hqb
      have hagb : Agree {} w _ := hqab.1
      obtain ⟨w1, h1, hq1⟩ := ih _ (hqab.quiet_noFaults hnf)
        (fun y hy => hns y (List.mem_cons_of_mem _ hy)) (hs.settled_transfer (hqab.sameLocal _ _))
        (by rw [hagb.rds rfl]; exact hk)
      exact ⟨w1, h1, hqab.quiet_trans hq1⟩
    · rw [DeleteRD_loop_skip v p x rest he]
      exact ih w hnf (fun y hy => hns y (List.mem_cons_of_mem _ hy)) hs hk

/-- Without client failures the loop of `DeleteRD` in Direct mode ends in one of three
ways: no destination is named after the claim and nothing happened; the local final
sync is still running and the waiting error is returned with no object changed; or
the local resources and the destination of the claim are settled. -/
theorem DeleteRD_loop_direct_settles (v : VSHandler) (hd : v.IsCopyMethodDirect = true)
    (ns p : String) :
    ∀ (items : List ReplicationDestination) (w w1 : World) (r : Option Err), NoFaults w →
      KeysUnique rdKind w.rds → KeysUnique rsKind w.rss →
      (∀ x ∈ items, x.ObjectMeta.Name = p → x.ObjectMeta.Namespace = ns) →
      VSHandler.DeleteRD.loop v p items w = some (r, w1) →
      NoFaults w1 ∧
      (w1.rss = w.rss ∨ ∃ now, w1.rss = storeDelete rsKind w.rss ns
        (getLocalReplicationName p) now) ∧
      ((r = none ∧ (∀ x ∈ items, x.ObjectMeta.Name ≠ p) ∧ w1 = w) ∨
       (r = some (.msg "waiting for local final sync to complete") ∧
        (∃ x ∈ items, x.ObjectMeta.Name = p) ∧ LocalWaiting w ns p ∧ Quiet w w1) ∨
       (r = none ∧ LocalSettled w1 ns p ∧ KeySettled rdKind w1.rds ns p)) := by
  intro items
  induction items with
  | nil =>
    intro w w1 r hnf _ _ _ h
    simp only [VSHandler.DeleteRD.loop, M.pure_run, Option.some.injEq, Prod.mk.injEq] at h
    obtain ⟨hr, hw⟩ := h
    subst hr hw
    exact ⟨hnf, Or.inl rfl, Or.inl ⟨rfl, fun x hx => (by cases hx), rfl⟩⟩
  | cons x rest ih =>
    intro w w1 r hnf hu1 hu2 hns h
    by_cases he : x.ObjectMeta.Name = p
    · have hxn := hns x (List.mem_cons_self _ _) he
      rw [DeleteRD_loop_direct v hd p x rest he, M.bind_eq_some] at h
      obtain ⟨err, wa, ha, h⟩ := h
      obtain ⟨hnfa, hrdsa, hrssa, hcase⟩ := deleteLocalRDAndRS_settles v x w wa err hnf hu2 ha
      rw [hxn, he] at hrdsa hrssa hcase
      rcases hcase with ⟨herr, hsa⟩ | ⟨herr, hwait, hq⟩
      · subst herr
        dsimp only at h
        rw [M.bind_eq_some] at h
        obtain ⟨e2, wb, hb, h⟩ := h
        have hu1a : KeysUnique rdKind wa.rds := by
          rcases hrdsa with e | ⟨now, e⟩
          · rw [e]
            exact hu1
          · rw [e]
            exact hu1.unique_storeDelete rdKind_lawful _ _ _
        obtain ⟨hnfb, hsb, hkb, hagb, _⟩ := clientDelete_rd_settles x wa wb e2 hnfa hu1a
          (by rw [hxn, he]; exact hsa) hb
        rw [hxn, he] at hsb hkb
        obtain ⟨w2, h2, hq2⟩ := DeleteRD_loop_direct_quiet v hd ns p rest wb hnfb
          (fun y hy => hns y (List.mem_cons_of_mem _ hy)) hsb hkb
        rw [h2] at h
        simp only [Option.some.injEq, Prod.mk.injEq] at h
        obtain ⟨hr, hw⟩ := h
        subst hr hw
        have hag2 : Agree {} wb w2 := hq2.1
        refine ⟨hq2.quiet_noFaults hnfb, ?_, Or.inr (Or.inr ⟨rfl, hsb.settled_transfer (hq2.sameLocal _ _),
          ?_⟩)⟩
        · rw [hag2.rss rfl, hagb.rss rfl]
          exact hrssa
        · rw [hag2.rds rfl]
          exact hkb
      · subst herr
        simp only [M.pure_run, Option.some.injEq, Prod.mk.injEq] at h
        obtain ⟨hr, hw⟩ := h
        subst hr hw
        have hag : Agree {} w wa := hq.1
        exact ⟨hnfa, Or.inl (hag.rss rfl),
          Or.inr (Or.inl ⟨rfl, ⟨x, List.mem_cons_self _ _, he⟩, hwait, hq⟩)⟩
    · rw [DeleteRD_loop_skip v p x rest he] at h
      obtain ⟨hnf1, hrss, hcase⟩ := ih w w1 r hnf hu1 hu2
        (fun y hy => hns y (List.mem_cons_of_mem _ hy)) h
      refine ⟨hnf1, hrss, ?_⟩
      rcases hcase with ⟨hr, hno, hw⟩ | ⟨hr, ⟨y, hy, hyn⟩, hwait, hq⟩ | h3
      · refine Or.inl ⟨hr, ?_, hw⟩
        intro y hy
        rcases List.mem_cons.mp hy with e | hy1
        · rw [e]
          exact he
        · exact hno y hy1
      · exact Or.inr (Or.inl ⟨hr, ⟨y, List.mem_cons_of_mem _ hy, hyn⟩, hwait, hq⟩)
      · exact Or.inr (Or.inr h3)

theorem listed_namespace {v : VSHandler} {ns : String} (hns : ns ≠ "")
    {l : List ReplicationDestination} {x : ReplicationDestination}
    (hx : x ∈ l.filter (fun o => (ns == "" || (rdKind.meta o).Namespace == ns) &&
      v.ownedBy (rdKind.meta o))) : x.ObjectMeta.Namespace = ns := by
  have h := (List.mem_filter.mp hx).2
  simp only [Bool.and_eq_true, Bool.or_eq_true, beq_iff_eq] at h
  rcases h.1 with e | e
  · exact absurd e hns
  · exact e

/-- In Direct mode a second `DeleteRD` for a claim in a named namespace, on a state that
holds what the first left of the destinations, claims, snapshots and local sources,
returns what the first returned and changes no object. -/
theorem DeleteRD_direct_reruns (v : VSHandler) (hd : v.IsCopyMethodDirect = true)
    (p ns : String) (hns : ns ≠ "") :
    Reruns (fun w => KeysUnique rdKind w.rds ∧ KeysUnique rsKind w.rss) (SameLocal ns p)
      (v.DeleteRD p ns) := by
  intro w r wa hf hu h w2 hf2 hsame
  unfold VSHandler.DeleteRD VSHandler.listRDByOwner VSHandler.listByOwner at h ⊢
  rw [M.bind_eq_some] at h
  obtain ⟨l, w0, hl, h⟩ := h
  obtain ⟨hr, hw0⟩ := clientList_ok (hf _) hl
  subst hr hw0
  dsimp only at h
  have hlist2 : clientList rdKind ns v.ownedBy w2 = some (.ok ((rdKind.objs w2).filter
      (fun o => (ns == "" || (rdKind.meta o).Namespace == ns) && v.ownedBy (rdKind.meta o))),
      w2.tick) := by
    unfold clientList
    simp only [hf2 _, Bool.false_eq_true, if_false]
    rfl
  rw [M.bind_run, hlist2]
  dsimp only
  obtain ⟨hnfa, _, hcase⟩ := DeleteRD_loop_direct_settles v hd ns p _ w.tick wa r (fun n => hf n)
    hu.1 hu.2 (fun x hx _ => listed_namespace hns hx) h
  have hq2 : Quiet w2 w2.tick := Quiet.quiet_tick w2
  have hrds2 : rdKind.objs w2 = wa.rds := hsame.1
  rcases hcase with ⟨hr, hno, hw⟩ | ⟨hr, hex, hwait, hq⟩ | ⟨hr, hs, hk⟩
  · subst hr hw
    rw [hrds2]
    refine ⟨w2.tick, ?_, hq2⟩
    exact DeleteRD_loop_none v p _ _ hno
  · subst hr
    have hag : Agree {} w.tick wa := hq.1
    rw [hrds2, hag.rds rfl]
    refine ⟨w2.tick.tick.tick, ?_, hq2.quiet_trans ((Quiet.quiet_tick _).quiet_trans
      (Quiet.quiet_tick _))⟩
    refine DeleteRD_loop_waiting v hd ns p _ w2.tick (fun n => hf2 n) hex
      (fun x hx _ => listed_namespace hns hx) ?_
    have h1 : LocalWaiting wa ns p := hwait.waiting_transfer (hq.sameLocal ns p)
    have h2 : LocalWaiting w2 ns p := h1.waiting_transfer hsame
    exact h2.waiting_transfer (hq2.sameLocal ns p)
  · subst hr
    obtain ⟨w3, h3, hq3⟩ := DeleteRD_loop_direct_quiet v hd ns p
      ((rdKind.objs w2).filter (fun o => (ns == "" || (rdKind.meta o).Namespace == ns) &&
        v.ownedBy (rdKind.meta o))) w2.tick (fun n => hf2 n)
      (fun x hx _ => listed_namespace hns hx)
      ((hs.settled_transfer hsame).settled_transfer (hq2.sameLocal ns p))
      (by
        show KeySettled rdKind w2.rds ns p
        rw [hsame.1]
        exact hk)
    exact ⟨w3, h3, hq2.quiet_trans hq3⟩

theorem storeDelete_storable {α : Type} {K : Kind α} (hK : K.Lawful) {l : List α}
    (h : ∀ x ∈ l, Storable (K.meta x)) (ns name : String) (now : Nat) :
    ∀ x ∈ storeDelete K l ns name now, Storable (K.meta x) := by
  have hK1 : ∀ o m, K.meta (K.setMeta o m) = m := hK
  intro y hy
  rcases storeDelete_origin hy with ⟨hy1, _⟩ | ⟨x0, _, _, hfin, hye⟩
  · exact h y hy1
  · intro _
    rw [hye, hK1, markDeleted_finalizers]
    exact hfin

/-- What `DeleteRD` leaves of the sources in Direct mode can be stored. -/
theorem DeleteRD_direct_storable (v : VSHandler) (hd : v.IsCopyMethodDirect = true)
    (p ns : String) (hns : ns ≠ "") (w w1 : World) (r : Option Err) (hf : NoFaults w)
    (hu : KeysUnique rdKind w.rds ∧ KeysUnique rsKind w.rss)
    (hst : ∀ x ∈ w.rss, Storable x.ObjectMeta) (h : v.DeleteRD p ns w = some (r, w1)) :
    ∀ x ∈ w1.rss, Storable x.ObjectMeta := by
  unfold VSHandler.DeleteRD VSHandler.listRDByOwner VSHandler.listByOwner at h
  rw [M.bind_eq_some] at h
  obtain ⟨l, w0, hl, h⟩ := h
  obtain ⟨hr, hw0⟩ := clientList_ok (hf _) hl
  subst hr hw0
  dsimp only at h
  obtain ⟨_, hrss, _⟩ := DeleteRD_loop_direct_settles v hd ns p _ w.tick w1 r (fun n => hf n)
    hu.1 hu.2 (fun x hx _ => listed_namespace hns hx) h
  rcases hrss with e | ⟨now, e⟩
  · rw [e]
    exact hst
  · rw [e]
    exact storeDelete_storable rsKind_lawful hst _ _ _

theorem atKey_append_other {α : Type} (K : Kind α) (l : List α) (o : α) (ns name : String)
    (h : hasKey (K.meta o) ns name = false) : atKey K (l ++ [o]) ns name = atKey K l ns name := by
  unfold atKey
  rw [List.filter_append]
  simp [h]

theorem atKey_storeUpdate_other {α : Type} (K : Kind α) (l : List α) (o : α) (ns name : String)
    (h : hasKey (K.meta o) ns name = false) :
    atKey K (storeUpdate K l o) ns name = atKey K l ns name := by
  unfold atKey storeUpdate
  induction l with
  | nil => rfl
  | cons x xs ih =>
    by_cases hk : hasKey (K.meta x) (K.meta o).Namespace (K.meta o).Name = true
    · have hx : hasKey (K.meta x) ns name = false := by
        obtain ⟨h1, h2⟩ := (hasKey_iff _ _ _).mp hk
        unfold hasKey at h ⊢
        rw [h1, h2]
        exact h
      by_cases hdel : (metaIsDeleted (K.meta o) && (K.meta o).Finalizers.isEmpty) = true
      · simp only [List.filterMap_cons, hk, if_true, hdel, List.filter_cons, hx,
          Bool.false_eq_true, if_false]
        simp only [hdel, if_true] at ih
        exact ih
      · simp only [List.filterMap_cons, hk, if_true, hdel, if_false, List.filter_cons, hx, h,
          Bool.false_eq_true]
        simp only [hdel, if_false] at ih
        exact ih
    · simp only [List.filterMap_cons, hk, Bool.false_eq_true, if_false, List.filter_cons]
      rw [ih]

/-- A `CreateOrUpdate` leaves what is stored under every other key. -/
theorem CreateOrUpdate_atKey {α : Type} [DecidableEq α] {K : Kind α} (hK : K.Lawful)
    (hput : ∀ w l, K.objs (K.put w l) = l) (htick : ∀ w : World, K.objs w.tick = K.objs w)
    {obj : α} {f : α → Option (α × Option Err)} {w w1 : World}
    {res : OperationResult × α × Option Err} (hnf : NoFaults w)
    (h : CreateOrUpdate K obj f w = some (res, w1)) (ns name : String)
    (hne : hasKey (K.meta obj) ns name = false) :
    atKey K (K.objs w1) ns name = atKey K (K.objs w) ns name := by
  have hK1 : ∀ o m, K.meta (K.setMeta o m) = m := hK
  have hother : ∀ o2 : α, hasKey (K.meta o2) (K.meta obj).Namespace (K.meta obj).Name = true →
      hasKey (K.meta o2) ns name = false := by
    intro o2 hk
    obtain ⟨h1, h2⟩ := (hasKey_iff _ _ _).mp hk
    unfold hasKey at hne ⊢
    rw [h1, h2]
    exact hne
  unfold CreateOrUpdate at h
  cases hg : storeGet K.meta (K.objs w) (K.meta obj).Namespace (K.meta obj).Name with
  | none =>
    simp only [M.bind_run, clientGet_run_missing (hnf _) hg, Err.IsNotFound, if_true] at h
    generalize hm : mutate K f (K.meta obj).Namespace (K.meta obj).Name obj = mres at h
    rcases mres with _ | ⟨o2, _ | e2⟩
    · simp at h
    · obtain ⟨-, hk⟩ := mutate_ok hm
      have hg1 : storeGet K.meta (K.objs w.tick) (K.meta o2).Namespace (K.meta o2).Name = none := by
        rw [hasKey_iff] at hk
        rw [htick, hk.1, hk.2]
        exact hg
      simp only [M.bind_run, clientCreate_run_new (w := w.tick) (hnf _) hg1, M.pure_run,
        Option.some.injEq, Prod.mk.injEq] at h
      rw [← h.2, hput, htick]
      apply atKey_append_other
      unfold asCreated
      rw [hK1]
      exact hother o2 hk
    · simp only [M.pure_run, Option.some.injEq, Prod.mk.injEq] at h
      rw [← h.2, htick]
  | some existing =>
    simp only [M.bind_run, clientGet_run_found (hnf _) hg] at h
    generalize hm : mutate K f (K.meta obj).Namespace (K.meta obj).Name existing = mres at h
    rcases mres with _ | ⟨o2, _ | e2⟩
    · simp at h
    · obtain ⟨-, hk⟩ := mutate_ok hm
      dsimp only at h
      split at h
      · simp only [M.pure_run, Option.some.injEq, Prod.mk.injEq] at h
        rw [← h.2, htick]
      · have hg1 : storeGet K.meta (K.objs w.tick) (K.meta o2).Namespace (K.meta o2).Name
            = some existing := by
          rw [hasKey_iff] at hk
          rw [htick, hk.1, hk.2]
          exact hg
        simp only [M.bind_run, clientUpdate_run_found (w := w.tick) (hnf _) hg1, M.pure_run,
          Option.some.injEq, Prod.mk.injEq] at h
        rw [← h.2, hput, htick]
        exact atKey_storeUpdate_other K _ o2 ns name (hother o2 hk)
    · simp only [M.pure_run, Option.some.injEq, Prod.mk.injEq] at h
      rw [← h.2, htick]

theorem SameLocal.same_refl (ns p : String) (w : World) : SameLocal ns p w w :=
  ⟨rfl, rfl, rfl, rfl⟩

theorem SameLocal.same_trans {ns p : String} {w w1 w2 : World} (h1 : SameLocal ns p w w1)
    (h2 : SameLocal ns p w1 w2) : SameLocal ns p w w2 :=
  ⟨h2.1.trans h1.1, h2.2.1.trans h1.2.1, h2.2.2.1.trans h1.2.2.1, h2.2.2.2.trans h1.2.2.2⟩

theorem SameLocal.of_agree {S : Mods} {w w1 : World} (h : Agree S w w1) (h1 : S.rds = false)
    (h2 : S.pvcs = false) (h3 : S.snapshots = false) (h4 : S.rss = false) (ns p : String) :
    SameLocal ns p w w1 := by
  refine ⟨h.rds h1, h.pvcs h2, h.snapshots h3, ?_⟩
  rw [h.rss h4]

theorem metaAddLabel_name (m : ObjectMeta) (k v : String) :
    (util.metaAddLabel m k v).1.Name = m.Name := by
  unfold util.metaAddLabel
  split <;> rfl

/-- The periodic `createOrUpdateRS` leaves the destinations, the claims, the snapshots
and the sources under the local key of the claim as they are. -/
theorem createOrUpdateRS_scheduled_local (v : VSHandler) (rsSpec : VolSyncReplicationSourceSpec)
    (psk : String) (w w1 : World) (r : Option ReplicationSource × Option Err) (hnf : NoFaults w)
    (h : v.createOrUpdateRS rsSpec psk false w = some (r, w1)) :
    SameLocal rsSpec.ProtectedPVC.Namespace rsSpec.ProtectedPVC.Name w w1 := by
  unfold VSHandler.createOrUpdateRS at h
  rw [M.bind_eq_some] at h
  obtain ⟨⟨sc, err⟩, wA, hA, h⟩ := h
  have hagA : Agree {} w wA := (getStorageClass_mods (S := {}) v _).run _ _ _ hA
  have hsA := SameLocal.of_agree hagA rfl rfl rfl rfl rsSpec.ProtectedPVC.Namespace
    rsSpec.ProtectedPVC.Name
  have hnfA := hagA.noFaults hnf
  cases err with
  | some e =>
    simp only [M.pure_run, Option.some.injEq, Prod.mk.injEq] at h
    rw [← h.2]
    exact hsA
  | none =>
    cases sc with
    | none => simp at h
    | some sc =>
      simp only [M.bind_run, deref_some] at h
      cases hB : v.getVolumeSnapshotClassFromPVCStorageClass sc wA with
      | none => rw [hB] at h; simp at h
      | some resB =>
        obtain ⟨⟨vsc, err1⟩, wB⟩ := resB
        rw [hB] at h
        have hagB : Agree { volumeSnapshotClassList := true } wA wB :=
          (getVolumeSnapshotClassFromPVCStorageClass_mods (S := { volumeSnapshotClassList := true })
            v sc rfl).run _ _ _ hB
        have hsB := hsA.same_trans (SameLocal.of_agree hagB rfl rfl rfl rfl _ _)
        have hnfB := hagB.noFaults hnfA
        cases err1 with
        | some e =>
          simp only [M.pure_run, Option.some.injEq, Prod.mk.injEq] at h
          rw [← h.2]
          exact hsB
        | none =>
          dsimp only at h
          rw [M.bind_eq_some] at h
          obtain ⟨stop, wC, hC, h⟩ := h
          have hwC := setupForFinalSync_scheduled_tick v _ wB wC stop hC
          subst hwC
          all_goals
            cases stop with
            | true =>
              simp only [if_true, M.pure_run, Option.some.injEq, Prod.mk.injEq] at h
              rw [← h.2]
              exact hsB.same_trans ((Quiet.quiet_tick wB).sameLocal _ _)
            | false =>
              simp only [Bool.false_eq_true, if_false] at h
              rw [M.bind_eq_some] at h
              obtain ⟨res, wD, hD, h⟩ := h
              have hw1 : w1 = wD := by
                obtain ⟨op, rs1, cerr⟩ := res
                cases cerr <;> simp only [M.pure_run, Option.some.injEq, Prod.mk.injEq] at h <;>
                  exact h.2.symm
              subst hw1
              have hagD : Agree { rss := true } wB.tick w1 :=
                (CreateOrUpdate_mods (S := { rss := true }) rsKind _ _ (fun _ _ => rfl)).run _ _ _ hD
              have hne : hasKey (rsKind.meta (util.AddLabel rsKind
                  { ObjectMeta := {
                      Name := getReplicationSourceName
                        (v.ModifyRSSpecForCephFS rsSpec sc).ProtectedPVC.Name,
                      Namespace := (v.ModifyRSSpecForCephFS rsSpec sc).ProtectedPVC.Namespace } }
                  util.CreatedByRamenLabel "true")) rsSpec.ProtectedPVC.Namespace
                  (getLocalReplicationName rsSpec.ProtectedPVC.Name) = false := by
                obtain ⟨k1, k2⟩ := ModifyRSSpecForCephFS_key v rsSpec sc
                show hasKey (util.metaAddLabel _ _ _).1 _ _ = false
                unfold hasKey
                rw [metaAddLabel_name, (metaAddLabel_rest _ _ _).1]
                simp only [k1, k2, getReplicationSourceName, Bool.and_eq_false_eq_eq_false_or_eq_false,
                  beq_eq_false_iff_ne, ne_eq]
                right
                exact fun e => localName_ne _ e.symm
              have hkey := CreateOrUpdate_atKey (K := rsKind) (w := wB.tick) rsKind_lawful
                (fun _ _ => rfl) (fun _ => rfl) (fun n => hnfB n) hD _ _ hne
              refine hsB.same_trans ⟨hagD.rds rfl, hagD.pvcs rfl, hagD.snapshots rfl, ?_⟩
              exact hkey

theorem Reruns.of_noFaults {α : Type} {m : M α} {Pre : World → Prop}
    {P : World → World → Prop} (h : Reruns (fun w => NoFaults w ∧ Pre w) P m) : Reruns Pre P m := by
  intro w r wa hnf hp hrun w2 hnf2 hag
  exact h w r wa hnf ⟨hnf, hp⟩ hrun w2 hnf2 hag

/-- In Direct mode a second periodic `ReconcileRS` for a claim in a named namespace
returns what the first returned and changes no object. -/
theorem ReconcileRS_direct_reruns (v : VSHandler) (hp : parseGroup v.owner.APIVersion ≠ none)
    (hd : v.IsCopyMethodDirect = true) (rsSpec : VolSyncReplicationSourceSpec)
    (hns : rsSpec.ProtectedPVC.Namespace ≠ "") :
    Reruns (fun w => StorableForRS w ∧ KeysUnique rdKind w.rds ∧ KeysUnique rsKind w.rss)
      (Agree {}) (v.ReconcileRS rsSpec false) := by
  apply Reruns.of_noFaults
  unfold VSHandler.ReconcileRS
  split
  · exact Reruns.rerun_pure _ _ _
  · refine Reruns.rerun_bind { secrets := true }
      (fun w => NoFaults w ∧ (∀ x ∈ w.rss, Storable x.ObjectMeta) ∧ KeysUnique rdKind w.rds ∧
        KeysUnique rsKind w.rss)
      ((ValidateSecretAndAddVRGOwnerRef_reruns v hp _).weaken (fun _ h => h.2.1.1) (fun _ _ h => h))
      (ValidateSecretAndAddVRGOwnerRef_mods v _ rfl) ?_ ?_ ?_
    · intro w a w1 hpre _ hag
      rw [hag.rss rfl, hag.rds rfl]
      exact ⟨hag.noFaults hpre.1, hpre.2.1.2, hpre.2.2⟩
    · rintro ⟨secretExists, err⟩
      dsimp only
      split
      · exact Reruns.rerun_pure _ _ _
      · refine Reruns.rerun_seq { secrets := true }
          { rss := true, rds := true, volumeSnapshotClassList := true, snapshots := true,
            pvcs := true, pvs := true, workloadStatus := true }
          (fun w => NoFaults w ∧ (∀ x ∈ w.rss, Storable x.ObjectMeta) ∧ KeysUnique rdKind w.rds ∧
            KeysUnique rsKind w.rss) ?_ ?_ ?_ ?_ ?_
        · split
          · exact (CopySecretToPVCNamespace_reruns v _ _ _ rfl).weaken (fun _ _ => trivial)
              (fun _ _ h => h)
          · exact Reruns.rerun_pure _ _ _
        · split
          · exact CopySecretToPVCNamespace_mods v _ _ rfl
          · exact Modifies.frame_pure _ _
        · intro w a w1 hpre _ hag
          rw [hag.rss rfl, hag.rds rfl]
          exact ⟨hag.noFaults hpre.1, hpre.2⟩
        · intro err1
          split
          · exact Reruns.rerun_pure _ _ _
          · refine Reruns.rerun_bind { rds := true, rss := true, pvcs := true, snapshots := true }
              (fun w => ∀ x ∈ w.rss, Storable x.ObjectMeta)
              ((DeleteRD_direct_reruns v hd _ _ hns).weaken (fun _ h => h.2.2) (fun _ _ h => h))
              (DeleteRD_mods v _ _ rfl rfl rfl rfl) ?_ ?_ ?_
            · intro w a w1 hpre h _
              exact DeleteRD_direct_storable v hd _ _ hns w w1 a hpre.1 hpre.2.2 hpre.2.1 h
            · intro err2
              split
              · exact Reruns.rerun_pure _ _ _
              · rw [validatePVCForFinalSync_scheduled]
                refine Reruns.rerun_pure_bind ?_
                simp only [Bool.not_true, Option.isSome_none, Bool.or_false, Bool.false_eq_true,
                  if_false]
                refine Reruns.rerun_seq
                  { rss := true, volumeSnapshotClassList := true, pvcs := true, pvs := true }
                  { pvcs := true, pvs := true } (fun _ => True)
                  ((createOrUpdateRS_reruns v hp rsSpec _ _ rfl rfl rfl).weaken
                    (fun _ h => h) (fun _ _ h => h))
                  (createOrUpdateRS_mods v _ _ _ rfl rfl rfl rfl) (fun _ _ _ _ _ _ => trivial)
                  ?_ ?_
                · rintro ⟨rs, err3⟩
                  dsimp only
                  split
                  · exact Reruns.rerun_pure _ _ _
                  · exact Reruns.rerun_pure _ _ _
                  · simp only [Bool.false_and, Bool.false_eq_true, if_false]
                    exact Reruns.rerun_pure _ _ _
                · rintro ⟨rs, err3⟩
                  repeat' first
                    | apply Modifies.frame_pure
                    | apply Modifies.frame_deref
                    | (simp [*]; done)
                    | apply Modifies.frame_bind
                    | intro _
                    | split
                    | dsimp only
            · intro err2 w1 r wa hnf1 h w2 hag
              refine SameLocal.same_trans ?_ (SameLocal.of_agree hag rfl rfl rfl rfl _ _)
              split at h
              · simp only [M.pure_run, Option.some.injEq, Prod.mk.injEq] at h
                rw [← h.2]
                exact SameLocal.same_refl _ _ _
              · rw [validatePVCForFinalSync_scheduled] at h
                simp only [M.bind_run, M.pure_run, Bool.not_true, Option.isSome_none, Bool.or_false,
                  Bool.false_eq_true, if_false, Bool.false_and] at h
                cases hC : v.createOrUpdateRS rsSpec
                    (GetVolSyncPSKSecretNameFromVRGName v.owner.ObjectMeta.Name) false w1 with
                | none => rw [hC] at h; simp at h
                | some resC =>
                  obtain ⟨⟨rs, err3⟩, wC⟩ := resC
                  rw [hC] at h
                  have hw : wa = wC := by
                    dsimp only at h
                    split at h <;> simp only [M.pure_run, Option.some.injEq, Prod.mk.injEq] at h <;>
                      exact h.2.symm
                  rw [hw]
                  exact createOrUpdateRS_scheduled_local v rsSpec _ w1 wC _ hnf1 hC
        · intro err1
          repeat' first
            | apply Modifies.frame_pure
            | apply Modifies.frame_deref
            | (simp [*]; done)
            | apply Modifies.frame_bind
            | intro _
            | split
            | dsimp only
    · rintro ⟨secretExists, err⟩ w1 r wa hnf1 h w2 hag
      rw [hag.secrets rfl]
      dsimp only at h
      split at h
      · simp only [M.pure_run, Option.some.injEq, Prod.mk.injEq] at h
        rw [h.2]
      · rw [M.bind_eq_some] at h
        obtain ⟨e1, wb, hcopy, hrest⟩ := h
        have hb : storeGet secretKind.meta wb.secrets v.owner.ObjectMeta.Namespace
            (GetVolSyncPSKSecretNameFromVRGName v.owner.ObjectMeta.Name) =
            storeGet secretKind.meta w1.secrets v.owner.ObjectMeta.Namespace
              (GetVolSyncPSKSecretNameFromVRGName v.owner.ObjectMeta.Name) := by
          split at hcopy
          · exact (CopySecretToPVCNamespace_rerun v _ _ w1 wb e1 hnf1 hcopy).1
          · simp only [M.pure_run, Option.some.injEq, Prod.mk.injEq] at hcopy
            rw [hcopy.2]
        rw [← hb]
        have hag2 : Agree
            { rss := true, rds := true, volumeSnapshotClassList := true, snapshots := true,
              pvcs := true, pvs := true, workloadStatus := true } wb wa := by
          refine Modifies.run ?_ wb r wa hrest
          repeat' first
            | apply Modifies.frame_pure
            | apply Modifies.frame_deref
            | (simp [*]; done)
            | apply Modifies.frame_bind
            | intro _
            | split
            | dsimp only
        rw [hag2.secrets rfl]

/-- On a cluster the API server can hold, whenever `rollbackToLastSnapshot` returns, it
returns nil only if the local source has a manual trigger equal to the name of the
target snapshot and a status whose `lastManualSync` equals that trigger; when the local
source is not in that state the call returns an error; and whenever it returns nil the
local destination is stored paused. Runs that end in a nil dereference do not return. -/
theorem rollbackToLastSnapshot_checked (v : VSHandler)
    (rdSpec : VolSyncReplicationDestinationSpec) (snapshotRef : TypedLocalObjectReference)
    (w w1 : World) (r : Option Err)
    (hrds : ∀ x ∈ w.rds, Storable x.ObjectMeta) (hrss : ∀ x ∈ w.rss, Storable x.ObjectMeta)
    (h : v.rollbackToLastSnapshot rdSpec snapshotRef w = some (r, w1)) :
    (r = none →
      LocalTransferDone w1 rdSpec.ProtectedPVC.Namespace rdSpec.ProtectedPVC.Name snapshotRef.Name ∧
      LocalDestinationPaused w1 rdSpec.ProtectedPVC.Namespace rdSpec.ProtectedPVC.Name) ∧
    (¬ LocalTransferDone w1 rdSpec.ProtectedPVC.Namespace rdSpec.ProtectedPVC.Name
        snapshotRef.Name → ∃ e, r = some e) := by
  have main : r = none →
      LocalTransferDone w1 rdSpec.ProtectedPVC.Namespace rdSpec.ProtectedPVC.Name snapshotRef.Name ∧
      LocalDestinationPaused w1 rdSpec.ProtectedPVC.Namespace rdSpec.ProtectedPVC.Name := by
    intro hr
    subst hr
    unfold VSHandler.rollbackToLastSnapshot at h
    dsimp only at h
    rw [M.bind_eq_some] at h
    obtain ⟨⟨rd, err⟩, wa, hpause, h⟩ := h
    dsimp only at h
    cases err with
    | some e => simp at h
    | none =>
      dsimp only at h
      obtain ⟨hwa, _⟩ := pauseRD_ok hpause hrds
      have hwarss : wa.rss = w.rss :=
        ((pauseRD_mods (S := { rds := true }) v _ _ rfl).run _ _ _ hpause).rss rfl
      rw [M.bind_eq_some] at h
      obtain ⟨⟨inUse, err1⟩, wb, hin, h⟩ := h
      dsimp only at h
      cases err1 with
      | some e => simp at h
      | none =>
        dsimp only at h
        have fb := (IsPVCInUseByPod_mods (S := {}) _ _).run _ _ _ hin
        rw [M.bind_eq_some] at h
        obtain ⟨⟨lrd0, err2⟩, wc, hg, h⟩ := h
        dsimp only at h
        cases err2 with
        | some e => simp at h
        | none =>
          dsimp only at h
          have fc := (getRD_mods (S := {}) v _ _).run _ _ _ hg
          split at h
          · simp at h
          · rw [M.bind_eq_some] at h
            obtain ⟨⟨lrd, lrs, err3⟩, wd, hrec, h⟩ := h
            dsimp only at h
            cases err3 with
            | some e => simp at h
            | none =>
              dsimp only at h
              have hwcrds : ∀ x ∈ wc.rds, Storable x.ObjectMeta := by
                rw [fc.rds rfl, fb.rds rfl]; exact hwa
              have hwcrss : ∀ x ∈ wc.rss, Storable x.ObjectMeta := by
                rw [fc.rss rfl, fb.rss rfl, hwarss]; exact hrss
              -- the two local objects as reconciled
              unfold VSHandler.reconcileLocalReplication at hrec
              rw [M.bind_eq_some] at hrec
              obtain ⟨⟨lrdr, errd⟩, wc1, hlrd, hrec⟩ := hrec
              cases errd with
              | some e => simp at hrec
              | none =>
                obtain ⟨hwc1, hwc1rss, lrd1, hl1, hlrdst⟩ := reconcileLocalRD_ok hlrd hwcrds
                subst hl1
                dsimp only at hrec
                rw [M.bind_eq_some] at hrec
                obtain ⟨st, wx, hd, hrec⟩ := hrec
                cases hst : lrd1.Status with
                | none => rw [hst] at hd; simp at hd
                | some st0 =>
                rw [hst] at hd
                simp only [deref_some, Option.some.injEq, Prod.mk.injEq] at hd
                obtain ⟨hd1, hd2⟩ := hd
                subst hd1 hd2
                rw [M.bind_eq_some] at hrec
                obtain ⟨tls, wx, hd, hrec⟩ := hrec
                cases htls : st0.RsyncTLS with
                | none => rw [htls] at hd; simp at hd
                | some tls0 =>
                rw [htls] at hd
                simp only [deref_some, Option.some.injEq, Prod.mk.injEq] at hd
                obtain ⟨hd1, hd2⟩ := hd
                subst hd1 hd2
                rw [M.bind_eq_some] at hrec
                obtain ⟨address, wx, hd, hrec⟩ := hrec
                cases hadr : tls0.Address with
                | none => rw [hadr] at hd; simp at hd
                | some adr0 =>
                rw [hadr] at hd
                simp only [deref_some, Option.some.injEq, Prod.mk.injEq] at hd
                obtain ⟨hd1, hd2⟩ := hd
                subst hd1 hd2
                rw [M.bind_eq_some] at hrec
                obtain ⟨⟨lrsr, errs⟩, wc2, hlrs, hrec⟩ := hrec
                dsimp only at hrec
                cases errs with
                | some e => simp at hrec
                | none =>
                  simp only [M.pure_run, Option.some.injEq, Prod.mk.injEq, and_true] at hrec
                  obtain ⟨⟨hlrdeq, hlrseq⟩, hwd⟩ := hrec
                  subst hlrdeq hlrseq hwd
                  obtain ⟨hwc2rds, lrs1, hl2, hlrsst⟩ :=
                    reconcileLocalRS_ok hlrs (by rw [hwc1rss]; exact hwcrss)
                  subst hl2
                  -- the check and the pause
                  rw [M.bind_eq_some] at h
                  obtain ⟨lrs2, wy, hd, h⟩ := h
                  simp only [deref_some, Option.some.injEq, Prod.mk.injEq] at hd
                  obtain ⟨hd1, hd2⟩ := hd
                  subst hd1 hd2
                  split at h
                  · simp at h
                  · rename_i hchk
                    rw [M.bind_eq_some] at h
                    obtain ⟨lrd2, wy, hd, h⟩ := h
                    simp only [deref_some, Option.some.injEq, Prod.mk.injEq] at hd
                    obtain ⟨hd1, hd2⟩ := hd
                    subst hd1 hd2
                    rw [M.bind_eq_some] at h
                    obtain ⟨⟨rp, err4⟩, we, hp2, h⟩ := h
                    dsimp only at h
                    cases err4 with
                    | some e => simp at h
                    | none =>
                      dsimp only at h
                      have hkey := storeGet_hasKey hlrdst
                      rw [hasKey_iff] at hkey
                      have hkey := storeGet_hasKey hlrdst
                      rw [hasKey_iff] at hkey
                      have hlrdst2 : storeGet rdKind.meta wc2.rds lrd1.ObjectMeta.Namespace
                          lrd1.ObjectMeta.Name = some lrd1 := by
                        rw [hwc2rds, show lrd1.ObjectMeta.Namespace = _ from hkey.1,
                          show lrd1.ObjectMeta.Name = _ from hkey.2]
                        exact hlrdst
                      obtain ⟨_, hpaused⟩ := pauseRD_ok hp2 (by rw [hwc2rds]; exact hwc1)
                      obtain ⟨lrdp, hlrdp, hpp⟩ := hpaused lrd1 hlrdst2
                      have hwerss : we.rss = wc2.rss :=
                        ((pauseRD_mods (S := { rds := true }) v _ _ rfl).run _ _ _ hp2).rss rfl
                      -- the trailing log lines change nothing
                      have hw1 : w1 = we := by
                        rw [M.bind_eq_some] at h
                        obtain ⟨_, wz, hd, h⟩ := h
                        cases htr : lrs1.Spec.Trigger with
                        | none => rw [htr] at hd; simp at hd
                        | some tr0 =>
                        rw [htr] at hd
                        simp only [deref_some, Option.some.injEq, Prod.mk.injEq] at hd
                        obtain ⟨_, hd2⟩ := hd
                        subst hd2
                        rw [M.bind_eq_some] at h
                        obtain ⟨stz, wz, hd, h⟩ := h
                        cases hstz : lrs1.Status with
                        | none => rw [hstz] at hd; simp at hd
                        | some stz0 =>
                        rw [hstz] at hd
                        simp only [deref_some, Option.some.injEq, Prod.mk.injEq] at hd
                        obtain ⟨hd1, hd2⟩ := hd
                        subst hd1 hd2
                        rw [M.bind_eq_some] at h
                        obtain ⟨_, wz, hd, h⟩ := h
                        cases hmv : stz0.LatestMoverStatus with
                        | none => rw [hmv] at hd; simp at hd
                        | some mv0 =>
                        rw [hmv] at hd
                        simp only [deref_some, Option.some.injEq, Prod.mk.injEq] at hd
                        obtain ⟨_, hd2⟩ := hd
                        subst hd2
                        simp only [M.pure_run, Option.some.injEq, Prod.mk.injEq, true_and] at h
                        exact h.symm
                      subst hw1
                      constructor
                      · -- the transfer is complete
                        have hc : v.checkLastSnapshotSyncStatus lrs1 snapshotRef = true := by
                          simpa using hchk
                        unfold VSHandler.checkLastSnapshotSyncStatus at hc
                        cases htr : lrs1.Spec.Trigger with
                        | none => rw [htr] at hc; simp at hc
                        | some tr0 =>
                          rw [htr] at hc
                          dsimp only at hc
                          split at hc
                          · rename_i hm
                            cases hs : lrs1.Status with
                            | none => rw [hs] at hc; simp at hc
                            | some s0 =>
                              rw [hs] at hc
                              refine ⟨lrs1, tr0, s0, ?_, htr, by simpa using hm, hs, by simpa using hc⟩
                              rw [hwerss]
                              exact hlrsst
                          · simp at hc
                      · exact ⟨lrdp, hkey.1 ▸ hkey.2 ▸ hlrdp, hpp⟩
  refine ⟨main, ?_⟩
  intro hnot
  cases r with
  | none => exact absurd (main rfl).1 hnot
  | some e => exact ⟨e, rfl⟩

/-- Once the local transfer has completed the rollback returns nil and
leaves the local destination paused; before that it reports that it is waiting. -/
theorem rollbackToLastSnapshot_checked_on_done :
    exHandler.rollbackToLastSnapshot exRDSpec exSnapshotRef exRollbackDone =
      some (none, exRolledBack) ∧
    (LocalTransferDone exRolledBack "ns" "data" "snap1" ∧
      LocalDestinationPaused exRolledBack "ns" "data") ∧
    (exHandler.rollbackToLastSnapshot exRDSpec exSnapshotRef exRollbackStart).map (fun r => r.1) =
      some (some (.msg "waiting for local RS to complete transfer data-local")) :=
  ⟨rfl,
    (rollbackToLastSnapshot_checked exHandler exRDSpec exSnapshotRef exRollbackDone exRolledBack
      none (by
        intro x hx
        have hx1 : x = exMainRD ∨ x = exLocalRD := by simpa [exRollbackDone] using hx
        rcases hx1 with hx1 | hx1 <;> subst hx1 <;> intro hd <;> simp [metaIsDeleted, exMainRD, exLocalRD] at hd)
      (by
        intro x hx
        have hx1 : x = exLocalRS := by simpa [exRollbackDone] using hx
        subst hx1
        intro hd
        simp [metaIsDeleted, exLocalRS] at hd) rfl).1 rfl,
    rfl⟩

/-- The test of the code agrees with the annotation of the specification. -/
theorem isDefaultVolumeSnapshotClass_iff (c : VolumeSnapshotClass) :
    isDefaultVolumeSnapshotClass c = true ↔ annotatedDefault c := by
  unfold isDefaultVolumeSnapshotClass annotatedDefault VolumeSnapshotIsDefaultAnnotation
    VolumeSnapshotIsDefaultAnnotationValue
  exact beq_iff_eq

theorem Agree.pods {S : Mods} {w w1 : World} (h : Agree S w w1) (hS : S.pods = false) :
    w1.pods = w.pods := by
  have := congrArg World.pods h
  simpa [World.erase, hS] using this

theorem Agree.volumeAttachments {S : Mods} {w w1 : World} (h : Agree S w w1)
    (hS : S.volumeAttachments = false) : w1.volumeAttachments = w.volumeAttachments := by
  have := congrArg World.volumeAttachments h
  simpa [World.erase, hS] using this

theorem Quiet.still {w w1 : World} (h : Quiet w w1) : Still w w1 := by
  obtain ⟨hag, l, hl, hv⟩ := h
  refine ⟨hag.widen (Mods.empty_le _), ?_, l, hl, ?_⟩
  · rw [hag.pvcs rfl]
  · intro c hc
    exact Or.inl (hv c hc)

theorem Still.still_trans {w w1 w2 : World} (h1 : Still w w1) (h2 : Still w1 w2) : Still w w2 := by
  obtain ⟨a1, m1, l1, e1, v1⟩ := h1
  obtain ⟨a2, m2, l2, e2, v2⟩ := h2
  refine ⟨a1.agree_trans a2, m2.trans m1, l1 ++ l2, ?_, ?_⟩
  · rw [e2, e1, List.append_assoc]
  · intro c hc
    rcases List.mem_append.mp hc with h | h
    · exact v1 c h
    · exact v2 c h

theorem Still.still_noFaults {w w1 : World} (h : Still w w1) (hf : NoFaults w) : NoFaults w1 :=
  h.1.noFaults hf

theorem Still.still_agree {S : Mods} {w w1 : World} (h : Still w w1) (hS : S.pvcs = true) :
    Agree S w w1 :=
  h.1.widen (by
    unfold Mods.le
    simp [hS])

theorem Reruns.as_quiet {α : Type} {m : M α} {Pre : World → Prop}
    {P : World → World → Prop} (h : Reruns Pre P m) : RerunsAs Quiet Pre (fun _ => P) m := h

theorem RerunsAs.as_weaken {α : Type} {m : M α} {Q Q1 : World → World → Prop}
    {Pre Pre1 : World → Prop} {P P1 : α → World → World → Prop} (h : RerunsAs Q Pre P m)
    (hq : ∀ w w1, Q w w1 → Q1 w w1) (hpre : ∀ w, Pre1 w → Pre w)
    (hp : ∀ r w w1, P1 r w w1 → P r w w1) : RerunsAs Q1 Pre1 P1 m := by
  intro w r wa hnf hp1 hrun w2 hnf2 hag
  obtain ⟨w3, h3, hq3⟩ := h w r wa hnf (hpre w hp1) hrun w2 hnf2 (hp _ _ _ hag)
  exact ⟨w3, h3, hq _ _ hq3⟩

theorem RerunsAs.as_pure {α : Type} (Q : World → World → Prop) (hQ : ∀ w, Q w w)
    (Pre : World → Prop) (P : α → World → World → Prop) (a : α) :
    RerunsAs Q Pre P (Pure.pure a : M α) := by
  intro w r wa _ _ h w2 _ _
  simp only [M.pure_run, Option.some.injEq, Prod.mk.injEq] at h
  exact ⟨w2, by rw [M.pure_run, h.1], hQ w2⟩

/-- Sequencing: the step reruns on what `P` relates; the rest reruns on what `P2`
relates; `hframe` carries a relation over the rest of the first run back to the step,
`hstep` carries it over the second run of the step forward to the rest. -/
theorem RerunsAs.as_bind {α β : Type} {m : M α} {f : α → M β} {Q1 Q2 Q : World → World → Prop}
    {Pre : World → Prop} {P : α → World → World → Prop} {P2 P3 : β → World → World → Prop}
    (Pre1 : World → Prop)
    (hm : RerunsAs Q1 Pre P m)
    (hpre : ∀ w a w1, NoFaults w → Pre w → m w = some (a, w1) → NoFaults w1 ∧ Pre1 w1)
    (hf : ∀ a, RerunsAs Q2 Pre1 P2 (f a))
    (hframe : ∀ a w1 r wa, NoFaults w1 → Pre1 w1 → f a w1 = some (r, wa) →
      ∀ w2, P3 r wa w2 → P a w1 w2)
    (hstep : ∀ r wa w2 w3, P3 r wa w2 → Q1 w2 w3 → P2 r wa w3)
    (hnf : ∀ w w1, Q1 w w1 → NoFaults w → NoFaults w1)
    (hcomp : ∀ w w1 w2, Q1 w w1 → Q2 w1 w2 → Q w w2) :
    RerunsAs Q Pre P3 (m >>= f) := by
  intro w r wa hnfw hp h w2 hnf2 hag
  rw [M.bind_eq_some] at h
  obtain ⟨a, w1, h1, h2⟩ := h
  obtain ⟨hnf1, hpre1⟩ := hpre w a w1 hnfw hp h1
  obtain ⟨w3, hr1, hq1⟩ := hm w a w1 hnfw hp h1 w2 hnf2 (hframe a w1 r wa hnf1 hpre1 h2 w2 hag)
  obtain ⟨w4, hr2, hq2⟩ := hf a w1 r wa hnf1 hpre1 h2 w3 (hnf _ _ hq1 hnf2)
    (hstep r wa w2 w3 hag hq1)
  refine ⟨w4, ?_, hcomp _ _ _ hq1 hq2⟩
  rw [M.bind_run, hr1]
  exact hr2

/-- Sequencing a quiet step with a rest that leaves the state still. -/
theorem RerunsAs.as_seq {α β : Type} {m : M α} {f : α → M β} {Pre : World → Prop}
    {S : Mods} (T T1 : Mods) (Pre1 : World → Prop)
    (hm : Reruns Pre (Agree (S.union T1)) m) (hmods : Modifies T m)
    (hpre : ∀ w a w1, Pre w → m w = some (a, w1) → Agree T w w1 → Pre1 w1)
    (hf : ∀ a, RerunsAs Still Pre1 (fun _ => Agree S) (f a)) (hfm : ∀ a, Modifies T1 (f a)) :
    RerunsAs Still Pre (fun _ => Agree S) (m >>= f) :=
  RerunsAs.as_bind Pre1 hm.as_quiet
    (fun w a w1 hnf hp h => ⟨(hmods.run _ _ _ h).noFaults hnf, hpre w a w1 hp h (hmods.run _ _ _ h)⟩)
    hf
    (fun a _ _ _ _ _ h _ hag =>
      Agree.after (hfm a) h hag (Mods.le_union_right S T1) (Mods.le_union_left S T1))
    (fun _ _ _ _ hag hq => hag.agree_trans hq.agree)
    (fun _ _ hq hnf => hq.quiet_noFaults hnf)
    (fun _ _ _ hq hs => hq.still.still_trans hs)

theorem removeFinalizer_idem (fs : List String) (f : String) :
    removeFinalizer (removeFinalizer fs f) f = removeFinalizer fs f := by
  unfold removeFinalizer
  rw [List.filter_filter]
  simp

theorem directCopyForm_idem (p : PersistentVolumeClaim) :
    directCopyForm (directCopyForm p) = directCopyForm p := by
  unfold directCopyForm
  simp only [removeFinalizer_idem, Option.getD_some, List.filter_filter, Bool.and_self]

theorem directCopyForm_written (v : VSHandler) (p : PersistentVolumeClaim) :
    v.removeOCMAnnotationsAndUpdate pvcKind { p with ObjectMeta := { p.ObjectMeta with
        Finalizers := removeFinalizer p.ObjectMeta.Finalizers PVCFinalizerProtected } } =
      clientUpdate pvcKind (directCopyForm p) := rfl

/-- An update that keeps the object stored changes nothing that `g` shows, when `g`
shows the same of the written object as of every object it replaces. -/
theorem storeUpdate_map_same {α β : Type} {K : Kind α} (g : α → β) {l : List α} {o : α}
    (hkeep : (metaIsDeleted (K.meta o) && (K.meta o).Finalizers.isEmpty) = false)
    (h : ∀ x ∈ l, hasKey (K.meta x) (K.meta o).Namespace (K.meta o).Name = true → g o = g x) :
    (storeUpdate K l o).map g = l.map g := by
  unfold storeUpdate
  simp only [hkeep, Bool.false_eq_true, if_false]
  induction l with
  | nil => rfl
  | cons x xs ih =>
    have ih1 := ih (fun y hy => h y (List.mem_cons_of_mem _ hy))
    rw [List.filterMap_cons]
    by_cases hk : hasKey (K.meta x) (K.meta o).Namespace (K.meta o).Name = true
    · simp only [hk, if_true, List.map_cons, ih1]
      rw [h x (List.mem_cons_self _ _) hk]
    · simp only [hk, if_false, List.map_cons, ih1, Bool.false_eq_true]

theorem getPVC_run_found (v : VSHandler) (key : NamespacedName) (w : World)
    (pvc : PersistentVolumeClaim) (hf : NoFaults w)
    (hpvc : storeGet pvcKind.meta w.pvcs key.Namespace key.Name = some pvc) :
    v.getPVC key w = some ((some pvc, none), w.tick) := by
  unfold VSHandler.getPVC
  rw [M.bind_run, clientGet_run_found (hf _) hpvc]
  rfl

theorem getPVC_run_missing (v : VSHandler) (key : NamespacedName) (w : World) (hf : NoFaults w)
    (hpvc : storeGet pvcKind.meta w.pvcs key.Namespace key.Name = none) :
    v.getPVC key w = some ((none, some .notFound), w.tick) := by
  unfold VSHandler.getPVC
  rw [M.bind_run, clientGet_run_missing (hf _) hpvc]
  rfl

theorem NoFaults.noFaults_tick {w : World} (h : NoFaults w) : NoFaults w.tick := h

/-- What `EnsurePVCforDirectCopy` does with a claim it finds: one update, writing the
claim without the protection finalizer and the OCM annotations. -/
theorem EnsurePVCforDirectCopy_run_found (v : VSHandler)
    (rdSpec : VolSyncReplicationDestinationSpec) (w : World) (p : PersistentVolumeClaim)
    (hnf : NoFaults w) (ham : rdSpec.ProtectedPVC.AccessModes ≠ [])
    (hg : storeGet pvcKind.meta w.pvcs rdSpec.ProtectedPVC.Namespace rdSpec.ProtectedPVC.Name
      = some p) :
    v.EnsurePVCforDirectCopy rdSpec w = some (none,
      pvcKind.put (w.tick.logged ⟨.update, pvcKind.tag, rdSpec.ProtectedPVC.Namespace,
          rdSpec.ProtectedPVC.Name⟩)
        (storeUpdate pvcKind w.pvcs (directCopyForm p))) := by
  have hk : p.ObjectMeta.Namespace = rdSpec.ProtectedPVC.Namespace ∧
      p.ObjectMeta.Name = rdSpec.ProtectedPVC.Name := (hasKey_iff _ _ _).mp (storeGet_hasKey hg)
  have hlen : (rdSpec.ProtectedPVC.AccessModes.length == 0) = false := by
    cases hl : rdSpec.ProtectedPVC.AccessModes with
    | nil => exact absurd hl ham
    | cons a l => rfl
  unfold VSHandler.EnsurePVCforDirectCopy
  simp only [hlen, Bool.false_eq_true, if_false, EnsurePVCforDirectCopy_capacity_test_dead]
  rw [M.bind_run, getPVC_run_found v _ w p hnf hg]
  dsimp only
  simp only [Bool.false_eq_true, if_false]
  rw [directCopyForm_written]
  have hg1 : storeGet pvcKind.meta (pvcKind.objs w.tick) (pvcKind.meta (directCopyForm p)).Namespace
      (pvcKind.meta (directCopyForm p)).Name = some p := by
    show storeGet pvcKind.meta w.pvcs p.ObjectMeta.Namespace p.ObjectMeta.Name = some p
    rw [hk.1, hk.2]
    exact hg
  rw [clientUpdate_run_found (hnf.noFaults_tick _) hg1]
  show some (none, pvcKind.put (w.tick.logged ⟨.update, pvcKind.tag, p.ObjectMeta.Namespace,
    p.ObjectMeta.Name⟩) (storeUpdate pvcKind w.pvcs (directCopyForm p))) = _
  rw [hk.1, hk.2]

theorem SetControllerReferenceMeta_annotations (a k : String) (owner m : ObjectMeta) :
    (SetControllerReferenceMeta a k owner m).1.Annotations = m.Annotations := by
  unfold SetControllerReferenceMeta
  split
  · rfl
  · dsimp only
    split
    · split <;> rfl
    · rfl

theorem mutateDirectCopyPVC_keeps (v : VSHandler) (rdSpec : VolSyncReplicationDestinationSpec)
    (o o2 : PersistentVolumeClaim) (h : v.mutateDirectCopyPVC rdSpec o = (o2, none)) :
    o2.ObjectMeta.DeletionTimestamp = o.ObjectMeta.DeletionTimestamp ∧
    o2.ObjectMeta.Finalizers = o.ObjectMeta.Finalizers ∧
    o2.ObjectMeta.Annotations = o.ObjectMeta.Annotations := by
  have hs := SetControllerReferenceMeta_keeps v.owner.APIVersion v.owner.Kind v.owner.ObjectMeta
    o.ObjectMeta
  have ha := SetControllerReferenceMeta_annotations v.owner.APIVersion v.owner.Kind
    v.owner.ObjectMeta o.ObjectMeta
  unfold VSHandler.mutateDirectCopyPVC at h
  generalize hq : (if (!v.vrgInAdminNamespace) = true then SetControllerReference pvcKind v.owner o
    else (o, none)) = q at h
  obtain ⟨p1, e⟩ := q
  have hp1 : p1.ObjectMeta.DeletionTimestamp = o.ObjectMeta.DeletionTimestamp ∧
      p1.ObjectMeta.Finalizers = o.ObjectMeta.Finalizers ∧
      p1.ObjectMeta.Annotations = o.ObjectMeta.Annotations := by
    split at hq
    · unfold SetControllerReference at hq
      simp only [Prod.mk.injEq] at hq
      rw [← hq.1]
      exact ⟨hs.1, hs.2, ha⟩
    · simp only [Prod.mk.injEq] at hq
      rw [← hq.1]
      exact ⟨rfl, rfl, rfl⟩
  cases e with
  | some e1 => simp at h
  | none =>
    simp only [Prod.mk.injEq, and_true] at h
    subst h
    dsimp only
    split <;> exact hp1

theorem CreateOrUpdate_run_missing_error {α : Type} [DecidableEq α] {K : Kind α} {obj o1 : α}
    {f : α → Option (α × Option Err)} {w : World} {e : Err} (hf : w.faults w.calls = false)
    (hg : storeGet K.meta (K.objs w) (K.meta obj).Namespace (K.meta obj).Name = none)
    (hm : mutate K f (K.meta obj).Namespace (K.meta obj).Name obj = some (o1, some e)) :
    CreateOrUpdate K obj f w = some ((.None, o1, some e), w.tick) := by
  unfold CreateOrUpdate
  simp only [M.bind_run, clientGet_run_missing hf hg, Err.IsNotFound, if_true, hm]
  rfl

theorem CreateOrUpdate_run_missing_ok {α : Type} [DecidableEq α] {K : Kind α} {obj o1 : α}
    {f : α → Option (α × Option Err)} {w : World} (hf : NoFaults w)
    (htick : ∀ w : World, K.objs w.tick = K.objs w)
    (hg : storeGet K.meta (K.objs w) (K.meta obj).Namespace (K.meta obj).Name = none)
    (hm : mutate K f (K.meta obj).Namespace (K.meta obj).Name obj = some (o1, none)) :
    CreateOrUpdate K obj f w = some ((.Created, asCreated K o1 (w.calls + 2), none),
      K.put (w.tick.logged ⟨.create, K.tag, (K.meta obj).Namespace, (K.meta obj).Name⟩)
        (K.objs w ++ [asCreated K o1 (w.calls + 2)])) := by
  obtain ⟨-, hk⟩ := mutate_ok hm
  rw [hasKey_iff] at hk
  have hg1 : storeGet K.meta (K.objs w.tick) (K.meta o1).Namespace (K.meta o1).Name = none := by
    rw [htick, hk.1, hk.2]
    exact hg
  unfold CreateOrUpdate
  simp only [M.bind_run, clientGet_run_missing (hf _) hg, Err.IsNotFound, if_true, hm,
    clientCreate_run_new (hf.noFaults_tick _) hg1, htick, hk.1, hk.2]
  rfl

/-- What `EnsurePVCforDirectCopy` does when no claim is stored under the key: either
the `MutateFn` fails, on every state with these claims alike, or the claim is created
with no finalizer and no annotation. -/
theorem EnsurePVCforDirectCopy_run_missing (v : VSHandler)
    (rdSpec : VolSyncReplicationDestinationSpec) (w : World)
    (hnf : NoFaults w) (ham : rdSpec.ProtectedPVC.AccessModes ≠ [])
    (hg : storeGet pvcKind.meta w.pvcs rdSpec.ProtectedPVC.Namespace rdSpec.ProtectedPVC.Name
      = none) :
    (∃ e, ∀ w2, NoFaults w2 → w2.pvcs = w.pvcs →
      v.EnsurePVCforDirectCopy rdSpec w2 = some (some e, w2.tick.tick)) ∨
    (∃ c, v.EnsurePVCforDirectCopy rdSpec w = some (none,
        pvcKind.put (w.tick.tick.logged ⟨.create, pvcKind.tag, rdSpec.ProtectedPVC.Namespace,
          rdSpec.ProtectedPVC.Name⟩) (w.pvcs ++ [c])) ∧
      hasKey c.ObjectMeta rdSpec.ProtectedPVC.Namespace rdSpec.ProtectedPVC.Name = true ∧
      c.ObjectMeta.DeletionTimestamp = none ∧ c.ObjectMeta.Finalizers = [] ∧
      c.ObjectMeta.Annotations = none) := by
  have hlen : (rdSpec.ProtectedPVC.AccessModes.length == 0) = false := by
    cases hl : rdSpec.ProtectedPVC.AccessModes with
    | nil => exact absurd hl ham
    | cons a l => rfl
  have hrun : ∀ w2 : World, NoFaults w2 → w2.pvcs = w.pvcs →
      v.EnsurePVCforDirectCopy rdSpec w2 =
        ((CreateOrUpdate pvcKind (util.AddLabel pvcKind
            { ObjectMeta := { Name := rdSpec.ProtectedPVC.Name,
                              Namespace := rdSpec.ProtectedPVC.Namespace } }
            util.CreatedByRamenLabel "true")
          (fun o => some (v.mutateDirectCopyPVC rdSpec o))) >>= fun r => pure r.2.2) w2.tick := by
    intro w2 hnf2 hp2
    unfold VSHandler.EnsurePVCforDirectCopy
    simp only [hlen, Bool.false_eq_true, if_false, EnsurePVCforDirectCopy_capacity_test_dead]
    rw [M.bind_run, getPVC_run_missing v _ w2 hnf2 (by rw [hp2]; exact hg)]
    rfl
  generalize hobj : (util.AddLabel pvcKind
      ({ ObjectMeta := { Name := rdSpec.ProtectedPVC.Name,
                         Namespace := rdSpec.ProtectedPVC.Namespace } } : PersistentVolumeClaim)
      util.CreatedByRamenLabel "true") = pvc0 at hrun
  have hkey : (pvcKind.meta pvc0).Namespace = rdSpec.ProtectedPVC.Namespace ∧
      (pvcKind.meta pvc0).Name = rdSpec.ProtectedPVC.Name ∧
      pvc0.ObjectMeta.DeletionTimestamp = none ∧ pvc0.ObjectMeta.Finalizers = [] ∧
      pvc0.ObjectMeta.Annotations = none := by
    subst hobj
    unfold util.AddLabel util.metaAddLabel
    split <;> exact ⟨rfl, rfl, rfl, rfl, rfl⟩
  cases hm : mutate pvcKind (fun o => some (v.mutateDirectCopyPVC rdSpec o))
      (pvcKind.meta pvc0).Namespace (pvcKind.meta pvc0).Name pvc0 with
  | none => exact absurd hm (mutate_ne_none _ _ _ _ _)
  | some r =>
    obtain ⟨o1, e⟩ := r
    cases e with
    | some e1 =>
      left
      refine ⟨e1, fun w2 hnf2 hp2 => ?_⟩
      rw [hrun w2 hnf2 hp2, M.bind_run, CreateOrUpdate_run_missing_error (hnf2.noFaults_tick _)
        (by
          show storeGet pvcKind.meta w2.pvcs _ _ = none
          rw [hp2, hkey.1, hkey.2.1]
          exact hg) hm]
      rfl
    | none =>
      right
      obtain ⟨hfo, hk⟩ := mutate_ok hm
      simp only [Option.some.injEq] at hfo
      obtain ⟨k1, k2, k3⟩ := mutateDirectCopyPVC_keeps v rdSpec pvc0 o1 hfo
      refine ⟨asCreated pvcKind o1 (w.tick.calls + 2), ?_, ?_, rfl, ?_, ?_⟩
      · rw [hrun w hnf rfl, M.bind_run, CreateOrUpdate_run_missing_ok hnf.noFaults_tick
          (fun _ => rfl)
          (by
            show storeGet pvcKind.meta w.pvcs _ _ = none
            rw [hkey.1, hkey.2.1]
            exact hg) hm]
        rw [hkey.1, hkey.2.1]
        rfl
      · rw [hkey.1, hkey.2.1] at hk
        exact hk
      · show o1.ObjectMeta.Finalizers = []
        rw [k2]
        exact hkey.2.2.2.1
      · show o1.ObjectMeta.Annotations = none
        rw [k3]
        exact hkey.2.2.2.2

theorem servedPVC_directCopyForm_fresh (c : PersistentVolumeClaim)
    (hF : c.ObjectMeta.Finalizers = []) (hA : c.ObjectMeta.Annotations = none) :
    servedPVC (directCopyForm c) = servedPVC c := by
  obtain ⟨⟨n, ns, uid, rv, ct, dt, lab, ann, own, fin⟩, spec, phase⟩ := c
  simp only at hF hA
  subst hF hA
  rfl

theorem directCopyForm_storable (p : PersistentVolumeClaim)
    (h : metaIsDeleted p.ObjectMeta = true →
      removeFinalizer p.ObjectMeta.Finalizers PVCFinalizerProtected ≠ []) :
    (metaIsDeleted (pvcKind.meta (directCopyForm p)) &&
      (pvcKind.meta (directCopyForm p)).Finalizers.isEmpty) = false := by
  cases hd : metaIsDeleted p.ObjectMeta with
  | false =>
    have : metaIsDeleted (pvcKind.meta (directCopyForm p)) = false := hd
    rw [this]
    rfl
  | true =>
    have hne := h hd
    have : (pvcKind.meta (directCopyForm p)).Finalizers =
        removeFinalizer p.ObjectMeta.Finalizers PVCFinalizerProtected := rfl
    rw [this]
    simp [List.isEmpty_iff, hne]

/-- The first pass of `EnsurePVCforDirectCopy`, on a cluster without client failures
whose claim is not held by the protection finalizer alone: it fails without changing
a claim, and fails alike on every state with these claims; or it succeeds and leaves
the claim settled. -/
theorem EnsurePVCforDirectCopy_first (v : VSHandler)
    (rdSpec : VolSyncReplicationDestinationSpec) (w w1 : World) (r : Option Err)
    (hnf : NoFaults w)
    (hheld : ClaimHeld w rdSpec.ProtectedPVC.Namespace rdSpec.ProtectedPVC.Name)
    (h : v.EnsurePVCforDirectCopy rdSpec w = some (r, w1)) :
    (∃ e, r = some e ∧ w1.pvcs = w.pvcs ∧ ∀ w2, NoFaults w2 → w2.pvcs = w.pvcs →
      ∃ w3, v.EnsurePVCforDirectCopy rdSpec w2 = some (some e, w3) ∧ Quiet w2 w3) ∨
    (r = none ∧ rdSpec.ProtectedPVC.AccessModes ≠ [] ∧
      ClaimSettled w1.pvcs rdSpec.ProtectedPVC.Namespace rdSpec.ProtectedPVC.Name ∧
      ∃ p, storeGet pvcKind.meta w1.pvcs rdSpec.ProtectedPVC.Namespace
        rdSpec.ProtectedPVC.Name = some p) := by
  by_cases ham : rdSpec.ProtectedPVC.AccessModes = []
  · left
    rw [EnsurePVCforDirectCopy_needs_access_modes v rdSpec w ham] at h
    simp only [Option.some.injEq, Prod.mk.injEq] at h
    refine ⟨_, h.1.symm, by rw [← h.2], fun w2 _ _ => ⟨w2, ?_, Quiet.quiet_refl w2⟩⟩
    exact EnsurePVCforDirectCopy_needs_access_modes v rdSpec w2 ham
  · cases hg : storeGet pvcKind.meta w.pvcs rdSpec.ProtectedPVC.Namespace
        rdSpec.ProtectedPVC.Name with
    | some p =>
      right
      rw [EnsurePVCforDirectCopy_run_found v rdSpec w p hnf ham hg] at h
      simp only [Option.some.injEq, Prod.mk.injEq] at h
      obtain ⟨hr, hw⟩ := h
      subst hw
      have hk := storeGet_hasKey hg
      have hkn : p.ObjectMeta.Namespace = rdSpec.ProtectedPVC.Namespace ∧
          p.ObjectMeta.Name = rdSpec.ProtectedPVC.Name := (hasKey_iff _ _ _).mp hk
      have hp := hheld p (storeGet_mem hg) hk
      have hkeep := directCopyForm_storable p hp
      have hst : Storable (pvcKind.meta (directCopyForm p)) := by
        intro hd hfin
        rw [hd, hfin] at hkeep
        cases hkeep
      refine ⟨hr.symm, ham, ?_, directCopyForm p, ?_⟩
      · intro x hx hxk
        have hxo : x = directCopyForm p := by
          refine mem_storeUpdate_key hx ?_
          show hasKey x.ObjectMeta p.ObjectMeta.Namespace p.ObjectMeta.Name = true
          rw [hkn.1, hkn.2]
          exact hxk
        subst hxo
        refine ⟨?_, by rw [directCopyForm_idem], ?_⟩
        · intro hd
          show removeFinalizer (removeFinalizer p.ObjectMeta.Finalizers PVCFinalizerProtected)
            PVCFinalizerProtected ≠ []
          rw [removeFinalizer_idem]
          exact hp hd
        · intro y hy hyk
          refine mem_storeUpdate_key hy ?_
          show hasKey y.ObjectMeta p.ObjectMeta.Namespace p.ObjectMeta.Name = true
          rw [hkn.1, hkn.2]
          exact hyk
      · exact storeGet_storeUpdate_key (K := pvcKind) hk hg hst
    | none =>
      rcases EnsurePVCforDirectCopy_run_missing v rdSpec w hnf ham hg with ⟨e, he⟩ | ⟨c, hc, hck, hcd, hcf, hca⟩
      · left
        rw [he w hnf rfl] at h
        simp only [Option.some.injEq, Prod.mk.injEq] at h
        refine ⟨e, h.1.symm, by rw [← h.2]; rfl, fun w2 hnf2 hp2 => ⟨_, he w2 hnf2 hp2, ?_⟩⟩
        exact (Quiet.quiet_tick w2).quiet_trans (Quiet.quiet_tick _)
      · right
        rw [hc] at h
        simp only [Option.some.injEq, Prod.mk.injEq] at h
        obtain ⟨hr, hw⟩ := h
        subst hw
        refine ⟨hr.symm, ham, ?_, c, storeGet_append_new hg hck⟩
        intro x hx hxk
        have hxc : ∀ y ∈ w.pvcs ++ [c], hasKey y.ObjectMeta rdSpec.ProtectedPVC.Namespace
            rdSpec.ProtectedPVC.Name = true → y = c := by
          intro y hy hyk
          rcases List.mem_append.mp hy with hy1 | hy1
          · have := storeGet_none hg hy1
            rw [show hasKey (pvcKind.meta y) rdSpec.ProtectedPVC.Namespace
              rdSpec.ProtectedPVC.Name = hasKey y.ObjectMeta _ _ from rfl, hyk] at this
            cases this
          · exact List.mem_singleton.mp hy1
        have hxe := hxc x hx hxk
        subst hxe
        refine ⟨?_, servedPVC_directCopyForm_fresh x hcf hca, hxc⟩
        intro hd
        unfold metaIsDeleted at hd
        rw [hcd] at hd
        cases hd

/-- The second pass of `EnsurePVCforDirectCopy`, on a settled claim: one update that
leaves the claim as the API server returns it. -/
theorem EnsurePVCforDirectCopy_again (v : VSHandler)
    (rdSpec : VolSyncReplicationDestinationSpec) (w2 : World) (p : PersistentVolumeClaim)
    (hnf2 : NoFaults w2) (ham : rdSpec.ProtectedPVC.AccessModes ≠ [])
    (hs : ClaimSettled w2.pvcs rdSpec.ProtectedPVC.Namespace rdSpec.ProtectedPVC.Name)
    (hp : storeGet pvcKind.meta w2.pvcs rdSpec.ProtectedPVC.Namespace rdSpec.ProtectedPVC.Name
      = some p) :
    ∃ w3, v.EnsurePVCforDirectCopy rdSpec w2 = some (none, w3) ∧ Still w2 w3 ∧
      ∃ p3, storeGet pvcKind.meta w3.pvcs rdSpec.ProtectedPVC.Namespace
        rdSpec.ProtectedPVC.Name = some p3 ∧ p3.Spec = p.Spec := by
  have hk := storeGet_hasKey hp
  have hkn : p.ObjectMeta.Namespace = rdSpec.ProtectedPVC.Namespace ∧
      p.ObjectMeta.Name = rdSpec.ProtectedPVC.Name := (hasKey_iff _ _ _).mp hk
  obtain ⟨hheld, hserved, huniq⟩ := hs p (storeGet_mem hp) hk
  have hkeep := directCopyForm_storable p hheld
  have hst : Storable (pvcKind.meta (directCopyForm p)) := by
    intro hd hfin
    rw [hd, hfin] at hkeep
    cases hkeep
  have hrun := EnsurePVCforDirectCopy_run_found v rdSpec w2 p hnf2 ham hp
  refine ⟨_, hrun, ⟨(EnsurePVCforDirectCopy_mods v rdSpec rfl).run _ _ _ hrun, ?_,
    [⟨.update, pvcKind.tag, rdSpec.ProtectedPVC.Namespace, rdSpec.ProtectedPVC.Name⟩], rfl, ?_⟩,
    directCopyForm p, storeGet_storeUpdate_key (K := pvcKind) hk hp hst, rfl⟩
  · show (storeUpdate pvcKind w2.pvcs (directCopyForm p)).map servedPVC = _
    refine storeUpdate_map_same servedPVC hkeep (fun x hx hxk => ?_)
    have hxk1 : hasKey x.ObjectMeta rdSpec.ProtectedPVC.Namespace rdSpec.ProtectedPVC.Name
        = true := by
      rw [← hkn.1, ← hkn.2]
      exact hxk
    rw [huniq x hx hxk1]
    exact hserved
  · intro c hc
    rw [List.mem_singleton] at hc
    subst hc
    exact Or.inr ⟨rfl, rfl⟩

/-- What `IsPVCInUseByNonRDPod` answers on a cluster without client failures that
holds the claim: in use when no destination is stored under the key and the claim is
mounted by a pod or its volume is attached to a node. -/
theorem IsPVCInUseByNonRDPod_run (v : VSHandler) (key : NamespacedName) (w : World)
    (pvc : PersistentVolumeClaim) (hnf : NoFaults w)
    (hpvc : storeGet pvcKind.meta w.pvcs key.Namespace key.Name = some pvc) :
    ∃ w1, v.IsPVCInUseByNonRDPod key w =
        some (((storeGet rdKind.meta w.rds key.Namespace key.Name).isNone &&
          (MountedByPod w key || AttachedToNode w pvc), none), w1) ∧ OnlyCalls w w1 := by
  unfold VSHandler.IsPVCInUseByNonRDPod
  cases hrd : storeGet rdKind.meta w.rds key.Namespace key.Name with
  | some rd =>
    refine ⟨w.tick, ?_, OnlyCalls.only_tick w⟩
    rw [M.bind_run, clientGet_run_found (hnf _) hrd]
    rfl
  | none =>
    obtain ⟨w1, hrun, hoc⟩ := pvcExistsAndInUse_run v key w.tick pvc hnf.noFaults_tick hpvc
    refine ⟨w1, ?_, ?_⟩
    · rw [M.bind_run, clientGet_run_missing (hnf _) hrd]
      simp only [Err.IsNotFound, Bool.not_true, Bool.false_eq_true, if_false]
      rw [M.bind_run, hrun]
      have e1 : MountedByPod w.tick key = MountedByPod w key := rfl
      have e2 : AttachedToNode w.tick pvc = AttachedToNode w pvc := rfl
      rw [e1, e2]
      cases (MountedByPod w key || AttachedToNode w pvc) <;> rfl
    · unfold OnlyCalls at hoc ⊢
      rw [hoc]
      rfl

theorem OnlyCalls.only_fields {w w1 : World} (h : OnlyCalls w w1) :
    w1.pvcs = w.pvcs ∧ w1.rds = w.rds ∧ w1.pods = w.pods ∧
    w1.volumeAttachments = w.volumeAttachments ∧ w1.workloadStatus = w.workloadStatus := by
  unfold OnlyCalls at h
  rw [h]
  exact ⟨rfl, rfl, rfl, rfl, rfl⟩

theorem Still.still_active {w w1 : World} (h : Still w w1) (ha : w.workloadStatus = "active") :
    Still w { w1 with workloadStatus := "active" } := by
  have hw : ({ w1 with workloadStatus := "active" } : World) = w1 := by
    have e := h.1.workloadStatus rfl
    rw [ha] at e
    obtain ⟨a1, a2, a3, a4, a5, a6, a7, a8, a9, a10, a11, a12, a13, a14, a15, a16, a17⟩ := w1
    simp only at e
    subst e
    rfl
  rw [hw]
  exact h

/-- In the Direct copy method, on a cluster without client failures whose claim is not
held by the protection finalizer alone, `PrecreateDestPVCIfEnabled` repeated returns
the same and leaves the state still. -/
theorem PrecreateDestPVCIfEnabled_direct_reruns (v : VSHandler)
    (hd : v.IsCopyMethodDirect = true) (rdSpec : VolSyncReplicationDestinationSpec) :
    RerunsAs Still
      (fun w => ClaimHeld w rdSpec.ProtectedPVC.Namespace rdSpec.ProtectedPVC.Name)
      (PrecreateKept rdSpec.ProtectedPVC.Namespace rdSpec.ProtectedPVC.Name)
      (v.PrecreateDestPVCIfEnabled rdSpec) := by
  intro w r wa hnf hheld h w2 hnf2 hk
  obtain ⟨kp, kpods, kva, kws, krd⟩ := hk
  unfold VSHandler.PrecreateDestPVCIfEnabled at h ⊢
  simp only [hd, Bool.not_true, Bool.false_eq_true, if_false] at h ⊢
  rw [M.bind_eq_some] at h
  obtain ⟨e0, w1, hens, h⟩ := h
  have hnf1 : NoFaults w1 :=
    ((EnsurePVCforDirectCopy_mods (S := { pvcs := true }) v rdSpec rfl).run _ _ _ hens).noFaults hnf
  rcases EnsurePVCforDirectCopy_first v rdSpec w w1 e0 hnf hheld hens with
    ⟨e, he, hpv, hre⟩ | ⟨hr0, ham, hset, p, hp⟩
  · subst he
    simp only [M.pure_run, Option.some.injEq, Prod.mk.injEq] at h
    obtain ⟨hr, hw⟩ := h
    subst hw
    obtain ⟨w3, hrun3, hq3⟩ := hre w2 hnf2 (by rw [kp, hpv])
    refine ⟨w3, ?_, hq3.still⟩
    rw [M.bind_run, hrun3]
    simp only [M.pure_run, hr]
  · subst hr0
    dsimp only at h
    obtain ⟨w1a, hin1, hoc1⟩ := IsPVCInUseByNonRDPod_run v
      (util.ProtectedPVCNamespacedName rdSpec.ProtectedPVC) w1 p hnf1 hp
    obtain ⟨f1, f2, f3, f4, f5⟩ := hoc1.only_fields
    rw [M.bind_run, hin1] at h
    dsimp only at h
    have hwap : wa.pvcs = w1.pvcs ∧ wa.rds = w1.rds ∧ wa.pods = w1.pods ∧
        wa.volumeAttachments = w1.volumeAttachments := by
      split at h
      · simp only [M.bind_run, modifyWorld, M.pure_run, Option.some.injEq, Prod.mk.injEq] at h
        rw [← h.2]
        exact ⟨f1, f2, f3, f4⟩
      · simp only [M.pure_run, Option.some.injEq, Prod.mk.injEq] at h
        rw [← h.2]
        exact ⟨f1, f2, f3, f4⟩
    have hp2 : storeGet pvcKind.meta w2.pvcs rdSpec.ProtectedPVC.Namespace
        rdSpec.ProtectedPVC.Name = some p := by
      rw [kp, hwap.1]
      exact hp
    obtain ⟨w3, hrun3, hs3, p3, hp3, hspec⟩ := EnsurePVCforDirectCopy_again v rdSpec w2 p hnf2 ham
      (by rw [kp, hwap.1]; exact hset) hp2
    have hnf3 : NoFaults w3 := hs3.still_noFaults hnf2
    obtain ⟨w3a, hin3, hoc3⟩ := IsPVCInUseByNonRDPod_run v
      (util.ProtectedPVCNamespacedName rdSpec.ProtectedPVC) w3 p3 hnf3 hp3
    have hag3 : Agree { pvcs := true } w2 w3 := hs3.1
    have em : MountedByPod w3 (util.ProtectedPVCNamespacedName rdSpec.ProtectedPVC) =
        MountedByPod w1 (util.ProtectedPVCNamespacedName rdSpec.ProtectedPVC) := by
      unfold MountedByPod
      rw [hag3.pods rfl, kpods, hwap.2.2.1]
    have ea : AttachedToNode w3 p3 = AttachedToNode w1 p := by
      unfold AttachedToNode
      rw [hag3.volumeAttachments rfl, kva, hwap.2.2.2, hspec]
    have erd : storeGet rdKind.meta w3.rds rdSpec.ProtectedPVC.Namespace rdSpec.ProtectedPVC.Name =
        storeGet rdKind.meta w2.rds rdSpec.ProtectedPVC.Namespace rdSpec.ProtectedPVC.Name := by
      rw [hag3.rds rfl]
    have hs3a : Still w2 w3a := hs3.still_trans (Quiet.of_onlyCalls hoc3).still
    rw [M.bind_run, hrun3]
    dsimp only
    rw [M.bind_run, hin3]
    dsimp only
    rw [em, ea]
    have ens : (util.ProtectedPVCNamespacedName rdSpec.ProtectedPVC).Namespace =
        rdSpec.ProtectedPVC.Namespace := rfl
    have enm : (util.ProtectedPVCNamespacedName rdSpec.ProtectedPVC).Name =
        rdSpec.ProtectedPVC.Name := rfl
    rw [ens, enm] at h ⊢
    rw [erd]
    by_cases hb : ((storeGet rdKind.meta w1.rds rdSpec.ProtectedPVC.Namespace
        rdSpec.ProtectedPVC.Name).isNone && (MountedByPod w1
          (util.ProtectedPVCNamespacedName rdSpec.ProtectedPVC) || AttachedToNode w1 p)) = true
    · rw [if_pos hb] at h
      simp only [M.bind_run, modifyWorld, M.pure_run, Option.some.injEq, Prod.mk.injEq] at h
      obtain ⟨hr, hw⟩ := h
      have hrd2 : storeGet rdKind.meta w2.rds rdSpec.ProtectedPVC.Namespace
          rdSpec.ProtectedPVC.Name = storeGet rdKind.meta w1.rds rdSpec.ProtectedPVC.Namespace
          rdSpec.ProtectedPVC.Name := by
        rcases krd with k | ⟨k, -⟩
        · rw [k, hwap.2.1]
        · rw [← hr] at k
          cases k
      rw [hrd2, if_pos hb]
      refine ⟨{ w3a with workloadStatus := "active" }, ?_, hs3a.still_active ?_⟩
      · simp only [M.bind_run, modifyWorld, M.pure_run, hr]
      · rw [kws, ← hw]
    · rw [if_neg hb] at h
      simp only [M.pure_run, Option.some.injEq, Prod.mk.injEq] at h
      obtain ⟨hr, hw⟩ := h
      have hb2 : ¬ ((storeGet rdKind.meta w2.rds rdSpec.ProtectedPVC.Namespace
          rdSpec.ProtectedPVC.Name).isNone && (MountedByPod w1
            (util.ProtectedPVCNamespacedName rdSpec.ProtectedPVC) || AttachedToNode w1 p)) = true := by
        rcases krd with k | ⟨-, k⟩
        · rw [k, hwap.2.1]
          exact hb
        · rw [Option.isSome_iff_exists] at k
          obtain ⟨x, hx⟩ := k
          rw [hx]
          simp
      rw [if_neg hb2]
      exact ⟨w3a, by simp only [M.pure_run, hr], hs3a⟩

theorem Still.still_refl (w : World) : Still w w := (Quiet.quiet_refl w).still

/-- Sequencing a quiet step, rerun on what `P` relates, with a rest that leaves the
state still. -/
theorem RerunsAs.as_first {α β : Type} {m : M α} {f : α → M β} {Pre : World → Prop}
    {P : World → World → Prop} {S : Mods} (T : Mods) (Pre1 : World → Prop)
    (hm : Reruns Pre P m) (hmods : Modifies T m)
    (hpre : ∀ w a w1, Pre w → m w = some (a, w1) → Agree T w w1 → Pre1 w1)
    (hf : ∀ a, RerunsAs Still Pre1 (fun _ => Agree S) (f a))
    (hframe : ∀ a w1 r wa, NoFaults w1 → f a w1 = some (r, wa) →
      ∀ w2, Agree S wa w2 → P w1 w2) :
    RerunsAs Still Pre (fun _ => Agree S) (m >>= f) :=
  RerunsAs.as_bind Pre1 hm.as_quiet
    (fun w a w1 hnf hp h => ⟨(hmods.run _ _ _ h).noFaults hnf, hpre w a w1 hp h (hmods.run _ _ _ h)⟩)
    hf
    (fun a w1 r wa hnf1 _ h w2 hag => hframe a w1 r wa hnf1 h w2 hag)
    (fun _ _ _ _ hag hq => hag.agree_trans hq.agree)
    (fun _ _ hq hnf => hq.quiet_noFaults hnf)
    (fun _ _ _ hq hs => hq.still.still_trans hs)

/-- Sequencing a step that leaves the state still with a quiet rest that does not look
at the claims. -/
theorem RerunsAs.as_then {α β : Type} {m : M α} {f : α → M β} {Pre : World → Prop}
    {P : α → World → World → Prop} (Pre1 : World → Prop) (S : Mods)
    (hm : RerunsAs Still Pre P m)
    (hpre : ∀ w a w1, NoFaults w → Pre w → m w = some (a, w1) → NoFaults w1 ∧ Pre1 w1)
    (hf : ∀ a, Reruns Pre1 (Agree S) (f a)) (hS : S.pvcs = true)
    (hframe : ∀ a w1 r wa, NoFaults w1 → Pre1 w1 → f a w1 = some (r, wa) →
      ∀ w2, Agree {} wa w2 → P a w1 w2) :
    RerunsAs Still Pre (fun _ => Agree {}) (m >>= f) :=
  RerunsAs.as_bind Pre1 hm hpre (fun a => (hf a).as_quiet) hframe
    (fun _ _ _ _ hag hq => (hag.widen (Mods.empty_le S)).agree_trans (hq.still_agree hS))
    (fun _ _ hq hnf => hq.still_noFaults hnf)
    (fun _ _ _ hs hq => hs.still_trans hq.still)

theorem ClaimHeld.held_of_pvcs {w w1 : World} {ns name : String} (h : ClaimHeld w ns name)
    (e : w1.pvcs = w.pvcs) : ClaimHeld w1 ns name := by
  unfold ClaimHeld at *
  rw [e]
  exact h

/-- After `createOrUpdateRD` the destinations are as before, or one is stored under
the key of the claim. -/
theorem createOrUpdateRD_stored (v : VSHandler) (hp : parseGroup v.owner.APIVersion ≠ none)
    (rdSpec : VolSyncReplicationDestinationSpec) (psk : String) (dst : Option String)
    (w wb : World) (res : Option ReplicationDestination × Option Err) (hnf : NoFaults w)
    (hwf : ∀ x ∈ w.rds, Storable x.ObjectMeta)
    (h : v.createOrUpdateRD rdSpec psk dst w = some (res, wb)) :
    wb.rds = w.rds ∨ (res.2 = none ∧ (storeGet rdKind.meta wb.rds rdSpec.ProtectedPVC.Namespace
      rdSpec.ProtectedPVC.Name).isSome = true) := by
  unfold VSHandler.createOrUpdateRD at h
  rw [M.bind_eq_some] at h
  obtain ⟨⟨vsc, err⟩, wa, hv, h⟩ := h
  have hag := (GetVolumeSnapshotClassFromPVCStorageClass_mods
    (S := { volumeSnapshotClassList := true }) v _ rfl).run _ _ _ hv
  have hwa : wa.rds = w.rds := hag.rds rfl
  have hnfa : NoFaults wa := hag.noFaults hnf
  cases err with
  | some e =>
    simp only [M.pure_run, Option.some.injEq, Prod.mk.injEq] at h
    left
    rw [← h.2]
    exact hwa
  | none =>
    dsimp only at h
    rw [M.bind_eq_some] at h
    obtain ⟨⟨op, rd1, cerr⟩, wc, hcu, h⟩ := h
    cases cerr with
    | some e =>
      simp only [M.pure_run, Option.some.injEq, Prod.mk.injEq] at h
      left
      rw [← h.2, CreateOrUpdate_error_frame (fun _ => rfl) hnfa hcu]
      exact hwa
    | none =>
      simp only [M.pure_run, Option.some.injEq, Prod.mk.injEq] at h
      right
      obtain ⟨hs, -⟩ := CreateOrUpdate_ok rdKind_lawful (fun _ _ => rfl) (fun _ => rfl) hcu
        (by
          show ∀ x ∈ wa.rds, Storable x.ObjectMeta
          rw [hwa]
          exact hwf)
        (fun o o2 ho => by
          simp only [Option.some.injEq] at ho
          exact (mutateRD_sets v hp rdSpec psk dst vsc o o2 ho).2)
      have hkey : (rdKind.meta (util.AddLabel rdKind
          ({ ObjectMeta := { Name := getReplicationDestinationName rdSpec.ProtectedPVC.Name,
                             Namespace := rdSpec.ProtectedPVC.Namespace } } : ReplicationDestination)
          util.CreatedByRamenLabel "true")).Namespace = rdSpec.ProtectedPVC.Namespace ∧
          (rdKind.meta (util.AddLabel rdKind
          ({ ObjectMeta := { Name := getReplicationDestinationName rdSpec.ProtectedPVC.Name,
                             Namespace := rdSpec.ProtectedPVC.Namespace } } : ReplicationDestination)
          util.CreatedByRamenLabel "true")).Name = rdSpec.ProtectedPVC.Name := by
        unfold util.AddLabel util.metaAddLabel
        split <;> exact ⟨rfl, rfl⟩
      rw [hkey.1, hkey.2] at hs
      refine ⟨by rw [← h.1], ?_⟩
      rw [← h.2]
      show (storeGet rdKind.meta (rdKind.objs wc) _ _).isSome = true
      rw [hs]
      rfl

theorem getPVC_total (v : VSHandler) (key : NamespacedName) : Total (v.getPVC key) := by
  unfold VSHandler.getPVC
  refine Total.total_bind (Total.total_clientGet _ _ _) (fun a => ?_)
  split <;> exact Total.total_pure _

theorem IsPVCInUseByPod_total (key : NamespacedName) (b : Bool) :
    Total (util.IsPVCInUseByPod key b) := by
  unfold util.IsPVCInUseByPod
  refine Total.total_bind (Total.total_clientList _ _ _) (fun a => ?_)
  split <;> exact Total.total_pure _

theorem IsPVAttachedToNode_total (pvc : PersistentVolumeClaim) :
    Total (util.IsPVAttachedToNode pvc) := by
  unfold util.IsPVAttachedToNode
  split
  · exact Total.total_pure _
  · refine Total.total_bind (Total.total_clientList _ _ _) (fun a => ?_)
    split <;> exact Total.total_pure _

theorem pvcExistsAndInUse_total (v : VSHandler) (key : NamespacedName) (b : Bool) :
    Total (v.pvcExistsAndInUse key b) := by
  unfold VSHandler.pvcExistsAndInUse
  refine Total.total_bind_of (getPVC_total _ _) ?_
  rintro w ⟨pvc, err⟩ w1 h
  cases err with
  | some e =>
    dsimp only
    split <;> exact ⟨_, _, rfl⟩
  | none =>
    obtain ⟨p, hp, -, -⟩ := getPVC_ok h
    subst hp
    have ht : Total (do
        let (inUseByPod, err1) ← util.IsPVCInUseByPod key b
        if err1.isSome || inUseByPod || b then pure (inUseByPod, err1)
        else
          let pvc ← deref (some p)
          util.IsPVAttachedToNode pvc : M (Bool × Option Err)) := by
      repeat' first
        | apply Total.total_pure
        | apply Total.total_deref_some
        | exact IsPVCInUseByPod_total _ _
        | exact IsPVAttachedToNode_total _
        | apply Total.total_bind
        | intro _
        | split
        | dsimp only
    exact ht.run w1

theorem IsPVCInUseByNonRDPod_total (v : VSHandler) (key : NamespacedName) :
    Total (v.IsPVCInUseByNonRDPod key) := by
  unfold VSHandler.IsPVCInUseByNonRDPod
  repeat' first
    | apply Total.total_pure
    | exact Total.total_clientGet _ _ _
    | exact pvcExistsAndInUse_total _ _ _
    | apply Total.total_bind
    | intro _
    | split
    | dsimp only

theorem EnsurePVCforDirectCopy_total (v : VSHandler)
    (rdSpec : VolSyncReplicationDestinationSpec) : Total (v.EnsurePVCforDirectCopy rdSpec) := by
  unfold VSHandler.EnsurePVCforDirectCopy VSHandler.removeOCMAnnotationsAndUpdate
  repeat' first
    | apply Total.total_pure
    | exact getPVC_total _ _
    | exact Total.total_clientUpdate _ _
    | exact CreateOrUpdate_total _ _ _
    | apply Total.total_bind
    | intro _
    | split
    | dsimp only

theorem PrecreateDestPVCIfEnabled_total (v : VSHandler)
    (rdSpec : VolSyncReplicationDestinationSpec) :
    Total (v.PrecreateDestPVCIfEnabled rdSpec) := by
  unfold VSHandler.PrecreateDestPVCIfEnabled
  repeat' first
    | apply Total.total_pure
    | exact EnsurePVCforDirectCopy_total _ _
    | exact IsPVCInUseByNonRDPod_total _ _
    | apply Total.total_modifyWorld
    | apply Total.total_bind
    | intro _
    | split
    | dsimp only

/-- In either copy method `ReconcileRD` returns on every cluster. -/
theorem ReconcileRD_total (v : VSHandler) (rdSpec : VolSyncReplicationDestinationSpec) :
    Total (v.ReconcileRD rdSpec) := by
  unfold VSHandler.ReconcileRD
  split
  · exact Total.total_pure _
  · refine Total.total_bind (ValidateSecretAndAddVRGOwnerRef_total _ _) (fun a => ?_)
    dsimp only
    split
    · exact Total.total_pure _
    · refine Total.total_bind ?_ (fun err1 => ?_)
      · split
        · exact CopySecretToPVCNamespace_total _ _ _
        · exact Total.total_pure _
      · split
        · exact Total.total_pure _
        · refine Total.total_bind (DeleteRS_total _ _ _) (fun err2 => ?_)
          split
          · exact Total.total_pure _
          · refine Total.total_bind (PrecreateDestPVCIfEnabled_total _ _) (fun pre => ?_)
            split
            · exact Total.total_pure _
            · refine Total.total_bind_of (createOrUpdateRD_total _ _ _ _) ?_
              rintro w ⟨rd, err3⟩ w1 h
              cases err3 with
              | some e => exact ⟨_, _, rfl⟩
              | none =>
                obtain ⟨x, hx⟩ := createOrUpdateRD_result v _ _ _ w w1 rd h
                subst hx
                have ht : Total (do
                    let rd ← deref (some x)
                    match ← v.ReconcileServiceExportForRD rd with
                    | some e => pure (none, some e)
                    | none =>
                      if !RDStatusReady rd then pure (none, none)
                      else
                        match ← v.pruneOldSnapshots rd.ObjectMeta.Namespace with
                        | some e => pure (none, some e)
                        | none => pure (some rd, none) :
                      M (Option ReplicationDestination × Option Err)) := by
                  repeat' first
                    | apply Total.total_pure
                    | apply Total.total_deref_some
                    | exact ReconcileServiceExportForRD_total _ _
                    | exact pruneOldSnapshots_total _ _
                    | apply Total.total_bind
                    | intro _
                    | split
                    | dsimp only
                exact ht.run w1

/-- In the Direct copy method, on a cluster without client failures whose claim is not
held by the protection finalizer alone, `ReconcileRD` repeated on the state it left
returns the same and leaves the state still: the objects other than claims and the
handler fields as they are, the claims as the API server returns them, with no create
and no update of another object. -/
theorem ReconcileRD_direct_reruns (v : VSHandler) (hp : parseGroup v.owner.APIVersion ≠ none)
    (hd : v.IsCopyMethodDirect = true) (rdSpec : VolSyncReplicationDestinationSpec) :
    RerunsAs Still
      (fun w => (StorableForRD w ∧ DistinctSnapshotTimes v w) ∧
        ClaimHeld w rdSpec.ProtectedPVC.Namespace rdSpec.ProtectedPVC.Name)
      (fun _ => Agree {}) (v.ReconcileRD rdSpec) := by
  unfold VSHandler.ReconcileRD
  split
  · exact RerunsAs.as_pure _ Still.still_refl _ _ _
  · refine RerunsAs.as_first { secrets := true }
      (fun w => ((∀ x ∈ w.rds, Storable x.ObjectMeta) ∧
        (∀ x ∈ w.serviceExports, Storable x.ObjectMeta) ∧ DistinctSnapshotTimes v w) ∧
        ClaimHeld w rdSpec.ProtectedPVC.Namespace rdSpec.ProtectedPVC.Name)
      ((ValidateSecretAndAddVRGOwnerRef_reruns v hp _).weaken (fun _ h => h.1.1.1)
        (fun _ _ h => h))
      (ValidateSecretAndAddVRGOwnerRef_mods v _ rfl) ?_ ?_ ?_
    · intro w a w1 hpre _ hag
      refine ⟨⟨?_, ?_, ?_⟩, hpre.2.held_of_pvcs (hag.pvcs rfl)⟩
      · rw [hag.rds rfl]
        exact hpre.1.1.2.1
      · rw [hag.serviceExports rfl]
        exact hpre.1.1.2.2
      · unfold DistinctSnapshotTimes
        rw [hag.snapshots rfl]
        exact hpre.1.2
    · rintro ⟨secretExists, err⟩
      dsimp only
      split
      · exact RerunsAs.as_pure _ Still.still_refl _ _ _
      · refine RerunsAs.as_seq { secrets := true }
          { rss := true, rds := true, volumeSnapshotClassList := true, serviceExports := true,
            snapshots := true, pvcs := true, workloadStatus := true }
          (fun w => ((∀ x ∈ w.rds, Storable x.ObjectMeta) ∧
            (∀ x ∈ w.serviceExports, Storable x.ObjectMeta) ∧ DistinctSnapshotTimes v w) ∧
            ClaimHeld w rdSpec.ProtectedPVC.Namespace rdSpec.ProtectedPVC.Name)
          ?_ ?_ ?_ ?_ ?_
        · split
          · exact (CopySecretToPVCNamespace_reruns v _ _ _ rfl).weaken (fun _ _ => trivial)
              (fun _ _ h => h)
          · exact Reruns.rerun_pure _ _ _
        · split
          · exact CopySecretToPVCNamespace_mods v _ _ rfl
          · exact Modifies.frame_pure _ _
        · intro w a w1 hpre _ hag
          refine ⟨⟨?_, ?_, ?_⟩, hpre.2.held_of_pvcs (hag.pvcs rfl)⟩
          · rw [hag.rds rfl]
            exact hpre.1.1
          · rw [hag.serviceExports rfl]
            exact hpre.1.2.1
          · unfold DistinctSnapshotTimes
            rw [hag.snapshots rfl]
            exact hpre.1.2.2
        · intro err1
          split
          · exact RerunsAs.as_pure _ Still.still_refl _ _ _
          · refine RerunsAs.as_seq { rss := true }
              { rds := true, volumeSnapshotClassList := true, serviceExports := true,
                snapshots := true, pvcs := true, workloadStatus := true }
              (fun w => ((∀ x ∈ w.rds, Storable x.ObjectMeta) ∧
                (∀ x ∈ w.serviceExports, Storable x.ObjectMeta) ∧ DistinctSnapshotTimes v w) ∧
                ClaimHeld w rdSpec.ProtectedPVC.Namespace rdSpec.ProtectedPVC.Name)
              ((DeleteRS_reruns v _ _ _ rfl).weaken (fun _ _ => trivial) (fun _ _ h => h))
              (DeleteRS_mods v _ _ rfl) ?_ ?_ ?_
            · intro w a w1 hpre _ hag
              refine ⟨⟨?_, ?_, ?_⟩, hpre.2.held_of_pvcs (hag.pvcs rfl)⟩
              · rw [hag.rds rfl]
                exact hpre.1.1
              · rw [hag.serviceExports rfl]
                exact hpre.1.2.1
              · unfold DistinctSnapshotTimes
                rw [hag.snapshots rfl]
                exact hpre.1.2.2
            · intro err2
              split
              · exact RerunsAs.as_pure _ Still.still_refl _ _ _
              · refine RerunsAs.as_then
                  (fun w => (∀ x ∈ w.rds, Storable x.ObjectMeta) ∧
                    (∀ x ∈ w.serviceExports, Storable x.ObjectMeta) ∧ DistinctSnapshotTimes v w)
                  { pvcs := true }
                  ((PrecreateDestPVCIfEnabled_direct_reruns v hd rdSpec).as_weaken
                    (fun _ _ h => h) (fun _ h => h.2) (fun _ _ _ h => h))
                  ?_ ?_ rfl ?_
                · intro w a w1 hnf hpre h
                  have hag := (PrecreateDestPVCIfEnabled_mods
                    (S := { pvcs := true, workloadStatus := true }) v rdSpec rfl rfl).run _ _ _ h
                  refine ⟨hag.noFaults hnf, ?_, ?_, ?_⟩
                  · rw [hag.rds rfl]
                    exact hpre.1.1
                  · rw [hag.serviceExports rfl]
                    exact hpre.1.2.1
                  · unfold DistinctSnapshotTimes
                    rw [hag.snapshots rfl]
                    exact hpre.1.2.2
                · intro pre
                  split
                  · exact Reruns.rerun_pure _ _ _
                  · refine Reruns.rerun_seq { rds := true, volumeSnapshotClassList := true }
                      { serviceExports := true, snapshots := true }
                      (fun w => (∀ x ∈ w.serviceExports, Storable x.ObjectMeta) ∧
                        DistinctSnapshotTimes v w)
                      ((createOrUpdateRD_reruns v hp rdSpec _ _ _ rfl rfl rfl).weaken
                        (fun _ h => h.1) (fun _ _ h => h))
                      (createOrUpdateRD_mods v _ _ _ rfl rfl) ?_ ?_ ?_
                    · intro w a w1 hpre _ hag
                      refine ⟨?_, ?_⟩
                      · rw [hag.serviceExports rfl]
                        exact hpre.2.1
                      · unfold DistinctSnapshotTimes
                        rw [hag.snapshots rfl]
                        exact hpre.2.2
                    · intro res
                      split
                      · exact Reruns.rerun_pure _ _ _
                      · refine Reruns.rerun_seq {} { serviceExports := true, snapshots := true }
                          (fun w => (∀ x ∈ w.serviceExports, Storable x.ObjectMeta) ∧
                            DistinctSnapshotTimes v w)
                          (Reruns.rerun_deref _ _ _) (Modifies.frame_deref _ _)
                          (fun w a w1 hpre _ hag => ⟨by rw [hag.serviceExports rfl]; exact hpre.1,
                            by unfold DistinctSnapshotTimes; rw [hag.snapshots rfl]; exact hpre.2⟩)
                          ?_ ?_
                        · intro rd
                          refine Reruns.rerun_seq { serviceExports := true } { snapshots := true }
                            (fun w => DistinctSnapshotTimes v w)
                            ((ReconcileServiceExportForRD_reruns v rd _ rfl).weaken
                              (fun _ h => h.1) (fun _ _ h => h))
                            (ReconcileServiceExportForRD_mods v rd rfl)
                            (fun w a w1 hpre _ hag => by
                              show DistinctSnapshotTimes v w1
                              unfold DistinctSnapshotTimes
                              rw [hag.snapshots rfl]
                              exact hpre.2)
                            ?_ ?_
                          · intro err4
                            split
                            · exact Reruns.rerun_pure _ _ _
                            · split
                              · exact Reruns.rerun_pure _ _ _
                              · refine Reruns.rerun_seq { snapshots := true } {} (fun _ => True)
                                  ((pruneOldSnapshots_reruns v _ _ rfl).weaken
                                    (fun _ h => h.distinct_prunable _) (fun _ _ h => h))
                                  (pruneOldSnapshots_mods v _ rfl) (fun _ _ _ _ _ _ => trivial)
                                  ?_ ?_
                                · intro err5
                                  split <;> exact Reruns.rerun_pure _ _ _
                                · intro err5
                                  split <;> exact Modifies.frame_pure _ _
                          · intro err4
                            repeat' first
                              | apply Modifies.frame_pure
                              | apply Modifies.frame_deref
                              | (simp [*]; done)
                              | apply Modifies.frame_bind
                              | intro _
                              | split
                              | dsimp only
                        · intro rd
                          repeat' first
                            | apply Modifies.frame_pure
                            | apply Modifies.frame_deref
                            | (simp [*]; done)
                            | apply Modifies.frame_bind
                            | intro _
                            | split
                            | dsimp only
                    · intro res
                      repeat' first
                        | apply Modifies.frame_pure
                        | apply Modifies.frame_deref
                        | (simp [*]; done)
                        | apply Modifies.frame_bind
                        | intro _
                        | split
                        | dsimp only
                · rintro ⟨dst, err2⟩ w1 r wa hnf1 hpre1 h w2 hag
                  have hm : Agree
                      { rds := true, volumeSnapshotClassList := true, serviceExports := true,
                        snapshots := true } w1 wa := by
                    refine Modifies.run ?_ w1 r wa h
                    repeat' first
                      | apply Modifies.frame_pure
                      | apply Modifies.frame_deref
                      | (simp [*]; done)
                      | apply Modifies.frame_bind
                      | intro _
                      | split
                      | dsimp only
                  refine ⟨by rw [hag.pvcs rfl, hm.pvcs rfl], by rw [hag.pods rfl, hm.pods rfl],
                    by rw [hag.volumeAttachments rfl, hm.volumeAttachments rfl],
                    by rw [hag.workloadStatus rfl, hm.workloadStatus rfl], ?_⟩
                  rw [hag.rds rfl]
                  cases err2 with
                  | some e =>
                    simp only [M.pure_run, Option.some.injEq, Prod.mk.injEq] at h
                    left
                    rw [h.2]
                  | none =>
                    dsimp only at h
                    rw [M.bind_eq_some] at h
                    obtain ⟨⟨rd, err3⟩, wb, hcu, h⟩ := h
                    have hrest : Agree { serviceExports := true, snapshots := true } wb wa := by
                      refine Modifies.run ?_ wb r wa h
                      repeat' first
                        | apply Modifies.frame_pure
                        | apply Modifies.frame_deref
                        | (simp [*]; done)
                        | apply Modifies.frame_bind
                        | intro _
                        | split
                        | dsimp only
                    rw [hrest.rds rfl]
                    rcases createOrUpdateRD_stored v hp rdSpec _ _ w1 wb _ hnf1 hpre1.1 hcu with
                      k | ⟨-, k⟩
                    · left
                      rw [k]
                    · right
                      exact ⟨rfl, k⟩
            · intro err2
              repeat' first
                | apply Modifies.frame_pure
                | apply Modifies.frame_deref
                | (simp [*]; done)
                | apply Modifies.frame_bind
                | intro _
                | split
                | dsimp only
        · intro err1
          repeat' first
            | apply Modifies.frame_pure
            | apply Modifies.frame_deref
            | (simp [*]; done)
            | apply Modifies.frame_bind
            | intro _
            | split
            | dsimp only
    · rintro ⟨secretExists, err⟩ w1 r wa hnf1 h w2 hag
      rw [hag.secrets rfl]
      dsimp only at h
      split at h
      · simp only [M.pure_run, Option.some.injEq, Prod.mk.injEq] at h
        rw [h.2]
      · rw [M.bind_eq_some] at h
        obtain ⟨e1, wb, hcopy, hrest⟩ := h
        have hb : storeGet secretKind.meta wb.secrets v.owner.ObjectMeta.Namespace
            (GetVolSyncPSKSecretNameFromVRGName v.owner.ObjectMeta.Name) =
            storeGet secretKind.meta w1.secrets v.owner.ObjectMeta.Namespace
              (GetVolSyncPSKSecretNameFromVRGName v.owner.ObjectMeta.Name) := by
          split at hcopy
          · exact (CopySecretToPVCNamespace_rerun v _ _ w1 wb e1 hnf1 hcopy).1
          · simp only [M.pure_run, Option.some.injEq, Prod.mk.injEq] at hcopy
            rw [hcopy.2]
        rw [← hb]
        have hag2 : Agree
            { rss := true, rds := true, volumeSnapshotClassList := true, serviceExports := true,
              snapshots := true, pvcs := true, workloadStatus := true } wb wa := by
          refine Modifies.run ?_ wb r wa hrest
          repeat' first
            | apply Modifies.frame_pure
            | apply Modifies.frame_deref
            | (simp [*]; done)
            | apply Modifies.frame_bind
            | intro _
            | split
            | dsimp only
        rw [hag2.secrets rfl]


/-! ## The claims -/

theorem ReconcileRS_deletes_owned_destinations (v : VSHandler)
    (rsSpec : VolSyncReplicationSourceSpec) (runFinalSync : Bool) (w w1 : World) (b : Bool)
    (rs : ReplicationSource) (e : Option Err) (hf : NoFaults w)
    (h : v.ReconcileRS rsSpec runFinalSync w = some ((b, some rs, e), w1)) :
    OwnedGone rdKind v w1.rds rsSpec.ProtectedPVC.Namespace rsSpec.ProtectedPVC.Name := by
  unfold VSHandler.ReconcileRS at h
  split at h
  · simp at h
  · rw [M.bind_eq_some] at h
    obtain ⟨⟨secretExists, err⟩, wa, hsec, h⟩ := h
    dsimp only at h
    split at h
    · simp at h
    · rw [M.bind_eq_some] at h
      obtain ⟨err1, wb, hcopy, h⟩ := h
      cases err1 with
      | some e1 => simp at h
      | none =>
        dsimp only at h
        rw [M.bind_eq_some] at h
        obtain ⟨derr, wc, hdel, h⟩ := h
        cases derr with
        | some e1 => simp at h
        | none =>
          dsimp only at h
          have hS : ({ secrets := true } : Mods).secrets = true := rfl
          have ha := (ValidateSecretAndAddVRGOwnerRef_mods v _ hS).run _ _ _ hsec
          have hb : Agree { secrets := true } wa wb := by
            refine Modifies.run ?_ _ _ _ hcopy
            split
            · exact CopySecretToPVCNamespace_mods v _ _ hS
            · exact Modifies.frame_pure _ _
          have hfb : NoFaults wb := hb.noFaults (ha.noFaults hf)
          have hgone := (DeleteRD_post v _ _ wb wc hfb hdel).1
          have hc : Agree { Mods.all with rds := false } wc w1 := by
            refine Modifies.run ?_ _ _ _ h
            repeat' first
              | apply Modifies.frame_pure
              | apply Modifies.frame_throwPanic
              | apply Modifies.frame_deref
              | exact validatePVCForFinalSync_mods _ _ _ rfl
              | exact getRS_mods _ _ _
              | exact createOrUpdateRS_mods _ _ _ _ rfl rfl rfl rfl
              | exact undoAfterFinalSync_mods _ _ _ rfl rfl
              | exact cleanupAfterRSFinalSync_mods _ _ rfl
              | apply Modifies.frame_bind
              | intro _
              | split
          rw [hc.rds rfl]
          exact hgone

/-- C2. `ReconcileRS` reports the final sync complete only when it was called with
`runFinalSync = true` and the source it reconciled carries a status whose
`lastManualSync` is the final-sync token; and in every cluster state a call with
`runFinalSync = false` returns, with `finalSyncComplete = false`. -/
theorem finalSyncComplete_only_after_final_sync (v : VSHandler) (rsSpec : VolSyncReplicationSourceSpec) :
    (∀ runFinalSync w rs e w1,
      v.ReconcileRS rsSpec runFinalSync w = some ((true, rs, e), w1) →
      runFinalSync = true ∧
        ∃ r st, rs = some r ∧ r.Status = some st ∧ st.LastManualSync = FinalSyncTriggerString) ∧
    (∀ w, ∃ rs e w1, v.ReconcileRS rsSpec false w = some ((false, rs, e), w1)) := by
  constructor
  · intro runFinalSync w rs e w1 h
    obtain ⟨h1, r, hr, hc⟩ := ReconcileRS_complete_inv v rsSpec runFinalSync w w1 rs e h
    refine ⟨h1, ?_⟩
    unfold isFinalSyncComplete at hc
    cases hst : r.Status with
    | none => rw [hst] at hc; simp at hc
    | some st =>
      rw [hst] at hc
      refine ⟨r, st, hr, hst, ?_⟩
      simpa using hc
  · intro w
    obtain ⟨⟨c, rs, e⟩, w1, h⟩ := (ReconcileRS_scheduled_total v rsSpec).run w
    cases c with
    | false => exact ⟨rs, e, w1, h⟩
    | true =>
      have := (ReconcileRS_complete_inv v rsSpec false w w1 rs e h).1
      simp at this

/-- Witness for C2: on a cluster whose source reports the final trigger as executed,
the call with `runFinalSync = true` reports completion, and the theorem applies. -/
theorem finalSyncComplete_only_after_final_sync_witness :
    (exHandler.ReconcileRS exRSSpec true exFinalWorld).map (fun r => (r.1.1, r.1.2.2)) =
        some (true, none) ∧
    (∀ rs e w1, exHandler.ReconcileRS exRSSpec true exFinalWorld = some ((true, rs, e), w1) →
      true = true ∧
        ∃ r st, rs = some r ∧ r.Status = some st ∧ st.LastManualSync = FinalSyncTriggerString) ∧
    (exHandler.ReconcileRS exRSSpec false exFinalWorld).map (fun r => r.1.1) = some false :=
  ⟨rfl, fun rs e w1 h =>
      (finalSyncComplete_only_after_final_sync exHandler exRSSpec).1 true exFinalWorld rs e w1 h,
    rfl⟩

/-- C3, as stated, fails. With `runFinalSync = true`, the status of the stored source
reporting the final token and no client call failing, `ReconcileRS` returns
`complete = false` when the application's claim is not marked deleted, and the
temporary claim stays; and with the copy method Direct, on a claim held by the
protection finalizer only, it returns `complete = true` and the application's claim is
gone afterwards. -/
theorem final_sync_end_state_counterexample :
    (storeGet rsKind.meta exFinalLiveWorld.rss "ns" "data" = some exFinalRS ∧
      isFinalSyncComplete exFinalRS = true ∧
      NoFaults exFinalLiveWorld ∧
      (exHandler.ReconcileRS exRSSpec true exFinalLiveWorld).map
          (fun r => (r.1, r.2.pvcs.map (fun o => (o.ObjectMeta.Name, metaIsDeleted o.ObjectMeta)))) =
        some ((false, none, none), [("data", false), ("data-for-finalsync", false)])) ∧
    (exHandlerDirect.IsCopyMethodDirect = true ∧
      (exHandlerDirect.ReconcileRS exRSSpec true exFinalReleasableWorld).map
          (fun r => (r.1.1, r.1.2.2, storeGet pvcKind.meta r.2.pvcs "ns" "data")) =
        some (true, none, none)) :=
  ⟨⟨rfl, rfl, fun _ => rfl, rfl⟩, rfl, rfl⟩

/-- C3, amended. When `ReconcileRS`, called with `runFinalSync = true`, is let through to
write the ReplicationSource (it reaches the validation of the claim, the claim is not in
use and the final-sync guard proceeds), the status of the written source has
`lastManualSync` equal to the final token, and `undoAfterFinalSync` and the cleanup
return no error, then it returns `complete = true`, the temporary claim
`<claim>-for-finalsync` has been deleted, and the application's claim has been deleted
when the copy method is not Direct; when it is Direct the cleanup changes nothing, and
the only delete issued from the undo on is the one of the temporary claim. -/
theorem final_sync_end_state (v : VSHandler) (rsSpec : VolSyncReplicationSourceSpec)
    (w wa wb wc wd we wf w1 : World) (rs : ReplicationSource) (st : ReplicationSourceStatus)
    (hprot : rsSpec.ProtectedPVC.ProtectedByVolSync = true)
    (hsec : v.ValidateSecretAndAddVRGOwnerRef
      (GetVolSyncPSKSecretNameFromVRGName v.owner.ObjectMeta.Name) w = some ((true, none), wa))
    (hcopy : (if v.vrgInAdminNamespace
        then v.CopySecretToPVCNamespace (GetVolSyncPSKSecretNameFromVRGName v.owner.ObjectMeta.Name)
          rsSpec.ProtectedPVC.Namespace
        else pure none) wa = some (none, wb))
    (hdel : v.DeleteRD rsSpec.ProtectedPVC.Name rsSpec.ProtectedPVC.Namespace wb = some (none, wc))
    (hval : v.validatePVCForFinalSync rsSpec true wc = some ((true, none), wd))
    (hrs : v.createOrUpdateRS rsSpec (GetVolSyncPSKSecretNameFromVRGName v.owner.ObjectMeta.Name)
      true wd = some ((some rs, none), we))
    (hst : rs.Status = some st) (hdone : st.LastManualSync = FinalSyncTriggerString)
    (hundo : v.undoAfterFinalSync rsSpec.ProtectedPVC.Name rsSpec.ProtectedPVC.Namespace we
      = some (none, wf))
    (hclean : v.cleanupAfterRSFinalSync rsSpec wf = some (none, w1)) :
    v.ReconcileRS rsSpec true w = some ((true, some rs, none), w1) ∧
    (∀ x ∈ w1.pvcs, hasKey x.ObjectMeta rsSpec.ProtectedPVC.Namespace
        (getTmpPVCNameForFinalSync rsSpec.ProtectedPVC.Name) = true →
      metaIsDeleted x.ObjectMeta = true) ∧
    (v.IsCopyMethodDirect = false →
      ∀ x ∈ w1.pvcs, hasKey x.ObjectMeta rsSpec.ProtectedPVC.Namespace rsSpec.ProtectedPVC.Name
          = true →
        metaIsDeleted x.ObjectMeta = true) ∧
    (v.IsCopyMethodDirect = true →
      w1 = wf ∧ ∃ l, w1.log = we.log ++ l ∧
        ∀ c ∈ l, c.verb = .delete → c.Name = getTmpPVCNameForFinalSync rsSpec.ProtectedPVC.Name) := by
  have hcomplete : isFinalSyncComplete rs = true := by
    simp [isFinalSyncComplete, hst, hdone]
  obtain ⟨htmp, l, hl, hlp⟩ := undoAfterFinalSync_tmp_gone v _ _ we wf hundo
  refine ⟨?_, ?_, ?_, ?_⟩
  · rw [ReconcileRS_reaches v rsSpec true w wa wb wc hprot hsec hcopy hdel]
    unfold ReconcileRS_fromValidation
    simp only [M.bind_run, hval, Bool.not_true, Option.isSome_none, Bool.or_false,
      Bool.false_eq_true, if_false, hrs, hcomplete, Bool.and_self, if_true, hundo, hclean]
    rfl
  · unfold VSHandler.cleanupAfterRSFinalSync at hclean
    split at hclean
    · simp only [M.pure_run, Option.some.injEq, Prod.mk.injEq, true_and] at hclean
      rw [← hclean]
      exact htmp
    · intro x hx hk
      obtain ⟨x0, hx0, hn, hns, hd⟩ := DeletePVC_pvcs _ _ _ _ _ hclean x hx
      apply hd
      apply htmp x0 hx0
      rw [hasKey_iff] at hk ⊢
      exact ⟨hns.trans hk.1, hn.trans hk.2⟩
  · intro hnd
    unfold VSHandler.cleanupAfterRSFinalSync at hclean
    rw [hnd] at hclean
    simp only [Bool.false_eq_true, if_false] at hclean
    exact DeletePVC_ok _ _ _ _ hclean
  · intro hd
    unfold VSHandler.cleanupAfterRSFinalSync at hclean
    rw [hd] at hclean
    simp only [if_true, M.pure_run, Option.some.injEq, Prod.mk.injEq, true_and] at hclean
    subst hclean
    exact ⟨rfl, l, hl, hlp⟩

/-- Witness for the amended C3: the final sync of the claim `data` with the Snapshot
copy method, step by step, ends with the temporary claim gone and the application's
claim marked deleted. -/
theorem final_sync_end_state_witness :
    exHandler.validatePVCForFinalSync exRSSpec true exFinalReadyWorld =
      some ((true, none), exFinalCheckedWorld) ∧
    exHandler.createOrUpdateRS exRSSpec "vrg-vs-secret" true exFinalCheckedWorld =
      some ((some exFinalWrittenRS, none), exFinalWrittenWorld) ∧
    exFinalCleanWorld.pvcs.map (fun o => (o.ObjectMeta.Name, metaIsDeleted o.ObjectMeta)) =
      [("data", true)] ∧
    (exHandler.ReconcileRS exRSSpec true exFinalWorld =
        some ((true, some exFinalWrittenRS, none), exFinalCleanWorld) ∧
      (∀ x ∈ exFinalCleanWorld.pvcs, hasKey x.ObjectMeta "ns" "data-for-finalsync" = true →
        metaIsDeleted x.ObjectMeta = true) ∧
      (exHandler.IsCopyMethodDirect = false →
        ∀ x ∈ exFinalCleanWorld.pvcs, hasKey x.ObjectMeta "ns" "data" = true →
          metaIsDeleted x.ObjectMeta = true) ∧
      (exHandler.IsCopyMethodDirect = true →
        exFinalCleanWorld = exFinalUndoneWorld ∧ ∃ l, exFinalCleanWorld.log = exFinalWrittenWorld.log ++ l ∧
          ∀ c ∈ l, c.verb = .delete → c.Name = "data-for-finalsync")) :=
  ⟨rfl, rfl, rfl,
    final_sync_end_state exHandler exRSSpec exFinalWorld exFinalSecretWorld exFinalSecretWorld
      exFinalReadyWorld exFinalCheckedWorld exFinalWrittenWorld exFinalUndoneWorld exFinalCleanWorld
      exFinalWrittenRS { LastManualSync := FinalSyncTriggerString } rfl rfl rfl rfl rfl rfl rfl rfl
      rfl rfl⟩

/-- C4, as stated, fails: with no ReplicationSource yet, `setupForFinalSync` called with
`runFinalSync = true` returns proceed after the one lookup of the source, although the
application's claim is stored and not marked deleted; `createOrUpdateRS` then creates
the source with the final-sync trigger. -/
theorem finalSync_guard_counterexample :
    exHandler.setupForFinalSync exRSSpec true exClaimWorld = some (false, exClaimWorld.tick) ∧
    storeGet pvcKind.meta exClaimWorld.pvcs "ns" "data" = some exPVC ∧
    util.ResourceIsDeleted exPVC.ObjectMeta = false ∧
    (exHandler.createOrUpdateRS exRSSpec "vrg-vs-secret" true exClaimWorld).map
        (fun r => (r.1.1.map (fun rs => rs.Spec.Trigger), r.1.2, r.2.log)) =
      some (some (some { Manual := FinalSyncTriggerString }), none,
        [⟨.create, "ReplicationSource", "ns", "data"⟩]) :=
  ⟨rfl, rfl, rfl, rfl⟩

/-- C4, amended. When the ReplicationSource of the claim exists, `setupForFinalSync`
called with `runFinalSync = true` returns proceed only if the application's claim was
looked up successfully and is marked deleted. When no ReplicationSource exists and the
lookup of it does not fail otherwise, it returns proceed without looking at the claim. -/
theorem finalSync_guard_when_source_exists (v : VSHandler)
    (rsSpec : VolSyncReplicationSourceSpec) (w : World) :
    (∀ rs w1, storeGet rsKind.meta w.rss rsSpec.ProtectedPVC.Namespace
          (getReplicationSourceName rsSpec.ProtectedPVC.Name) = some rs →
        v.setupForFinalSync rsSpec true w = some (false, w1) →
        ∃ pvc, storeGet pvcKind.meta w.pvcs rsSpec.ProtectedPVC.Namespace rsSpec.ProtectedPVC.Name
            = some pvc ∧
          util.ResourceIsDeleted pvc.ObjectMeta = true) ∧
    (storeGet rsKind.meta w.rss rsSpec.ProtectedPVC.Namespace
          (getReplicationSourceName rsSpec.ProtectedPVC.Name) = none →
        w.faults w.calls = false →
        v.setupForFinalSync rsSpec true w = some (false, w.tick)) := by
  constructor
  · intro rs w1 hrs h
    unfold VSHandler.setupForFinalSync at h
    rw [M.bind_eq_some] at h
    obtain ⟨⟨rs0, err⟩, w0, hget, h⟩ := h
    cases err with
    | some e =>
      obtain ⟨_, _, he⟩ := getRS_err hget
      dsimp only at h
      rcases he with he | ⟨_, hnone⟩
      · subst he
        simp [Err.IsNotFound] at h
      · rw [hnone] at hrs
        cases hrs
    | none =>
      obtain ⟨rs1, hr, _, hw0⟩ := getRS_ok hget
      subst hr
      dsimp only at h
      rw [M.bind_eq_some] at h
      obtain ⟨rs2, w0a, hd, h⟩ := h
      simp only [deref_some, Option.some.injEq, Prod.mk.injEq] at hd
      obtain ⟨hd1, hd2⟩ := hd
      subst hd1 hd2
      simp only [Bool.not_true, Bool.false_eq_true, if_false] at h
      rw [M.bind_eq_some] at h
      obtain ⟨⟨pvc0, err1⟩, w2, hgp, h⟩ := h
      cases err1 with
      | some e => simp at h
      | none =>
        obtain ⟨pvc, hp, hstored, _⟩ := getPVC_ok hgp
        subst hp
        dsimp only at h
        rw [M.bind_eq_some] at h
        obtain ⟨pvc1, w2a, hd, h⟩ := h
        simp only [deref_some, Option.some.injEq, Prod.mk.injEq] at hd
        obtain ⟨hd1, hd2⟩ := hd
        subst hd1 hd2
        rw [hw0] at hstored
        refine ⟨pvc, hstored, ?_⟩
        cases hdel : util.ResourceIsDeleted pvc.ObjectMeta with
        | true => rfl
        | false => simp [hdel] at h
  · intro hnone hf
    unfold VSHandler.setupForFinalSync VSHandler.getRS
    simp only [M.bind_run, clientGet_run_missing hf hnone, M.pure_run]
    rfl

/-- Witness for the amended C4: on the cluster where the final sync has completed, the
source exists, the guard returns proceed, and the claim is marked deleted. -/
theorem finalSync_guard_when_source_exists_witness :
    storeGet rsKind.meta exFinalWorld.rss "ns" "data" = some exFinalRS ∧
    exHandler.setupForFinalSync exRSSpec true exFinalWorld = some (false, exFinalWorld.tick.tick) ∧
    ∃ pvc, storeGet pvcKind.meta exFinalWorld.pvcs "ns" "data" = some pvc ∧
      util.ResourceIsDeleted pvc.ObjectMeta = true :=
  ⟨rfl, rfl,
    (finalSync_guard_when_source_exists exHandler exRSSpec exFinalWorld).1
      exFinalRS exFinalWorld.tick.tick rfl rfl⟩

/-- C5, as stated, fails: with `runFinalSync = true` and the application's claim stored
and mounted by a pod, but the pre-shared secret missing, `ReconcileRS` returns
`(false, nil, nil)` although a ReplicationSource exists, and the workload status is not
set. -/
theorem soft_block_counterexample :
    storeGet pvcKind.meta exMountedNoSecretWorld.pvcs "ns" "data" = some exPVC ∧
    MountedByPod exMountedNoSecretWorld exKey = true ∧
    storeGet rsKind.meta exMountedNoSecretWorld.rss "ns" "data" = some exScheduledRS ∧
    (exHandler.ReconcileRS exRSSpec true exMountedNoSecretWorld).map
        (fun r => (r.1, r.2.workloadStatus)) = some ((false, none, none), "") :=
  ⟨rfl, rfl, rfl, rfl⟩

/-- C5, amended. When `ReconcileRS` is called with `runFinalSync = true` and reaches the
validation of the claim (the volume is protected by VolSync, the pre-shared secret is
validated and, in the admin namespace, copied, and `DeleteRD` returns no error), no
client call of the validation fails, and the application's claim is stored and in use
(mounted by a pod, or its volume attached to a node), then it sets the workload status
to "active", returns `finalSyncComplete = false` with a nil error, returns the stored
ReplicationSource if there is one (nil otherwise), and neither creates nor updates a
ReplicationSource. -/
theorem soft_block_on_mounted_claim (v : VSHandler) (rsSpec : VolSyncReplicationSourceSpec)
    (w wa wb wc : World) (pvc : PersistentVolumeClaim)
    (hprot : rsSpec.ProtectedPVC.ProtectedByVolSync = true)
    (hsec : v.ValidateSecretAndAddVRGOwnerRef
      (GetVolSyncPSKSecretNameFromVRGName v.owner.ObjectMeta.Name) w = some ((true, none), wa))
    (hcopy : (if v.vrgInAdminNamespace
        then v.CopySecretToPVCNamespace (GetVolSyncPSKSecretNameFromVRGName v.owner.ObjectMeta.Name)
          rsSpec.ProtectedPVC.Namespace
        else pure none) wa = some (none, wb))
    (hdel : v.DeleteRD rsSpec.ProtectedPVC.Name rsSpec.ProtectedPVC.Namespace wb = some (none, wc))
    (hf : NoFaults wc)
    (hpvc : storeGet pvcKind.meta wc.pvcs rsSpec.ProtectedPVC.Namespace rsSpec.ProtectedPVC.Name
      = some pvc)
    (huse : MountedByPod wc (util.ProtectedPVCNamespacedName rsSpec.ProtectedPVC) = true ∨
      AttachedToNode wc pvc = true) :
    ∃ w1, v.ReconcileRS rsSpec true w =
        some ((false, storeGet rsKind.meta wc.rss rsSpec.ProtectedPVC.Namespace
          (getReplicationSourceName rsSpec.ProtectedPVC.Name), none), w1) ∧
      w1.workloadStatus = "active" ∧
      w1.rss = wc.rss ∧
      ∃ l, w1.log = w.log ++ l ∧ ∀ c ∈ l, NoSourceWrite c := by
  rw [ReconcileRS_reaches v rsSpec true w wa wb wc hprot hsec hcopy hdel]
  obtain ⟨wx, hrun, honly⟩ := pvcExistsAndInUse_run v (util.ProtectedPVCNamespacedName rsSpec.ProtectedPVC)
    wc pvc hf hpvc
  have htrue : (MountedByPod wc (util.ProtectedPVCNamespacedName rsSpec.ProtectedPVC) ||
      AttachedToNode wc pvc) = true := by
    rcases huse with h | h <;> simp [h]
  rw [htrue] at hrun
  have hwx : wx = { wc with calls := wx.calls } := honly
  obtain ⟨wy, hwy⟩ : ∃ wy : World, wy = { wx with workloadStatus := "active" } := ⟨_, rfl⟩
  have hval : v.validatePVCForFinalSync rsSpec true wc = some ((false, none), wy) := by
    unfold VSHandler.validatePVCForFinalSync
    simp only [if_true, M.bind_run, hrun]
    rw [hwy]
    rfl
  have hfy : NoFaults wy := by
    intro n
    rw [hwy]
    exact honly.only_noFaults hf n
  have hrss : wy.rss = wc.rss := by rw [hwy, hwx]
  have hlog : wy.log = wc.log := by rw [hwy, hwx]
  have hstat : wy.workloadStatus = "active" := by rw [hwy]
  -- the lookup of the source
  have hget : ∃ e, v.getRS (getReplicationSourceName rsSpec.ProtectedPVC.Name)
      rsSpec.ProtectedPVC.Namespace wy =
      some ((storeGet rsKind.meta wc.rss rsSpec.ProtectedPVC.Namespace
        (getReplicationSourceName rsSpec.ProtectedPVC.Name), e), wy.tick) ∧
      (e = none ∨ storeGet rsKind.meta wc.rss rsSpec.ProtectedPVC.Namespace
        (getReplicationSourceName rsSpec.ProtectedPVC.Name) = none) := by
    unfold VSHandler.getRS
    cases hs : storeGet rsKind.meta wc.rss rsSpec.ProtectedPVC.Namespace
        (getReplicationSourceName rsSpec.ProtectedPVC.Name) with
    | none =>
      rw [M.bind_run, clientGet_run_missing (w := wy) (hfy _)
        (by show storeGet rsKind.meta wy.rss _ _ = none; rw [hrss]; exact hs)]
      exact ⟨_, rfl, Or.inr rfl⟩
    | some rs =>
      rw [M.bind_run, clientGet_run_found (w := wy) (hfy _)
        (by show storeGet rsKind.meta wy.rss _ _ = some rs; rw [hrss]; exact hs)]
      exact ⟨_, rfl, Or.inl rfl⟩
  obtain ⟨e, hget, he⟩ := hget
  refine ⟨wy.tick, ?_, hstat, hrss, ?_⟩
  · unfold ReconcileRS_fromValidation
    simp only [M.bind_run, hval, Bool.not_false, Bool.true_or, if_true, hget]
    rcases he with he | he
    · subst he; rfl
    · rw [he]
      cases e <;> rfl
  · have hlog1 : wy.tick.log = wc.log := hlog
    obtain ⟨l1, e1, p1⟩ := (ValidateSecretAndAddVRGOwnerRef_writes v _).run _ _ _ hsec
    have hc : Writes NoSourceWrite (if v.vrgInAdminNamespace
        then v.CopySecretToPVCNamespace (GetVolSyncPSKSecretNameFromVRGName v.owner.ObjectMeta.Name)
          rsSpec.ProtectedPVC.Namespace
        else pure none) := by
      split
      · exact CopySecretToPVCNamespace_writes v _ _
      · exact Writes.writes_pure _ _
    obtain ⟨l2, e2, p2⟩ := hc.run _ _ _ hcopy
    obtain ⟨l3, e3, p3⟩ := (DeleteRD_writes v _ _).run _ _ _ hdel
    refine ⟨l1 ++ (l2 ++ l3), ?_, ?_⟩
    · rw [hlog1, e3, e2, e1]
      simp [List.append_assoc]
    · intro c hc
      simp only [List.mem_append] at hc
      rcases hc with hc | hc | hc
      · exact p1 c hc
      · exact p2 c hc
      · exact p3 c hc

/-- Witness for the amended C5: the soft block on the cluster where a pod still mounts
the claim. -/
theorem soft_block_on_mounted_claim_witness :
    exHandler.ValidateSecretAndAddVRGOwnerRef "vrg-vs-secret" exMountedWorld =
      some ((true, none), exMountedSecretWorld) ∧
    exHandler.DeleteRD "data" "ns" exMountedSecretWorld = some (none, exMountedReadyWorld) ∧
    MountedByPod exMountedReadyWorld exKey = true ∧
    ∃ w1, exHandler.ReconcileRS exRSSpec true exMountedWorld =
        some ((false, some exScheduledRS, none), w1) ∧
      w1.workloadStatus = "active" ∧
      w1.rss = exMountedReadyWorld.rss ∧
      ∃ l, w1.log = exMountedWorld.log ++ l ∧ ∀ c ∈ l, NoSourceWrite c :=
  ⟨rfl, rfl, rfl,
    soft_block_on_mounted_claim exHandler exRSSpec exMountedWorld exMountedSecretWorld
      exMountedSecretWorld exMountedReadyWorld exPVC rfl rfl rfl rfl (fun _ => rfl) rfl
      (Or.inl rfl)⟩

/-- C6. At a volume whose reclaim policy is already Retain and whose claim reference
already names the temporary claim in the claim's namespace, `retainPVForPVC` returns
nil, yet it does issue an update of the volume: the skip is not taken, because the claim
reference is reset to an empty one before it is compared. -/
theorem retainPVForPVC_updates_retained_volume :
    exRetainedPV.Spec.PersistentVolumeReclaimPolicy = PersistentVolumeReclaimRetain ∧
    exRetainedPV.Spec.ClaimRef.map (fun c => (c.Namespace, c.Name)) =
      some (exPVC.ObjectMeta.Namespace, getTmpPVCNameForFinalSync exPVC.ObjectMeta.Name) ∧
    storeGet pvKind.meta exFinalWorld.pvs "" exPVC.Spec.VolumeName = some exRetainedPV ∧
    (exHandler.retainPVForPVC exPVC exFinalWorld).map (fun r => (r.1, r.2.log)) =
      some (none, [⟨.update, "PersistentVolume", "", "pv1"⟩]) :=
  ⟨rfl, rfl, rfl, rfl⟩

/-- C7. For a volume `pv` bound to the stored claim `pvc` (named `p`, in namespace `ns`)
and holding a claim reference, a successful `retainPVForPVC` leaves the volume with
reclaim policy Retain and a claim reference naming `p-for-finalsync` in `ns` with empty
UID and resourceVersion; a successful `undoAfterFinalSync p ns` after it leaves the
volume with a claim reference naming `p` in `ns` (UID and resourceVersion empty),
reclaim policy Delete, and no volsync-retained mark. -/
theorem retain_undo_round_trip (v : VSHandler) (pvc : PersistentVolumeClaim)
    (pv : PersistentVolume) (w wa wb : World)
    (hpvc : storeGet pvcKind.meta w.pvcs pvc.ObjectMeta.Namespace pvc.ObjectMeta.Name = some pvc)
    (hpv : storeGet pvKind.meta w.pvs "" pvc.Spec.VolumeName = some pv)
    (hcr : pv.Spec.ClaimRef.isSome = true)
    (hst : Storable pv.ObjectMeta)
    (hret : v.retainPVForPVC pvc w = some (none, wa))
    (hundo : v.undoAfterFinalSync pvc.ObjectMeta.Name pvc.ObjectMeta.Namespace wa = some (none, wb)) :
    (∃ pva cr, storeGet pvKind.meta wa.pvs "" pvc.Spec.VolumeName = some pva ∧
      pva.Spec.PersistentVolumeReclaimPolicy = PersistentVolumeReclaimRetain ∧
      pva.Spec.ClaimRef = some cr ∧
      cr.Name = getTmpPVCNameForFinalSync pvc.ObjectMeta.Name ∧
      cr.Namespace = pvc.ObjectMeta.Namespace ∧ cr.UID = "" ∧ cr.ResourceVersion = "") ∧
    (∃ pvb cr, storeGet pvKind.meta wb.pvs "" pvc.Spec.VolumeName = some pvb ∧
      pvb.Spec.PersistentVolumeReclaimPolicy = PersistentVolumeReclaimDelete ∧
      pvb.Spec.ClaimRef = some cr ∧
      cr.Name = pvc.ObjectMeta.Name ∧ cr.Namespace = pvc.ObjectMeta.Namespace ∧
      cr.UID = "" ∧ cr.ResourceVersion = "" ∧
      mapLookup pvb.ObjectMeta.Annotations PVAnnotationRetentionKey = none) := by
  -- the retain step
  have hf : w.faults w.calls = false := by
    cases hfc : w.faults w.calls with
    | false => rfl
    | true => rw [retainPVForPVC_fault v pvc w hfc] at hret; simp at hret
  rw [retainPVForPVC_eq v pvc w pv hf hpv hcr] at hret
  obtain ⟨pvR, hret, hRns, hRname, hRdel, hRfin, hRpol, hRcr⟩ : ∃ pvR : PersistentVolume,
      clientUpdate pvKind pvR w.tick = some (none, wa) ∧
      pvR.ObjectMeta.Namespace = pv.ObjectMeta.Namespace ∧
      pvR.ObjectMeta.Name = pv.ObjectMeta.Name ∧
      pvR.ObjectMeta.DeletionTimestamp = pv.ObjectMeta.DeletionTimestamp ∧
      pvR.ObjectMeta.Finalizers = pv.ObjectMeta.Finalizers ∧
      pvR.Spec.PersistentVolumeReclaimPolicy = PersistentVolumeReclaimRetain ∧
      pvR.Spec.ClaimRef = some { Name := getTmpPVCNameForFinalSync pvc.ObjectMeta.Name,
                                 Namespace := pvc.ObjectMeta.Namespace } :=
    ⟨_, hret, rfl, rfl, rfl, rfl, rfl, rfl⟩
  obtain ⟨_, hwa⟩ := clientUpdate_ok hret
  have hkey := storeGet_hasKey hpv
  have hstR : Storable (pvKind.meta pvR) := by
    intro hd
    show pvR.ObjectMeta.Finalizers ≠ []
    rw [hRfin]
    apply hst
    simpa [metaIsDeleted, pvKind, hRdel] using hd
  have hkeyR : hasKey (pvKind.meta pvR) "" pvc.Spec.VolumeName = true := by
    rw [hasKey_iff] at hkey ⊢
    exact ⟨hRns.trans hkey.1, hRname.trans hkey.2⟩
  have hpva1 : storeGet pvKind.meta wa.pvs "" pvc.Spec.VolumeName = some pvR := by
    rw [hwa]
    exact storeGet_storeUpdate_key hkeyR hpv hstR
  have hpvcs : wa.pvcs = w.pvcs := by rw [hwa]; rfl
  refine ⟨⟨pvR, _, hpva1, hRpol, hRcr, rfl, rfl, rfl, rfl⟩, ?_⟩
  -- the undo step
  obtain ⟨w1, pvc1, pv0, w2, htmp, hp1, hpv1, hw2, hfin⟩ :=
    undoAfterFinalSync_ok v _ _ wa wb hundo
  have hw1pvs : w1.pvs = wa.pvs := by
    rcases htmp with ⟨_, h⟩ | ⟨t, _, h⟩ <;> (rw [h]; try rfl)
  have hw1p : storeGet pvcKind.meta w1.pvcs pvc.ObjectMeta.Namespace pvc.ObjectMeta.Name = some pvc := by
    rcases htmp with ⟨_, h⟩ | ⟨t, ht, h⟩
    · rw [h]; show storeGet pvcKind.meta wa.pvcs _ _ = _; rw [hpvcs]; exact hpvc
    · rw [h]
      show storeGet pvcKind.meta (storeDelete pvcKind wa.pvcs _ _ _) _ _ = _
      have htk := storeGet_hasKey ht
      rw [hasKey_iff] at htk
      rw [storeGet_storeDelete_other pvcKind_lawful, hpvcs]
      · exact hpvc
      · intro hh
        exact tmpName_ne _ (htk.2.symm.trans hh.2)
  rw [hw1p] at hp1
  simp only [Option.some.injEq] at hp1
  subst hp1
  rw [hw1pvs, hpva1] at hpv1
  simp only [Option.some.injEq] at hpv1
  subst hpv1
  have hwbpvs : wb.pvs = w2.pvs := by
    rcases hfin with ⟨_, h⟩ | ⟨_, h⟩ <;> (rw [h]; try rfl)
  obtain ⟨pvU, hw2, hUns, hUname, hUdel, hUfin, hUpol, hUcr, hUann⟩ : ∃ pvU : PersistentVolume,
      w2 = pvKind.put (w1.tick.tick.logged
            ⟨.update, pvKind.tag, pvR.ObjectMeta.Namespace, pvR.ObjectMeta.Name⟩)
          (storeUpdate pvKind w1.pvs pvU) ∧
      pvU.ObjectMeta.Namespace = pvR.ObjectMeta.Namespace ∧
      pvU.ObjectMeta.Name = pvR.ObjectMeta.Name ∧
      pvU.ObjectMeta.DeletionTimestamp = pvR.ObjectMeta.DeletionTimestamp ∧
      pvU.ObjectMeta.Finalizers = pvR.ObjectMeta.Finalizers ∧
      pvU.Spec.PersistentVolumeReclaimPolicy = PersistentVolumeReclaimDelete ∧
      pvU.Spec.ClaimRef =
        (updateClaimRef pvR pvc.ObjectMeta.Name pvc.ObjectMeta.Namespace).Spec.ClaimRef ∧
      pvU.ObjectMeta.Annotations =
        mapDeleteOpt pvR.ObjectMeta.Annotations PVAnnotationRetentionKey :=
    ⟨_, hw2, rfl, rfl, rfl, rfl, rfl, rfl, rfl⟩
  have hstU : Storable (pvKind.meta pvU) := by
    intro hd
    show pvU.ObjectMeta.Finalizers ≠ []
    rw [hUfin]
    apply hstR
    simpa [metaIsDeleted, pvKind, hUdel] using hd
  have hkeyU : hasKey (pvKind.meta pvU) "" pvc.Spec.VolumeName = true := by
    rw [hasKey_iff] at hkeyR ⊢
    exact ⟨hUns.trans hkeyR.1, hUname.trans hkeyR.2⟩
  have hpvb : storeGet pvKind.meta wb.pvs "" pvc.Spec.VolumeName = some pvU := by
    rw [hwbpvs, hw2, hw1pvs]
    exact storeGet_storeUpdate_key hkeyU hpva1 hstU
  have hcrU : pvU.Spec.ClaimRef = some { Name := pvc.ObjectMeta.Name,
                                         Namespace := pvc.ObjectMeta.Namespace } := by
    rw [hUcr]
    unfold updateClaimRef
    rw [hRcr]
  refine ⟨pvU, _, hpvb, hUpol, hcrU, rfl, rfl, rfl, rfl, ?_⟩
  rw [hUann]
  exact mapLookup_mapDeleteOpt _ _

/-- Witness for C7: the round trip on a cluster where the claim `data` is bound to the
volume `pv1`. -/
theorem retain_undo_round_trip_witness :
    storeGet pvKind.meta exBoundWorld.pvs "" exDeletedPVC.Spec.VolumeName = some exPV ∧
    exHandler.retainPVForPVC exDeletedPVC exBoundWorld = some (none, exRetainedWorld) ∧
    exHandler.undoAfterFinalSync "data" "ns" exRetainedWorld = some (none, exUndoneWorld) ∧
    (∃ pva cr, storeGet pvKind.meta exRetainedWorld.pvs "" "pv1" = some pva ∧
      pva.Spec.PersistentVolumeReclaimPolicy = PersistentVolumeReclaimRetain ∧
      pva.Spec.ClaimRef = some cr ∧ cr.Name = "data-for-finalsync" ∧
      cr.Namespace = "ns" ∧ cr.UID = "" ∧ cr.ResourceVersion = "") ∧
    (∃ pvb cr, storeGet pvKind.meta exUndoneWorld.pvs "" "pv1" = some pvb ∧
      pvb.Spec.PersistentVolumeReclaimPolicy = PersistentVolumeReclaimDelete ∧
      pvb.Spec.ClaimRef = some cr ∧ cr.Name = "data" ∧ cr.Namespace = "ns" ∧
      cr.UID = "" ∧ cr.ResourceVersion = "" ∧
      mapLookup pvb.ObjectMeta.Annotations PVAnnotationRetentionKey = none) :=
  ⟨rfl, rfl, rfl,
    retain_undo_round_trip exHandler exDeletedPVC exPV exBoundWorld exRetainedWorld exUndoneWorld
      rfl rfl rfl (fun h => by simp [metaIsDeleted, exPV] at h) rfl rfl⟩

/-- C8. When `TakePVCOwnership` and then `ReleasePVCOwnership` succeed on a claim, the
claim in between carries the annotation `apps.open-cluster-management.io/do-not-delete`
(and, outside the admin namespace, the owner reference of the replication group), and the
claim as stored afterwards (which is the one `ReleasePVCOwnership` returns) has the
finalizer `volumereplicationgroups.ramendr.openshift.io/pvc-volsync-protection`, has no
annotation `apps.open-cluster-management.io/do-not-delete`, and has no owner reference
to the replication group of the handler. -/
theorem ownership_round_trip (v : VSHandler) (key : NamespacedName) (w wa wb : World)
    (released : Option PersistentVolumeClaim)
    (htake : v.TakePVCOwnership key w = some ((true, none), wa))
    (hrelease : v.ReleasePVCOwnership key wa = some ((released, none), wb)) :
    (∃ taken, storeGet pvcKind.meta wa.pvcs key.Namespace key.Name = some taken ∧
      mapLookup taken.ObjectMeta.Annotations ACMAppSubDoNotDeleteAnnotation =
        some ACMAppSubDoNotDeleteAnnotationVal ∧
      (v.vrgInAdminNamespace = false →
        ({ APIVersion := v.owner.APIVersion, Kind := v.owner.Kind, Name := v.owner.ObjectMeta.Name,
           UID := v.owner.ObjectMeta.UID } : OwnerReference) ∈ taken.ObjectMeta.OwnerReferences)) ∧
    (∃ pvc, storeGet pvcKind.meta wb.pvcs key.Namespace key.Name = some pvc ∧
      released = some pvc ∧
      pvc.ObjectMeta.Finalizers.contains PVCFinalizerProtected = true ∧
      mapLookup pvc.ObjectMeta.Annotations ACMAppSubDoNotDeleteAnnotation = none ∧
      ∀ r ∈ pvc.ObjectMeta.OwnerReferences, util.refersToOwner v.owner r = false) := by
  unfold VSHandler.ReleasePVCOwnership at hrelease
  rw [M.bind_eq_some] at hrelease
  obtain ⟨⟨pvc0, err⟩, w1, hget, h⟩ := hrelease
  cases err with
  | some e => simp at h
  | none =>
    obtain ⟨pvc, hp, hstored, hw1⟩ := getPVC_ok hget
    subst hp
    dsimp only at h
    rw [M.bind_eq_some] at h
    obtain ⟨pvc1, w2, hd, h⟩ := h
    simp only [deref_some, Option.some.injEq, Prod.mk.injEq] at hd
    obtain ⟨hd1, hd2⟩ := hd
    subst hd1 hd2
    rw [M.bind_eq_some] at h
    obtain ⟨uerr, w3, hupd, h⟩ := h
    simp only [M.pure_run, Option.some.injEq, Prod.mk.injEq] at h
    obtain ⟨⟨hrel, herr⟩, hw3⟩ := h
    subst herr hw3
    refine ⟨?_, ?_⟩
    · obtain ⟨taken, w0, hwa, hk, hann, hown⟩ := TakePVCOwnership_ok v key w wa true htake
      have hmem : pvc ∈ storeUpdate pvcKind w0.pvcs taken := by
        have := storeGet_mem hstored
        rw [hwa] at this
        exact this
      have hkp := storeGet_hasKey hstored
      have hkt : hasKey (pvcKind.meta pvc) (pvcKind.meta taken).Namespace (pvcKind.meta taken).Name
          = true := by
        rw [hasKey_iff] at hk hkp ⊢
        exact ⟨hkp.1.trans hk.1.symm, hkp.2.trans hk.2.symm⟩
      have := mem_storeUpdate_key hmem hkt
      subst this
      exact ⟨pvc, hstored, hann, hown⟩
    · obtain ⟨a1, a2, a3, a4, a5⟩ := updater_AddFinalizer pvcKind_lawful
        (util.NewResourceUpdater pvc) PVCFinalizerProtected
      obtain ⟨b1, b2, b3, b4, b5, b6⟩ := updater_DeleteAnnotation pvcKind_lawful
        (util.ResourceUpdater.AddFinalizer pvcKind (util.NewResourceUpdater pvc) PVCFinalizerProtected)
        ACMAppSubDoNotDeleteAnnotation
      obtain ⟨c1, c2, c3, c4, c5, c6, c7⟩ := updater_RemoveOwner pvcKind_lawful
        (util.ResourceUpdater.DeleteAnnotation pvcKind
          (util.ResourceUpdater.AddFinalizer pvcKind (util.NewResourceUpdater pvc) PVCFinalizerProtected)
          ACMAppSubDoNotDeleteAnnotation) v.owner
      generalize hu : util.ResourceUpdater.RemoveOwner pvcKind
        (util.ResourceUpdater.DeleteAnnotation pvcKind
          (util.ResourceUpdater.AddFinalizer pvcKind (util.NewResourceUpdater pvc) PVCFinalizerProtected)
          ACMAppSubDoNotDeleteAnnotation) v.owner = u at hrel hupd c1 c2 c3 c4 c5 c6 c7
      have herr : u.err = none := c1.trans (b1.trans a1)
      have hfin : (pvcKind.meta u.obj).Finalizers.contains PVCFinalizerProtected = true := by
        rw [c4, b4]; exact a4
      have hann : mapLookup (pvcKind.meta u.obj).Annotations ACMAppSubDoNotDeleteAnnotation = none := by
        rw [c5]; exact b5
      have hkey0 := storeGet_hasKey hstored
      have hkey : hasKey (pvcKind.meta u.obj) key.Namespace key.Name = true := by
        rw [hasKey_iff] at hkey0 ⊢
        exact ⟨(c2.trans (b2.trans a2)).trans hkey0.1, (c3.trans (b3.trans a3)).trans hkey0.2⟩
      refine ⟨u.obj, ?_, hrel.symm, hfin, hann, c6⟩
      unfold util.ResourceUpdater.Update at hupd
      rw [herr] at hupd
      dsimp only at hupd
      cases hm : u.objModified with
      | false =>
        rw [hm] at hupd
        simp only [Bool.false_eq_true, if_false, M.pure_run2, Option.some.injEq, Prod.mk.injEq,
          true_and] at hupd
        obtain ⟨e1, _⟩ := c7 hm
        obtain ⟨e2, _⟩ := b6 (by assumption)
        obtain ⟨e3, _⟩ := a5 (by assumption)
        rw [← hupd, hw1, e1, e2, e3]
        exact hstored
      | true =>
        rw [hm] at hupd
        simp only [if_true] at hupd
        obtain ⟨_, hw3⟩ := clientUpdate_ok hupd
        rw [hw3, hw1]
        refine storeGet_storeUpdate_key hkey hstored ?_
        intro _ hnil
        rw [hnil] at hfin
        simp at hfin

/-- Witness for C8: taking and releasing the ownership of the claim `data`. -/
theorem ownership_round_trip_witness :
    exHandler.TakePVCOwnership exKey exClaimWorld = some ((true, none), exTakenWorld) ∧
    exHandler.ReleasePVCOwnership exKey exTakenWorld = some ((exReleasedPVC, none), exReleasedWorld) ∧
    (∃ taken, storeGet pvcKind.meta exTakenWorld.pvcs "ns" "data" = some taken ∧
      mapLookup taken.ObjectMeta.Annotations ACMAppSubDoNotDeleteAnnotation =
        some ACMAppSubDoNotDeleteAnnotationVal ∧
      (exHandler.vrgInAdminNamespace = false →
        ({ APIVersion := exOwner.APIVersion, Kind := exOwner.Kind, Name := "vrg", UID := "u1" } :
          OwnerReference) ∈ taken.ObjectMeta.OwnerReferences)) ∧
    (∃ pvc, storeGet pvcKind.meta exReleasedWorld.pvcs "ns" "data" = some pvc ∧
      exReleasedPVC = some pvc ∧
      pvc.ObjectMeta.Finalizers.contains PVCFinalizerProtected = true ∧
      mapLookup pvc.ObjectMeta.Annotations ACMAppSubDoNotDeleteAnnotation = none ∧
      ∀ r ∈ pvc.ObjectMeta.OwnerReferences, util.refersToOwner exOwner r = false) :=
  ⟨rfl, rfl,
    ownership_round_trip exHandler exKey exClaimWorld exTakenWorld exReleasedWorld exReleasedPVC
      rfl rfl⟩

/-- C9, the code diverges. On a cluster without client failures that holds the claim,
the ready local destination and the snapshot `snap1` but no main destination `ns/data`,
the local source is not in the state that allows nil (there is no local source), so the
claim asks for an error; `rollbackToLastSnapshot` does not return at all: `pauseRD`
hands back a nil destination without error and `reconcileLocalRS` dereferences it. On
the same cluster with the main destination the call returns the waiting error. -/
theorem rollback_panics_without_main_destination :
    NoFaults exNoMainWorld ∧
    storeGet rdKind.meta exNoMainWorld.rds "ns" "data" = none ∧
    exNoMainWorld.rss = [] ∧
    ¬ LocalTransferDone exNoMainWorld "ns" "data" "snap1" ∧
    (exHandler.pauseRD "data" "ns" exNoMainWorld).map (fun r => r.1) = some (none, none) ∧
    exHandler.rollbackToLastSnapshot exRDSpec exSnapshotRef exNoMainWorld = none ∧
    exRollbackStart.rds = exMainRD :: exNoMainWorld.rds ∧
    (exHandler.rollbackToLastSnapshot exRDSpec exSnapshotRef exRollbackStart).map (fun r => r.1) =
      some (some (.msg "waiting for local RS to complete transfer data-local")) :=
  ⟨fun _ => rfl, rfl, rfl, fun ⟨_, _, _, h, _⟩ => (by cases h), rfl, rfl, rfl, rfl⟩

/-- C10, as stated, fails: after a local rollback has protected the snapshot `snap1`,
`CleanupLocalResources` on the local source it produced returns nil, yet the snapshot
named by the trigger is still stored, is not marked deleted, and no delete was issued
for it. -/
theorem local_cleanup_counterexample :
    exHandler.rollbackToLastSnapshot exRDSpec exSnapshotRef exRollbackDone =
      some (none, exRolledBack) ∧
    storeGet rsKind.meta exRolledBack.rss "ns" "data-local" = some exRolledBackRS ∧
    exRolledBackRS.Spec.Trigger = some { Manual := "snap1" } ∧
    exHandler.CleanupLocalResources exRolledBackRS exRolledBack = some (none, exCleanedUp) ∧
    (storeGet snapshotKind.meta exCleanedUp.snapshots "ns" "snap1").map
      (fun s => metaIsDeleted s.ObjectMeta) = some false ∧
    exCleanedUp.log.filter (fun c => c.kind == "VolumeSnapshot" && c.verb == .delete) = [] :=
  ⟨rfl, rfl, rfl, rfl, rfl, rfl⟩

/-- C10, amended. When `CleanupLocalResources lrs` returns nil, the read-only claim
named by `lrs.Spec.SourcePVC`, the local source and the local destination of the same
name have been deleted (whatever is left under their keys is marked deleted); the
snapshot named by the manual trigger of `lrs` has been deleted unless it carries the
label `volsync.backube/do-not-delete=true`, and a snapshot carrying that label, as one
protected by `setupLocalRS` does, is left as it is. -/
theorem local_cleanup_deletes_unless_protected (v : VSHandler) (lrs : ReplicationSource)
    (tr : ReplicationSourceTriggerSpec) (w w1 : World)
    (htr : lrs.Spec.Trigger = some tr)
    (h : v.CleanupLocalResources lrs w = some (none, w1)) :
    (∀ x ∈ w1.pvcs, hasKey x.ObjectMeta lrs.ObjectMeta.Namespace lrs.Spec.SourcePVC = true →
      metaIsDeleted x.ObjectMeta = true) ∧
    (∀ x ∈ w1.rss, hasKey x.ObjectMeta lrs.ObjectMeta.Namespace lrs.ObjectMeta.Name = true →
      metaIsDeleted x.ObjectMeta = true) ∧
    (∀ x ∈ w1.rds, hasKey x.ObjectMeta lrs.ObjectMeta.Namespace lrs.ObjectMeta.Name = true →
      metaIsDeleted x.ObjectMeta = true) ∧
    (∀ s, storeGet snapshotKind.meta w1.snapshots lrs.ObjectMeta.Namespace tr.Manual = some s →
      metaIsDeleted s.ObjectMeta = true ∨
      util.HasLabelWithValue s.ObjectMeta VolSyncDoNotDeleteLabel VolSyncDoNotDeleteLabelVal = true) ∧
    (∀ s, storeGet snapshotKind.meta w.snapshots lrs.ObjectMeta.Namespace tr.Manual = some s →
      util.HasLabelWithValue s.ObjectMeta VolSyncDoNotDeleteLabel VolSyncDoNotDeleteLabelVal = true →
      w1.snapshots = w.snapshots) := by
  unfold VSHandler.CleanupLocalResources at h
  rw [htr, M.bind_eq_some] at h
  obtain ⟨tr1, w0, hd, h⟩ := h
  simp only [deref_some, Option.some.injEq, Prod.mk.injEq] at hd
  obtain ⟨hd1, hd2⟩ := hd
  subst hd1 hd2
  rw [M.bind_eq_some] at h
  obtain ⟨r1, wa, hsnap, h⟩ := h
  cases r1 with
  | some e => simp at h
  | none =>
    dsimp only at h
    rw [M.bind_eq_some] at h
    obtain ⟨r2, wb, hpvc, h⟩ := h
    cases r2 with
    | some e => simp at h
    | none =>
      dsimp only at h
      rw [M.bind_eq_some] at h
      obtain ⟨r3, wc, hrs, h⟩ := h
      cases r3 with
      | some e => simp at h
      | none =>
        dsimp only at h
        -- what each later step leaves alone
        have fb := (DeletePVC_mods (S := { pvcs := true }) lrs.Spec.SourcePVC
          lrs.ObjectMeta.Namespace rfl).run _ _ _ hpvc
        have fc := (clientDelete_mods (S := { rss := true }) rsKind lrs
          (covers_rsKind rfl)).run _ _ _ hrs
        have fd := (DeleteLocalRD_mods (S := { rds := true }) v lrs.ObjectMeta.Name
          lrs.ObjectMeta.Namespace rfl).run _ _ _ h
        have hsnaps : w1.snapshots = wa.snapshots := by
          rw [fd.snapshots rfl, fc.snapshots rfl, fb.snapshots rfl]
        have hpvcs : w1.pvcs = wb.pvcs := by
          rw [fd.pvcs rfl, fc.pvcs rfl]
        have hrss : w1.rss = wc.rss := fd.rss rfl
        obtain ⟨s1, s2⟩ := deleteSnapshot_ok v _ _ _ _ hsnap
        refine ⟨?_, ?_, ?_, ?_, ?_⟩
        · rw [hpvcs]
          exact DeletePVC_ok _ _ _ _ hpvc
        · rw [hrss]
          exact clientDelete_gone rsKind_lawful (fun _ _ => rfl) hrs
        · exact DeleteLocalRD_ok v _ _ _ _ h
        · rw [hsnaps]
          exact s1
        · intro s hs hl
          rw [hsnaps]
          exact s2 s hs hl

/-- Witness for the amended C10: the cleanup after the local rollback of `exRollbackDone`. -/
theorem local_cleanup_deletes_unless_protected_witness :
    exHandler.CleanupLocalResources exRolledBackRS exRolledBack = some (none, exCleanedUp) ∧
    exCleanedUp.pvcs.map (fun o => o.ObjectMeta.Name) = ["data"] ∧
    exCleanedUp.rss = [] ∧
    exCleanedUp.rds.map (fun o => o.ObjectMeta.Name) = ["data"] ∧
    ((∀ x ∈ exCleanedUp.pvcs, hasKey x.ObjectMeta "ns" "snap1" = true →
      metaIsDeleted x.ObjectMeta = true) ∧
    (∀ x ∈ exCleanedUp.rss, hasKey x.ObjectMeta "ns" "data-local" = true →
      metaIsDeleted x.ObjectMeta = true) ∧
    (∀ x ∈ exCleanedUp.rds, hasKey x.ObjectMeta "ns" "data-local" = true →
      metaIsDeleted x.ObjectMeta = true) ∧
    (∀ s, storeGet snapshotKind.meta exCleanedUp.snapshots "ns" "snap1" = some s →
      metaIsDeleted s.ObjectMeta = true ∨
      util.HasLabelWithValue s.ObjectMeta VolSyncDoNotDeleteLabel VolSyncDoNotDeleteLabelVal = true) ∧
    (∀ s, storeGet snapshotKind.meta exRolledBack.snapshots "ns" "snap1" = some s →
      util.HasLabelWithValue s.ObjectMeta VolSyncDoNotDeleteLabel VolSyncDoNotDeleteLabelVal = true →
      exCleanedUp.snapshots = exRolledBack.snapshots)) :=
  ⟨rfl, rfl, rfl, rfl,
    local_cleanup_deletes_unless_protected exHandler exRolledBackRS { Manual := "snap1" }
      exRolledBack exCleanedUp rfl rfl⟩

/-- C11. Snapshot pruning keeps exactly the newest. Let the stored snapshots have unique
keys and the snapshots of the group in the namespace pairwise distinct creation
timestamps. When `pruneOldSnapshots` returns nil and there are two or more such
snapshots, the one with the latest creation timestamp is still stored as it was, a
delete was issued for each of the others and for nothing else, whatever is left under
the key of another one is marked deleted and nothing is left under it when it had no
finalizer, and the snapshots outside the group or the namespace are untouched; with
zero or one such snapshot nothing is deleted. Without client failures
`pruneOldSnapshots` does return nil. -/
theorem prune_keeps_exactly_newest (v : VSHandler) (ns : String) (w : World)
    (hkeys : UniqueKeys w.snapshots)
    (hdist : (prunable v ns w).Pairwise
      (fun a b => a.ObjectMeta.CreationTimestamp ≠ b.ObjectMeta.CreationTimestamp)) :
    (∀ w1, v.pruneOldSnapshots ns w = some (none, w1) →
      (2 ≤ (prunable v ns w).length →
        ∃ newest ∈ prunable v ns w,
          (∀ s ∈ prunable v ns w,
            s.ObjectMeta.CreationTimestamp ≤ newest.ObjectMeta.CreationTimestamp) ∧
          newest ∈ w1.snapshots ∧
          (∀ s ∈ prunable v ns w, s ≠ newest → ∀ y ∈ w1.snapshots,
            hasKey y.ObjectMeta s.ObjectMeta.Namespace s.ObjectMeta.Name = true →
            metaIsDeleted y.ObjectMeta = true) ∧
          (∀ s ∈ prunable v ns w, s ≠ newest → s.ObjectMeta.Finalizers = [] → ∀ y ∈ w1.snapshots,
            hasKey y.ObjectMeta s.ObjectMeta.Namespace s.ObjectMeta.Name = false) ∧
          (∀ x ∈ w.snapshots, x ∉ prunable v ns w → x ∈ w1.snapshots) ∧
          ∃ l, w1.log = w.log ++ l ∧
            ∀ c, c ∈ l ↔ ∃ s ∈ prunable v ns w, s ≠ newest ∧ c = snapshotDelete s) ∧
      ((prunable v ns w).length ≤ 1 → w1.snapshots = w.snapshots ∧ w1.log = w.log)) ∧
    (NoFaults w → ∃ w1, v.pruneOldSnapshots ns w = some (none, w1)) := by
  refine ⟨?_, pruneOldSnapshots_runs v ns w⟩
  intro w1 h
  obtain ⟨hfew, hmany⟩ := pruneOldSnapshots_post v ns w w1 h
  constructor
  · intro hge
    obtain ⟨doomed, newest, hsplit, hp⟩ := hmany hge
    obtain ⟨hin, hmax, hdoomed, hkey, -⟩ := sorted_split_newest v ns w doomed newest hkeys hdist hsplit
    have hsub : ∀ s ∈ prunable v ns w, s ∈ w.snapshots := fun s hs => (List.mem_filter.mp hs).1
    refine ⟨newest, hin, hmax, hp.keeps newest (hsub _ hin) hkey, ?_, ?_, ?_, ?_⟩
    · intro s hs hne y hy hk
      exact hp.gone s ((hdoomed s).mpr ⟨hs, hne⟩) y hy hk
    · intro s hs hne hfin y hy
      apply hp.removed s ((hdoomed s).mpr ⟨hs, hne⟩) _ y hy
      intro x hx hk
      have hkk := (hasKey_iff _ _ _).mp hk
      rw [hkeys x hx s (hsub _ hs) hkk.1 hkk.2]
      exact hfin
    · intro x hx hnot
      apply hp.keeps x hx
      intro s hs
      cases hk : hasKey x.ObjectMeta s.ObjectMeta.Namespace s.ObjectMeta.Name with
      | false => rfl
      | true =>
        have hkk := (hasKey_iff _ _ _).mp hk
        have hs1 := ((hdoomed s).mp hs).1
        have heq := hkeys x hx s (hsub _ hs1) hkk.1 hkk.2
        rw [heq] at hnot
        exact absurd hs1 hnot
    · refine ⟨doomed.map snapshotDelete, hp.log, ?_⟩
      intro c
      rw [List.mem_map]
      constructor
      · rintro ⟨s, hs, rfl⟩
        exact ⟨s, ((hdoomed s).mp hs).1, ((hdoomed s).mp hs).2, rfl⟩
      · rintro ⟨s, hs, hne, rfl⟩
        exact ⟨s, (hdoomed s).mpr ⟨hs, hne⟩, rfl⟩
  · intro hle
    rw [hfew hle]
    exact ⟨rfl, rfl⟩

/-- C11 (witness). Of the snapshots `s1`, `s2`, `s3` created at the times 1, 2 and 3,
pruning leaves exactly `s3` and issues the deletes of `s1` and `s2`. -/
theorem prune_keeps_exactly_newest_witness :
    exHandler.pruneOldSnapshots "ns" exPruneWorld = some (none, exPrunedWorld) ∧
    exPrunedWorld.snapshots = [exSnap3] ∧
    (2 ≤ (prunable exHandler "ns" exPruneWorld).length →
      ∃ newest ∈ prunable exHandler "ns" exPruneWorld,
        (∀ s ∈ prunable exHandler "ns" exPruneWorld,
          s.ObjectMeta.CreationTimestamp ≤ newest.ObjectMeta.CreationTimestamp) ∧
        newest ∈ exPrunedWorld.snapshots ∧
        (∀ s ∈ prunable exHandler "ns" exPruneWorld, s ≠ newest → ∀ y ∈ exPrunedWorld.snapshots,
          hasKey y.ObjectMeta s.ObjectMeta.Namespace s.ObjectMeta.Name = true →
          metaIsDeleted y.ObjectMeta = true) ∧
        (∀ s ∈ prunable exHandler "ns" exPruneWorld, s ≠ newest → s.ObjectMeta.Finalizers = [] →
          ∀ y ∈ exPrunedWorld.snapshots,
            hasKey y.ObjectMeta s.ObjectMeta.Namespace s.ObjectMeta.Name = false) ∧
        (∀ x ∈ exPruneWorld.snapshots, x ∉ prunable exHandler "ns" exPruneWorld →
          x ∈ exPrunedWorld.snapshots) ∧
        ∃ l, exPrunedWorld.log = exPruneWorld.log ++ l ∧
          ∀ c, c ∈ l ↔ ∃ s ∈ prunable exHandler "ns" exPruneWorld, s ≠ newest ∧ c = snapshotDelete s) :=
  ⟨rfl, rfl,
    ((prune_keeps_exactly_newest exHandler "ns" exPruneWorld (by decide) (by decide)).1
      exPrunedWorld rfl).1⟩

/-- C12 (counterexample). The namespace `ns` holds the destinations of the volumes
`data` and `logs` of the group, whose latest images `snap-data` and `snap-logs` are
stored and carry the owner labels. `pruneOldSnapshots`, as `ReconcileRD` calls it for
the namespace of a destination, returns nil, and afterwards the latest image of `logs`
is no longer stored. -/
theorem per_volume_retention_counterexample :
    exTwoVolumesWorld.rds.map (fun rd =>
        (rd.ObjectMeta.Namespace, exHandler.ownedBy rd.ObjectMeta,
          rd.Status.bind (fun st => st.LatestImage.map (fun li => li.Name))))
      = [("ns", true, some "snap-data"), ("ns", true, some "snap-logs")] ∧
    (storeGet snapshotKind.meta exTwoVolumesWorld.snapshots "ns" "snap-logs").map
        (fun s => exHandler.ownedBy s.ObjectMeta) = some true ∧
    exHandler.pruneOldSnapshots exDataRD.ObjectMeta.Namespace exTwoVolumesWorld
      = some (none, exTwoVolumesPruned) ∧
    storeGet snapshotKind.meta exTwoVolumesPruned.snapshots "ns" "snap-logs" = none ∧
    exTwoVolumesPruned.log = [⟨.delete, "VolumeSnapshot", "ns", "snap-logs"⟩] :=
  ⟨rfl, rfl, rfl, rfl, rfl⟩

/-- C12 (amended). The pruning at the end of `ReconcileRD` retains the newest snapshot
of the namespace, not of each volume. Let the stored snapshots have unique keys and the
snapshots of the group in the namespace pairwise distinct creation timestamps, and let
`pruneOldSnapshots` return nil. Then the snapshot referenced by the `status.latestImage`
of a destination is still stored as it was if it does not carry the owner labels of the
group in that namespace or no snapshot of the group in the namespace is newer; if it
carries them and a newer one exists, whatever is left under its key is marked deleted. -/
theorem prune_retains_newest_of_namespace (v : VSHandler) (ns : String) (w w1 : World)
    (hkeys : UniqueKeys w.snapshots)
    (hdist : (prunable v ns w).Pairwise
      (fun a b => a.ObjectMeta.CreationTimestamp ≠ b.ObjectMeta.CreationTimestamp))
    (h : v.pruneOldSnapshots ns w = some (none, w1)) :
    ∀ rd ∈ w.rds, ∀ st li s, rd.Status = some st → st.LatestImage = some li →
      storeGet snapshotKind.meta w.snapshots rd.ObjectMeta.Namespace li.Name = some s →
      ((s ∉ prunable v ns w ∨ ∀ t ∈ prunable v ns w,
          t.ObjectMeta.CreationTimestamp ≤ s.ObjectMeta.CreationTimestamp) → s ∈ w1.snapshots) ∧
      (s ∈ prunable v ns w → (∃ t ∈ prunable v ns w,
          s.ObjectMeta.CreationTimestamp < t.ObjectMeta.CreationTimestamp) →
        ∀ y ∈ w1.snapshots,
          hasKey y.ObjectMeta s.ObjectMeta.Namespace s.ObjectMeta.Name = true →
          metaIsDeleted y.ObjectMeta = true) := by
  intro rd _ st li s _ _ hs
  have hsw : s ∈ w.snapshots := storeGet_mem hs
  have hsub : ∀ s ∈ prunable v ns w, s ∈ w.snapshots := fun s hs => (List.mem_filter.mp hs).1
  obtain ⟨hfew, hmany⟩ := pruneOldSnapshots_post v ns w w1 h
  by_cases hlen : (prunable v ns w).length ≤ 1
  · rw [hfew hlen]
    refine ⟨fun _ => hsw, ?_⟩
    rintro hin ⟨t, ht, hlt⟩
    have hne : s ≠ t := by
      rintro rfl
      exact absurd hlt (Nat.lt_irrefl _)
    have := two_le_length_of_ne hin ht hne
    omega
  · obtain ⟨doomed, newest, hsplit, hp⟩ := hmany (by omega)
    obtain ⟨hin, hmax, hdoomed, hkey, hlt⟩ :=
      sorted_split_newest v ns w doomed newest hkeys hdist hsplit
    constructor
    · intro hkeep
      apply hp.keeps s hsw
      intro d hd
      cases hk : hasKey s.ObjectMeta d.ObjectMeta.Namespace d.ObjectMeta.Name with
      | false => rfl
      | true =>
        have hkk := (hasKey_iff _ _ _).mp hk
        have hd1 := ((hdoomed d).mp hd).1
        have heq := hkeys s hsw d (hsub _ hd1) hkk.1 hkk.2
        subst heq
        rcases hkeep with hnot | hnewer
        · exact absurd hd1 hnot
        · have h1 := hlt s hd
          have h2 := hnewer newest hin
          omega
    · rintro hsin ⟨t, ht, hst⟩
      have hne : s ≠ newest := by
        rintro rfl
        have := hmax t ht
        omega
      exact hp.gone s ((hdoomed s).mpr ⟨hsin, hne⟩)

/-- C12 (witness). On the cluster with the two volumes the latest image of `data`, the
newest snapshot of the namespace, is retained, and the one of `logs` is deleted. -/
theorem prune_retains_newest_of_namespace_witness :
    (((exDataSnapshot ∉ prunable exHandler "ns" exTwoVolumesWorld ∨
        ∀ t ∈ prunable exHandler "ns" exTwoVolumesWorld,
          t.ObjectMeta.CreationTimestamp ≤ exDataSnapshot.ObjectMeta.CreationTimestamp) →
        exDataSnapshot ∈ exTwoVolumesPruned.snapshots) ∧
      (exDataSnapshot ∈ prunable exHandler "ns" exTwoVolumesWorld →
        (∃ t ∈ prunable exHandler "ns" exTwoVolumesWorld,
          exDataSnapshot.ObjectMeta.CreationTimestamp < t.ObjectMeta.CreationTimestamp) →
        ∀ y ∈ exTwoVolumesPruned.snapshots,
          hasKey y.ObjectMeta exDataSnapshot.ObjectMeta.Namespace exDataSnapshot.ObjectMeta.Name = true →
          metaIsDeleted y.ObjectMeta = true)) ∧
    exTwoVolumesPruned.snapshots = [exDataSnapshot] :=
  ⟨prune_retains_newest_of_namespace exHandler "ns" exTwoVolumesWorld exTwoVolumesPruned
      (by decide) (by decide) rfl exDataRD (by decide) _ _ exDataSnapshot rfl rfl rfl,
   rfl⟩

/-- C13. `CleanupRDNotInSpecList` deletes exactly the superseded destinations. Every
call it issues is the delete of a destination that carries the owner labels of the
group and is superseded (its name and namespace match no entry of `rdSpecList` and it
does not carry `volsync.backube/do-not-delete=true`) or, if `repState` is Secondary,
the delete of the claim named like such a destination; if `repState` is not Secondary
the claims are as they were. When it returns nil, a delete was issued for every such
destination and, if `repState` is Secondary, whatever is left under the name of such a
destination among the claims is marked deleted. Without client failures it returns
nil. -/
theorem cleanup_deletes_exactly_superseded (v : VSHandler)
    (rdSpecList : List VolSyncReplicationDestinationSpec) (repState : ReplicationState)
    (w : World) :
    (∀ r w1, v.CleanupRDNotInSpecList rdSpecList repState w = some (r, w1) →
      ∃ l, w1.log = w.log ++ l ∧
        (∀ c ∈ l,
          (∃ rd ∈ w.rds, v.ownedBy rd.ObjectMeta = true ∧ superseded rdSpecList rd = true ∧
            c = destinationDelete rd) ∨
          (repState = ReplicationState.Secondary ∧
            ∃ rd ∈ w.rds, v.ownedBy rd.ObjectMeta = true ∧ superseded rdSpecList rd = true ∧
              c = claimDelete rd)) ∧
        (repState ≠ ReplicationState.Secondary → w1.pvcs = w.pvcs) ∧
        (r = none →
          (∀ rd ∈ w.rds, v.ownedBy rd.ObjectMeta = true → superseded rdSpecList rd = true →
            destinationDelete rd ∈ l) ∧
          (repState = ReplicationState.Secondary →
            ∀ rd ∈ w.rds, v.ownedBy rd.ObjectMeta = true → superseded rdSpecList rd = true →
              ∀ x ∈ w1.pvcs,
                hasKey x.ObjectMeta rd.ObjectMeta.Namespace rd.ObjectMeta.Name = true →
                metaIsDeleted x.ObjectMeta = true))) ∧
    (NoFaults w → ∃ w1, v.CleanupRDNotInSpecList rdSpecList repState w = some (none, w1)) := by
  have hmem : ∀ rd, rd ∈ (rdKind.objs w).filter (fun o =>
      (("" : String) == "" || (rdKind.meta o).Namespace == "") && v.ownedBy (rdKind.meta o)) ↔
      rd ∈ w.rds ∧ v.ownedBy rd.ObjectMeta = true := by
    intro rd
    rw [List.mem_filter]
    simp only [beq_self_eq_true, Bool.true_or, Bool.true_and]
    rfl
  constructor
  · intro r w1 h
    unfold VSHandler.CleanupRDNotInSpecList VSHandler.listRDByOwner VSHandler.listByOwner at h
    rw [M.bind_eq_some] at h
    obtain ⟨g, wa, hl, h⟩ := h
    obtain ⟨hwa, hg⟩ := clientList_inv hl
    subst hwa
    rcases hg with rfl | rfl
    · simp only [M.pure_run, Option.some.injEq, Prod.mk.injEq] at h
      obtain ⟨rfl, rfl⟩ := h
      exact ⟨[], by simp [World.tick], by simp, fun _ => rfl, fun hr => absurd hr (by simp)⟩
    · dsimp only at h
      obtain ⟨l, hs⟩ := CleanupRDNotInSpecList_loop_post _ _ _ _ _ _ h
      refine ⟨l, hs.log, ?_, hs.claims, ?_⟩
      · intro c hc
        rcases hs.only c hc with ⟨rd, hrd, hsup, he⟩ | ⟨hst, rd, hrd, hsup, he⟩
        · exact Or.inl ⟨rd, ((hmem rd).mp hrd).1, ((hmem rd).mp hrd).2, hsup, he⟩
        · exact Or.inr ⟨hst, rd, ((hmem rd).mp hrd).1, ((hmem rd).mp hrd).2, hsup, he⟩
      · intro hr
        refine ⟨?_, ?_⟩
        · intro rd hrd hown hsup
          exact hs.every hr rd ((hmem rd).mpr ⟨hrd, hown⟩) hsup
        · intro hst rd hrd hown hsup
          exact hs.gone hr hst rd ((hmem rd).mpr ⟨hrd, hown⟩) hsup
  · intro hf
    unfold VSHandler.CleanupRDNotInSpecList VSHandler.listRDByOwner VSHandler.listByOwner
    rw [M.bind_run, clientList_run (hf _)]
    exact CleanupRDNotInSpecList_loop_runs _ _ _ _ (fun n => hf n)

/-- C13 (witness). As a Secondary with `data` in the spec list, the only calls are the
deletes of the destination `old` and of its claim: the destination of `data`, the
protected local destination and the destination of another group stay. -/
theorem cleanup_deletes_exactly_superseded_witness :
    exHandler.CleanupRDNotInSpecList [exRDSpec] ReplicationState.Secondary exSweepWorld
      = some (none, exSweptWorld) ∧
    exSweptWorld.log = [destinationDelete exOldRD, claimDelete exOldRD] ∧
    exSweptWorld.rds = [exReadyRD, exKeptRD, exForeignRD] ∧
    exSweptWorld.pvcs = [exPVC] ∧
    (∃ l, exSweptWorld.log = exSweepWorld.log ++ l ∧ destinationDelete exOldRD ∈ l ∧
      ∀ x ∈ exSweptWorld.pvcs, hasKey x.ObjectMeta "ns" "old" = true →
        metaIsDeleted x.ObjectMeta = true) ∧
    ∃ w1, exHandler.CleanupRDNotInSpecList [exRDSpec] ReplicationState.Secondary exSweepWorld
      = some (none, w1) :=
  ⟨rfl, rfl, rfl, rfl,
    (fun ⟨l, hlog, _, _, hnone⟩ =>
      ⟨l, hlog, (hnone rfl).1 exOldRD (by decide) rfl rfl,
        (hnone rfl).2 rfl exOldRD (by decide) rfl rfl⟩)
      ((cleanup_deletes_exactly_superseded exHandler [exRDSpec] ReplicationState.Secondary
        exSweepWorld).1 none exSweptWorld rfl),
    (cleanup_deletes_exactly_superseded exHandler [exRDSpec] ReplicationState.Secondary
      exSweepWorld).2 (fun _ => rfl)⟩

/-- C14. Immutable data-source conflict in `ensurePVCFromSnapshot`. Let the
application's claim be stored (with its creation timestamp set) and the lookup of it
succeed. If its data source does not match the desired snapshot reference (same kind
and name), the call returns the error that asks for a recreation, the only call it
issues is a delete of the claim, and every claim still stored has the spec it had. If
its data source matches, the call returns, issues no delete (at most an update of the
claim), and an error it returns is the failure of that update. -/
theorem immutable_data_source_conflict (v : VSHandler) (rdSpec : VolSyncReplicationDestinationSpec)
    (snapshotRef : TypedLocalObjectReference) (snapRestoreSize : Option Quantity) (w : World)
    (pvc0 : PersistentVolumeClaim)
    (hf : w.faults w.calls = false)
    (hget : storeGet pvcKind.meta w.pvcs rdSpec.ProtectedPVC.Namespace rdSpec.ProtectedPVC.Name
      = some pvc0)
    (hts : pvc0.ObjectMeta.CreationTimestamp ≠ 0) :
    ((¬ ∃ d, pvc0.Spec.DataSource = some d ∧ d.Kind = snapshotRef.Kind ∧ d.Name = snapshotRef.Name) →
      ∃ wd, v.ensurePVCFromSnapshot rdSpec snapshotRef snapRestoreSize w =
          some ((none, some (.msg ("pvc has incorrect datasource, will need to delete and recreate, pvc: "
            ++ rdSpec.ProtectedPVC.Name))), wd) ∧
        wd.log = w.log ++ [⟨.delete, "PersistentVolumeClaim", rdSpec.ProtectedPVC.Namespace,
          rdSpec.ProtectedPVC.Name⟩] ∧
        ∀ x ∈ wd.pvcs, ∃ x0 ∈ w.pvcs, x.Spec = x0.Spec ∧
          x.ObjectMeta.Name = x0.ObjectMeta.Name ∧ x.ObjectMeta.Namespace = x0.ObjectMeta.Namespace) ∧
    ((∃ d, pvc0.Spec.DataSource = some d ∧ d.Kind = snapshotRef.Kind ∧ d.Name = snapshotRef.Name) →
      ∃ r wd, v.ensurePVCFromSnapshot rdSpec snapshotRef snapRestoreSize w = some (r, wd) ∧
        (r.2 = none ∨ (r.2 = some .transient ∧ w.faults (w.calls + 1) = true)) ∧
        ∃ l, wd.log = w.log ++ l ∧ ∀ c ∈ l, c.verb ≠ .delete) := by
  have hk := (hasKey_iff _ _ _).mp (storeGet_hasKey hget)
  constructor
  · intro hno
    have hmis : objectRefMatches pvc0.Spec.DataSource (some snapshotRef) = false := by
      cases hm : objectRefMatches pvc0.Spec.DataSource (some snapshotRef) with
      | false => rfl
      | true => exact absurd ((objectRefMatches_iff _ _).mp hm) hno
    rw [ensurePVCFromSnapshot_mismatch v rdSpec snapshotRef snapRestoreSize w pvc0 hf hget hts hmis]
    obtain ⟨r, wd, hd, hlog, hspec⟩ := clientDelete_pvc_effect pvc0 w.tick
    refine ⟨wd, ?_, ?_, hspec⟩
    · rw [hd]
      show some ((none, some (Err.msg (_ ++ pvc0.ObjectMeta.Name))), wd) = _
      rw [show pvc0.ObjectMeta.Name = rdSpec.ProtectedPVC.Name from hk.2]
    · rw [hlog]
      rw [show pvc0.ObjectMeta.Name = rdSpec.ProtectedPVC.Name from hk.2,
        show pvc0.ObjectMeta.Namespace = rdSpec.ProtectedPVC.Namespace from hk.1]
      rfl
  · intro hyes
    have hmatch := (objectRefMatches_iff _ _).mpr hyes
    obtain ⟨r, wd, hrun, herr, hlog⟩ :=
      ensurePVCFromSnapshot_match v rdSpec snapshotRef snapRestoreSize w pvc0 hf hget hmatch
    refine ⟨r, wd, hrun, herr, ?_⟩
    rcases hlog with hlog | hlog
    · exact ⟨[], by rw [hlog]; simp, by simp⟩
    · refine ⟨_, hlog, ?_⟩
      intro c hc
      rw [List.mem_singleton] at hc
      rw [hc]
      exact fun h => Verb.noConfusion h

/-- C14 (witness). The stale claim of the snapshot `snap0` is stored and the desired
snapshot is `snap1`: the call fails and issues the delete of the claim. -/
theorem immutable_data_source_conflict_witness :
    ∃ wd, exHandler.ensurePVCFromSnapshot exRDSpec exSnapshotRef none exStaleWorld =
        some ((none, some (.msg ("pvc has incorrect datasource, will need to delete and recreate, pvc: "
          ++ exRDSpec.ProtectedPVC.Name))), wd) ∧
      wd.log = exStaleWorld.log ++ [⟨.delete, "PersistentVolumeClaim", exRDSpec.ProtectedPVC.Namespace,
        exRDSpec.ProtectedPVC.Name⟩] ∧
      ∀ x ∈ wd.pvcs, ∃ x0 ∈ exStaleWorld.pvcs, x.Spec = x0.Spec ∧
        x.ObjectMeta.Name = x0.ObjectMeta.Name ∧ x.ObjectMeta.Namespace = x0.ObjectMeta.Namespace :=
  (immutable_data_source_conflict exHandler exRDSpec exSnapshotRef none exStaleWorld exStalePVC
    rfl rfl (by decide)).1 (by decide)

/-- C15. Restore size. When `ensurePVCFromSnapshot` returns a claim that is not bound
(one it created, or a stored one it brought up to date), the storage request of that
claim is the capacity requested in the protected-PVC spec (zero when the spec requests
none) if the snapshot reports no restore size, and the larger of that capacity and the
restore size otherwise; on a cluster whose claims are storable the returned claim is
the one stored under the name of the protected claim. -/
theorem restore_size_of_unbound_claim (v : VSHandler) (rdSpec : VolSyncReplicationDestinationSpec)
    (snapshotRef : TypedLocalObjectReference) (snapRestoreSize : Option Quantity) (w wd : World)
    (pvc : PersistentVolumeClaim)
    (h : v.ensurePVCFromSnapshot rdSpec snapshotRef snapRestoreSize w = some ((some pvc, none), wd))
    (hunbound : pvc.Phase ≠ ClaimBound) :
    (snapRestoreSize = none →
      pvc.Spec.Requests = some (rdSpec.ProtectedPVC.Requests.getD 0)) ∧
    (∀ r, snapRestoreSize = some r →
      pvc.Spec.Requests = some (max (rdSpec.ProtectedPVC.Requests.getD 0) r)) ∧
    ((∀ x ∈ w.pvcs, Storable x.ObjectMeta) →
      storeGet pvcKind.meta wd.pvcs rdSpec.ProtectedPVC.Namespace rdSpec.ProtectedPVC.Name
        = some pvc) := by
  obtain ⟨hns, hname⟩ := restoredPVCKey_key rdSpec
  unfold VSHandler.ensurePVCFromSnapshot at h
  change (CreateOrUpdateWith pvcKind (restoredPVCKey rdSpec) false _ >>= _) w = _ at h
  rw [M.bind_eq_some] at h
  obtain ⟨⟨op, o1, flag, err⟩, wa, hcou, h⟩ := h
  cases err with
  | some e => simp at h
  | none =>
    dsimp only at h
    cases flag with
    | true =>
      simp only [if_true] at h
      rw [M.bind_eq_some] at h
      obtain ⟨r, wb, -, h⟩ := h
      simp at h
    | false =>
      simp only [Bool.false_eq_true, if_false, M.pure_run, Option.some.injEq, Prod.mk.injEq,
        and_true] at h
      obtain ⟨ho, hw⟩ := h
      subst ho hw
      have hreq : o1.Spec.Requests = VSHandler.restoreCapacity rdSpec snapRestoreSize := by
        rcases CreateOrUpdateWith_ok hcou with ⟨o0, -, hf⟩ | ⟨-, o2, hf, ho2⟩
        · obtain ⟨-, -, -, hph, hcase⟩ := mutateRestoredPVC_inv _ _ _ _ _ _ _ hf
          rcases hcase with ⟨hs, -⟩ | ⟨-, -, hreq⟩
          · exact absurd hs (by decide)
          · exact (hreq (by rw [← hph]; exact hunbound)).1
        · obtain ⟨-, -, -, hph, hcase⟩ := mutateRestoredPVC_inv _ _ _ _ _ _ _ hf
          have hph2 : o1.Phase = o2.Phase := by rw [ho2]; rfl
          have hsp2 : o1.Spec = o2.Spec := by rw [ho2]; rfl
          rcases hcase with ⟨hs, -⟩ | ⟨-, -, hreq⟩
          · exact absurd hs (by decide)
          · rw [hsp2]
            exact (hreq (by rw [← hph, ← hph2]; exact hunbound)).1
      rw [restoreCapacity_eq] at hreq
      refine ⟨?_, ?_, ?_⟩
      · intro hnone
        rw [hreq, hnone]
      · intro r hr
        rw [hreq, hr]
      · intro hwf
        have hplain := CreateOrUpdateWith_plain hcou
        have hok := CreateOrUpdate_ok (K := pvcKind) pvcKind_lawful (fun _ _ => rfl) (fun _ => rfl)
          hplain hwf (by
            intro o o2 hm
            simp only [Option.map_eq_some', Prod.mk.injEq, Prod.exists] at hm
            obtain ⟨a, b, c, hm, rfl, rfl⟩ := hm
            exact mutateRestoredPVC_meta _ _ _ _ _ _ _ _ hm)
        rw [hns, hname] at hok
        exact hok.1

/-- C15 (witness). For the protected claim requesting 1 and a snapshot whose restore
size is 5, the claim created on `exBase` requests 5 and is stored. -/
theorem restore_size_of_unbound_claim_witness :
    (∀ r, some 5 = some r →
      exRestoredPVC.Spec.Requests = some (max (exRDSpec.ProtectedPVC.Requests.getD 0) r)) ∧
    exRestoredPVC.Spec.Requests = some 5 ∧
    storeGet pvcKind.meta exRestoredWorld.pvcs "ns" "data" = some exRestoredPVC :=
  ⟨(restore_size_of_unbound_claim exHandler exRDSpec exSnapshotRef (some 5) exBase exRestoredWorld
      exRestoredPVC rfl (by decide)).2.1,
   rfl, rfl⟩

/-- C16. `EnsurePVCfromRD` fails, having issued no create, update or delete and with
the claims and snapshots as they were, whenever the ReplicationDestination of the
volume does not exist, has no status, or has a `status.latestImage` that is nil, has an
empty name, or has a kind other than `VolumeSnapshot`. -/
theorem EnsurePVCfromRD_fails_without_ready_image (v : VSHandler)
    (rdSpec : VolSyncReplicationDestinationSpec) (failoverAction : Bool) (w : World)
    (h : storeGet rdKind.meta w.rds rdSpec.ProtectedPVC.Namespace rdSpec.ProtectedPVC.Name = none ∨
      ∃ rd, storeGet rdKind.meta w.rds rdSpec.ProtectedPVC.Namespace rdSpec.ProtectedPVC.Name = some rd ∧
        (rd.Status = none ∨ ∃ st, rd.Status = some st ∧
          (st.LatestImage = none ∨ ∃ li, st.LatestImage = some li ∧
            (li.Name = "" ∨ li.Kind ≠ "VolumeSnapshot")))) :
    ∃ e w1, v.EnsurePVCfromRD rdSpec failoverAction w = some (some e, w1) ∧
      w1.log = w.log ∧ w1.pvcs = w.pvcs ∧ w1.snapshots = w.snapshots := by
  unfold VSHandler.EnsurePVCfromRD
  simp only [bind, M.bind, getRDLatestImage_run]
  by_cases hf : w.faults w.calls = true
  · rw [if_pos hf]
    exact ⟨_, _, rfl, rfl, rfl, rfl⟩
  · rw [if_neg hf]
    rcases h with hnone | ⟨rd, hrd, hst⟩
    · rw [hnone]
      exact ⟨_, _, rfl, rfl, rfl, rfl⟩
    · rw [hrd]
      rcases hst with hst | ⟨st, hst, hli⟩
      · simp only [hst]
        exact ⟨_, _, rfl, rfl, rfl, rfl⟩
      · simp only [hst]
        have hready : isLatestImageReady st.LatestImage = false := by
          rcases hli with hli | ⟨li, hli, hbad⟩
          · rw [hli]; rfl
          · rw [hli]
            unfold isLatestImageReady
            rcases hbad with hbad | hbad
            · simp [hbad]
            · simp [hbad, VolumeSnapshotKind]
        simp only [hready]
        exact ⟨_, _, rfl, rfl, rfl, rfl⟩

/-- C16 (witness). On a cluster without any ReplicationDestination the call fails and
nothing is written. -/
theorem EnsurePVCfromRD_fails_without_ready_image_witness :
    ∃ e w1, exHandler.EnsurePVCfromRD exRDSpec false exBase = some (some e, w1) ∧
      w1.log = exBase.log ∧ w1.pvcs = exBase.pvcs ∧ w1.snapshots = exBase.snapshots :=
  EnsurePVCfromRD_fails_without_ready_image exHandler exRDSpec false exBase (Or.inl rfl)

/-- C17. Retry signal of `ReconcileRD`. A destination is returned only without an error
and with its address assigned. When the volume is protected by VolSync, the secret is
validated (and copied, in the admin namespace), `DeleteRS`, `PrecreateDestPVCIfEnabled`,
`createOrUpdateRD` and `ReconcileServiceExportForRD` succeed, and the destination has no
assigned address (status nil, `status.rsyncTLS` nil or its address nil), `ReconcileRD`
returns a nil destination with a nil error, the snapshots are as they were, and no call
on a VolumeSnapshot was issued. -/
theorem ReconcileRD_retry_signal (v : VSHandler) (rdSpec : VolSyncReplicationDestinationSpec) :
    (∀ w rd e w1, v.ReconcileRD rdSpec w = some ((some rd, e), w1) →
      e = none ∧ ∃ st tls a, rd.Status = some st ∧ st.RsyncTLS = some tls ∧ tls.Address = some a) ∧
    (∀ w wa wb wc wd we wf dstPVC rd,
      rdSpec.ProtectedPVC.ProtectedByVolSync = true →
      v.ValidateSecretAndAddVRGOwnerRef
        (GetVolSyncPSKSecretNameFromVRGName v.owner.ObjectMeta.Name) w = some ((true, none), wa) →
      (if v.vrgInAdminNamespace
        then v.CopySecretToPVCNamespace (GetVolSyncPSKSecretNameFromVRGName v.owner.ObjectMeta.Name)
          rdSpec.ProtectedPVC.Namespace
        else pure none) wa = some (none, wb) →
      v.DeleteRS rdSpec.ProtectedPVC.Name rdSpec.ProtectedPVC.Namespace wb = some (none, wc) →
      v.PrecreateDestPVCIfEnabled rdSpec wc = some ((dstPVC, none), wd) →
      v.createOrUpdateRD rdSpec (GetVolSyncPSKSecretNameFromVRGName v.owner.ObjectMeta.Name)
        dstPVC wd = some ((some rd, none), we) →
      v.ReconcileServiceExportForRD rd we = some (none, wf) →
      (rd.Status = none ∨ ∃ st, rd.Status = some st ∧
        (st.RsyncTLS = none ∨ ∃ tls, st.RsyncTLS = some tls ∧ tls.Address = none)) →
      v.ReconcileRD rdSpec w = some ((none, none), wf) ∧
        wf.snapshots = w.snapshots ∧
        ∃ l, wf.log = w.log ++ l ∧ ∀ c ∈ l, c.kind ≠ "VolumeSnapshot") := by
  constructor
  · intro w rd e w1 h
    unfold VSHandler.ReconcileRD at h
    split at h
    · simp at h
    · rw [M.bind_eq_some] at h
      obtain ⟨⟨secretExists, err⟩, wa, hsec, h⟩ := h
      dsimp only at h
      split at h
      · simp at h
      · rw [M.bind_eq_some] at h
        obtain ⟨err1, wb, hcopy, h⟩ := h
        cases err1 with
        | some e1 => simp at h
        | none =>
          dsimp only at h
          rw [M.bind_eq_some] at h
          obtain ⟨derr, wc, hdel, h⟩ := h
          cases derr with
          | some e1 => simp at h
          | none =>
            dsimp only at h
            rw [M.bind_eq_some] at h
            obtain ⟨⟨dstPVC, err2⟩, wd, hpre, h⟩ := h
            cases err2 with
            | some e1 => simp at h
            | none =>
              dsimp only at h
              rw [M.bind_eq_some] at h
              obtain ⟨⟨rd0, err3⟩, we, hrd, h⟩ := h
              cases err3 with
              | some e1 => simp at h
              | none =>
                dsimp only at h
                rw [M.bind_eq_some] at h
                obtain ⟨rd1, wf, hderef, h⟩ := h
                rw [M.bind_eq_some] at h
                obtain ⟨serr, wg, hexp, h⟩ := h
                cases serr with
                | some e1 => simp at h
                | none =>
                  dsimp only at h
                  split at h
                  · simp at h
                  · rename_i hready
                    rw [M.bind_eq_some] at h
                    obtain ⟨perr, wh, hprune, h⟩ := h
                    cases perr with
                    | some e1 => simp at h
                    | none =>
                      simp only [M.pure_run, Option.some.injEq, Prod.mk.injEq] at h
                      obtain ⟨⟨hrd1, he⟩, -⟩ := h
                      subst hrd1
                      refine ⟨he.symm, ?_⟩
                      have hr : RDStatusReady rd1 = true := by simpa using hready
                      unfold RDStatusReady at hr
                      cases hs : rd1.Status with
                      | none => rw [hs] at hr; simp at hr
                      | some st =>
                        rw [hs] at hr
                        dsimp only at hr
                        cases ht : st.RsyncTLS with
                        | none => rw [ht] at hr; simp at hr
                        | some tls =>
                          rw [ht] at hr
                          dsimp only at hr
                          cases ha : tls.Address with
                          | none => rw [ha] at hr; simp at hr
                          | some a => exact ⟨st, tls, a, rfl, ht, ha⟩
  · intro w wa wb wc wd we wf dstPVC rd hprot hsec hcopy hdel hpre hrd hexp hnot
    have hready : RDStatusReady rd = false := by
      unfold RDStatusReady
      rcases hnot with hs | ⟨st, hs, ht | ⟨tls, ht, ha⟩⟩
      · rw [hs]
      · rw [hs]; dsimp only; rw [ht]
      · rw [hs]; dsimp only; rw [ht]; dsimp only; rw [ha]; rfl
    refine ⟨?_, ?_, ?_⟩
    · unfold VSHandler.ReconcileRD
      simp only [hprot, Bool.not_true, Bool.false_eq_true, if_false, M.bind_run, hsec,
        Option.isSome_none, Bool.or_self, hcopy, hdel, hpre, hrd, deref_some, hexp, hready,
        Bool.not_false, if_true]
      rfl
    · have hS : ∀ (S : Mods), S = { Mods.all with snapshots := false } → Agree S w wf := by
        intro S hS
        subst hS
        have h1 := (ValidateSecretAndAddVRGOwnerRef_mods (S := { Mods.all with snapshots := false })
          v _ rfl).run _ _ _ hsec
        have h2 : Agree { Mods.all with snapshots := false } wa wb := by
          refine Modifies.run ?_ _ _ _ hcopy
          split
          · exact CopySecretToPVCNamespace_mods v _ _ rfl
          · exact Modifies.frame_pure _ _
        have h3 := (DeleteRS_mods (S := { Mods.all with snapshots := false }) v _ _ rfl).run _ _ _ hdel
        have h4 := (PrecreateDestPVCIfEnabled_mods (S := { Mods.all with snapshots := false })
          v _ rfl rfl).run _ _ _ hpre
        have h5 := (createOrUpdateRD_mods (S := { Mods.all with snapshots := false })
          v _ _ _ rfl rfl).run _ _ _ hrd
        have h6 := (ReconcileServiceExportForRD_mods (S := { Mods.all with snapshots := false })
          v _ rfl).run _ _ _ hexp
        exact ((((h1.agree_trans h2).agree_trans h3).agree_trans h4).agree_trans h5).agree_trans h6
      exact (hS _ rfl).snapshots rfl
    · have hks : ∀ c : Call, Touches ["Secret", "ReplicationSource", "PersistentVolumeClaim",
          "ReplicationDestination", "ServiceExport"] c → c.kind ≠ "VolumeSnapshot" := by
        intro c hc hk
        unfold Touches at hc
        rw [hk] at hc
        exact absurd hc (by decide)
      obtain ⟨l1, e1, p1⟩ := (show Writes (Touches ["Secret", "ReplicationSource", "PersistentVolumeClaim",
          "ReplicationDestination", "ServiceExport"]) _ from
        ValidateSecretAndAddVRGOwnerRef_touches v _ (by decide)).run _ _ _ hsec
      have hcw : Writes (Touches ["Secret", "ReplicationSource", "PersistentVolumeClaim",
          "ReplicationDestination", "ServiceExport"]) (if v.vrgInAdminNamespace
          then v.CopySecretToPVCNamespace (GetVolSyncPSKSecretNameFromVRGName v.owner.ObjectMeta.Name)
            rdSpec.ProtectedPVC.Namespace
          else pure none) := by
        split
        · exact CopySecretToPVCNamespace_touches v _ _ (by decide)
        · exact Writes.writes_pure _ _
      obtain ⟨l2, e2, p2⟩ := hcw.run _ _ _ hcopy
      obtain ⟨l3, e3, p3⟩ := (show Writes (Touches ["Secret", "ReplicationSource", "PersistentVolumeClaim",
          "ReplicationDestination", "ServiceExport"]) _ from
        DeleteRS_touches v _ _ (by decide)).run _ _ _ hdel
      obtain ⟨l4, e4, p4⟩ := (show Writes (Touches ["Secret", "ReplicationSource", "PersistentVolumeClaim",
          "ReplicationDestination", "ServiceExport"]) _ from
        PrecreateDestPVCIfEnabled_touches v _ (by decide)).run _ _ _ hpre
      obtain ⟨l5, e5, p5⟩ := (show Writes (Touches ["Secret", "ReplicationSource", "PersistentVolumeClaim",
          "ReplicationDestination", "ServiceExport"]) _ from
        createOrUpdateRD_touches v _ _ _ (by decide)).run _ _ _ hrd
      obtain ⟨l6, e6, p6⟩ := (show Writes (Touches ["Secret", "ReplicationSource", "PersistentVolumeClaim",
          "ReplicationDestination", "ServiceExport"]) _ from
        ReconcileServiceExportForRD_touches v _ (by decide)).run _ _ _ hexp
      refine ⟨l1 ++ (l2 ++ (l3 ++ (l4 ++ (l5 ++ l6)))), ?_, ?_⟩
      · rw [e6, e5, e4, e3, e2, e1]
        simp [List.append_assoc]
      · intro c hc
        simp only [List.mem_append] at hc
        rcases hc with hc | hc | hc | hc | hc | hc
        · exact hks c (p1 c hc)
        · exact hks c (p2 c hc)
        · exact hks c (p3 c hc)
        · exact hks c (p4 c hc)
        · exact hks c (p5 c hc)
        · exact hks c (p6 c hc)

/-- C17 (witness). On a cluster holding the secret and the classes, `ReconcileRD` creates
the destination of `data`, which has no status yet, and returns `(nil, nil)`. -/
theorem ReconcileRD_retry_signal_witness :
    exHandler.ReconcileRD exRDSpec exBase = some ((none, none), exServiceExported) ∧
      exServiceExported.snapshots = exBase.snapshots ∧
      ∃ l, exServiceExported.log = exBase.log ++ l ∧ ∀ c ∈ l, c.kind ≠ "VolumeSnapshot" :=
  (ReconcileRD_retry_signal exHandler exRDSpec).2 exBase exSecretValidated exSecretValidated
    exSourcesCleared exSourcesCleared exDestinationCreated exServiceExported none exNewRD
    rfl rfl rfl rfl rfl rfl rfl (Or.inl rfl)

/-- C18. Snapshot-class preference: when the handler's candidate list `items` has
non-empty names and some candidate matches the storage class,
`getVolumeSnapshotClassFromPVCStorageClass` returns a name without error; if a matching
candidate carries the annotation `snapshot.storage.kubernetes.io/is-default-class="true"`
the name is that of a matching candidate carrying that annotation, and otherwise it is
the name of the first matching candidate in list order. -/
theorem snapshot_class_preference (v : VSHandler) (sc : StorageClass)
    (items : List VolumeSnapshotClass) (w w1 : World)
    (hlist : v.GetVolumeSnapshotClasses w = some ((items, none), w1))
    (hnames : ∀ c ∈ items, c.ObjectMeta.Name ≠ "")
    (hsome : ∃ c ∈ items, classMatches sc c = true) :
    ∃ name, v.getVolumeSnapshotClassFromPVCStorageClass sc w = some ((name, none), w1) ∧
      ((∃ c ∈ items, classMatches sc c = true ∧ annotatedDefault c) →
        ∃ c ∈ items, classMatches sc c = true ∧ annotatedDefault c ∧
          name = c.ObjectMeta.Name) ∧
      ((∀ c ∈ items, classMatches sc c = true → ¬ annotatedDefault c) →
        (items.find? (classMatches sc)).map (fun c => c.ObjectMeta.Name) = some name) := by
  obtain ⟨hiff, hpick⟩ := foldl_match_empty sc items hnames
  have hne : items.foldl (VSHandler.matchVolumeSnapshotClass sc) "" ≠ "" := by
    intro h
    obtain ⟨c, hc, hm⟩ := hsome
    rw [hiff.mp h c hc] at hm
    exact absurd hm (by decide)
  refine ⟨items.foldl (VSHandler.matchVolumeSnapshotClass sc) "", ?_, ?_, ?_⟩
  · rw [getVolumeSnapshotClass_run v sc items w w1 hlist, if_neg hne]
  · rintro ⟨d, hd, hdm, hdd⟩
    rcases hpick with ⟨c, hc, hcm, hcd, heq⟩ | ⟨hno, _⟩
    · exact ⟨c, hc, hcm, (isDefaultVolumeSnapshotClass_iff c).mp hcd, heq⟩
    · have := hno d hd hdm
      rw [(isDefaultVolumeSnapshotClass_iff d).mpr hdd] at this
      exact absurd this (by decide)
  · intro hno
    rcases hpick with ⟨c, hc, hcm, hcd, _⟩ | ⟨_, heq⟩
    · exact absurd ((isDefaultVolumeSnapshotClass_iff c).mp hcd) (hno c hc hcm)
    · obtain ⟨c, hc, hm⟩ := hsome
      cases hfind : items.find? (classMatches sc) with
      | none =>
        have := List.find?_eq_none.mp hfind c hc
        exact absurd hm this
      | some x =>
        rw [heq, hfind]
        rfl

/-- C18 (witness). With a plain class, a class annotated as the default and a class of
another driver in the list, in that order, the name returned for the storage class `sc`
is `vsc-default`, the name of the annotated class, not `vsc`, the first match. -/
theorem snapshot_class_preference_witness :
    annotatedDefault exDefaultSnapshotClass ∧ ¬ annotatedDefault exSnapshotClass ∧
    classMatches exStorageClass exSnapshotClass = true ∧
    exHandler.getVolumeSnapshotClassFromPVCStorageClass exStorageClass exClassesWorld
      = some (("vsc-default", none), exClassesLoaded) := by
  refine ⟨by decide, by decide, by decide, ?_⟩
  obtain ⟨name, hrun, hdef, _⟩ := snapshot_class_preference exHandler exStorageClass
    [exSnapshotClass, exDefaultSnapshotClass, exOtherSnapshotClass] exClassesWorld exClassesLoaded
    rfl (by decide) ⟨exSnapshotClass, by decide, by decide⟩
  obtain ⟨c, hc, hm, ha, hn⟩ := hdef ⟨exDefaultSnapshotClass, by decide, by decide, by decide⟩
  have hname : name = "vsc-default" := by
    simp only [List.mem_cons, List.mem_singleton, List.not_mem_nil, or_false] at hc
    rcases hc with rfl | rfl | rfl
    · exact absurd ha (by decide)
    · exact hn
    · exact absurd hm (by decide)
  rw [hrun, hname]

/-- C19. Snapshot-class resolution fails exactly when nothing matches: when the
handler's candidate list `items` has non-empty names,
`getVolumeSnapshotClassFromPVCStorageClass` returns an error if and only if no
candidate matches the storage class (driver equal to the provisioner, storage-id label
absent, empty or equal to that of the storage class); the error names the provisioner
and comes with an empty class name. -/
theorem snapshot_class_error_iff_no_match (v : VSHandler) (sc : StorageClass)
    (items : List VolumeSnapshotClass) (w w1 : World)
    (hlist : v.GetVolumeSnapshotClasses w = some ((items, none), w1))
    (hnames : ∀ c ∈ items, c.ObjectMeta.Name ≠ "") :
    ∃ name err, v.getVolumeSnapshotClassFromPVCStorageClass sc w = some ((name, err), w1) ∧
      (err.isSome = true ↔ ∀ c ∈ items, classMatches sc c = false) ∧
      (∀ e, err = some e → name = "" ∧
        e = .msg ("unable to find matching volumesnapshotclass for storage provisioner "
          ++ sc.Provisioner)) := by
  obtain ⟨hiff, -⟩ := foldl_match_empty sc items hnames
  by_cases h : items.foldl (VSHandler.matchVolumeSnapshotClass sc) "" = ""
  · refine ⟨"", some (.msg ("unable to find matching volumesnapshotclass for storage provisioner "
      ++ sc.Provisioner)), ?_, ?_, ?_⟩
    · rw [getVolumeSnapshotClass_run v sc items w w1 hlist, if_pos h]
    · simp only [Option.isSome_some, true_iff]
      exact hiff.mp h
    · intro e he
      exact ⟨rfl, (Option.some.inj he).symm⟩
  · refine ⟨items.foldl (VSHandler.matchVolumeSnapshotClass sc) "", none, ?_, ?_, ?_⟩
    · rw [getVolumeSnapshotClass_run v sc items w w1 hlist, if_neg h]
    · simp only [Option.isSome_none, Bool.false_eq_true, false_iff]
      exact fun hall => h (hiff.mpr hall)
    · intro e he
      exact absurd he (by simp)

/-- C19 (witness). With only a snapshot class of another driver in the list, the
resolution for the storage class `sc` of the provisioner `csi` fails. -/
theorem snapshot_class_error_iff_no_match_witness :
    ∃ name err, exHandler.getVolumeSnapshotClassFromPVCStorageClass exStorageClass exNoMatchWorld
        = some ((name, err), exNoMatchLoaded) ∧
      (err.isSome = true ↔ ∀ c ∈ [exOtherSnapshotClass], classMatches exStorageClass c = false) ∧
      (∀ e, err = some e → name = "" ∧
        e = .msg ("unable to find matching volumesnapshotclass for storage provisioner "
          ++ exStorageClass.Provisioner)) :=
  snapshot_class_error_iff_no_match exHandler exStorageClass [exOtherSnapshotClass]
    exNoMatchWorld exNoMatchLoaded rfl (by decide)

/-- C20. A missing storage class is a validation error. For a storage class name that
is nil or empty, `GetVolumeSnapshotClassFromPVCStorageClass` returns an error and leaves
the state untouched (no lookup is attempted), and so do `createOrUpdateRD` and
`createOrUpdateRS` for a protected volume with that storage class name. For a name no
StorageClass of the cluster carries, the three return an error after the one lookup,
having issued no create, update or delete. -/
theorem missing_storage_class_is_validation_error (v : VSHandler) (w : World)
    (name : Option String) :
    (name = none ∨ name = some "" →
      ∃ e, v.GetVolumeSnapshotClassFromPVCStorageClass name w = some (("", some e), w) ∧
        (∀ rdSpec pskSecretName dstPVC, rdSpec.ProtectedPVC.StorageClassName = name →
          v.createOrUpdateRD rdSpec pskSecretName dstPVC w = some ((none, some e), w)) ∧
        (∀ rsSpec pskSecretName runFinalSync, rsSpec.ProtectedPVC.StorageClassName = name →
          v.createOrUpdateRS rsSpec pskSecretName runFinalSync w = some ((none, some e), w))) ∧
    (∀ n, name = some n → n ≠ "" → (∀ sc ∈ w.storageClasses, sc.ObjectMeta.Name ≠ n) →
      ∃ e, v.GetVolumeSnapshotClassFromPVCStorageClass name w = some (("", some e), w.tick) ∧
        (∀ rdSpec pskSecretName dstPVC, rdSpec.ProtectedPVC.StorageClassName = name →
          v.createOrUpdateRD rdSpec pskSecretName dstPVC w = some ((none, some e), w.tick)) ∧
        (∀ rsSpec pskSecretName runFinalSync, rsSpec.ProtectedPVC.StorageClassName = name →
          v.createOrUpdateRS rsSpec pskSecretName runFinalSync w = some ((none, some e), w.tick)) ∧
        w.tick.log = w.log ∧ w.tick.rds = w.rds ∧ w.tick.rss = w.rss) := by
  constructor
  · intro h
    have hsc := getStorageClass_unnamed v name w h
    have hG : v.GetVolumeSnapshotClassFromPVCStorageClass name w =
        some (("", some (.msg "no storageClassName given, cannot proceed")), w) := by
      unfold VSHandler.GetVolumeSnapshotClassFromPVCStorageClass
      simp only [bind, M.bind, hsc]
      rfl
    refine ⟨_, hG, ?_, ?_⟩
    · intro rdSpec psk dst hname
      unfold VSHandler.createOrUpdateRD
      simp only [bind, M.bind, hname, hG]
      rfl
    · intro rsSpec psk fs hname
      unfold VSHandler.createOrUpdateRS
      simp only [bind, M.bind, hname, hsc]
      rfl
  · intro n hname hn hmiss
    subst hname
    obtain ⟨e, hsc⟩ := getStorageClass_missing v n w hn hmiss
    have hG : v.GetVolumeSnapshotClassFromPVCStorageClass (some n) w = some (("", some e), w.tick) := by
      unfold VSHandler.GetVolumeSnapshotClassFromPVCStorageClass
      simp only [bind, M.bind, hsc]
      rfl
    refine ⟨e, hG, ?_, ?_, rfl, rfl, rfl⟩
    · intro rdSpec psk dst hname
      unfold VSHandler.createOrUpdateRD
      simp only [bind, M.bind, hname, hG]
      rfl
    · intro rsSpec psk fs hname
      unfold VSHandler.createOrUpdateRS
      simp only [bind, M.bind, hname, hsc]
      rfl

/-- C20 (witness). On a cluster whose only storage class is `sc`, a nil name fails
without a lookup, and the name `missing` fails after the lookup, for the resolution of
the snapshot class and for the creation of a destination and of a source alike. -/
theorem missing_storage_class_is_validation_error_witness :
    (∃ e, exHandler.GetVolumeSnapshotClassFromPVCStorageClass none exBase = some (("", some e), exBase) ∧
      exHandler.createOrUpdateRD { ProtectedPVC := { Name := "data", Namespace := "ns" } } "psk" none
        exBase = some ((none, some e), exBase)) ∧
    (∃ e, exHandler.GetVolumeSnapshotClassFromPVCStorageClass (some "missing") exBase
        = some (("", some e), exBase.tick) ∧
      exHandler.createOrUpdateRS
        { ProtectedPVC := { Name := "data", Namespace := "ns", StorageClassName := some "missing" } }
        "psk" false exBase = some ((none, some e), exBase.tick)) :=
  ⟨(fun ⟨e, h1, h2, _⟩ => ⟨e, h1, h2 _ _ _ rfl⟩)
     ((missing_storage_class_is_validation_error exHandler exBase none).1 (Or.inl rfl)),
   (fun ⟨e, h1, _, h3, _⟩ => ⟨e, h1, h3 _ _ _ rfl⟩)
     ((missing_storage_class_is_validation_error exHandler exBase (some "missing")).2
       "missing" rfl (by decide) (by decide))⟩

/-- C21. With access modes but no storage request, `EnsurePVCforDirectCopy` does not
return an error: it looks the claim up and, finding none, creates it without a storage
request and returns nil. -/
theorem EnsurePVCforDirectCopy_accepts_missing_capacity :
    exNoCapacityRDSpec.ProtectedPVC.AccessModes = [ReadWriteOnce] ∧
    exNoCapacityRDSpec.ProtectedPVC.Requests = none ∧
    (exHandlerDirect.EnsurePVCforDirectCopy exNoCapacityRDSpec exBase).map
        (fun r => (r.1, r.2.calls, r.2.log, r.2.pvcs)) =
      some (none, 3, [⟨.create, "PersistentVolumeClaim", "ns", "data"⟩], [exNoCapacityPVC]) :=
  ⟨rfl, rfl, rfl⟩

/-- C22. For every positive number `N` that fits a machine int, written in decimal, the
conversion succeeds on `N` followed by `m` or `M` with `*/N * * * *` and on `N` followed
by `h` or `H` with `0 */N * * *`, the digits of `N` reproduced as they are. -/
theorem minute_and_hour_intervals_map_directly (N : Nat) (_ : 0 < N) (hfit : N < 2 ^ 63) :
    ConvertSchedulingIntervalToCronSpec (toString N ++ "m") =
      (some ("*/" ++ toString N ++ " * * * *"), none) ∧
    ConvertSchedulingIntervalToCronSpec (toString N ++ "M") =
      (some ("*/" ++ toString N ++ " * * * *"), none) ∧
    ConvertSchedulingIntervalToCronSpec (toString N ++ "h") =
      (some ("0 */" ++ toString N ++ " * * *"), none) ∧
    ConvertSchedulingIntervalToCronSpec (toString N ++ "H") =
      (some ("0 */" ++ toString N ++ " * * *"), none) := by
  refine ⟨?_, ?_, ?_, ?_⟩
  · rw [Convert_decimal N hfit 'm' (by decide) "m" rfl, if_pos (by decide)]
  · rw [Convert_decimal N hfit 'M' (by decide) "M" rfl, if_pos (by decide)]
  · rw [Convert_decimal N hfit 'h' (by decide) "h" rfl, if_neg (by decide), if_pos (by decide)]
  · rw [Convert_decimal N hfit 'H' (by decide) "H" rfl, if_neg (by decide), if_pos (by decide)]

/-- C22, at the two intervals the claim names: `30m` gives `*/30 * * * *` and `6h` gives
`0 */6 * * *`. -/
theorem minute_and_hour_intervals_map_directly_witness :
    (0 < 30 ∧ 30 < 2 ^ 63 ∧ 0 < 6 ∧ 6 < 2 ^ 63) ∧
    ConvertSchedulingIntervalToCronSpec "30m" = (some "*/30 * * * *", none) ∧
    ConvertSchedulingIntervalToCronSpec "6h" = (some "0 */6 * * *", none) :=
  ⟨by decide,
   (minute_and_hour_intervals_map_directly 30 (by decide) (by decide)).1,
   (minute_and_hour_intervals_map_directly 6 (by decide) (by decide)).2.2.1⟩

/-- C23, as stated, fails: the decimal writing of `2 ^ 63`, a positive number, followed
by `d` is rejected, because the number does not fit a machine int. -/
theorem day_interval_beyond_int_counterexample :
    toString (2 ^ 63) ++ "d" = "9223372036854775808d" ∧
    ConvertSchedulingIntervalToCronSpec "9223372036854775808d" =
      (none, some (.msg
        "scheduling interval prefix 9223372036854775808 cannot be convered to an int value")) :=
  ⟨by decide, by rfl⟩

/-- C23, amended. For every positive number `N` that fits a machine int, written in
decimal, the conversion succeeds on `N` followed by `d` or `D`: with `0 0 */N * *` when
`N ≤ 28` and with `0 0 */28 * *` when `N > 28`. -/
theorem day_intervals_are_clamped (N : Nat) (_ : 0 < N) (hfit : N < 2 ^ 63) :
    (N ≤ 28 →
      ConvertSchedulingIntervalToCronSpec (toString N ++ "d") =
        (some ("0 0 */" ++ toString N ++ " * *"), none) ∧
      ConvertSchedulingIntervalToCronSpec (toString N ++ "D") =
        (some ("0 0 */" ++ toString N ++ " * *"), none)) ∧
    (N > 28 →
      ConvertSchedulingIntervalToCronSpec (toString N ++ "d") = (some "0 0 */28 * *", none) ∧
      ConvertSchedulingIntervalToCronSpec (toString N ++ "D") = (some "0 0 */28 * *", none)) := by
  have hd := Convert_decimal N hfit 'd' (by decide) "d" rfl
  have hD := Convert_decimal N hfit 'D' (by decide) "D" rfl
  rw [if_neg (by decide), if_neg (by decide), if_pos (by decide)] at hd hD
  constructor
  · intro h
    have hn : ¬ N > 28 := by omega
    rw [if_neg hn] at hd hD
    exact ⟨hd, hD⟩
  · intro h
    rw [if_pos h] at hd hD
    exact ⟨hd, hD⟩

/-- C23, amended, at the interval the claim names: `40d` gives `0 0 */28 * *`, and `7d`
gives `0 0 */7 * *`. -/
theorem day_intervals_are_clamped_witness :
    (0 < 40 ∧ 40 < 2 ^ 63 ∧ 40 > 28 ∧ 0 < 7 ∧ 7 < 2 ^ 63 ∧ 7 ≤ 28) ∧
    ConvertSchedulingIntervalToCronSpec "40d" = (some "0 0 */28 * *", none) ∧
    ConvertSchedulingIntervalToCronSpec "7d" = (some "0 0 */7 * *", none) :=
  ⟨by decide,
   ((day_intervals_are_clamped 40 (by decide) (by decide)).2 (by decide)).1,
   ((day_intervals_are_clamped 7 (by decide) (by decide)).1 (by decide)).1⟩

/-- C24. The conversion returns an error and no cron expression for every interval
shorter than two characters, or whose last character, lower-cased, is not `m`, `h` or
`d`, or whose text before the last character does not parse as a decimal integer. -/
theorem malformed_interval_is_rejected (s : String)
    (h : s.length < 2 ∨
      (∃ c, s.data.getLast? = some c ∧ c.toLower ≠ 'm' ∧ c.toLower ≠ 'h' ∧ c.toLower ≠ 'd') ∨
      Atoi (String.mk s.data.dropLast) = none) :
    ∃ e, ConvertSchedulingIntervalToCronSpec s = (none, some e) := by
  rcases Convert_error_or_success s with he | ⟨c, n, cron, hlast, hc, hA, hsuf, hok⟩
  · exact he
  · exfalso
    rcases h with h | ⟨c1, hl1, h1, h2, h3⟩ | h
    · have hd : s.data.dropLast = [] := by
        have hl : s.data.length < 2 := h
        match hs : s.data, hl with
        | [], _ => rfl
        | [_], _ => rfl
        | _ :: _ :: _, hl => simp at hl; omega
      rw [hd, Atoi_empty] at hA
      cases hA
    · rw [hlast] at hl1
      cases hl1
      rcases hsuf with e | e | e
      · exact h1 e
      · exact h2 e
      · exact h3 e
    · rw [h] at hA
      cases hA

/-- C24, at the two intervals the claim names: `2` and `5x` are rejected. -/
theorem malformed_interval_is_rejected_witness :
    "2".length < 2 ∧
    (∃ c, "5x".data.getLast? = some c ∧ c.toLower ≠ 'm' ∧ c.toLower ≠ 'h' ∧ c.toLower ≠ 'd') ∧
    (∃ e, ConvertSchedulingIntervalToCronSpec "2" = (none, some e)) ∧
    (∃ e, ConvertSchedulingIntervalToCronSpec "5x" = (none, some e)) :=
  ⟨by decide, ⟨'x', rfl, by decide, by decide, by decide⟩,
   malformed_interval_is_rejected "2" (Or.inl (by decide)),
   malformed_interval_is_rejected "5x"
     (Or.inr (Or.inl ⟨'x', rfl, by decide, by decide, by decide⟩))⟩

/-- C25, as stated, fails: the conversion succeeds on `0m` and on `-5h`, whose counts
are zero and negative. -/
theorem nonpositive_interval_counterexample :
    ConvertSchedulingIntervalToCronSpec "0m" = (some "*/0 * * * *", none) ∧
    Atoi "0" = some 0 ∧
    ConvertSchedulingIntervalToCronSpec "-5h" = (some "0 */-5 * * *", none) ∧
    Atoi "-5" = some (-5) :=
  ⟨by rfl, by rfl, by rfl, by rfl⟩

/-- C25, amended. The conversion accepts only the format integer, then `m`, `h` or `d`
in either case: for every interval on which it succeeds, the text before the final
character parses as a decimal integer that fits a machine int, of either sign, and the
final character, lower-cased, is `m`, `h` or `d`. -/
theorem accepted_interval_format (s : String) (cron : Option String)
    (h : ConvertSchedulingIntervalToCronSpec s = (cron, none)) :
    ∃ c n, s.data.getLast? = some c ∧ Atoi (String.mk s.data.dropLast) = some n ∧
      -(2 : Int) ^ 63 ≤ n ∧ n < 2 ^ 63 ∧
      (c.toLower = 'm' ∨ c.toLower = 'h' ∨ c.toLower = 'd') ∧ cron.isSome = true := by
  rcases Convert_error_or_success s with ⟨e, he⟩ | ⟨c, n, cr, hlast, hc, hA, hsuf, hok⟩
  · rw [he] at h
    cases h
  · rw [hok] at h
    cases h
    exact ⟨c, n, hlast, hA, (Atoi_range _ n hA).1, (Atoi_range _ n hA).2, hsuf, rfl⟩

/-- C25, amended, at `-5h`: the conversion succeeds, and the text before the suffix is
the integer `-5`. -/
theorem accepted_interval_format_witness :
    ConvertSchedulingIntervalToCronSpec "-5h" = (some "0 */-5 * * *", none) ∧
    ∃ c n, "-5h".data.getLast? = some c ∧ Atoi (String.mk "-5h".data.dropLast) = some n ∧
      -(2 : Int) ^ 63 ≤ n ∧ n < 2 ^ 63 ∧
      (c.toLower = 'm' ∨ c.toLower = 'h' ∨ c.toLower = 'd') ∧
      (some "0 */-5 * * *").isSome = true :=
  ⟨by rfl, accepted_interval_format "-5h" (some "0 */-5 * * *") (by rfl)⟩

/-- C26, as stated, fails in the Direct copy method: on a cluster without client
failures whose claim `ns/data` is marked deleted and held only by the protection
finalizer, the first `ReconcileRD` removes that finalizer, so the claim is gone from
the state it leaves; the second `ReconcileRD`, with the same spec on that state, issues
a create of the claim `ns/data` and leaves a new claim stored. -/
theorem reconcile_twice_direct_counterexample :
    NoFaults exDirectReleasing ∧
    exHandlerDirect.IsCopyMethodDirect = true ∧
    (exHandlerDirect.ReconcileRD exRDSpec exDirectReleasing).map
        (fun r => (r.1, r.2.pvcs, r.2.log)) =
      some ((none, none), [], [⟨.update, "Secret", "ns", "vrg-vs-secret"⟩,
        ⟨.update, "PersistentVolumeClaim", "ns", "data"⟩,
        ⟨.create, "ReplicationDestination", "ns", "data"⟩,
        ⟨.create, "ServiceExport", "ns", "volsync-rsync-tls-dst-data"⟩]) ∧
    (exHandlerDirect.ReconcileRD exRDSpec exDirectReleasing).map (fun r => r.2) =
      some exDirectReleased ∧
    (exHandlerDirect.ReconcileRD exRDSpec exDirectReleased).map
        (fun r => (r.1, r.2.pvcs.map (fun p => (p.ObjectMeta.Name, p.ObjectMeta.CreationTimestamp)),
          r.2.log.drop exDirectReleased.log.length)) =
      some ((none, none), [("data", 18)],
        [⟨.create, "PersistentVolumeClaim", "ns", "data"⟩]) :=
  ⟨fun _ => rfl, rfl, rfl, rfl, rfl⟩

/-- C26, amended. For a handler whose owner has an `apiVersion` that parses.
`ReconcileRD`, in either copy method, on every cluster state without client failures in
which the stored secrets, destinations and service exports that are marked deleted are
held by a finalizer, the snapshots of the group have pairwise distinct creation times
and, in the Direct copy method, no stored claim under the key of the spec is marked
deleted while the protection finalizer is the only finalizer holding it, and for every
spec: `ReconcileRD` returns, and invoked again with the same spec on the state it left
it returns the same result and leaves the state still: every object other than a claim
and every handler field is as it was, every claim is as it was as the API server
returns it (an empty label or annotation map reads back as nil), and every mutating
call of the second invocation is a delete or an update of a claim, so none is a create.
In the snapshot copy method the second invocation moreover leaves every object as it
is and issues deletes only. Likewise `ReconcileRS` without final sync, in either copy
method, on every cluster state without client failures in which the stored secrets and
sources that are marked deleted are held by a finalizer: the second invocation returns
the same, leaves every object and every handler field as it is and issues deletes
only; in the Direct copy method for a claim whose namespace is named, on a state in
which no two stored destinations and no two stored sources share a namespace and
name. -/
theorem reconcile_twice_still (v : VSHandler) (hp : parseGroup v.owner.APIVersion ≠ none) :
    (∀ (rdSpec : VolSyncReplicationDestinationSpec) (w : World), NoFaults w →
      StorableForRD w → DistinctSnapshotTimes v w →
      (v.IsCopyMethodDirect = true →
        ClaimHeld w rdSpec.ProtectedPVC.Namespace rdSpec.ProtectedPVC.Name) →
      ∃ r w1 w2, v.ReconcileRD rdSpec w = some (r, w1) ∧
        v.ReconcileRD rdSpec w1 = some (r, w2) ∧ Still w1 w2 ∧
        (v.IsCopyMethodDirect = false → Quiet w1 w2)) ∧
    (∀ (rsSpec : VolSyncReplicationSourceSpec) (w : World), NoFaults w → StorableForRS w →
      (v.IsCopyMethodDirect = true → rsSpec.ProtectedPVC.Namespace ≠ "" ∧
        KeysUnique rdKind w.rds ∧ KeysUnique rsKind w.rss) →
      ∃ r w1 w2, v.ReconcileRS rsSpec false w = some (r, w1) ∧
        v.ReconcileRS rsSpec false w1 = some (r, w2) ∧ Quiet w1 w2) := by
  constructor
  · intro rdSpec w hnf hst hdist hheld
    obtain ⟨r, w1, h1⟩ := (ReconcileRD_total v rdSpec).run w
    have hnf1 := ReconcileRD_noFaults v rdSpec w w1 r hnf h1
    cases hd : v.IsCopyMethodDirect with
    | false =>
      obtain ⟨w2, h2, hq⟩ := ReconcileRD_reruns v hp hd rdSpec w r w1 hnf ⟨hst, hdist⟩ h1 w1
        hnf1 (Agree.agree_refl _ _)
      exact ⟨r, w1, w2, h1, h2, hq.still, fun _ => hq⟩
    | true =>
      obtain ⟨w2, h2, hs⟩ := ReconcileRD_direct_reruns v hp hd rdSpec w r w1 hnf
        ⟨⟨hst, hdist⟩, hheld hd⟩ h1 w1 hnf1 (Agree.agree_refl _ _)
      exact ⟨r, w1, w2, h1, h2, hs, fun h => by cases h⟩
  · intro rsSpec w hnf hst hdir
    obtain ⟨r, w1, h1⟩ := (ReconcileRS_scheduled_total v rsSpec).run w
    cases hd : v.IsCopyMethodDirect with
    | false =>
      obtain ⟨w2, h2, hq⟩ := ReconcileRS_reruns v hp hd rsSpec w r w1 hnf hst h1 w1
        (ReconcileRS_noFaults v rsSpec false w w1 r hnf h1) (Agree.agree_refl _ _)
      exact ⟨r, w1, w2, h1, h2, hq⟩
    | true =>
      obtain ⟨hns, hu⟩ := hdir hd
      obtain ⟨w2, h2, hq⟩ := ReconcileRS_direct_reruns v hp hd rsSpec hns w r w1 hnf ⟨hst, hu⟩ h1
        w1 (ReconcileRS_noFaults v rsSpec false w w1 r hnf h1) (Agree.agree_refl _ _)
      exact ⟨r, w1, w2, h1, h2, hq⟩

/-- C26, amended (witness). The snapshot-copy handler on the cluster with the ready
destination, an owned source and three snapshots of the group; the direct-copy handler
on the cluster that holds no claim yet; and the direct-copy handler reconciling the
source on the cluster where the local transfer of a rollback has completed: each
reconcile returns, and repeated on the state it left returns the same and leaves the
state still. For the direct-copy `ReconcileRD` the first pass leaves `exDirectOnce`
with the created claim, and the second pass returns the same result with one mutating
call, the update of the claim `ns/data`, after which the claims read back as before. -/
theorem reconcile_twice_still_witness :
    (∃ r w1 w2, exHandler.ReconcileRD exRDSpec exSteadyWorld = some (r, w1) ∧
      exHandler.ReconcileRD exRDSpec w1 = some (r, w2) ∧ Still w1 w2 ∧
      (exHandler.IsCopyMethodDirect = false → Quiet w1 w2)) ∧
    (∃ r w1 w2, exHandlerDirect.ReconcileRD exRDSpec exBase = some (r, w1) ∧
      exHandlerDirect.ReconcileRD exRDSpec w1 = some (r, w2) ∧ Still w1 w2 ∧
      (exHandlerDirect.IsCopyMethodDirect = false → Quiet w1 w2)) ∧
    (exHandlerDirect.ReconcileRD exRDSpec exBase).map (fun r => (r.1, r.2)) =
      some ((none, none), exDirectOnce) ∧
    (exHandlerDirect.ReconcileRD exRDSpec exDirectOnce).map
        (fun r => (r.1, r.2.log.drop exDirectOnce.log.length,
          decide (r.2.pvcs.map servedPVC = exDirectOnce.pvcs.map servedPVC))) =
      some ((none, none), [⟨.update, "PersistentVolumeClaim", "ns", "data"⟩], true) ∧
    (∃ r w1 w2, exHandlerDirect.ReconcileRS exRSSpec false exRollbackDone = some (r, w1) ∧
      exHandlerDirect.ReconcileRS exRSSpec false w1 = some (r, w2) ∧ Quiet w1 w2) :=
  ⟨(reconcile_twice_still exHandler (by decide)).1 exRDSpec exSteadyWorld
      (fun _ => rfl) ⟨by decide, by decide, by decide⟩ (by decide) (by decide),
   (reconcile_twice_still exHandlerDirect (by decide)).1 exRDSpec exBase
      (fun _ => rfl) ⟨by decide, by decide, by decide⟩ (by decide) (fun _ => by decide),
   rfl, rfl,
   (reconcile_twice_still exHandlerDirect (by decide)).2 exRSSpec exRollbackDone
      (fun _ => rfl) ⟨by decide, by decide⟩ (fun _ => ⟨by decide, by decide, by decide⟩)⟩

/-- C27, as stated, fails: with the interval `5x`, which cannot be converted,
`createOrUpdateRS` called with `runFinalSync = true` creates the source with the
final-sync trigger and returns no error; and called with `runFinalSync = false` on a
cluster whose source is in the prepared state it returns `(nil, nil)`. -/
theorem unconvertible_interval_counterexample :
    ConvertSchedulingIntervalToCronSpec exBadIntervalHandler.schedulingInterval =
      (none, some (.msg "scheduling interval 5x is invalid. Unable to parse m/h/d")) ∧
    (exBadIntervalHandler.createOrUpdateRS exRSSpec "vrg-vs-secret" true exClaimWorld).map
        (fun r => (r.1.1.map (fun rs => rs.Spec.Trigger), r.1.2, r.2.log)) =
      some (some (some { Manual := FinalSyncTriggerString }), none,
        [⟨.create, "ReplicationSource", "ns", "data"⟩]) ∧
    (exBadIntervalHandler.createOrUpdateRS exRSSpec "vrg-vs-secret" false exPreparedWorld).map
        (fun r => (r.1, r.2.log)) = some ((none, none), []) :=
  ⟨rfl, rfl, rfl⟩

/-- C27, amended. The source `createOrUpdateRS` returns for claim `p` is the one it
wrote. Without final sync it has `sourcePVC = p` and a trigger holding only a schedule,
the cron expression converted from the handler's interval or the default cron string
when the interval is empty, with an empty manual token. With final sync it has
`paused = false`, `sourcePVC = p-for-finalsync` and a trigger holding only the manual
token `vrg-final-sync`, no schedule. When the interval cannot be converted and no final
sync is asked for, `createOrUpdateRS` returns no source and leaves the sources of the
cluster as they are; it returns an error unless the lookup of the source fails or finds
a source in the prepared state. -/
theorem trigger_written_per_state (v : VSHandler) (rsSpec : VolSyncReplicationSourceSpec)
    (psk : String) (runFinalSync : Bool) (w w1 : World) (r : Option ReplicationSource)
    (err : Option Err)
    (h : v.createOrUpdateRS rsSpec psk runFinalSync w = some ((r, err), w1)) :
    (∀ rs, r = some rs →
      err = none ∧
      ((∀ x ∈ w.rss, Storable x.ObjectMeta) →
        storeGet rsKind.meta w1.rss rsSpec.ProtectedPVC.Namespace
          (getReplicationSourceName rsSpec.ProtectedPVC.Name) = some rs) ∧
      (runFinalSync = false →
        rs.Spec.SourcePVC = rsSpec.ProtectedPVC.Name ∧
        ∃ cron, rs.Spec.Trigger = some { Schedule := some cron, Manual := "" } ∧
          (v.schedulingInterval = "" → cron = DefaultScheduleCronSpec) ∧
          (v.schedulingInterval ≠ "" →
            ConvertSchedulingIntervalToCronSpec v.schedulingInterval = (some cron, none))) ∧
      (runFinalSync = true →
        rs.Spec.Paused = false ∧
        rs.Spec.SourcePVC = getTmpPVCNameForFinalSync rsSpec.ProtectedPVC.Name ∧
        rs.Spec.Trigger = some { Manual := FinalSyncTriggerString, Schedule := none })) ∧
    (runFinalSync = false → (v.getScheduleCronSpec).2 ≠ none →
      r = none ∧ w1.rss = w.rss ∧
      (NoFaults w →
        (∀ rs0, storeGet rsKind.meta w.rss rsSpec.ProtectedPVC.Namespace
            (getReplicationSourceName rsSpec.ProtectedPVC.Name) = some rs0 →
          preparedForFinalSync rs0 = false) →
        err ≠ none)) := by
  rcases createOrUpdateRS_inv v rsSpec psk runFinalSync w w1 r err h with
    ⟨hr, he, hrss⟩ | ⟨sc, wb, hsetup, hrssb, hflb, hrss, hr, he⟩ |
    ⟨sc, vsc, wb, wc, op, rs1, cerr, hsetup, hrssb, hflb, hrssc, hcu, hres⟩
  · subst hr
    exact ⟨fun rs hrs => (by cases hrs), fun _ _ => ⟨rfl, hrss, fun _ _ => he⟩⟩
  · subst hr he
    refine ⟨fun rs hrs => (by cases hrs), fun hfin _ => ⟨rfl, hrss, fun hnf hnp => ?_⟩⟩
    subst hfin
    have hkey := ModifyRSSpecForCephFS_key v rsSpec sc
    have hf : wb.faults wb.calls = false := by rw [hflb]; exact hnf _
    cases hrs : storeGet rsKind.meta wb.rss rsSpec.ProtectedPVC.Namespace
        (getReplicationSourceName rsSpec.ProtectedPVC.Name) with
    | none =>
      rw [setupForFinalSync_run_missing v _ false wb hf (by rw [hkey.1, hkey.2]; exact hrs)] at hsetup
      cases hsetup
    | some rs0 =>
      rw [setupForFinalSync_run_found v _ wb rs0 hf (by rw [hkey.1, hkey.2]; exact hrs)] at hsetup
      rw [hrssb] at hrs
      rw [hnp rs0 hrs] at hsetup
      cases hsetup
  · have hkey := ModifyRSSpecForCephFS_key v rsSpec sc
    constructor
    · intro rs hrs
      rcases hres with ⟨hc, hr, he⟩ | ⟨hc, hr, he⟩
      · subst hc
        rw [hr] at hrs
        cases hrs
        refine ⟨he, ?_, ?_⟩
        · intro hwf
          exact (CreateOrUpdate_ok rsKind_lawful (fun _ _ => rfl) (fun _ => rfl) hcu
            (by intro x hx; exact hwf x (hrssc ▸ hx))
            (by
              intro o o2 ho
              simp only [Option.some.injEq] at ho
              exact mutateRS_keeps v _ psk runFinalSync vsc _ o o2 ho)).1
        · have hspec : ∃ o0 o2, v.mutateRS (v.ModifyRSSpecForCephFS rsSpec sc) psk runFinalSync vsc
              (getRemoteServiceNameForRDFromPVCName rsSpec.ProtectedPVC.Name
                rsSpec.ProtectedPVC.Namespace) o0 = (o2, none) ∧ rs1.Spec = o2.Spec := by
            rcases CreateOrUpdate_result hcu with ⟨o0, -, hf⟩ | ⟨-, o2, hf, ho⟩
            · simp only [Option.some.injEq] at hf
              exact ⟨o0, rs1, hf, rfl⟩
            · simp only [Option.some.injEq] at hf
              exact ⟨_, o2, hf, by rw [ho]; rfl⟩
          obtain ⟨o0, o2, hm, hsp⟩ := hspec
          obtain ⟨hfin, hsched⟩ := mutateRS_ok v _ psk runFinalSync vsc _ o0 o2 hm
          rw [hsp]
          constructor
          · intro hf0
            obtain ⟨hsrc, c, hc, htr⟩ := hsched hf0
            obtain ⟨cron, hcron, hdef, hconv⟩ := getScheduleCronSpec_ok v c hc
            subst hcron
            exact ⟨hsrc.trans hkey.1, cron, htr, hdef, hconv⟩
          · intro hf1
            obtain ⟨hp, hsrc, htr⟩ := hfin hf1
            exact ⟨hp, by rw [hsrc, hkey.1], htr⟩
      · rw [hr] at hrs
        cases hrs
    · intro hfin hbad
      subst hfin
      have hfail : ∀ o, ∃ o2 e, (fun o => some (v.mutateRS (v.ModifyRSSpecForCephFS rsSpec sc) psk
          false vsc (getRemoteServiceNameForRDFromPVCName rsSpec.ProtectedPVC.Name
            rsSpec.ProtectedPVC.Namespace) o)) o = some (o2, some e) := by
        intro o
        cases hg : v.getScheduleCronSpec with
        | mk c e =>
          cases e with
          | none => rw [hg] at hbad; exact absurd rfl hbad
          | some e1 =>
            obtain ⟨rs2, e2, hm⟩ := mutateRS_unconvertible v (v.ModifyRSSpecForCephFS rsSpec sc)
              psk vsc (getRemoteServiceNameForRDFromPVCName rsSpec.ProtectedPVC.Name
                rsSpec.ProtectedPVC.Namespace) o c e1 hg
            exact ⟨rs2, e2, congrArg some hm⟩
      obtain ⟨hne, hw1⟩ := CreateOrUpdate_failing hfail hcu
      rcases hres with ⟨hc, hr, he⟩ | ⟨hc, hr, he⟩
      · exact absurd hc hne
      · subst hr
        refine ⟨rfl, ?_, fun _ _ => by rw [he]; exact hc⟩
        rw [hw1]
        exact hrssc

/-- C27, amended, on the cluster holding the claim and no source: without final sync
and with no interval set, `createOrUpdateRS` creates the source of `data` with the
default schedule. -/
theorem trigger_written_per_state_witness :
    exHandler.createOrUpdateRS exRSSpec "vrg-vs-secret" false exClaimWorld =
      some ((some exDefaultScheduleRS, none), exDefaultScheduleWorld) ∧
    exDefaultScheduleRS.Spec.SourcePVC = "data" ∧
    ∃ cron, exDefaultScheduleRS.Spec.Trigger = some { Schedule := some cron, Manual := "" } ∧
      (exHandler.schedulingInterval = "" → cron = DefaultScheduleCronSpec) ∧
      (exHandler.schedulingInterval ≠ "" →
        ConvertSchedulingIntervalToCronSpec exHandler.schedulingInterval = (some cron, none)) :=
  ⟨rfl, ((trigger_written_per_state exHandler exRSSpec "vrg-vs-secret" false exClaimWorld
    exDefaultScheduleWorld (some exDefaultScheduleRS) none rfl).1 exDefaultScheduleRS rfl).2.2.1 rfl⟩

/-- C28. Without final sync and with the lookup of the source not failing,
`setupForFinalSync` says stop exactly when the source found has the manual trigger
`PREPARE-FOR-FINAL-SYNC-STOP-SCHEDULING`, and says proceed when there is no source. In
the stop case `createOrUpdateRS` returns `(nil, nil)` and `ReconcileRS` returns
`(false, nil, nil)`. A reconcile without final sync always returns, and along every
sequence of such reconciles of the claim a source in the prepared state stays stored
as it is. -/
theorem prepare_guard (v : VSHandler) (rsSpec : VolSyncReplicationSourceSpec) :
    (∀ w : World, w.faults w.calls = false →
      (∀ rs, storeGet rsKind.meta w.rss rsSpec.ProtectedPVC.Namespace
          (getReplicationSourceName rsSpec.ProtectedPVC.Name) = some rs →
        v.setupForFinalSync rsSpec false w = some (preparedForFinalSync rs, w.tick) ∧
        (preparedForFinalSync rs = true ↔
          ∃ tr, rs.Spec.Trigger = some tr ∧ tr.Manual = PrepareForFinalSyncTriggerString)) ∧
      (storeGet rsKind.meta w.rss rsSpec.ProtectedPVC.Namespace
          (getReplicationSourceName rsSpec.ProtectedPVC.Name) = none →
        v.setupForFinalSync rsSpec false w = some (false, w.tick))) ∧
    (∀ (w wa wb wc wd we wf : World) (sc : StorageClass) (vsc : String),
      rsSpec.ProtectedPVC.ProtectedByVolSync = true →
      v.ValidateSecretAndAddVRGOwnerRef
        (GetVolSyncPSKSecretNameFromVRGName v.owner.ObjectMeta.Name) w = some ((true, none), wa) →
      (if v.vrgInAdminNamespace
        then v.CopySecretToPVCNamespace (GetVolSyncPSKSecretNameFromVRGName v.owner.ObjectMeta.Name)
          rsSpec.ProtectedPVC.Namespace
        else pure none) wa = some (none, wb) →
      v.DeleteRD rsSpec.ProtectedPVC.Name rsSpec.ProtectedPVC.Namespace wb = some (none, wc) →
      v.getStorageClass rsSpec.ProtectedPVC.StorageClassName wc = some ((some sc, none), wd) →
      v.getVolumeSnapshotClassFromPVCStorageClass sc wd = some ((vsc, none), we) →
      v.setupForFinalSync (v.ModifyRSSpecForCephFS rsSpec sc) false we = some (true, wf) →
      v.createOrUpdateRS rsSpec (GetVolSyncPSKSecretNameFromVRGName v.owner.ObjectMeta.Name)
        false wc = some ((none, none), wf) ∧
      v.ReconcileRS rsSpec false w = some ((false, none, none), wf) ∧
      wf.rss = wc.rss) ∧
    (∀ w : World, ∃ res w1, v.ReconcileRS rsSpec false w = some (res, w1)) ∧
    (∀ (rs0 : ReplicationSource) (w : World) (ws : List World),
      storeGet rsKind.meta w.rss rsSpec.ProtectedPVC.Namespace
        (getReplicationSourceName rsSpec.ProtectedPVC.Name) = some rs0 →
      preparedForFinalSync rs0 = true →
      List.Chain (fun a b => ∃ (v1 : VSHandler) (spec : VolSyncReplicationSourceSpec)
          (res : Bool × Option ReplicationSource × Option Err),
        spec.ProtectedPVC.Name = rsSpec.ProtectedPVC.Name ∧
        spec.ProtectedPVC.Namespace = rsSpec.ProtectedPVC.Namespace ∧
        v1.ReconcileRS spec false a = some (res, b)) w ws →
      ∀ w1 ∈ ws, storeGet rsKind.meta w1.rss rsSpec.ProtectedPVC.Namespace
        (getReplicationSourceName rsSpec.ProtectedPVC.Name) = some rs0) := by
  refine ⟨?_, ?_, ?_, ?_⟩
  · intro w hf
    refine ⟨fun rs hrs => ⟨setupForFinalSync_run_found v rsSpec w rs hf hrs, ?_⟩,
      fun hnone => setupForFinalSync_run_missing v rsSpec false w hf hnone⟩
    unfold preparedForFinalSync
    cases rs.Spec.Trigger with
    | none => simp
    | some tr => simp
  · intro w wa wb wc wd we wf sc vsc hprot hsec hcopy hdel hsc hvsc hstop
    have hcu : v.createOrUpdateRS rsSpec (GetVolSyncPSKSecretNameFromVRGName v.owner.ObjectMeta.Name)
        false wc = some ((none, none), wf) := by
      unfold VSHandler.createOrUpdateRS
      simp only [M.bind_run, hsc, deref_some, hvsc, hstop, if_true, M.pure_run]
    refine ⟨hcu, ?_, ?_⟩
    · rw [ReconcileRS_reaches v rsSpec false w wa wb wc hprot hsec hcopy hdel]
      unfold ReconcileRS_fromValidation
      simp only [VSHandler.validatePVCForFinalSync, Bool.false_eq_true, if_false, M.bind_run,
        M.pure_run, Bool.not_true, Option.isSome_none, Bool.or_false, hcu]
    · have h1 := ((getStorageClass_mods (S := {}) v rsSpec.ProtectedPVC.StorageClassName).run
        _ _ _ hsc).rss rfl
      have h2 := ((getVolumeSnapshotClassFromPVCStorageClass_mods
        (S := { volumeSnapshotClassList := true }) v sc rfl).run _ _ _ hvsc).rss rfl
      have h3 := setupForFinalSync_scheduled_tick v _ we wf true hstop
      rw [h3]
      exact h2.trans h1
  · intro w
    obtain ⟨a, w1, h⟩ := (ReconcileRS_scheduled_total v rsSpec).run w
    exact ⟨a, w1, h⟩
  · intro rs0 w ws hrs hprep hchain
    induction ws generalizing w with
    | nil => intro w1 hw1; cases hw1
    | cons x rest ih =>
      rw [List.chain_cons] at hchain
      obtain ⟨⟨v1, spec, res, hn, hns, hrun⟩, hrest⟩ := hchain
      have hrs1 : storeGet rsKind.meta w.rss spec.ProtectedPVC.Namespace
          (getReplicationSourceName spec.ProtectedPVC.Name) = some rs0 := by
        rw [hn, hns]; exact hrs
      have hx := (ReconcileRS_keeps_prepared v1 spec w x res rs0 hrs1 hprep hrun).1
      rw [hn, hns] at hx
      intro w1 hw1
      rcases List.mem_cons.mp hw1 with rfl | hmem
      · exact hx
      · exact ih x hx hrest w1 hmem

/-- C28, on the cluster whose source is in the prepared state: two reconciles without
final sync in succession each return `(false, nil, nil)`, and the source is still there
in the prepared state after both. -/
theorem prepare_guard_witness :
    storeGet rsKind.meta exPreparedWorld.rss "ns" "data" = some exPreparedRS ∧
    preparedForFinalSync exPreparedRS = true ∧
    exHandler.ReconcileRS exRSSpec false exPreparedWorld =
      some ((false, none, none), exPreparedOnce) ∧
    exHandler.ReconcileRS exRSSpec false exPreparedOnce =
      some ((false, none, none), exPreparedTwice) ∧
    ∀ w1 ∈ [exPreparedOnce, exPreparedTwice],
      storeGet rsKind.meta w1.rss "ns" "data" = some exPreparedRS :=
  ⟨rfl, rfl, rfl, rfl,
   (prepare_guard exHandler exRSSpec).2.2.2 exPreparedRS exPreparedWorld
     [exPreparedOnce, exPreparedTwice] rfl rfl
     (List.Chain.cons ⟨exHandler, exRSSpec, (false, none, none), rfl, rfl, rfl⟩
       (List.Chain.cons ⟨exHandler, exRSSpec, (false, none, none), rfl, rfl, rfl⟩
         List.Chain.nil))⟩

/-- C29. On the released volume `pv1`, which the lookup returns and whose claim
reference is nil, `retainPVForPVC` does not complete: it fails on the nil reference. -/
theorem retainPVForPVC_fails_on_nil_claimRef :
    storeGet pvKind.meta exUnboundWorld.pvs "" exPVC.Spec.VolumeName = some exUnboundPV ∧
    exUnboundPV.Spec.ClaimRef = none ∧
    exHandler.retainPVForPVC exPVC exUnboundWorld = none :=
  ⟨rfl, rfl, rfl⟩

/-- C30. On the claim `data`, which has no annotations map, handing back the recorded
annotations does not complete: `addBackOCMAnnotationsAndUpdate` fails on the write into
the nil map. On the same claim with an empty map it returns nil and the claim carries
the recorded entry of the application manager and no other. -/
theorem addBackOCMAnnotationsAndUpdate_fails_on_nil_map :
    exPVC.ObjectMeta.Annotations = none ∧
    exHandler.addBackOCMAnnotationsAndUpdate pvcKind exPVC (some exRecordedAnnotations)
      exClaimWorld = none ∧
    (exHandler.addBackOCMAnnotationsAndUpdate pvcKind exPVCEmptyAnnotations
        (some exRecordedAnnotations) exClaimWorld).map
      (fun r => (r.1, r.2.pvcs.map (fun p => p.ObjectMeta.Annotations))) =
      some (none, [some [("apps.open-cluster-management.io/hosting-subscription", "ns/sub")]]) :=
  ⟨rfl, rfl, rfl⟩

end Volsync
